import Mathlib

/-! Lexical and syntax analyzer: embedding and verified properties.

A shallow embedding of `pythonlexer.h`, `pythonlexer.cpp` and `syntaxanalyzer.cpp`.

Conventions of the embedding.

* A `std::string` is a `List Char`; one list element is one C++ `char`.  The
  `<cctype>` predicates are those of the "C" locale, so every character
  outside ASCII is in no class.
* The pair (`source`, `pos`) of the lexer is kept as `rest`, the characters
  `source[pos..]`.  `current()` is the head of `rest` (or NUL when `rest` is
  empty), `peek()` the second element, `pos + 1 < source.size()` reads
  `1 < rest.length`, and restoring a saved `pos` restores the saved `rest`.
* `int` counters (`line`, `column`, ids) are `Int`; indentation widths are
  `Nat` (they are counted up from zero).
* A loop `while (p(current())) { s += current(); advance(); }` consumes
  `rest.takeWhile p`; loops that are not of this shape are written as
  recursive functions.  Where the recursion is not structural it is driven by
  a fuel argument; running out of fuel is reported (`none`) in the two
  outer loops, and the inner ones are given the number of remaining
  characters, which always suffices because every iteration consumes one.
* `double` arithmetic is not modelled: `evalRPN` takes the floating-point
  operations as a parameter (`DoubleArith`).
-/

namespace PyAnalyzer

/-! ## `pythonlexer.h` -/

/-- The `enum class TokenType`. -/
inductive TokenType
  | KEYWORD | IDENTIFIER | HexadecimalNumber | BinaryNumber | OCTALNUMBER | NUMBER
  | COMPLEX_NUMBER | STRING | OPERATOR
  | ADDOPERATOR | MINUSOPERATOR | MULTIPLYOPERATOR | DELIMITER | EQUALOPERATOR
  | BITOROPERATOR | BITANDOPERATOR | MULTIPLYASSIGN
  | PERCENTAGEOPERATOR | WHITESPACE | COMPAREOPERATOR | DIVIDEOPERATOR | POWEROPERATOR
  | INDENT | DEDENT | NEWLINE | COMMENT | ENDOFFILE
  | SUB_ASSIGN | ADD_ASSIGN | NOTASSIGN
  deriving DecidableEq, Repr

/-- The `struct Token`. -/
structure Token where
  lexeme : List Char
  type : TokenType
  line : Int
  column : Int
  deriving DecidableEq, Repr

/-- The `struct LexicalError`. -/
structure LexicalError where
  message : List Char
  line : Int
  column : Int
  deriving DecidableEq, Repr

/-- The `struct SymbolEntry` of `SymbolTable`. -/
structure SymbolEntry where
  id : Int
  dataType : List Char
  value : List Char
  deriving DecidableEq, Repr

/-- The `class SymbolTable`: the `unordered_map` is an association list with
one pair per key, newest last; `current_id` starts at 1. -/
structure SymbolTable where
  symbols : List (List Char × SymbolEntry) := []
  current_id : Int := 1
  deriving DecidableEq, Repr

namespace SymbolTable

/-- The `symbols.find(identifier)` of the getters. -/
def find (t : SymbolTable) (identifier : List Char) : Option SymbolEntry :=
  (t.symbols.find? (fun p => p.1 == identifier)).map Prod.snd

/-- The `symbols.count(identifier)` test. -/
def count (t : SymbolTable) (identifier : List Char) : Bool :=
  (t.find identifier).isSome

/-- `SymbolTable::addIdentifier`: the id returned and the table afterwards. -/
def addIdentifier (t : SymbolTable) (identifier : List Char) : Int × SymbolTable :=
  match t.find identifier with
  | some e => (e.id, t)
  | none =>
    (t.current_id,
      { symbols := t.symbols ++ [(identifier, ⟨t.current_id, "unknown".toList, "N/A".toList⟩)],
        current_id := t.current_id + 1 })

/-- `SymbolTable::setIdentifierInfo`. -/
def setIdentifierInfo (t : SymbolTable) (identifier dataType value : List Char) : SymbolTable :=
  { t with
    symbols := t.symbols.map (fun p =>
      if p.1 == identifier then (p.1, { p.2 with dataType := dataType, value := value }) else p) }

/-- `SymbolTable::lookup`. -/
def lookup (t : SymbolTable) (identifier : List Char) : Option Int :=
  (t.find identifier).map SymbolEntry.id

/-- `SymbolTable::getId`. -/
def getId (t : SymbolTable) (identifier : List Char) : Int :=
  match t.find identifier with
  | some e => e.id
  | none => -1

/-- `SymbolTable::getDataType`. -/
def getDataType (t : SymbolTable) (identifier : List Char) : List Char :=
  match t.find identifier with
  | some e => e.dataType
  | none => "unknown".toList

/-- `SymbolTable::getValue`. -/
def getValue (t : SymbolTable) (identifier : List Char) : List Char :=
  match t.find identifier with
  | some e => e.value
  | none => "N/A".toList

end SymbolTable

/-! ## Character classes (`<cctype>`, "C" locale) -/

/-- `std::isdigit`. -/
def isdigit (c : Char) : Bool := decide ('0' ≤ c) && decide (c ≤ '9')

/-- `std::isalpha`. -/
def isalpha (c : Char) : Bool :=
  (decide ('a' ≤ c) && decide (c ≤ 'z')) || (decide ('A' ≤ c) && decide (c ≤ 'Z'))

/-- `std::isalnum`. -/
def isalnum (c : Char) : Bool := isalpha c || isdigit c

/-- `std::isxdigit`. -/
def isxdigit (c : Char) : Bool :=
  isdigit c || (decide ('a' ≤ c) && decide (c ≤ 'f')) || (decide ('A' ≤ c) && decide (c ≤ 'F'))

/-- `std::isspace`: space, `\t`, `\n`, `\v`, `\f`, `\r`. -/
def isspace (c : Char) : Bool :=
  c == ' ' || (decide ('\t' ≤ c) && decide (c ≤ '\r'))

/-- `std::tolower` on one character. -/
def tolower (c : Char) : Char :=
  if decide ('A' ≤ c) && decide (c ≤ 'Z') then Char.ofNat (c.toNat + 32) else c

/-- The helper `toLower`. -/
def toLower (str : List Char) : List Char := str.map tolower

/-- The NUL character returned by `current()` and `peek()` past the end. -/
def NUL : Char := Char.ofNat 0

/-- `s.find(pat) != std::string::npos`. -/
def hasInfix (pat : List Char) : List Char → Bool
  | [] => pat.isEmpty
  | c :: cs => pat.isPrefixOf (c :: cs) || hasInfix pat cs

/-- `std::to_string` of an `int` or a `long long`. -/
def intToString (z : Int) : List Char := (toString z).toList

/-! ## `pythonlexer.cpp`: the lexer state -/

/-- The mutable members of `class PythonLexer`, with `rest` for
(`source`, `pos`), and `indentStack` for the `static` vector local to
`handleIndentation` (stored top first: `indentStack.back()` is the head).
The members `indentStack`, `currentIndent` and `atStartOfLine` of the class
are never read or written by the code and are left out. -/
structure PythonLexer where
  rest : List Char
  line : Int := 1
  column : Int := 1
  symbolTable : SymbolTable := {}
  tokens : List Token := []
  errors : List LexicalError := []
  typeAnnotations : List (List Char × List Char) := []
  isFunctionCall : Bool := false
  addedBuiltins : List (List Char) := []
  indentStack : List Nat := [0]
  deriving DecidableEq, Repr

namespace PythonLexer

/-- `current()`. -/
def current (L : PythonLexer) : Char := L.rest.headD NUL

/-- `peek()`. -/
def peek (L : PythonLexer) : Char := L.rest.tail.headD NUL

/-- `PythonLexer::advance`. -/
def advance (L : PythonLexer) : PythonLexer :=
  match L.rest with
  | [] => { L with column := L.column + 1 }
  | c :: cs =>
    if c = '\n' then { L with rest := cs, line := L.line + 1, column := 1 }
    else { L with rest := cs, column := L.column + 1 }

/-- `n` calls of `advance()`. -/
def advanceN : Nat → PythonLexer → PythonLexer
  | 0, L => L
  | n + 1, L => advanceN n (advance L)

/-- `PythonLexer::addToken`. -/
def addToken (L : PythonLexer) (lexeme : List Char) (type : TokenType) : PythonLexer :=
  { L with tokens := L.tokens ++ [⟨lexeme, type, L.line, L.column - (lexeme.length : Int)⟩] }

/-- `PythonLexer::addError`. -/
def addError (L : PythonLexer) (message : List Char) : PythonLexer :=
  { L with errors := L.errors ++ [⟨message, L.line, L.column⟩] }

/-- `PythonLexer::isOperatorChar`. -/
def isOperatorChar (c : Char) : Bool := "+-*/%=&|<>!^~.".toList.contains c

/-- `PythonLexer::isDelimiter`. -/
def isDelimiter (c : Char) : Bool := ":,;()[]{}@".toList.contains c

/-- The loop condition `isalnum(current()) || current() == '_'`. -/
def isWordChar (c : Char) : Bool := isalnum c || c == '_'

/-- The loop condition `isdigit(current()) || current() == '_'`. -/
def isDigitOrUnderscore (c : Char) : Bool := isdigit c || c == '_'

/-- The loop `while (isalnum(current()) || current() == '_') { s += current(); advance(); }`
with nothing else in its body: the characters appended and the state afterwards. -/
def takeWord (L : PythonLexer) : List Char × PythonLexer :=
  (L.rest.takeWhile isWordChar, L.advanceN (L.rest.takeWhile isWordChar).length)

/-! ### `processNumber` -/

/-- The lambda `validateUnderscores` of `processNumber`. -/
def validateUnderscores (num : List Char) : Bool :=
  if num.isEmpty then true
  else if num.head? == some '_' || num.getLast? == some '_' || hasInfix "__".toList num then false
  else true

/-- The value of a flag set by `if (isdigit(current())) flag = true;` placed
AFTER `advance()` in the body of a digit-or-underscore loop (the fractional
and the exponent loops): the loop is started on the given characters. -/
def digitSeenAfterAdvance : List Char → Bool
  | [] => false
  | c :: cs =>
    if isDigitOrUnderscore c then isdigit (cs.headD NUL) || digitSeenAfterAdvance cs else false

/-- The characters consumed by the loop `while (current() == '.')` of
`processNumber` (each round takes the point and the digits and underscores
after it), started on the given characters. -/
def extraPoints : Nat → List Char → List Char
  | 0, _ => []
  | fuel + 1, cs =>
    match cs with
    | [] => []
    | c :: cs' =>
      if c = '.' then
        c :: (cs'.takeWhile isDigitOrUnderscore ++
          extraPoints fuel (cs'.dropWhile isDigitOrUnderscore))
      else []

/-- The index `ePos` computed in the underscore checks of `processNumber`:
`num.find('e')` if there is one, else `num.find('E')` (`npos` is `none`). -/
def findEPos (num : List Char) : Option Nat :=
  if num.contains 'e' then some (num.indexOf 'e')
  else if num.contains 'E' then some (num.indexOf 'E') else none

/-- Lines 328-362 of `processNumber`: the complex suffix, the trailing
characters and the final token. -/
def numberTail (L : PythonLexer) (num : List Char) (hasExponent hasDecimal : Bool) :
    PythonLexer :=
  if L.current = 'j' ∨ L.current = 'J' then
    let num := num ++ [L.current]
    let L := L.advance
    let L := L.addError ("Invalid token: ".toList ++ num ++
      " (complex numbers are not supported)".toList)
    (takeWord L).2
  else if isalpha L.current || L.current == '_' then
    let w := takeWord L
    w.2.addError ("Invalid number: ".toList ++ (num ++ w.1) ++
      " (invalid trailing characters)".toList)
  else if hasExponent || hasDecimal then
    L.addToken num TokenType.NUMBER
  else if decide (1 < num.length) && num.head? == some '0' &&
      (num.tail.head? == some 'o' || num.tail.head? == some 'O') then
    L.addToken num TokenType.OCTALNUMBER
  else
    L.addToken num TokenType.NUMBER

/-- Lines 299-326 of `processNumber`: the underscore checks of a decimal
number; `none` when no check fails, else the error message. -/
def underscoreError (num : List Char) (hasExponent hasDecimal : Bool) : Option (List Char) :=
  if hasInfix "_".toList num then
    if !validateUnderscores num then
      some ("Invalid underscore placement in number: ".toList ++ num)
    else if hasDecimal && (hasInfix "._".toList num || hasInfix "_.".toList num) then
      some ("Invalid underscore placement in number: ".toList ++ num ++
        " (underscore adjacent to decimal point)".toList)
    else if hasExponent then
      -- `ePos` is `npos` when there is no `e`; `hasExponent` excludes that
      let ePos := (findEPos num).getD num.length
      if decide (0 < ePos) && num.get? (ePos - 1) == some '_' then
        some ("Invalid underscore placement in number: ".toList ++ num ++
          " (underscore before 'e'/'E')".toList)
      else if decide (ePos + 1 < num.length) && num.get? (ePos + 1) == some '_' then
        some ("Invalid underscore placement in number: ".toList ++ num ++
          " (underscore after 'e'/'E')".toList)
      else if decide (ePos + 2 < num.length) &&
          (num.get? (ePos + 1) == some '+' || num.get? (ePos + 1) == some '-') &&
          num.get? (ePos + 2) == some '_' then
        some ("Invalid underscore placement in number: ".toList ++ num ++
          " (underscore after exponent sign)".toList)
      else none
    else none
  else none

/-- The doubled-sign test of lines 290-293. -/
def hasDoubledSign (num : List Char) : Bool :=
  hasInfix "e--".toList num || hasInfix "E--".toList num ||
  hasInfix "e++".toList num || hasInfix "E++".toList num ||
  hasInfix "e+-".toList num || hasInfix "E+-".toList num ||
  hasInfix "e-+".toList num || hasInfix "E-+".toList num

/-- Lines 267-326 of `processNumber`: the exponent, then the underscore
checks, then `numberTail`. -/
def numberExponent (L : PythonLexer) (num : List Char) (hasDecimal : Bool) : PythonLexer :=
  if L.current = 'e' ∨ L.current = 'E' then
    let num := num ++ [L.current]
    let L := L.advance
    let sign := decide (L.current = '+' ∨ L.current = '-')
    let num := if sign then num ++ [L.current] else num
    let L := if sign then L.advance else L
    let run := L.rest.takeWhile isDigitOrUnderscore
    let hasExponentDigits := digitSeenAfterAdvance L.rest
    let num := num ++ run
    let L := L.advanceN run.length
    if !hasExponentDigits then
      L.addError ("Invalid scientific notation: ".toList ++ num ++
        " (missing exponent digits)".toList)
    else if hasDoubledSign num then
      L.addError ("Invalid scientific notation: ".toList ++ num ++
        " (invalid exponent sign combination)".toList)
    else
      match underscoreError num true hasDecimal with
      | some msg => L.addError msg
      | none => numberTail L num true hasDecimal
  else
    match underscoreError num false hasDecimal with
    | some msg => L.addError msg
    | none => numberTail L num false hasDecimal

/-- Lines 229-265 of `processNumber`: the test of `hasDigits` and the
fraction, entered after the loop over the integer digits. -/
def numberFraction (L : PythonLexer) (num : List Char) (hasDigits : Bool) : PythonLexer :=
  if !hasDigits then
    L.addError ("Invalid number: ".toList ++ num ++ " (no digits found)".toList)
  else if L.current = '.' then
    let num := num ++ ['.']
    let L := L.advance
    let frac := L.rest.takeWhile isDigitOrUnderscore
    let hasFractionalDigits := digitSeenAfterAdvance L.rest
    let num := num ++ frac
    let L := L.advanceN frac.length
    let more := extraPoints L.rest.length L.rest
    let num := num ++ more
    let L := L.advanceN more.length
    if num.indexOf '.' ≠ (num.length - 1 - num.reverse.indexOf '.') then
      L.addError ("Invalid floating-point number: ".toList ++ num ++
        " (multiple decimal points)".toList)
    else if !hasFractionalDigits && !hasDigits then
      L.addError ("Invalid floating-point number: ".toList ++ num ++
        " (no digits before or after decimal point)".toList)
    else numberExponent L num true
  else numberExponent L num false

/-- Lines 222-265 of `processNumber`: the decimal digits and the fraction,
entered with the `num` read so far (empty, or the leading `0`). -/
def numberDecimal (L : PythonLexer) (num : List Char) : PythonLexer :=
  let run := L.rest.takeWhile isDigitOrUnderscore
  numberFraction (L.advanceN run.length) (num ++ run) (run.any isdigit)

/-- One of the three prefixed branches of `processNumber` (lines 87-201),
entered after the `0` with `current()` the radix letter.  `isDig` is the
digit test of the radix, `what` the word of the messages ("hexadecimal",
"binary", "octal"), `pfx` the text "0x", "0b" or "0o" of the first message. -/
def numberRadix (L : PythonLexer) (num : List Char) (isDig : Char → Bool)
    (what pfx : List Char) (type : TokenType) : PythonLexer :=
  let num := num ++ [L.current]
  let L := L.advance
  let run := L.rest.takeWhile (fun c => isDig c || c == '_')
  let hasRadixDigits := run.any isDig
  let num := num ++ run
  let L := L.advanceN run.length
  if !hasRadixDigits then
    let L := L.addError ("Invalid ".toList ++ what ++ " number: ".toList ++ num ++
      " (no ".toList ++ what ++ " digits after ".toList ++ pfx ++ ")".toList)
    -- only the hexadecimal branch goes on to consume the trailing word
    if type = TokenType.HexadecimalNumber then (takeWord L).2 else L
  else if !validateUnderscores num then
    L.addError ("Invalid underscore placement in ".toList ++ what ++ " number: ".toList ++ num)
  else if type = TokenType.OCTALNUMBER ∧ isdigit L.current ∧
      (L.current = '8' ∨ L.current = '9') then
    let run8 := L.rest.takeWhile isdigit
    (L.advanceN run8.length).addError ("Invalid octal number: ".toList ++ (num ++ run8) ++
      " (contains digits 8 or 9)".toList)
  else if isalnum L.current || L.current == '_' then
    let w := takeWord L
    w.2.addError ("Invalid ".toList ++ what ++ " number: ".toList ++ (num ++ w.1) ++
      " (invalid trailing characters)".toList)
  else L.addToken num type

/-- `PythonLexer::processNumber`. -/
def processNumber (L : PythonLexer) : PythonLexer :=
  if L.current = '0' ∧ 1 < L.rest.length then
    let num := [L.current]
    let L := L.advance
    if L.current = 'x' ∨ L.current = 'X' then
      numberRadix L num isxdigit "hexadecimal".toList "0x".toList TokenType.HexadecimalNumber
    else if L.current = 'b' ∨ L.current = 'B' then
      numberRadix L num (fun c => c == '0' || c == '1') "binary".toList "0b".toList
        TokenType.BinaryNumber
    else if L.current = 'o' ∨ L.current = 'O' then
      numberRadix L num (fun c => decide ('0' ≤ c) && decide (c ≤ '7')) "octal".toList
        "0o".toList TokenType.OCTALNUMBER
    else if isdigit L.current && L.current != '0' then
      let num := num ++ [L.current]
      let L := L.advance
      let run := L.rest.takeWhile isDigitOrUnderscore
      (L.advanceN run.length).addError ("Invalid number: ".toList ++ (num ++ run) ++
        " (leading zeros are not allowed in decimal numbers)".toList)
    else if !isdigit L.current && L.current != '.' && L.current != 'e' && L.current != 'E' then
      L.addToken num TokenType.NUMBER
    else numberDecimal L num
  else numberDecimal L []

/-! ### `processString` -/

/-- The loop of the triple-quoted branch of `processString` (and of the
docstring branch of `processComment`), started on the given characters:
the text collected, the number of `advance()` calls, and whether the
closing triple quote was found (`false`: the NUL of the end was met). -/
def tripleLoop (quote : Char) : List Char → List Char × Nat × Bool
  | [] => ([], 0, false)
  | c :: cs =>
    if c = NUL then ([], 0, false)
    else if c = quote ∧ cs.headD NUL = quote ∧ cs.tail.head? = some quote then ([], 3, true)
    else ((c :: (tripleLoop quote cs).1), (tripleLoop quote cs).2.1 + 1, (tripleLoop quote cs).2.2)

/-- The loop of the single-quoted branch of `processString`, started on the
given characters: the text collected, the number of `advance()` calls, and
whether the loop was left by the `return` of the newline case. -/
def stringLoop (quote : Char) : List Char → List Char × Nat × Bool
  | [] => ([], 0, false)
  | c :: cs =>
    if c = quote ∨ c = NUL then ([], 0, false)
    else if c = '\n' then ([], 0, true)
    else if c = '\\' then
      match cs with
      | [] => ([], 1, false)
      | d :: ds =>
        if d = NUL then ([], 1, false)
        else ((d :: (stringLoop quote ds).1), (stringLoop quote ds).2.1 + 2,
          (stringLoop quote ds).2.2)
    else ((c :: (stringLoop quote cs).1), (stringLoop quote cs).2.1 + 1, (stringLoop quote cs).2.2)

/-- `PythonLexer::processString`. -/
def processString (L : PythonLexer) (quote : Char) : PythonLexer :=
  let startLine := L.line
  let startColumn := L.column
  let L := L.advance
  let isTriple := decide (L.current = quote ∧ L.peek = quote)
  let L := if isTriple then L.advance.advance else L
  let L :=
    if L.current = '\\' then
      let L := L.advance
      if L.current ≠ 'n' ∧ L.current ≠ 't' ∧ L.current ≠ '\\' ∧ L.current ≠ '"' ∧
          L.current ≠ '\'' then
        L.addError ("Invalid escape sequence: \\".toList ++ [L.current])
      else L
    else L
  if isTriple then
    let r := tripleLoop quote L.rest
    let L := L.advanceN r.2.1
    if r.2.2 then L.addToken r.1 TokenType.STRING
    else L.addError ("Unterminated triple-quoted string starting at line ".toList ++
      intToString startLine ++ " column ".toList ++ intToString startColumn)
  else
    let r := stringLoop quote L.rest
    let L := L.advanceN r.2.1
    if r.2.2 then
      L.addError ("Unterminated string literal starting at line ".toList ++
        intToString startLine ++ " column ".toList ++ intToString startColumn)
    else if L.current ≠ quote then
      L.addError ("Unterminated string literal starting at line ".toList ++
        intToString startLine ++ " column ".toList ++ intToString startColumn)
    else L.advance.addToken r.1 TokenType.STRING

/-! ### `processIdentifier` -/

/-- The set `keywords`. -/
def keywords : List (List Char) :=
  ["False", "None", "True", "and", "as", "assert", "async", "await",
   "break", "class", "continue", "def", "del", "elif", "else", "except",
   "finally", "for", "from", "global", "if", "import", "in", "is",
   "lambda", "nonlocal", "not", "or", "pass", "raise", "return",
   "try", "while", "with", "yield"].map String.toList

/-- The set `builtinFunctions`. -/
def builtinFunctions : List (List Char) := ["print"].map String.toList

/-- The set `typeHints`. -/
def typeHints : List (List Char) := ["int", "float", "str", "bool", "complex"].map String.toList

/-- The test `std::isspace(current()) && current() != '\n'` of the two
look-ahead loops. -/
def isInlineSpace (c : Char) : Bool := isspace c && c != '\n'

/-- Lines 466-515 of `processIdentifier`: the keyword and builtin tests and
the token, entered after the loop that reads the word. -/
def identifierToken (L : PythonLexer) (ident : List Char) : PythonLexer :=
  let lowerIdent := toLower ident
  if keywords.any (fun keyword => lowerIdent == toLower keyword) then
    L.addToken ident TokenType.KEYWORD
  else if builtinFunctions.any (fun builtin => lowerIdent == toLower builtin) then
    let L := L.addToken ident TokenType.IDENTIFIER
    if !L.addedBuiltins.contains ident then
      { L with
        symbolTable := (L.symbolTable.addIdentifier ident).2.setIdentifierInfo ident
          "function".toList "built-in".toList
        addedBuiltins := L.addedBuiltins ++ [ident] }
    else L
  else
    -- the look-ahead moves `pos` and `column` and restores both
    let isCall := decide ((L.rest.dropWhile isInlineSpace).headD NUL = '(')
    let L := { L with isFunctionCall := isCall }
    let L := if !isCall then { L with symbolTable := (L.symbolTable.addIdentifier ident).2 } else L
    L.addToken ident TokenType.IDENTIFIER

/-- Lines 461-515 of `processIdentifier`: the loop that reads the word, then
`identifierToken`, entered with the `ident` read so far. -/
def identifierWord (L : PythonLexer) (ident : List Char) : PythonLexer :=
  identifierToken (takeWord L).2 (ident ++ (takeWord L).1)

/-- `PythonLexer::processIdentifier`. -/
def processIdentifier (L : PythonLexer) : PythonLexer :=
  if isdigit L.current then
    let w := takeWord L
    w.2.addError ("Invalid identifier starts with digit: ".toList ++ w.1)
  else if L.current = '_' then
    let ident := [L.current]
    let L := L.advance
    if isdigit L.current then
      let invalid := ident ++ [L.current]
      let L := L.advance
      let w := takeWord L
      w.2.addError ("Invalid identifier starts with underscore followed by digit: ".toList ++
        (invalid ++ w.1))
    else identifierWord L ident
  else identifierWord L []

/-! ### `processComment` -/

/-- `PythonLexer::processComment`. -/
def processComment (L : PythonLexer) : PythonLexer :=
  let L :=
    if L.current = '#' then
      let L := L.advance
      let com := L.rest.takeWhile (fun c => c != '\n' && c != NUL)
      (L.advanceN com.length).addToken com TokenType.COMMENT
    else L
  if L.current = '"' ∨ L.current = '\'' then
    let quote := L.current
    let isTriple := decide (L.peek = quote ∧ 1 < L.rest.length ∧ L.rest.tail.head? = some quote)
    if isTriple then
      let L := L.advance.advance.advance
      let r := tripleLoop quote L.rest
      let L := L.advanceN r.2.1
      if r.2.2 then L.addToken r.1 TokenType.COMMENT
      else L.addError "Unterminated multi-line comment (docstring)".toList
    else L
  else L

/-! ### `handleIndentation` -/

/-- The width counted by the first loop of `handleIndentation` over the
leading spaces and tabs. -/
def indentWidth (run : List Char) : Nat :=
  (run.map (fun c => if c = '\t' then 8 else 1)).sum

/-- The loop `while (!indentStack.empty() && currentIndent < indentStack.back())`:
the number of pops and the stack afterwards. -/
def popIndents (currentIndent : Nat) : List Nat → Nat × List Nat
  | [] => (0, [])
  | top :: below =>
    if currentIndent < top then ((popIndents currentIndent below).1 + 1,
      (popIndents currentIndent below).2)
    else (0, top :: below)

/-- One `addToken("", DEDENT)` per pop. -/
def addDedents : Nat → PythonLexer → PythonLexer
  | 0, L => L
  | n + 1, L => addDedents n (L.addToken [] TokenType.DEDENT)

/-- `PythonLexer::handleIndentation`.  `indentStack.back()` of an empty
vector is undefined in C++; the model reads 0 there (the stack is never
empty when its bottom is 0). -/
def handleIndentation (L : PythonLexer) : PythonLexer :=
  let run := L.rest.takeWhile (fun c => c == ' ' || c == '\t')
  let currentIndent := indentWidth run
  let L := L.advanceN run.length
  if currentIndent > L.indentStack.headD 0 then
    { L with indentStack := currentIndent :: L.indentStack }.addToken [] TokenType.INDENT
  else if currentIndent < L.indentStack.headD 0 then
    let r := popIndents currentIndent L.indentStack
    let L := addDedents r.1 { L with indentStack := r.2 }
    if currentIndent ≠ L.indentStack.headD 0 then L.addError "Inconsistent indentation level".toList
    else L
  else L

/-! ### `processOperator` -/

/-- The message of the three rejected assignment operators. -/
def invalidAssignMsg (op : List Char) : List Char :=
  "Invalid assignment operator: ".toList ++ op ++
    " (only '=' is allowed for variable assignments)".toList

/-- `PythonLexer::processOperator`. -/
def processOperator (L : PythonLexer) : PythonLexer :=
  let c := L.current
  let next := L.peek
  if c = ':' ∧ next = '=' then ((L.addError (invalidAssignMsg ":=".toList)).advance).advance
  else if c = '=' then
    if next = '=' then ((L.addToken "==".toList TokenType.COMPAREOPERATOR).advance).advance
    else (L.addToken "=".toList TokenType.EQUALOPERATOR).advance
  else if c = '!' then
    if next = '=' then ((L.addToken "!=".toList TokenType.COMPAREOPERATOR).advance).advance
    else (L.addToken "!".toList TokenType.NOTASSIGN).advance
  else if c = '<' then
    if next = '=' then ((L.addToken "<=".toList TokenType.COMPAREOPERATOR).advance).advance
    else if next = '<' then ((L.addToken "<<".toList TokenType.OPERATOR).advance).advance
    else (L.addToken "<".toList TokenType.COMPAREOPERATOR).advance
  else if c = '>' then
    if next = '=' then ((L.addToken ">=".toList TokenType.COMPAREOPERATOR).advance).advance
    else if next = '>' then ((L.addToken ">>".toList TokenType.OPERATOR).advance).advance
    else (L.addToken ">".toList TokenType.COMPAREOPERATOR).advance
  else if c = '-' then
    if next = '=' then ((L.addToken "-=".toList TokenType.SUB_ASSIGN).advance).advance
    else (L.addToken "-".toList TokenType.MINUSOPERATOR).advance
  else if c = '+' then
    if next = '=' then ((L.addToken "+=".toList TokenType.ADD_ASSIGN).advance).advance
    else (L.addToken "+".toList TokenType.ADDOPERATOR).advance
  else if c = '*' then
    if next = '=' then ((L.addToken "*=".toList TokenType.MULTIPLYASSIGN).advance).advance
    else if next = '*' then ((L.addToken "**".toList TokenType.POWEROPERATOR).advance).advance
    else (L.addToken "*".toList TokenType.MULTIPLYOPERATOR).advance
  else if c = '/' then
    if next = '=' then ((L.addError (invalidAssignMsg "/=".toList)).advance).advance
    else (L.addToken "/".toList TokenType.DIVIDEOPERATOR).advance
  else if c = '%' then
    if next = '=' then ((L.addError (invalidAssignMsg "%=".toList)).advance).advance
    else (L.addToken "%".toList TokenType.PERCENTAGEOPERATOR).advance
  else if c = '&' then (L.addToken "&".toList TokenType.BITANDOPERATOR).advance
  else if c = '|' then (L.addToken "|".toList TokenType.BITOROPERATOR).advance
  else if c = '^' then (L.addToken "^".toList TokenType.POWEROPERATOR).advance
  else if c = '.' then (L.addToken ".".toList TokenType.OPERATOR).advance
  else (L.addError ("Unexpected operator: ".toList ++ [c])).advance

/-! ### `processTypeAnnotation` -/

/-- `PythonLexer::processTypeAnnotation`: the value returned and the state
afterwards (the entry state when the scan is rolled back). -/
def processTypeAnnotation (L : PythonLexer) : Bool × PythonLexer :=
  if isalpha L.current || L.current == '_' then
    let typeName := L.rest.takeWhile isWordChar
    let L1 := L.advanceN typeName.length
    let gap := L1.rest.takeWhile isInlineSpace
    let L2 := L1.advanceN gap.length
    if isalpha L2.current || L2.current == '_' then
      let ident := L2.rest.takeWhile isWordChar
      let L3 := L2.advanceN ident.length
      let lowerTypeName := toLower typeName
      if typeHints.contains lowerTypeName then
        let L4 := { L3 with
          typeAnnotations :=
            (L3.typeAnnotations.filter (fun (p : List Char × List Char) => p.1 != ident)) ++
              [(ident, lowerTypeName)] }
        let L5 := L4.addToken ident TokenType.IDENTIFIER
        (true, { L5 with symbolTable := (L5.symbolTable.addIdentifier ident).2 })
      else (false, L)
    else (false, L)
  else (false, L)

/-! ### `toRPN` -/

/-- The lambda `precedence` of `toRPN`. -/
def precedence (t : Token) : Nat :=
  match t.type with
  | TokenType.POWEROPERATOR => 4
  | TokenType.MULTIPLYOPERATOR => 3
  | TokenType.DIVIDEOPERATOR => 3
  | TokenType.PERCENTAGEOPERATOR => 3
  | TokenType.ADDOPERATOR => 2
  | TokenType.MINUSOPERATOR => 2
  | _ => 0

/-- The lambda `isLeftAssoc` of `toRPN`. -/
def isLeftAssoc (t : Token) : Bool := t.type != TokenType.POWEROPERATOR

/-- The operand test of `toRPN` (lines 825-830). -/
def isOperandType (ty : TokenType) : Bool :=
  ty == TokenType.NUMBER || ty == TokenType.HexadecimalNumber || ty == TokenType.BinaryNumber ||
  ty == TokenType.OCTALNUMBER || ty == TokenType.IDENTIFIER || ty == TokenType.KEYWORD

/-- The operator test of `toRPN` (lines 835-840). -/
def isArithOperatorType (ty : TokenType) : Bool :=
  ty == TokenType.ADDOPERATOR || ty == TokenType.MINUSOPERATOR ||
  ty == TokenType.MULTIPLYOPERATOR || ty == TokenType.DIVIDEOPERATOR ||
  ty == TokenType.PERCENTAGEOPERATOR || ty == TokenType.POWEROPERATOR

/-- The loop of lines 852-859 on the operator stack (top first): the tokens
moved to the output, in order, and the stack left. -/
def popOperators (op : Token) : List Token → List Token × List Token
  | [] => ([], [])
  | top :: ops =>
    if (isLeftAssoc op && decide (precedence op ≤ precedence top)) ||
        (!isLeftAssoc op && decide (precedence op < precedence top)) then
      (top :: (popOperators op ops).1, (popOperators op ops).2)
    else ([], top :: ops)

/-- The loop of lines 866-869: pops up to the nearest "(" on the stack. -/
def popToOpenParen : List Token → List Token × List Token
  | [] => ([], [])
  | top :: ops =>
    if top.lexeme ≠ "(".toList then (top :: (popToOpenParen ops).1, (popToOpenParen ops).2)
    else ([], top :: ops)

/-- The final loop of `toRPN` (lines 876-881). -/
def drainOperators : List Token → List Token → Except (List Char) (List Token)
  | [], output => .ok output
  | top :: ops, output =>
    if top.lexeme = "(".toList ∨ top.lexeme = ")".toList then
      .error "Mismatched parentheses".toList
    else drainOperators ops (output ++ [top])

/-- The `for` loop of `toRPN`; `prev` is `input[i-1]` (`none` when `i == 0`). -/
def toRPNLoop : Option Token → List Token → List Token → List Token →
    Except (List Char) (List Token)
  | _, [], output, ops => drainOperators ops output
  | prev, t :: input, output, ops =>
    if isOperandType t.type then toRPNLoop (some t) input (output ++ [t]) ops
    else if isArithOperatorType t.type then
      let unary := t.type == TokenType.MINUSOPERATOR &&
        (match prev with
         | none => true
         | some p => p.lexeme == "(".toList || isArithOperatorType p.type)
      let op : Token := if unary then { t with type := TokenType.MINUSOPERATOR } else t
      let r := popOperators op ops
      toRPNLoop (some t) input (output ++ r.1) (op :: r.2)
    else if t.lexeme = "(".toList then toRPNLoop (some t) input output (t :: ops)
    else if t.lexeme = ")".toList then
      let r := popToOpenParen ops
      match r.2 with
      | [] => .error "Mismatched parentheses".toList
      | _ :: ops' => toRPNLoop (some t) input (output ++ r.1) ops'
    else toRPNLoop (some t) input output ops

/-- `PythonLexer::toRPN`; a thrown `std::runtime_error` is `.error` of its
message. -/
def toRPN (input : List Token) : Except (List Char) (List Token) :=
  toRPNLoop none input [] []

/-! ### `evalRPN` -/

/-- The value of a digit character in `std::stoll` (36 for a character that
is no digit of any base). -/
def digitValue (c : Char) : Nat :=
  if isdigit c then c.toNat - 48
  else if decide ('a' ≤ c) && decide (c ≤ 'z') then c.toNat - 87
  else if decide ('A' ≤ c) && decide (c ≤ 'Z') then c.toNat - 55
  else 36

/-- `std::stoll(str, nullptr, base)` on a text that begins with neither white
space nor a sign (the lexemes it is applied to begin with a digit or an
underscore): the longest run of digits of the base is converted, after the
`0x` that base 16 allows in front of a hexadecimal digit.  The two exceptions
are `.error` of the `what()` text of libstdc++. -/
def stoll (str : List Char) (base : Nat) : Except (List Char) Int :=
  let body :=
    if base = 16 ∧ str.head? = some '0' ∧
        (str.tail.head? = some 'x' ∨ str.tail.head? = some 'X') ∧
        decide (digitValue ((str.drop 2).headD NUL) < 16) then str.drop 2
    else str
  let digits := body.takeWhile (fun c => decide (digitValue c < base))
  if digits.isEmpty then .error "stoll".toList
  else
    let v := digits.foldl (fun (acc : Nat) c => acc * base + digitValue c) 0
    if v > 9223372036854775807 then .error "stoll".toList else .ok (v : Int)

end PythonLexer

/-- The `double` operations used by `evalRPN` and `processAssignments`.
They are a parameter of the embedding: nothing is assumed about them except
where a theorem says so. -/
structure DoubleArith where
  /-- The type `double`. -/
  D : Type
  /-- `std::stod`; `none` when it throws. -/
  stod : List Char → Option D
  /-- The conversion of a `long long` (and the literals `0.0`, `1.0`). -/
  ofInt : Int → D
  /-- Unary minus. -/
  neg : D → D
  /-- The operator `+`. -/
  add : D → D → D
  /-- The operator `-`. -/
  sub : D → D → D
  /-- The operator `*`. -/
  mul : D → D → D
  /-- The operator `/`. -/
  div : D → D → D
  /-- `std::fmod`. -/
  fmod : D → D → D
  /-- `std::pow`. -/
  pow : D → D → D
  /-- The test `b == 0`. -/
  isZero : D → Bool
  /-- The test `std::floor(x) == x`. -/
  isIntegral : D → Bool
  /-- The cast `(long long)x`. -/
  toLongLong : D → Int
  /-- `std::to_string` of a `double`. -/
  to_string : D → List Char

/-- The value of a string of decimal digits. -/
def decimalValue (ds : List Char) : Nat :=
  ds.foldl (fun acc c => acc * 10 + (c.toNat - 48)) 0

/-- The `std::stod` of `exactArith`: an optional sign, digits with an
optional fraction, and an optional exponent, read exactly. -/
def exactStod (s : List Char) : Option ℚ :=
  let negative := s.head? == some '-'
  let s := if s.head? == some '-' || s.head? == some '+' then s.tail else s
  let intPart := s.takeWhile isdigit
  let s := s.dropWhile isdigit
  let hasPoint := s.head? == some '.'
  let fracPart := if hasPoint then s.tail.takeWhile isdigit else []
  let s := if hasPoint then s.tail.dropWhile isdigit else s
  if intPart.isEmpty && fracPart.isEmpty then none
  else
    let mantissa : ℚ := (decimalValue intPart : ℚ) +
      (decimalValue fracPart : ℚ) / (10 : ℚ) ^ fracPart.length
    let hasE := s.head? == some 'e' || s.head? == some 'E'
    let e := if hasE then s.tail else []
    let expNegative := e.head? == some '-'
    let e := if e.head? == some '-' || e.head? == some '+' then e.tail else e
    let expDigits := e.takeWhile isdigit
    let scale : ℚ :=
      if expNegative then ((10 : ℚ) ^ decimalValue expDigits)⁻¹
      else (10 : ℚ) ^ decimalValue expDigits
    some ((if negative then -1 else 1) * mantissa * scale)

/-- The integer part of a rational, rounded toward zero. -/
def truncRat (q : ℚ) : Int := Int.sign q.num * ((q.num.natAbs / q.den : Nat) : Int)

/-- The nearest natural number to a rational that is not negative, a tie
going to the even one. -/
def roundRat (q : ℚ) : Nat :=
  let f := q.num.natAbs / q.den
  let r := q.num.natAbs % q.den
  if q.den < 2 * r then f + 1
  else if 2 * r = q.den ∧ f % 2 = 1 then f + 1
  else f

/-- The text `std::to_string` gives for a rational: the sign, the integer
part and six decimals, of the value rounded to six decimals. -/
def exactToString (a : ℚ) : List Char :=
  let n := roundRat (|a| * 1000000)
  (if a < 0 then ['-'] else []) ++ intToString ((n / 1000000 : Nat) : Int) ++
    '.' :: (toString (n % 1000000 + 1000000)).toList.tail

/-- An instance of `DoubleArith` over the rationals, with exact arithmetic.
It agrees with IEEE binary64 wherever binary64 is exact, in particular on
integers of magnitude up to 2^53; it is what the examples are run with.  A
power with an exponent that is no integer has no exact value among the
rationals: `pow` is 0 there, and no example takes such a power. -/
def exactArith : DoubleArith where
  D := ℚ
  stod := exactStod
  ofInt := fun z => (z : ℚ)
  neg := fun a => -a
  add := fun a b => a + b
  sub := fun a b => a - b
  mul := fun a b => a * b
  div := fun a b => a / b
  fmod := fun a b => a - b * (truncRat (a / b) : ℚ)
  pow := fun a b => if b.den = 1 then a ^ b.num else 0
  isZero := fun a => decide (a = 0)
  isIntegral := fun a => decide (a.den = 1)
  toLongLong := truncRat
  to_string := exactToString

namespace PythonLexer

/-- The lexemes and kinds of the tokens held by the lexer. -/
def tokenKinds (L : PythonLexer) : List (List Char × TokenType) :=
  L.tokens.map (fun t => (t.lexeme, t.type))

/-- The messages of the errors held by the lexer. -/
def errorMessages (L : PythonLexer) : List (List Char) :=
  L.errors.map (fun e => e.message)

/-- One binary operation of `evalRPN` (the `switch` of lines 939-951). -/
def applyOperator (F : DoubleArith) (ty : TokenType) (a b : F.D) : Except (List Char) F.D :=
  match ty with
  | TokenType.ADDOPERATOR => .ok (F.add a b)
  | TokenType.MINUSOPERATOR => .ok (F.sub a b)
  | TokenType.MULTIPLYOPERATOR => .ok (F.mul a b)
  | TokenType.DIVIDEOPERATOR =>
    if F.isZero b then .error "Division by zero".toList else .ok (F.div a b)
  | TokenType.PERCENTAGEOPERATOR =>
    if F.isZero b then .error "Modulo by zero".toList else .ok (F.fmod a b)
  | TokenType.POWEROPERATOR => .ok (F.pow a b)
  | _ => .error "Unknown operator".toList

/-- The value pushed for one operand token of `evalRPN` (lines 888-929);
`none` when the token is not an operand. -/
def operandValue (F : DoubleArith) (symbolTable : SymbolTable) (t : Token) :
    Option (Except (List Char) F.D) :=
  match t.type with
  | TokenType.NUMBER =>
    some (match F.stod t.lexeme with
      | some v => .ok v
      | none => .error "stod".toList)
  | TokenType.HexadecimalNumber => some ((stoll t.lexeme 16).map F.ofInt)
  | TokenType.BinaryNumber => some ((stoll (t.lexeme.drop 2) 2).map F.ofInt)
  | TokenType.OCTALNUMBER => some ((stoll (t.lexeme.drop 2) 8).map F.ofInt)
  | TokenType.IDENTIFIER =>
    some (
      if !symbolTable.count t.lexeme then
        .error ("Undefined identifier: ".toList ++ t.lexeme)
      else
        let value := symbolTable.getValue t.lexeme
        let type := symbolTable.getDataType t.lexeme
        if type = "unknown".toList ∨ value = "N/A".toList then
          .error ("Cannot perform operation with uninitialized variable: ".toList ++ t.lexeme)
        else if type ≠ "int".toList ∧ type ≠ "float".toList then
          .error ("Cannot perform numeric operation with ".toList ++ type ++
            " variable: ".toList ++ t.lexeme)
        else
          match F.stod value with
          | some v => .ok v
          | none => .error ("Invalid numeric value for variable ".toList ++ t.lexeme ++
              ": ".toList ++ value))
  | TokenType.KEYWORD =>
    some (
      if toLower t.lexeme = "true".toList then .ok (F.ofInt 1)
      else if toLower t.lexeme = "false".toList then .ok (F.ofInt 0)
      else .error ("Unexpected keyword in expression: ".toList ++ t.lexeme))
  | _ => none

/-- The `for` loop of `evalRPN` on the value stack `st` (top first). -/
def evalRPNLoop (F : DoubleArith) (symbolTable : SymbolTable) :
    List Token → List F.D → Except (List Char) (List F.D)
  | [], st => .ok st
  | t :: rpn, st =>
    match operandValue F symbolTable t with
    | some (.ok v) => evalRPNLoop F symbolTable rpn (v :: st)
    | some (.error e) => .error e
    | none =>
      if t.type = TokenType.MINUSOPERATOR ∧ st.length = 1 then
        evalRPNLoop F symbolTable rpn (st.map F.neg)
      else
        match st with
        | b :: a :: st' =>
          match applyOperator F t.type a b with
          | .ok res => evalRPNLoop F symbolTable rpn (res :: st')
          | .error e => .error e
        | _ => .error "Invalid expression".toList

/-- `PythonLexer::evalRPN`. -/
def evalRPN (F : DoubleArith) (symbolTable : SymbolTable) (rpn : List Token) :
    Except (List Char) F.D :=
  match evalRPNLoop F symbolTable rpn [] with
  | .error e => .error e
  | .ok st =>
    match st with
    | [v] => .ok v
    | _ => .ok (F.ofInt 0)

/-! ### `processAssignments` -/

/-- The tokens that end the right side of an assignment. -/
def endsAssignment (t : Token) : Bool :=
  t.type == TokenType.NEWLINE || t.type == TokenType.ENDOFFILE

/-- Lines 1009-1049: the shortcut for a right side of one token; `none`
when the `switch` is left by `break` (the general case follows). -/
def singleTokenShortcut (L : PythonLexer) (lhs : List Char) (t : Token) : Option PythonLexer :=
  match t.type with
  | TokenType.STRING =>
    some { L with symbolTable := L.symbolTable.setIdentifierInfo lhs "string".toList t.lexeme }
  | TokenType.KEYWORD =>
    if toLower t.lexeme = "true".toList ∨ toLower t.lexeme = "false".toList then
      some { L with
        symbolTable := L.symbolTable.setIdentifierInfo lhs "bool".toList (toLower t.lexeme) }
    else none
  | TokenType.HexadecimalNumber =>
    some { L with symbolTable := L.symbolTable.setIdentifierInfo lhs "int".toList t.lexeme }
  | TokenType.BinaryNumber =>
    some { L with symbolTable := L.symbolTable.setIdentifierInfo lhs "int".toList t.lexeme }
  | TokenType.OCTALNUMBER =>
    some { L with symbolTable := L.symbolTable.setIdentifierInfo lhs "int".toList t.lexeme }
  | TokenType.NUMBER =>
    let isF := t.lexeme.contains '.' || t.lexeme.contains 'e' || t.lexeme.contains 'E'
    some { L with
      symbolTable := L.symbolTable.setIdentifierInfo lhs
        (if isF then "float".toList else "int".toList) t.lexeme }
  | TokenType.IDENTIFIER =>
    if L.symbolTable.count t.lexeme then
      some { L with
        symbolTable := L.symbolTable.setIdentifierInfo lhs
          (L.symbolTable.getDataType t.lexeme) (L.symbolTable.getValue t.lexeme) }
    else some (L.addError ("Undefined identifier in assignment: ".toList ++ t.lexeme))
  | _ => none

/-- Lines 1051-1065: the general case, through `toRPN` and `evalRPN`. -/
def foldAssignment (F : DoubleArith) (L : PythonLexer) (lhs : List Char) (expr : List Token) :
    PythonLexer :=
  match (toRPN expr).bind (evalRPN F L.symbolTable) with
  | .ok result =>
    let isInt := F.isIntegral result
    let dtype := if isInt then "int".toList else "float".toList
    let sval := if isInt then intToString (F.toLongLong result) else F.to_string result
    { L with symbolTable := L.symbolTable.setIdentifierInfo lhs dtype sval }
  | .error what =>
    let L := L.addError what
    { L with symbolTable := L.symbolTable.setIdentifierInfo lhs "unknown".toList "N/A".toList }

/-- Lines 1009-1065: the inference for the right side `expr`, by the
shortcut when it applies and else by the general case. -/
def inferAssignment (F : DoubleArith) (L : PythonLexer) (lhs : List Char) (expr : List Token) :
    PythonLexer :=
  match expr with
  | [t] =>
    match singleTokenShortcut L lhs t with
    | some L' => L'
    | none => foldAssignment F L lhs expr
  | _ => foldAssignment F L lhs expr

/-- One iteration of the `while` loop of `processAssignments` at index `i`
(with `i < tokens.size()`): the next index and the state. -/
def processAssignmentsStep (F : DoubleArith) (i : Nat) (L : PythonLexer) : Nat × PythonLexer :=
  let type (k : Nat) : Option TokenType := (L.tokens.get? k).map Token.type
  let lexeme (k : Nat) : List Char := ((L.tokens.get? k).map Token.lexeme).getD []
  if (type i = some TokenType.MINUSOPERATOR ∨ type i = some TokenType.ADDOPERATOR) ∧
      type (i + 1) = some TokenType.IDENTIFIER ∧ type (i + 2) = some TokenType.EQUALOPERATOR then
    (i + 3, L.addError ("Invalid assignment target: cannot assign to an expression like '".toList
      ++ lexeme i ++ lexeme (i + 1) ++ "'".toList))
  else if type i = some TokenType.IDENTIFIER ∧ type (i + 1) = some TokenType.EQUALOPERATOR then
    let lhs := lexeme i
    let expr := (L.tokens.drop (i + 2)).takeWhile (fun t => !endsAssignment t)
    let j := i + 2 + expr.length
    let lineOf (k : Nat) : Int := ((L.tokens.get? k).map Token.line).getD 0
    let startLine := lineOf i
    let endLine := if j < L.tokens.length then lineOf j else lineOf (L.tokens.length - 1)
    let bad := L.errors.any (fun err => decide (err.line ≥ startLine) && decide (err.line ≤ endLine))
    if bad then
      (j, { L with
        symbolTable := L.symbolTable.setIdentifierInfo lhs "unknown".toList "N/A".toList })
    else (j, inferAssignment F L lhs expr)
  else (i + 1, L)

/-- The `while (i < tokens.size())` loop of `processAssignments`; `none`
when the fuel runs out before the loop ends. -/
def processAssignmentsLoop (F : DoubleArith) : Nat → Nat → PythonLexer → Option PythonLexer
  | 0, i, L => if i < L.tokens.length then none else some L
  | fuel + 1, i, L =>
    if i < L.tokens.length then
      processAssignmentsLoop F fuel (processAssignmentsStep F i L).1
        (processAssignmentsStep F i L).2
    else some L

/-- `PythonLexer::processAssignments`. -/
def processAssignments (F : DoubleArith) (L : PythonLexer) : Option PythonLexer :=
  processAssignmentsLoop F L.tokens.length 0 L

/-! ### `tokenize` -/

/-- The message of cases 7 and 10 of `tokenize`. -/
def badSequenceMsg (what : List Char) (errLine errColumn : Int) (bad why : List Char) :
    List Char :=
  what ++ " at line ".toList ++ intToString errLine ++ " column ".toList ++
    intToString errColumn ++ ": '".toList ++ bad ++ "' (".toList ++ why ++ ")".toList

/-- One iteration of the `while (current() != NUL)` loop of `tokenize`: the
`switch` on `c = current()`. -/
def tokenizeStep (L : PythonLexer) : PythonLexer :=
  let c := L.current
  if c = '\n' then handleIndentation ((L.addToken ['\n'] TokenType.NEWLINE).advance)
  else if c = ' ' ∨ c = '\r' ∨ c = '\t' ∨ c = Char.ofNat 11 ∨ c = Char.ofNat 12 then L.advance
  else if c = '#' then processComment L
  else if isdigit c then processNumber L
  else if c = '"' ∨ c = '\'' then processString L c
  else if isalpha c || c == '_' then
    let r := processTypeAnnotation L
    if !r.1 then processIdentifier r.2 else r.2
  else if c = '@' ∨ c = '$' ∨ c = Char.ofNat 96 ∨ c = '\\' then
    let w := takeWord L.advance
    w.2.addError (badSequenceMsg "Invalid identifier".toList L.line L.column (c :: w.1)
      "identifiers must start with a letter or underscore".toList)
  else if isOperatorChar c then processOperator L
  else if isDelimiter c then (L.addToken [c] TokenType.DELIMITER).advance
  else
    let w := takeWord L.advance
    w.2.addError (badSequenceMsg "Invalid character sequence".toList L.line L.column (c :: w.1)
      "unknown or unsupported characters".toList)

/-- The `while (current() != NUL)` loop of `tokenize`; `none` when the fuel
runs out before the loop ends. -/
def tokenizeLoop : Nat → PythonLexer → Option PythonLexer
  | 0, L => if L.current = NUL then some L else none
  | fuel + 1, L => if L.current = NUL then some L else tokenizeLoop fuel (tokenizeStep L)

/-- The constructor `PythonLexer(input)`, together with the value that the
`static` indentation stack has when the run starts (`{0}` in the first run
of a process). -/
def create (input : List Char) (staticIndentStack : List Nat := [0]) : PythonLexer :=
  { rest := input, indentStack := staticIndentStack }

/-- `PythonLexer::tokenize`: the state of the lexer when it returns.  The
pair returned is (`tokens`, `errors`) of that state and `getSymbolTable()`
is its `symbolTable`.  The main loop is given one unit of fuel per source
character and the post-pass one per token. -/
def tokenize (F : DoubleArith) (L : PythonLexer) : Option PythonLexer :=
  (tokenizeLoop L.rest.length L).bind
    (fun L => processAssignments F (L.addToken [] TokenType.ENDOFFILE))

end PythonLexer

/-! ## `syntaxanalyzer.h`, `syntaxanalyzer.cpp` -/

/-- The `struct ParseNode`: `name`, `value` and the children. -/
inductive ParseNode where
  | node (name : List Char) (value : List Char) (children : List ParseNode)

namespace ParseNode

/-- `new ParseNode(n)` and `new ParseNode(n, v)` with no children. -/
def leaf (name : String) (value : List Char := []) : ParseNode := node name.toList value []

/-- The member `name`. -/
def name : ParseNode → List Char
  | node n _ _ => n

/-- The member `value`. -/
def value : ParseNode → List Char
  | node _ v _ => v

/-- The member `children`. -/
def children : ParseNode → List ParseNode
  | node _ _ cs => cs

/-- `node->children.push_back(child)`. -/
def push (n : ParseNode) (child : ParseNode) : ParseNode :=
  match n with
  | node nm v cs => node nm v (cs ++ [child])

end ParseNode

/-- The `struct SyntaxError`. -/
structure SyntaxError where
  message : List Char
  line : Int
  column : Int
  deriving DecidableEq, Repr

/-- The ways in which a run of the parser model stops without a result: the
fuel of the model ran out, the code dereferenced a null `ParseNode*`, or the
code applied `delete` to a node that it had already deleted. -/
inductive Fault
  | outOfFuel
  | nullDereference
  | doubleDelete
  deriving DecidableEq, Repr

/-- The members of `class SyntaxAnalyzer`. -/
structure SyntaxAnalyzer where
  tokens : List Token
  pos : Nat := 0
  syntaxErrors : List SyntaxError := []
  deriving DecidableEq, Repr

namespace SyntaxAnalyzer

/-! A parsing method returns `Except Fault (α × SyntaxAnalyzer)`: a fault, or
the value returned and the state afterwards.  A returned `ParseNode*` is an
`Option ParseNode`, with `none` for `nullptr`. -/

/-- `SyntaxAnalyzer::currentToken`.  `tokens[pos]` with `pos` out of range
is undefined in C++; the model reads an end-of-file token there. -/
def currentToken (S : SyntaxAnalyzer) : Token :=
  S.tokens.getD S.pos ⟨[], TokenType.ENDOFFILE, 0, 0⟩

/-- `SyntaxAnalyzer::isAtEnd`. -/
def isAtEnd (S : SyntaxAnalyzer) : Bool :=
  decide (S.pos ≥ S.tokens.length) || S.currentToken.type == TokenType.ENDOFFILE

/-- `SyntaxAnalyzer::advance`. -/
def advance (S : SyntaxAnalyzer) : SyntaxAnalyzer :=
  if !S.isAtEnd then { S with pos := S.pos + 1 } else S

/-- `SyntaxAnalyzer::match`: the value returned and the state afterwards. -/
def matchLexeme (S : SyntaxAnalyzer) (lexeme : String) : Bool × SyntaxAnalyzer :=
  if !S.isAtEnd && S.currentToken.lexeme == lexeme.toList then (true, S.advance) else (false, S)

/-- `SyntaxAnalyzer::addSyntaxError`. -/
def addSyntaxError (S : SyntaxAnalyzer) (msg : List Char) (line column : Int) : SyntaxAnalyzer :=
  { S with syntaxErrors := S.syntaxErrors ++ [⟨msg, line, column⟩] }

/-- `addSyntaxError(msg, currentToken().line, currentToken().column)`. -/
def errorHere (S : SyntaxAnalyzer) (msg : String) : SyntaxAnalyzer :=
  S.addSyntaxError msg.toList S.currentToken.line S.currentToken.column

/-- The loop `while (!isAtEnd() && p(currentToken())) advance();`. -/
def skipWhile (S : SyntaxAnalyzer) (p : Token → Bool) : SyntaxAnalyzer :=
  { S with
    pos := S.pos + ((S.tokens.drop S.pos).takeWhile
      (fun t => t.type != TokenType.ENDOFFILE && p t)).length }

/-- The test of the loops that skip white space. -/
def isWs (t : Token) : Bool := t.type == TokenType.WHITESPACE

/-- The test of the loops that skip white space and comments. -/
def isWsOrComment (t : Token) : Bool :=
  t.type == TokenType.WHITESPACE || t.type == TokenType.COMMENT

/-- The test of the loops that skip blank lines. -/
def isNewline (t : Token) : Bool := t.type == TokenType.NEWLINE

/-- The test of the loops that skip white space and DEDENT tokens. -/
def isWsOrDedent (t : Token) : Bool :=
  t.type == TokenType.WHITESPACE || t.type == TokenType.DEDENT

/-- The test `type == DEDENT || type == NEWLINE || type == ENDOFFILE` of
`parseExpression`. -/
def isBlockEnd (t : Token) : Bool :=
  t.type == TokenType.DEDENT || t.type == TokenType.NEWLINE || t.type == TokenType.ENDOFFILE

/-- The first of the lexemes that `match` accepts, tried in order (the
`if (match(a)) op = a; else if (match(b)) ...` chains). -/
def matchAny (S : SyntaxAnalyzer) : List String → Option String × SyntaxAnalyzer
  | [] => (none, S)
  | l :: ls => if (S.matchLexeme l).1 then (some l, (S.matchLexeme l).2) else matchAny S ls

/-- `SyntaxAnalyzer::checkIndentation`. -/
def checkIndentation (S : SyntaxAnalyzer) (stmtType : String) : Bool × SyntaxAnalyzer :=
  let S := S.skipWhile isNewline
  let S := S.skipWhile isWs
  if S.currentToken.type ≠ TokenType.INDENT then
    (false, S.errorHere ("Expected indented block after '" ++ stmtType ++ "'"))
  else (true, S.advance)

/-- The recovery loop `while (!isAtEnd() && lexeme != ":" && type != NEWLINE) advance();`. -/
def skipToColonOrNewline (S : SyntaxAnalyzer) : SyntaxAnalyzer :=
  S.skipWhile (fun t => t.lexeme != ":".toList && t.type != TokenType.NEWLINE)

/-- The recovery loop `while (!isAtEnd() && type != NEWLINE) advance();`. -/
def skipToNewline (S : SyntaxAnalyzer) : SyntaxAnalyzer :=
  S.skipWhile (fun t => t.type != TokenType.NEWLINE)

/-- The loop of `parseParamList`, with the children collected so far:
`none` for the `return nullptr`, else the children of the node. -/
def parseParamListLoop : Nat → List ParseNode → SyntaxAnalyzer → Except Fault (Option (List ParseNode) × SyntaxAnalyzer)
  | 0, _, _ => .error Fault.outOfFuel
  | fuel + 1, params, S =>
    if S.isAtEnd then .ok (some params, S)
    else if S.currentToken.type ≠ TokenType.IDENTIFIER then
      -- `expectComma` is false whenever the loop condition is evaluated
      .ok (some params, S)
    else
      let params := params ++ [ParseNode.leaf "Param" S.currentToken.lexeme]
      let S := S.advance
      if (S.matchLexeme ",").1 then parseParamListLoop fuel params (S.matchLexeme ",").2
      else .ok (some params, S)

/-- `SyntaxAnalyzer::parseParamList`. -/
def parseParamList (fuel : Nat) (S : SyntaxAnalyzer) : Except Fault (Option ParseNode × SyntaxAnalyzer) :=
  match parseParamListLoop fuel [] S with
  | .error f => .error f
  | .ok (none, S) => .ok (none, S)
  | .ok (some params, S) => .ok (some (ParseNode.node "ParamList".toList [] params), S)

/-- The `do ... while (match(","))` loop of `parseForStmt` over the targets:
`none` for the `return nullptr`. -/
def parseForTargets : Nat → List ParseNode → SyntaxAnalyzer → Except Fault (Option (List ParseNode) × SyntaxAnalyzer)
  | 0, _, _ => .error Fault.outOfFuel
  | fuel + 1, targets, S =>
    if S.currentToken.type ≠ TokenType.IDENTIFIER then
      let S := S.errorHere "Expected identifier in for loop"
      let S := S.skipToColonOrNewline
      .ok (none, (S.matchLexeme ":").2)
    else
      let targets := targets ++ [ParseNode.leaf "Identifier" S.currentToken.lexeme]
      let S := S.advance
      if (S.matchLexeme ",").1 then parseForTargets fuel targets (S.matchLexeme ",").2
      else .ok (some targets, S)

/-- The names of the numeral leaves of `parseFactor`. -/
def numberNodeName (ty : TokenType) : String :=
  match ty with
  | TokenType.HexadecimalNumber => "Hex"
  | TokenType.BinaryNumber => "Binary"
  | TokenType.OCTALNUMBER => "Octal"
  | _ => "Number"

/-- The test of step 5 of `parseStmt`: `tokens[pos + 1]` exists and is an
assignment operator. -/
def nextIsAssignOp (S : SyntaxAnalyzer) : Bool :=
  match S.tokens.get? (S.pos + 1) with
  | some t => t.lexeme == "=".toList || t.lexeme == "+=".toList || t.lexeme == "-=".toList ||
      t.lexeme == "*=".toList || t.lexeme == "/=".toList
  | none => false

mutual

/-- `SyntaxAnalyzer::parseFactor`. -/
def parseFactor : Nat → SyntaxAnalyzer → Except Fault (Option ParseNode × SyntaxAnalyzer)
  | 0, _ => .error Fault.outOfFuel
  | fuel + 1, S => do
    let S := S.skipWhile isWs
    if (S.matchLexeme "(").1 then
      let (expr, S) ← parseExpression fuel (S.matchLexeme "(").2
      if !(S.matchLexeme ")").1 then
        return (none, S.errorHere "Expected ')' after expression")
      else return (expr, (S.matchLexeme ")").2)
    else
      let tok := S.currentToken
      if tok.type = TokenType.STRING then
        return (some (ParseNode.leaf "String" tok.lexeme), S.advance)
      else if tok.type = TokenType.KEYWORD ∧
          (tok.lexeme = "True".toList ∨ tok.lexeme = "False".toList) then
        return (some (ParseNode.leaf "Bool" tok.lexeme), S.advance)
      else if tok.type = TokenType.IDENTIFIER then
        let S := S.advance
        let S := S.skipWhile isWs
        if (S.matchLexeme "(").1 then
          let S := (S.matchLexeme "(").2
          let (args, S) ←
            if !S.isAtEnd && S.currentToken.lexeme != ")".toList then parseArgs fuel false [] S
            else pure (some [], S)
          match args with
          | none => return (none, S)
          | some args =>
            if !(S.matchLexeme ")").1 then
              return (none, S.errorHere "Expected ')' after function call arguments")
            else return (some (ParseNode.node "FuncCall".toList tok.lexeme args),
              (S.matchLexeme ")").2)
        else return (some (ParseNode.leaf "Identifier" tok.lexeme), S)
      else if tok.type = TokenType.NUMBER ∨ tok.type = TokenType.HexadecimalNumber ∨
          tok.type = TokenType.BinaryNumber ∨ tok.type = TokenType.OCTALNUMBER then
        return (some (ParseNode.leaf (numberNodeName tok.type) tok.lexeme), S.advance)
      else if tok.type = TokenType.NEWLINE ∨ tok.type = TokenType.ENDOFFILE then
        return (none, S)
      else return (none, S.errorHere "Expected an identifier, number, or expression")

/-- The loops `do { arg = parseExpression(); ... } while (match(","))` over
call arguments, with the children collected so far; `skipWs` tells whether
the body skips white space around the argument (it does in `parseStmt`, not
in `parseFactor`).  `none` is the `return nullptr` of a failed argument. -/
def parseArgs : Nat → Bool → List ParseNode → SyntaxAnalyzer → Except Fault (Option (List ParseNode) × SyntaxAnalyzer)
  | 0, _, _, _ => .error Fault.outOfFuel
  | fuel + 1, skipWs, args, S => do
    let S := if skipWs then S.skipWhile isWs else S
    let (arg, S) ← parseExpression fuel S
    match arg with
    | none => return (none, S)
    | some arg =>
      let args := args ++ [arg]
      let S := if skipWs then S.skipWhile isWs else S
      if (S.matchLexeme ",").1 then parseArgs fuel skipWs args (S.matchLexeme ",").2
      else return (some args, S)

/-- The `while (true)` loop of `parseTerm`, entered with `left`. -/
def parseTermLoop : Nat → ParseNode → SyntaxAnalyzer → Except Fault (Option ParseNode × SyntaxAnalyzer)
  | 0, _, _ => .error Fault.outOfFuel
  | fuel + 1, left, S => do
    let S := S.skipWhile isWsOrComment
    match S.matchAny ["*", "/", "%"] with
    | (none, S) => return (some left, S)
    | (some op, S) =>
      let S := S.skipWhile isWsOrComment
      let (right, S) ← parseFactor fuel S
      match right with
      | none => return (none, S)
      | some right =>
        parseTermLoop fuel (ParseNode.node "Operator".toList op.toList [left, right]) S

/-- `SyntaxAnalyzer::parseTerm`. -/
def parseTerm : Nat → SyntaxAnalyzer → Except Fault (Option ParseNode × SyntaxAnalyzer)
  | 0, _ => .error Fault.outOfFuel
  | fuel + 1, S => do
    let S := S.skipWhile isWsOrComment
    let (left, S) ← parseFactor fuel S
    match left with
    | none => return (none, S)
    | some left => parseTermLoop fuel left S

/-- The `while (!isAtEnd())` loop of `parseExpression`, entered with `left`. -/
def parseExpressionLoop : Nat → ParseNode → SyntaxAnalyzer → Except Fault (Option ParseNode × SyntaxAnalyzer)
  | 0, _, _ => .error Fault.outOfFuel
  | fuel + 1, left, S => do
    if S.isAtEnd then return (some left, S)
    else
      let S := S.skipWhile isWsOrComment
      if isBlockEnd S.currentToken || S.currentToken.lexeme == ":".toList then
        return (some left, S)
      else
        match S.matchAny ["+", "-"] with
        | (none, S) => return (some left, S)
        | (some op, S) =>
          let S := S.skipWhile isWsOrComment
          let (right, S) ← parseTerm fuel S
          match right with
          | none => return (none, S)
          | some right =>
            parseExpressionLoop fuel (ParseNode.node "Operator".toList op.toList [left, right]) S

/-- `SyntaxAnalyzer::parseExpression`. -/
def parseExpression : Nat → SyntaxAnalyzer → Except Fault (Option ParseNode × SyntaxAnalyzer)
  | 0, _ => .error Fault.outOfFuel
  | fuel + 1, S => do
    let S := S.skipWhile isWsOrComment
    if isBlockEnd S.currentToken then return (none, S)
    else
      let (left, S) ← parseTerm fuel S
      match left with
      | none => return (none, S)
      | some left => parseExpressionLoop fuel left S

end

/-- The `while (true)` loop of `parseComparison`, entered with `left`. -/
def parseComparisonLoop : Nat → ParseNode → SyntaxAnalyzer → Except Fault (Option ParseNode × SyntaxAnalyzer)
  | 0, _, _ => .error Fault.outOfFuel
  | fuel + 1, left, S => do
    match S.matchAny ["==", "!=", "<=", ">=", "<", ">"] with
    | (none, S) => return (some left, S)
    | (some op, S) =>
      let (right, S) ← parseExpression fuel S
      match right with
      | none => return (none, S)
      | some right =>
        parseComparisonLoop fuel (ParseNode.node "CompareOp".toList op.toList [left, right]) S

/-- `SyntaxAnalyzer::parseComparison`. -/
def parseComparison : Nat → SyntaxAnalyzer → Except Fault (Option ParseNode × SyntaxAnalyzer)
  | 0, _ => .error Fault.outOfFuel
  | fuel + 1, S => do
    let (left, S) ← parseExpression fuel S
    match left with
    | none => return (none, S)
    | some left => parseComparisonLoop fuel left S

/-- `SyntaxAnalyzer::parseReturnStmt`. -/
def parseReturnStmt : Nat → SyntaxAnalyzer → Except Fault (Option ParseNode × SyntaxAnalyzer)
  | 0, _ => .error Fault.outOfFuel
  | fuel + 1, S => do
    if S.currentToken.type ≠ TokenType.NEWLINE ∧ S.currentToken.lexeme ≠ ":".toList then
      let (expr, S) ← parseExpression fuel S
      match expr with
      | some expr => return (some (ParseNode.node "ReturnStmt".toList [] [expr]), S)
      | none =>
        return (some (ParseNode.leaf "ReturnStmt"), S.errorHere "Invalid expression in return")
    else return (some (ParseNode.leaf "ReturnStmt"), S)

/-- `SyntaxAnalyzer::parseAssignment`. -/
def parseAssignment : Nat → SyntaxAnalyzer → Except Fault (Option ParseNode × SyntaxAnalyzer)
  | 0, _ => .error Fault.outOfFuel
  | fuel + 1, S => do
    if S.currentToken.type ≠ TokenType.IDENTIFIER then
      return (none, S.errorHere "Expected identifier before assignment operator")
    else
      let target := ParseNode.leaf "Identifier" S.currentToken.lexeme
      let S := S.advance
      match S.matchAny ["=", "+=", "-=", "*=", "/="] with
      | (none, S) => return (none, S.errorHere "Expected assignment operator")
      | (some op, S) =>
        let (rhs, S) ← parseExpression fuel S
        match rhs with
        | none => return (none, S)
        | some rhs => return (some (ParseNode.node "Assignment".toList op.toList [target, rhs]), S)

/-- `SyntaxAnalyzer::parseExprStmt`. -/
def parseExprStmt : Nat → SyntaxAnalyzer → Except Fault (Option ParseNode × SyntaxAnalyzer)
  | 0, _ => .error Fault.outOfFuel
  | fuel + 1, S => do
    let (expr, S) ← parseExpression fuel S
    match expr with
    | none => return (none, S)
    | some expr => return (some (ParseNode.node "ExprStmt".toList [] [expr]), S)

/-- `SyntaxAnalyzer::parsePassStmt`. -/
def parsePassStmt (S : SyntaxAnalyzer) : Except Fault (Option ParseNode × SyntaxAnalyzer) :=
  .ok (some (ParseNode.leaf "PassStmt"), S)

/-- `SyntaxAnalyzer::parseBreakStmt`. -/
def parseBreakStmt (S : SyntaxAnalyzer) : Except Fault (Option ParseNode × SyntaxAnalyzer) :=
  .ok (some (ParseNode.leaf "BreakStmt"), S)

/-- `SyntaxAnalyzer::parseContinueStmt`. -/
def parseContinueStmt (S : SyntaxAnalyzer) : Except Fault (Option ParseNode × SyntaxAnalyzer) :=
  .ok (some (ParseNode.leaf "ContinueStmt"), S)

/-- Step 4 of `parseStmt` (lines 196-304): the call of a built-in function,
entered at its name. -/
def parseBuiltinCall (fuel : Nat) (S : SyntaxAnalyzer) : Except Fault (Option ParseNode × SyntaxAnalyzer) := do
  let funcName := S.currentToken.lexeme
  let S := S.advance
  if funcName = "print".toList then
    let S := S.skipWhile isWs
    if (S.matchLexeme "(").1 then
      let S := (S.matchLexeme "(").2
      let (args, S) ←
        if !S.isAtEnd && S.currentToken.lexeme != ")".toList then parseArgs fuel true [] S
        else pure (some [], S)
      match args with
      | none => return (none, S)
      | some args =>
        if !(S.matchLexeme ")").1 then
          return (none, S.errorHere "Expected ')' after arguments")
        else return (some (ParseNode.node "FuncCall".toList funcName args), (S.matchLexeme ")").2)
    else
      let S := S.skipWhile isWs
      if S.currentToken.type = TokenType.NEWLINE ∨ S.currentToken.type = TokenType.ENDOFFILE then
        return (none, S.errorHere "Expected an argument after print")
      else
        let (arg, S) ← parseExpression fuel S
        match arg with
        | some arg => return (some (ParseNode.node "FuncCall".toList funcName [arg]), S)
        | none => return (none, S)
  else if !(S.matchLexeme "(").1 then
    return (none, S.addSyntaxError ("Expected '(' after '".toList ++ funcName ++ "'".toList)
      S.currentToken.line S.currentToken.column)
  else
    let S := (S.matchLexeme "(").2
    let (args, S) ←
      if !S.isAtEnd && S.currentToken.lexeme != ")".toList then parseArgs fuel true [] S
      else pure (some [], S)
    match args with
    | none => return (none, S)
    | some args =>
      if !(S.matchLexeme ")").1 then
        return (none, S.errorHere "Expected ')' after arguments")
      else return (some (ParseNode.node "FuncCall".toList funcName args), (S.matchLexeme ")").2)

/-- `node->children.push_back(child)` on a `ParseNode*` that may be null. -/
def pushChild (node : Option ParseNode) (child : ParseNode) : Except Fault ParseNode :=
  match node with
  | none => .error Fault.nullDereference
  | some n => .ok (n.push child)

mutual

/-- `SyntaxAnalyzer::parseStmt`. -/
def parseStmt : Nat → SyntaxAnalyzer → Except Fault (Option ParseNode × SyntaxAnalyzer)
  | 0, _ => .error Fault.outOfFuel
  | fuel + 1, S => do
    if S.currentToken.type = TokenType.DEDENT then return (none, S.advance)
    else
      let S := S.skipWhile (fun t => t.type == TokenType.NEWLINE || t.type == TokenType.COMMENT)
      let S := S.skipWhile (fun t => t.type == TokenType.WHITESPACE ||
        t.type == TokenType.INDENT || t.type == TokenType.DEDENT)
      let S := S.skipWhile (fun t => t.type == TokenType.COMMENT)
      let S := S.skipWhile (fun t => t.lexeme == ":".toList)
      if (S.matchLexeme "if").1 then
        let (core, S) ← parseIfCore fuel (S.matchLexeme "if").2
        parseIfChain fuel core S
      else if (S.matchLexeme "for").1 then parseForStmt fuel (S.matchLexeme "for").2
      else if (S.matchLexeme "while").1 then parseWhileStmt fuel (S.matchLexeme "while").2
      else if (S.matchLexeme "def").1 then parseFuncDef fuel (S.matchLexeme "def").2
      else if (S.matchLexeme "return").1 then parseReturnStmt fuel (S.matchLexeme "return").2
      else if (S.matchLexeme "pass").1 then parsePassStmt (S.matchLexeme "pass").2
      else if (S.matchLexeme "else").1 then
        return (none, (S.matchLexeme "else").2.errorHere "'else' without matching 'if'")
      else if (S.matchLexeme "elif").1 then
        return (none, (S.matchLexeme "elif").2.errorHere "'elif' without matching 'if'")
      else if (S.matchLexeme "break").1 then parseBreakStmt (S.matchLexeme "break").2
      else if (S.matchLexeme "continue").1 then parseContinueStmt (S.matchLexeme "continue").2
      else if S.currentToken.type = TokenType.IDENTIFIER then
        let funcName := S.currentToken.lexeme
        if funcName = "print".toList ∨ funcName = "len".toList ∨ funcName = "input".toList then
          parseBuiltinCall fuel S
        else if nextIsAssignOp S then parseAssignment fuel S
        else
          let (exprStmt, S) ← parseExprStmt fuel S
          match exprStmt with
          | none => return (none, S.errorHere "Invalid expression or unknown statement")
          | some n => return (some n, S)
      else
        let (exprStmt, S) ← parseExprStmt fuel S
        match exprStmt with
        | none => return (none, S.errorHere "Invalid expression or unknown statement")
        | some n => return (some n, S)

/-- `SyntaxAnalyzer::parseIfCore`. -/
def parseIfCore : Nat → SyntaxAnalyzer → Except Fault (Option ParseNode × SyntaxAnalyzer)
  | 0, _ => .error Fault.outOfFuel
  | fuel + 1, S => do
    let (cond, S) ← parseComparison fuel S
    match cond with
    | none => return (none, S.errorHere "Invalid expression in if condition")
    | some cond =>
      if !(S.matchLexeme ":").1 then
        if S.currentToken.lexeme = "=".toList then
          return (none, S.errorHere "Invalid '=' in condition; did you mean '=='?")
        else return (none, S.errorHere "Expected ':' after if condition")
      else
        let S := (S.matchLexeme ":").2
        if !(S.checkIndentation "if").1 then return (none, (S.checkIndentation "if").2)
        else
          let (body, S) ← parseStmt fuel (S.checkIndentation "if").2
          match body with
          | none => return (none, S)
          | some body => return (some (ParseNode.node "IfStmt".toList [] [cond, body]), S)

/-- The loop `while (match("elif"))` of `parseIfChain`, entered after a
successful `match("elif")`, with the node the clauses are attached to.  Each
of the four failure branches of a round (no condition, no ':', no indented
block, no body) runs `delete elifNode` and the round goes on, so the second
failure of a round deletes the node a second time: `Fault.doubleDelete`. -/
def parseElifs : Nat → Option ParseNode → SyntaxAnalyzer → Except Fault (Option ParseNode × SyntaxAnalyzer)
  | 0, _, _ => .error Fault.outOfFuel
  | fuel + 1, node, S => do
    let (cond, S) ← parseComparison fuel S
    let S := if cond.isNone then S.errorHere "Invalid expression in elif condition" else S
    let colon := (S.matchLexeme ":").1
    let S :=
      if !colon then
        if S.currentToken.lexeme = "=".toList then
          S.errorHere "Invalid '=' in condition; did you mean '=='?"
        else S.errorHere "Expected ':' after elif condition"
      else (S.matchLexeme ":").2
    if cond.isNone && !colon then .error Fault.doubleDelete
    else
      let indented := (S.checkIndentation "elif").1
      let S := (S.checkIndentation "elif").2
      if (cond.isNone || !colon) && !indented then .error Fault.doubleDelete
      else
        let (body, S) ← parseStmt fuel S
        if (cond.isNone || !colon || !indented) && body.isNone then .error Fault.doubleDelete
        else
          let validElif := cond.isSome && colon && indented && body.isSome
          let node ←
            match cond, body with
            | some cond, some body =>
              if validElif then
                (pushChild node (ParseNode.node "Elif".toList [] [cond, body])).map some
              else pure node
            | _, _ => pure node
          let S := S.skipWhile isNewline
          let S := S.skipWhile isWsOrDedent
          let S :=
            if !validElif then
              S.skipWhile (fun t => t.type != TokenType.DEDENT && t.lexeme != "elif".toList &&
                t.lexeme != "else".toList)
            else S
          if (S.matchLexeme "elif").1 then parseElifs fuel node (S.matchLexeme "elif").2
          else return (node, S)

/-- `SyntaxAnalyzer::parseIfChain`. -/
def parseIfChain : Nat → Option ParseNode → SyntaxAnalyzer → Except Fault (Option ParseNode × SyntaxAnalyzer)
  | 0, _, _ => .error Fault.outOfFuel
  | fuel + 1, node, S => do
    let S := S.skipWhile isNewline
    let S := S.skipWhile isWsOrDedent
    let (node, S) ←
      if (S.matchLexeme "elif").1 then parseElifs fuel node (S.matchLexeme "elif").2
      else pure (node, S)
    let S := S.skipWhile isWsOrDedent
    if (S.matchLexeme "else").1 then
      let S := (S.matchLexeme "else").2
      if !(S.matchLexeme ":").1 then return (node, S.errorHere "Expected ':' after else")
      else
        let S := (S.matchLexeme ":").2
        if !(S.checkIndentation "else").1 then return (node, (S.checkIndentation "else").2)
        else
          let (body, S) ← parseStmt fuel (S.checkIndentation "else").2
          match body with
          | none => return (node, S)
          | some body =>
            let node ← pushChild node (ParseNode.node "Else".toList [] [body])
            return (some node, S)
    else return (node, S)

/-- `SyntaxAnalyzer::parseForStmt`. -/
def parseForStmt : Nat → SyntaxAnalyzer → Except Fault (Option ParseNode × SyntaxAnalyzer)
  | 0, _ => .error Fault.outOfFuel
  | fuel + 1, S => do
    let (targets, S) ← parseForTargets fuel [] S
    match targets with
    | none => return (none, S)
    | some targets =>
      let targetList := ParseNode.node "TargetList".toList [] targets
      if !(S.matchLexeme "in").1 then
        let S := S.errorHere "Expected 'in' in for loop"
        let S := S.skipToColonOrNewline
        return (none, (S.matchLexeme ":").2)
      else
        let (iterable, S) ← parseComparison fuel (S.matchLexeme "in").2
        match iterable with
        | none => return (none, S)
        | some iterable =>
          if !(S.matchLexeme ":").1 then
            return (none, (S.errorHere "Expected ':' after for header").skipToNewline)
          else
            let S := (S.matchLexeme ":").2
            if !(S.checkIndentation "for").1 then
              return (some (ParseNode.node "ForStmt".toList [] [targetList, iterable]),
                (S.checkIndentation "for").2)
            else
              let (body, S) ← parseStmt fuel (S.checkIndentation "for").2
              match body with
              | none => return (none, S)
              | some body =>
                return (some (ParseNode.node "ForStmt".toList [] [targetList, iterable, body]), S)

/-- `SyntaxAnalyzer::parseWhileStmt`. -/
def parseWhileStmt : Nat → SyntaxAnalyzer → Except Fault (Option ParseNode × SyntaxAnalyzer)
  | 0, _ => .error Fault.outOfFuel
  | fuel + 1, S => do
    let sawParen := (S.matchLexeme "(").1
    let S := (S.matchLexeme "(").2
    let (cond, S) ← parseComparison fuel S
    let S :=
      if cond.isNone then (S.errorHere "Invalid expression in while condition").skipToColonOrNewline
      else S
    let children := cond.toList
    let S :=
      if sawParen then
        if !(S.matchLexeme ")").1 then S.errorHere "Expected ')' after while condition"
        else (S.matchLexeme ")").2
      else S
    let S :=
      if S.currentToken.lexeme = "=".toList then
        ((S.errorHere "Invalid '=' in condition; did you mean '=='?").advance).skipToColonOrNewline
      else S
    if !(S.matchLexeme ":").1 then
      return (some (ParseNode.node "WhileStmt".toList [] children),
        (S.errorHere "Expected ':' after while condition").skipToNewline)
    else
      let S := (S.matchLexeme ":").2
      if !(S.checkIndentation "while").1 then
        return (some (ParseNode.node "WhileStmt".toList [] children),
          (S.checkIndentation "while").2)
      else
        let (body, S) ← parseStmt fuel (S.checkIndentation "while").2
        return (some (ParseNode.node "WhileStmt".toList [] (children ++ body.toList)), S)

/-- `SyntaxAnalyzer::parseFuncDef`. -/
def parseFuncDef : Nat → SyntaxAnalyzer → Except Fault (Option ParseNode × SyntaxAnalyzer)
  | 0, _ => .error Fault.outOfFuel
  | fuel + 1, S => do
    if S.currentToken.type ≠ TokenType.IDENTIFIER then
      return (none, S.errorHere "Expected function name after def")
    else
      let nameNode := ParseNode.leaf "Identifier" S.currentToken.lexeme
      let S := S.advance
      if !(S.matchLexeme "(").1 then
        return (none, S.errorHere "Expected '(' after function name")
      else
        let S := (S.matchLexeme "(").2
        let (params, S) ←
          if S.currentToken.type = TokenType.IDENTIFIER then parseParamList fuel S
          else pure (none, S)
        let children := [nameNode] ++ params.toList
        if !(S.matchLexeme ")").1 then
          if S.currentToken.type = TokenType.IDENTIFIER then
            return (none, S.errorHere "Expected ',' between parameters")
          else return (none, S.errorHere "Expected ')' after parameters")
        else
          let S := (S.matchLexeme ")").2
          if !(S.matchLexeme ":").1 then
            return (none, S.errorHere "Expected ':' after def header")
          else
            let S := (S.matchLexeme ":").2
            if !(S.checkIndentation "def").1 then return (none, (S.checkIndentation "def").2)
            else
              let (body, S) ← parseStmt fuel (S.checkIndentation "def").2
              match body with
              | none => return (none, S)
              | some body =>
                return (some (ParseNode.node "FuncDef".toList [] (children ++ [body])), S)

end

/-- The `while (!isAtEnd())` loop of `parseProgram`, with the children of
the root collected so far; `stmtFuel` is the fuel of each `parseStmt`. -/
def parseProgramLoop (stmtFuel : Nat) : Nat → List ParseNode → SyntaxAnalyzer →
    Except Fault (List ParseNode × SyntaxAnalyzer)
  | 0, _, _ => .error Fault.outOfFuel
  | fuel + 1, children, S =>
    if S.isAtEnd then .ok (children, S)
    else if S.currentToken.type = TokenType.NEWLINE then
      parseProgramLoop stmtFuel fuel children S.advance
    else
      match parseStmt stmtFuel S with
      | .error f => .error f
      | .ok (stmt, S') =>
        parseProgramLoop stmtFuel fuel (children ++ stmt.toList)
          (if S'.pos = S.pos then S'.advance else S')

/-- The fuel given to the parser: a bound, linear in the number of tokens,
on the depth of nested calls and loop rounds. -/
def parseFuel (tokens : List Token) : Nat := 32 * (tokens.length + 1)

/-- `SyntaxAnalyzer::parseProgram` on a fresh `SyntaxAnalyzer(tokens)`: the
root node returned and the state afterwards (its `syntaxErrors` are what
`getErrors()` returns). -/
def parseProgram (tokens : List Token) : Except Fault (ParseNode × SyntaxAnalyzer) :=
  match parseProgramLoop (parseFuel tokens) (tokens.length + 1) [] { tokens := tokens } with
  | .error f => .error f
  | .ok (children, S) => .ok (ParseNode.node "Program".toList [] children, S)

end SyntaxAnalyzer

/-! ## Definitions used to state the properties -/

namespace PythonLexer

/-- `Ext k L L'`: from `L` to `L'` at least `k` characters were consumed and
the tokens of `L'` are those of `L` followed by tokens that are not
end-of-file tokens. -/
def Ext (k : Nat) (L L' : PythonLexer) : Prop :=
  L'.rest.length + k ≤ L.rest.length ∧
    ∃ new, L'.tokens = L.tokens ++ new ∧ ∀ t ∈ new, t.type ≠ TokenType.ENDOFFILE

/-- `Scans L toks L'`: the main loop gives from `L` the result it gives from
`L'`, and `L'` has the tokens of `L` followed by `toks` (lexemes and kinds),
the errors of `L` and its indentation stack. -/
def Scans (L : PythonLexer) (toks : List (List Char × TokenType)) (L' : PythonLexer) : Prop :=
  tokenizeLoop L.rest.length L = tokenizeLoop L'.rest.length L' ∧
    L'.tokenKinds = L.tokenKinds ++ toks ∧ L'.errors = L.errors ∧
    L'.indentStack = L.indentStack

/-- The operator lexemes that occur in the sources of C1 and C2, with the
kind of token of each. -/
def operatorTable : List (List Char × TokenType) :=
  [("+".toList, TokenType.ADDOPERATOR), ("-".toList, TokenType.MINUSOPERATOR),
   ("*".toList, TokenType.MULTIPLYOPERATOR), ("=".toList, TokenType.EQUALOPERATOR),
   ("==".toList, TokenType.COMPAREOPERATOR), ("!=".toList, TokenType.COMPAREOPERATOR),
   ("<=".toList, TokenType.COMPAREOPERATOR), (">=".toList, TokenType.COMPAREOPERATOR),
   ("<".toList, TokenType.COMPAREOPERATOR), (">".toList, TokenType.COMPAREOPERATOR)]

/-- A decimal integer literal in canonical form: one or more digits, with no
leading zero unless the literal is `0`. -/
def canonicalDigits (ds : List Char) : Bool :=
  !ds.isEmpty && ds.all isdigit && (ds == ['0'] || ds.head? != some '0')

/-- The shape of a word that `processIdentifier` accepts: a letter or an
underscore, then letters, digits and underscores, and no digit right after a
leading underscore. -/
def wordShape (w : List Char) : Bool :=
  match w with
  | [] => false
  | c :: cs => (isalpha c || c == '_') && cs.all isWordChar && !(c == '_' && isdigit (cs.headD NUL))

/-- The word matches a keyword without regard to case (the test of
`processIdentifier`). -/
def isKeywordText (w : List Char) : Bool :=
  keywords.any (fun keyword => toLower w == toLower keyword)

/-- The word matches a built-in function name without regard to case (the
test of `processIdentifier`). -/
def isBuiltinText (w : List Char) : Bool :=
  builtinFunctions.any (fun builtin => toLower w == toLower builtin)

/-- An ordinary identifier: a word that is neither a keyword nor a built-in
function name in any letter case. -/
def ordinaryIdentifier (w : List Char) : Bool :=
  wordShape w && !isKeywordText w && !isBuiltinText w

/-- The first character after the white space (other than a newline) that
begins `r`; NUL when there is none. -/
def firstAfterSpace (r : List Char) : Char := (r.dropWhile isInlineSpace).headD NUL

/-- The kind of token of each radix letter of C8. -/
def radixType (r : Char) : Option TokenType :=
  if r = 'x' ∨ r = 'X' then some TokenType.HexadecimalNumber
  else if r = 'b' ∨ r = 'B' then some TokenType.BinaryNumber
  else if r = 'o' ∨ r = 'O' then some TokenType.OCTALNUMBER
  else none

/-- The valid digits of each radix letter of C8: hexadecimal digits after
`x`, `0` and `1` after `b`, `0` to `7` after `o`. -/
def isRadixDigit (r : Char) (c : Char) : Bool :=
  if r = 'x' ∨ r = 'X' then isxdigit c
  else if r = 'b' ∨ r = 'B' then c == '0' || c == '1'
  else if r = 'o' ∨ r = 'O' then decide ('0' ≤ c) && decide (c ≤ '7')
  else false

end PythonLexer

/-! ### Integer expressions (C1) -/

/-- The three binary operators of the expressions of C1. -/
inductive BinOp
  | add
  | sub
  | mul
  deriving DecidableEq, Repr

/-- The character of an operator. -/
def BinOp.char : BinOp → Char
  | .add => '+'
  | .sub => '-'
  | .mul => '*'

/-- The kind of token of an operator. -/
def BinOp.type : BinOp → TokenType
  | .add => TokenType.ADDOPERATOR
  | .sub => TokenType.MINUSOPERATOR
  | .mul => TokenType.MULTIPLYOPERATOR

/-- The integer operation of an operator. -/
def BinOp.apply : BinOp → Int → Int → Int
  | .add, a, b => a + b
  | .sub, a, b => a - b
  | .mul, a, b => a * b

/-- An expression over decimal integer literals, binary `+ - *` and
parentheses, as it is written: the numbers of spaces around an operator and
inside a parenthesis are part of it. -/
inductive IntExpr
  | lit (digits : List Char)
  | paren (before : Nat) (e : IntExpr) (after : Nat)
  | bin (op : BinOp) (l : IntExpr) (before after : Nat) (r : IntExpr)
  deriving Repr

namespace IntExpr

/-- The text of the expression. -/
def render : IntExpr → List Char
  | lit ds => ds
  | paren b e a => '(' :: (List.replicate b ' ' ++ (render e ++ (List.replicate a ' ' ++ [')'])))
  | bin op l b a r =>
    render l ++ (List.replicate b ' ' ++ (op.char :: (List.replicate a ' ' ++ render r)))

/-- The tokens of the expression: lexemes and kinds, in order. -/
def kinds : IntExpr → List (List Char × TokenType)
  | lit ds => [(ds, TokenType.NUMBER)]
  | paren _ e _ => ("(".toList, TokenType.DELIMITER) :: (kinds e ++ [(")".toList, TokenType.DELIMITER)])
  | bin op l _ _ r => kinds l ++ (([op.char], op.type) :: kinds r)

/-- The grammar level of the top of the expression: 0 for a literal or a
parenthesis, 1 for a product, 2 for a sum or a difference. -/
def level : IntExpr → Nat
  | lit _ => 0
  | paren _ _ _ => 0
  | bin .mul _ _ _ _ => 1
  | bin _ _ _ _ _ => 2

/-- The tree is the reading of its text under standard precedence and left
associativity: the right operand of `*` is a literal or a parenthesis and its
left operand is no sum, the right operand of `+` or `-` is no sum; every
literal is a canonical decimal literal. -/
def standard : IntExpr → Bool
  | lit ds => PythonLexer.canonicalDigits ds
  | paren _ e _ => standard e
  | bin .mul l _ _ r => standard l && standard r && decide (level l ≤ 1) && decide (level r = 0)
  | bin _ l _ _ r => standard l && standard r && decide (level r ≤ 1)

end IntExpr

/-- `double` is exact on the integers of magnitude up to 2^53: what
`evalRPN` and `processAssignments` need of it on integer expressions.  IEEE
binary64 with `std::stod`, the operators and the casts of C++ has these
properties. -/
structure DoubleArith.ExactOnIntegers (F : DoubleArith) : Prop where
  stod_digits : ∀ ds : List Char, ds ≠ [] → (∀ c ∈ ds, isdigit c = true) →
    decimalValue ds ≤ 2 ^ 53 → F.stod ds = some (F.ofInt (decimalValue ds))
  add_exact : ∀ a b : Int, a.natAbs ≤ 2 ^ 53 → b.natAbs ≤ 2 ^ 53 → (a + b).natAbs ≤ 2 ^ 53 →
    F.add (F.ofInt a) (F.ofInt b) = F.ofInt (a + b)
  sub_exact : ∀ a b : Int, a.natAbs ≤ 2 ^ 53 → b.natAbs ≤ 2 ^ 53 → (a - b).natAbs ≤ 2 ^ 53 →
    F.sub (F.ofInt a) (F.ofInt b) = F.ofInt (a - b)
  mul_exact : ∀ a b : Int, a.natAbs ≤ 2 ^ 53 → b.natAbs ≤ 2 ^ 53 → (a * b).natAbs ≤ 2 ^ 53 →
    F.mul (F.ofInt a) (F.ofInt b) = F.ofInt (a * b)
  isIntegral_int : ∀ a : Int, a.natAbs ≤ 2 ^ 53 → F.isIntegral (F.ofInt a) = true
  toLongLong_int : ∀ a : Int, a.natAbs ≤ 2 ^ 53 → F.toLongLong (F.ofInt a) = a

/-- The filter of `MainWindow::analyze` (lines 198-205): the tokens handed to
the parser are those that are not comments. -/
def filterComments (tokens : List Token) : List Token :=
  tokens.filter (fun t => t.type != TokenType.COMMENT)

end PyAnalyzer

namespace PyAnalyzer
namespace PythonLexer

/-- A token with its position forgotten. -/
def erase (t : Token) : Token := ⟨t.lexeme, t.type, 0, 0⟩

/-- The token of a lexeme and a kind, at no position. -/
def plain (k : List Char × TokenType) : Token := ⟨k.1, k.2, 0, 0⟩

end PythonLexer

/-- The token of an operator, at no position. -/
def BinOp.token (op : BinOp) : Token := ⟨[op.char], op.type, 0, 0⟩

namespace IntExpr

/-- The postfix form of the expression, as tokens at no position. -/
def rpn : IntExpr → List Token
  | lit ds => [⟨ds, TokenType.NUMBER, 0, 0⟩]
  | paren _ e _ => rpn e
  | bin op l _ _ r => rpn l ++ (rpn r ++ [op.token])

/-- The operators of the expression that the algorithm of `toRPN` still
holds on its stack when the expression has been read (top first). -/
def pending : IntExpr → List Token
  | lit _ => []
  | paren _ _ _ => []
  | bin op _ _ _ r => pending r ++ [op.token]

/-- The part of the postfix form that `toRPN` has written when the expression
has been read. -/
def written : IntExpr → List Token
  | lit ds => [⟨ds, TokenType.NUMBER, 0, 0⟩]
  | paren _ e _ => rpn e
  | bin _ l _ _ r => rpn l ++ written r

end IntExpr

namespace PythonLexer

/-- The operator on top of the stack, when there is one, has a precedence
below `n`. -/
def Low (n : Nat) (ops : List Token) : Prop :=
  ∀ top, ops.head? = some top → precedence top < n

end PythonLexer
end PyAnalyzer

namespace PyAnalyzer

/-! ### The sources of C2 -/

/-- An operand of C2: an identifier or a decimal integer literal. -/
inductive Operand
  | ident (w : List Char)
  | number (ds : List Char)
  deriving Repr

namespace Operand

/-- The text of the operand. -/
def text : Operand → List Char
  | ident w => w
  | number ds => ds

/-- The kind of token of the operand. -/
def type : Operand → TokenType
  | ident _ => TokenType.IDENTIFIER
  | number _ => TokenType.NUMBER

/-- The operand is an ordinary identifier or a canonical decimal literal. -/
def valid : Operand → Bool
  | ident w => PythonLexer.ordinaryIdentifier w
  | number ds => PythonLexer.canonicalDigits ds

/-- The leaf that `parseFactor` builds for the operand. -/
def node : Operand → ParseNode
  | ident w => ParseNode.leaf "Identifier" w
  | number ds => ParseNode.leaf "Number" ds

end Operand

/-- The six comparison operators. -/
def comparators : List String := ["==", "!=", "<=", ">=", "<", ">"]

/-- A simple statement of one line: `pass`, `break`, `continue`, `return`
with or without an operand, an operand alone, or the assignment of an operand
to a name.  The numbers are the spaces written between the tokens (`gap`
stands for `gap + 1` spaces). -/
inductive SimpleStmt
  | passStmt
  | breakStmt
  | continueStmt
  | returnStmt
  | returnValue (gap : Nat) (value : Operand)
  | exprStmt (value : Operand)
  | assignment (target : List Char) (before after : Nat) (value : Operand)
  deriving Repr

namespace SimpleStmt

/-- The text of the statement. -/
def render : SimpleStmt → List Char
  | passStmt => "pass".toList
  | breakStmt => "break".toList
  | continueStmt => "continue".toList
  | returnStmt => "return".toList
  | returnValue gap value => "return".toList ++ (List.replicate (gap + 1) ' ' ++ value.text)
  | exprStmt value => value.text
  | assignment target before after value =>
    target ++ (List.replicate before ' ' ++ ('=' :: (List.replicate after ' ' ++ value.text)))

/-- The tokens of the statement: lexemes and kinds, in order. -/
def kinds : SimpleStmt → List (List Char × TokenType)
  | passStmt => [("pass".toList, TokenType.KEYWORD)]
  | breakStmt => [("break".toList, TokenType.KEYWORD)]
  | continueStmt => [("continue".toList, TokenType.KEYWORD)]
  | returnStmt => [("return".toList, TokenType.KEYWORD)]
  | returnValue _ value => [("return".toList, TokenType.KEYWORD), (value.text, value.type)]
  | exprStmt value => [(value.text, value.type)]
  | assignment target _ _ value =>
    [(target, TokenType.IDENTIFIER), ("=".toList, TokenType.EQUALOPERATOR),
      (value.text, value.type)]

/-- A name that `parseStmt` reads as itself at the head of a statement: an
ordinary identifier other than `len` and `input`. -/
def headName (w : List Char) : Bool :=
  PythonLexer.ordinaryIdentifier w && decide (w ≠ "len".toList) && decide (w ≠ "input".toList)

/-- The operands of the statement are valid, and an identifier at its head is
a `headName`. -/
def valid : SimpleStmt → Bool
  | returnValue _ value => value.valid
  | exprStmt (.ident w) => headName w
  | exprStmt value => value.valid
  | assignment target _ _ value => headName target && value.valid
  | _ => true

/-- The node that `parseStmt` builds for the statement. -/
def node : SimpleStmt → ParseNode
  | passStmt => ParseNode.leaf "PassStmt"
  | breakStmt => ParseNode.leaf "BreakStmt"
  | continueStmt => ParseNode.leaf "ContinueStmt"
  | returnStmt => ParseNode.leaf "ReturnStmt"
  | returnValue _ value => ParseNode.node "ReturnStmt".toList [] [value.node]
  | exprStmt value => ParseNode.node "ExprStmt".toList [] [value.node]
  | assignment target _ _ value =>
    ParseNode.node "Assignment".toList "=".toList [ParseNode.leaf "Identifier" target, value.node]

end SimpleStmt

/-- A source of C2: `if left cmp right:`, a newline, and one simple statement
on an indented line that ends with a newline.  The numbers are the spaces
written between the tokens and at the ends of the lines (`afterIf` and
`indent` stand for one space more). -/
structure IfSource where
  left : Operand
  cmp : String
  right : Operand
  body : SimpleStmt
  afterIf : Nat
  beforeCmp : Nat
  afterCmp : Nat
  beforeColon : Nat
  afterColon : Nat
  indent : Nat
  afterBody : Nat
  deriving Repr

namespace IfSource

/-- The text of the source. -/
def render (s : IfSource) : List Char :=
  "if".toList ++ (List.replicate (s.afterIf + 1) ' ' ++ (s.left.text ++
    (List.replicate s.beforeCmp ' ' ++ (s.cmp.toList ++ (List.replicate s.afterCmp ' ' ++
    (s.right.text ++ (List.replicate s.beforeColon ' ' ++ (':' ::
    (List.replicate s.afterColon ' ' ++ ('\n' :: (List.replicate (s.indent + 1) ' ' ++
    (s.body.render ++ (List.replicate s.afterBody ' ' ++ ['\n'])))))))))))))

/-- The tokens that the main loop of `tokenize` gives for the source
(lexemes and kinds), before the end-of-file token. -/
def kinds (s : IfSource) : List (List Char × TokenType) :=
  [("if".toList, TokenType.KEYWORD), (s.left.text, s.left.type),
    (s.cmp.toList, TokenType.COMPAREOPERATOR), (s.right.text, s.right.type),
    (":".toList, TokenType.DELIMITER), ("\n".toList, TokenType.NEWLINE),
    ([], TokenType.INDENT)] ++ (s.body.kinds ++
    [("\n".toList, TokenType.NEWLINE), ([], TokenType.DEDENT)])

/-- The operands and the body are valid and the operator is one of the six
comparison operators. -/
def valid (s : IfSource) : Bool :=
  s.left.valid && s.right.valid && s.body.valid && comparators.contains s.cmp

/-- The tree of C2 for the source. -/
def tree (s : IfSource) : ParseNode :=
  ParseNode.node "Program".toList []
    [ParseNode.node "IfStmt".toList []
      [ParseNode.node "CompareOp".toList s.cmp.toList [s.left.node, s.right.node], s.body.node]]

end IfSource

namespace PythonLexer

/-- The characters that follow an operand in the sources of C2, after any
spaces: the first character of a comparison operator, the colon and the
newline. -/
def operandStop (c : Char) : Bool :=
  c == '=' || c == '!' || c == '<' || c == '>' || c == ':' || c == '\n'

end PythonLexer

namespace SyntaxAnalyzer

/-- The parser over `tokens` at position `pos`, with no error recorded. -/
def atPos (tokens : List Token) (pos : Nat) : SyntaxAnalyzer := { tokens := tokens, pos := pos }

/-- A token after which an operand is a whole expression: no white space or
comment, and none of `(`, `*`, `/`, `%`, `+`, `-`. -/
def stopsOperand (t : Token) : Bool :=
  t.type != TokenType.WHITESPACE && t.type != TokenType.COMMENT &&
    !(["(", "*", "/", "%", "+", "-"].map String.toList).contains t.lexeme

end SyntaxAnalyzer
end PyAnalyzer

namespace PyAnalyzer
namespace SymbolTable

/-! ### The symbol tables that a run can build -/

/-- The tables that the operations of the class build from the table of the
constructor: `addIdentifier` and `setIdentifierInfo` are the only members
that write to `symbols` and `current_id`. -/
inductive Reachable : SymbolTable → Prop
  | empty : Reachable {}
  | add (t : SymbolTable) (name : List Char) : Reachable t → Reachable (t.addIdentifier name).2
  | set (t : SymbolTable) (name dataType value : List Char) :
    Reachable t → Reachable (t.setIdentifierInfo name dataType value)

/-- The IDs of the entries, oldest entry first. -/
def ids (t : SymbolTable) : List Int := t.symbols.map (fun p => p.2.id)

/-- The names of the entries, oldest entry first. -/
def names (t : SymbolTable) : List (List Char) := t.symbols.map Prod.fst

/-- The integers `1, ..., n`. -/
def firstIds (n : Nat) : List Int := (List.range n).map (fun (k : Nat) => (k : Int) + 1)

end SymbolTable
end PyAnalyzer

namespace PyAnalyzer
namespace PythonLexer

/-! ### Steps that touch neither the indentation stack nor the symbol table -/

/-- The kinds of token that only `handleIndentation` (INDENT, DEDENT) and the
identifier scanners (IDENTIFIER) add. -/
def isReserved (ty : TokenType) : Bool :=
  ty == TokenType.INDENT || ty == TokenType.DEDENT || ty == TokenType.IDENTIFIER

/-- `Inert L L'`: from `L` to `L'` the indentation stack, the symbol table
and the set `addedBuiltins` are unchanged, and the tokens of `L'` are those of
`L` followed by tokens that are no INDENT, DEDENT or IDENTIFIER. -/
def Inert (L L' : PythonLexer) : Prop :=
  L'.indentStack = L.indentStack ∧ L'.symbolTable = L.symbolTable ∧
    L'.addedBuiltins = L.addedBuiltins ∧
    ∃ new, L'.tokens = L.tokens ++ new ∧ ∀ t ∈ new, isReserved t.type = false

/-- The indentation stack as the code keeps it: not empty, 0 at the bottom,
and strictly increasing from the bottom to the top (the list holds the top
first). -/
def StackOk (stack : List Nat) : Prop :=
  stack.getLast? = some 0 ∧ stack.Pairwise (fun upper lower => lower < upper)

/-- The number of tokens of one kind. -/
def countType (ty : TokenType) (tokens : List Token) : Nat :=
  tokens.countP (fun t => t.type == ty)

end PythonLexer
end PyAnalyzer

namespace PyAnalyzer
namespace PythonLexer

/-- `Level L L'`: from `L` to `L'` the indentation stack is unchanged and the
tokens of `L'` are those of `L` followed by tokens that are no INDENT or
DEDENT. -/
def Level (L L' : PythonLexer) : Prop :=
  L'.indentStack = L.indentStack ∧
    ∃ new, L'.tokens = L.tokens ++ new ∧
      ∀ t ∈ new, t.type ≠ TokenType.INDENT ∧ t.type ≠ TokenType.DEDENT

/-- `Anon L L'`: from `L` to `L'` the symbol table and the set `addedBuiltins`
are unchanged and the tokens of `L'` are those of `L` followed by tokens that
are no IDENTIFIER. -/
def Anon (L L' : PythonLexer) : Prop :=
  L'.symbolTable = L.symbolTable ∧ L'.addedBuiltins = L.addedBuiltins ∧
    ∃ new, L'.tokens = L.tokens ++ new ∧ ∀ t ∈ new, t.type ≠ TokenType.IDENTIFIER

/-- The width that `handleIndentation` counts at the start of the line. -/
def lineIndent (L : PythonLexer) : Nat :=
  indentWidth (L.rest.takeWhile (fun c => c == ' ' || c == '\t'))

/-- INDENT tokens minus DEDENT tokens minus the size of the indentation
stack. -/
def indentBalance (L : PythonLexer) : Int :=
  (countType TokenType.INDENT L.tokens : Int) - (countType TokenType.DEDENT L.tokens : Int) -
    (L.indentStack.length : Int)

end PythonLexer
end PyAnalyzer

namespace PyAnalyzer
namespace PythonLexer

/-! ### The order of registration and the order of the tokens -/

/-- The token that `tokenize` adds for the character `(`. -/
def openParen : List Char × TokenType := (['('], TokenType.DELIMITER)

/-- `Ordered kinds t`: every name of the table `t` has an IDENTIFIER token in
`kinds`, and an IDENTIFIER token that is not directly followed by the token
`(` has its name in the table, with a smaller ID than every name of the table
that has no IDENTIFIER token up to that token. -/
def Ordered (kinds : List (List Char × TokenType)) (t : SymbolTable) : Prop :=
  (∀ b, t.count b = true → (b, TokenType.IDENTIFIER) ∈ kinds) ∧
    ∀ (i : Nat) (a : List Char), kinds[i]? = some (a, TokenType.IDENTIFIER) →
      kinds[i + 1]? ≠ some openParen →
      t.count a = true ∧
        ∀ b, t.count b = true →
          (∀ j, j ≤ i → kinds[j]? ≠ some (b, TokenType.IDENTIFIER)) → t.getId a < t.getId b

/-- `Tracked L`: the invariant of the main loop of `tokenize` that relates
the symbol table to the tokens.  After an identifier that was taken for a
call (`pend`), the next token will be `(`. -/
def Tracked (L : PythonLexer) : Prop :=
  L.symbolTable.Reachable ∧ (∀ b ∈ L.addedBuiltins, L.symbolTable.count b = true) ∧
    ∃ pend : Bool, (pend = true → firstAfterSpace L.rest = '(') ∧
      Ordered (L.tokenKinds ++ if pend then [openParen] else []) L.symbolTable

end PythonLexer
end PyAnalyzer

namespace PyAnalyzer
namespace PythonLexer

/-! ### The entry that the specification gives to a literal -/

/-- The specification of the single-token right side (dataType, value):
a STRING gives "string" and its lexeme; the keyword `true` or `false` in any
letter case gives "bool" and the lowercased lexeme; a hexadecimal, binary or
octal literal gives "int" and its text; a NUMBER gives "float" when its text
has a `.`, an `e` or an `E` and "int" otherwise, with its text. -/
def specLiteralEntry (t : Token) : Option (List Char × List Char) :=
  if t.type = TokenType.STRING then some ("string".toList, t.lexeme)
  else if t.type = TokenType.KEYWORD ∧
      (toLower t.lexeme = "true".toList ∨ toLower t.lexeme = "false".toList) then
    some ("bool".toList, toLower t.lexeme)
  else if t.type = TokenType.HexadecimalNumber ∨ t.type = TokenType.BinaryNumber ∨
      t.type = TokenType.OCTALNUMBER then
    some ("int".toList, t.lexeme)
  else if t.type = TokenType.NUMBER then
    some (if '.' ∈ t.lexeme ∨ 'e' ∈ t.lexeme ∨ 'E' ∈ t.lexeme then "float".toList
      else "int".toList, t.lexeme)
  else none

/-- The message of `evalRPN` for a zero right operand of `/` or `%`. -/
def zeroDivisionMessage (ty : TokenType) : List Char :=
  if ty = TokenType.DIVIDEOPERATOR then "Division by zero".toList else "Modulo by zero".toList

end PythonLexer
end PyAnalyzer

namespace PyAnalyzer
namespace SyntaxAnalyzer

/-! ### Errors recorded before a call -/

/-- The state `S` with the errors `es` recorded before those of `S`. -/
def prepend (es : List SyntaxError) (S : SyntaxAnalyzer) : SyntaxAnalyzer :=
  { S with syntaxErrors := es ++ S.syntaxErrors }

/-- The result `x` of a parsing method, with the errors `es` recorded before
those of its state. -/
def lift {α : Type} (es : List SyntaxError) (x : Except Fault (α × SyntaxAnalyzer)) :
    Except Fault (α × SyntaxAnalyzer) :=
  match x with
  | .error f => .error f
  | .ok p => .ok (p.1, p.2.prepend es)

end SyntaxAnalyzer
end PyAnalyzer

namespace PyAnalyzer

namespace ParseNode

mutual
/-- The names of the nodes of a tree, the root first. -/
def names : ParseNode → List (List Char)
  | node n _ cs => n :: namesOfList cs
/-- The names of the nodes of a list of trees. -/
def namesOfList : List ParseNode → List (List Char)
  | [] => []
  | c :: cs => names c ++ namesOfList cs
end

end ParseNode

/-! ### The sources of C13 -/

/-- A source of C13: `elif name:`, a newline, and the line `pass` indented,
with a newline after it.  The numbers count the spaces between the tokens;
`afterElif` and `indent` count the spaces after the first one. -/
structure OrphanElif where
  name : List Char
  afterElif : Nat
  beforeColon : Nat
  afterColon : Nat
  indent : Nat
  afterPass : Nat

namespace OrphanElif

/-- The text of the source. -/
def render (s : OrphanElif) : List Char :=
  "elif".toList ++ (List.replicate (s.afterElif + 1) ' ' ++ (s.name ++
    (List.replicate s.beforeColon ' ' ++ (':' :: (List.replicate s.afterColon ' ' ++
    ('\n' :: (List.replicate (s.indent + 1) ' ' ++ ("pass".toList ++
    (List.replicate s.afterPass ' ' ++ ['\n'])))))))))

/-- The tokens of the source before the end-of-file token, positions
forgotten. -/
def kinds (s : OrphanElif) : List (List Char × TokenType) :=
  [("elif".toList, TokenType.KEYWORD), (s.name, TokenType.IDENTIFIER),
    (":".toList, TokenType.DELIMITER), ("\n".toList, TokenType.NEWLINE),
    ([], TokenType.INDENT), ("pass".toList, TokenType.KEYWORD),
    ("\n".toList, TokenType.NEWLINE), ([], TokenType.DEDENT)]

/-- The tree that `parseProgram` returns for the source. -/
def tree (s : OrphanElif) : ParseNode :=
  ParseNode.node "Program".toList []
    [ParseNode.node "ExprStmt".toList [] [ParseNode.leaf "Identifier" s.name],
      ParseNode.leaf "PassStmt"]

end OrphanElif

end PyAnalyzer

namespace PyAnalyzer
namespace PythonLexer

/-! ### The two-character operators (C24) -/

/-- The two-character operators of C24, with the kind of token that
`processOperator` gives to each. -/
def compoundOperators : List (List Char × TokenType) :=
  [("==".toList, TokenType.COMPAREOPERATOR), ("!=".toList, TokenType.COMPAREOPERATOR),
   ("<=".toList, TokenType.COMPAREOPERATOR), (">=".toList, TokenType.COMPAREOPERATOR),
   ("<<".toList, TokenType.OPERATOR), (">>".toList, TokenType.OPERATOR),
   ("**".toList, TokenType.POWEROPERATOR), ("+=".toList, TokenType.ADD_ASSIGN),
   ("-=".toList, TokenType.SUB_ASSIGN), ("*=".toList, TokenType.MULTIPLYASSIGN)]

end PythonLexer
end PyAnalyzer

namespace PyAnalyzer
namespace PythonLexer

/-- Some token of the list is an IDENTIFIER directly followed by an
EQUALOPERATOR token: the post-pass finds an assignment. -/
def hasAssignment : List Token → Bool
  | a :: b :: ts =>
    (a.type == TokenType.IDENTIFIER && b.type == TokenType.EQUALOPERATOR) ||
      hasAssignment (b :: ts)
  | _ => false

end PythonLexer
end PyAnalyzer

namespace PyAnalyzer

/-! ### The body of a string literal (C22) -/

/-- A piece of the text between the quotes of a string literal: a character
written as itself, or a backslash and the character after it. -/
inductive StringPiece
  | plain (c : Char)
  | escape (c : Char)
  deriving DecidableEq, Repr

namespace StringPiece

/-- The source characters of the piece. -/
def source : StringPiece → List Char
  | plain c => [c]
  | escape c => ['\\', c]

/-- The character of the piece other than the backslash of an escape. -/
def kept : StringPiece → Char
  | plain c => c
  | escape c => c

/-- The piece may stand between two quotes `quote` on one line: a plain
character is no quote, backslash, newline or NUL, and the character after a
backslash is no newline or NUL. -/
def fits (quote : Char) : StringPiece → Bool
  | plain c => c != quote && c != '\\' && c != '\n' && c != NUL
  | escape c => c != '\n' && c != NUL

/-- The piece is a plain character. -/
def isPlain : StringPiece → Bool
  | plain _ => true
  | escape _ => false

end StringPiece

/-- The source text of a list of pieces. -/
def stringBody : List StringPiece → List Char
  | [] => []
  | p :: ps => p.source ++ stringBody ps

/-- The condition on the first piece of a literal: when it is an escape, the
escaped character is neither the quote nor a backslash (`processString`
reads a backslash right after the opening quote apart from the others). -/
def firstPieceFits (quote : Char) : List StringPiece → Bool
  | StringPiece.escape c :: _ => c != quote && c != '\\'
  | _ => true

/-- The escape right after the opening quote is one that `processString`
reports: the escaped character is none of `n`, `t`, backslash and the two
quotes. -/
def firstEscapeReported : List StringPiece → Bool
  | StringPiece.escape c :: _ => c != 'n' && c != 't' && c != '\\' && c != '"' && c != '\''
  | _ => false

end PyAnalyzer

namespace PyAnalyzer

/-! ### Infix expressions over tokens (C28) -/

/-- An arithmetic expression as a tree over its tokens: an operand, an
expression between a `(` token and a `)` token, or two expressions joined by
an operator token. -/
inductive Infix
  | operand (t : Token)
  | paren (lp rp : Token) (e : Infix)
  | bin (op : Token) (l r : Infix)
  deriving Repr

namespace Infix

/-- The tokens of the expression, in the order of the text. -/
def tokens : Infix → List Token
  | operand t => [t]
  | paren lp rp e => lp :: (tokens e ++ [rp])
  | bin op l r => tokens l ++ (op :: tokens r)

/-- The postfix form of the expression: the operands in the order of the
text, each operator after its two operands, no parenthesis. -/
def rpn : Infix → List Token
  | operand t => [t]
  | paren _ _ e => rpn e
  | bin op l r => rpn l ++ (rpn r ++ [op])

/-- The binary operators of the specification: the text, the kind of token
the lexer makes of it (`processOperator`), the level of precedence (`**`
above `*`, `/`, `%`, and these above `+`, `-`) and whether the operator is
right-associative (only `**` is). -/
def specOperators : List (List Char × TokenType × Nat × Bool) :=
  [("**".toList, TokenType.POWEROPERATOR, 3, true),
   ("*".toList, TokenType.MULTIPLYOPERATOR, 2, false),
   ("/".toList, TokenType.DIVIDEOPERATOR, 2, false),
   ("%".toList, TokenType.PERCENTAGEOPERATOR, 2, false),
   ("+".toList, TokenType.ADDOPERATOR, 1, false),
   ("-".toList, TokenType.MINUSOPERATOR, 1, false)]

/-- The level and the associativity that the specification gives the token,
when the token is one of its binary operators. -/
def specEntry (op : Token) : Option (Nat × Bool) :=
  (specOperators.find? (fun e => e.1 == op.lexeme && e.2.1 == op.type)).map (fun e => e.2.2)

/-- The kinds of the tokens that stand for a value: the four kinds of
numbers, identifiers and keywords. -/
def specOperandKinds : List TokenType :=
  [TokenType.NUMBER, TokenType.HexadecimalNumber, TokenType.BinaryNumber,
   TokenType.OCTALNUMBER, TokenType.IDENTIFIER, TokenType.KEYWORD]

/-- How tightly the top of the expression binds by the specification: the
level of its operator, and 4 for an operand or a parenthesis. -/
def level : Infix → Nat
  | bin op _ _ => ((specEntry op).map (fun e => e.1)).getD 0
  | _ => 4

/-- The tree is the reading of its tokens that the specification gives: an
operand is a token that stands for a value, a parenthesis is written with the
delimiters `(` and `)`, an operator is one of `specOperators`; the operands
of a left-associative operator bind at least as tightly on the left and
strictly more tightly on the right, those of the right-associative `**`
strictly more tightly on the left and at least as tightly on the right. -/
def wellFormed : Infix → Bool
  | operand t => specOperandKinds.contains t.type
  | paren lp rp e =>
    lp.lexeme == "(".toList && lp.type == TokenType.DELIMITER &&
    rp.lexeme == ")".toList && rp.type == TokenType.DELIMITER && wellFormed e
  | bin op l r =>
    match specEntry op with
    | none => false
    | some (n, rightAssoc) =>
      wellFormed l && wellFormed r &&
      (if rightAssoc then decide (n < level l) && decide (n ≤ level r)
      else decide (n ≤ level l) && decide (n < level r))

/-- How tightly the top of the expression binds for the loop of `toRPN`: the
value of its lambda `precedence` at the operator, and 5 for an operand or a
parenthesis. -/
def stackStrength : Infix → Nat
  | bin op _ _ => PythonLexer.precedence op
  | _ => 5

/-- The condition on a tree under which the loop of `toRPN` writes its
postfix form, stated with the lambdas `precedence` and `isLeftAssoc` of the
code and the tests of `toRPN` on the kinds of the tokens. -/
def stackOrdered : Infix → Bool
  | operand t => PythonLexer.isOperandType t.type
  | paren lp rp e =>
    lp.lexeme == "(".toList && !PythonLexer.isOperandType lp.type &&
      !PythonLexer.isArithOperatorType lp.type &&
    rp.lexeme == ")".toList && !PythonLexer.isOperandType rp.type &&
      !PythonLexer.isArithOperatorType rp.type && stackOrdered e
  | bin op l r =>
    PythonLexer.isArithOperatorType op.type && op.lexeme != "(".toList &&
      op.lexeme != ")".toList && stackOrdered l && stackOrdered r &&
    (if PythonLexer.isLeftAssoc op then
      decide (PythonLexer.precedence op ≤ stackStrength l) &&
        decide (PythonLexer.precedence op < stackStrength r)
    else
      decide (PythonLexer.precedence op < stackStrength l) &&
        decide (PythonLexer.precedence op ≤ stackStrength r))

/-- The operators of the expression that the algorithm of `toRPN` still
holds on its stack when the expression has been read (top first). -/
def pending : Infix → List Token
  | bin op _ r => pending r ++ [op]
  | _ => []

/-- The part of the postfix form that `toRPN` has written when the expression
has been read. -/
def written : Infix → List Token
  | operand t => [t]
  | paren _ _ e => rpn e
  | bin _ l r => rpn l ++ written r

end Infix

namespace PythonLexer

/-- The least precedence of a stacked operator that the operator `op` pops
(lines 852-859 of `toRPN`). -/
def popsFrom (op : Token) : Nat :=
  if isLeftAssoc op then precedence op else precedence op + 1

end PythonLexer

/-- The precedence below which the operator on top of the stack must be when
the expression starts, for the algorithm to leave the stack as it is. -/
def Infix.guard : Infix → Nat
  | .bin op _ _ => PythonLexer.popsFrom op
  | _ => 5

end PyAnalyzer

namespace PyAnalyzer

/-! ### Arithmetic expressions and comparisons as the parser reads them (C30) -/

/-- An arithmetic expression over operands, the binary operators `+ - * / %`
and parentheses. -/
inductive Arith
  | atom (o : Operand)
  | paren (e : Arith)
  | bin (op : String) (l r : Arith)
  deriving Repr

namespace Arith

/-- The kind of token of an operator lexeme. -/
def opType (op : String) : TokenType :=
  if op = "+" then TokenType.ADDOPERATOR
  else if op = "-" then TokenType.MINUSOPERATOR
  else if op = "*" then TokenType.MULTIPLYOPERATOR
  else if op = "/" then TokenType.DIVIDEOPERATOR
  else if op = "%" then TokenType.PERCENTAGEOPERATOR
  else TokenType.OPERATOR

/-- The tokens of the expression: lexemes and kinds, in order. -/
def kinds : Arith → List (List Char × TokenType)
  | atom o => [(o.text, o.type)]
  | paren e => ("(".toList, TokenType.DELIMITER) :: (kinds e ++ [(")".toList, TokenType.DELIMITER)])
  | bin op l r => kinds l ++ ((op.toList, opType op) :: kinds r)

/-- The operator is one of `* / %`. -/
def isMulOp (op : String) : Bool := op == "*" || op == "/" || op == "%"

/-- The operator is one of `+ -`. -/
def isAddOp (op : String) : Bool := op == "+" || op == "-"

/-- The grammar level of the top of the expression: 0 for an operand or a
parenthesis (a factor), 1 for `* / %` (a term), 2 for `+ -`. -/
def level : Arith → Nat
  | atom _ => 0
  | paren _ => 0
  | bin op _ _ => if isMulOp op then 1 else 2

/-- The tree is the reading of its tokens under the grammar
`expression := term {(+|-) term}`, `term := factor {(*|/|%) factor}`: the
right operand of `* / %` is a factor and its left operand a term, the right
operand of `+ -` is a term; the operands are valid. -/
def standard : Arith → Bool
  | atom o => o.valid
  | paren e => standard e
  | bin op l r =>
    if isMulOp op then standard l && standard r && decide (level l ≤ 1) && decide (level r = 0)
    else if isAddOp op then standard l && standard r && decide (level r ≤ 1)
    else false

/-- The node that the parser builds: the leaf of an operand, the node of the
inner expression for a parenthesis, and `Operator(op, left, right)`. -/
def tree : Arith → ParseNode
  | atom o => o.node
  | paren e => tree e
  | bin op l r => ParseNode.node "Operator".toList op.toList [tree l, tree r]

/-- A bound on the fuel that parsing the expression takes. -/
def cost : Arith → Nat
  | atom _ => 1
  | paren e => cost e + 3
  | bin _ l r => cost l + cost r + 2

/-- The number of rounds of the loop of `parseTerm` on the expression. -/
def termRounds : Arith → Nat
  | bin op l _ => if isMulOp op then termRounds l + 1 else 0
  | _ => 0

/-- The number of rounds of the loop of `parseExpression` that build a node. -/
def exprRounds : Arith → Nat
  | bin op l _ => if isMulOp op then 0 else exprRounds l + 1
  | _ => 0

end Arith

/-- A chain of comparisons: an expression and any number of comparison
operators, each with the expression on its right. -/
structure CmpChain where
  first : Arith
  rest : List (String × Arith)

namespace CmpChain

/-- The tokens of the comparisons after the first expression. -/
def restKinds : List (String × Arith) → List (List Char × TokenType)
  | [] => []
  | (c, e) :: rest => (c.toList, TokenType.COMPAREOPERATOR) :: (e.kinds ++ restKinds rest)

/-- The tokens of the chain. -/
def kinds (ch : CmpChain) : List (List Char × TokenType) := ch.first.kinds ++ restKinds ch.rest

/-- The fold of `parseComparison`: each comparison takes the node built so
far as its left child. -/
def fold : ParseNode → List (String × Arith) → ParseNode
  | left, [] => left
  | left, (c, e) :: rest => fold (ParseNode.node "CompareOp".toList c.toList [left, e.tree]) rest

/-- The node that `parseComparison` builds. -/
def tree (ch : CmpChain) : ParseNode := fold ch.first.tree ch.rest

/-- The expressions are in standard form and the operators are comparison
operators. -/
def valid (ch : CmpChain) : Bool :=
  ch.first.standard && ch.rest.all (fun p => comparators.contains p.1 && p.2.standard)

/-- A bound on the fuel that parsing the chain takes. -/
def cost (ch : CmpChain) : Nat :=
  ch.first.cost + (ch.rest.map (fun p => p.2.cost + 4)).sum + 4

end CmpChain

namespace SyntaxAnalyzer

/-- The tokens of `ts` from index `i` on have the lexemes and kinds `K`. -/
def holdsAt (ts : List Token) (i : Nat) (K : List (List Char × TokenType)) : Prop :=
  ∀ (j : Nat) (k : List Char × TokenType), K.get? j = some k →
    ∃ t, ts.get? (i + j) = some t ∧ t.lexeme = k.1 ∧ t.type = k.2

/-- A token after which a term is complete: no white space or comment, and
none of `(`, `*`, `/`, `%`. -/
def stopsTerm (t : Token) : Bool :=
  t.type != TokenType.WHITESPACE && t.type != TokenType.COMMENT &&
    !(["(", "*", "/", "%"].map String.toList).contains t.lexeme

/-- A token after which a chain of comparisons is complete: it stops an
expression and is no comparison operator. -/
def stopsComparison (t : Token) : Bool :=
  stopsOperand t && !(comparators.map String.toList).contains t.lexeme

end SyntaxAnalyzer

end PyAnalyzer

namespace PyAnalyzer
namespace SyntaxAnalyzer

/-- A token list with the given lexemes and kinds, all placed at line 1,
column 1. -/
def tokensOfKinds (K : List (List Char × TokenType)) : List Token :=
  K.map (fun k => ⟨k.1, k.2, 1, 1⟩)

end SyntaxAnalyzer
end PyAnalyzer

namespace PyAnalyzer
namespace SyntaxAnalyzer

/-! ### The measure of the parser: the tokens still ahead (C21) -/

/-- The parser `S` reads `ts` and has at most `n` tokens ahead. -/
def Within (ts : List Token) (n : Nat) (S : SyntaxAnalyzer) : Prop :=
  S.tokens = ts ∧ ts.length - S.pos ≤ n

/-- The parser `S` reads `ts`, a token was consumed since there were at most
`n` tokens ahead. -/
def Past (ts : List Token) (n : Nat) (S : SyntaxAnalyzer) : Prop :=
  1 ≤ n ∧ Within ts (n - 1) S

/-- The run did not stop for lack of fuel, and the parser it returns reads
`ts` with at most `n` tokens ahead. -/
def Safe {α : Type} (ts : List Token) (n : Nat) : Except Fault (α × SyntaxAnalyzer) → Prop
  | .error f => f ≠ Fault.outOfFuel
  | .ok (_, T) => Within ts n T

/-- The run did not stop for lack of fuel. -/
def Fuelled {α : Type} : Except Fault α → Prop
  | .error f => f ≠ Fault.outOfFuel
  | .ok _ => True

/-- The state with which the loop of `parseProgram` goes on after a
statement that ended in `S1`, entered in `S`: one token is skipped when the
statement consumed nothing. -/
def afterStmt (S S1 : SyntaxAnalyzer) : SyntaxAnalyzer :=
  if S1.pos = S.pos then S1.advance else S1

end SyntaxAnalyzer
end PyAnalyzer

namespace PyAnalyzer
namespace SyntaxAnalyzer

/-- The statement parsers with fuel `fuel` do not run out of fuel when
started with `n` tokens ahead and `32 * n` and a few units more of fuel, and
the tokens ahead do not grow. -/
def StatementsSafe (ts : List Token) (fuel : Nat) : Prop :=
  (∀ n S, Within ts n S → 32 * n + 5 ≤ fuel → Safe ts n (parseStmt fuel S)) ∧
  (∀ n S, Within ts n S → 32 * n + 5 ≤ fuel → Safe ts n (parseIfCore fuel S)) ∧
  (∀ n node S, Within ts n S → 32 * n + 6 ≤ fuel → Safe ts n (parseElifs fuel node S)) ∧
  (∀ n node S, Within ts n S → 32 * n + 1 ≤ fuel → Safe ts n (parseIfChain fuel node S)) ∧
  (∀ n S, Within ts n S → 32 * n + 5 ≤ fuel → Safe ts n (parseForStmt fuel S)) ∧
  (∀ n S, Within ts n S → 32 * n + 5 ≤ fuel → Safe ts n (parseWhileStmt fuel S)) ∧
  (∀ n S, Within ts n S → 32 * n + 5 ≤ fuel → Safe ts n (parseFuncDef fuel S))

end SyntaxAnalyzer
end PyAnalyzer

namespace PyAnalyzer
namespace PythonLexer

/-! ### Errors added after the scan -/

/-- `Stamped L L'`: from `L` to `L'` the position (line and column) and the
tokens are unchanged, and the errors of `L'` are those of `L` followed by
errors that all carry the position of `L`. -/
def Stamped (L L' : PythonLexer) : Prop :=
  L'.line = L.line ∧ L'.column = L.column ∧ L'.tokens = L.tokens ∧
    ∃ new, L'.errors = L.errors ++ new ∧ ∀ e ∈ new, e.line = L.line ∧ e.column = L.column

end PythonLexer
end PyAnalyzer

namespace PyAnalyzer
namespace PythonLexer

/-! ### Balanced parentheses -/

/-- Whether the tokens whose lexeme is "(" or ")" are balanced, read from
the left with `depth` parentheses open: no ")" comes with none open, and
none is open at the end.  This is the notion of the specification; `toRPN`
does not use it. -/
def balancedFrom : Nat → List Token → Bool
  | depth, [] => depth == 0
  | depth, t :: input =>
    if t.lexeme = "(".toList then balancedFrom (depth + 1) input
    else if t.lexeme = ")".toList then
      match depth with
      | 0 => false
      | depth + 1 => balancedFrom depth input
    else balancedFrom depth input

/-- The tokens whose lexeme is "(" or ")" are balanced. -/
def parenthesesBalanced (input : List Token) : Bool := balancedFrom 0 input

/-- No token that `toRPN` takes for an operand or an operator by its type
has the lexeme "(" or ")".  The tokens of `tokenize` are so: the lexeme of a
number, a name or a keyword has no parenthesis, and an operator is made of
operator characters. -/
def PlainOperands (input : List Token) : Prop :=
  ∀ t ∈ input, (isOperandType t.type || isArithOperatorType t.type) = true →
    t.lexeme ≠ "(".toList ∧ t.lexeme ≠ ")".toList

/-- The number of "(" on the operator stack of `toRPN`. -/
def opens (ops : List Token) : Nat := ops.countP (fun u => u.lexeme == "(".toList)

/-- The operator stack of `toRPN` holds no ")" and its "(" are not
operators. -/
def OpsOk (ops : List Token) : Prop :=
  ∀ u ∈ ops, u.lexeme ≠ ")".toList ∧ (u.lexeme = "(".toList → precedence u = 0)

end PythonLexer
end PyAnalyzer

namespace PyAnalyzer
namespace SyntaxAnalyzer

/-- The lexemes that `parseStmt` and `parseFactor` test with `match` before
the kind of the token is looked at. -/
def matchedLexemes : List String :=
  ["if", "for", "while", "def", "return", "pass", "else", "elif", "break", "continue", ":", "("]

end SyntaxAnalyzer
end PyAnalyzer

namespace PyAnalyzer

/-! ### An `if` statement with a block of several lines -/

/-- An `if` header with a chain of comparisons as its condition, followed by
an indented block of two or more simple statements, one per line, at the
same indentation. -/
structure IfBlock where
  cond : CmpChain
  first : SimpleStmt
  second : SimpleStmt
  others : List SimpleStmt

namespace IfBlock

/-- The tokens of the lines of a block: each statement and its NEWLINE. -/
def lineKinds : List SimpleStmt → List (List Char × TokenType)
  | [] => []
  | s :: ss => s.kinds ++ (("\n".toList, TokenType.NEWLINE) :: lineKinds ss)

/-- The tokens of the source, up to the end-of-file token: the header, the
NEWLINE, the INDENT, the lines of the block and the DEDENT. -/
def kinds (b : IfBlock) : List (List Char × TokenType) :=
  ("if".toList, TokenType.KEYWORD) :: (b.cond.kinds ++
    ((":".toList, TokenType.DELIMITER) :: ("\n".toList, TokenType.NEWLINE) ::
      ([], TokenType.INDENT) ::
      (lineKinds (b.first :: b.second :: b.others) ++ [([], TokenType.DEDENT)])))

/-- The condition and the statements are valid. -/
def valid (b : IfBlock) : Bool :=
  b.cond.valid && b.first.valid && b.second.valid && b.others.all SimpleStmt.valid

/-- The tree: an `IfStmt` with the condition and the first statement of the
block, followed by the other statements of the block as children of
`Program`. -/
def tree (b : IfBlock) : ParseNode :=
  ParseNode.node "Program".toList []
    (ParseNode.node "IfStmt".toList [] [b.cond.tree, b.first.node] ::
      b.second.node :: b.others.map SimpleStmt.node)

end IfBlock

end PyAnalyzer

namespace PyAnalyzer
namespace SyntaxAnalyzer

/-! ### The position of the parser and the first end-of-file token -/

/-- The index of the first ENDOFFILE token of the list, and the length of
the list when it has none. -/
def eofIndex : List Token → Nat
  | [] => 0
  | t :: ts => if t.type = TokenType.ENDOFFILE then 0 else eofIndex ts + 1

/-- The parser `S` reads `ts` and its position is not after the first
ENDOFFILE token. -/
def Bounded (ts : List Token) (S : SyntaxAnalyzer) : Prop :=
  S.tokens = ts ∧ S.pos ≤ eofIndex ts

/-- The state that a run returns, if it returns one, is `Bounded`. -/
def Keeps {α : Type} (ts : List Token) : Except Fault (α × SyntaxAnalyzer) → Prop
  | .error _ => True
  | .ok (_, T) => Bounded ts T

end SyntaxAnalyzer
end PyAnalyzer

namespace PyAnalyzer
namespace SyntaxAnalyzer

/-- The statement parsers with fuel `fuel` return a `Bounded` state when
they are entered in one. -/
def StatementsKeep (ts : List Token) (fuel : Nat) : Prop :=
  (∀ S, Bounded ts S → Keeps ts (parseStmt fuel S)) ∧
  (∀ S, Bounded ts S → Keeps ts (parseIfCore fuel S)) ∧
  (∀ node S, Bounded ts S → Keeps ts (parseElifs fuel node S)) ∧
  (∀ node S, Bounded ts S → Keeps ts (parseIfChain fuel node S)) ∧
  (∀ S, Bounded ts S → Keeps ts (parseForStmt fuel S)) ∧
  (∀ S, Bounded ts S → Keeps ts (parseWhileStmt fuel S)) ∧
  (∀ S, Bounded ts S → Keeps ts (parseFuncDef fuel S))

end SyntaxAnalyzer
end PyAnalyzer

namespace PyAnalyzer
namespace PythonLexer

/-! ### The lexemes of the operands and operators that `tokenize` makes -/

/-- The text is not empty and starts with a character other than a
parenthesis. -/
def headOk : List Char → Bool
  | [] => false
  | c :: _ => c != '(' && c != ')'

/-- The text has no parenthesis. -/
def noParen (l : List Char) : Bool := l.all (fun c => c != '(' && c != ')')

/-- A token of this lexeme and kind is not one that `toRPN` takes for an
operand or an operator while its lexeme is "(" or ")". -/
def plainKind (l : List Char) (ty : TokenType) : Prop :=
  (isOperandType ty || isArithOperatorType ty) = true → l ≠ "(".toList ∧ l ≠ ")".toList

/-- Every token held by the lexer is `plainKind`. -/
def AllPlain (L : PythonLexer) : Prop := ∀ t ∈ L.tokens, plainKind t.lexeme t.type

end PythonLexer
end PyAnalyzer


namespace PyAnalyzer
namespace PythonLexer

/-! ## Progress of the scanning functions -/

@[simp] theorem rest_addToken (L : PythonLexer) (l : List Char) (ty : TokenType) :
    (L.addToken l ty).rest = L.rest := rfl

@[simp] theorem rest_addError (L : PythonLexer) (m : List Char) :
    (L.addError m).rest = L.rest := rfl

@[simp] theorem rest_advance (L : PythonLexer) : L.advance.rest = L.rest.tail := by
  unfold advance
  split
  · simp [*]
  · split <;> simp [*]

@[simp] theorem rest_advanceN (n : Nat) (L : PythonLexer) :
    (L.advanceN n).rest = L.rest.drop n := by
  induction n generalizing L with
  | zero => rfl
  | succ n ih => simp [advanceN, ih, List.drop_succ_cons, List.tail_drop]

@[simp] theorem tokens_addError (L : PythonLexer) (m : List Char) :
    (L.addError m).tokens = L.tokens := rfl

@[simp] theorem tokens_addToken (L : PythonLexer) (l : List Char) (ty : TokenType) :
    (L.addToken l ty).tokens = L.tokens ++ [⟨l, ty, L.line, L.column - (l.length : Int)⟩] := rfl

@[simp] theorem tokens_advance (L : PythonLexer) : L.advance.tokens = L.tokens := by
  unfold advance
  split
  · rfl
  · split <;> rfl

@[simp] theorem tokens_advanceN (n : Nat) (L : PythonLexer) :
    (L.advanceN n).tokens = L.tokens := by
  induction n generalizing L with
  | zero => rfl
  | succ n ih => simp [advanceN, ih]

theorem rest_ne_nil_of_current {L : PythonLexer} (h : L.current ≠ NUL) : L.rest ≠ [] := by
  intro h0
  apply h
  simp [current, h0]

theorem Ext.refl (L : PythonLexer) : Ext 0 L L :=
  ⟨le_refl _, [], by simp, by simp⟩

theorem Ext.trans {a b : Nat} {L L' L'' : PythonLexer} (h : Ext a L L') (h' : Ext b L' L'') :
    Ext (a + b) L L'' := by
  obtain ⟨h1, n1, e1, p1⟩ := h
  obtain ⟨h2, n2, e2, p2⟩ := h'
  refine ⟨by omega, n1 ++ n2, by rw [e2, e1, List.append_assoc], ?_⟩
  intro t ht
  rcases List.mem_append.mp ht with h | h
  · exact p1 t h
  · exact p2 t h

theorem Ext.mono_zero {a : Nat} {L L' : PythonLexer} (h : Ext a L L') : Ext 0 L L' :=
  ⟨by have := h.1; omega, h.2⟩

theorem Ext.of_eq {k : Nat} {L L' X : PythonLexer} (h : Ext k L L') (hr : X.rest = L'.rest)
    (ht : X.tokens = L'.tokens) : Ext k L X := by
  unfold Ext at *
  rw [hr, ht]
  exact h

theorem Ext.addError {k : Nat} {L L' : PythonLexer} (h : Ext k L L') (m : List Char) :
    Ext k L (L'.addError m) := h.of_eq rfl rfl

theorem Ext.addToken {k : Nat} {L L' : PythonLexer} (h : Ext k L L') (l : List Char)
    (ty : TokenType) (hty : ty ≠ TokenType.ENDOFFILE) : Ext k L (L'.addToken l ty) := by
  have : Ext 0 L' (L'.addToken l ty) :=
    ⟨le_refl _, [_], rfl, by simpa using hty⟩
  simpa using h.trans this

theorem Ext.advance {k : Nat} {L L' : PythonLexer} (h : Ext k L L') : Ext k L L'.advance := by
  have : Ext 0 L' L'.advance := ⟨by simp, [], by simp, by simp⟩
  simpa using h.trans this

theorem Ext.advanceN {k : Nat} {L L' : PythonLexer} (h : Ext k L L') (n : Nat) :
    Ext k L (L'.advanceN n) := by
  have : Ext 0 L' (L'.advanceN n) := ⟨by simp, [], by simp, by simp⟩
  simpa using h.trans this

theorem Ext.advance_succ {k : Nat} {L L' : PythonLexer} (h : Ext k L L') (hne : L'.rest ≠ []) :
    Ext (k + 1) L L'.advance := by
  have hpos : 0 < L'.rest.length := List.length_pos.mpr hne
  have : Ext 1 L' L'.advance := ⟨by simp; omega, [], by simp, by simp⟩
  exact h.trans this

theorem Ext.ite {k : Nat} {L A B : PythonLexer} {c : Prop} [Decidable c]
    (ha : c → Ext k L A) (hb : ¬c → Ext k L B) : Ext k L (if c then A else B) := by
  split
  · exact ha ‹_›
  · exact hb ‹_›

theorem Ext.takeWord {k : Nat} {L L' : PythonLexer} (h : Ext k L L') :
    Ext k L (PythonLexer.takeWord L').2 :=
  h.advanceN _

/-- A run whose first character passes the test is not empty. -/
theorem Ext.advance_run {L : PythonLexer} (p : Char → Bool) (hne : L.rest ≠ [])
    (hp : p L.current = true) : Ext 1 L (L.advanceN (L.rest.takeWhile p).length) := by
  obtain ⟨c, cs, hcs⟩ := List.exists_cons_of_ne_nil hne
  have hc : p c = true := by simpa [current, hcs] using hp
  refine ⟨?_, [], by simp, by simp⟩
  simp [hcs, List.takeWhile_cons, hc]

theorem processOperator_ext (L : PythonLexer) (h : L.rest ≠ []) :
    Ext 1 L (processOperator L) := by
  have adv1 : ∀ X : PythonLexer, Ext 0 L X → X.rest = L.rest → Ext 1 L X.advance := by
    intro X hX hr
    simpa using hX.advance_succ (by rw [hr]; exact h)
  have adv2 : ∀ X : PythonLexer, Ext 0 L X → X.rest = L.rest → Ext 1 L X.advance.advance :=
    fun X hX hr => (adv1 X hX hr).advance
  have tok : ∀ (l : List Char) (ty : TokenType), ty ≠ TokenType.ENDOFFILE →
      Ext 0 L (L.addToken l ty) := fun l ty hty => (Ext.refl L).addToken l ty hty
  have err : ∀ m : List Char, Ext 0 L (L.addError m) := fun m => (Ext.refl L).addError m
  unfold processOperator
  dsimp only
  repeat' (refine Ext.ite (fun _ => ?_) (fun _ => ?_))
  all_goals
    first
    | exact adv2 _ (tok _ _ (by decide)) rfl
    | exact adv1 _ (tok _ _ (by decide)) rfl
    | exact adv2 _ (err _) rfl
    | exact adv1 _ (err _) rfl

theorem numberTail_ext {k : Nat} {L0 L : PythonLexer} (h : Ext k L0 L) (num : List Char)
    (a b : Bool) : Ext k L0 (numberTail L num a b) := by
  unfold numberTail
  dsimp only
  repeat' with_reducible first
    | exact h
    | refine Ext.ite (fun _ => ?_) (fun _ => ?_)
    | refine Ext.addError ?_ _
    | refine Ext.addToken ?_ _ _ (by decide)
    | refine Ext.takeWord ?_
    | refine Ext.advanceN ?_ _
    | refine Ext.advance ?_

theorem numberExponent_ext {k : Nat} {L0 L : PythonLexer} (h : Ext k L0 L) (num : List Char)
    (b : Bool) : Ext k L0 (numberExponent L num b) := by
  unfold numberExponent
  dsimp only
  repeat' with_reducible first
    | exact h
    | refine Ext.ite (fun _ => ?_) (fun _ => ?_)
    | split
    | refine numberTail_ext ?_ _ _ _
    | refine Ext.addError ?_ _
    | refine Ext.addToken ?_ _ _ (by decide)
    | refine Ext.takeWord ?_
    | refine Ext.advanceN ?_ _
    | refine Ext.advance ?_

theorem numberFraction_ext {k : Nat} {L0 L : PythonLexer} (h : Ext k L0 L) (num : List Char)
    (b : Bool) : Ext k L0 (numberFraction L num b) := by
  unfold numberFraction
  dsimp only
  repeat' with_reducible first
    | exact h
    | refine Ext.ite (fun _ => ?_) (fun _ => ?_)
    | refine numberExponent_ext ?_ _ _
    | refine Ext.addError ?_ _
    | refine Ext.addToken ?_ _ _ (by decide)
    | refine Ext.takeWord ?_
    | refine Ext.advanceN ?_ _
    | refine Ext.advance ?_

theorem numberDecimal_ext {k : Nat} {L0 L : PythonLexer} (h : Ext k L0 L) (num : List Char) :
    Ext k L0 (numberDecimal L num) :=
  numberFraction_ext (h.advanceN _) _ _

theorem numberRadix_ext {k : Nat} {L0 L : PythonLexer} (h : Ext k L0 L) (num : List Char)
    (isDig : Char → Bool) (what pfx : List Char) (ty : TokenType)
    (hty : ty ≠ TokenType.ENDOFFILE) : Ext k L0 (numberRadix L num isDig what pfx ty) := by
  unfold numberRadix
  dsimp only
  repeat' with_reducible first
    | exact h
    | refine Ext.ite (fun _ => ?_) (fun _ => ?_)
    | refine Ext.addError ?_ _
    | refine Ext.addToken ?_ _ _ hty
    | refine Ext.takeWord ?_
    | refine Ext.advanceN ?_ _
    | refine Ext.advance ?_

theorem processNumber_ext (L : PythonLexer) (hd : isdigit L.current = true) :
    Ext 1 L (processNumber L) := by
  have hne : L.rest ≠ [] := by
    apply rest_ne_nil_of_current
    intro h0
    rw [h0] at hd
    exact absurd hd (by decide)
  have h1 : Ext 1 L L.advance := by simpa using (Ext.refl L).advance_succ hne
  unfold processNumber
  dsimp only
  refine Ext.ite (fun _ => ?_) (fun _ => ?_)
  · repeat' with_reducible first
      | exact h1
      | refine Ext.ite (fun _ => ?_) (fun _ => ?_)
      | refine numberRadix_ext ?_ _ _ _ _ _ (by decide)
      | refine numberDecimal_ext ?_ _
      | refine Ext.addError ?_ _
      | refine Ext.addToken ?_ _ _ (by decide)
      | refine Ext.advanceN ?_ _
      | refine Ext.advance ?_
  · unfold numberDecimal
    refine numberFraction_ext ?_ _ _
    refine Ext.advance_run _ hne ?_
    simp [isDigitOrUnderscore, hd]

theorem processString_ext (L : PythonLexer) (quote : Char) (hne : L.rest ≠ []) :
    Ext 1 L (processString L quote) := by
  have h1 : Ext 1 L L.advance := by simpa using (Ext.refl L).advance_succ hne
  unfold processString
  dsimp only
  repeat' with_reducible first
    | exact h1
    | refine Ext.ite (fun _ => ?_) (fun _ => ?_)
    | refine Ext.addError ?_ _
    | refine Ext.addToken ?_ _ _ (by decide)
    | refine Ext.advanceN ?_ _
    | refine Ext.advance ?_

theorem identifierToken_ext {k : Nat} {L0 L : PythonLexer} (h : Ext k L0 L)
    (ident : List Char) : Ext k L0 (identifierToken L ident) := by
  unfold identifierToken
  dsimp only
  refine Ext.ite (fun _ => ?_) (fun _ => ?_)
  · exact h.addToken _ _ (by decide)
  · refine Ext.ite (fun _ => ?_) (fun _ => ?_)
    · refine Ext.ite (fun _ => ?_) (fun _ => ?_)
      · exact (h.addToken ident TokenType.IDENTIFIER (by decide)).of_eq rfl rfl
      · exact h.addToken _ _ (by decide)
    · refine Ext.addToken ?_ _ _ (by decide)
      refine Ext.ite (fun _ => ?_) (fun _ => ?_)
      · exact h.of_eq rfl rfl
      · exact h.of_eq rfl rfl

theorem identifierWord_ext {k : Nat} {L0 L : PythonLexer} (h : Ext k L0 L)
    (ident : List Char) : Ext k L0 (identifierWord L ident) :=
  identifierToken_ext h.takeWord _

theorem processIdentifier_ext (L : PythonLexer) (hne : L.rest ≠ [])
    (hc : isalpha L.current = true ∨ L.current = '_') : Ext 1 L (processIdentifier L) := by
  have h1 : Ext 1 L L.advance := by simpa using (Ext.refl L).advance_succ hne
  have hw : isWordChar L.current = true := by
    rcases hc with h | h
    · simp [isWordChar, isalnum, h]
    · simp [isWordChar, h]
  unfold processIdentifier
  dsimp only
  refine Ext.ite (fun _ => ?_) (fun _ => ?_)
  · exact (Ext.advance_run _ hne hw).addError _
  · refine Ext.ite (fun _ => ?_) (fun _ => ?_)
    · refine Ext.ite (fun _ => ?_) (fun _ => ?_)
      · exact (h1.advance.takeWord).addError _
      · exact identifierWord_ext h1 _
    · exact identifierToken_ext (Ext.advance_run _ hne hw) _

theorem processComment_ext (L : PythonLexer) (hne : L.rest ≠ []) (hc : L.current = '#') :
    Ext 1 L (processComment L) := by
  have h1 : Ext 1 L L.advance := by simpa using (Ext.refl L).advance_succ hne
  unfold processComment
  dsimp only
  rw [if_pos hc]
  repeat' with_reducible first
    | exact h1
    | refine Ext.ite (fun _ => ?_) (fun _ => ?_)
    | refine Ext.addError ?_ _
    | refine Ext.addToken ?_ _ _ (by decide)
    | refine Ext.advanceN ?_ _
    | refine Ext.advance ?_

theorem addDedents_ext {k : Nat} {L0 L : PythonLexer} (h : Ext k L0 L) (n : Nat) :
    Ext k L0 (addDedents n L) := by
  induction n generalizing L with
  | zero => exact h
  | succ n ih => exact ih (h.addToken _ _ (by decide))

theorem handleIndentation_ext {k : Nat} {L0 L : PythonLexer} (h : Ext k L0 L) :
    Ext k L0 (handleIndentation L) := by
  unfold handleIndentation
  dsimp only
  refine Ext.ite (fun _ => ?_) (fun _ => ?_)
  · refine Ext.addToken ?_ _ _ (by decide)
    exact (h.advanceN _).of_eq rfl rfl
  · refine Ext.ite (fun _ => ?_) (fun _ => ?_)
    · refine Ext.ite (fun _ => Ext.addError ?_ _) (fun _ => ?_)
      all_goals
        refine addDedents_ext ?_ _
        exact (h.advanceN _).of_eq rfl rfl
    · exact h.advanceN _

/-- A type-annotation scan either rolls back to the entry state or consumes
at least one character. -/
theorem processTypeAnnotation_cases (L : PythonLexer) (hne : L.rest ≠ []) :
    processTypeAnnotation L = (false, L) ∨
      (( processTypeAnnotation L).1 = true ∧ Ext 1 L ( processTypeAnnotation L).2) := by
  unfold processTypeAnnotation
  dsimp only
  split
  · rename_i h1
    have hw : isWordChar L.current = true := by
      simp only [Bool.or_eq_true, beq_iff_eq] at h1
      rcases h1 with h1 | h1
      · simp [isWordChar, isalnum, h1]
      · simp [isWordChar, h1]
    split
    · split
      · right
        refine ⟨rfl, ?_⟩
        have e1 := Ext.advance_run isWordChar hne hw
        have e3 := (e1.advanceN
          ((L.advanceN (L.rest.takeWhile isWordChar).length).rest.takeWhile
            isInlineSpace).length).advanceN
          (((L.advanceN (L.rest.takeWhile isWordChar).length).advanceN
            ((L.advanceN (L.rest.takeWhile isWordChar).length).rest.takeWhile
              isInlineSpace).length).rest.takeWhile isWordChar).length
        exact ((e3.of_eq rfl rfl).addToken _ TokenType.IDENTIFIER
          (by decide)).of_eq rfl rfl
      · left; rfl
    · left; rfl
  · left; rfl

theorem tokenizeStep_ext (L : PythonLexer) (hc : L.current ≠ NUL) :
    Ext 1 L (tokenizeStep L) := by
  have hne : L.rest ≠ [] := rest_ne_nil_of_current hc
  have h1 : ∀ X : PythonLexer, Ext 0 L X → X.rest = L.rest → Ext 1 L X.advance := by
    intro X hX hr
    simpa using hX.advance_succ (by rw [hr]; exact hne)
  unfold tokenizeStep
  dsimp only
  refine Ext.ite (fun _ => ?_) (fun _ => ?_)
  · exact handleIndentation_ext (h1 _ ((Ext.refl L).addToken _ _ (by decide)) rfl)
  refine Ext.ite (fun _ => ?_) (fun _ => ?_)
  · exact h1 _ (Ext.refl L) rfl
  refine Ext.ite (fun h => ?_) (fun _ => ?_)
  · exact processComment_ext L hne h
  refine Ext.ite (fun h => ?_) (fun _ => ?_)
  · exact processNumber_ext L h
  refine Ext.ite (fun _ => ?_) (fun _ => ?_)
  · exact processString_ext L _ hne
  refine Ext.ite (fun h => ?_) (fun _ => ?_)
  · have hc' : isalpha L.current = true ∨ L.current = '_' := by
      simpa only [Bool.or_eq_true, beq_iff_eq] using h
    rcases processTypeAnnotation_cases L hne with hta | ⟨hta, hext⟩
    · rw [hta]
      exact processIdentifier_ext L hne hc'
    · rw [hta]
      exact hext
  refine Ext.ite (fun _ => ?_) (fun _ => ?_)
  · exact ((h1 _ (Ext.refl L) rfl).takeWord).addError _
  refine Ext.ite (fun _ => ?_) (fun _ => ?_)
  · exact processOperator_ext L hne
  refine Ext.ite (fun _ => ?_) (fun _ => ?_)
  · exact h1 _ ((Ext.refl L).addToken _ _ (by decide)) rfl
  · exact ((h1 _ (Ext.refl L) rfl).takeWord).addError _

/-- With one unit of fuel per remaining character the main loop ends. -/
theorem tokenizeLoop_some (fuel : Nat) (L : PythonLexer) (h : L.rest.length ≤ fuel) :
    ∃ L', tokenizeLoop fuel L = some L' ∧ Ext 0 L L' ∧ L'.current = NUL := by
  induction fuel generalizing L with
  | zero =>
    have h0 : L.rest = [] := List.length_eq_zero.mp (Nat.le_zero.mp h)
    have hc : L.current = NUL := by simp [current, h0]
    exact ⟨L, by simp [tokenizeLoop, hc], Ext.refl L, hc⟩
  | succ fuel ih =>
    by_cases hc : L.current = NUL
    · exact ⟨L, by simp [tokenizeLoop, hc], Ext.refl L, hc⟩
    · have hs := tokenizeStep_ext L hc
      have hlen : (tokenizeStep L).rest.length ≤ fuel := by
        have := hs.1
        omega
      obtain ⟨L', h1, h2, h3⟩ := ih (tokenizeStep L) hlen
      refine ⟨L', by simp [tokenizeLoop, hc, h1], ?_, h3⟩
      exact (hs.trans h2).of_eq rfl rfl |>.mono_zero
  
/-! ## The post-pass keeps the tokens and advances -/

theorem singleTokenShortcut_tokens (L L' : PythonLexer) (lhs : List Char) (t : Token)
    (h : singleTokenShortcut L lhs t = some L') : L'.tokens = L.tokens := by
  unfold singleTokenShortcut at h
  split at h
  all_goals (try split at h)
  all_goals (try (injection h with h; subst h; rfl))
  all_goals (try exact absurd h (by simp))

theorem foldAssignment_tokens (F : DoubleArith) (L : PythonLexer) (lhs : List Char)
    (expr : List Token) : (foldAssignment F L lhs expr).tokens = L.tokens := by
  unfold foldAssignment
  split <;> rfl

theorem inferAssignment_tokens (F : DoubleArith) (L : PythonLexer) (lhs : List Char)
    (expr : List Token) : (inferAssignment F L lhs expr).tokens = L.tokens := by
  unfold inferAssignment
  split
  · split
    · rename_i h
      exact singleTokenShortcut_tokens _ _ _ _ h
    · exact foldAssignment_tokens _ _ _ _
  · exact foldAssignment_tokens _ _ _ _

theorem processAssignmentsStep_tokens (F : DoubleArith) (i : Nat) (L : PythonLexer) :
    (processAssignmentsStep F i L).2.tokens = L.tokens := by
  unfold processAssignmentsStep
  dsimp only
  split_ifs
  all_goals (try rfl)
  all_goals exact inferAssignment_tokens _ _ _ _

theorem processAssignmentsStep_index (F : DoubleArith) (i : Nat) (L : PythonLexer) :
    i < (processAssignmentsStep F i L).1 := by
  unfold processAssignmentsStep
  dsimp only
  split_ifs
  all_goals (dsimp only; omega)

/-- With one unit of fuel per remaining token the post-pass ends; it leaves
the tokens as they are. -/
theorem processAssignmentsLoop_some (F : DoubleArith) (fuel i : Nat) (L : PythonLexer)
    (h : L.tokens.length ≤ fuel + i) :
    ∃ L', processAssignmentsLoop F fuel i L = some L' ∧ L'.tokens = L.tokens := by
  induction fuel generalizing i L with
  | zero =>
    have : ¬ i < L.tokens.length := by omega
    exact ⟨L, by simp [processAssignmentsLoop, this], rfl⟩
  | succ fuel ih =>
    by_cases hi : i < L.tokens.length
    · have hidx := processAssignmentsStep_index F i L
      have htok := processAssignmentsStep_tokens F i L
      obtain ⟨L', h1, h2⟩ := ih (processAssignmentsStep F i L).1 (processAssignmentsStep F i L).2
        (by rw [htok]; omega)
      exact ⟨L', by simp [processAssignmentsLoop, hi, h1], by rw [h2, htok]⟩
    · exact ⟨L, by simp [processAssignmentsLoop, hi], rfl⟩

theorem processAssignments_some (F : DoubleArith) (L : PythonLexer) :
    ∃ L', processAssignments F L = some L' ∧ L'.tokens = L.tokens :=
  processAssignmentsLoop_some F _ 0 L (by omega)

/-- The shape of every run of `tokenize`: it returns, and the tokens returned
are those of the entry state, then tokens that are not end-of-file tokens,
then one end-of-file token. -/
theorem tokenize_shape (F : DoubleArith) (L : PythonLexer) :
    ∃ L' new eof, tokenize F L = some L' ∧ L'.tokens = L.tokens ++ new ++ [eof] ∧
      eof.type = TokenType.ENDOFFILE ∧ ∀ t ∈ new, t.type ≠ TokenType.ENDOFFILE := by
  obtain ⟨L1, h1, ⟨_, new, hnew, hne⟩, _⟩ := tokenizeLoop_some L.rest.length L (le_refl _)
  obtain ⟨L2, h2, h3⟩ := processAssignments_some F (L1.addToken [] TokenType.ENDOFFILE)
  refine ⟨L2, new, ⟨[], TokenType.ENDOFFILE, L1.line, L1.column - (([] : List Char).length : Int)⟩,
    ?_, ?_, rfl, hne⟩
  · simp [tokenize, h1, h2]
  · rw [h3, tokens_addToken, hnew]

end PythonLexer
end PyAnalyzer

namespace PyAnalyzer
namespace PythonLexer

/-! ## Symbolic execution of the scanner -/

theorem tokenizeLoop_done (fuel : Nat) (L : PythonLexer) (h : L.current = NUL) :
    tokenizeLoop fuel L = some L := by
  cases fuel <;> simp [tokenizeLoop, h]

theorem tokenizeLoop_step (fuel : Nat) (L : PythonLexer) (h : L.current ≠ NUL) :
    tokenizeLoop (fuel + 1) L = tokenizeLoop fuel (tokenizeStep L) := by
  simp [tokenizeLoop, h]

/-- Advancing over characters that are not newlines moves the column only. -/
theorem advanceN_eq (n : Nat) (L : PythonLexer) (hn : n ≤ L.rest.length)
    (hnl : ∀ c ∈ L.rest.take n, c ≠ '\n') :
    L.advanceN n = { L with rest := L.rest.drop n, column := L.column + (n : Int) } := by
  induction n generalizing L with
  | zero => simp [advanceN]
  | succ n ih =>
    obtain ⟨rest, line, column, st, toks, errs, ta, fc, ab, stk⟩ := L
    cases rest with
    | nil => simp at hn
    | cons c cs =>
      have hc : c ≠ '\n' := hnl c (by simp)
      have h2 : ∀ d ∈ cs.take n, d ≠ '\n' := fun d hd => hnl d (by simp [hd])
      simp only [advanceN, advance, hc, if_false]
      rw [ih _ (by simpa using hn) (by simpa using h2)]
      simp only [List.drop_succ_cons, Nat.cast_add, Nat.cast_one, PythonLexer.mk.injEq, and_true,
        true_and]
      omega

/-- The post-pass does nothing when no token is an identifier. -/
theorem processAssignmentsLoop_noop (F : DoubleArith) (fuel i : Nat) (L : PythonLexer)
    (h : ∀ t ∈ L.tokens, t.type ≠ TokenType.IDENTIFIER) (hf : L.tokens.length ≤ fuel + i) :
    processAssignmentsLoop F fuel i L = some L := by
  induction fuel generalizing i with
  | zero =>
    have : ¬ i < L.tokens.length := by omega
    simp [processAssignmentsLoop, this]
  | succ fuel ih =>
    by_cases hi : i < L.tokens.length
    · have hty : ∀ k, (L.tokens.get? k).map Token.type ≠ some TokenType.IDENTIFIER := by
        intro k hk
        cases hget : L.tokens.get? k with
        | none =>
          rw [hget] at hk
          exact absurd hk (by simp)
        | some t =>
          rw [hget] at hk
          simp only [Option.map_some', Option.some.injEq] at hk
          exact h t (List.get?_mem hget) hk
      have hstep : processAssignmentsStep F i L = (i + 1, L) := by
        unfold processAssignmentsStep
        dsimp only
        rw [if_neg (fun hc => hty _ hc.2.1), if_neg (fun hc => hty _ hc.1)]
      simp only [processAssignmentsLoop, hi, if_true, hstep]
      exact ih (i + 1) (by omega)
    · simp [processAssignmentsLoop, hi]

theorem processAssignments_noop (F : DoubleArith) (L : PythonLexer)
    (h : ∀ t ∈ L.tokens, t.type ≠ TokenType.IDENTIFIER) : processAssignments F L = some L :=
  processAssignmentsLoop_noop F _ 0 L h (by omega)

/-- A text without underscores passes `validateUnderscores`. -/
theorem hasInfix_false_of_not_mem (a : Char) (pat s : List Char) (h : a ∉ s) :
    hasInfix (a :: pat) s = false := by
  induction s with
  | nil => simp [hasInfix]
  | cons c cs ih =>
    have hc : a ≠ c := fun e => h (by simp [e])
    have hcs : a ∉ cs := fun e => h (by simp [e])
    simp [hasInfix, List.isPrefixOf, hc, ih hcs]

theorem validateUnderscores_of_not_mem (num : List Char) (h : '_' ∉ num) :
    validateUnderscores num = true := by
  unfold validateUnderscores
  have h1 : num.head? ≠ some '_' := fun e => h (List.mem_of_mem_head? e)
  have h2 : num.getLast? ≠ some '_' := fun e => h (List.mem_of_mem_getLast? e)
  have h3 : hasInfix ['_', '_'] num = false := hasInfix_false_of_not_mem '_' ['_'] num h
  simp [h1, h2, h3]

end PythonLexer
end PyAnalyzer

namespace PyAnalyzer
namespace PythonLexer

@[simp] theorem errors_addToken (L : PythonLexer) (l : List Char) (ty : TokenType) :
    (L.addToken l ty).errors = L.errors := rfl

@[simp] theorem errors_addError (L : PythonLexer) (m : List Char) :
    (L.addError m).errors = L.errors ++ [⟨m, L.line, L.column⟩] := rfl

@[simp] theorem errors_advance (L : PythonLexer) : L.advance.errors = L.errors := by
  unfold advance
  split
  · rfl
  · split <;> rfl

@[simp] theorem errors_advanceN (n : Nat) (L : PythonLexer) :
    (L.advanceN n).errors = L.errors := by
  induction n generalizing L with
  | zero => rfl
  | succ n ih => simp [advanceN, ih]

theorem current_of_rest_nil {L : PythonLexer} (h : L.rest = []) : L.current = NUL := by
  simp [current, h]

theorem current_of_rest_cons {L : PythonLexer} {c : Char} {cs : List Char}
    (h : L.rest = c :: cs) : L.current = c := by
  simp [current, h]

theorem tokenKinds_addToken (L : PythonLexer) (l : List Char) (ty : TokenType) :
    (L.addToken l ty).tokenKinds = L.tokenKinds ++ [(l, ty)] := by
  simp [tokenKinds]

/-- A radix letter followed by digits of the radix and the end of the input
becomes one token. -/
theorem numberRadix_digits (L : PythonLexer) (r : Char) (ds : List Char) (isDig : Char → Bool)
    (what pfx : List Char) (ty : TokenType) (hrest : L.rest = r :: ds) (hr : r ≠ '_')
    (hne : ds ≠ []) (hds : ∀ c ∈ ds, isDig c = true) (hu : isDig '_' = false) :
    numberRadix L ['0'] isDig what pfx ty =
      (L.advance.advanceN ds.length).addToken ('0' :: r :: ds) ty := by
  have hcur : L.current = r := current_of_rest_cons hrest
  have hrest2 : L.advance.rest = ds := by simp [hrest]
  have htw : ds.takeWhile (fun c => isDig c || c == '_') = ds :=
    List.takeWhile_eq_self_iff.mpr (by intro c hc; simp [hds c hc])
  have hany : ds.any isDig = true := by
    obtain ⟨c, cs, rfl⟩ := List.exists_cons_of_ne_nil hne
    simp [hds c (by simp)]
  have hnil : (L.advance.advanceN ds.length).rest = [] := by
    rw [rest_advanceN, hrest2, List.drop_length]
  have hend : (L.advance.advanceN ds.length).current = NUL := current_of_rest_nil hnil
  have hnot : '_' ∉ '0' :: r :: ds := by
    intro hmem
    rcases List.mem_cons.mp hmem with h | h
    · exact absurd h (by decide)
    · rcases List.mem_cons.mp h with h | h
      · exact hr h.symm
      · have := hds _ h
        rw [hu] at this
        exact absurd this (by decide)
  have hval : validateUnderscores ('0' :: r :: ds) = true := validateUnderscores_of_not_mem _ hnot
  have hd0 : isdigit NUL = false := by decide
  have ha0 : isalnum NUL = false := by decide
  have hn0 : (NUL == '_') = false := by decide
  unfold numberRadix
  simp only [hcur, hrest2, htw, hany, hend, hval, hd0, ha0, hn0, List.singleton_append,
    List.cons_append, List.nil_append, Bool.not_true, Bool.false_eq_true, if_false, false_and,
    and_false, Bool.or_self]

end PythonLexer
end PyAnalyzer

namespace PyAnalyzer
namespace PythonLexer

/-- A source that one round of the main loop consumes whole, leaving no
identifier token. -/
theorem tokenize_one_step (F : DoubleArith) (L : PythonLexer) (hc : L.current ≠ NUL)
    (hrest : (tokenizeStep L).rest = [])
    (hid : ∀ t ∈ (tokenizeStep L).tokens, t.type ≠ TokenType.IDENTIFIER) :
    tokenize F L = some ((tokenizeStep L).addToken [] TokenType.ENDOFFILE) := by
  obtain ⟨c, cs, hcs⟩ := List.exists_cons_of_ne_nil (rest_ne_nil_of_current hc)
  have hlen : L.rest.length = cs.length + 1 := by simp [hcs]
  unfold tokenize
  rw [hlen, tokenizeLoop_step _ _ hc, tokenizeLoop_done _ _ (current_of_rest_nil hrest)]
  simp only [Option.some_bind]
  apply processAssignments_noop
  intro t ht
  simp only [tokens_addToken, List.mem_append, List.mem_singleton] at ht
  rcases ht with ht | ht
  · exact hid t ht
  · rw [ht]
    exact fun h => TokenType.noConfusion h

theorem processNumber_radix (L : PythonLexer) (r : Char) (ds : List Char) (ty : TokenType)
    (hrest : L.rest = '0' :: r :: ds) (hk : radixType r = some ty) (hne : ds ≠ [])
    (hds : ∀ c ∈ ds, isRadixDigit r c = true) :
    processNumber L = (L.advance.advance.advanceN ds.length).addToken ('0' :: r :: ds) ty := by
  have hcur : L.current = '0' := current_of_rest_cons hrest
  have hlen : 1 < L.rest.length := by simp [hrest]
  have hrest1 : L.advance.rest = r :: ds := by simp [hrest]
  have hcur1 : L.advance.current = r := current_of_rest_cons hrest1
  unfold radixType at hk
  unfold isRadixDigit at hds
  unfold processNumber
  simp only [hcur, hlen, hcur1, and_self, if_true]
  split_ifs at hk with h1 h2 h3
  · simp only [Option.some.injEq] at hk
    subst hk
    rw [if_pos h1]
    simp only [h1, if_true] at hds
    exact numberRadix_digits _ r ds _ _ _ _ hrest1 (by rcases h1 with h | h <;> rw [h] <;> decide)
      hne hds (by decide)
  · simp only [Option.some.injEq] at hk
    subst hk
    rw [if_neg h1, if_pos h2]
    simp only [h1, h2, if_true, if_false] at hds
    exact numberRadix_digits _ r ds _ _ _ _ hrest1 (by rcases h2 with h | h <;> rw [h] <;> decide)
      hne hds (by decide)
  · simp only [Option.some.injEq] at hk
    subst hk
    rw [if_neg h1, if_neg h2, if_pos h3]
    simp only [h1, h2, h3, if_true, if_false] at hds
    exact numberRadix_digits _ r ds _ _ _ _ hrest1 (by rcases h3 with h | h <;> rw [h] <;> decide)
      hne hds (by decide)

theorem tokenizeStep_digit (L : PythonLexer) (h : isdigit L.current = true) :
    tokenizeStep L = processNumber L := by
  have hne : ∀ c : Char, isdigit c = false → L.current ≠ c := by
    intro c hc e
    rw [e, hc] at h
    exact absurd h (by decide)
  unfold tokenizeStep
  simp only [hne '\n' (by decide), hne ' ' (by decide), hne '\r' (by decide),
    hne '\t' (by decide), hne (Char.ofNat 11) (by decide), hne (Char.ofNat 12) (by decide),
    hne '#' (by decide), h, or_self, if_false, if_true]

/-- C8: a radix prefix (`0x`, `0X`, `0b`, `0B`, `0o`, `0O`) followed by one
or more digits of that radix, as the whole source, tokenizes with no lexical
error to exactly one token, of the kind of the radix and with the literal as
its lexeme, followed by the end-of-file token. -/
theorem radix_literal_is_one_token (F : DoubleArith) (stack : List Nat) (r : Char)
    (ds : List Char) (ty : TokenType)
    (hk : radixType r = some ty) (hne : ds ≠ []) (hds : ∀ c ∈ ds, isRadixDigit r c = true) :
    ∃ L', tokenize F (create ('0' :: r :: ds) stack) = some L' ∧ L'.errors = [] ∧
      tokenKinds L' = [('0' :: r :: ds, ty), ([], TokenType.ENDOFFILE)] := by
  have hrest : (create ('0' :: r :: ds) stack).rest = '0' :: r :: ds := rfl
  have hcur : (create ('0' :: r :: ds) stack).current = '0' := rfl
  have hstep : tokenizeStep (create ('0' :: r :: ds) stack) =
      ((create ('0' :: r :: ds) stack).advance.advance.advanceN ds.length).addToken
        ('0' :: r :: ds) ty := by
    rw [tokenizeStep_digit _ (by rw [hcur]; decide)]
    exact processNumber_radix _ r ds ty hrest hk hne hds
  have hty : ty ≠ TokenType.IDENTIFIER := by
    unfold radixType at hk
    split_ifs at hk <;> simp only [Option.some.injEq] at hk <;> (rw [← hk]; decide)
  refine ⟨_, tokenize_one_step F _ (by rw [hcur]; decide) ?_ ?_, ?_, ?_⟩
  · rw [hstep]
    simp [hrest]
  · rw [hstep]
    intro t ht
    have : t.type = ty := by
      simp only [tokens_addToken, tokens_advanceN, tokens_advance] at ht
      have h0 : (create ('0' :: r :: ds) stack).tokens = [] := rfl
      rw [h0] at ht
      simp only [List.nil_append, List.mem_singleton] at ht
      rw [ht]
    rw [this]
    exact hty
  · rw [hstep]
    simp only [errors_addToken, errors_advanceN, errors_advance]
    rfl
  · rw [hstep]
    simp only [tokenKinds, tokens_addToken, tokens_advanceN, tokens_advance]
    rfl

theorem radix_literal_is_one_token_witness :
    ∃ L', tokenize exactArith (create "0x1A".toList [0]) = some L' ∧ L'.errors = [] ∧
      tokenKinds L' = [("0x1A".toList, TokenType.HexadecimalNumber), ([], TokenType.ENDOFFILE)] :=
  radix_literal_is_one_token exactArith [0] 'x' "1A".toList TokenType.HexadecimalNumber
    (by decide) (by decide) (by decide)

end PythonLexer
end PyAnalyzer

namespace PyAnalyzer
namespace PythonLexer

theorem mem_of_hasInfix (a : Char) (pat s : List Char) (h : hasInfix (a :: pat) s = true) :
    a ∈ s := by
  induction s with
  | nil => simp [hasInfix] at h
  | cons c cs ih =>
    simp only [hasInfix, Bool.or_eq_true] at h
    rcases h with h | h
    · simp only [List.isPrefixOf, Bool.and_eq_true, beq_iff_eq] at h
      simp [h.1]
    · exact List.mem_cons_of_mem _ (ih h)

theorem hasInfix_singleton_of_mem (a : Char) (s : List Char) (h : a ∈ s) :
    hasInfix [a] s = true := by
  induction s with
  | nil => simp at h
  | cons c cs ih =>
    rcases List.mem_cons.mp h with h | h
    · simp [hasInfix, List.isPrefixOf, h]
    · simp [hasInfix, ih h]

/-- C10: a source of decimal digits and underscores that starts with a
nonzero digit and has two adjacent underscores or ends with an underscore
yields the error "Invalid underscore placement in number" for the whole
source, and the only token returned is the end-of-file token. -/
theorem misplaced_underscore_rejected (F : DoubleArith) (stack : List Nat) (c : Char)
    (cs : List Char) (hc : isdigit c = true) (hc0 : c ≠ '0')
    (hall : ∀ d ∈ cs, isDigitOrUnderscore d = true)
    (hbad : hasInfix "__".toList (c :: cs) = true ∨ (c :: cs).getLast? = some '_') :
    ∃ L', tokenize F (create (c :: cs) stack) = some L' ∧
      errorMessages L' = ["Invalid underscore placement in number: ".toList ++ (c :: cs)] ∧
      tokenKinds L' = [([], TokenType.ENDOFFILE)] := by
  have hcur : (create (c :: cs) stack).current = c := rfl
  have hrest : (create (c :: cs) stack).rest = c :: cs := rfl
  have hall' : ∀ d ∈ c :: cs, isDigitOrUnderscore d = true := by
    intro d hd
    rcases List.mem_cons.mp hd with h | h
    · rw [h]; simp [isDigitOrUnderscore, hc]
    · exact hall d h
  have htw : (c :: cs).takeWhile isDigitOrUnderscore = c :: cs :=
    List.takeWhile_eq_self_iff.mpr hall'
  have hany : (c :: cs).any isdigit = true := by simp [hc]
  have hmem : '_' ∈ c :: cs := by
    rcases hbad with h | h
    · exact mem_of_hasInfix '_' ['_'] _ h
    · exact List.mem_of_mem_getLast? h
  have hinf : hasInfix "_".toList (c :: cs) = true := hasInfix_singleton_of_mem _ _ hmem
  have hcu : c ≠ '_' := by
    intro e
    rw [e] at hc
    exact absurd hc (by decide)
  have hval : validateUnderscores (c :: cs) = false := by
    unfold validateUnderscores
    rcases hbad with h | h
    · have h' : hasInfix ['_', '_'] (c :: cs) = true := h
      simp [h', hcu]
    · simp [h, hcu]
  have hnil : ((create (c :: cs) stack).advanceN (c :: cs).length).rest = [] := by
    rw [rest_advanceN, hrest, List.drop_length]
  have hend : ((create (c :: cs) stack).advanceN (c :: cs).length).current = NUL :=
    current_of_rest_nil hnil
  have hstep : tokenizeStep (create (c :: cs) stack) =
      ((create (c :: cs) stack).advanceN (c :: cs).length).addError
        ("Invalid underscore placement in number: ".toList ++ (c :: cs)) := by
    rw [tokenizeStep_digit _ (by rw [hcur]; exact hc)]
    unfold processNumber
    rw [if_neg (by rw [hcur]; exact fun h => hc0 h.1)]
    unfold numberDecimal
    simp only [hrest, htw, hany, List.nil_append]
    unfold numberFraction
    rw [if_neg (by simp), if_neg (by rw [hend]; decide)]
    unfold numberExponent
    rw [if_neg (by rw [hend]; decide)]
    unfold underscoreError
    simp only [hinf, hval, if_true, Bool.not_false]
  have h0 : (create (c :: cs) stack).tokens = [] := rfl
  have he0 : (create (c :: cs) stack).errors = [] := rfl
  refine ⟨_, tokenize_one_step F _ (by rw [hcur]; intro e; rw [e] at hc; exact absurd hc (by decide))
    ?_ ?_, ?_, ?_⟩
  · rw [hstep]
    exact hnil
  · rw [hstep]
    intro t ht
    simp only [tokens_addError, tokens_advanceN, h0] at ht
    exact absurd ht (List.not_mem_nil t)
  · rw [hstep]
    simp only [errorMessages, errors_addToken, errors_addError, errors_advanceN, he0]
    rfl
  · rw [hstep]
    simp only [tokenKinds, tokens_addToken, tokens_addError, tokens_advanceN, h0]
    rfl

theorem misplaced_underscore_rejected_witness :
    ∃ L', tokenize exactArith (create "1__0".toList [0]) = some L' ∧
      errorMessages L' = ["Invalid underscore placement in number: ".toList ++ "1__0".toList] ∧
      tokenKinds L' = [([], TokenType.ENDOFFILE)] :=
  misplaced_underscore_rejected exactArith [0] '1' "__0".toList (by decide) (by decide)
    (by decide) (by decide)

end PythonLexer
end PyAnalyzer

namespace PyAnalyzer
namespace PythonLexer

/-- C3: `tokenize` terminates.  Every round of the main loop leaves fewer
characters than it found (a type-annotation scan that fails restores the
state it started from, and the identifier scan that follows consumes), every
round of the post-pass moves to a greater token index and keeps the token
list, and so the run, given one unit of fuel per character and per token,
returns a result from every state. -/
theorem tokenize_terminates (F : DoubleArith) (L : PythonLexer) :
    (L.current ≠ NUL → (tokenizeStep L).rest.length < L.rest.length) ∧
    (( processTypeAnnotation L).1 = false → ( processTypeAnnotation L).2 = L) ∧
    (∀ i, i < (processAssignmentsStep F i L).1 ∧
      (processAssignmentsStep F i L).2.tokens = L.tokens) ∧
    ∃ L', tokenize F L = some L' := by
  refine ⟨?_, ?_, ?_, ?_⟩
  · intro hc
    have := (tokenizeStep_ext L hc).1
    omega
  · intro h
    by_cases hne : L.rest = []
    · unfold processTypeAnnotation
      have hcur : L.current = NUL := current_of_rest_nil hne
      rw [if_neg (by rw [hcur]; decide)]
    · rcases processTypeAnnotation_cases L hne with h1 | ⟨h1, _⟩
      · rw [h1]
      · rw [h1] at h
        exact absurd h (by decide)
  · exact fun i => ⟨processAssignmentsStep_index F i L, processAssignmentsStep_tokens F i L⟩
  · obtain ⟨L', _, _, h, _⟩ := tokenize_shape F L
    exact ⟨L', h⟩

/-- C4: for every source (and every value of the static indentation stack)
`tokenize` returns a token list that is not empty, whose last token is an
end-of-file token, and none of whose other tokens is one. -/
theorem tokenize_ends_with_one_eof (F : DoubleArith) (source : List Char) (stack : List Nat) :
    ∃ L' front last, tokenize F (create source stack) = some L' ∧
      L'.tokens = front ++ [last] ∧ last.type = TokenType.ENDOFFILE ∧
      ∀ t ∈ front, t.type ≠ TokenType.ENDOFFILE := by
  obtain ⟨L', new, eof, h1, h2, h3, h4⟩ := tokenize_shape F (create source stack)
  exact ⟨L', new, eof, h1, h2, h3, h4⟩

/-- C5 at "3.14e-2": the exponent has one digit, the flag `hasExponentDigits`
is tested on the character after the digit, and the literal is rejected with
"missing exponent digits"; no NUMBER token is produced. -/
theorem exponent_of_one_digit_rejected (F : DoubleArith) :
    ∃ L', tokenize F (create "3.14e-2".toList) = some L' ∧
      tokenKinds L' = [([], TokenType.ENDOFFILE)] ∧
      errorMessages L' =
        ["Invalid scientific notation: 3.14e-2 (missing exponent digits)".toList] :=
  ⟨_, rfl, rfl, rfl⟩

/-- C6 at "0.5": after the leading `0` the digit loop reads nothing, so
`hasDigits` stays false and the literal is rejected with "no digits found";
the point and the 5 are then scanned on their own. -/
theorem zero_point_five_rejected (F : DoubleArith) :
    ∃ L', tokenize F (create "0.5".toList) = some L' ∧
      tokenKinds L' = [(".".toList, TokenType.OPERATOR), ("5".toList, TokenType.NUMBER),
        ([], TokenType.ENDOFFILE)] ∧
      errorMessages L' = ["Invalid number: 0 (no digits found)".toList] :=
  ⟨_, rfl, rfl, rfl⟩

/-- C7 at "007": the leading-zero test looks only at the character after the
first `0`; it is `0`, so the text is accepted as the NUMBER `007` with no
error. -/
theorem double_leading_zero_accepted (F : DoubleArith) :
    ∃ L', tokenize F (create "007".toList) = some L' ∧
      tokenKinds L' = [("007".toList, TokenType.NUMBER), ([], TokenType.ENDOFFILE)] ∧
      errorMessages L' = [] :=
  ⟨_, rfl, rfl, rfl⟩

/-- C9 at "0j": the branch of the leading `0` returns the NUMBER `0` before
the complex suffix is looked at; `j` becomes an identifier and there is no
error. -/
theorem zero_with_complex_suffix_accepted (F : DoubleArith) :
    ∃ L', tokenize F (create "0j".toList) = some L' ∧
      tokenKinds L' = [("0".toList, TokenType.NUMBER), ("j".toList, TokenType.IDENTIFIER),
        ([], TokenType.ENDOFFILE)] ∧
      errorMessages L' = [] :=
  ⟨_, rfl, rfl, rfl⟩

end PythonLexer
end PyAnalyzer

namespace PyAnalyzer
namespace PythonLexer

/-! ## Scanning token by token -/

theorem tokenizeLoop_fuel (f1 f2 : Nat) (L : PythonLexer) (h1 : L.rest.length ≤ f1)
    (h2 : L.rest.length ≤ f2) : tokenizeLoop f1 L = tokenizeLoop f2 L := by
  induction f1 generalizing f2 L with
  | zero =>
    have h0 : L.rest = [] := List.length_eq_zero.mp (Nat.le_zero.mp h1)
    rw [tokenizeLoop_done _ _ (current_of_rest_nil h0),
      tokenizeLoop_done _ _ (current_of_rest_nil h0)]
  | succ f1 ih =>
    by_cases hc : L.current = NUL
    · rw [tokenizeLoop_done _ _ hc, tokenizeLoop_done _ _ hc]
    · have hs := (tokenizeStep_ext L hc).1
      cases f2 with
      | zero =>
        have h0 : L.rest = [] := List.length_eq_zero.mp (Nat.le_zero.mp h2)
        exact absurd (current_of_rest_nil h0) hc
      | succ f2 =>
        rw [tokenizeLoop_step _ _ hc, tokenizeLoop_step _ _ hc]
        exact ih f2 _ (by omega) (by omega)

/-- If one round of the main loop takes `L` to `L'` then the loop gives the
same result from both. -/
theorem tokenizeLoop_of_step (L : PythonLexer) (hc : L.current ≠ NUL) :
    tokenizeLoop L.rest.length L = tokenizeLoop (tokenizeStep L).rest.length (tokenizeStep L) := by
  have hs := (tokenizeStep_ext L hc).1
  obtain ⟨n, hn⟩ : ∃ n, L.rest.length = n + 1 := ⟨L.rest.length - 1, by omega⟩
  rw [hn, tokenizeLoop_step _ _ hc]
  exact tokenizeLoop_fuel _ _ _ (by omega) (le_refl _)

theorem Scans.nil (L : PythonLexer) : Scans L [] L :=
  ⟨rfl, by simp, rfl, rfl⟩

theorem Scans.append {L L' L'' : PythonLexer} {a b : List (List Char × TokenType)}
    (h : Scans L a L') (h' : Scans L' b L'') : Scans L (a ++ b) L'' := by
  obtain ⟨h1, h2, h3, h4⟩ := h
  obtain ⟨g1, g2, g3, g4⟩ := h'
  exact ⟨h1.trans g1, by rw [g2, h2, List.append_assoc], g3.trans h3, g4.trans h4⟩

/-- One round of the main loop, described by what it leaves. -/
theorem Scans.of_step {L L' : PythonLexer} {a : List (List Char × TokenType)}
    (hc : L.current ≠ NUL) (hstep : tokenizeStep L = L')
    (hk : L'.tokenKinds = L.tokenKinds ++ a) (he : L'.errors = L.errors)
    (hi : L'.indentStack = L.indentStack) : Scans L a L' := by
  subst hstep
  exact ⟨tokenizeLoop_of_step L hc, hk, he, hi⟩

end PythonLexer
end PyAnalyzer

namespace PyAnalyzer
namespace PythonLexer

@[simp] theorem symbolTable_addToken (L : PythonLexer) (l : List Char) (ty : TokenType) :
    (L.addToken l ty).symbolTable = L.symbolTable := rfl

@[simp] theorem symbolTable_addError (L : PythonLexer) (m : List Char) :
    (L.addError m).symbolTable = L.symbolTable := rfl

@[simp] theorem symbolTable_advance (L : PythonLexer) : L.advance.symbolTable = L.symbolTable := by
  unfold advance
  split
  · rfl
  · split <;> rfl

@[simp] theorem symbolTable_advanceN (n : Nat) (L : PythonLexer) :
    (L.advanceN n).symbolTable = L.symbolTable := by
  induction n generalizing L with
  | zero => rfl
  | succ n ih => simp [advanceN, ih]

@[simp] theorem indentStack_addToken (L : PythonLexer) (l : List Char) (ty : TokenType) :
    (L.addToken l ty).indentStack = L.indentStack := rfl

@[simp] theorem indentStack_addError (L : PythonLexer) (m : List Char) :
    (L.addError m).indentStack = L.indentStack := rfl

@[simp] theorem indentStack_advance (L : PythonLexer) : L.advance.indentStack = L.indentStack := by
  unfold advance
  split
  · rfl
  · split <;> rfl

@[simp] theorem indentStack_advanceN (n : Nat) (L : PythonLexer) :
    (L.advanceN n).indentStack = L.indentStack := by
  induction n generalizing L with
  | zero => rfl
  | succ n ih => simp [advanceN, ih]

@[simp] theorem tokenKinds_addError (L : PythonLexer) (m : List Char) :
    (L.addError m).tokenKinds = L.tokenKinds := rfl

@[simp] theorem tokenKinds_advance (L : PythonLexer) : L.advance.tokenKinds = L.tokenKinds := by
  simp [tokenKinds]

@[simp] theorem tokenKinds_advanceN (n : Nat) (L : PythonLexer) :
    (L.advanceN n).tokenKinds = L.tokenKinds := by
  simp [tokenKinds]

theorem advanceN_add (m n : Nat) (L : PythonLexer) :
    L.advanceN (m + n) = (L.advanceN m).advanceN n := by
  induction m generalizing L with
  | zero => simp [advanceN]
  | succ m ih =>
    rw [Nat.succ_add]
    simp only [advanceN]
    exact ih _

/-! ### White space -/

theorem tokenizeStep_space (L : PythonLexer) (h : L.current = ' ') : tokenizeStep L = L.advance := by
  unfold tokenizeStep
  simp only [h]
  rw [if_neg (by decide), if_pos (by decide)]

/-- Spaces between tokens are skipped. -/
theorem scans_spaces (n : Nat) (L : PythonLexer) (r : List Char)
    (h : L.rest = List.replicate n ' ' ++ r) :
    ∃ L', Scans L [] L' ∧ L'.rest = r ∧ L'.symbolTable = L.symbolTable := by
  induction n generalizing L with
  | zero => exact ⟨L, Scans.nil L, by simpa using h, rfl⟩
  | succ n ih =>
    have hrest : L.rest = ' ' :: (List.replicate n ' ' ++ r) := by
      simpa [List.replicate_succ] using h
    have hcur : L.current = ' ' := current_of_rest_cons hrest
    have hstep := tokenizeStep_space L hcur
    have h1 : Scans L [] L.advance :=
      Scans.of_step (by rw [hcur]; decide) hstep (by simp) (by simp) (by simp)
    obtain ⟨L', h2, h3, h4⟩ := ih L.advance (by simp [hrest])
    exact ⟨L', by simpa using h1.append h2, h3, by rw [h4]; simp⟩

/-! ### Operators and delimiters -/

theorem isOperatorChar_cases {c : Char} (h : isOperatorChar c = true) :
    c = '+' ∨ c = '-' ∨ c = '*' ∨ c = '/' ∨ c = '%' ∨ c = '=' ∨ c = '&' ∨ c = '|' ∨ c = '<' ∨
      c = '>' ∨ c = '!' ∨ c = '^' ∨ c = '~' ∨ c = '.' := by
  simpa [isOperatorChar] using h

theorem tokenizeStep_operator (L : PythonLexer) (h : isOperatorChar L.current = true) :
    tokenizeStep L = processOperator L := by
  have hc := isOperatorChar_cases h
  unfold tokenizeStep
  generalize L.current = c at hc h
  dsimp only
  rcases hc with rfl | rfl | rfl | rfl | rfl | rfl | rfl | rfl | rfl | rfl | rfl | rfl | rfl | rfl <;>
    rw [if_neg (by decide), if_neg (by decide), if_neg (by decide), if_neg (by decide),
      if_neg (by decide), if_neg (by decide), if_neg (by decide), if_pos (by decide)]

theorem tokenizeStep_delimiter (L : PythonLexer) (h : isDelimiter L.current = true)
    (hat : L.current ≠ '@') :
    tokenizeStep L = (L.addToken [L.current] TokenType.DELIMITER).advance := by
  have hc : L.current = ':' ∨ L.current = ',' ∨ L.current = ';' ∨ L.current = '(' ∨
      L.current = ')' ∨ L.current = '[' ∨ L.current = ']' ∨ L.current = '{' ∨
      L.current = '}' := by
    have := h
    simp only [isDelimiter] at this
    have h2 : L.current ∈ ":,;()[]{}@".toList := by simpa using this
    simp only [String.toList, List.mem_cons, List.mem_singleton, List.not_mem_nil,
      or_false] at h2
    rcases h2 with h2 | h2 | h2 | h2 | h2 | h2 | h2 | h2 | h2 | h2
    all_goals (first | exact absurd h2 hat | simp [h2])
  unfold tokenizeStep
  generalize L.current = c at hc h hat
  dsimp only
  rcases hc with rfl | rfl | rfl | rfl | rfl | rfl | rfl | rfl | rfl <;>
    rw [if_neg (by decide), if_neg (by decide), if_neg (by decide), if_neg (by decide),
      if_neg (by decide), if_neg (by decide), if_neg (by decide), if_neg (by decide),
      if_pos (by decide)]

end PythonLexer
end PyAnalyzer

namespace PyAnalyzer
namespace PythonLexer

theorem peek_of_rest {L : PythonLexer} {c : Char} {cs : List Char} (h : L.rest = c :: cs) :
    L.peek = cs.headD NUL := by
  simp [peek, h]

theorem scans_operator_one (L : PythonLexer) (c : Char) (r : List Char) (ty : TokenType)
    (hrest : L.rest = c :: r) (hop : isOperatorChar c = true)
    (hproc : processOperator L = (L.addToken [c] ty).advance) :
    ∃ L', Scans L [([c], ty)] L' ∧ L'.rest = r ∧ L'.symbolTable = L.symbolTable := by
  have hcur := current_of_rest_cons hrest
  have hc : L.current ≠ NUL := by
    rw [hcur]
    intro e
    rw [e] at hop
    exact absurd hop (by decide)
  refine ⟨(L.addToken [c] ty).advance, Scans.of_step hc ?_ ?_ (by simp) (by simp),
    by simp [hrest], by simp⟩
  · rw [tokenizeStep_operator L (by rw [hcur]; exact hop), hproc]
  · rw [tokenKinds_advance, tokenKinds_addToken]

theorem scans_operator_two (L : PythonLexer) (c d : Char) (r : List Char) (ty : TokenType)
    (hrest : L.rest = c :: d :: r) (hop : isOperatorChar c = true)
    (hproc : processOperator L = (L.addToken [c, d] ty).advance.advance) :
    ∃ L', Scans L [([c, d], ty)] L' ∧ L'.rest = r ∧ L'.symbolTable = L.symbolTable := by
  have hcur := current_of_rest_cons hrest
  have hc : L.current ≠ NUL := by
    rw [hcur]
    intro e
    rw [e] at hop
    exact absurd hop (by decide)
  refine ⟨(L.addToken [c, d] ty).advance.advance, Scans.of_step hc ?_ ?_ (by simp) (by simp),
    by simp [hrest], by simp⟩
  · rw [tokenizeStep_operator L (by rw [hcur]; exact hop), hproc]
  · rw [tokenKinds_advance, tokenKinds_advance, tokenKinds_addToken]

/-- The operators that the two theorems on sources use, each followed by a
character that is not an operator character, become one token. -/
theorem scans_operator (s : List Char) (ty : TokenType) (hs : (s, ty) ∈ operatorTable)
    (L : PythonLexer) (r : List Char) (hrest : L.rest = s ++ r)
    (hr : isOperatorChar (r.headD NUL) = false) :
    ∃ L', Scans L [(s, ty)] L' ∧ L'.rest = r ∧ L'.symbolTable = L.symbolTable := by
  have hne : ∀ d : Char, isOperatorChar d = true → r.headD NUL ≠ d := by
    intro d hd e
    rw [e, hd] at hr
    exact absurd hr (by decide)
  have h1 : r.head?.getD NUL ≠ '=' := by simpa using hne '=' (by decide)
  have h2 : r.head?.getD NUL ≠ '*' := by simpa using hne '*' (by decide)
  have h3 : r.head?.getD NUL ≠ '<' := by simpa using hne '<' (by decide)
  have h4 : r.head?.getD NUL ≠ '>' := by simpa using hne '>' (by decide)
  simp only [operatorTable, List.mem_cons, Prod.mk.injEq, List.mem_singleton,
    List.not_mem_nil, or_false] at hs
  rcases hs with a1 | a2 | a3 | a4 | c1 | c2 | c3 | c4 | c5 | c6
  · obtain ⟨rfl, rfl⟩ := a1
    have hrest' : L.rest = '+' :: r := hrest
    refine scans_operator_one L _ r _ hrest' (by decide) ?_
    unfold processOperator
    simp [current_of_rest_cons hrest', peek_of_rest hrest', h1]
  · obtain ⟨rfl, rfl⟩ := a2
    have hrest' : L.rest = '-' :: r := hrest
    refine scans_operator_one L _ r _ hrest' (by decide) ?_
    unfold processOperator
    simp [current_of_rest_cons hrest', peek_of_rest hrest', h1]
  · obtain ⟨rfl, rfl⟩ := a3
    have hrest' : L.rest = '*' :: r := hrest
    refine scans_operator_one L _ r _ hrest' (by decide) ?_
    unfold processOperator
    simp [current_of_rest_cons hrest', peek_of_rest hrest', h1, h2]
  · obtain ⟨rfl, rfl⟩ := a4
    have hrest' : L.rest = '=' :: r := hrest
    refine scans_operator_one L _ r _ hrest' (by decide) ?_
    unfold processOperator
    simp [current_of_rest_cons hrest', peek_of_rest hrest', h1]
  · obtain ⟨rfl, rfl⟩ := c1
    have hrest' : L.rest = '=' :: '=' :: r := hrest
    refine scans_operator_two L _ _ r _ hrest' (by decide) ?_
    unfold processOperator
    simp [current_of_rest_cons hrest', peek_of_rest hrest']
  · obtain ⟨rfl, rfl⟩ := c2
    have hrest' : L.rest = '!' :: '=' :: r := hrest
    refine scans_operator_two L _ _ r _ hrest' (by decide) ?_
    unfold processOperator
    simp [current_of_rest_cons hrest', peek_of_rest hrest']
  · obtain ⟨rfl, rfl⟩ := c3
    have hrest' : L.rest = '<' :: '=' :: r := hrest
    refine scans_operator_two L _ _ r _ hrest' (by decide) ?_
    unfold processOperator
    simp [current_of_rest_cons hrest', peek_of_rest hrest']
  · obtain ⟨rfl, rfl⟩ := c4
    have hrest' : L.rest = '>' :: '=' :: r := hrest
    refine scans_operator_two L _ _ r _ hrest' (by decide) ?_
    unfold processOperator
    simp [current_of_rest_cons hrest', peek_of_rest hrest']
  · obtain ⟨rfl, rfl⟩ := c5
    have hrest' : L.rest = '<' :: r := hrest
    refine scans_operator_one L _ r _ hrest' (by decide) ?_
    unfold processOperator
    simp [current_of_rest_cons hrest', peek_of_rest hrest', h1, h3]
  · obtain ⟨rfl, rfl⟩ := c6
    have hrest' : L.rest = '>' :: r := hrest
    refine scans_operator_one L _ r _ hrest' (by decide) ?_
    unfold processOperator
    simp [current_of_rest_cons hrest', peek_of_rest hrest', h1, h4]

end PythonLexer
end PyAnalyzer

namespace PyAnalyzer
namespace PythonLexer

theorem scans_delimiter (c : Char) (hc : isDelimiter c = true) (hat : c ≠ '@')
    (L : PythonLexer) (r : List Char) (hrest : L.rest = c :: r) :
    ∃ L', Scans L [([c], TokenType.DELIMITER)] L' ∧ L'.rest = r ∧
      L'.symbolTable = L.symbolTable := by
  have hcur := current_of_rest_cons hrest
  have hnul : L.current ≠ NUL := by
    rw [hcur]
    intro e
    rw [e] at hc
    exact absurd hc (by decide)
  refine ⟨(L.addToken [c] TokenType.DELIMITER).advance, Scans.of_step hnul ?_ ?_ (by simp)
    (by simp), by simp [hrest], by simp⟩
  · rw [tokenizeStep_delimiter L (by rw [hcur]; exact hc) (by rw [hcur]; exact hat), hcur]
  · rw [tokenKinds_advance, tokenKinds_addToken]

theorem takeWhile_append_stop {p : Char → Bool} (w r : List Char) (hw : ∀ c ∈ w, p c = true)
    (hr : p (r.headD NUL) = false) : (w ++ r).takeWhile p = w := by
  induction w with
  | nil =>
    cases r with
    | nil => rfl
    | cons c cs =>
      have : p c = false := by simpa using hr
      simp [List.takeWhile_cons, this]
  | cons a w ih =>
    have ha : p a = true := hw a (by simp)
    simp only [List.cons_append, List.takeWhile_cons, ha, if_true]
    rw [ih (fun c hc => hw c (by simp [hc]))]

theorem isWordChar_of_isdigit {c : Char} (h : isdigit c = true) : isWordChar c = true := by
  simp [isWordChar, isalnum, h]

theorem isWordChar_of_isalpha {c : Char} (h : isalpha c = true) : isWordChar c = true := by
  simp [isWordChar, isalnum, h]

theorem isdigit_not_newline {c : Char} (h : isdigit c = true) : c ≠ '\n' := by
  intro e
  rw [e] at h
  exact absurd h (by decide)

/-- A canonical decimal literal followed by a character that cannot continue
a numeral becomes one NUMBER token. -/
theorem scans_number (ds : List Char) (hds : canonicalDigits ds = true) (L : PythonLexer)
    (r : List Char) (hrest : L.rest = ds ++ r) (hne : r ≠ [])
    (hstop : isWordChar (r.headD NUL) = false) (hpoint : r.headD NUL ≠ '.') :
    ∃ L', Scans L [(ds, TokenType.NUMBER)] L' ∧ L'.rest = r ∧
      L'.symbolTable = L.symbolTable := by
  simp only [canonicalDigits, Bool.and_eq_true, Bool.not_eq_true', List.isEmpty_eq_false,
    List.all_eq_true, Bool.or_eq_true, beq_iff_eq, bne_iff_ne, ne_eq] at hds
  obtain ⟨⟨hnil, hall⟩, hzero⟩ := hds
  obtain ⟨d, ds', rfl⟩ := List.exists_cons_of_ne_nil hnil
  have hd : isdigit d = true := hall d (by simp)
  have hrest' : L.rest = d :: (ds' ++ r) := by simpa using hrest
  have hcur : L.current = d := current_of_rest_cons hrest'
  have hnul : L.current ≠ NUL := by
    rw [hcur]
    intro e
    rw [e] at hd
    exact absurd hd (by decide)
  have hstopc : ∀ c : Char, isWordChar c = true → r.headD NUL ≠ c := by
    intro c hc e
    rw [e, hc] at hstop
    exact absurd hstop (by decide)
  have hnd : isdigit (r.headD NUL) = false := by
    cases h : isdigit (r.headD NUL) with
    | false => rfl
    | true =>
      rw [isWordChar_of_isdigit h] at hstop
      exact absurd hstop (by decide)
  have hna : isalpha (r.headD NUL) = false := by
    cases h : isalpha (r.headD NUL) with
    | false => rfl
    | true =>
      rw [isWordChar_of_isalpha h] at hstop
      exact absurd hstop (by decide)
  have hstep : tokenizeStep L = (L.advanceN (d :: ds').length).addToken (d :: ds')
      TokenType.NUMBER := by
    rw [tokenizeStep_digit L (by rw [hcur]; exact hd)]
    unfold processNumber
    by_cases hz : d = '0'
    · -- the literal is `0`
      subst hz
      have hds' : ds' = [] := by
        rcases hzero with h | h
        · simpa using h
        · exact absurd rfl h
      subst hds'
      have hlen : 1 < L.rest.length := by
        rw [hrest']
        obtain ⟨c, cs, rfl⟩ := List.exists_cons_of_ne_nil hne
        simp
      have hrest1 : L.advance.rest = r := by simp [hrest']
      have hcur1 : L.advance.current = r.headD NUL := by
        unfold current
        rw [hrest1]
      rw [if_pos ⟨hcur, hlen⟩]
      simp only [hcur1]
      rw [if_neg (by
          intro h
          rcases h with h | h
          · exact hstopc 'x' (by decide) h
          · exact hstopc 'X' (by decide) h),
        if_neg (by
          intro h
          rcases h with h | h
          · exact hstopc 'b' (by decide) h
          · exact hstopc 'B' (by decide) h),
        if_neg (by
          intro h
          rcases h with h | h
          · exact hstopc 'o' (by decide) h
          · exact hstopc 'O' (by decide) h),
        if_neg (by rw [hnd, Bool.false_and]; exact Bool.false_ne_true),
        if_pos (by
          simp only [hnd, Bool.not_false, Bool.true_and, Bool.and_eq_true, bne_iff_ne, ne_eq]
          exact ⟨⟨hpoint, hstopc 'e' (by decide)⟩, hstopc 'E' (by decide)⟩)]
      rw [hcur]
      rfl
    · -- the literal starts with a nonzero digit
      rw [if_neg (by rw [hcur]; exact fun h => hz h.1)]
      have htw : L.rest.takeWhile isDigitOrUnderscore = d :: ds' := by
        rw [hrest]
        exact takeWhile_append_stop _ _ (fun c hc => by simp [isDigitOrUnderscore, hall c hc])
          (by
            simp only [isDigitOrUnderscore, hnd, Bool.false_or, beq_eq_false_iff_ne, ne_eq]
            exact hstopc '_' (by decide))
      have hany : (d :: ds').any isdigit = true := by simp [hd]
      have hrestN : (L.advanceN (d :: ds').length).rest = r := by
        rw [rest_advanceN, hrest, List.drop_left]
      have hcurN : (L.advanceN (d :: ds').length).current = r.headD NUL := by
        unfold current
        rw [hrestN]
      have hnou : '_' ∉ d :: ds' := by
        intro hmem
        have := hall _ hmem
        exact absurd this (by decide)
      have hinf : hasInfix "_".toList (d :: ds') = false :=
        hasInfix_false_of_not_mem '_' [] _ hnou
      unfold numberDecimal
      simp only [htw, hany, List.nil_append]
      unfold numberFraction
      rw [if_neg (by simp), if_neg (by rw [hcurN]; exact hpoint)]
      unfold numberExponent
      rw [if_neg (by
        rw [hcurN]
        intro h
        rcases h with h | h
        · exact hstopc 'e' (by decide) h
        · exact hstopc 'E' (by decide) h)]
      unfold underscoreError
      simp only [hinf, Bool.false_eq_true, if_false]
      unfold numberTail
      rw [if_neg (by
          rw [hcurN]
          intro h
          rcases h with h | h
          · exact hstopc 'j' (by decide) h
          · exact hstopc 'J' (by decide) h),
        if_neg (by
          rw [hcurN]
          simp only [hna, Bool.false_or, beq_iff_eq]
          exact hstopc '_' (by decide)),
        if_neg (by simp),
        if_neg (by simp [hz])]
  refine ⟨_, Scans.of_step hnul hstep ?_ (by simp) (by simp), ?_, by simp⟩
  · rw [tokenKinds_addToken, tokenKinds_advanceN]
  · rw [rest_addToken, rest_advanceN, hrest, List.drop_left]

end PythonLexer
end PyAnalyzer

namespace PyAnalyzer
namespace PythonLexer

/-! ### Words -/

theorem drop_length_takeWhile (p : Char → Bool) (l : List Char) :
    l.drop (l.takeWhile p).length = l.dropWhile p := by
  induction l with
  | nil => rfl
  | cons a l ih =>
    by_cases h : p a = true
    · simp [List.takeWhile_cons, List.dropWhile_cons, h, ih]
    · simp [List.takeWhile_cons, List.dropWhile_cons, h]

theorem char_le_iff (a b : Char) : a ≤ b ↔ a.toNat ≤ b.toNat := Iff.rfl

theorem isdigit_false_of_isalpha {c : Char} (h : isalpha c = true) : isdigit c = false := by
  cases hd : isdigit c with
  | false => rfl
  | true =>
    exfalso
    simp only [isdigit, isalpha, Bool.and_eq_true, Bool.or_eq_true, decide_eq_true_eq,
      char_le_iff] at hd h
    have e1 : ('0' : Char).toNat = 48 := rfl
    have e2 : ('9' : Char).toNat = 57 := rfl
    have e3 : ('a' : Char).toNat = 97 := rfl
    have e4 : ('A' : Char).toNat = 65 := rfl
    omega

theorem tokenizeStep_alpha (L : PythonLexer) (h : isalpha L.current = true ∨ L.current = '_') :
    tokenizeStep L =
      if !( processTypeAnnotation L).1 then processIdentifier ( processTypeAnnotation L).2
      else ( processTypeAnnotation L).2 := by
  have hal : (isalpha L.current || L.current == '_') = true := by
    rcases h with h | h
    · simp [h]
    · simp [h]
  have hne : ∀ c : Char, (isalpha c || c == '_') = false → L.current ≠ c := by
    intro c hc e
    rw [e, hc] at hal
    exact absurd hal (by decide)
  have hnd : isdigit L.current = false := by
    rcases h with h | h
    · exact isdigit_false_of_isalpha h
    · rw [h]
      decide
  unfold tokenizeStep
  simp only [hne '\n' (by decide), hne ' ' (by decide), hne '\r' (by decide),
    hne '\t' (by decide), hne (Char.ofNat 11) (by decide), hne (Char.ofNat 12) (by decide),
    hne '#' (by decide), hne '"' (by decide), hne '\'' (by decide), hnd, hal, or_self,
    if_false, if_true, Bool.false_eq_true]

end PythonLexer
end PyAnalyzer

namespace PyAnalyzer
namespace PythonLexer

/-- The facts about a word `c :: cs` followed by `r` that the word lemmas
share. -/
theorem word_facts (c : Char) (cs r : List Char) (hw : wordShape (c :: cs) = true)
    (hr : isWordChar (r.headD NUL) = false) :
    (isalpha c = true ∨ c = '_') ∧ (∀ x ∈ c :: cs, isWordChar x = true) ∧
      ((c :: cs) ++ r).takeWhile isWordChar = c :: cs ∧
      (cs ++ r).takeWhile isWordChar = cs ∧
      (c = '_' → isdigit ((cs ++ r).headD NUL) = false) := by
  simp only [wordShape, Bool.and_eq_true, Bool.or_eq_true, beq_iff_eq, List.all_eq_true,
    Bool.not_eq_true', Bool.and_eq_false_iff, beq_eq_false_iff_ne, ne_eq] at hw
  obtain ⟨⟨h1, h2⟩, h3⟩ := hw
  have hc : isWordChar c = true := by
    rcases h1 with h | h
    · exact isWordChar_of_isalpha h
    · rw [h]
      decide
  have hall : ∀ x ∈ c :: cs, isWordChar x = true := by
    intro x hx
    rcases List.mem_cons.mp hx with h | h
    · rw [h]
      exact hc
    · exact h2 x h
  refine ⟨h1, hall, takeWhile_append_stop _ _ hall hr, takeWhile_append_stop _ _ h2 hr, ?_⟩
  intro hu
  rcases h3 with h | h
  · exact absurd hu h
  · cases cs with
    | nil =>
      cases hd : isdigit (([] ++ r).headD NUL) with
      | false => rfl
      | true =>
        rw [List.nil_append] at hd
        rw [isWordChar_of_isdigit hd] at hr
        exact absurd hr (by decide)
    | cons a cs => simpa using h

/-- A word that starts no type annotation is scanned by `processIdentifier`,
which reads it whole. -/
theorem tokenizeStep_word (L : PythonLexer) (w r : List Char) (hrest : L.rest = w ++ r)
    (hw : wordShape w = true) (hr : isWordChar (r.headD NUL) = false)
    (hta : typeHints.contains (toLower w) = false ∨
      (isalpha (firstAfterSpace r) || firstAfterSpace r == '_') = false) :
    tokenizeStep L = identifierToken (L.advanceN w.length) w := by
  cases w with
  | nil => simp [wordShape] at hw
  | cons c cs =>
    obtain ⟨h1, hall, htw, htw', hund⟩ := word_facts c cs r hw hr
    have hrest' : L.rest = c :: (cs ++ r) := by simpa using hrest
    have hcur : L.current = c := current_of_rest_cons hrest'
    have hal : (isalpha L.current || L.current == '_') = true := by
      rw [hcur]
      rcases h1 with h | h
      · simp [h]
      · simp [h]
    have hrestN : (L.advanceN (c :: cs).length).rest = r := by
      rw [rest_advanceN, hrest, List.drop_left]
    have hrest2 : ((L.advanceN (c :: cs).length).advanceN
        ((L.advanceN (c :: cs).length).rest.takeWhile isInlineSpace).length).rest =
        r.dropWhile isInlineSpace := by
      rw [rest_advanceN, hrestN, drop_length_takeWhile]
    have hcur2 : ((L.advanceN (c :: cs).length).advanceN
        ((L.advanceN (c :: cs).length).rest.takeWhile isInlineSpace).length).current =
        firstAfterSpace r := by
      unfold current firstAfterSpace
      rw [hrest2]
    have hpta : processTypeAnnotation L = (false, L) := by
      unfold processTypeAnnotation
      simp only [hal, if_true]
      rw [hrest, htw, hcur2]
      rcases hta with h | h
      · rw [h]
        simp
      · rw [h]
        simp
    have hnd : isdigit L.current = false := by
      rw [hcur]
      rcases h1 with h | h
      · exact isdigit_false_of_isalpha h
      · rw [h]
        decide
    rw [tokenizeStep_alpha L (by rw [hcur]; exact h1), hpta]
    simp only [Bool.not_false, if_true]
    unfold processIdentifier
    rw [if_neg (by rw [hnd]; decide)]
    by_cases hu : c = '_'
    · have hrest1 : L.advance.rest = cs ++ r := by simp [hrest']
      have hcur1 : L.advance.current = (cs ++ r).headD NUL := by
        unfold current
        rw [hrest1]
      rw [if_pos (by rw [hcur]; exact hu), if_neg (by rw [hcur1, hund hu]; decide)]
      unfold identifierWord takeWord
      simp only [hrest1, htw', hcur, hu, List.singleton_append, List.length_cons]
      rfl
    · rw [if_neg (by rw [hcur]; exact hu)]
      unfold identifierWord takeWord
      simp only [hrest, htw, List.nil_append]

/-- A keyword becomes one KEYWORD token. -/
theorem scans_keyword (w : List Char) (hw : wordShape w = true) (hk : isKeywordText w = true)
    (L : PythonLexer) (r : List Char) (hrest : L.rest = w ++ r)
    (hr : isWordChar (r.headD NUL) = false)
    (hta : typeHints.contains (toLower w) = false ∨
      (isalpha (firstAfterSpace r) || firstAfterSpace r == '_') = false) :
    ∃ L', Scans L [(w, TokenType.KEYWORD)] L' ∧ L'.rest = r ∧
      L'.symbolTable = L.symbolTable := by
  have hstep := tokenizeStep_word L w r hrest hw hr hta
  have hnul : L.current ≠ NUL := by
    cases w with
    | nil => simp [wordShape] at hw
    | cons c cs =>
      obtain ⟨h1, _⟩ := word_facts c cs r hw hr
      rw [current_of_rest_cons (show L.rest = c :: (cs ++ r) by simpa using hrest)]
      rintro rfl
      rcases h1 with h | h
      · exact absurd h (by decide)
      · exact absurd h (by decide)
  have htok : identifierToken (L.advanceN w.length) w =
      (L.advanceN w.length).addToken w TokenType.KEYWORD := by
    unfold identifierToken
    unfold isKeywordText at hk
    simp only [hk, if_true]
  rw [htok] at hstep
  refine ⟨_, Scans.of_step hnul hstep ?_ (by simp) (by simp), ?_, by simp⟩
  · rw [tokenKinds_addToken, tokenKinds_advanceN]
  · rw [rest_addToken, rest_advanceN, hrest, List.drop_left]

/-- An ordinary identifier that is not followed by an opening parenthesis
becomes one IDENTIFIER token and is registered in the symbol table. -/
theorem scans_identifier (w : List Char) (hw : ordinaryIdentifier w = true)
    (L : PythonLexer) (r : List Char) (hrest : L.rest = w ++ r)
    (hr : isWordChar (r.headD NUL) = false) (hcall : firstAfterSpace r ≠ '(')
    (hta : typeHints.contains (toLower w) = false ∨
      (isalpha (firstAfterSpace r) || firstAfterSpace r == '_') = false) :
    ∃ L', Scans L [(w, TokenType.IDENTIFIER)] L' ∧ L'.rest = r ∧
      L'.symbolTable = (L.symbolTable.addIdentifier w).2 := by
  simp only [ordinaryIdentifier, Bool.and_eq_true, Bool.not_eq_true'] at hw
  obtain ⟨⟨hshape, hkw⟩, hbi⟩ := hw
  have hstep := tokenizeStep_word L w r hrest hshape hr hta
  have hnul : L.current ≠ NUL := by
    cases w with
    | nil => simp [wordShape] at hshape
    | cons c cs =>
      obtain ⟨h1, _⟩ := word_facts c cs r hshape hr
      rw [current_of_rest_cons (show L.rest = c :: (cs ++ r) by simpa using hrest)]
      rintro rfl
      rcases h1 with h | h
      · exact absurd h (by decide)
      · exact absurd h (by decide)
  have hrestN : (L.advanceN w.length).rest = r := by
    rw [rest_advanceN, hrest, List.drop_left]
  have hnc : ¬ ((L.advanceN w.length).rest.dropWhile isInlineSpace).headD NUL = '(' := by
    rw [hrestN]
    exact hcall
  have htok : identifierToken (L.advanceN w.length) w =
      ({ (L.advanceN w.length) with
          isFunctionCall := false
          symbolTable := ((L.advanceN w.length).symbolTable.addIdentifier w).2 } :
        PythonLexer).addToken w TokenType.IDENTIFIER := by
    unfold identifierToken
    unfold isKeywordText at hkw
    unfold isBuiltinText at hbi
    simp only [hkw, hbi, hnc, Bool.false_eq_true, if_false, decide_False, Bool.not_false,
      if_true]
  rw [htok] at hstep
  refine ⟨_, Scans.of_step hnul hstep ?_ ?_ ?_, ?_, ?_⟩
  · simp only [tokenKinds, tokens_addToken, tokens_advanceN, List.map_append, List.map_cons,
      List.map_nil]
  · simp only [errors_addToken, errors_advanceN]
  · simp only [indentStack_addToken, indentStack_advanceN]
  · simp only [rest_addToken]
    exact hrestN
  · simp only [symbolTable_addToken, symbolTable_advanceN]

end PythonLexer
end PyAnalyzer

namespace PyAnalyzer
namespace PythonLexer

/-! ### Expressions -/

theorem headD_spaces (n : Nat) (c : Char) (r : List Char) :
    (List.replicate n ' ' ++ c :: r).headD NUL = ' ' ∨
      (List.replicate n ' ' ++ c :: r).headD NUL = c := by
  cases n with
  | zero => right; rfl
  | succ n => left; rfl

theorem spaces_ne_nil (n : Nat) (c : Char) (r : List Char) :
    List.replicate n ' ' ++ c :: r ≠ [] := by
  cases n <;> simp [List.replicate_succ]

end PythonLexer
end PyAnalyzer

namespace PyAnalyzer
namespace PythonLexer

/-! ### The end of the line -/

theorem addDedents_rest (n : Nat) (L : PythonLexer) : (addDedents n L).rest = L.rest := by
  induction n generalizing L with
  | zero => rfl
  | succ n ih => simp [addDedents, ih]

theorem addDedents_errors (n : Nat) (L : PythonLexer) : (addDedents n L).errors = L.errors := by
  induction n generalizing L with
  | zero => rfl
  | succ n ih => simp [addDedents, ih]

theorem addDedents_symbolTable (n : Nat) (L : PythonLexer) :
    (addDedents n L).symbolTable = L.symbolTable := by
  induction n generalizing L with
  | zero => rfl
  | succ n ih => simp [addDedents, ih]

theorem addDedents_indentStack (n : Nat) (L : PythonLexer) :
    (addDedents n L).indentStack = L.indentStack := by
  induction n generalizing L with
  | zero => rfl
  | succ n ih => simp [addDedents, ih]

theorem addDedents_tokenKinds (n : Nat) (L : PythonLexer) :
    (addDedents n L).tokenKinds = L.tokenKinds ++ List.replicate n ([], TokenType.DEDENT) := by
  induction n generalizing L with
  | zero => simp [addDedents]
  | succ n ih =>
    simp only [addDedents, ih, tokenKinds_addToken, List.replicate_succ, List.append_assoc,
      List.singleton_append]

end PythonLexer
end PyAnalyzer

namespace PyAnalyzer
namespace PythonLexer

/-! ### The source of C1 -/

theorem firstAfterSpace_spaces (n : Nat) (c : Char) (r : List Char)
    (hc : isInlineSpace c = false) : firstAfterSpace (List.replicate n ' ' ++ c :: r) = c := by
  unfold firstAfterSpace
  induction n with
  | zero => simp [List.dropWhile_cons, hc]
  | succ n ih =>
    have hs : isInlineSpace ' ' = true := by decide
    simpa [List.replicate_succ, List.dropWhile_cons, hs] using ih

theorem not_wordChar_spaces (n : Nat) (c : Char) (r : List Char) (hc : isWordChar c = false) :
    isWordChar ((List.replicate n ' ' ++ c :: r).headD NUL) = false := by
  rcases headD_spaces n c r with h | h
  · rw [h]; decide
  · rw [h]; exact hc

end PythonLexer
end PyAnalyzer

namespace PyAnalyzer
namespace PythonLexer

/-! ## Positions do not matter to `toRPN` and `evalRPN` -/

theorem toRPNLoop_nil (prev : Option Token) (output ops : List Token) :
    toRPNLoop prev [] output ops = drainOperators ops output := by
  cases prev <;> rfl

theorem toRPNLoop_cons (prev : Option Token) (t : Token) (input output ops : List Token) :
    toRPNLoop prev (t :: input) output ops =
      if isOperandType t.type then toRPNLoop (some t) input (output ++ [t]) ops
      else if isArithOperatorType t.type then
        toRPNLoop (some t) input
          (output ++ (popOperators (if (t.type == TokenType.MINUSOPERATOR &&
            (match prev with
             | none => true
             | some p => p.lexeme == "(".toList || isArithOperatorType p.type))
            then { t with type := TokenType.MINUSOPERATOR } else t) ops).1)
          ((if (t.type == TokenType.MINUSOPERATOR &&
            (match prev with
             | none => true
             | some p => p.lexeme == "(".toList || isArithOperatorType p.type))
            then { t with type := TokenType.MINUSOPERATOR } else t) ::
            (popOperators (if (t.type == TokenType.MINUSOPERATOR &&
            (match prev with
             | none => true
             | some p => p.lexeme == "(".toList || isArithOperatorType p.type))
            then { t with type := TokenType.MINUSOPERATOR } else t) ops).2)
      else if t.lexeme = "(".toList then toRPNLoop (some t) input output (t :: ops)
      else if t.lexeme = ")".toList then
        match (popToOpenParen ops).2 with
        | [] => .error "Mismatched parentheses".toList
        | _ :: ops' => toRPNLoop (some t) input (output ++ (popToOpenParen ops).1) ops'
      else toRPNLoop (some t) input output ops := by
  cases prev <;> rfl

/-- The operator that `toRPN` pushes is the token it read. -/
theorem toRPN_unary_noop (t : Token) (unary : Bool)
    (h : unary = true → t.type = TokenType.MINUSOPERATOR) :
    (if unary then { t with type := TokenType.MINUSOPERATOR } else t) = t := by
  cases unary with
  | false => rfl
  | true =>
    have := h rfl
    cases t
    simp_all

theorem toRPNLoop_cons_operator (prev : Option Token) (t : Token) (input output ops : List Token)
    (h1 : isOperandType t.type = false) (h2 : isArithOperatorType t.type = true) :
    toRPNLoop prev (t :: input) output ops =
      toRPNLoop (some t) input (output ++ (popOperators t ops).1) (t :: (popOperators t ops).2) := by
  rw [toRPNLoop_cons]
  simp only [h1, Bool.false_eq_true, if_false, h2, if_true]
  rw [toRPN_unary_noop t _ (by
    intro h
    simp only [Bool.and_eq_true, beq_iff_eq] at h
    exact h.1)]

/-- `toRPN` does not look at `input[i-1]` in any way that matters. -/
theorem toRPNLoop_prev (p q : Option Token) (input output ops : List Token) :
    toRPNLoop p input output ops = toRPNLoop q input output ops := by
  induction input generalizing p q output ops with
  | nil => simp [toRPNLoop_nil]
  | cons t input ih =>
    by_cases h1 : isOperandType t.type = true
    · rw [toRPNLoop_cons, toRPNLoop_cons]
      simp only [h1, if_true]
    · have h1' : isOperandType t.type = false := by simpa using h1
      by_cases h2 : isArithOperatorType t.type = true
      · rw [toRPNLoop_cons_operator p t _ _ _ h1' h2, toRPNLoop_cons_operator q t _ _ _ h1' h2]
      · have h2' : isArithOperatorType t.type = false := by simpa using h2
        rw [toRPNLoop_cons, toRPNLoop_cons]
        simp only [h1', h2', Bool.false_eq_true, if_false]

end PythonLexer
end PyAnalyzer

namespace PyAnalyzer
namespace PythonLexer

/-! ## `toRPN` on an expression in standard form -/

theorem Low.mono {n m : Nat} {ops : List Token} (h : Low n ops) (hnm : n ≤ m) : Low m ops :=
  fun top ht => Nat.lt_of_lt_of_le (h top ht) hnm

theorem Low.cons (n : Nat) (t : Token) (ops : List Token) (h : precedence t < n) :
    Low n (t :: ops) := by
  intro top ht
  simp only [List.head?_cons, Option.some.injEq] at ht
  subst ht
  exact h

theorem popToOpenParen_append (xs : List Token) (lp : Token) (ops : List Token)
    (hxs : ∀ t ∈ xs, t.lexeme ≠ "(".toList) (hlp : lp.lexeme = "(".toList) :
    popToOpenParen (xs ++ lp :: ops) = (xs, lp :: ops) := by
  induction xs with
  | nil => simp [popToOpenParen, hlp]
  | cons x xs ih =>
    have hx := hxs x (List.mem_cons_self _ _)
    simp only [List.cons_append, popToOpenParen]
    rw [if_pos hx]
    have := ih (fun t ht => hxs t (List.mem_cons_of_mem _ ht))
    rw [show xs.append _ = xs ++ _ from rfl, this]

theorem drainOperators_ok (xs output : List Token)
    (hxs : ∀ t ∈ xs, t.lexeme ≠ "(".toList ∧ t.lexeme ≠ ")".toList) :
    drainOperators xs output = .ok (output ++ xs) := by
  induction xs generalizing output with
  | nil => simp [drainOperators]
  | cons x xs ih =>
    have hx := hxs x (List.mem_cons_self _ _)
    simp only [drainOperators]
    rw [if_neg (by
      intro h
      rcases h with h | h
      · exact hx.1 h
      · exact hx.2 h), ih _ (fun t ht => hxs t (List.mem_cons_of_mem _ ht))]
    simp

end PythonLexer
end PyAnalyzer

namespace PyAnalyzer
namespace PythonLexer

theorem canonicalDigits_facts (ds : List Char) (h : canonicalDigits ds = true) :
    ds ≠ [] ∧ ∀ c ∈ ds, isdigit c = true := by
  simp only [canonicalDigits, Bool.and_eq_true, Bool.not_eq_true', List.isEmpty_eq_false,
    List.all_eq_true] at h
  exact ⟨h.1.1, h.1.2⟩

end PythonLexer
end PyAnalyzer

namespace PyAnalyzer
namespace PythonLexer

/-! ## The post-pass on one assignment -/

/-- The post-pass does nothing from an index on when no token from there on
is an identifier. -/
theorem processAssignmentsLoop_noop_from (F : DoubleArith) (fuel i : Nat) (L : PythonLexer)
    (h : ∀ k, i ≤ k → (L.tokens.get? k).map Token.type ≠ some TokenType.IDENTIFIER)
    (hf : L.tokens.length ≤ fuel + i) :
    processAssignmentsLoop F fuel i L = some L := by
  induction fuel generalizing i with
  | zero =>
    have : ¬ i < L.tokens.length := by omega
    simp [processAssignmentsLoop, this]
  | succ fuel ih =>
    by_cases hi : i < L.tokens.length
    · have hstep : processAssignmentsStep F i L = (i + 1, L) := by
        unfold processAssignmentsStep
        dsimp only
        rw [if_neg (fun hc => h _ (by omega) hc.2.1), if_neg (fun hc => h _ (by omega) hc.1)]
      simp only [processAssignmentsLoop, hi, if_true, hstep]
      exact ih (i + 1) (fun k hk => h k (by omega)) (by omega)
    · simp [processAssignmentsLoop, hi]

theorem erase_eq_plain (t : Token) : erase t = plain (t.lexeme, t.type) := rfl

end PythonLexer
end PyAnalyzer

namespace PyAnalyzer
namespace PythonLexer

theorem takeWhile_append_cons_stop {α : Type} (p : α → Bool) (w : List α) (x : α) (r : List α)
    (hw : ∀ a ∈ w, p a = true) (hx : p x = false) : (w ++ x :: r).takeWhile p = w := by
  induction w with
  | nil => simp [List.takeWhile_cons, hx]
  | cons a w ih =>
    have ha : p a = true := hw a (by simp)
    simp only [List.cons_append, List.takeWhile_cons, ha, if_true]
    rw [ih (fun c hc => hw c (by simp [hc]))]

theorem inferAssignment_of_length (F : DoubleArith) (L : PythonLexer) (lhs : List Char)
    (expr : List Token) (h : 2 ≤ expr.length) :
    inferAssignment F L lhs expr = foldAssignment F L lhs expr := by
  match expr, h with
  | _ :: _ :: _, _ => rfl

end PythonLexer
end PyAnalyzer

namespace PyAnalyzer

/-! ## The exact arithmetic satisfies the laws -/

theorem exactStod_digits (ds : List Char) (hne : ds ≠ [])
    (hd : ∀ c ∈ ds, isdigit c = true) : exactStod ds = some (decimalValue ds : ℚ) := by
  obtain ⟨c, cs, rfl⟩ := List.exists_cons_of_ne_nil hne
  have hc : isdigit c = true := hd c (by simp)
  have h1 : c ≠ '-' := by
    rintro rfl
    exact absurd hc (by decide)
  have h2 : c ≠ '+' := by
    rintro rfl
    exact absurd hc (by decide)
  have ht : (c :: cs).takeWhile isdigit = c :: cs := List.takeWhile_eq_self_iff.mpr hd
  have hdr : (c :: cs).dropWhile isdigit = [] := List.dropWhile_eq_nil_iff.mpr hd
  have e1 : ((c :: cs).head? == some '-') = false := by simp [h1]
  have e2 : ((c :: cs).head? == some '+') = false := by simp [h2]
  have e3 : (([] : List Char).head? == some '.') = false := rfl
  have e4 : (([] : List Char).head? == some 'e') = false := rfl
  have e5 : (([] : List Char).head? == some 'E') = false := rfl
  have e6 : (([] : List Char).head? == some '-') = false := rfl
  have e7 : (([] : List Char).head? == some '+') = false := rfl
  unfold exactStod
  simp only [e1, e2, Bool.or_self, Bool.false_eq_true, if_false, ht, hdr, e3, e4, e5, e6, e7,
    List.isEmpty_cons, Bool.false_and, List.takeWhile_nil, List.length_nil]
  simp [decimalValue]

theorem truncRat_intCast (a : Int) : truncRat (a : ℚ) = a := by
  unfold truncRat
  simp only [Rat.intCast_num, Rat.intCast_den, Nat.div_one]
  exact Int.sign_mul_natAbs a

theorem exactArith_exactOnIntegers : exactArith.ExactOnIntegers where
  stod_digits := fun ds hne hd _ => by
    show exactStod ds = some (((decimalValue ds : Nat) : Int) : ℚ)
    rw [exactStod_digits ds hne hd]
    simp
  add_exact := fun a b _ _ _ => by
    show (a : ℚ) + (b : ℚ) = ((a + b : Int) : ℚ)
    push_cast
    rfl
  sub_exact := fun a b _ _ _ => by
    show (a : ℚ) - (b : ℚ) = ((a - b : Int) : ℚ)
    push_cast
    rfl
  mul_exact := fun a b _ _ _ => by
    show (a : ℚ) * (b : ℚ) = ((a * b : Int) : ℚ)
    push_cast
    rfl
  isIntegral_int := fun a _ => by
    show decide ((a : ℚ).den = 1) = true
    simp
  toLongLong_int := fun a _ => truncRat_intCast a

namespace PythonLexer

/-! ## C1 -/

end PythonLexer
end PyAnalyzer

namespace PyAnalyzer
namespace SyntaxAnalyzer

/-! ## The parser over a token list, step by step -/

theorem currentToken_atPos {ts : List Token} {i : Nat} {t : Token} (h : ts.get? i = some t) :
    (atPos ts i).currentToken = t := by
  simp only [currentToken, atPos, List.getD_eq_getElem?_getD]
  rw [← List.get?_eq_getElem?, h]
  rfl

theorem isAtEnd_atPos {ts : List Token} {i : Nat} {t : Token} (h : ts.get? i = some t) :
    (atPos ts i).isAtEnd = (t.type == TokenType.ENDOFFILE) := by
  have hlt : i < ts.length := by
    rw [List.get?_eq_getElem?] at h
    exact (List.getElem?_eq_some_iff.mp h).1
  unfold isAtEnd
  rw [currentToken_atPos h]
  have : decide ((atPos ts i).pos ≥ (atPos ts i).tokens.length) = false := by
    simp only [atPos, decide_eq_false_iff_not]
    omega
  rw [this, Bool.false_or]

theorem advance_atPos {ts : List Token} {i : Nat} {t : Token} (h : ts.get? i = some t)
    (ht : t.type ≠ TokenType.ENDOFFILE) : (atPos ts i).advance = atPos ts (i + 1) := by
  unfold advance
  rw [isAtEnd_atPos h]
  have : (t.type == TokenType.ENDOFFILE) = false := by simpa using ht
  rw [this]
  rfl

theorem matchLexeme_atPos_true {ts : List Token} {i : Nat} {t : Token} (h : ts.get? i = some t)
    (ht : t.type ≠ TokenType.ENDOFFILE) (s : String) (hs : t.lexeme = s.toList) :
    (atPos ts i).matchLexeme s = (true, atPos ts (i + 1)) := by
  unfold matchLexeme
  rw [isAtEnd_atPos h, currentToken_atPos h, advance_atPos h ht]
  have : (t.type == TokenType.ENDOFFILE) = false := by simpa using ht
  simp [this, hs]

theorem matchLexeme_atPos_false {ts : List Token} {i : Nat} {t : Token} (h : ts.get? i = some t)
    (s : String) (hs : t.lexeme ≠ s.toList) :
    (atPos ts i).matchLexeme s = (false, atPos ts i) := by
  unfold matchLexeme
  rw [currentToken_atPos h]
  have : (t.lexeme == s.toList) = false := by simpa using hs
  rw [this, Bool.and_false]
  rfl

theorem matchAny_atPos_none {ts : List Token} {i : Nat} {t : Token} (h : ts.get? i = some t)
    (l : List String) (hl : ∀ s ∈ l, t.lexeme ≠ s.toList) :
    (atPos ts i).matchAny l = (none, atPos ts i) := by
  induction l with
  | nil => rfl
  | cons s l ih =>
    rw [matchAny, matchLexeme_atPos_false h s (hl s (by simp))]
    simp only [Bool.false_eq_true, if_false]
    exact ih (fun s' hs' => hl s' (by simp [hs']))

theorem skipWhile_atPos_stop {ts : List Token} {i : Nat} {t : Token} (h : ts.get? i = some t)
    (p : Token → Bool) (hp : (t.type != TokenType.ENDOFFILE && p t) = false) :
    (atPos ts i).skipWhile p = atPos ts i := by
  have hlt : i < ts.length := by
    rw [List.get?_eq_getElem?] at h
    exact (List.getElem?_eq_some_iff.mp h).1
  have hdrop : ts.drop i = t :: ts.drop (i + 1) := by
    rw [List.get?_eq_getElem?] at h
    have := (List.getElem?_eq_some_iff.mp h).2
    rw [← this]
    exact List.drop_eq_getElem_cons hlt
  unfold skipWhile
  simp only [atPos, hdrop, List.takeWhile_cons, hp, Bool.false_eq_true, if_false,
    List.length_nil, Nat.add_zero]

theorem skipWhile_atPos_step {ts : List Token} {i : Nat} {t : Token} (h : ts.get? i = some t)
    (p : Token → Bool) (hp : (t.type != TokenType.ENDOFFILE && p t) = true) :
    (atPos ts i).skipWhile p = (atPos ts (i + 1)).skipWhile p := by
  have hlt : i < ts.length := by
    rw [List.get?_eq_getElem?] at h
    exact (List.getElem?_eq_some_iff.mp h).1
  have hdrop : ts.drop i = t :: ts.drop (i + 1) := by
    rw [List.get?_eq_getElem?] at h
    have := (List.getElem?_eq_some_iff.mp h).2
    rw [← this]
    exact List.drop_eq_getElem_cons hlt
  unfold skipWhile
  simp only [atPos, hdrop, List.takeWhile_cons, hp, if_true, List.length_cons]
  congr 1
  omega

end SyntaxAnalyzer
end PyAnalyzer

namespace PyAnalyzer
namespace SyntaxAnalyzer

theorem operand_text_facts (o : Operand) (ho : o.valid = true) :
    o.text ≠ "(".toList ∧ (o.type = TokenType.IDENTIFIER ∨ o.type = TokenType.NUMBER) := by
  cases o with
  | ident w =>
    refine ⟨?_, Or.inl rfl⟩
    rintro (h : w = "(".toList)
    subst h
    exact absurd ho (by decide)
  | number ds =>
    refine ⟨?_, Or.inr rfl⟩
    rintro (h : ds = "(".toList)
    subst h
    exact absurd ho (by decide)

theorem stopsOperand_facts {n : Token} (h : stopsOperand n = true) :
    n.type ≠ TokenType.WHITESPACE ∧ n.type ≠ TokenType.COMMENT ∧
      n.lexeme ≠ "(".toList ∧ (∀ s ∈ ["*", "/", "%"], n.lexeme ≠ String.toList s) ∧
      (∀ s ∈ ["+", "-"], n.lexeme ≠ String.toList s) := by
  simp only [stopsOperand, Bool.and_eq_true, bne_iff_ne, ne_eq, Bool.not_eq_true',
    List.contains_eq_any_beq, List.any_eq_false, List.map_cons, List.map_nil, List.mem_cons,
    List.mem_singleton, List.not_mem_nil, or_false, beq_iff_eq, forall_eq_or_imp, forall_eq] at h
  obtain ⟨⟨h1, h2⟩, h3, h4, h5, h6, h7, h8⟩ := h
  refine ⟨h1, h2, h3, ?_, ?_⟩
  · intro s hs
    simp only [List.mem_cons, List.mem_singleton, List.not_mem_nil, or_false] at hs
    rcases hs with rfl | rfl | rfl
    · exact h4
    · exact h5
    · exact h6
  · intro s hs
    simp only [List.mem_cons, List.mem_singleton, List.not_mem_nil, or_false] at hs
    rcases hs with rfl | rfl
    · exact h7
    · exact h8

/-- `parseFactor` on an operand that a stopping token follows. -/
theorem parseFactor_operand (fuel : Nat) {ts : List Token} {i : Nat} {t n : Token}
    (h : ts.get? i = some t) (hn : ts.get? (i + 1) = some n) (o : Operand)
    (ho : o.valid = true) (hl : t.lexeme = o.text) (hty : t.type = o.type)
    (hstop : stopsOperand n = true) :
    parseFactor (fuel + 1) (atPos ts i) = .ok (some o.node, atPos ts (i + 1)) := by
  obtain ⟨ho1, ho2⟩ := operand_text_facts o ho
  obtain ⟨hn1, hn2, hn3, hn4, hn5⟩ := stopsOperand_facts hstop
  have hne : t.type ≠ TokenType.ENDOFFILE := by
    rw [hty]
    rcases ho2 with e | e <;> rw [e] <;> exact TokenType.noConfusion
  have hws : (atPos ts (i + 1)).skipWhile isWs = atPos ts (i + 1) :=
    skipWhile_atPos_stop hn isWs (by
      have : isWs n = false := by simpa [isWs] using hn1
      rw [this, Bool.and_false])
  rw [parseFactor]
  rw [skipWhile_atPos_stop h isWs (by
    unfold isWs
    rw [hty]
    rcases ho2 with e | e <;> rw [e] <;> rfl)]
  rw [matchLexeme_atPos_false h "(" (by rw [hl]; exact ho1)]
  simp only [Bool.false_eq_true, if_false, currentToken_atPos h, advance_atPos h hne, hws,
    matchLexeme_atPos_false hn "(" hn3, hl, hty]
  cases o with
  | ident w => rfl
  | number ds => rfl

end SyntaxAnalyzer
end PyAnalyzer

namespace PyAnalyzer
namespace SyntaxAnalyzer

theorem skipWhile_wsOrComment_stop {ts : List Token} {i : Nat} {n : Token}
    (hn : ts.get? i = some n) (h1 : n.type ≠ TokenType.WHITESPACE)
    (h2 : n.type ≠ TokenType.COMMENT) :
    (atPos ts i).skipWhile isWsOrComment = atPos ts i :=
  skipWhile_atPos_stop hn isWsOrComment (by
    have : isWsOrComment n = false := by simp [isWsOrComment, h1, h2]
    rw [this, Bool.and_false])

/-- `parseExpression` on an operand that a stopping token follows. -/
theorem parseExpression_operand (fuel : Nat) {ts : List Token} {i : Nat} {t n : Token}
    (h : ts.get? i = some t) (hn : ts.get? (i + 1) = some n) (o : Operand)
    (ho : o.valid = true) (hl : t.lexeme = o.text) (hty : t.type = o.type)
    (hstop : stopsOperand n = true) :
    parseExpression (fuel + 3) (atPos ts i) = .ok (some o.node, atPos ts (i + 1)) := by
  obtain ⟨ho1, ho2⟩ := operand_text_facts o ho
  obtain ⟨hn1, hn2, hn3, hn4, hn5⟩ := stopsOperand_facts hstop
  have ht1 : t.type ≠ TokenType.WHITESPACE := by
    rw [hty]
    rcases ho2 with e | e <;> rw [e] <;> exact TokenType.noConfusion
  have ht2 : t.type ≠ TokenType.COMMENT := by
    rw [hty]
    rcases ho2 with e | e <;> rw [e] <;> exact TokenType.noConfusion
  have ht3 : isBlockEnd t = false := by
    unfold isBlockEnd
    rw [hty]
    rcases ho2 with e | e <;> rw [e] <;> rfl
  have hfactor := parseFactor_operand fuel h hn o ho hl hty hstop
  have hterm : parseTerm (fuel + 2) (atPos ts i) = .ok (some o.node, atPos ts (i + 1)) := by
    rw [parseTerm, skipWhile_wsOrComment_stop h ht1 ht2, hfactor]
    simp only [bind, Except.bind]
    rw [parseTermLoop, skipWhile_wsOrComment_stop hn hn1 hn2, matchAny_atPos_none hn _ hn4]
    rfl
  rw [parseExpression, skipWhile_wsOrComment_stop h ht1 ht2, currentToken_atPos h, ht3]
  simp only [Bool.false_eq_true, if_false, hterm, bind, Except.bind]
  rw [parseExpressionLoop]
  by_cases hend : (atPos ts (i + 1)).isAtEnd = true
  · simp only [hend, if_true]
    rfl
  · simp only [hend, if_false, skipWhile_wsOrComment_stop hn hn1 hn2, currentToken_atPos hn,
      matchAny_atPos_none hn _ hn5, ite_self]
    rfl

end SyntaxAnalyzer
end PyAnalyzer

namespace PyAnalyzer
namespace SyntaxAnalyzer

theorem token_of_kinds {ts : List Token} {K : List (List Char × TokenType)}
    (hk : ts.map (fun t => (t.lexeme, t.type)) = K) {i : Nat} {lx : List Char} {ty : TokenType}
    (hi : K.get? i = some (lx, ty)) : ∃ t, ts.get? i = some t ∧ t.lexeme = lx ∧ t.type = ty := by
  rw [← hk, List.get?_map] at hi
  cases hg : ts.get? i with
  | none =>
    rw [hg] at hi
    cases hi
  | some t =>
    rw [hg] at hi
    simp only [Option.map_some', Option.some.injEq, Prod.mk.injEq] at hi
    exact ⟨t, rfl, hi.1, hi.2⟩

theorem stopsOperand_of_kind {t : Token} {lx : List Char} {ty : TokenType}
    (hl : t.lexeme = lx) (hty : t.type = ty) (h : stopsOperand ⟨lx, ty, 0, 0⟩ = true) :
    stopsOperand t = true := by
  unfold stopsOperand at h ⊢
  rw [hl, hty]
  exact h

theorem mem_comparators {cmp : String} (h : comparators.contains cmp = true) :
    cmp = "==" ∨ cmp = "!=" ∨ cmp = "<=" ∨ cmp = ">=" ∨ cmp = "<" ∨ cmp = ">" := by
  simpa [comparators] using h

theorem stopsOperand_comparator {t : Token} {cmp : String}
    (hc : comparators.contains cmp = true) (hl : t.lexeme = cmp.toList)
    (hty : t.type = TokenType.COMPAREOPERATOR) : stopsOperand t = true := by
  rcases mem_comparators hc with rfl | rfl | rfl | rfl | rfl | rfl <;>
    exact stopsOperand_of_kind hl hty (by decide)

theorem matchAny_comparator {ts : List Token} {i : Nat} {t : Token} (h : ts.get? i = some t)
    {cmp : String} (hc : comparators.contains cmp = true) (hl : t.lexeme = cmp.toList)
    (hty : t.type = TokenType.COMPAREOPERATOR) :
    (atPos ts i).matchAny ["==", "!=", "<=", ">=", "<", ">"] = (some cmp, atPos ts (i + 1)) := by
  have hne : t.type ≠ TokenType.ENDOFFILE := by
    rw [hty]
    exact TokenType.noConfusion
  have hf : ∀ s : String, cmp.toList ≠ s.toList → (atPos ts i).matchLexeme s = (false, atPos ts i) :=
    fun s hs => matchLexeme_atPos_false h s (by rw [hl]; exact hs)
  have ht : (atPos ts i).matchLexeme cmp = (true, atPos ts (i + 1)) :=
    matchLexeme_atPos_true h hne cmp hl
  rcases mem_comparators hc with rfl | rfl | rfl | rfl | rfl | rfl
  · simp only [matchAny, ht, if_true]
  · simp only [matchAny, ht, if_true, hf "==" (by decide), Bool.false_eq_true, if_false]
  · simp only [matchAny, ht, if_true, hf "==" (by decide), hf "!=" (by decide),
      Bool.false_eq_true, if_false]
  · simp only [matchAny, ht, if_true, hf "==" (by decide), hf "!=" (by decide),
      hf "<=" (by decide), Bool.false_eq_true, if_false]
  · simp only [matchAny, ht, if_true, hf "==" (by decide), hf "!=" (by decide),
      hf "<=" (by decide), hf ">=" (by decide), Bool.false_eq_true, if_false]
  · simp only [matchAny, ht, if_true, hf "==" (by decide), hf "!=" (by decide),
      hf "<=" (by decide), hf ">=" (by decide), hf "<" (by decide), Bool.false_eq_true, if_false]

end SyntaxAnalyzer
end PyAnalyzer

namespace PyAnalyzer
namespace SyntaxAnalyzer

/-- The four loops at the head of `parseStmt` skip nothing at a token that
is no NEWLINE, COMMENT, WHITESPACE, INDENT or DEDENT and no colon. -/
theorem parseStmt_skips {ts : List Token} {i : Nat} {t : Token} (h : ts.get? i = some t)
    (h1 : t.type ≠ TokenType.NEWLINE) (h2 : t.type ≠ TokenType.COMMENT)
    (h3 : t.type ≠ TokenType.WHITESPACE) (h4 : t.type ≠ TokenType.INDENT)
    (h5 : t.type ≠ TokenType.DEDENT) (h6 : t.lexeme ≠ ":".toList) :
    (atPos ts i).skipWhile (fun t => t.type == TokenType.NEWLINE || t.type == TokenType.COMMENT)
      = atPos ts i ∧
    (atPos ts i).skipWhile (fun t => t.type == TokenType.WHITESPACE ||
      t.type == TokenType.INDENT || t.type == TokenType.DEDENT) = atPos ts i ∧
    (atPos ts i).skipWhile (fun t => t.type == TokenType.COMMENT) = atPos ts i ∧
    (atPos ts i).skipWhile (fun t => t.lexeme == ":".toList) = atPos ts i := by
  refine ⟨skipWhile_atPos_stop h _ ?_, skipWhile_atPos_stop h _ ?_,
    skipWhile_atPos_stop h _ ?_, skipWhile_atPos_stop h _ ?_⟩
  · simp [h1, h2]
  · simp [h3, h4, h5]
  · simp [h2]
  · have : (t.lexeme == ":".toList) = false := by simpa using h6
    rw [this, Bool.and_false]

/-- `parseStmt` on `pass`, `break`, `continue` and a `return` that a NEWLINE
follows. -/
theorem parseStmt_keyword (fuel : Nat) {ts : List Token} {i : Nat} {t n : Token}
    (h : ts.get? i = some t) (hn : ts.get? (i + 1) = some n)
    (hty : t.type = TokenType.KEYWORD) (hnt : n.type = TokenType.NEWLINE) :
    (t.lexeme = "pass".toList →
      parseStmt (fuel + 2) (atPos ts i) = .ok (some (ParseNode.leaf "PassStmt"), atPos ts (i + 1))) ∧
    (t.lexeme = "break".toList →
      parseStmt (fuel + 2) (atPos ts i) = .ok (some (ParseNode.leaf "BreakStmt"), atPos ts (i + 1))) ∧
    (t.lexeme = "continue".toList →
      parseStmt (fuel + 2) (atPos ts i) =
        .ok (some (ParseNode.leaf "ContinueStmt"), atPos ts (i + 1))) ∧
    (t.lexeme = "return".toList →
      parseStmt (fuel + 2) (atPos ts i) =
        .ok (some (ParseNode.leaf "ReturnStmt"), atPos ts (i + 1))) := by
  have hne : t.type ≠ TokenType.ENDOFFILE := by rw [hty]; exact TokenType.noConfusion
  have hd : t.type ≠ TokenType.DEDENT := by rw [hty]; exact TokenType.noConfusion
  have hf : ∀ s : String, t.lexeme ≠ s.toList → (atPos ts i).matchLexeme s = (false, atPos ts i) :=
    fun s hs => matchLexeme_atPos_false h s hs
  have ht : ∀ s : String, t.lexeme = s.toList →
      (atPos ts i).matchLexeme s = (true, atPos ts (i + 1)) :=
    fun s hs => matchLexeme_atPos_true h hne s hs
  refine ⟨?_, ?_, ?_, ?_⟩ <;> intro hl
  all_goals
    obtain ⟨s1, s2, s3, s4⟩ := parseStmt_skips h (by rw [hty]; exact TokenType.noConfusion)
      (by rw [hty]; exact TokenType.noConfusion) (by rw [hty]; exact TokenType.noConfusion)
      (by rw [hty]; exact TokenType.noConfusion) hd (by rw [hl]; decide)
    rw [parseStmt]
    simp only [currentToken_atPos h, hd, if_false, s1, s2, s3, s4]
  · simp only [hf "if" (by rw [hl]; decide), hf "for" (by rw [hl]; decide),
      hf "while" (by rw [hl]; decide), hf "def" (by rw [hl]; decide),
      hf "return" (by rw [hl]; decide), ht "pass" hl, Bool.false_eq_true, if_false, if_true]
    rfl
  · simp only [hf "if" (by rw [hl]; decide), hf "for" (by rw [hl]; decide),
      hf "while" (by rw [hl]; decide), hf "def" (by rw [hl]; decide),
      hf "return" (by rw [hl]; decide), hf "pass" (by rw [hl]; decide),
      hf "else" (by rw [hl]; decide), hf "elif" (by rw [hl]; decide), ht "break" hl,
      Bool.false_eq_true, if_false, if_true]
    rfl
  · simp only [hf "if" (by rw [hl]; decide), hf "for" (by rw [hl]; decide),
      hf "while" (by rw [hl]; decide), hf "def" (by rw [hl]; decide),
      hf "return" (by rw [hl]; decide), hf "pass" (by rw [hl]; decide),
      hf "else" (by rw [hl]; decide), hf "elif" (by rw [hl]; decide),
      hf "break" (by rw [hl]; decide), ht "continue" hl,
      Bool.false_eq_true, if_false, if_true]
    rfl
  · simp only [hf "if" (by rw [hl]; decide), hf "for" (by rw [hl]; decide),
      hf "while" (by rw [hl]; decide), hf "def" (by rw [hl]; decide), ht "return" hl,
      Bool.false_eq_true, if_false, if_true]
    rw [parseReturnStmt, currentToken_atPos hn]
    simp only [hnt, ne_eq, not_true_eq_false, false_and, if_false]
    rfl

end SyntaxAnalyzer
end PyAnalyzer

namespace PyAnalyzer
namespace SyntaxAnalyzer

theorem operand_not_reserved (o : Operand) (ho : o.valid = true) :
    ∀ s ∈ ["if", "for", "while", "def", "return", "pass", "else", "elif", "break", "continue",
      ":", "print"], o.text ≠ String.toList s := by
  intro s hs e
  simp only [List.mem_cons, List.mem_singleton, List.not_mem_nil, or_false] at hs
  cases o with
  | ident w =>
    simp only [Operand.text] at e
    subst e
    rcases hs with rfl | rfl | rfl | rfl | rfl | rfl | rfl | rfl | rfl | rfl | rfl | rfl <;>
      exact absurd ho (by decide)
  | number ds =>
    simp only [Operand.text] at e
    subst e
    rcases hs with rfl | rfl | rfl | rfl | rfl | rfl | rfl | rfl | rfl | rfl | rfl | rfl <;>
      exact absurd ho (by decide)

theorem operand_type_facts (o : Operand) :
    o.type ≠ TokenType.NEWLINE ∧ o.type ≠ TokenType.COMMENT ∧ o.type ≠ TokenType.WHITESPACE ∧
      o.type ≠ TokenType.INDENT ∧ o.type ≠ TokenType.DEDENT ∧ o.type ≠ TokenType.ENDOFFILE := by
  cases o <;>
    exact ⟨TokenType.noConfusion, TokenType.noConfusion, TokenType.noConfusion,
      TokenType.noConfusion, TokenType.noConfusion, TokenType.noConfusion⟩

/-- At an operand, `parseStmt` passes the tests of the statement keywords. -/
theorem parseStmt_operand_head (fuel : Nat) {ts : List Token} {i : Nat} {t : Token}
    (h : ts.get? i = some t) (o : Operand) (ho : o.valid = true)
    (hl : t.lexeme = o.text) (hty : t.type = o.type) :
    parseStmt (fuel + 1) (atPos ts i) =
      if t.type = TokenType.IDENTIFIER then
        if t.lexeme = "print".toList ∨ t.lexeme = "len".toList ∨ t.lexeme = "input".toList then
          parseBuiltinCall fuel (atPos ts i)
        else if nextIsAssignOp (atPos ts i) then parseAssignment fuel (atPos ts i)
        else
          (parseExprStmt fuel (atPos ts i)).bind (fun r =>
            match r.1 with
            | none => .ok (none, r.2.errorHere "Invalid expression or unknown statement")
            | some n => .ok (some n, r.2))
      else
        (parseExprStmt fuel (atPos ts i)).bind (fun r =>
          match r.1 with
          | none => .ok (none, r.2.errorHere "Invalid expression or unknown statement")
          | some n => .ok (some n, r.2)) := by
  obtain ⟨y1, y2, y3, y4, y5, y6⟩ := operand_type_facts o
  have hr := operand_not_reserved o ho
  have hf : ∀ s ∈ ["if", "for", "while", "def", "return", "pass", "else", "elif", "break",
      "continue", ":", "print"], (atPos ts i).matchLexeme s = (false, atPos ts i) :=
    fun s hs => matchLexeme_atPos_false h s (by rw [hl]; exact hr s hs)
  obtain ⟨s1, s2, s3, s4⟩ := parseStmt_skips h (by rw [hty]; exact y1) (by rw [hty]; exact y2)
    (by rw [hty]; exact y3) (by rw [hty]; exact y4) (by rw [hty]; exact y5)
    (by rw [hl]; exact hr ":" (by simp))
  rw [parseStmt]
  simp only [currentToken_atPos h, show t.type ≠ TokenType.DEDENT by rw [hty]; exact y5,
    if_false, s1, s2, s3, s4,
    hf "if" (by simp), hf "for" (by simp), hf "while" (by simp), hf "def" (by simp),
    hf "return" (by simp), hf "pass" (by simp), hf "else" (by simp), hf "elif" (by simp),
    hf "break" (by simp), hf "continue" (by simp), Bool.false_eq_true]
  rfl

end SyntaxAnalyzer
end PyAnalyzer

namespace PyAnalyzer
namespace SyntaxAnalyzer

theorem token_of_drop {ts : List Token} {i : Nat} {K : List (List Char × TokenType)}
    (hk : (ts.drop i).map (fun t => (t.lexeme, t.type)) = K) (j : Nat) {lx : List Char}
    {ty : TokenType} (hj : K.get? j = some (lx, ty)) :
    ∃ t, ts.get? (i + j) = some t ∧ t.lexeme = lx ∧ t.type = ty := by
  obtain ⟨t, h1, h2, h3⟩ := token_of_kinds hk hj
  rw [List.get?_drop] at h1
  exact ⟨t, h1, h2, h3⟩

theorem headName_facts {w : List Char} (h : SimpleStmt.headName w = true) :
    (Operand.ident w).valid = true ∧ w ≠ "len".toList ∧ w ≠ "input".toList := by
  simpa [SimpleStmt.headName, Operand.valid, and_assoc] using h

theorem nextIsAssignOp_atPos {ts : List Token} {i : Nat} {n : Token}
    (hn : ts.get? (i + 1) = some n) :
    nextIsAssignOp (atPos ts i) = (n.lexeme == "=".toList || n.lexeme == "+=".toList ||
      n.lexeme == "-=".toList || n.lexeme == "*=".toList || n.lexeme == "/=".toList) := by
  unfold nextIsAssignOp
  simp only [atPos, hn]

/-- `parseStmt` on an operand alone on its line. -/
theorem parseStmt_exprStmt (fuel : Nat) {ts : List Token} {i : Nat} {t n : Token}
    (h : ts.get? i = some t) (hn : ts.get? (i + 1) = some n) (o : Operand)
    (hv : (SimpleStmt.exprStmt o).valid = true) (hl : t.lexeme = o.text) (hty : t.type = o.type)
    (hnl : n.lexeme = "\n".toList) (hnt : n.type = TokenType.NEWLINE) :
    parseStmt (fuel + 5) (atPos ts i) =
      .ok (some (ParseNode.node "ExprStmt".toList [] [o.node]), atPos ts (i + 1)) := by
  have ho : o.valid = true := by
    cases o with
    | ident w => exact (headName_facts hv).1
    | number ds => exact hv
  have hexpr := parseExpression_operand fuel h hn o ho hl hty
    (stopsOperand_of_kind hnl hnt (by decide))
  have hstmt : parseExprStmt (fuel + 4) (atPos ts i) =
      .ok (some (ParseNode.node "ExprStmt".toList [] [o.node]), atPos ts (i + 1)) := by
    rw [parseExprStmt, hexpr]
    rfl
  rw [parseStmt_operand_head (fuel + 4) h o ho hl hty, hstmt]
  cases o with
  | number ds =>
    rw [if_neg (by rw [hty]; exact TokenType.noConfusion)]
    rfl
  | ident w =>
    obtain ⟨_, h1, h2⟩ := headName_facts hv
    have h3 := operand_not_reserved (Operand.ident w) ho "print" (by simp)
    rw [if_pos (by rw [hty]; rfl), if_neg (by
      rw [hl]
      rintro (e | e | e)
      · exact h3 e
      · exact h1 e
      · exact h2 e), nextIsAssignOp_atPos hn, hnl, if_neg (by decide)]
    rfl

/-- `parseStmt` on the assignment of an operand to a name. -/
theorem parseStmt_assignment (fuel : Nat) {ts : List Token} {i : Nat} {t e v n : Token}
    (h : ts.get? i = some t) (he : ts.get? (i + 1) = some e) (hv : ts.get? (i + 2) = some v)
    (hn : ts.get? (i + 3) = some n) (target : List Char) (o : Operand)
    (hvalid : (SimpleStmt.assignment target 0 0 o).valid = true)
    (hl : t.lexeme = target) (hty : t.type = TokenType.IDENTIFIER)
    (hel : e.lexeme = "=".toList) (het : e.type = TokenType.EQUALOPERATOR)
    (hvl : v.lexeme = o.text) (hvt : v.type = o.type)
    (hnl : n.lexeme = "\n".toList) (hnt : n.type = TokenType.NEWLINE) :
    parseStmt (fuel + 5) (atPos ts i) =
      .ok (some (ParseNode.node "Assignment".toList "=".toList
        [ParseNode.leaf "Identifier" target, o.node]), atPos ts (i + 3)) := by
  have hboth : SimpleStmt.headName target = true ∧ o.valid = true := by
    simpa [SimpleStmt.valid] using hvalid
  obtain ⟨ho', h1, h2⟩ := headName_facts hboth.1
  have h3 := operand_not_reserved (Operand.ident target) ho' "print" (by simp)
  have hexpr := parseExpression_operand fuel hv hn o hboth.2 hvl hvt
    (stopsOperand_of_kind hnl hnt (by decide))
  have hne : t.type ≠ TokenType.ENDOFFILE := by rw [hty]; exact TokenType.noConfusion
  have hee : e.type ≠ TokenType.ENDOFFILE := by rw [het]; exact TokenType.noConfusion
  rw [parseStmt_operand_head (fuel + 4) h (Operand.ident target) ho' hl hty,
    if_pos hty, if_neg (by
      rw [hl]
      rintro (e | e | e)
      · exact h3 e
      · exact h1 e
      · exact h2 e), nextIsAssignOp_atPos he, hel, if_pos (by decide)]
  rw [parseAssignment, currentToken_atPos h, if_neg (by simp [hty]), advance_atPos h hne]
  have hm : (atPos ts (i + 1)).matchAny ["=", "+=", "-=", "*=", "/="] =
      (some "=", atPos ts (i + 2)) := by
    rw [matchAny, matchLexeme_atPos_true he hee "=" hel]
    rfl
  simp only [hm, hexpr, bind, Except.bind, hl]
  rfl

/-- `parseStmt` on `return` and an operand. -/
theorem parseStmt_returnValue (fuel : Nat) {ts : List Token} {i : Nat} {t v n : Token}
    (h : ts.get? i = some t) (hv : ts.get? (i + 1) = some v) (hn : ts.get? (i + 2) = some n)
    (o : Operand) (ho : o.valid = true)
    (hl : t.lexeme = "return".toList) (hty : t.type = TokenType.KEYWORD)
    (hvl : v.lexeme = o.text) (hvt : v.type = o.type)
    (hnl : n.lexeme = "\n".toList) (hnt : n.type = TokenType.NEWLINE) :
    parseStmt (fuel + 5) (atPos ts i) =
      .ok (some (ParseNode.node "ReturnStmt".toList [] [o.node]), atPos ts (i + 2)) := by
  have hne : t.type ≠ TokenType.ENDOFFILE := by rw [hty]; exact TokenType.noConfusion
  have hd : t.type ≠ TokenType.DEDENT := by rw [hty]; exact TokenType.noConfusion
  have hf : ∀ s : String, t.lexeme ≠ s.toList → (atPos ts i).matchLexeme s = (false, atPos ts i) :=
    fun s hs => matchLexeme_atPos_false h s hs
  obtain ⟨s1, s2, s3, s4⟩ := parseStmt_skips h (by rw [hty]; exact TokenType.noConfusion)
    (by rw [hty]; exact TokenType.noConfusion) (by rw [hty]; exact TokenType.noConfusion)
    (by rw [hty]; exact TokenType.noConfusion) hd (by rw [hl]; decide)
  have hexpr := parseExpression_operand fuel hv hn o ho hvl hvt
    (stopsOperand_of_kind hnl hnt (by decide))
  obtain ⟨y1, _⟩ := operand_type_facts o
  rw [parseStmt]
  simp only [currentToken_atPos h, hd, if_false, s1, s2, s3, s4,
    hf "if" (by rw [hl]; decide), hf "for" (by rw [hl]; decide),
    hf "while" (by rw [hl]; decide), hf "def" (by rw [hl]; decide),
    matchLexeme_atPos_true h hne "return" hl, Bool.false_eq_true, if_true]
  rw [parseReturnStmt, currentToken_atPos hv, if_pos ⟨by rw [hvt]; exact y1, by
    rw [hvl]
    exact operand_not_reserved o ho ":" (by simp)⟩, hexpr]
  rfl

end SyntaxAnalyzer
end PyAnalyzer

namespace PyAnalyzer
namespace SyntaxAnalyzer

theorem get?_append_add {α : Type} (B C : List α) (j : Nat) :
    (B ++ C).get? (B.length + j) = C.get? j := by
  rw [List.get?_eq_getElem?, List.get?_eq_getElem?, List.getElem?_append_right (by omega)]
  congr 1
  omega

/-- `parseStmt` on a simple statement that a NEWLINE follows. -/
theorem parseStmt_simple (fuel : Nat) {ts : List Token} {i : Nat} (body : SimpleStmt)
    (hv : body.valid = true) (post : List (List Char × TokenType))
    (hk : (ts.drop i).map (fun t => (t.lexeme, t.type)) =
      body.kinds ++ (("\n".toList, TokenType.NEWLINE) :: post)) :
    parseStmt (fuel + 5) (atPos ts i) = .ok (some body.node, atPos ts (i + body.kinds.length)) := by
  cases body with
  | passStmt =>
    obtain ⟨t, h, hl, hty⟩ := token_of_drop hk 0 rfl
    obtain ⟨n, hn, hnl, hnt⟩ := token_of_drop hk 1 rfl
    exact (parseStmt_keyword (fuel + 3) h hn hty hnt).1 hl
  | breakStmt =>
    obtain ⟨t, h, hl, hty⟩ := token_of_drop hk 0 rfl
    obtain ⟨n, hn, hnl, hnt⟩ := token_of_drop hk 1 rfl
    exact (parseStmt_keyword (fuel + 3) h hn hty hnt).2.1 hl
  | continueStmt =>
    obtain ⟨t, h, hl, hty⟩ := token_of_drop hk 0 rfl
    obtain ⟨n, hn, hnl, hnt⟩ := token_of_drop hk 1 rfl
    exact (parseStmt_keyword (fuel + 3) h hn hty hnt).2.2.1 hl
  | returnStmt =>
    obtain ⟨t, h, hl, hty⟩ := token_of_drop hk 0 rfl
    obtain ⟨n, hn, hnl, hnt⟩ := token_of_drop hk 1 rfl
    exact (parseStmt_keyword (fuel + 3) h hn hty hnt).2.2.2 hl
  | returnValue gap value =>
    obtain ⟨t, h, hl, hty⟩ := token_of_drop hk 0 rfl
    obtain ⟨v, hv', hvl, hvt⟩ := token_of_drop hk 1 rfl
    obtain ⟨n, hn, hnl, hnt⟩ := token_of_drop hk 2 rfl
    exact parseStmt_returnValue fuel h hv' hn value hv hl hty hvl hvt hnl hnt
  | exprStmt value =>
    obtain ⟨t, h, hl, hty⟩ := token_of_drop hk 0 rfl
    obtain ⟨n, hn, hnl, hnt⟩ := token_of_drop hk 1 rfl
    exact parseStmt_exprStmt fuel h hn value hv hl hty hnl hnt
  | assignment target before after value =>
    obtain ⟨t, h, hl, hty⟩ := token_of_drop hk 0 rfl
    obtain ⟨e, he, hel, het⟩ := token_of_drop hk 1 rfl
    obtain ⟨v, hv', hvl, hvt⟩ := token_of_drop hk 2 rfl
    obtain ⟨n, hn, hnl, hnt⟩ := token_of_drop hk 3 rfl
    exact parseStmt_assignment fuel h he hv' hn target value hv hl hty hel het hvl hvt hnl hnt

/-- `checkIndentation` at a NEWLINE that an INDENT follows. -/
theorem checkIndentation_atPos {ts : List Token} {i : Nat} {n d : Token}
    (hn : ts.get? i = some n) (hd : ts.get? (i + 1) = some d)
    (hnt : n.type = TokenType.NEWLINE) (hdt : d.type = TokenType.INDENT) (stmtType : String) :
    (atPos ts i).checkIndentation stmtType = (true, atPos ts (i + 2)) := by
  have h1 : (atPos ts i).skipWhile isNewline = atPos ts (i + 1) := by
    rw [skipWhile_atPos_step hn isNewline (by simp [isNewline, hnt]),
      skipWhile_atPos_stop hd isNewline (by simp [isNewline, hdt])]
  have h2 : (atPos ts (i + 1)).skipWhile isWs = atPos ts (i + 1) :=
    skipWhile_atPos_stop hd isWs (by simp [isWs, hdt])
  unfold checkIndentation
  simp only [h1, h2, currentToken_atPos hd, hdt, ne_eq, not_true_eq_false, if_false]
  rw [advance_atPos hd (by rw [hdt]; exact TokenType.noConfusion)]

end SyntaxAnalyzer
end PyAnalyzer

namespace PyAnalyzer
namespace SyntaxAnalyzer

theorem simple_kinds_length (body : SimpleStmt) : 1 ≤ body.kinds.length := by
  cases body <;> simp [SimpleStmt.kinds]

end SyntaxAnalyzer
end PyAnalyzer

namespace PyAnalyzer
namespace PythonLexer

/-! ## The main loop on a source of C2 -/

theorem operandStop_facts {c : Char} (h : operandStop c = true) :
    isWordChar c = false ∧ c ≠ '.' ∧ c ≠ '(' ∧ isInlineSpace c = false ∧
      (isalpha c || c == '_') = false := by
  simp only [operandStop, Bool.or_eq_true, beq_iff_eq] at h
  rcases h with ((((h | h) | h) | h) | h) | h <;> subst h <;>
    exact ⟨by decide, by decide, by decide, by decide, by decide⟩

theorem count_addIdentifier (st : SymbolTable) (w : List Char) :
    (st.addIdentifier w).2.count w = true := by
  unfold SymbolTable.addIdentifier
  cases h : st.find w with
  | some e =>
    show (st.find w).isSome = true
    rw [h]
    rfl
  | none =>
    have h' : st.symbols.find? (fun p => p.1 == w) = none := by
      unfold SymbolTable.find at h
      cases hf : st.symbols.find? (fun p => p.1 == w) with
      | none => rfl
      | some x =>
        rw [hf] at h
        cases h
    simp only [SymbolTable.count, SymbolTable.find, List.find?_append, h', Option.none_or,
      List.find?_cons, beq_self_eq_true]
    rfl

/-- An operand that spaces and a stopping character follow becomes one
token; an identifier is in the symbol table afterwards. -/
theorem scans_operand (o : Operand) (ho : o.valid = true) (L : PythonLexer) (n : Nat) (c : Char)
    (r : List Char) (hc : operandStop c = true)
    (hrest : L.rest = o.text ++ (List.replicate n ' ' ++ c :: r)) :
    ∃ L', Scans L [(o.text, o.type)] L' ∧ L'.rest = List.replicate n ' ' ++ c :: r ∧
      ∀ w, o = Operand.ident w → L'.symbolTable.count w = true := by
  obtain ⟨h1, h2, h3, h4, h5⟩ := operandStop_facts hc
  have hw : isWordChar ((List.replicate n ' ' ++ c :: r).headD NUL) = false :=
    not_wordChar_spaces n c r h1
  cases o with
  | ident w =>
    obtain ⟨L', s1, r1, y1⟩ := scans_identifier w ho L _ hrest hw
      (by rw [firstAfterSpace_spaces _ _ _ h4]; exact h3)
      (Or.inr (by rw [firstAfterSpace_spaces _ _ _ h4]; exact h5))
    refine ⟨L', s1, r1, ?_⟩
    intro w' hw'
    cases hw'
    rw [y1]
    exact count_addIdentifier _ _
  | number ds =>
    obtain ⟨L', s1, r1, _⟩ := scans_number ds ho L _ hrest (spaces_ne_nil _ _ _) hw (by
      rcases headD_spaces n c r with h | h
      · rw [h]; decide
      · rw [h]; exact h2)
    exact ⟨L', s1, r1, fun w hw' => by cases hw'⟩

/-- The first character of a valid operand is a letter, an underscore or a
digit. -/
theorem operand_head (o : Operand) (ho : o.valid = true) :
    ∃ c cs, o.text = c :: cs ∧ isWordChar c = true := by
  cases o with
  | ident w =>
    simp only [Operand.valid, ordinaryIdentifier, Bool.and_eq_true] at ho
    cases w with
    | nil => exact absurd ho.1.1 (by decide)
    | cons c cs =>
      refine ⟨c, cs, rfl, ?_⟩
      have := ho.1.1
      simp only [wordShape, Bool.and_eq_true, Bool.or_eq_true, beq_iff_eq] at this
      rcases this.1.1 with h | h
      · exact isWordChar_of_isalpha h
      · rw [h]; decide
  | number ds =>
    obtain ⟨hne, hall⟩ := canonicalDigits_facts ds ho
    obtain ⟨c, cs, rfl⟩ := List.exists_cons_of_ne_nil hne
    exact ⟨c, cs, rfl, isWordChar_of_isdigit (hall c (by simp))⟩

theorem wordChar_facts {c : Char} (h : isWordChar c = true) :
    isOperatorChar c = false ∧ c ≠ ' ' ∧ c ≠ '\t' := by
  refine ⟨?_, ?_, ?_⟩
  · cases ho : isOperatorChar c with
    | false => rfl
    | true =>
      exfalso
      simp only [isOperatorChar, List.contains_eq_any_beq, List.any_eq_true, beq_iff_eq] at ho
      obtain ⟨x, hx, rfl⟩ := ho
      simp only [String.toList, List.mem_cons, List.mem_singleton, List.not_mem_nil,
        or_false] at hx
      rcases hx with rfl | rfl | rfl | rfl | rfl | rfl | rfl | rfl | rfl | rfl | rfl | rfl |
        rfl | rfl <;> exact absurd h (by decide)
  · rintro rfl
    exact absurd h (by decide)
  · rintro rfl
    exact absurd h (by decide)

end PythonLexer
end PyAnalyzer

namespace PyAnalyzer
namespace PythonLexer

theorem takeWhile_indent (k : Nat) (c : Char) (r : List Char) (h1 : c ≠ ' ') (h2 : c ≠ '\t') :
    (List.replicate k ' ' ++ c :: r).takeWhile (fun c => c == ' ' || c == '\t') =
      List.replicate k ' ' := by
  refine takeWhile_append_cons_stop _ _ c r ?_ ?_
  · intro a ha
    rw [List.eq_of_mem_replicate ha]
    rfl
  · simp [h1, h2]

theorem indentWidth_spaces (k : Nat) : indentWidth (List.replicate k ' ') = k := by
  unfold indentWidth
  induction k with
  | zero => rfl
  | succ k ih =>
    rw [List.replicate_succ, List.map_cons, List.sum_cons, ih, if_neg (by decide)]
    omega

/-- The newline before the indented line of a source of C2, from the
indentation stack `{0}`: a NEWLINE token and an INDENT token, and the width
of the indentation on the stack. -/
theorem tokenizeStep_newline_indent (L : PythonLexer) (k : Nat) (c : Char) (r : List Char)
    (hrest : L.rest = '\n' :: (List.replicate (k + 1) ' ' ++ c :: r))
    (h1 : c ≠ ' ') (h2 : c ≠ '\t') (hstack : L.indentStack = [0]) :
    (tokenizeStep L).rest = c :: r ∧
      (tokenizeStep L).tokenKinds =
        L.tokenKinds ++ [("\n".toList, TokenType.NEWLINE), ([], TokenType.INDENT)] ∧
      (tokenizeStep L).errors = L.errors ∧ (tokenizeStep L).indentStack = [k + 1, 0] := by
  have hcur : L.current = '\n' := current_of_rest_cons hrest
  have hstep : tokenizeStep L =
      handleIndentation ((L.addToken ['\n'] TokenType.NEWLINE).advance) := by
    unfold tokenizeStep
    simp only [hcur, if_true]
  have hr1 : ((L.addToken ['\n'] TokenType.NEWLINE).advance).rest =
      List.replicate (k + 1) ' ' ++ c :: r := by simp [hrest]
  have hs1 : ((L.addToken ['\n'] TokenType.NEWLINE).advance).indentStack = [0] := by
    simp [hstack]
  rw [hstep]
  unfold handleIndentation
  simp only [hr1, takeWhile_indent (k + 1) c r h1 h2, indentWidth_spaces, List.length_replicate,
    indentStack_advanceN, hs1, List.headD_cons, gt_iff_lt, Nat.zero_lt_succ, if_true]
  refine ⟨?_, ?_, ?_, ?_⟩
  · simp only [rest_addToken]
    show (((L.addToken ['\n'] TokenType.NEWLINE).advance).advanceN (k + 1)).rest = c :: r
    rw [rest_advanceN, hr1]
    have := List.drop_left (List.replicate (k + 1) ' ') (c :: r)
    rwa [List.length_replicate] at this
  · rw [tokenKinds_addToken]
    show (((L.addToken ['\n'] TokenType.NEWLINE).advance).advanceN (k + 1)).tokenKinds ++ _ = _
    rw [tokenKinds_advanceN, tokenKinds_advance, tokenKinds_addToken, List.append_assoc]
    rfl
  · simp only [errors_addToken]
    show (((L.addToken ['\n'] TokenType.NEWLINE).advance).advanceN (k + 1)).errors = _
    simp
  · rfl

/-- The newline that ends a source of C2, with one level open on the
indentation stack: a NEWLINE token and a DEDENT token. -/
theorem tokenizeStep_newline_dedent (L : PythonLexer) (k : Nat) (hrest : L.rest = ['\n'])
    (hstack : L.indentStack = [k + 1, 0]) :
    (tokenizeStep L).rest = [] ∧
      (tokenizeStep L).tokenKinds =
        L.tokenKinds ++ [("\n".toList, TokenType.NEWLINE), ([], TokenType.DEDENT)] ∧
      (tokenizeStep L).errors = L.errors ∧ (tokenizeStep L).symbolTable = L.symbolTable := by
  have hcur : L.current = '\n' := current_of_rest_cons hrest
  have hstep : tokenizeStep L =
      handleIndentation ((L.addToken ['\n'] TokenType.NEWLINE).advance) := by
    unfold tokenizeStep
    simp only [hcur, if_true]
  have hr1 : ((L.addToken ['\n'] TokenType.NEWLINE).advance).rest = [] := by simp [hrest]
  have hs1 : ((L.addToken ['\n'] TokenType.NEWLINE).advance).indentStack = [k + 1, 0] := by
    simp [hstack]
  have hpop : popIndents 0 [k + 1, 0] = (1, [0]) := by
    simp [popIndents]
  rw [hstep]
  unfold handleIndentation
  simp only [hr1, List.takeWhile_nil, indentWidth, List.map_nil, List.sum_nil, List.length_nil,
    advanceN, hs1, List.headD_cons, gt_iff_lt, Nat.not_lt_zero, if_false, Nat.zero_lt_succ,
    if_true, hpop, addDedents_indentStack, ne_eq, not_true_eq_false]
  refine ⟨?_, ?_, ?_, ?_⟩
  · rw [addDedents_rest]
  · rw [addDedents_tokenKinds]
    simp only [tokenKinds, tokens_advance, tokens_addToken, List.map_append, List.map_cons,
      List.map_nil, List.append_assoc, List.singleton_append]
    rfl
  · rw [addDedents_errors]
    simp
  · rw [addDedents_symbolTable]
    simp

end PythonLexer
end PyAnalyzer

namespace PyAnalyzer
namespace PythonLexer

theorem headD_succ_spaces (n : Nat) (r : List Char) :
    (List.replicate (n + 1) ' ' ++ r).headD NUL = ' ' := rfl

theorem not_operator_spaces_operand (n : Nat) (o : Operand) (ho : o.valid = true)
    (r : List Char) : isOperatorChar ((List.replicate n ' ' ++ (o.text ++ r)).headD NUL) = false := by
  obtain ⟨c, cs, hc, hw⟩ := operand_head o ho
  rw [hc, List.cons_append]
  rcases headD_spaces n c (cs ++ r) with h | h
  · rw [h]; decide
  · rw [h]; exact (wordChar_facts hw).1

theorem simple_operand_valid {o : Operand} (h : (SimpleStmt.exprStmt o).valid = true) :
    o.valid = true := by
  cases o with
  | ident w => exact (SyntaxAnalyzer.headName_facts h).1
  | number ds => exact h

/-- A simple statement that spaces and a newline follow is scanned into its
tokens. -/
theorem scans_simple (body : SimpleStmt) (hv : body.valid = true) (L : PythonLexer) (n : Nat)
    (hrest : L.rest = body.render ++ (List.replicate n ' ' ++ ['\n'])) :
    ∃ L', Scans L body.kinds L' ∧ L'.rest = List.replicate n ' ' ++ ['\n'] ∧
      ∀ t b a w, body = SimpleStmt.assignment t b a (Operand.ident w) →
        L'.symbolTable.count w = true := by
  have hnl : isWordChar ((List.replicate n ' ' ++ ['\n']).headD NUL) = false :=
    not_wordChar_spaces n '\n' [] (by decide)
  cases body with
  | passStmt =>
    obtain ⟨L', s1, r1, _⟩ := scans_keyword "pass".toList (by decide) (by decide) L _ hrest hnl
      (Or.inl (by decide))
    exact ⟨L', s1, r1, fun _ _ _ _ h => by cases h⟩
  | breakStmt =>
    obtain ⟨L', s1, r1, _⟩ := scans_keyword "break".toList (by decide) (by decide) L _ hrest hnl
      (Or.inl (by decide))
    exact ⟨L', s1, r1, fun _ _ _ _ h => by cases h⟩
  | continueStmt =>
    obtain ⟨L', s1, r1, _⟩ := scans_keyword "continue".toList (by decide) (by decide) L _ hrest
      hnl (Or.inl (by decide))
    exact ⟨L', s1, r1, fun _ _ _ _ h => by cases h⟩
  | returnStmt =>
    obtain ⟨L', s1, r1, _⟩ := scans_keyword "return".toList (by decide) (by decide) L _ hrest hnl
      (Or.inl (by decide))
    exact ⟨L', s1, r1, fun _ _ _ _ h => by cases h⟩
  | returnValue gap value =>
    have hrest' : L.rest = "return".toList ++ (List.replicate (gap + 1) ' ' ++
        (value.text ++ (List.replicate n ' ' ++ '\n' :: []))) := by
      rw [hrest]
      simp only [SimpleStmt.render, List.append_assoc]
    obtain ⟨L1, s1, r1, _⟩ := scans_keyword "return".toList (by decide) (by decide) L _ hrest'
      (by rw [headD_succ_spaces]; decide) (Or.inl (by decide))
    obtain ⟨L2, s2, r2, _⟩ := scans_spaces (gap + 1) L1 _ r1
    obtain ⟨L3, s3, r3, _⟩ := scans_operand value hv L2 n '\n' [] (by decide) r2
    exact ⟨L3, (s1.append s2).append s3, r3, fun _ _ _ _ h => by cases h⟩
  | exprStmt value =>
    obtain ⟨L1, s1, r1, _⟩ :=
      scans_operand value (simple_operand_valid hv) L n '\n' [] (by decide) hrest
    exact ⟨L1, s1, r1, fun _ _ _ _ h => by cases h⟩
  | assignment target before after value =>
    have hboth : SimpleStmt.headName target = true ∧ value.valid = true := by
      simpa [SimpleStmt.valid] using hv
    have ht := (SyntaxAnalyzer.headName_facts hboth.1).1
    have hrest' : L.rest = (Operand.ident target).text ++ (List.replicate before ' ' ++
        '=' :: (List.replicate after ' ' ++ (value.text ++ (List.replicate n ' ' ++ '\n' :: [])))) := by
      rw [hrest]
      simp only [SimpleStmt.render, Operand.text, List.append_assoc, List.cons_append]
    obtain ⟨L1, s1, r1, _⟩ := scans_operand (Operand.ident target) ht L before '=' _
      (by decide) hrest'
    obtain ⟨L2, s2, r2, _⟩ := scans_spaces before L1 _ r1
    obtain ⟨L3, s3, r3, _⟩ := scans_operator "=".toList TokenType.EQUALOPERATOR (by decide) L2
      _ r2 (not_operator_spaces_operand after value hboth.2 _)
    obtain ⟨L4, s4, r4, _⟩ := scans_spaces after L3 _ r3
    obtain ⟨L5, s5, r5, y5⟩ := scans_operand value hboth.2 L4 n '\n' [] (by decide) r4
    refine ⟨L5, (((s1.append s2).append s3).append s4).append s5, r5, ?_⟩
    intro t b a w h
    cases h
    exact y5 w rfl

end PythonLexer
end PyAnalyzer

namespace PyAnalyzer
namespace PythonLexer

end PythonLexer
end PyAnalyzer

namespace PyAnalyzer
namespace PythonLexer

/-! ## The post-pass records no error on a source of C2 -/

theorem find?_map_entry (l : List (List Char × SymbolEntry)) (a w : List Char)
    (f : SymbolEntry → SymbolEntry) :
    ((l.map (fun p => if p.1 == a then (p.1, f p.2) else p)).find? (fun p => p.1 == w)).isSome =
      (l.find? (fun p => p.1 == w)).isSome := by
  induction l with
  | nil => rfl
  | cons x l ih =>
    rw [List.map_cons, List.find?_cons, List.find?_cons]
    have hx : (if x.1 == a then (x.1, f x.2) else x).1 = x.1 := by
      split <;> rfl
    rw [hx]
    cases x.1 == w with
    | true => rfl
    | false => exact ih

theorem count_setIdentifierInfo (st : SymbolTable) (a dataType value w : List Char) :
    (st.setIdentifierInfo a dataType value).count w = st.count w := by
  unfold SymbolTable.count SymbolTable.find SymbolTable.setIdentifierInfo
  rw [Option.isSome_map', Option.isSome_map']
  exact find?_map_entry st.symbols a w
    (fun e => { e with dataType := dataType, value := value })

/-- The shortcut for a right side of one token records no error on a NUMBER
and on an identifier of the symbol table. -/
theorem singleTokenShortcut_quiet (L : PythonLexer) (lhs : List Char) (v : Token)
    (h : v.type = TokenType.NUMBER ∨
      (v.type = TokenType.IDENTIFIER ∧ L.symbolTable.count v.lexeme = true)) :
    ∃ dataType value, singleTokenShortcut L lhs v =
      some { L with symbolTable := L.symbolTable.setIdentifierInfo lhs dataType value } := by
  rcases h with hn | ⟨hid, hw⟩
  · refine ⟨if (v.lexeme.contains '.' || v.lexeme.contains 'e' || v.lexeme.contains 'E') then
      "float".toList else "int".toList, v.lexeme, ?_⟩
    unfold singleTokenShortcut
    rw [hn]
  · refine ⟨L.symbolTable.getDataType v.lexeme, L.symbolTable.getValue v.lexeme, ?_⟩
    unfold singleTokenShortcut
    rw [hid]
    simp only [hw, if_true]

/-- The post-pass records no error when no token is a `+` or a `-` and the
right side of every assignment is one token, a NUMBER or an identifier of the
symbol table. -/
theorem processAssignmentsLoop_quiet (F : DoubleArith) (W : List Char → Prop) (T : List Token)
    (hsign : ∀ t ∈ T, t.type ≠ TokenType.MINUSOPERATOR ∧ t.type ≠ TokenType.ADDOPERATOR)
    (hassign : ∀ i, (T.get? (i + 1)).map Token.type = some TokenType.EQUALOPERATOR →
      ∃ v, (T.drop (i + 2)).takeWhile (fun t => !endsAssignment t) = [v] ∧
        (v.type = TokenType.NUMBER ∨ (v.type = TokenType.IDENTIFIER ∧ W v.lexeme))) :
    ∀ (fuel i : Nat) (L : PythonLexer), L.tokens = T → L.errors = [] →
      (∀ w, W w → L.symbolTable.count w = true) →
      ∀ L', processAssignmentsLoop F fuel i L = some L' → L'.errors = [] := by
  intro fuel
  induction fuel with
  | zero =>
    intro i L _ herr _ L' h
    rw [processAssignmentsLoop] at h
    split at h
    · cases h
    · cases h
      exact herr
  | succ fuel ih =>
    intro i L htok herr hcount L' h
    rw [processAssignmentsLoop] at h
    split at h
    · have hstep : (processAssignmentsStep F i L).2.tokens = T ∧
          (processAssignmentsStep F i L).2.errors = [] ∧
          ∀ w, W w → (processAssignmentsStep F i L).2.symbolTable.count w = true := by
        unfold processAssignmentsStep
        dsimp only
        rw [if_neg (by
          rintro ⟨h1, _⟩
          rw [htok] at h1
          cases hg : T.get? i with
          | none =>
            rw [hg] at h1
            rcases h1 with h1 | h1 <;> cases h1
          | some t =>
            rw [hg] at h1
            have := hsign t (List.get?_mem hg)
            simp only [Option.map_some', Option.some.injEq] at h1
            rcases h1 with h1 | h1
            · exact this.1 h1
            · exact this.2 h1)]
        split
        · rename_i hbranch
          rw [htok] at hbranch
          obtain ⟨v, hv, hkind⟩ := hassign i hbranch.2
          rw [htok, hv, herr]
          simp only [List.any_nil, Bool.false_eq_true, if_false]
          unfold inferAssignment
          dsimp only
          obtain ⟨dataType, value, hshort⟩ := singleTokenShortcut_quiet L
            (((T.get? i).map Token.lexeme).getD []) v (by
              rcases hkind with hn | ⟨hid, hw⟩
              · exact Or.inl hn
              · exact Or.inr ⟨hid, hcount _ hw⟩)
          rw [hshort]
          refine ⟨htok, herr, fun w hw => ?_⟩
          show (SymbolTable.setIdentifierInfo _ _ _ _).count w = true
          rw [count_setIdentifierInfo]
          exact hcount w hw
        · exact ⟨htok, herr, hcount⟩
      exact ih _ _ hstep.1 hstep.2.1 hstep.2.2 L' h
    · cases h
      exact herr

end PythonLexer
end PyAnalyzer

namespace PyAnalyzer
namespace PythonLexer

theorem operand_type_cases (o : Operand) :
    o.type = TokenType.IDENTIFIER ∨ o.type = TokenType.NUMBER := by
  cases o
  · exact Or.inl rfl
  · exact Or.inr rfl

theorem type_of_kinds {T : List Token} {K : List (List Char × TokenType)}
    (hk : T.map (fun t => (t.lexeme, t.type)) = K) (j : Nat) :
    (T.get? j).map Token.type = (K.get? j).map Prod.snd := by
  rw [← hk, List.get?_map, Option.map_map]
  rfl

end PythonLexer
end PyAnalyzer

namespace PyAnalyzer
namespace SyntaxAnalyzer

/-! ## C2 -/

theorem filterComments_of_kinds (ts : List Token) (K : List (List Char × TokenType))
    (hk : ts.map (fun t => (t.lexeme, t.type)) = K) (hK : ∀ k ∈ K, k.2 ≠ TokenType.COMMENT) :
    filterComments ts = ts := by
  unfold filterComments
  rw [List.filter_eq_self]
  intro t ht
  have : (t.lexeme, t.type) ∈ K := by
    rw [← hk]
    exact List.mem_map_of_mem _ ht
  simpa using hK _ this

end SyntaxAnalyzer
end PyAnalyzer

namespace PyAnalyzer
namespace SymbolTable

/-! ## The symbol table -/

theorem find_eq_none_iff (t : SymbolTable) (w : List Char) :
    t.find w = none ↔ w ∉ t.names := by
  unfold find names
  rw [Option.map_eq_none', List.find?_eq_none]
  constructor
  · intro h hmem
    obtain ⟨p, hp, rfl⟩ := List.mem_map.mp hmem
    exact h p hp (by simp)
  · intro h p hp hpw
    exact h (List.mem_map.mpr ⟨p, hp, by simpa using hpw⟩)

theorem count_eq_true_iff (t : SymbolTable) (w : List Char) :
    t.count w = true ↔ w ∈ t.names := by
  unfold count
  rw [← not_iff_not, Bool.not_eq_true, Option.not_isSome, Option.isNone_iff_eq_none]
  exact find_eq_none_iff t w

theorem names_setIdentifierInfo (t : SymbolTable) (a dataType value : List Char) :
    (t.setIdentifierInfo a dataType value).names = t.names := by
  unfold names setIdentifierInfo
  rw [List.map_map]
  apply List.map_congr_left
  intro p _
  show (if p.1 == a then _ else p).1 = p.1
  split <;> rfl

theorem ids_setIdentifierInfo (t : SymbolTable) (a dataType value : List Char) :
    (t.setIdentifierInfo a dataType value).ids = t.ids := by
  unfold ids setIdentifierInfo
  rw [List.map_map]
  apply List.map_congr_left
  intro p _
  show (if p.1 == a then _ else p).2.id = p.2.id
  split <;> rfl

theorem addIdentifier_of_find_none (t : SymbolTable) (w : List Char) (h : t.find w = none) :
    t.addIdentifier w =
      (t.current_id,
        { symbols := t.symbols ++ [(w, ⟨t.current_id, "unknown".toList, "N/A".toList⟩)],
          current_id := t.current_id + 1 }) := by
  unfold addIdentifier
  rw [h]

theorem addIdentifier_of_find_some (t : SymbolTable) (w : List Char) (e : SymbolEntry)
    (h : t.find w = some e) : t.addIdentifier w = (e.id, t) := by
  unfold addIdentifier
  rw [h]

theorem firstIds_succ (n : Nat) : firstIds (n + 1) = firstIds n ++ [(n : Int) + 1] := by
  simp [firstIds, List.range_succ]

/-- The invariant of the table: the IDs are `1, ..., n` in the order of
registration, the counter is `n + 1`, and no name is registered twice. -/
theorem reachable_invariant (t : SymbolTable) (h : t.Reachable) :
    t.ids = firstIds t.symbols.length ∧ t.current_id = (t.symbols.length : Int) + 1 ∧
      t.names.Nodup := by
  induction h with
  | empty => exact ⟨rfl, rfl, List.nodup_nil⟩
  | add t name _ ih =>
    obtain ⟨h1, h2, h3⟩ := ih
    cases hf : t.find name with
    | some e =>
      rw [addIdentifier_of_find_some t name e hf]
      exact ⟨h1, h2, h3⟩
    | none =>
      rw [addIdentifier_of_find_none t name hf]
      have hnot : name ∉ t.names := (find_eq_none_iff t name).mp hf
      refine ⟨?_, ?_, ?_⟩
      · have h1' : List.map (fun p => p.2.id) t.symbols = firstIds t.symbols.length := h1
        simp only [ids, List.map_append, List.length_append, List.length_singleton,
          firstIds_succ, h1', h2, List.map_cons, List.map_nil]
      · simp only [List.length_append, List.length_singleton, h2]
        push_cast
        rfl
      · simp only [names, List.map_append]
        refine List.Nodup.append h3 (by simp) ?_
        intro a ha hb
        simp only [List.map_cons, List.map_nil, List.mem_singleton] at hb
        exact hnot (hb ▸ ha)
  | set t name dataType value _ ih =>
    obtain ⟨h1, h2, h3⟩ := ih
    refine ⟨?_, ?_, ?_⟩
    · rw [ids_setIdentifierInfo, h1]
      show firstIds t.symbols.length = firstIds (List.map _ t.symbols).length
      rw [List.length_map]
    · show t.current_id = ((List.map _ t.symbols).length : Int) + 1
      rw [List.length_map]
      exact h2
    · rw [names_setIdentifierInfo]
      exact h3

theorem firstIds_nodup (n : Nat) : (firstIds n).Nodup := by
  unfold firstIds
  have h := List.nodup_range n
  refine h.map_on ?_
  intro a _ b _ hab
  simpa using hab

end SymbolTable
end PyAnalyzer

namespace PyAnalyzer
namespace SymbolTable

theorem find_setIdentifierInfo_ne (t : SymbolTable) (a b dataType value : List Char)
    (hab : b ≠ a) : (t.setIdentifierInfo a dataType value).find b = t.find b := by
  unfold find setIdentifierInfo
  show Option.map Prod.snd (List.find? _ (List.map _ t.symbols)) = _
  induction t.symbols with
  | nil => rfl
  | cons p ps ih =>
    by_cases hp : p.1 = a
    · have hb : (p.1 == b) = false := by
        rw [beq_eq_false_iff_ne]
        exact fun h => hab (h.symm.trans hp)
      simp only [List.map_cons, List.find?_cons, hp, beq_self_eq_true, if_true]
      rw [hp] at hb
      simp only [hb]
      exact ih
    · have hpa : (p.1 == a) = false := by
        rw [beq_eq_false_iff_ne]
        exact hp
      simp only [List.map_cons, List.find?_cons, hpa, Bool.false_eq_true, if_false]
      cases hpb : p.1 == b
      · exact ih
      · rfl

theorem find_setIdentifierInfo_self (t : SymbolTable) (a dataType value : List Char) :
    (t.setIdentifierInfo a dataType value).find a =
      (t.find a).map (fun e => { e with dataType := dataType, value := value }) := by
  unfold find setIdentifierInfo
  show Option.map Prod.snd (List.find? _ (List.map _ t.symbols)) = _
  induction t.symbols with
  | nil => rfl
  | cons p ps ih =>
    by_cases hp : p.1 = a
    · simp only [List.map_cons, List.find?_cons, hp, beq_self_eq_true, if_true, Option.map_some']
    · have hpa : (p.1 == a) = false := by
        rw [beq_eq_false_iff_ne]
        exact hp
      simp only [List.map_cons, List.find?_cons, hpa, Bool.false_eq_true, if_false]
      exact ih

theorem setIdentifierInfo_of_not_mem (t : SymbolTable) (a dataType value : List Char)
    (h : a ∉ t.names) : t.setIdentifierInfo a dataType value = t := by
  unfold setIdentifierInfo
  have hmap : t.symbols.map (fun p =>
      if p.1 == a then (p.1, { p.2 with dataType := dataType, value := value }) else p) =
      t.symbols := by
    conv_rhs => rw [← List.map_id t.symbols]
    apply List.map_congr_left
    intro p hp
    have hpa : (p.1 == a) = false := by
      rw [beq_eq_false_iff_ne]
      intro hpa
      exact h (List.mem_map.mpr ⟨p, hp, hpa⟩)
    simp only [hpa, Bool.false_eq_true, if_false, id]
  rw [hmap]

/-- C18: on a table built by the operations of the class, `addIdentifier`
returns the existing ID and leaves the table as it is when the name is
registered; otherwise it returns `n + 1`, where `n` is the number of entries
before the call, and adds the entry `(n + 1, "unknown", "N/A")` for the name.
The IDs of the table are `1, ..., n` and pairwise distinct. -/
theorem addIdentifier_sequential (t : SymbolTable) (h : t.Reachable) (name : List Char) :
    (t.count name = true → t.addIdentifier name = (t.getId name, t)) ∧
    (t.count name = false →
      (t.addIdentifier name).1 = (t.symbols.length : Int) + 1 ∧
      (t.addIdentifier name).2.symbols =
        t.symbols ++ [(name, ⟨(t.symbols.length : Int) + 1, "unknown".toList, "N/A".toList⟩)] ∧
      (t.addIdentifier name).2.getId name = (t.symbols.length : Int) + 1 ∧
      (t.addIdentifier name).2.getDataType name = "unknown".toList ∧
      (t.addIdentifier name).2.getValue name = "N/A".toList) ∧
    t.ids = firstIds t.symbols.length ∧ t.ids.Nodup := by
  obtain ⟨h1, h2, h3⟩ := reachable_invariant t h
  refine ⟨?_, ?_, h1, h1 ▸ firstIds_nodup _⟩
  · intro hc
    unfold count at hc
    obtain ⟨e, he⟩ := Option.isSome_iff_exists.mp hc
    rw [addIdentifier_of_find_some t name e he]
    unfold getId
    rw [he]
  · intro hc
    unfold count at hc
    have hf : t.find name = none := by
      cases hfn : t.find name with
      | none => rfl
      | some e => rw [hfn] at hc; exact absurd hc (by simp)
    have hnot : name ∉ t.names := (find_eq_none_iff t name).mp hf
    have hfind : (t.addIdentifier name).2.find name =
        some ⟨(t.symbols.length : Int) + 1, "unknown".toList, "N/A".toList⟩ := by
      rw [addIdentifier_of_find_none t name hf, h2]
      unfold find
      have hnone : t.symbols.find? (fun p => p.1 == name) = none := by
        rw [List.find?_eq_none]
        intro p hp hpn
        exact hnot (List.mem_map.mpr ⟨p, hp, by simpa using hpn⟩)
      simp only [List.find?_append, hnone, Option.none_or, List.find?_cons, beq_self_eq_true,
        Option.map_some']
    refine ⟨?_, ?_, ?_, ?_, ?_⟩
    · rw [addIdentifier_of_find_none t name hf, h2]
    · rw [addIdentifier_of_find_none t name hf, h2]
    · unfold getId
      rw [hfind]
    · unfold getDataType
      rw [hfind]
    · unfold getValue
      rw [hfind]

/-- The statement of `addIdentifier_sequential` on the table that holds the
one name `a`, asked for the new name `b`. -/
theorem addIdentifier_sequential_witness :
    (({} : SymbolTable).addIdentifier "a".toList).2.Reachable ∧
    ((({} : SymbolTable).addIdentifier "a".toList).2.addIdentifier "b".toList).1 = 2 ∧
    (({} : SymbolTable).addIdentifier "a".toList).2.ids = [1] :=
  ⟨.add _ _ .empty,
    ((addIdentifier_sequential _ (.add _ _ .empty) "b".toList).2.1 (by decide)).1,
    (addIdentifier_sequential _ (.add _ _ .empty) "b".toList).2.2.1⟩

/-- C20: `setIdentifierInfo` keeps the ID counter, the names and the IDs of
the table and the entry of every other name; the entry of a registered name
keeps its ID and takes the new dataType and value; on an unregistered name
the table is unchanged, holds no entry for the name, and `getId`,
`getDataType` and `getValue` answer -1, "unknown" and "N/A". -/
theorem setIdentifierInfo_frame (t : SymbolTable) (name dataType value : List Char) :
    (t.setIdentifierInfo name dataType value).current_id = t.current_id ∧
    (t.setIdentifierInfo name dataType value).names = t.names ∧
    (t.setIdentifierInfo name dataType value).ids = t.ids ∧
    (∀ other, other ≠ name →
      (t.setIdentifierInfo name dataType value).find other = t.find other) ∧
    (∀ e, t.find name = some e →
      (t.setIdentifierInfo name dataType value).find name = some ⟨e.id, dataType, value⟩) ∧
    (t.count name = false →
      t.setIdentifierInfo name dataType value = t ∧
      (t.setIdentifierInfo name dataType value).count name = false ∧
      (t.setIdentifierInfo name dataType value).getId name = -1 ∧
      (t.setIdentifierInfo name dataType value).getDataType name = "unknown".toList ∧
      (t.setIdentifierInfo name dataType value).getValue name = "N/A".toList) := by
  refine ⟨rfl, names_setIdentifierInfo _ _ _ _, ids_setIdentifierInfo _ _ _ _,
    fun other ho => find_setIdentifierInfo_ne t name other dataType value ho, ?_, ?_⟩
  · intro e he
    rw [find_setIdentifierInfo_self, he]
    rfl
  · intro hc
    have hf : t.find name = none := by
      unfold count at hc
      cases hfn : t.find name with
      | none => rfl
      | some e => rw [hfn] at hc; exact absurd hc (by simp)
    have hnot : name ∉ t.names := (find_eq_none_iff t name).mp hf
    rw [setIdentifierInfo_of_not_mem t name dataType value hnot]
    refine ⟨rfl, hc, ?_, ?_, ?_⟩
    · unfold getId
      rw [hf]
    · unfold getDataType
      rw [hf]
    · unfold getValue
      rw [hf]

/-- The statement of `setIdentifierInfo_frame` on the table that holds the
names `a` and `b`, where `a` is set to an int. -/
theorem setIdentifierInfo_frame_witness :
    ((({} : SymbolTable).addIdentifier "a".toList).2.addIdentifier "b".toList).2.find
        "a".toList = some ⟨1, "unknown".toList, "N/A".toList⟩ ∧
    (((({} : SymbolTable).addIdentifier "a".toList).2.addIdentifier
        "b".toList).2.setIdentifierInfo "a".toList "int".toList "5".toList).find "a".toList =
      some ⟨1, "int".toList, "5".toList⟩ :=
  ⟨by decide, (setIdentifierInfo_frame _ "a".toList "int".toList "5".toList).2.2.2.2.1
    ⟨1, "unknown".toList, "N/A".toList⟩ (by decide)⟩

end SymbolTable
end PyAnalyzer

namespace PyAnalyzer
namespace PythonLexer

/-! ## Steps that keep the indentation stack and the symbol table -/

@[simp] theorem addedBuiltins_addToken (L : PythonLexer) (l : List Char) (ty : TokenType) :
    (L.addToken l ty).addedBuiltins = L.addedBuiltins := rfl

@[simp] theorem addedBuiltins_addError (L : PythonLexer) (m : List Char) :
    (L.addError m).addedBuiltins = L.addedBuiltins := rfl

@[simp] theorem addedBuiltins_advance (L : PythonLexer) :
    L.advance.addedBuiltins = L.addedBuiltins := by
  unfold advance
  split
  · rfl
  · split <;> rfl

@[simp] theorem addedBuiltins_advanceN (n : Nat) (L : PythonLexer) :
    (L.advanceN n).addedBuiltins = L.addedBuiltins := by
  induction n generalizing L with
  | zero => rfl
  | succ n ih => simp [advanceN, ih]

theorem inert_refl (L : PythonLexer) : Inert L L :=
  ⟨rfl, rfl, rfl, [], by simp, by simp⟩

theorem inert_trans {L L' L'' : PythonLexer} (h : Inert L L') (h' : Inert L' L'') :
    Inert L L'' := by
  obtain ⟨a1, b1, c1, n1, e1, p1⟩ := h
  obtain ⟨a2, b2, c2, n2, e2, p2⟩ := h'
  refine ⟨a2.trans a1, b2.trans b1, c2.trans c1, n1 ++ n2, ?_, ?_⟩
  · rw [e2, e1, List.append_assoc]
  · intro t ht
    rcases List.mem_append.mp ht with ht | ht
    · exact p1 t ht
    · exact p2 t ht

theorem inert_addError {L L' : PythonLexer} (h : Inert L L') (m : List Char) :
    Inert L (L'.addError m) := h

theorem inert_addToken {L L' : PythonLexer} (h : Inert L L') (l : List Char)
    (ty : TokenType) (hty : isReserved ty = false) : Inert L (L'.addToken l ty) :=
  inert_trans h ⟨rfl, rfl, rfl, [_], rfl, by simpa using hty⟩

theorem inert_advance {L L' : PythonLexer} (h : Inert L L') : Inert L L'.advance :=
  inert_trans h ⟨by simp, by simp, by simp, [], by simp, by simp⟩

theorem inert_advanceN {L L' : PythonLexer} (h : Inert L L') (n : Nat) :
    Inert L (L'.advanceN n) :=
  inert_trans h ⟨by simp, by simp, by simp, [], by simp, by simp⟩

theorem inert_ite {L A B : PythonLexer} {c : Prop} [Decidable c]
    (ha : c → Inert L A) (hb : ¬c → Inert L B) : Inert L (if c then A else B) := by
  split
  · exact ha ‹_›
  · exact hb ‹_›

theorem inert_takeWord {L L' : PythonLexer} (h : Inert L L') :
    Inert L (PythonLexer.takeWord L').2 :=
  inert_advanceN h _

theorem processOperator_inert (L : PythonLexer) : Inert L (processOperator L) := by
  unfold processOperator
  dsimp only
  repeat' with_reducible first
    | exact inert_refl L
    | refine inert_ite (fun _ => ?_) (fun _ => ?_)
    | refine inert_addError ?_ _
    | refine inert_addToken ?_ _ _ (by decide)
    | refine inert_advance ?_

theorem numberTail_inert {L0 L : PythonLexer} (h : Inert L0 L) (num : List Char)
    (a b : Bool) : Inert L0 (numberTail L num a b) := by
  unfold numberTail
  dsimp only
  repeat' with_reducible first
    | exact h
    | refine inert_ite (fun _ => ?_) (fun _ => ?_)
    | refine inert_addError ?_ _
    | refine inert_addToken ?_ _ _ (by decide)
    | refine inert_takeWord ?_
    | refine inert_advanceN ?_ _
    | refine inert_advance ?_

theorem numberExponent_inert {L0 L : PythonLexer} (h : Inert L0 L) (num : List Char)
    (b : Bool) : Inert L0 (numberExponent L num b) := by
  unfold numberExponent
  dsimp only
  repeat' with_reducible first
    | exact h
    | refine inert_ite (fun _ => ?_) (fun _ => ?_)
    | split
    | refine numberTail_inert ?_ _ _ _
    | refine inert_addError ?_ _
    | refine inert_addToken ?_ _ _ (by decide)
    | refine inert_takeWord ?_
    | refine inert_advanceN ?_ _
    | refine inert_advance ?_

theorem numberFraction_inert {L0 L : PythonLexer} (h : Inert L0 L) (num : List Char)
    (b : Bool) : Inert L0 (numberFraction L num b) := by
  unfold numberFraction
  dsimp only
  repeat' with_reducible first
    | exact h
    | refine inert_ite (fun _ => ?_) (fun _ => ?_)
    | refine numberExponent_inert ?_ _ _
    | refine inert_addError ?_ _
    | refine inert_addToken ?_ _ _ (by decide)
    | refine inert_takeWord ?_
    | refine inert_advanceN ?_ _
    | refine inert_advance ?_

theorem numberDecimal_inert {L0 L : PythonLexer} (h : Inert L0 L) (num : List Char) :
    Inert L0 (numberDecimal L num) :=
  numberFraction_inert (inert_advanceN h _) _ _

theorem numberRadix_inert {L0 L : PythonLexer} (h : Inert L0 L) (num : List Char)
    (isDig : Char → Bool) (what pfx : List Char) (ty : TokenType)
    (hty : isReserved ty = false) : Inert L0 (numberRadix L num isDig what pfx ty) := by
  unfold numberRadix
  dsimp only
  repeat' with_reducible first
    | exact h
    | refine inert_ite (fun _ => ?_) (fun _ => ?_)
    | refine inert_addError ?_ _
    | refine inert_addToken ?_ _ _ hty
    | refine inert_takeWord ?_
    | refine inert_advanceN ?_ _
    | refine inert_advance ?_

theorem processNumber_inert (L : PythonLexer) : Inert L (processNumber L) := by
  unfold processNumber
  dsimp only
  repeat' with_reducible first
    | exact inert_refl L
    | refine inert_ite (fun _ => ?_) (fun _ => ?_)
    | refine numberRadix_inert ?_ _ _ _ _ _ (by decide)
    | refine numberDecimal_inert ?_ _
    | refine inert_addError ?_ _
    | refine inert_addToken ?_ _ _ (by decide)
    | refine inert_advanceN ?_ _
    | refine inert_advance ?_

theorem processString_inert (L : PythonLexer) (quote : Char) :
    Inert L (processString L quote) := by
  unfold processString
  dsimp only
  repeat' with_reducible first
    | exact inert_refl L
    | refine inert_ite (fun _ => ?_) (fun _ => ?_)
    | refine inert_addError ?_ _
    | refine inert_addToken ?_ _ _ (by decide)
    | refine inert_advanceN ?_ _
    | refine inert_advance ?_

theorem processComment_inert (L : PythonLexer) : Inert L (processComment L) := by
  unfold processComment
  dsimp only
  repeat' with_reducible first
    | exact inert_refl L
    | refine inert_ite (fun _ => ?_) (fun _ => ?_)
    | refine inert_addError ?_ _
    | refine inert_addToken ?_ _ _ (by decide)
    | refine inert_advanceN ?_ _
    | refine inert_advance ?_

end PythonLexer
end PyAnalyzer

namespace PyAnalyzer
namespace PythonLexer

/-! ## The indentation stack -/

theorem Inert.level {L L' : PythonLexer} (h : Inert L L') : Level L L' := by
  obtain ⟨h1, _, _, new, h4, h5⟩ := h
  refine ⟨h1, new, h4, ?_⟩
  intro t ht
  have := h5 t ht
  simp only [isReserved, Bool.or_eq_false_iff, beq_eq_false_iff_ne] at this
  exact ⟨this.1.1, this.1.2⟩

theorem Inert.anon {L L' : PythonLexer} (h : Inert L L') : Anon L L' := by
  obtain ⟨_, h2, h3, new, h4, h5⟩ := h
  refine ⟨h2, h3, new, h4, ?_⟩
  intro t ht
  have := h5 t ht
  simp only [isReserved, Bool.or_eq_false_iff, beq_eq_false_iff_ne] at this
  exact this.2

theorem popIndents_drop (w : Nat) (s : List Nat) :
    (popIndents w s).2 = s.drop (popIndents w s).1 ∧ (popIndents w s).1 ≤ s.length := by
  induction s with
  | nil => exact ⟨rfl, le_refl _⟩
  | cons top below ih =>
    unfold popIndents
    split
    · exact ⟨ih.1, Nat.succ_le_succ ih.2⟩
    · exact ⟨rfl, Nat.zero_le _⟩

theorem popIndents_head (w : Nat) (s : List Nat) : ¬ w < (popIndents w s).2.headD 0 := by
  induction s with
  | nil => exact Nat.not_lt_zero _
  | cons top below ih =>
    unfold popIndents
    split
    · exact ih
    · assumption

theorem addDedents_tokens (n : Nat) (L : PythonLexer) :
    (addDedents n L).tokens =
      L.tokens ++ List.replicate n ⟨[], TokenType.DEDENT, L.line, L.column⟩ := by
  induction n generalizing L with
  | zero => simp [addDedents]
  | succ n ih =>
    rw [addDedents, ih, tokens_addToken, List.append_assoc]
    congr 1
    have hz : L.column - (([] : List Char).length : Int) = L.column := by simp
    rw [hz]
    exact (List.replicate_succ ..).symm

theorem addDedents_fields (n : Nat) (L : PythonLexer) :
    (addDedents n L).indentStack = L.indentStack ∧
      (addDedents n L).symbolTable = L.symbolTable ∧
      (addDedents n L).addedBuiltins = L.addedBuiltins := by
  induction n generalizing L with
  | zero => exact ⟨rfl, rfl, rfl⟩
  | succ n ih => exact ih _

/-- What one call of `handleIndentation` does to the stack and to the
tokens: one push with one INDENT token when the line is deeper than the top
of the stack; otherwise as many pops as `popIndents` counts, with one DEDENT
token for each. -/
theorem handleIndentation_effect (L : PythonLexer) :
    (L.lineIndent > L.indentStack.headD 0 →
      (handleIndentation L).indentStack = L.lineIndent :: L.indentStack ∧
      ∃ t, t.type = TokenType.INDENT ∧ (handleIndentation L).tokens = L.tokens ++ [t]) ∧
    (¬ L.lineIndent > L.indentStack.headD 0 →
      (handleIndentation L).indentStack =
        L.indentStack.drop (popIndents L.lineIndent L.indentStack).1 ∧
      ∃ t, t.type = TokenType.DEDENT ∧ (handleIndentation L).tokens =
        L.tokens ++ List.replicate (popIndents L.lineIndent L.indentStack).1 t) := by
  have hMs := indentStack_advanceN (L.rest.takeWhile (fun c => c == ' ' || c == '\t')).length L
  have hMt := tokens_advanceN (L.rest.takeWhile (fun c => c == ' ' || c == '\t')).length L
  unfold handleIndentation lineIndent
  dsimp only
  generalize L.advanceN _ = M at hMs hMt ⊢
  generalize indentWidth _ = w
  rw [hMs]
  constructor
  · intro h
    rw [if_pos h]
    exact ⟨rfl, ⟨[], TokenType.INDENT, M.line, M.column⟩, rfl, by simp [hMt]⟩
  · intro h
    rw [if_neg h]
    have hd := popIndents_drop w L.indentStack
    have hf := addDedents_fields (popIndents w L.indentStack).1
      { M with indentStack := (popIndents w L.indentStack).2 }
    have ht := addDedents_tokens (popIndents w L.indentStack).1
      { M with indentStack := (popIndents w L.indentStack).2 }
    split
    · split
      · refine ⟨?_, ⟨[], TokenType.DEDENT, M.line, M.column⟩, rfl, ?_⟩
        · rw [indentStack_addError, hf.1]
          exact hd.1
        · rw [tokens_addError, ht, ← hMt]
      · refine ⟨?_, ⟨[], TokenType.DEDENT, M.line, M.column⟩, rfl, ?_⟩
        · rw [hf.1]
          exact hd.1
        · rw [ht, ← hMt]
    · have heq : w = L.indentStack.headD 0 := by omega
      have hp : (popIndents w L.indentStack).1 = 0 := by
        rw [heq]
        cases L.indentStack with
        | nil => rfl
        | cons top below => simp [popIndents]
      rw [hp]
      exact ⟨by simp [hMs], ⟨[], TokenType.DEDENT, 0, 0⟩, rfl, by simp [hMt]⟩

theorem handleIndentation_anon (L : PythonLexer) : Anon L (handleIndentation L) := by
  have base : Anon L (L.advanceN
      (L.rest.takeWhile (fun c => c == ' ' || c == '\t')).length) :=
    ⟨by simp, by simp, [], by simp, by simp⟩
  have tok : ∀ (X : PythonLexer) (ty : TokenType), ty ≠ TokenType.IDENTIFIER → Anon L X →
      Anon L (X.addToken [] ty) := by
    intro X ty hty hX
    obtain ⟨a, b, new, hn, hp⟩ := hX
    refine ⟨a, b, new ++ [_], by rw [tokens_addToken, hn, List.append_assoc], ?_⟩
    intro t ht
    rcases List.mem_append.mp ht with ht | ht
    · exact hp t ht
    · rw [List.mem_singleton.mp ht]
      exact hty
  have key : ∀ n : Nat, ∀ X : PythonLexer, Anon L X → Anon L (addDedents n X) := by
    intro n
    induction n with
    | zero => exact fun X hX => hX
    | succ n ih => exact fun X hX => ih _ (tok X _ (by decide) hX)
  unfold handleIndentation
  dsimp only
  generalize L.advanceN _ = M at base ⊢
  generalize indentWidth _ = w
  split
  · exact tok { M with indentStack := w :: M.indentStack } _ (by decide) base
  · split
    · have hd := key (popIndents w M.indentStack).1
        { M with indentStack := (popIndents w M.indentStack).2 } base
      split
      · exact hd
      · exact hd
    · exact base

end PythonLexer
end PyAnalyzer

namespace PyAnalyzer
namespace PythonLexer

theorem level_refl (L : PythonLexer) : Level L L := (inert_refl L).level

theorem level_trans {L L' L'' : PythonLexer} (h : Level L L') (h' : Level L' L'') :
    Level L L'' := by
  obtain ⟨a1, n1, e1, p1⟩ := h
  obtain ⟨a2, n2, e2, p2⟩ := h'
  refine ⟨a2.trans a1, n1 ++ n2, by rw [e2, e1, List.append_assoc], ?_⟩
  intro t ht
  rcases List.mem_append.mp ht with ht | ht
  · exact p1 t ht
  · exact p2 t ht

theorem level_addToken {L L' : PythonLexer} (h : Level L L') (l : List Char) (ty : TokenType)
    (hty : ty ≠ TokenType.INDENT ∧ ty ≠ TokenType.DEDENT) : Level L (L'.addToken l ty) :=
  level_trans h ⟨rfl, [_], rfl, by simpa using hty⟩

theorem level_of_eq {L L' X : PythonLexer} (h : Level L L')
    (hs : X.indentStack = L'.indentStack) (ht : X.tokens = L'.tokens) : Level L X := by
  unfold Level at *
  rw [hs, ht]
  exact h

theorem identifierToken_level {L0 L : PythonLexer} (h : Level L0 L) (ident : List Char) :
    Level L0 (identifierToken L ident) := by
  unfold identifierToken
  dsimp only
  split
  · exact level_addToken h _ _ (by decide)
  · split
    · split
      · exact level_trans h ⟨rfl, [_], rfl, by simp⟩
      · exact level_addToken h _ _ (by decide)
    · refine level_addToken ?_ _ _ (by decide)
      split
      · exact level_of_eq h rfl rfl
      · exact level_of_eq h rfl rfl

theorem identifierWord_level {L0 L : PythonLexer} (h : Level L0 L) (ident : List Char) :
    Level L0 (identifierWord L ident) :=
  identifierToken_level (level_trans h (inert_advanceN (inert_refl L) _).level) _

theorem processIdentifier_level (L : PythonLexer) : Level L (processIdentifier L) := by
  unfold processIdentifier
  dsimp only
  split
  · exact (inert_addError (inert_takeWord (inert_refl L)) _).level
  · split
    · split
      · exact (inert_addError (inert_takeWord (inert_advance (inert_advance (inert_refl L)))) _).level
      · exact identifierWord_level (inert_advance (inert_refl L)).level _
    · exact identifierWord_level (level_refl L) _

theorem processTypeAnnotation_level (L : PythonLexer) : Level L ( processTypeAnnotation L).2 := by
  unfold processTypeAnnotation
  dsimp only
  split
  · split
    · split
      · refine level_of_eq (level_addToken (level_of_eq
          (inert_advanceN (inert_advanceN (inert_advanceN (inert_refl L) _) _) _).level
          rfl rfl) _ TokenType.IDENTIFIER (by decide)) rfl rfl
      · exact level_refl L
    · exact level_refl L
  · exact level_refl L

/-- Every branch of the `switch` of `tokenize` other than the one of the
line feed keeps the indentation stack and adds no INDENT or DEDENT token. -/
theorem tokenizeStep_level (L : PythonLexer) (hc : L.current ≠ '\n') :
    Level L (tokenizeStep L) := by
  unfold tokenizeStep
  dsimp only
  rw [if_neg hc]
  split
  · exact (inert_advance (inert_refl L)).level
  split
  · exact (processComment_inert L).level
  split
  · exact (processNumber_inert L).level
  split
  · exact (processString_inert L _).level
  split
  · split
    · exact level_trans (processTypeAnnotation_level L) (processIdentifier_level _)
    · exact processTypeAnnotation_level L
  split
  · exact (inert_addError (inert_takeWord (inert_advance (inert_refl L))) _).level
  split
  · exact (processOperator_inert L).level
  split
  · exact (inert_advance (inert_addToken (inert_refl L) _ _ (by decide))).level
  · exact (inert_addError (inert_takeWord (inert_advance (inert_refl L))) _).level

theorem countType_append (ty : TokenType) (a b : List Token) :
    countType ty (a ++ b) = countType ty a + countType ty b := by
  simp [countType, List.countP_append]

theorem countType_eq_zero (ty : TokenType) (new : List Token) (h : ∀ t ∈ new, t.type ≠ ty) :
    countType ty new = 0 := by
  unfold countType
  rw [List.countP_eq_zero]
  intro t ht
  simpa using h t ht

theorem countType_replicate (ty : TokenType) (n : Nat) (t : Token) :
    countType ty (List.replicate n t) = if t.type = ty then n else 0 := by
  unfold countType
  rw [List.countP_replicate]
  simp

theorem Level.balance {L L' : PythonLexer} (h : Level L L') :
    indentBalance L' = indentBalance L := by
  obtain ⟨h1, new, h2, h3⟩ := h
  unfold indentBalance
  rw [h1, h2, countType_append, countType_append,
    countType_eq_zero _ new (fun t ht => (h3 t ht).1),
    countType_eq_zero _ new (fun t ht => (h3 t ht).2)]
  simp

theorem handleIndentation_balance (L : PythonLexer) :
    indentBalance (handleIndentation L) = indentBalance L := by
  obtain ⟨hpush, hpop⟩ := handleIndentation_effect L
  by_cases h : L.lineIndent > L.indentStack.headD 0
  · obtain ⟨hs, t, ht, htok⟩ := hpush h
    unfold indentBalance
    rw [hs, htok, countType_append, countType_append]
    have h1 : countType TokenType.INDENT [t] = 1 := by simp [countType, ht]
    have h2 : countType TokenType.DEDENT [t] = 0 := by simp [countType, ht]
    rw [h1, h2, List.length_cons]
    push_cast
    ring
  · obtain ⟨hs, t, ht, htok⟩ := hpop h
    have hle := (popIndents_drop L.lineIndent L.indentStack).2
    unfold indentBalance
    rw [hs, htok, countType_append, countType_append, countType_replicate, countType_replicate,
      List.length_drop, ht]
    simp only [if_true]
    rw [if_neg (by decide)]
    push_cast [hle]
    ring

theorem tokenizeStep_balance (L : PythonLexer) :
    indentBalance (tokenizeStep L) = indentBalance L := by
  by_cases hc : L.current = '\n'
  · have : tokenizeStep L = handleIndentation ((L.addToken ['\n'] TokenType.NEWLINE).advance) := by
      unfold tokenizeStep
      dsimp only
      rw [if_pos hc]
    rw [this, handleIndentation_balance]
    exact (inert_advance (inert_addToken (inert_refl L) _ _ (by decide))).level.balance
  · exact (tokenizeStep_level L hc).balance

theorem tokenizeLoop_balance (fuel : Nat) (L L' : PythonLexer)
    (h : tokenizeLoop fuel L = some L') : indentBalance L' = indentBalance L := by
  induction fuel generalizing L with
  | zero =>
    unfold tokenizeLoop at h
    split at h
    · injection h with h
      rw [h]
    · exact absurd h (by simp)
  | succ fuel ih =>
    unfold tokenizeLoop at h
    split at h
    · injection h with h
      rw [h]
    · rw [ih _ h, tokenizeStep_balance]

theorem singleTokenShortcut_indentStack (L L' : PythonLexer) (lhs : List Char) (t : Token)
    (h : singleTokenShortcut L lhs t = some L') : L'.indentStack = L.indentStack := by
  unfold singleTokenShortcut at h
  split at h
  all_goals (try split at h)
  all_goals (try (injection h with h; subst h; rfl))
  all_goals (try exact absurd h (by simp))

theorem foldAssignment_indentStack (F : DoubleArith) (L : PythonLexer) (lhs : List Char)
    (expr : List Token) : (foldAssignment F L lhs expr).indentStack = L.indentStack := by
  unfold foldAssignment
  split <;> rfl

theorem inferAssignment_indentStack (F : DoubleArith) (L : PythonLexer) (lhs : List Char)
    (expr : List Token) : (inferAssignment F L lhs expr).indentStack = L.indentStack := by
  unfold inferAssignment
  split
  · split
    · rename_i h
      exact singleTokenShortcut_indentStack _ _ _ _ h
    · exact foldAssignment_indentStack _ _ _ _
  · exact foldAssignment_indentStack _ _ _ _

theorem processAssignmentsStep_indentStack (F : DoubleArith) (i : Nat) (L : PythonLexer) :
    (processAssignmentsStep F i L).2.indentStack = L.indentStack := by
  unfold processAssignmentsStep
  dsimp only
  split_ifs
  all_goals (try rfl)
  all_goals exact inferAssignment_indentStack _ _ _ _

theorem processAssignmentsLoop_indentStack (F : DoubleArith) (fuel i : Nat) (L L' : PythonLexer)
    (h : processAssignmentsLoop F fuel i L = some L') :
    L'.indentStack = L.indentStack ∧ L'.tokens = L.tokens := by
  induction fuel generalizing i L with
  | zero =>
    unfold processAssignmentsLoop at h
    split at h
    · exact absurd h (by simp)
    · injection h with h
      rw [h]
      exact ⟨rfl, rfl⟩
  | succ fuel ih =>
    unfold processAssignmentsLoop at h
    split at h
    · obtain ⟨h1, h2⟩ := ih _ _ h
      exact ⟨h1.trans (processAssignmentsStep_indentStack F i L),
        h2.trans (processAssignmentsStep_tokens F i L)⟩
    · injection h with h
      rw [h]
      exact ⟨rfl, rfl⟩

/-- The state in which `tokenize` returns, in terms of the state in which
the main loop ends: the same indentation stack, and the same tokens with one
end-of-file token after them. -/
theorem tokenize_layout (F : DoubleArith) (L L' : PythonLexer) (h : tokenize F L = some L') :
    ∃ L1, tokenizeLoop L.rest.length L = some L1 ∧ L'.indentStack = L1.indentStack ∧
      L'.tokens = (L1.addToken [] TokenType.ENDOFFILE).tokens := by
  unfold tokenize at h
  cases h1 : tokenizeLoop L.rest.length L with
  | none => rw [h1] at h; exact absurd h (by simp)
  | some L1 =>
    rw [h1] at h
    obtain ⟨h2, h3⟩ := processAssignmentsLoop_indentStack F _ 0 _ L' h
    exact ⟨L1, rfl, h2, h3⟩

theorem tokenize_balance (F : DoubleArith) (L L' : PythonLexer) (h : tokenize F L = some L') :
    indentBalance L' = indentBalance L := by
  obtain ⟨L1, h1, h2, h3⟩ := tokenize_layout F L L' h
  rw [← tokenizeLoop_balance _ L L1 h1]
  have : Level L1 L' := ⟨h2, [_], h3, by simp⟩
  exact this.balance

end PythonLexer
end PyAnalyzer

namespace PyAnalyzer
namespace PythonLexer

theorem stackOk_ne_nil {s : List Nat} (h : StackOk s) : s ≠ [] := by
  intro h0
  rw [h0] at h
  exact absurd h.1 (by simp)

theorem stackOk_tail {top : Nat} {below : List Nat} (h : StackOk (top :: below))
    (hne : below ≠ []) : StackOk below := by
  obtain ⟨b, bs, rfl⟩ := List.exists_cons_of_ne_nil hne
  refine ⟨?_, (List.pairwise_cons.mp h.2).2⟩
  have := h.1
  rwa [List.getLast?_cons_cons] at this

theorem stackOk_push {s : List Nat} (h : StackOk s) (w : Nat) (hw : w > s.headD 0) :
    StackOk (w :: s) := by
  obtain ⟨top, below, rfl⟩ := List.exists_cons_of_ne_nil (stackOk_ne_nil h)
  refine ⟨?_, List.pairwise_cons.mpr ⟨?_, h.2⟩⟩
  · rw [List.getLast?_cons_cons]
    exact h.1
  · intro x hx
    have hw' : top < w := hw
    rcases List.mem_cons.mp hx with hx | hx
    · rw [hx]
      exact hw'
    · exact lt_trans ((List.pairwise_cons.mp h.2).1 x hx) hw'

theorem stackOk_drop {s : List Nat} (h : StackOk s) (j : Nat) (hj : j < s.length) :
    StackOk (s.drop j) := by
  induction j generalizing s with
  | zero => exact h
  | succ j ih =>
    obtain ⟨top, below, rfl⟩ := List.exists_cons_of_ne_nil (stackOk_ne_nil h)
    have hj' : j < below.length := by simpa using hj
    have hne : below ≠ [] := List.ne_nil_of_length_pos (by omega)
    exact ih (stackOk_tail h hne) hj'

/-- The pop loop stops before the bottom of the stack. -/
theorem popIndents_lt {s : List Nat} (h : StackOk s) (w : Nat) :
    (popIndents w s).1 < s.length := by
  induction s with
  | nil => exact absurd rfl (stackOk_ne_nil h)
  | cons top below ih =>
    unfold popIndents
    split
    · rename_i hlt
      have hne : below ≠ [] := by
        intro h0
        rw [h0] at h
        have h1 := h.1
        simp only [List.getLast?_singleton, Option.some.injEq] at h1
        omega
      have := ih (stackOk_tail h hne)
      simpa using this
    · simp

theorem handleIndentation_stackOk (L : PythonLexer) (h : StackOk L.indentStack) :
    StackOk (handleIndentation L).indentStack := by
  obtain ⟨hpush, hpop⟩ := handleIndentation_effect L
  by_cases hw : L.lineIndent > L.indentStack.headD 0
  · rw [(hpush hw).1]
    exact stackOk_push h _ hw
  · rw [(hpop hw).1]
    exact stackOk_drop h _ (popIndents_lt h _)

theorem tokenizeStep_stackOk (L : PythonLexer) (h : StackOk L.indentStack) :
    StackOk (tokenizeStep L).indentStack := by
  by_cases hc : L.current = '\n'
  · have : tokenizeStep L = handleIndentation ((L.addToken ['\n'] TokenType.NEWLINE).advance) := by
      unfold tokenizeStep
      dsimp only
      rw [if_pos hc]
    rw [this]
    apply handleIndentation_stackOk
    simpa using h
  · rw [(tokenizeStep_level L hc).1]
    exact h

theorem iterate_stackOk (L : PythonLexer) (h : StackOk L.indentStack) (n : Nat) :
    StackOk (tokenizeStep^[n] L).indentStack := by
  induction n with
  | zero => exact h
  | succ n ih =>
    rw [Function.iterate_succ_apply']
    exact tokenizeStep_stackOk _ ih

theorem tokenizeLoop_stackOk (fuel : Nat) (L L' : PythonLexer)
    (h : tokenizeLoop fuel L = some L') (hs : StackOk L.indentStack) :
    StackOk L'.indentStack := by
  induction fuel generalizing L with
  | zero =>
    unfold tokenizeLoop at h
    split at h
    · injection h with h
      rw [← h]
      exact hs
    · exact absurd h (by simp)
  | succ fuel ih =>
    unfold tokenizeLoop at h
    split at h
    · injection h with h
      rw [← h]
      exact hs
    · exact ih _ h (tokenizeStep_stackOk L hs)

/-- C15: the stack `{0}` of the initialiser is non-empty with bottom 0 and
strictly increasing from bottom to top, and so is the stack of any state from
which `handleIndentation` is called with such a stack: after the call, after
its push, after each single pop of its loop (which stops before the bottom
0), in every state of the main loop of `tokenize` and when `tokenize`
returns. -/
theorem indentStack_invariant (F : DoubleArith) (L : PythonLexer) (h : StackOk L.indentStack) :
    StackOk [0] ∧
    StackOk (handleIndentation L).indentStack ∧
    (L.lineIndent > L.indentStack.headD 0 →
      (handleIndentation L).indentStack = L.lineIndent :: L.indentStack) ∧
    (¬ L.lineIndent > L.indentStack.headD 0 →
      (handleIndentation L).indentStack =
        L.indentStack.drop (popIndents L.lineIndent L.indentStack).1 ∧
      (popIndents L.lineIndent L.indentStack).1 < L.indentStack.length ∧
      ∀ j, j ≤ (popIndents L.lineIndent L.indentStack).1 → StackOk (L.indentStack.drop j)) ∧
    (∀ n, StackOk (tokenizeStep^[n] L).indentStack) ∧
    ∃ L', tokenize F L = some L' ∧ StackOk L'.indentStack := by
  obtain ⟨hpush, hpop⟩ := handleIndentation_effect L
  refine ⟨⟨rfl, by simp⟩, handleIndentation_stackOk L h, fun hw => (hpush hw).1, ?_,
    iterate_stackOk L h, ?_⟩
  · intro hw
    have hlt := popIndents_lt h L.lineIndent
    exact ⟨(hpop hw).1, hlt, fun j hj => stackOk_drop h j (by omega)⟩
  · obtain ⟨L', _, _, hL', _⟩ := tokenize_shape F L
    obtain ⟨L1, h1, h2, _⟩ := tokenize_layout F L L' hL'
    exact ⟨L', hL', h2 ▸ tokenizeLoop_stackOk _ L L1 h1 h⟩

/-- The statement of `indentStack_invariant` on the line `b` of the source
"  a", a newline and "b", read with the stack `[2, 0]`: one pop. -/
theorem indentStack_invariant_witness :
    StackOk (create "b".toList [2, 0]).indentStack ∧
    (handleIndentation (create "b".toList [2, 0])).indentStack = [0] ∧
    StackOk (handleIndentation (create "b".toList [2, 0])).indentStack :=
  ⟨⟨rfl, by decide⟩, by decide,
    (indentStack_invariant exactArith (create "b".toList [2, 0]) ⟨rfl, by decide⟩).2.1⟩

/-- C16: INDENT and DEDENT tokens come from `handleIndentation` only, one
INDENT for a push and one DEDENT for each pop: in the tokens that `tokenize`
returns, the INDENT tokens minus the DEDENT tokens are the size of the
indentation stack after the run minus its size before the run. -/
theorem indent_dedent_balance (F : DoubleArith) (source : List Char) (stack : List Nat) :
    (∃ L', tokenize F (create source stack) = some L' ∧
      (countType TokenType.INDENT L'.tokens : Int) - (countType TokenType.DEDENT L'.tokens : Int) =
        (L'.indentStack.length : Int) - (stack.length : Int)) ∧
    (∀ L : PythonLexer, L.current ≠ '\n' → Level L (tokenizeStep L)) ∧
    (∀ L : PythonLexer, L.current = '\n' →
      tokenizeStep L = handleIndentation ((L.addToken ['\n'] TokenType.NEWLINE).advance)) ∧
    (∀ L : PythonLexer, L.lineIndent > L.indentStack.headD 0 →
      (handleIndentation L).indentStack = L.lineIndent :: L.indentStack ∧
      ∃ t, t.type = TokenType.INDENT ∧ (handleIndentation L).tokens = L.tokens ++ [t]) ∧
    (∀ L : PythonLexer, ¬ L.lineIndent > L.indentStack.headD 0 →
      (handleIndentation L).indentStack =
        L.indentStack.drop (popIndents L.lineIndent L.indentStack).1 ∧
      ∃ t, t.type = TokenType.DEDENT ∧ (handleIndentation L).tokens =
        L.tokens ++ List.replicate (popIndents L.lineIndent L.indentStack).1 t) := by
  refine ⟨?_, tokenizeStep_level, ?_, fun L => (handleIndentation_effect L).1,
    fun L => (handleIndentation_effect L).2⟩
  · obtain ⟨L', _, _, hL', _⟩ := tokenize_shape F (create source stack)
    refine ⟨L', hL', ?_⟩
    have hb := tokenize_balance F _ L' hL'
    unfold indentBalance at hb
    have h0 : (create source stack).tokens = [] := rfl
    have h1 : (create source stack).indentStack = stack := rfl
    rw [h0, h1] at hb
    simp only [countType, List.countP_nil, Nat.cast_zero, sub_zero, zero_sub] at hb
    unfold countType
    linarith
  · intro L hc
    unfold tokenizeStep
    dsimp only
    rw [if_pos hc]

/-- The statement of `indent_dedent_balance` on the source "a", a newline,
"  b" and a newline, read with the stack `[0]`: one INDENT and one DEDENT. -/
theorem indent_dedent_balance_witness :
    ∃ L', tokenize exactArith (create "a\n  b\n".toList [0]) = some L' ∧
      (countType TokenType.INDENT L'.tokens : Int) - (countType TokenType.DEDENT L'.tokens : Int) =
        (L'.indentStack.length : Int) - (([0] : List Nat).length : Int) :=
  (indent_dedent_balance exactArith "a\n  b\n".toList [0]).1

end PythonLexer
end PyAnalyzer

namespace PyAnalyzer
namespace PythonLexer

/-- C17 (evaluation at the failing input): the indentation stack is the
`static` vector of `handleIndentation`, so a run starts with the stack that
the run before it left.  The source "a", newline, "  '''x", newline leaves
the stack `[2, 0]`, and its second analysis has no INDENT token; the same
holds for the source "a", newline, "  b". -/
theorem second_analysis_differs :
    (∃ L1 L2, tokenize exactArith (create "a\n  '''x\n".toList [0]) = some L1 ∧
      L1.indentStack = [2, 0] ∧
      tokenize exactArith (create "a\n  '''x\n".toList [2, 0]) = some L2 ∧
      L1.tokenKinds = [("a".toList, TokenType.IDENTIFIER), ("\n".toList, TokenType.NEWLINE),
        ([], TokenType.INDENT), ([], TokenType.ENDOFFILE)] ∧
      L2.tokenKinds = [("a".toList, TokenType.IDENTIFIER), ("\n".toList, TokenType.NEWLINE),
        ([], TokenType.ENDOFFILE)]) ∧
    (∃ L1 L2, tokenize exactArith (create "a\n  b".toList [0]) = some L1 ∧
      L1.indentStack = [2, 0] ∧
      tokenize exactArith (create "a\n  b".toList [2, 0]) = some L2 ∧
      L1.tokenKinds = [("a".toList, TokenType.IDENTIFIER), ("\n".toList, TokenType.NEWLINE),
        ([], TokenType.INDENT), ("b".toList, TokenType.IDENTIFIER),
        ([], TokenType.ENDOFFILE)] ∧
      L2.tokenKinds = [("a".toList, TokenType.IDENTIFIER), ("\n".toList, TokenType.NEWLINE),
        ("b".toList, TokenType.IDENTIFIER), ([], TokenType.ENDOFFILE)]) :=
  ⟨⟨_, _, rfl, rfl, rfl, rfl, rfl⟩, ⟨_, _, rfl, rfl, rfl, rfl, rfl⟩⟩

end PythonLexer
end PyAnalyzer

namespace PyAnalyzer
namespace SymbolTable

/-! ## The order of registration -/

theorem getId_setIdentifierInfo (t : SymbolTable) (a dataType value b : List Char) :
    (t.setIdentifierInfo a dataType value).getId b = t.getId b := by
  unfold getId
  by_cases hab : b = a
  · rw [hab, find_setIdentifierInfo_self]
    cases t.find a <;> rfl
  · rw [find_setIdentifierInfo_ne t a b dataType value hab]

theorem count_setIdentifierInfo_eq (t : SymbolTable) (a dataType value b : List Char) :
    (t.setIdentifierInfo a dataType value).count b = t.count b := by
  unfold count
  by_cases hab : b = a
  · rw [hab, find_setIdentifierInfo_self]
    cases t.find a <;> rfl
  · rw [find_setIdentifierInfo_ne t a b dataType value hab]

theorem find_addIdentifier_old (t : SymbolTable) (a b : List Char) (e : SymbolEntry)
    (hb : t.find b = some e) : (t.addIdentifier a).2.find b = some e := by
  cases hf : t.find a with
  | some e' => rw [addIdentifier_of_find_some t a e' hf]; exact hb
  | none =>
    rw [addIdentifier_of_find_none t a hf]
    unfold find at hb ⊢
    cases hfb : t.symbols.find? (fun p => p.1 == b) with
    | none => rw [hfb] at hb; exact absurd hb (by simp)
    | some p =>
      rw [hfb] at hb
      simp only [List.find?_append, hfb, Option.or_some]
      exact hb

theorem find_addIdentifier_new (t : SymbolTable) (a : List Char) (hf : t.find a = none) :
    (t.addIdentifier a).2.find a = some ⟨t.current_id, "unknown".toList, "N/A".toList⟩ := by
  rw [addIdentifier_of_find_none t a hf]
  have hnot : a ∉ t.names := (find_eq_none_iff t a).mp hf
  unfold find
  have hnone : t.symbols.find? (fun p => p.1 == a) = none := by
    rw [List.find?_eq_none]
    intro p hp hpn
    exact hnot (List.mem_map.mpr ⟨p, hp, by simpa using hpn⟩)
  simp only [List.find?_append, hnone, Option.none_or, List.find?_cons, beq_self_eq_true,
    Option.map_some']

theorem count_addIdentifier_iff (t : SymbolTable) (a b : List Char) :
    (t.addIdentifier a).2.count b = true ↔ t.count b = true ∨ b = a := by
  constructor
  · intro h
    by_cases hab : b = a
    · exact Or.inr hab
    · left
      rw [count_eq_true_iff] at h ⊢
      cases hf : t.find a with
      | some e' => rwa [addIdentifier_of_find_some t a e' hf] at h
      | none =>
        rw [addIdentifier_of_find_none t a hf] at h
        simp only [names, List.map_append, List.map_cons, List.map_nil, List.mem_append,
          List.mem_singleton] at h
        rcases h with h | h
        · exact h
        · exact absurd h hab
  · rintro (h | h)
    · unfold count at h ⊢
      obtain ⟨e, he⟩ := Option.isSome_iff_exists.mp h
      rw [find_addIdentifier_old t a b e he]
      rfl
    · rw [h]
      unfold count
      cases hf : t.find a with
      | some e => rw [find_addIdentifier_old t a a e hf]; rfl
      | none => rw [find_addIdentifier_new t a hf]; rfl

/-- The IDs of a table are below its counter. -/
theorem getId_lt_current (t : SymbolTable) (h : t.Reachable) (b : List Char)
    (hb : t.count b = true) : t.getId b < t.current_id := by
  obtain ⟨h1, h2, _⟩ := reachable_invariant t h
  unfold count at hb
  obtain ⟨e, he⟩ := Option.isSome_iff_exists.mp hb
  unfold getId
  rw [he]
  have hmem : e.id ∈ t.ids := by
    unfold find at he
    obtain ⟨p, hp, hpe⟩ := Option.map_eq_some'.mp he
    exact List.mem_map.mpr ⟨p, List.mem_of_find?_eq_some hp, by rw [← hpe]⟩
  rw [h1] at hmem
  obtain ⟨k, hk, hke⟩ := List.mem_map.mp hmem
  have hk' : k < t.symbols.length := List.mem_range.mp hk
  show e.id < t.current_id
  rw [h2, ← hke]
  omega

theorem getId_addIdentifier_old (t : SymbolTable) (a b : List Char) (hb : t.count b = true) :
    (t.addIdentifier a).2.getId b = t.getId b := by
  unfold count at hb
  obtain ⟨e, he⟩ := Option.isSome_iff_exists.mp hb
  unfold getId
  rw [find_addIdentifier_old t a b e he, he]

end SymbolTable

namespace PythonLexer

/-- The part of `Ordered` that speaks of a token of `kinds` is kept when
tokens are added after `kinds`. -/
theorem ordered_old {kinds : List (List Char × TokenType)} {t : SymbolTable}
    (h : Ordered kinds t) (new : List (List Char × TokenType)) (i : Nat) (a : List Char)
    (hi : i < kinds.length) (hget : (kinds ++ new)[i]? = some (a, TokenType.IDENTIFIER))
    (hnc : (kinds ++ new)[i + 1]? ≠ some openParen) :
    t.count a = true ∧ ∀ b, t.count b = true →
      (∀ j, j ≤ i → (kinds ++ new)[j]? ≠ some (b, TokenType.IDENTIFIER)) →
        t.getId a < t.getId b := by
  rw [List.getElem?_append_left hi] at hget
  have hnc' : kinds[i + 1]? ≠ some openParen := by
    by_cases hlt : i + 1 < kinds.length
    · rwa [List.getElem?_append_left hlt] at hnc
    · rw [List.getElem?_eq_none (by omega)]
      exact fun e => Option.noConfusion e
  obtain ⟨h1, h2⟩ := h.2 i a hget hnc'
  refine ⟨h1, fun b hb hj => h2 b hb ?_⟩
  intro j hji
  have := hj j hji
  rwa [List.getElem?_append_left (by omega)] at this

theorem ordered_append_plain {kinds : List (List Char × TokenType)} {t : SymbolTable}
    (h : Ordered kinds t) (new : List (List Char × TokenType))
    (hnew : ∀ k ∈ new, k.2 ≠ TokenType.IDENTIFIER) : Ordered (kinds ++ new) t := by
  refine ⟨fun b hb => List.mem_append_left _ (h.1 b hb), ?_⟩
  intro i a hget hnc
  by_cases hi : i < kinds.length
  · exact ordered_old h new i a hi hget hnc
  · rw [List.getElem?_append_right (by omega)] at hget
    exact absurd rfl (hnew _ (List.getElem?_mem hget))

theorem ordered_append_call {kinds : List (List Char × TokenType)} {t : SymbolTable}
    (h : Ordered kinds t) (a : List Char) :
    Ordered (kinds ++ [(a, TokenType.IDENTIFIER), openParen]) t := by
  refine ⟨fun b hb => List.mem_append_left _ (h.1 b hb), ?_⟩
  intro i x hget hnc
  by_cases hi : i < kinds.length
  · exact ordered_old h _ i x hi hget hnc
  · by_cases hi' : i = kinds.length
    · exfalso
      apply hnc
      rw [hi', List.getElem?_append_right (by omega)]
      simp
    · rw [List.getElem?_append_right (by omega)] at hget
      obtain ⟨k, hk⟩ : ∃ k, i - kinds.length = k + 1 := ⟨i - kinds.length - 1, by omega⟩
      rw [hk] at hget
      cases k with
      | zero => exact absurd hget (by simp [openParen])
      | succ k => exact absurd hget (by simp)

theorem ordered_append_reg {kinds : List (List Char × TokenType)} {t : SymbolTable}
    (h : Ordered kinds t) (ht : t.Reachable) (a : List Char) :
    Ordered (kinds ++ [(a, TokenType.IDENTIFIER)]) (t.addIdentifier a).2 := by
  have hmem : ∀ b, (t.addIdentifier a).2.count b = true →
      (b, TokenType.IDENTIFIER) ∈ kinds ++ [(a, TokenType.IDENTIFIER)] := by
    intro b hb
    rcases (SymbolTable.count_addIdentifier_iff t a b).mp hb with hb | hb
    · exact List.mem_append_left _ (h.1 b hb)
    · rw [hb]
      exact List.mem_append_right _ (List.mem_singleton.mpr rfl)
  refine ⟨hmem, ?_⟩
  intro i x hget hnc
  by_cases hi : i < kinds.length
  · obtain ⟨h1, h2⟩ := ordered_old h _ i x hi hget hnc
    refine ⟨(SymbolTable.count_addIdentifier_iff t a x).mpr (Or.inl h1), ?_⟩
    intro b hb hj
    rw [SymbolTable.getId_addIdentifier_old t a x h1]
    by_cases hcb : t.count b = true
    · rw [SymbolTable.getId_addIdentifier_old t a b hcb]
      exact h2 b hcb hj
    · rcases (SymbolTable.count_addIdentifier_iff t a b).mp hb with hb' | hb'
      · exact absurd hb' hcb
      · rw [hb'] at hcb ⊢
        have hf : t.find a = none := by
          unfold SymbolTable.count at hcb
          cases hfa : t.find a with
          | none => rfl
          | some e => rw [hfa] at hcb; exact absurd rfl hcb
        have hnew : (t.addIdentifier a).2.getId a = t.current_id := by
          unfold SymbolTable.getId
          rw [SymbolTable.find_addIdentifier_new t a hf]
        rw [hnew]
        exact SymbolTable.getId_lt_current t ht x h1
  · have hlen : i = kinds.length := by
      by_contra hne
      rw [List.getElem?_eq_none (by simp; omega)] at hget
      exact Option.noConfusion hget
    have hx : x = a := by
      rw [hlen, List.getElem?_append_right (le_refl _)] at hget
      simp only [Nat.sub_self, List.getElem?_cons_zero, Option.some.injEq, Prod.mk.injEq] at hget
      exact hget.1.symm
    refine ⟨?_, ?_⟩
    · rw [hx]
      exact (SymbolTable.count_addIdentifier_iff t a a).mpr (Or.inr rfl)
    · intro b hb hj
      exfalso
      obtain ⟨j, hjlt, hjeq⟩ := List.getElem_of_mem (hmem b hb)
      have hjlen : j < kinds.length + 1 := by simpa using hjlt
      apply hj j (by omega)
      rw [List.getElem?_eq_getElem hjlt, hjeq]

theorem ordered_set {kinds : List (List Char × TokenType)} {t : SymbolTable}
    (h : Ordered kinds t) (a dataType value : List Char) :
    Ordered kinds (t.setIdentifierInfo a dataType value) := by
  unfold Ordered
  simp only [SymbolTable.count_setIdentifierInfo_eq, SymbolTable.getId_setIdentifierInfo]
  exact h

end PythonLexer
end PyAnalyzer

namespace PyAnalyzer
namespace PythonLexer

theorem anon_trans {L L' L'' : PythonLexer} (h : Anon L L') (h' : Anon L' L'') : Anon L L'' := by
  obtain ⟨a1, b1, n1, e1, p1⟩ := h
  obtain ⟨a2, b2, n2, e2, p2⟩ := h'
  refine ⟨a2.trans a1, b2.trans b1, n1 ++ n2, by rw [e2, e1, List.append_assoc], ?_⟩
  intro t ht
  rcases List.mem_append.mp ht with ht | ht
  · exact p1 t ht
  · exact p2 t ht

/-- A state with no call pending satisfies `Tracked`. -/
theorem tracked_of_ordered {L : PythonLexer} (h1 : L.symbolTable.Reachable)
    (h2 : ∀ b ∈ L.addedBuiltins, L.symbolTable.count b = true)
    (h3 : Ordered L.tokenKinds L.symbolTable) : Tracked L :=
  ⟨h1, h2, false, fun h => Bool.noConfusion h, by simpa using h3⟩

theorem ordered_anon {L L' : PythonLexer} (h : Ordered L.tokenKinds L.symbolTable)
    (ha : Anon L L') : Ordered L'.tokenKinds L'.symbolTable := by
  obtain ⟨a, _, new, hn, hp⟩ := ha
  rw [a]
  unfold tokenKinds at h ⊢
  rw [hn, List.map_append]
  refine ordered_append_plain h _ ?_
  intro k hk
  obtain ⟨t, ht, rfl⟩ := List.mem_map.mp hk
  exact hp t ht

theorem tracked_anon {L L' : PythonLexer} (h1 : L.symbolTable.Reachable)
    (h2 : ∀ b ∈ L.addedBuiltins, L.symbolTable.count b = true)
    (h3 : Ordered L.tokenKinds L.symbolTable) (ha : Anon L L') : Tracked L' := by
  refine tracked_of_ordered ?_ ?_ (ordered_anon h3 ha)
  · rw [ha.1]
    exact h1
  · rw [ha.1, ha.2.1]
    exact h2

theorem addIdentifier_of_count {t : SymbolTable} {a : List Char} (h : t.count a = true) :
    (t.addIdentifier a).2 = t := by
  unfold SymbolTable.count at h
  obtain ⟨e, he⟩ := Option.isSome_iff_exists.mp h
  rw [SymbolTable.addIdentifier_of_find_some t a e he]

theorem identifierToken_tracked (M : PythonLexer) (ident : List Char)
    (h1 : M.symbolTable.Reachable)
    (h2 : ∀ b ∈ M.addedBuiltins, M.symbolTable.count b = true)
    (h3 : Ordered M.tokenKinds M.symbolTable) : Tracked (identifierToken M ident) := by
  have hreg := ordered_append_reg h3 h1 ident
  have hcount : ∀ b ∈ M.addedBuiltins, (M.symbolTable.addIdentifier ident).2.count b = true :=
    fun b hb => (SymbolTable.count_addIdentifier_iff _ _ _).mpr (Or.inl (h2 b hb))
  unfold identifierToken
  dsimp only
  split
  · exact tracked_anon h1 h2 h3 ⟨rfl, rfl, [_], rfl, by simp⟩
  · split
    · split
      · refine tracked_of_ordered (.set _ _ _ _ (.add _ _ h1)) ?_ ?_
        · intro b hb
          show ((M.symbolTable.addIdentifier ident).2.setIdentifierInfo _ _ _).count b = true
          rw [SymbolTable.count_setIdentifierInfo_eq]
          have hb' : b ∈ M.addedBuiltins ++ [ident] := hb
          rcases List.mem_append.mp hb' with hb' | hb'
          · exact hcount b hb'
          · rw [List.mem_singleton.mp hb']
            exact (SymbolTable.count_addIdentifier_iff _ _ _).mpr (Or.inr rfl)
        · show Ordered (M.addToken ident TokenType.IDENTIFIER).tokenKinds
            ((M.symbolTable.addIdentifier ident).2.setIdentifierInfo _ _ _)
          rw [tokenKinds_addToken]
          exact ordered_set hreg _ _ _
      · rename_i hc
        have hin : ident ∈ M.addedBuiltins := by
          simpa using hc
        refine tracked_of_ordered h1 h2 ?_
        rw [tokenKinds_addToken]
        have := hreg
        rwa [addIdentifier_of_count (h2 ident hin)] at this
    · split
      · rename_i hcall
        refine tracked_of_ordered (.add _ _ h1) hcount ?_
        rw [tokenKinds_addToken]
        exact hreg
      · rename_i hcall
        have hparen : firstAfterSpace M.rest = '(' := by
          simpa [firstAfterSpace] using hcall
        refine ⟨h1, h2, true, fun _ => hparen, ?_⟩
        rw [tokenKinds_addToken]
        simp only [if_true, List.append_assoc, List.singleton_append]
        exact ordered_append_call h3 ident

theorem processIdentifier_tracked (L : PythonLexer) (h1 : L.symbolTable.Reachable)
    (h2 : ∀ b ∈ L.addedBuiltins, L.symbolTable.count b = true)
    (h3 : Ordered L.tokenKinds L.symbolTable) : Tracked (processIdentifier L) := by
  have word : ∀ (X : PythonLexer) (ident : List Char), Anon L X →
      Tracked (identifierWord X ident) := by
    intro X ident hX
    have hM : Anon L (takeWord X).2 := anon_trans hX (inert_advanceN (inert_refl X) _).anon
    unfold identifierWord
    refine identifierToken_tracked _ _ ?_ ?_ (ordered_anon h3 hM)
    · rw [hM.1]
      exact h1
    · rw [hM.1, hM.2.1]
      exact h2
  unfold processIdentifier
  dsimp only
  split
  · exact tracked_anon h1 h2 h3 (inert_addError (inert_takeWord (inert_refl L)) _).anon
  · split
    · split
      · exact tracked_anon h1 h2 h3
          (inert_addError (inert_takeWord (inert_advance (inert_advance (inert_refl L)))) _).anon
      · exact word _ _ (inert_advance (inert_refl L)).anon
    · exact word _ _ (inert_refl L).anon

theorem processTypeAnnotation_tracked (L : PythonLexer) (h1 : L.symbolTable.Reachable)
    (h2 : ∀ b ∈ L.addedBuiltins, L.symbolTable.count b = true)
    (h3 : Ordered L.tokenKinds L.symbolTable) :
    processTypeAnnotation L = (false, L) ∨
      (( processTypeAnnotation L).1 = true ∧ Tracked ( processTypeAnnotation L).2) := by
  unfold processTypeAnnotation
  dsimp only
  split
  · split
    · split
      · right
        refine ⟨rfl, ?_⟩
        generalize hi : List.takeWhile isWordChar (advanceN _ (advanceN _ L)).rest = ident
        have hM : Anon L ((L.advanceN (L.rest.takeWhile isWordChar).length).advanceN
            ((L.advanceN (L.rest.takeWhile isWordChar).length).rest.takeWhile
              isInlineSpace).length |>.advanceN ident.length) :=
          (inert_advanceN (inert_advanceN (inert_advanceN (inert_refl L) _) _) _).anon
        generalize ((L.advanceN (L.rest.takeWhile isWordChar).length).advanceN
            ((L.advanceN (L.rest.takeWhile isWordChar).length).rest.takeWhile
              isInlineSpace).length |>.advanceN ident.length) = M at hM
        have ho := ordered_anon h3 hM
        have hr : M.symbolTable.Reachable := by rw [hM.1]; exact h1
        refine tracked_of_ordered (.add _ _ hr) ?_ ?_
        · intro b hb
          have hb' : b ∈ L.addedBuiltins := by
            rw [← hM.2.1]
            exact hb
          refine (SymbolTable.count_addIdentifier_iff _ _ _).mpr (Or.inl ?_)
          show M.symbolTable.count b = true
          rw [hM.1]
          exact h2 b hb'
        · exact ordered_append_reg ho hr ident |> fun h => by
            simpa [tokenKinds] using h
      · left; rfl
    · left; rfl
  · left; rfl

end PythonLexer
end PyAnalyzer

namespace PyAnalyzer
namespace PythonLexer

theorem inlineSpace_cases (c : Char) (h : isInlineSpace c = true) :
    c = ' ' ∨ c = '\r' ∨ c = '\t' ∨ c = Char.ofNat 11 ∨ c = Char.ofNat 12 := by
  simp only [isInlineSpace, isspace, Bool.and_eq_true, Bool.or_eq_true, beq_iff_eq,
    decide_eq_true_eq, bne_iff_ne] at h
  obtain ⟨h1 | ⟨h2, h3⟩, hn⟩ := h
  · exact Or.inl h1
  · have l : 9 ≤ c.toNat := h2
    have u : c.toNat ≤ 13 := h3
    have e : c = Char.ofNat c.toNat := (Char.ofNat_toNat c).symm
    have hn' : c.toNat ≠ 10 := by
      intro h10
      apply hn
      rw [e, h10]
    rcases (by omega : c.toNat = 9 ∨ c.toNat = 11 ∨ c.toNat = 12 ∨ c.toNat = 13) with
      h | h | h | h
    · right; right; left
      rw [e, h]
    · right; right; right; left
      rw [e, h]
    · right; right; right; right
      rw [e, h]
    · right; left
      rw [e, h]

theorem tokenizeStep_inlineSpace (L : PythonLexer) (h : isInlineSpace L.current = true) :
    tokenizeStep L = L.advance := by
  have hc := inlineSpace_cases _ h
  have hn : L.current ≠ '\n' := by
    intro e
    rw [e] at h
    exact absurd h (by decide)
  unfold tokenizeStep
  dsimp only
  rw [if_neg hn, if_pos hc]

/-- After an identifier that was taken for a call, the loop skips the
spaces and adds the token `(`. -/
theorem tokenizeStep_tracked_pending (L : PythonLexer) (h1 : L.symbolTable.Reachable)
    (h2 : ∀ b ∈ L.addedBuiltins, L.symbolTable.count b = true)
    (hp : firstAfterSpace L.rest = '(')
    (h3 : Ordered (L.tokenKinds ++ [openParen]) L.symbolTable) : Tracked (tokenizeStep L) := by
  cases hr : L.rest with
  | nil =>
    rw [hr] at hp
    exact absurd hp (by decide)
  | cons c cs =>
    have hcur : L.current = c := current_of_rest_cons hr
    by_cases hs : isInlineSpace c = true
    · rw [tokenizeStep_inlineSpace L (by rw [hcur]; exact hs)]
      refine ⟨by simpa using h1, by simpa using h2, true, fun _ => ?_, by simpa using h3⟩
      rw [rest_advance, hr, List.tail_cons]
      rw [hr] at hp
      simpa [firstAfterSpace, List.dropWhile_cons, hs] using hp
    · have hc : c = '(' := by
        rw [hr] at hp
        simpa [firstAfterSpace, List.dropWhile_cons, hs] using hp
      rw [tokenizeStep_delimiter L (by rw [hcur, hc]; decide) (by rw [hcur, hc]; decide),
        hcur, hc]
      refine tracked_of_ordered (by simpa using h1) (by simpa using h2) ?_
      rw [tokenKinds_advance, tokenKinds_addToken]
      simpa using h3

theorem tokenizeStep_tracked (L : PythonLexer) (h : Tracked L) : Tracked (tokenizeStep L) := by
  obtain ⟨h1, h2, pend, hp, h3⟩ := h
  cases pend with
  | true => exact tokenizeStep_tracked_pending L h1 h2 (hp rfl) (by simpa using h3)
  | false =>
    have h3' : Ordered L.tokenKinds L.symbolTable := by simpa using h3
    unfold tokenizeStep
    dsimp only
    split
    · exact tracked_anon h1 h2 h3' (anon_trans
        (inert_advance (inert_addToken (inert_refl L) _ _ (by decide))).anon
        (handleIndentation_anon _))
    split
    · exact tracked_anon h1 h2 h3' (inert_advance (inert_refl L)).anon
    split
    · exact tracked_anon h1 h2 h3' (processComment_inert L).anon
    split
    · exact tracked_anon h1 h2 h3' (processNumber_inert L).anon
    split
    · exact tracked_anon h1 h2 h3' (processString_inert L _).anon
    split
    · rcases processTypeAnnotation_tracked L h1 h2 h3' with hta | ⟨hta, htr⟩
      · rw [hta]
        exact processIdentifier_tracked L h1 h2 h3'
      · rw [hta]
        exact htr
    split
    · exact tracked_anon h1 h2 h3'
        (inert_addError (inert_takeWord (inert_advance (inert_refl L))) _).anon
    split
    · exact tracked_anon h1 h2 h3' (processOperator_inert L).anon
    split
    · exact tracked_anon h1 h2 h3'
        (inert_advance (inert_addToken (inert_refl L) _ _ (by decide))).anon
    · exact tracked_anon h1 h2 h3'
        (inert_addError (inert_takeWord (inert_advance (inert_refl L))) _).anon

theorem tokenizeLoop_tracked (fuel : Nat) (L L' : PythonLexer)
    (h : tokenizeLoop fuel L = some L') (ht : Tracked L) :
    Tracked L' ∧ L'.current = NUL := by
  induction fuel generalizing L with
  | zero =>
    unfold tokenizeLoop at h
    split at h
    · injection h with h
      rw [← h]
      exact ⟨ht, ‹_›⟩
    · exact absurd h (by simp)
  | succ fuel ih =>
    unfold tokenizeLoop at h
    split at h
    · injection h with h
      rw [← h]
      exact ⟨ht, ‹_›⟩
    · exact ih _ h (tokenizeStep_tracked L ht)

/-- When the main loop has ended no call is pending. -/
theorem ordered_of_tracked_end (L : PythonLexer) (h : Tracked L) (hc : L.current = NUL) :
    L.symbolTable.Reachable ∧ Ordered L.tokenKinds L.symbolTable := by
  obtain ⟨h1, _, pend, hp, h3⟩ := h
  refine ⟨h1, ?_⟩
  cases pend with
  | false => simpa using h3
  | true =>
    exfalso
    have hparen := hp rfl
    cases hr : L.rest with
    | nil =>
      rw [hr] at hparen
      exact absurd hparen (by decide)
    | cons c cs =>
      have hcur : c = NUL := by
        rw [← hc]
        exact (current_of_rest_cons hr).symm
      rw [hr, hcur] at hparen
      have hs : isInlineSpace NUL = false := by decide
      have : firstAfterSpace (NUL :: cs) = NUL := by
        simp [firstAfterSpace, List.dropWhile_cons, hs]
      rw [this] at hparen
      exact absurd hparen (by decide)

theorem singleTokenShortcut_ordered (kinds : List (List Char × TokenType))
    (L L' : PythonLexer) (lhs : List Char) (t : Token)
    (h : singleTokenShortcut L lhs t = some L') (ho : Ordered kinds L.symbolTable) :
    Ordered kinds L'.symbolTable := by
  unfold singleTokenShortcut at h
  split at h
  all_goals (try split at h)
  all_goals (try (injection h with h; subst h; first | exact ordered_set ho _ _ _ | exact ho))
  all_goals (try exact absurd h (by simp))

theorem foldAssignment_ordered (F : DoubleArith) (kinds : List (List Char × TokenType))
    (L : PythonLexer) (lhs : List Char) (expr : List Token)
    (ho : Ordered kinds L.symbolTable) :
    Ordered kinds (foldAssignment F L lhs expr).symbolTable := by
  unfold foldAssignment
  split
  · exact ordered_set ho _ _ _
  · exact ordered_set ho _ _ _

theorem inferAssignment_ordered (F : DoubleArith) (kinds : List (List Char × TokenType))
    (L : PythonLexer) (lhs : List Char) (expr : List Token)
    (ho : Ordered kinds L.symbolTable) :
    Ordered kinds (inferAssignment F L lhs expr).symbolTable := by
  unfold inferAssignment
  split
  · split
    · rename_i h
      exact singleTokenShortcut_ordered _ _ _ _ _ h ho
    · exact foldAssignment_ordered _ _ _ _ _ ho
  · exact foldAssignment_ordered _ _ _ _ _ ho

theorem processAssignmentsStep_ordered (F : DoubleArith)
    (kinds : List (List Char × TokenType)) (i : Nat) (L : PythonLexer)
    (ho : Ordered kinds L.symbolTable) :
    Ordered kinds (processAssignmentsStep F i L).2.symbolTable := by
  unfold processAssignmentsStep
  dsimp only
  split_ifs
  all_goals first
    | exact ho
    | exact ordered_set ho _ _ _
    | exact inferAssignment_ordered _ _ _ _ _ ho

theorem processAssignmentsLoop_ordered (F : DoubleArith)
    (kinds : List (List Char × TokenType)) (fuel i : Nat) (L L' : PythonLexer)
    (h : processAssignmentsLoop F fuel i L = some L') (ho : Ordered kinds L.symbolTable) :
    Ordered kinds L'.symbolTable := by
  induction fuel generalizing i L with
  | zero =>
    unfold processAssignmentsLoop at h
    split at h
    · exact absurd h (by simp)
    · injection h with h
      rw [← h]
      exact ho
  | succ fuel ih =>
    unfold processAssignmentsLoop at h
    split at h
    · exact ih _ _ h (processAssignmentsStep_ordered F kinds i L ho)
    · injection h with h
      rw [← h]
      exact ho

theorem tracked_create (source : List Char) (stack : List Nat) :
    Tracked (create source stack) := by
  refine tracked_of_ordered .empty (fun b hb => absurd hb (List.not_mem_nil b)) ⟨?_, ?_⟩
  · intro b hb
    exact absurd hb (by simp [create, SymbolTable.count, SymbolTable.find])
  · intro i a hget
    exact absurd hget (by simp [create, tokenKinds])

/-- When `tokenize` returns, the tokens and the symbol table are related by
`Ordered`. -/
theorem tokenize_ordered (F : DoubleArith) (source : List Char) (stack : List Nat) :
    ∃ L', tokenize F (create source stack) = some L' ∧
      Ordered L'.tokenKinds L'.symbolTable := by
  obtain ⟨L', _, _, hL', _⟩ := tokenize_shape F (create source stack)
  refine ⟨L', hL', ?_⟩
  have hL := hL'
  unfold tokenize at hL
  cases h1 : tokenizeLoop (create source stack).rest.length (create source stack) with
  | none => rw [h1] at hL; exact absurd hL (by simp)
  | some L1 =>
    rw [h1] at hL
    obtain ⟨ht, hc⟩ := tokenizeLoop_tracked _ _ L1 h1 (tracked_create source stack)
    obtain ⟨_, ho⟩ := ordered_of_tracked_end L1 ht hc
    have ho' : Ordered (L1.addToken [] TokenType.ENDOFFILE).tokenKinds
        (L1.addToken [] TokenType.ENDOFFILE).symbolTable := by
      rw [tokenKinds_addToken]
      exact ordered_append_plain ho _ (by simp)
    have hfin := processAssignmentsLoop_ordered F _ _ 0 _ L' hL ho'
    have htok := (processAssignmentsLoop_indentStack F _ 0 _ L' hL).2
    have hk : L'.tokenKinds = (L1.addToken [] TokenType.ENDOFFILE).tokenKinds := by
      unfold tokenKinds
      rw [htok]
    rw [hk]
    exact hfin

end PythonLexer
end PyAnalyzer

namespace PyAnalyzer
namespace PythonLexer

/-- C19 (amended): when `tokenize` returns, for any two names A and B of
the symbol table, if an IDENTIFIER token with lexeme A that is not directly
followed by the token `(` occurs before every IDENTIFIER token with lexeme
B, then id(A) < id(B). -/
theorem ids_follow_tokens (F : DoubleArith) (source : List Char) (stack : List Nat) :
    ∃ L', tokenize F (create source stack) = some L' ∧
      ∀ (A B : List Char) (i : Nat),
        L'.symbolTable.count A = true → L'.symbolTable.count B = true →
        L'.tokenKinds[i]? = some (A, TokenType.IDENTIFIER) →
        L'.tokenKinds[i + 1]? ≠ some openParen →
        (∀ j, j ≤ i → L'.tokenKinds[j]? ≠ some (B, TokenType.IDENTIFIER)) →
        L'.symbolTable.getId A < L'.symbolTable.getId B := by
  obtain ⟨L', h1, h2⟩ := tokenize_ordered F source stack
  exact ⟨L', h1, fun A B i _ hB hi hn hj => (h2.2 i A hi hn).2 B hB hj⟩

/-- The statement of `ids_follow_tokens` on the source "a = b", at the names
`a` and `b` and the first token: the ID of `a` is less than that of `b`. -/
theorem ids_follow_tokens_witness :
    ∃ L', tokenize exactArith (create "a = b".toList [0]) = some L' ∧
      L'.tokenKinds = [("a".toList, TokenType.IDENTIFIER), ("=".toList, TokenType.EQUALOPERATOR),
        ("b".toList, TokenType.IDENTIFIER), ([], TokenType.ENDOFFILE)] ∧
      L'.symbolTable.count "a".toList = true ∧ L'.symbolTable.count "b".toList = true ∧
      L'.symbolTable.getId "a".toList < L'.symbolTable.getId "b".toList := by
  obtain ⟨L', h, hall⟩ := ids_follow_tokens exactArith "a = b".toList [0]
  have hrun : ∃ X, tokenize exactArith (create "a = b".toList [0]) = some X ∧
      X.tokenKinds = [("a".toList, TokenType.IDENTIFIER), ("=".toList, TokenType.EQUALOPERATOR),
        ("b".toList, TokenType.IDENTIFIER), ([], TokenType.ENDOFFILE)] ∧
      X.symbolTable.count "a".toList = true ∧ X.symbolTable.count "b".toList = true :=
    ⟨_, rfl, rfl, rfl, rfl⟩
  obtain ⟨X, hX, hk, ca, cb⟩ := hrun
  obtain rfl : L' = X := Option.some.inj (h.symm.trans hX)
  refine ⟨L', h, hk, ca, cb, hall "a".toList "b".toList 0 ca cb (by rw [hk]; rfl)
    (by rw [hk]; decide) ?_⟩
  intro j hj
  obtain rfl : j = 0 := by omega
  rw [hk]
  decide

/-- C19 (counterexample): in the source "f()", "g", "f" (one per line) the
first `f` is followed by `(` and is not registered, so `g` gets the ID 1 and
`f`, whose first IDENTIFIER token comes before that of `g`, the ID 2. -/
theorem call_registers_later :
    ∃ L', tokenize exactArith (create "f()\ng\nf\n".toList [0]) = some L' ∧
      L'.tokenKinds = [("f".toList, TokenType.IDENTIFIER), ("(".toList, TokenType.DELIMITER),
        (")".toList, TokenType.DELIMITER), ("\n".toList, TokenType.NEWLINE),
        ("g".toList, TokenType.IDENTIFIER), ("\n".toList, TokenType.NEWLINE),
        ("f".toList, TokenType.IDENTIFIER), ("\n".toList, TokenType.NEWLINE),
        ([], TokenType.ENDOFFILE)] ∧
      L'.symbolTable.count "f".toList = true ∧ L'.symbolTable.count "g".toList = true ∧
      L'.symbolTable.getId "f".toList = 2 ∧ L'.symbolTable.getId "g".toList = 1 :=
  ⟨_, rfl, rfl, rfl, rfl, rfl, rfl⟩

end PythonLexer
end PyAnalyzer

namespace PyAnalyzer
namespace PythonLexer

/-! ## The inference of the post-pass on one assignment -/

theorem getDataType_setIdentifierInfo (t : SymbolTable) (a dataType value : List Char)
    (h : t.count a = true) :
    (t.setIdentifierInfo a dataType value).getDataType a = dataType ∧
      (t.setIdentifierInfo a dataType value).getValue a = value := by
  unfold SymbolTable.count at h
  obtain ⟨e, he⟩ := Option.isSome_iff_exists.mp h
  unfold SymbolTable.getDataType SymbolTable.getValue
  rw [SymbolTable.find_setIdentifierInfo_self, he]
  exact ⟨rfl, rfl⟩

/-- One iteration of the post-pass at an assignment `name = expr` whose
lines have no lexical error: the inference runs on `expr` and the loop goes
on at the token that ends the line. -/
theorem processAssignmentsStep_infer (F : DoubleArith) (L : PythonLexer) (i : Nat)
    (tn te tz : Token) (expr tail : List Token)
    (h0 : L.tokens.get? i = some tn) (hn : tn.type = TokenType.IDENTIFIER)
    (h1 : L.tokens.get? (i + 1) = some te) (he : te.type = TokenType.EQUALOPERATOR)
    (hdrop : L.tokens.drop (i + 2) = expr ++ tz :: tail)
    (hexpr : ∀ t ∈ expr, endsAssignment t = false) (hz : endsAssignment tz = true)
    (hclean : ∀ err ∈ L.errors, err.line < tn.line ∨ tz.line < err.line) :
    processAssignmentsStep F i L =
      (i + 2 + expr.length, inferAssignment F L tn.lexeme expr) := by
  have hx : (L.tokens.drop (i + 2)).takeWhile (fun t => !endsAssignment t) = expr := by
    rw [hdrop]
    exact takeWhile_append_cons_stop _ expr tz tail (fun t ht => by simp [hexpr t ht])
      (by simp [hz])
  have hlen : i + 2 + expr.length < L.tokens.length := by
    have := congrArg List.length hdrop
    simp only [List.length_drop, List.length_append, List.length_cons] at this
    omega
  have hj : L.tokens.get? (i + 2 + expr.length) = some tz := by
    have h := congrArg (fun l => l.get? expr.length) hdrop
    simp only [List.get?_eq_getElem?, List.getElem?_drop] at h
    rw [List.get?_eq_getElem?, h, List.getElem?_append_right (le_refl _)]
    simp
  have hbad : (L.errors.any fun err =>
      decide (err.line ≥ tn.line) && decide (err.line ≤ tz.line)) = false := by
    rw [List.any_eq_false]
    intro err herr
    rcases hclean err herr with h | h
    · simp [h]
    · simp [h]
  unfold processAssignmentsStep
  dsimp only
  rw [hx, h0, h1, hj]
  simp only [Option.map_some', hn, he, Option.some.injEq, Option.getD_some]
  rw [if_neg (by simp), if_pos (by simp), if_pos hlen]
  simp only [hbad, Bool.false_eq_true, if_false]

/-- The shortcut of the post-pass agrees with the specification of the
single literal. -/
theorem inferAssignment_literal (F : DoubleArith) (L : PythonLexer) (lhs : List Char)
    (t : Token) (d v : List Char) (h : specLiteralEntry t = some (d, v)) :
    inferAssignment F L lhs [t] =
      { L with symbolTable := L.symbolTable.setIdentifierInfo lhs d v } := by
  unfold specLiteralEntry at h
  unfold inferAssignment singleTokenShortcut
  split_ifs at h with c1 c2 c3 c4 c5
  · injection h with h
    injection h with hd hv
    subst hd hv
    simp only [c1]
  · injection h with h
    injection h with hd hv
    subst hd hv
    simp only [c2.1, c2.2, if_true]
  · injection h with h
    injection h with hd hv
    subst hd hv
    rcases c3 with c | c | c <;> simp only [c]
  · injection h with h
    injection h with hd hv
    subst hd hv
    have hf : (t.lexeme.contains '.' || t.lexeme.contains 'e' || t.lexeme.contains 'E') = true := by
      simpa [List.contains_iff_exists_mem_beq, or_assoc] using c5
    simp only [c4, hf, if_true]
  · injection h with h
    injection h with hd hv
    subst hd hv
    have hf : (t.lexeme.contains '.' || t.lexeme.contains 'e' || t.lexeme.contains 'E') = false := by
      rw [Bool.eq_false_iff]
      intro hc
      apply c5
      simpa [List.contains_iff_exists_mem_beq, or_assoc] using hc
    simp only [c4, hf, Bool.false_eq_true, if_false]

end PythonLexer
end PyAnalyzer

namespace PyAnalyzer
namespace PythonLexer

theorem evalRPNLoop_append (F : DoubleArith) (st : SymbolTable) (pre rest : List Token)
    (stack : List F.D) :
    evalRPNLoop F st (pre ++ rest) stack =
      match evalRPNLoop F st pre stack with
      | .ok s => evalRPNLoop F st rest s
      | .error e => .error e := by
  induction pre generalizing stack with
  | nil => rfl
  | cons t pre ih =>
    simp only [List.cons_append, evalRPNLoop]
    split
    · exact ih _
    · rfl
    · split
      · exact ih _
      · split
        · split
          · exact ih _
          · rfl
        · rfl

/-- An evaluation that reaches `/` or `%` with a zero right operand throws
the message of the zero division. -/
theorem evalRPN_zero_division (F : DoubleArith) (st : SymbolTable) (pre post : List Token)
    (op : Token) (a b : F.D) (stack : List F.D)
    (hpre : evalRPNLoop F st pre [] = .ok (b :: a :: stack))
    (hop : op.type = TokenType.DIVIDEOPERATOR ∨ op.type = TokenType.PERCENTAGEOPERATOR)
    (hb : F.isZero b = true) :
    evalRPN F st (pre ++ op :: post) = .error (zeroDivisionMessage op.type) := by
  unfold evalRPN
  rw [evalRPNLoop_append, hpre]
  rcases hop with h | h
  · simp [evalRPNLoop, operandValue, applyOperator, h, hb, zeroDivisionMessage]
  · simp [evalRPNLoop, operandValue, applyOperator, h, hb, zeroDivisionMessage]

end PythonLexer
end PyAnalyzer

namespace PyAnalyzer
namespace SyntaxAnalyzer

/-! ## The parser never reads the errors it has recorded -/

@[simp] theorem tokens_prepend (es : List SyntaxError) (S : SyntaxAnalyzer) :
    (S.prepend es).tokens = S.tokens := rfl

@[simp] theorem pos_prepend (es : List SyntaxError) (S : SyntaxAnalyzer) :
    (S.prepend es).pos = S.pos := rfl

@[simp] theorem currentToken_prepend (es : List SyntaxError) (S : SyntaxAnalyzer) :
    (S.prepend es).currentToken = S.currentToken := rfl

@[simp] theorem isAtEnd_prepend (es : List SyntaxError) (S : SyntaxAnalyzer) :
    (S.prepend es).isAtEnd = S.isAtEnd := rfl

@[simp] theorem advance_prepend (es : List SyntaxError) (S : SyntaxAnalyzer) :
    (S.prepend es).advance = S.advance.prepend es := by
  unfold advance
  rw [isAtEnd_prepend]
  split <;> rfl

@[simp] theorem skipWhile_prepend (es : List SyntaxError) (S : SyntaxAnalyzer)
    (p : Token → Bool) : (S.prepend es).skipWhile p = (S.skipWhile p).prepend es := rfl

@[simp] theorem addSyntaxError_prepend (es : List SyntaxError) (S : SyntaxAnalyzer)
    (msg : List Char) (line column : Int) :
    (S.prepend es).addSyntaxError msg line column =
      (S.addSyntaxError msg line column).prepend es := by
  simp [addSyntaxError, prepend, List.append_assoc]

@[simp] theorem errorHere_prepend (es : List SyntaxError) (S : SyntaxAnalyzer) (msg : String) :
    (S.prepend es).errorHere msg = (S.errorHere msg).prepend es := by
  unfold errorHere
  rw [addSyntaxError_prepend]
  rfl

@[simp] theorem matchLexeme_prepend_fst (es : List SyntaxError) (S : SyntaxAnalyzer)
    (l : String) : ((S.prepend es).matchLexeme l).1 = (S.matchLexeme l).1 := by
  unfold matchLexeme
  rw [isAtEnd_prepend, currentToken_prepend]
  split <;> rfl

@[simp] theorem matchLexeme_prepend_snd (es : List SyntaxError) (S : SyntaxAnalyzer)
    (l : String) : ((S.prepend es).matchLexeme l).2 = (S.matchLexeme l).2.prepend es := by
  unfold matchLexeme
  rw [isAtEnd_prepend, currentToken_prepend, advance_prepend]
  split <;> rfl

@[simp] theorem matchAny_prepend (es : List SyntaxError) (S : SyntaxAnalyzer)
    (ls : List String) :
    (S.prepend es).matchAny ls = ((S.matchAny ls).1, (S.matchAny ls).2.prepend es) := by
  induction ls with
  | nil => rfl
  | cons l ls ih =>
    unfold matchAny
    rw [matchLexeme_prepend_fst, matchLexeme_prepend_snd]
    split
    · rfl
    · exact ih

@[simp] theorem checkIndentation_prepend_fst (es : List SyntaxError) (S : SyntaxAnalyzer)
    (stmtType : String) :
    ((S.prepend es).checkIndentation stmtType).1 = (S.checkIndentation stmtType).1 := by
  unfold checkIndentation
  simp only [skipWhile_prepend, currentToken_prepend]
  split <;> rfl

@[simp] theorem checkIndentation_prepend_snd (es : List SyntaxError) (S : SyntaxAnalyzer)
    (stmtType : String) :
    ((S.prepend es).checkIndentation stmtType).2 =
      (S.checkIndentation stmtType).2.prepend es := by
  unfold checkIndentation
  simp only [skipWhile_prepend, currentToken_prepend, errorHere_prepend, advance_prepend]
  split <;> rfl

@[simp] theorem skipToColonOrNewline_prepend (es : List SyntaxError) (S : SyntaxAnalyzer) :
    (S.prepend es).skipToColonOrNewline = S.skipToColonOrNewline.prepend es := rfl

@[simp] theorem skipToNewline_prepend (es : List SyntaxError) (S : SyntaxAnalyzer) :
    (S.prepend es).skipToNewline = S.skipToNewline.prepend es := rfl

@[simp] theorem nextIsAssignOp_prepend (es : List SyntaxError) (S : SyntaxAnalyzer) :
    nextIsAssignOp (S.prepend es) = nextIsAssignOp S := rfl

@[simp] theorem lift_ok {α : Type} (es : List SyntaxError) (a : α) (S : SyntaxAnalyzer) :
    lift es (.ok (a, S)) = .ok (a, S.prepend es) := rfl

@[simp] theorem lift_error {α : Type} (es : List SyntaxError) (f : Fault) :
    lift es (.error f : Except Fault (α × SyntaxAnalyzer)) = .error f := rfl

theorem bind_frame {α β : Type} (es : List SyntaxError)
    (x' x : Except Fault (α × SyntaxAnalyzer))
    (f g : α × SyntaxAnalyzer → Except Fault (β × SyntaxAnalyzer))
    (hx : x' = lift es x) (h : ∀ r S', f (r, prepend es S') = lift es (g (r, S'))) :
    (x' >>= f) = lift es (x >>= g) := by
  subst hx
  rcases x with e | ⟨r, S'⟩
  · rfl
  · exact h r S'

theorem pure_frame {α : Type} (es : List SyntaxError) (a : α) (S : SyntaxAnalyzer) :
    (pure (a, prepend es S) : Except Fault (α × SyntaxAnalyzer)) = lift es (pure (a, S)) := rfl

/-- The frame property of the expression parsers. -/
theorem expression_frame (es : List SyntaxError) (fuel : Nat) :
    (∀ S, parseFactor fuel (S.prepend es) = lift es (parseFactor fuel S)) ∧
    (∀ skipWs args S, parseArgs fuel skipWs args (S.prepend es) =
      lift es (parseArgs fuel skipWs args S)) ∧
    (∀ left S, parseTermLoop fuel left (S.prepend es) = lift es (parseTermLoop fuel left S)) ∧
    (∀ S, parseTerm fuel (S.prepend es) = lift es (parseTerm fuel S)) ∧
    (∀ left S, parseExpressionLoop fuel left (S.prepend es) =
      lift es (parseExpressionLoop fuel left S)) ∧
    (∀ S, parseExpression fuel (S.prepend es) = lift es (parseExpression fuel S)) := by
  induction fuel with
  | zero => exact ⟨fun _ => rfl, fun _ _ _ => rfl, fun _ _ => rfl, fun _ => rfl, fun _ _ => rfl,
      fun _ => rfl⟩
  | succ fuel ih =>
    obtain ⟨ih1, ih2, ih3, ih4, ih5, ih6⟩ := ih
    refine ⟨?_, ?_, ?_, ?_, ?_, ?_⟩
    · intro S
      simp only [parseFactor, skipWhile_prepend, matchLexeme_prepend_fst, matchLexeme_prepend_snd, currentToken_prepend,
          advance_prepend, errorHere_prepend, addSyntaxError_prepend, isAtEnd_prepend,
          matchAny_prepend, checkIndentation_prepend_fst, checkIndentation_prepend_snd,
          skipToColonOrNewline_prepend, skipToNewline_prepend, nextIsAssignOp_prepend, ih1, ih2, ih3, ih4, ih5, ih6]
      repeat' first
        | with_reducible rfl
        | with_reducible exact pure_frame es _ _
        | with_reducible exact (lift_ok es _ _).symm
        | with_reducible refine bind_frame es _ _ _ _ ?_ (fun r S' => ?_)
        | simp only [skipWhile_prepend, matchLexeme_prepend_fst, matchLexeme_prepend_snd, currentToken_prepend,
          advance_prepend, errorHere_prepend, addSyntaxError_prepend, isAtEnd_prepend,
          matchAny_prepend, checkIndentation_prepend_fst, checkIndentation_prepend_snd,
          skipToColonOrNewline_prepend, skipToNewline_prepend, nextIsAssignOp_prepend, ih1, ih2, ih3, ih4, ih5, ih6]
        | split
    · intro skipWs args S
      cases skipWs
      all_goals
        simp only [parseArgs, skipWhile_prepend, matchLexeme_prepend_fst, matchLexeme_prepend_snd, currentToken_prepend,
          advance_prepend, errorHere_prepend, addSyntaxError_prepend, isAtEnd_prepend,
          matchAny_prepend, checkIndentation_prepend_fst, checkIndentation_prepend_snd,
          skipToColonOrNewline_prepend, skipToNewline_prepend, nextIsAssignOp_prepend, ih1, ih2, ih3, ih4, ih5, ih6]
        repeat' first
          | with_reducible rfl
          | with_reducible exact pure_frame es _ _
          | with_reducible exact (lift_ok es _ _).symm
          | with_reducible refine bind_frame es _ _ _ _ ?_ (fun r S' => ?_)
          | simp only [skipWhile_prepend, matchLexeme_prepend_fst, matchLexeme_prepend_snd, currentToken_prepend,
          advance_prepend, errorHere_prepend, addSyntaxError_prepend, isAtEnd_prepend,
          matchAny_prepend, checkIndentation_prepend_fst, checkIndentation_prepend_snd,
          skipToColonOrNewline_prepend, skipToNewline_prepend, nextIsAssignOp_prepend, ih1, ih2, ih3, ih4, ih5, ih6]
          | split
    · intro left S
      simp only [parseTermLoop, skipWhile_prepend, matchLexeme_prepend_fst, matchLexeme_prepend_snd, currentToken_prepend,
          advance_prepend, errorHere_prepend, addSyntaxError_prepend, isAtEnd_prepend,
          matchAny_prepend, checkIndentation_prepend_fst, checkIndentation_prepend_snd,
          skipToColonOrNewline_prepend, skipToNewline_prepend, nextIsAssignOp_prepend, ih1, ih2, ih3, ih4, ih5, ih6]
      rcases (S.skipWhile isWsOrComment).matchAny ["*", "/", "%"] with ⟨_ | op, S1⟩
      all_goals
        repeat' first
          | with_reducible rfl
          | with_reducible exact pure_frame es _ _
          | with_reducible exact (lift_ok es _ _).symm
          | with_reducible refine bind_frame es _ _ _ _ ?_ (fun r S' => ?_)
          | simp only [skipWhile_prepend, matchLexeme_prepend_fst, matchLexeme_prepend_snd, currentToken_prepend,
          advance_prepend, errorHere_prepend, addSyntaxError_prepend, isAtEnd_prepend,
          matchAny_prepend, checkIndentation_prepend_fst, checkIndentation_prepend_snd,
          skipToColonOrNewline_prepend, skipToNewline_prepend, nextIsAssignOp_prepend, ih1, ih2, ih3, ih4, ih5, ih6]
          | split
    · intro S
      simp only [parseTerm, skipWhile_prepend, matchLexeme_prepend_fst, matchLexeme_prepend_snd, currentToken_prepend,
          advance_prepend, errorHere_prepend, addSyntaxError_prepend, isAtEnd_prepend,
          matchAny_prepend, checkIndentation_prepend_fst, checkIndentation_prepend_snd,
          skipToColonOrNewline_prepend, skipToNewline_prepend, nextIsAssignOp_prepend, ih1, ih2, ih3, ih4, ih5, ih6]
      repeat' first
        | with_reducible rfl
        | with_reducible exact pure_frame es _ _
        | with_reducible exact (lift_ok es _ _).symm
        | with_reducible refine bind_frame es _ _ _ _ ?_ (fun r S' => ?_)
        | simp only [skipWhile_prepend, matchLexeme_prepend_fst, matchLexeme_prepend_snd, currentToken_prepend,
          advance_prepend, errorHere_prepend, addSyntaxError_prepend, isAtEnd_prepend,
          matchAny_prepend, checkIndentation_prepend_fst, checkIndentation_prepend_snd,
          skipToColonOrNewline_prepend, skipToNewline_prepend, nextIsAssignOp_prepend, ih1, ih2, ih3, ih4, ih5, ih6]
        | split
    · intro left S
      simp only [parseExpressionLoop, skipWhile_prepend, matchLexeme_prepend_fst, matchLexeme_prepend_snd, currentToken_prepend,
          advance_prepend, errorHere_prepend, addSyntaxError_prepend, isAtEnd_prepend,
          matchAny_prepend, checkIndentation_prepend_fst, checkIndentation_prepend_snd,
          skipToColonOrNewline_prepend, skipToNewline_prepend, nextIsAssignOp_prepend, ih1, ih2, ih3, ih4, ih5, ih6]
      rcases (S.skipWhile isWsOrComment).matchAny ["+", "-"] with ⟨_ | op, S1⟩
      all_goals
        repeat' first
          | with_reducible rfl
          | with_reducible exact pure_frame es _ _
          | with_reducible exact (lift_ok es _ _).symm
          | with_reducible refine bind_frame es _ _ _ _ ?_ (fun r S' => ?_)
          | simp only [skipWhile_prepend, matchLexeme_prepend_fst, matchLexeme_prepend_snd, currentToken_prepend,
          advance_prepend, errorHere_prepend, addSyntaxError_prepend, isAtEnd_prepend,
          matchAny_prepend, checkIndentation_prepend_fst, checkIndentation_prepend_snd,
          skipToColonOrNewline_prepend, skipToNewline_prepend, nextIsAssignOp_prepend, ih1, ih2, ih3, ih4, ih5, ih6]
          | split
    · intro S
      simp only [parseExpression, skipWhile_prepend, matchLexeme_prepend_fst, matchLexeme_prepend_snd, currentToken_prepend,
          advance_prepend, errorHere_prepend, addSyntaxError_prepend, isAtEnd_prepend,
          matchAny_prepend, checkIndentation_prepend_fst, checkIndentation_prepend_snd,
          skipToColonOrNewline_prepend, skipToNewline_prepend, nextIsAssignOp_prepend, ih1, ih2, ih3, ih4, ih5, ih6]
      repeat' first
        | with_reducible rfl
        | with_reducible exact pure_frame es _ _
        | with_reducible exact (lift_ok es _ _).symm
        | with_reducible refine bind_frame es _ _ _ _ ?_ (fun r S' => ?_)
        | simp only [skipWhile_prepend, matchLexeme_prepend_fst, matchLexeme_prepend_snd, currentToken_prepend,
          advance_prepend, errorHere_prepend, addSyntaxError_prepend, isAtEnd_prepend,
          matchAny_prepend, checkIndentation_prepend_fst, checkIndentation_prepend_snd,
          skipToColonOrNewline_prepend, skipToNewline_prepend, nextIsAssignOp_prepend, ih1, ih2, ih3, ih4, ih5, ih6]
        | split

end SyntaxAnalyzer
end PyAnalyzer

namespace PyAnalyzer
namespace SyntaxAnalyzer

theorem parseExpression_frame (es : List SyntaxError) (fuel : Nat) (S : SyntaxAnalyzer) :
    parseExpression fuel (S.prepend es) = lift es (parseExpression fuel S) :=
  (expression_frame es fuel).2.2.2.2.2 S

theorem parseArgs_frame (es : List SyntaxError) (fuel : Nat) (skipWs : Bool)
    (args : List ParseNode) (S : SyntaxAnalyzer) :
    parseArgs fuel skipWs args (S.prepend es) = lift es (parseArgs fuel skipWs args S) :=
  (expression_frame es fuel).2.1 skipWs args S

theorem parseComparisonLoop_frame (es : List SyntaxError) (fuel : Nat) (left : ParseNode)
    (S : SyntaxAnalyzer) :
    parseComparisonLoop fuel left (S.prepend es) = lift es (parseComparisonLoop fuel left S) := by
  induction fuel generalizing left S with
  | zero => rfl
  | succ fuel ih =>
    simp only [parseComparisonLoop, skipWhile_prepend, matchLexeme_prepend_fst, matchLexeme_prepend_snd, currentToken_prepend,
          advance_prepend, errorHere_prepend, addSyntaxError_prepend, isAtEnd_prepend,
          matchAny_prepend, checkIndentation_prepend_fst, checkIndentation_prepend_snd,
          skipToColonOrNewline_prepend, skipToNewline_prepend, nextIsAssignOp_prepend, parseExpression_frame, parseArgs_frame, ih]
    rcases S.matchAny ["==", "!=", "<=", ">=", "<", ">"] with ⟨_ | op, S1⟩
    all_goals
      repeat' first
        | with_reducible rfl
        | with_reducible exact pure_frame es _ _
        | with_reducible exact (lift_ok es _ _).symm
        | with_reducible refine bind_frame es _ _ _ _ ?_ (fun r S' => ?_)
        | simp only [skipWhile_prepend, matchLexeme_prepend_fst, matchLexeme_prepend_snd, currentToken_prepend,
          advance_prepend, errorHere_prepend, addSyntaxError_prepend, isAtEnd_prepend,
          matchAny_prepend, checkIndentation_prepend_fst, checkIndentation_prepend_snd,
          skipToColonOrNewline_prepend, skipToNewline_prepend, nextIsAssignOp_prepend, parseExpression_frame, parseArgs_frame, ih]
        | split

theorem parseComparison_frame (es : List SyntaxError) (fuel : Nat) (S : SyntaxAnalyzer) :
    parseComparison fuel (S.prepend es) = lift es (parseComparison fuel S) := by
  cases fuel with
  | zero => rfl
  | succ fuel =>
    simp only [parseComparison, skipWhile_prepend, matchLexeme_prepend_fst, matchLexeme_prepend_snd, currentToken_prepend,
          advance_prepend, errorHere_prepend, addSyntaxError_prepend, isAtEnd_prepend,
          matchAny_prepend, checkIndentation_prepend_fst, checkIndentation_prepend_snd,
          skipToColonOrNewline_prepend, skipToNewline_prepend, nextIsAssignOp_prepend, parseExpression_frame, parseArgs_frame, parseComparisonLoop_frame]
    repeat' first
      | with_reducible rfl
      | with_reducible exact pure_frame es _ _
      | with_reducible exact (lift_ok es _ _).symm
      | with_reducible refine bind_frame es _ _ _ _ ?_ (fun r S' => ?_)
      | simp only [skipWhile_prepend, matchLexeme_prepend_fst, matchLexeme_prepend_snd, currentToken_prepend,
          advance_prepend, errorHere_prepend, addSyntaxError_prepend, isAtEnd_prepend,
          matchAny_prepend, checkIndentation_prepend_fst, checkIndentation_prepend_snd,
          skipToColonOrNewline_prepend, skipToNewline_prepend, nextIsAssignOp_prepend, parseExpression_frame, parseArgs_frame, parseComparisonLoop_frame]
      | split

theorem parseReturnStmt_frame (es : List SyntaxError) (fuel : Nat) (S : SyntaxAnalyzer) :
    parseReturnStmt fuel (S.prepend es) = lift es (parseReturnStmt fuel S) := by
  cases fuel with
  | zero => rfl
  | succ fuel =>
    simp only [parseReturnStmt, skipWhile_prepend, matchLexeme_prepend_fst, matchLexeme_prepend_snd, currentToken_prepend,
          advance_prepend, errorHere_prepend, addSyntaxError_prepend, isAtEnd_prepend,
          matchAny_prepend, checkIndentation_prepend_fst, checkIndentation_prepend_snd,
          skipToColonOrNewline_prepend, skipToNewline_prepend, nextIsAssignOp_prepend, parseExpression_frame, parseArgs_frame]
    repeat' first
      | with_reducible rfl
      | with_reducible exact pure_frame es _ _
      | with_reducible exact (lift_ok es _ _).symm
      | with_reducible refine bind_frame es _ _ _ _ ?_ (fun r S' => ?_)
      | simp only [skipWhile_prepend, matchLexeme_prepend_fst, matchLexeme_prepend_snd, currentToken_prepend,
          advance_prepend, errorHere_prepend, addSyntaxError_prepend, isAtEnd_prepend,
          matchAny_prepend, checkIndentation_prepend_fst, checkIndentation_prepend_snd,
          skipToColonOrNewline_prepend, skipToNewline_prepend, nextIsAssignOp_prepend, parseExpression_frame, parseArgs_frame]
      | split

theorem parseAssignment_frame (es : List SyntaxError) (fuel : Nat) (S : SyntaxAnalyzer) :
    parseAssignment fuel (S.prepend es) = lift es (parseAssignment fuel S) := by
  cases fuel with
  | zero => rfl
  | succ fuel =>
    simp only [parseAssignment, skipWhile_prepend, matchLexeme_prepend_fst, matchLexeme_prepend_snd, currentToken_prepend,
          advance_prepend, errorHere_prepend, addSyntaxError_prepend, isAtEnd_prepend,
          matchAny_prepend, checkIndentation_prepend_fst, checkIndentation_prepend_snd,
          skipToColonOrNewline_prepend, skipToNewline_prepend, nextIsAssignOp_prepend, parseExpression_frame, parseArgs_frame]
    rcases S.advance.matchAny ["=", "+=", "-=", "*=", "/="] with ⟨_ | op, S1⟩
    all_goals
      repeat' first
        | with_reducible rfl
        | with_reducible exact pure_frame es _ _
        | with_reducible exact (lift_ok es _ _).symm
        | with_reducible refine bind_frame es _ _ _ _ ?_ (fun r S' => ?_)
        | simp only [skipWhile_prepend, matchLexeme_prepend_fst, matchLexeme_prepend_snd, currentToken_prepend,
          advance_prepend, errorHere_prepend, addSyntaxError_prepend, isAtEnd_prepend,
          matchAny_prepend, checkIndentation_prepend_fst, checkIndentation_prepend_snd,
          skipToColonOrNewline_prepend, skipToNewline_prepend, nextIsAssignOp_prepend, parseExpression_frame, parseArgs_frame]
        | split

theorem parseExprStmt_frame (es : List SyntaxError) (fuel : Nat) (S : SyntaxAnalyzer) :
    parseExprStmt fuel (S.prepend es) = lift es (parseExprStmt fuel S) := by
  cases fuel with
  | zero => rfl
  | succ fuel =>
    simp only [parseExprStmt, skipWhile_prepend, matchLexeme_prepend_fst, matchLexeme_prepend_snd, currentToken_prepend,
          advance_prepend, errorHere_prepend, addSyntaxError_prepend, isAtEnd_prepend,
          matchAny_prepend, checkIndentation_prepend_fst, checkIndentation_prepend_snd,
          skipToColonOrNewline_prepend, skipToNewline_prepend, nextIsAssignOp_prepend, parseExpression_frame, parseArgs_frame]
    repeat' first
      | with_reducible rfl
      | with_reducible exact pure_frame es _ _
      | with_reducible exact (lift_ok es _ _).symm
      | with_reducible refine bind_frame es _ _ _ _ ?_ (fun r S' => ?_)
      | simp only [skipWhile_prepend, matchLexeme_prepend_fst, matchLexeme_prepend_snd, currentToken_prepend,
          advance_prepend, errorHere_prepend, addSyntaxError_prepend, isAtEnd_prepend,
          matchAny_prepend, checkIndentation_prepend_fst, checkIndentation_prepend_snd,
          skipToColonOrNewline_prepend, skipToNewline_prepend, nextIsAssignOp_prepend, parseExpression_frame, parseArgs_frame]
      | split

theorem parseBuiltinCall_frame (es : List SyntaxError) (fuel : Nat) (S : SyntaxAnalyzer) :
    parseBuiltinCall fuel (S.prepend es) = lift es (parseBuiltinCall fuel S) := by
  simp only [parseBuiltinCall, skipWhile_prepend, matchLexeme_prepend_fst, matchLexeme_prepend_snd, currentToken_prepend,
          advance_prepend, errorHere_prepend, addSyntaxError_prepend, isAtEnd_prepend,
          matchAny_prepend, checkIndentation_prepend_fst, checkIndentation_prepend_snd,
          skipToColonOrNewline_prepend, skipToNewline_prepend, nextIsAssignOp_prepend, parseExpression_frame, parseArgs_frame]
  repeat' first
    | with_reducible rfl
    | with_reducible exact pure_frame es _ _
    | with_reducible exact (lift_ok es _ _).symm
    | with_reducible refine bind_frame es _ _ _ _ ?_ (fun r S' => ?_)
    | simp only [skipWhile_prepend, matchLexeme_prepend_fst, matchLexeme_prepend_snd, currentToken_prepend,
          advance_prepend, errorHere_prepend, addSyntaxError_prepend, isAtEnd_prepend,
          matchAny_prepend, checkIndentation_prepend_fst, checkIndentation_prepend_snd,
          skipToColonOrNewline_prepend, skipToNewline_prepend, nextIsAssignOp_prepend, parseExpression_frame, parseArgs_frame]
    | split

theorem parseParamListLoop_frame (es : List SyntaxError) (fuel : Nat) (params : List ParseNode)
    (S : SyntaxAnalyzer) :
    parseParamListLoop fuel params (S.prepend es) = lift es (parseParamListLoop fuel params S) := by
  induction fuel generalizing params S with
  | zero => rfl
  | succ fuel ih =>
    simp only [parseParamListLoop, skipWhile_prepend, matchLexeme_prepend_fst, matchLexeme_prepend_snd, currentToken_prepend,
          advance_prepend, errorHere_prepend, addSyntaxError_prepend, isAtEnd_prepend,
          matchAny_prepend, checkIndentation_prepend_fst, checkIndentation_prepend_snd,
          skipToColonOrNewline_prepend, skipToNewline_prepend, nextIsAssignOp_prepend, ih]
    repeat' first
      | with_reducible rfl
      | with_reducible exact pure_frame es _ _
      | with_reducible exact (lift_ok es _ _).symm
      | with_reducible refine bind_frame es _ _ _ _ ?_ (fun r S' => ?_)
      | simp only [skipWhile_prepend, matchLexeme_prepend_fst, matchLexeme_prepend_snd, currentToken_prepend,
          advance_prepend, errorHere_prepend, addSyntaxError_prepend, isAtEnd_prepend,
          matchAny_prepend, checkIndentation_prepend_fst, checkIndentation_prepend_snd,
          skipToColonOrNewline_prepend, skipToNewline_prepend, nextIsAssignOp_prepend, ih]
      | split

theorem parseParamList_frame (es : List SyntaxError) (fuel : Nat) (S : SyntaxAnalyzer) :
    parseParamList fuel (S.prepend es) = lift es (parseParamList fuel S) := by
  unfold parseParamList
  rw [parseParamListLoop_frame]
  rcases parseParamListLoop fuel [] S with e | ⟨_ | params, S1⟩ <;> rfl

theorem parseForTargets_frame (es : List SyntaxError) (fuel : Nat) (targets : List ParseNode)
    (S : SyntaxAnalyzer) :
    parseForTargets fuel targets (S.prepend es) = lift es (parseForTargets fuel targets S) := by
  induction fuel generalizing targets S with
  | zero => rfl
  | succ fuel ih =>
    simp only [parseForTargets, skipWhile_prepend, matchLexeme_prepend_fst, matchLexeme_prepend_snd, currentToken_prepend,
          advance_prepend, errorHere_prepend, addSyntaxError_prepend, isAtEnd_prepend,
          matchAny_prepend, checkIndentation_prepend_fst, checkIndentation_prepend_snd,
          skipToColonOrNewline_prepend, skipToNewline_prepend, nextIsAssignOp_prepend, ih]
    repeat' first
      | with_reducible rfl
      | with_reducible exact pure_frame es _ _
      | with_reducible exact (lift_ok es _ _).symm
      | with_reducible refine bind_frame es _ _ _ _ ?_ (fun r S' => ?_)
      | simp only [skipWhile_prepend, matchLexeme_prepend_fst, matchLexeme_prepend_snd, currentToken_prepend,
          advance_prepend, errorHere_prepend, addSyntaxError_prepend, isAtEnd_prepend,
          matchAny_prepend, checkIndentation_prepend_fst, checkIndentation_prepend_snd,
          skipToColonOrNewline_prepend, skipToNewline_prepend, nextIsAssignOp_prepend, ih]
      | split

end SyntaxAnalyzer
end PyAnalyzer

namespace PyAnalyzer
namespace SyntaxAnalyzer

theorem bind_frame_val {α β : Type} (es : List SyntaxError) (x : Except Fault α)
    (f g : α → Except Fault (β × SyntaxAnalyzer)) (h : ∀ a, f a = lift es (g a)) :
    (x >>= f) = lift es (x >>= g) := by
  rcases x with e | a
  · rfl
  · exact h a

set_option maxHeartbeats 4000000 in
/-- One level of the frame property of `parseElifs`. -/
theorem elifs_frame_step (es : List SyntaxError) (fuel : Nat)
    (ih1 : ∀ S, parseStmt fuel (S.prepend es) = lift es (parseStmt fuel S))
    (ih3 : ∀ node S, parseElifs fuel node (S.prepend es) = lift es (parseElifs fuel node S)) :
    ∀ node S, parseElifs (fuel + 1) node (S.prepend es) = lift es (parseElifs (fuel + 1) node S) := by
  intro node S
  simp only [parseElifs, parseComparison_frame]
  refine bind_frame es _ _ _ _ rfl (fun r S' => ?_)
  cases r <;>
  simp only [Option.isNone_none, Option.isNone_some, Option.isSome_none, Option.isSome_some,
    if_true, Bool.false_eq_true, if_false, Bool.true_and, Bool.false_and, Bool.true_or,
    Bool.false_or, Bool.and_true, Bool.and_false, skipWhile_prepend, matchLexeme_prepend_fst, matchLexeme_prepend_snd, currentToken_prepend,
          advance_prepend, errorHere_prepend, addSyntaxError_prepend, isAtEnd_prepend,
          matchAny_prepend, checkIndentation_prepend_fst, checkIndentation_prepend_snd,
          skipToColonOrNewline_prepend, skipToNewline_prepend, nextIsAssignOp_prepend, parseExpression_frame, parseArgs_frame, parseComparison_frame, parseReturnStmt_frame,
          parseAssignment_frame, parseExprStmt_frame, parseBuiltinCall_frame, parseParamList_frame,
          parseForTargets_frame, parsePassStmt, parseBreakStmt, parseContinueStmt,
          ih1, ih3]
  all_goals
    repeat' first
      | with_reducible rfl
      | with_reducible exact pure_frame es _ _
      | with_reducible exact (lift_ok es _ _).symm
      | with_reducible exact (lift_error es _).symm
      | with_reducible refine bind_frame es _ _ _ _ ?_ (fun r S' => ?_)
      | with_reducible refine bind_frame_val es _ _ _ (fun r => ?_)
      | simp only [skipWhile_prepend, matchLexeme_prepend_fst, matchLexeme_prepend_snd, currentToken_prepend,
          advance_prepend, errorHere_prepend, addSyntaxError_prepend, isAtEnd_prepend,
          matchAny_prepend, checkIndentation_prepend_fst, checkIndentation_prepend_snd,
          skipToColonOrNewline_prepend, skipToNewline_prepend, nextIsAssignOp_prepend, parseExpression_frame, parseArgs_frame, parseComparison_frame, parseReturnStmt_frame,
          parseAssignment_frame, parseExprStmt_frame, parseBuiltinCall_frame, parseParamList_frame,
          parseForTargets_frame, parsePassStmt, parseBreakStmt, parseContinueStmt,
          ih1, ih3]
      | split

set_option maxHeartbeats 4000000 in
/-- The frame property of the statement parsers. -/
theorem statement_frame (es : List SyntaxError) (fuel : Nat) :
    (∀ S, parseStmt fuel (S.prepend es) = lift es (parseStmt fuel S)) ∧
    (∀ S, parseIfCore fuel (S.prepend es) = lift es (parseIfCore fuel S)) ∧
    (∀ node S, parseElifs fuel node (S.prepend es) = lift es (parseElifs fuel node S)) ∧
    (∀ node S, parseIfChain fuel node (S.prepend es) = lift es (parseIfChain fuel node S)) ∧
    (∀ S, parseForStmt fuel (S.prepend es) = lift es (parseForStmt fuel S)) ∧
    (∀ S, parseWhileStmt fuel (S.prepend es) = lift es (parseWhileStmt fuel S)) ∧
    (∀ S, parseFuncDef fuel (S.prepend es) = lift es (parseFuncDef fuel S)) := by
  induction fuel with
  | zero => exact ⟨fun _ => rfl, fun _ => rfl, fun _ _ => rfl, fun _ _ => rfl, fun _ => rfl,
      fun _ => rfl, fun _ => rfl⟩
  | succ fuel ih =>
    obtain ⟨ih1, ih2, ih3, ih4, ih5, ih6, ih7⟩ := ih
    refine ⟨?_, ?_, ?_, ?_, ?_, ?_, ?_⟩
    · intro S
      simp only [parseStmt, skipWhile_prepend, matchLexeme_prepend_fst, matchLexeme_prepend_snd, currentToken_prepend,
          advance_prepend, errorHere_prepend, addSyntaxError_prepend, isAtEnd_prepend,
          matchAny_prepend, checkIndentation_prepend_fst, checkIndentation_prepend_snd,
          skipToColonOrNewline_prepend, skipToNewline_prepend, nextIsAssignOp_prepend, parseExpression_frame, parseArgs_frame, parseComparison_frame, parseReturnStmt_frame,
          parseAssignment_frame, parseExprStmt_frame, parseBuiltinCall_frame, parseParamList_frame,
          parseForTargets_frame, parsePassStmt, parseBreakStmt, parseContinueStmt,
          ih1, ih2, ih3, ih4, ih5, ih6, ih7]
      by_cases hD : S.currentToken.type = TokenType.DEDENT
      · rw [if_pos hD, if_pos hD]
        rfl
      rw [if_neg hD, if_neg hD]
      generalize (((S.skipWhile _).skipWhile _).skipWhile _).skipWhile _ = T
      by_cases c0 : (T.matchLexeme "if").1 = true
      · rw [if_pos c0, if_pos c0]
        repeat' first
          | with_reducible rfl
          | with_reducible exact pure_frame es _ _
          | with_reducible exact (lift_ok es _ _).symm
          | with_reducible refine bind_frame es _ _ _ _ ?_ (fun r S' => ?_)
          | with_reducible refine bind_frame_val es _ _ _ (fun r => ?_)
          | simp only [skipWhile_prepend, matchLexeme_prepend_fst, matchLexeme_prepend_snd, currentToken_prepend,
            advance_prepend, errorHere_prepend, addSyntaxError_prepend, isAtEnd_prepend,
            matchAny_prepend, checkIndentation_prepend_fst, checkIndentation_prepend_snd,
            skipToColonOrNewline_prepend, skipToNewline_prepend, nextIsAssignOp_prepend, parseExpression_frame, parseArgs_frame, parseComparison_frame, parseReturnStmt_frame,
            parseAssignment_frame, parseExprStmt_frame, parseBuiltinCall_frame, parseParamList_frame,
            parseForTargets_frame, parsePassStmt, parseBreakStmt, parseContinueStmt,
            ih1, ih2, ih3, ih4, ih5, ih6, ih7]
      rw [if_neg c0, if_neg c0]
      by_cases c1 : (T.matchLexeme "for").1 = true
      · rw [if_pos c1, if_pos c1]
      rw [if_neg c1, if_neg c1]
      by_cases c2 : (T.matchLexeme "while").1 = true
      · rw [if_pos c2, if_pos c2]
      rw [if_neg c2, if_neg c2]
      by_cases c3 : (T.matchLexeme "def").1 = true
      · rw [if_pos c3, if_pos c3]
      rw [if_neg c3, if_neg c3]
      by_cases c4 : (T.matchLexeme "return").1 = true
      · rw [if_pos c4, if_pos c4]
      rw [if_neg c4, if_neg c4]
      by_cases c5 : (T.matchLexeme "pass").1 = true
      · rw [if_pos c5, if_pos c5]
        repeat' first
          | with_reducible rfl
          | with_reducible exact pure_frame es _ _
          | with_reducible exact (lift_ok es _ _).symm
      rw [if_neg c5, if_neg c5]
      by_cases c6 : (T.matchLexeme "else").1 = true
      · rw [if_pos c6, if_pos c6]
        repeat' first
          | with_reducible rfl
          | with_reducible exact pure_frame es _ _
      rw [if_neg c6, if_neg c6]
      by_cases c7 : (T.matchLexeme "elif").1 = true
      · rw [if_pos c7, if_pos c7]
        repeat' first
          | with_reducible rfl
          | with_reducible exact pure_frame es _ _
      rw [if_neg c7, if_neg c7]
      by_cases c8 : (T.matchLexeme "break").1 = true
      · rw [if_pos c8, if_pos c8]
        repeat' first
          | with_reducible rfl
          | with_reducible exact pure_frame es _ _
          | with_reducible exact (lift_ok es _ _).symm
      rw [if_neg c8, if_neg c8]
      by_cases c9 : (T.matchLexeme "continue").1 = true
      · rw [if_pos c9, if_pos c9]
        repeat' first
          | with_reducible rfl
          | with_reducible exact pure_frame es _ _
          | with_reducible exact (lift_ok es _ _).symm
      rw [if_neg c9, if_neg c9]
      by_cases c10 : T.currentToken.type = TokenType.IDENTIFIER
      · rw [if_pos c10, if_pos c10]
        by_cases d1 : T.currentToken.lexeme = "print".toList ∨
            T.currentToken.lexeme = "len".toList ∨ T.currentToken.lexeme = "input".toList
        · rw [if_pos d1, if_pos d1]
        rw [if_neg d1, if_neg d1]
        by_cases d2 : T.nextIsAssignOp = true
        · rw [if_pos d2, if_pos d2]
        rw [if_neg d2, if_neg d2]
        repeat' first
          | with_reducible rfl
          | with_reducible exact pure_frame es _ _
          | with_reducible exact (lift_ok es _ _).symm
          | with_reducible refine bind_frame es _ _ _ _ ?_ (fun r S' => ?_)
          | with_reducible refine bind_frame_val es _ _ _ (fun r => ?_)
          | simp only [skipWhile_prepend, matchLexeme_prepend_fst, matchLexeme_prepend_snd, currentToken_prepend,
            advance_prepend, errorHere_prepend, addSyntaxError_prepend, isAtEnd_prepend,
            matchAny_prepend, checkIndentation_prepend_fst, checkIndentation_prepend_snd,
            skipToColonOrNewline_prepend, skipToNewline_prepend, nextIsAssignOp_prepend, parseExpression_frame, parseArgs_frame, parseComparison_frame, parseReturnStmt_frame,
            parseAssignment_frame, parseExprStmt_frame, parseBuiltinCall_frame, parseParamList_frame,
            parseForTargets_frame, parsePassStmt, parseBreakStmt, parseContinueStmt,
            ih1, ih2, ih3, ih4, ih5, ih6, ih7]
          | split
      rw [if_neg c10, if_neg c10]
      repeat' first
        | with_reducible rfl
        | with_reducible exact pure_frame es _ _
        | with_reducible exact (lift_ok es _ _).symm
        | with_reducible refine bind_frame es _ _ _ _ ?_ (fun r S' => ?_)
        | with_reducible refine bind_frame_val es _ _ _ (fun r => ?_)
        | simp only [skipWhile_prepend, matchLexeme_prepend_fst, matchLexeme_prepend_snd, currentToken_prepend,
          advance_prepend, errorHere_prepend, addSyntaxError_prepend, isAtEnd_prepend,
          matchAny_prepend, checkIndentation_prepend_fst, checkIndentation_prepend_snd,
          skipToColonOrNewline_prepend, skipToNewline_prepend, nextIsAssignOp_prepend, parseExpression_frame, parseArgs_frame, parseComparison_frame, parseReturnStmt_frame,
          parseAssignment_frame, parseExprStmt_frame, parseBuiltinCall_frame, parseParamList_frame,
          parseForTargets_frame, parsePassStmt, parseBreakStmt, parseContinueStmt,
          ih1, ih2, ih3, ih4, ih5, ih6, ih7]
        | split
    · intro S
      simp only [parseIfCore, skipWhile_prepend, matchLexeme_prepend_fst, matchLexeme_prepend_snd, currentToken_prepend,
          advance_prepend, errorHere_prepend, addSyntaxError_prepend, isAtEnd_prepend,
          matchAny_prepend, checkIndentation_prepend_fst, checkIndentation_prepend_snd,
          skipToColonOrNewline_prepend, skipToNewline_prepend, nextIsAssignOp_prepend, parseExpression_frame, parseArgs_frame, parseComparison_frame, parseReturnStmt_frame,
          parseAssignment_frame, parseExprStmt_frame, parseBuiltinCall_frame, parseParamList_frame,
          parseForTargets_frame, parsePassStmt, parseBreakStmt, parseContinueStmt,
          ih1, ih2, ih3, ih4, ih5, ih6, ih7]
      repeat' first
        | with_reducible rfl
        | with_reducible exact pure_frame es _ _
        | with_reducible exact (lift_ok es _ _).symm
        | with_reducible refine bind_frame es _ _ _ _ ?_ (fun r S' => ?_)
        | with_reducible refine bind_frame_val es _ _ _ (fun r => ?_)
        | simp only [skipWhile_prepend, matchLexeme_prepend_fst, matchLexeme_prepend_snd, currentToken_prepend,
          advance_prepend, errorHere_prepend, addSyntaxError_prepend, isAtEnd_prepend,
          matchAny_prepend, checkIndentation_prepend_fst, checkIndentation_prepend_snd,
          skipToColonOrNewline_prepend, skipToNewline_prepend, nextIsAssignOp_prepend, parseExpression_frame, parseArgs_frame, parseComparison_frame, parseReturnStmt_frame,
          parseAssignment_frame, parseExprStmt_frame, parseBuiltinCall_frame, parseParamList_frame,
          parseForTargets_frame, parsePassStmt, parseBreakStmt, parseContinueStmt,
          ih1, ih2, ih3, ih4, ih5, ih6, ih7]
        | split
    · exact elifs_frame_step es fuel ih1 ih3
    · intro node S
      simp only [parseIfChain, skipWhile_prepend, matchLexeme_prepend_fst, matchLexeme_prepend_snd, currentToken_prepend,
          advance_prepend, errorHere_prepend, addSyntaxError_prepend, isAtEnd_prepend,
          matchAny_prepend, checkIndentation_prepend_fst, checkIndentation_prepend_snd,
          skipToColonOrNewline_prepend, skipToNewline_prepend, nextIsAssignOp_prepend, parseExpression_frame, parseArgs_frame, parseComparison_frame, parseReturnStmt_frame,
          parseAssignment_frame, parseExprStmt_frame, parseBuiltinCall_frame, parseParamList_frame,
          parseForTargets_frame, parsePassStmt, parseBreakStmt, parseContinueStmt,
          ih1, ih2, ih3, ih4, ih5, ih6, ih7]
      repeat' first
        | with_reducible rfl
        | with_reducible exact pure_frame es _ _
        | with_reducible exact (lift_ok es _ _).symm
        | with_reducible refine bind_frame es _ _ _ _ ?_ (fun r S' => ?_)
        | with_reducible refine bind_frame_val es _ _ _ (fun r => ?_)
        | simp only [skipWhile_prepend, matchLexeme_prepend_fst, matchLexeme_prepend_snd, currentToken_prepend,
          advance_prepend, errorHere_prepend, addSyntaxError_prepend, isAtEnd_prepend,
          matchAny_prepend, checkIndentation_prepend_fst, checkIndentation_prepend_snd,
          skipToColonOrNewline_prepend, skipToNewline_prepend, nextIsAssignOp_prepend, parseExpression_frame, parseArgs_frame, parseComparison_frame, parseReturnStmt_frame,
          parseAssignment_frame, parseExprStmt_frame, parseBuiltinCall_frame, parseParamList_frame,
          parseForTargets_frame, parsePassStmt, parseBreakStmt, parseContinueStmt,
          ih1, ih2, ih3, ih4, ih5, ih6, ih7]
        | split
    · intro S
      simp only [parseForStmt, skipWhile_prepend, matchLexeme_prepend_fst, matchLexeme_prepend_snd, currentToken_prepend,
          advance_prepend, errorHere_prepend, addSyntaxError_prepend, isAtEnd_prepend,
          matchAny_prepend, checkIndentation_prepend_fst, checkIndentation_prepend_snd,
          skipToColonOrNewline_prepend, skipToNewline_prepend, nextIsAssignOp_prepend, parseExpression_frame, parseArgs_frame, parseComparison_frame, parseReturnStmt_frame,
          parseAssignment_frame, parseExprStmt_frame, parseBuiltinCall_frame, parseParamList_frame,
          parseForTargets_frame, parsePassStmt, parseBreakStmt, parseContinueStmt,
          ih1, ih2, ih3, ih4, ih5, ih6, ih7]
      repeat' first
        | with_reducible rfl
        | with_reducible exact pure_frame es _ _
        | with_reducible exact (lift_ok es _ _).symm
        | with_reducible refine bind_frame es _ _ _ _ ?_ (fun r S' => ?_)
        | with_reducible refine bind_frame_val es _ _ _ (fun r => ?_)
        | simp only [skipWhile_prepend, matchLexeme_prepend_fst, matchLexeme_prepend_snd, currentToken_prepend,
          advance_prepend, errorHere_prepend, addSyntaxError_prepend, isAtEnd_prepend,
          matchAny_prepend, checkIndentation_prepend_fst, checkIndentation_prepend_snd,
          skipToColonOrNewline_prepend, skipToNewline_prepend, nextIsAssignOp_prepend, parseExpression_frame, parseArgs_frame, parseComparison_frame, parseReturnStmt_frame,
          parseAssignment_frame, parseExprStmt_frame, parseBuiltinCall_frame, parseParamList_frame,
          parseForTargets_frame, parsePassStmt, parseBreakStmt, parseContinueStmt,
          ih1, ih2, ih3, ih4, ih5, ih6, ih7]
        | split
    · intro S
      simp only [parseWhileStmt, skipWhile_prepend, matchLexeme_prepend_fst, matchLexeme_prepend_snd, currentToken_prepend,
          advance_prepend, errorHere_prepend, addSyntaxError_prepend, isAtEnd_prepend,
          matchAny_prepend, checkIndentation_prepend_fst, checkIndentation_prepend_snd,
          skipToColonOrNewline_prepend, skipToNewline_prepend, nextIsAssignOp_prepend, parseExpression_frame, parseArgs_frame, parseComparison_frame, parseReturnStmt_frame,
          parseAssignment_frame, parseExprStmt_frame, parseBuiltinCall_frame, parseParamList_frame,
          parseForTargets_frame, parsePassStmt, parseBreakStmt, parseContinueStmt,
          ih1, ih2, ih3, ih4, ih5, ih6, ih7]
      repeat' first
        | with_reducible rfl
        | with_reducible exact pure_frame es _ _
        | with_reducible exact (lift_ok es _ _).symm
        | with_reducible refine bind_frame es _ _ _ _ ?_ (fun r S' => ?_)
        | with_reducible refine bind_frame_val es _ _ _ (fun r => ?_)
        | simp only [skipWhile_prepend, matchLexeme_prepend_fst, matchLexeme_prepend_snd, currentToken_prepend,
          advance_prepend, errorHere_prepend, addSyntaxError_prepend, isAtEnd_prepend,
          matchAny_prepend, checkIndentation_prepend_fst, checkIndentation_prepend_snd,
          skipToColonOrNewline_prepend, skipToNewline_prepend, nextIsAssignOp_prepend, parseExpression_frame, parseArgs_frame, parseComparison_frame, parseReturnStmt_frame,
          parseAssignment_frame, parseExprStmt_frame, parseBuiltinCall_frame, parseParamList_frame,
          parseForTargets_frame, parsePassStmt, parseBreakStmt, parseContinueStmt,
          ih1, ih2, ih3, ih4, ih5, ih6, ih7]
        | split
    · intro S
      simp only [parseFuncDef, skipWhile_prepend, matchLexeme_prepend_fst, matchLexeme_prepend_snd, currentToken_prepend,
          advance_prepend, errorHere_prepend, addSyntaxError_prepend, isAtEnd_prepend,
          matchAny_prepend, checkIndentation_prepend_fst, checkIndentation_prepend_snd,
          skipToColonOrNewline_prepend, skipToNewline_prepend, nextIsAssignOp_prepend, parseExpression_frame, parseArgs_frame, parseComparison_frame, parseReturnStmt_frame,
          parseAssignment_frame, parseExprStmt_frame, parseBuiltinCall_frame, parseParamList_frame,
          parseForTargets_frame, parsePassStmt, parseBreakStmt, parseContinueStmt,
          ih1, ih2, ih3, ih4, ih5, ih6, ih7]
      repeat' first
        | with_reducible rfl
        | with_reducible exact pure_frame es _ _
        | with_reducible exact (lift_ok es _ _).symm
        | with_reducible refine bind_frame es _ _ _ _ ?_ (fun r S' => ?_)
        | with_reducible refine bind_frame_val es _ _ _ (fun r => ?_)
        | simp only [skipWhile_prepend, matchLexeme_prepend_fst, matchLexeme_prepend_snd, currentToken_prepend,
          advance_prepend, errorHere_prepend, addSyntaxError_prepend, isAtEnd_prepend,
          matchAny_prepend, checkIndentation_prepend_fst, checkIndentation_prepend_snd,
          skipToColonOrNewline_prepend, skipToNewline_prepend, nextIsAssignOp_prepend, parseExpression_frame, parseArgs_frame, parseComparison_frame, parseReturnStmt_frame,
          parseAssignment_frame, parseExprStmt_frame, parseBuiltinCall_frame, parseParamList_frame,
          parseForTargets_frame, parsePassStmt, parseBreakStmt, parseContinueStmt,
          ih1, ih2, ih3, ih4, ih5, ih6, ih7]
        | split

end SyntaxAnalyzer
end PyAnalyzer

namespace PyAnalyzer
namespace SyntaxAnalyzer

theorem parseStmt_frame (es : List SyntaxError) (fuel : Nat) (S : SyntaxAnalyzer) :
    parseStmt fuel (S.prepend es) = lift es (parseStmt fuel S) :=
  (statement_frame es fuel).1 S

theorem parseProgramLoop_frame (es : List SyntaxError) (stmtFuel fuel : Nat)
    (children : List ParseNode) (S : SyntaxAnalyzer) :
    parseProgramLoop stmtFuel fuel children (S.prepend es) =
      lift es (parseProgramLoop stmtFuel fuel children S) := by
  induction fuel generalizing children S with
  | zero => rfl
  | succ fuel ih =>
    rw [parseProgramLoop, parseProgramLoop]
    simp only [isAtEnd_prepend, currentToken_prepend, advance_prepend, parseStmt_frame, ih]
    by_cases h1 : S.isAtEnd = true
    · rw [if_pos h1, if_pos h1]
      rfl
    rw [if_neg h1, if_neg h1]
    by_cases h2 : S.currentToken.type = TokenType.NEWLINE
    · rw [if_pos h2, if_pos h2]
    rw [if_neg h2, if_neg h2]
    rcases parseStmt stmtFuel S with e | ⟨stmt, S'⟩
    · rfl
    · simp only [lift_ok, pos_prepend]
      by_cases h3 : S'.pos = S.pos
      · simp only [h3, if_true, advance_prepend, ih]
      · simp only [h3, if_false, ih]

/-- The state `S` is its own copy without errors, with its errors recorded
before. -/
theorem prepend_clear (S : SyntaxAnalyzer) :
    ({ S with syntaxErrors := [] } : SyntaxAnalyzer).prepend S.syntaxErrors = S := by
  simp [prepend]

theorem lift_eq_ok {α : Type} {es : List SyntaxError} {x : Except Fault (α × SyntaxAnalyzer)}
    {r : α} {S' : SyntaxAnalyzer} (h : lift es x = .ok (r, S')) :
    ∃ S0, x = .ok (r, S0) ∧ S' = S0.prepend es := by
  rcases x with e | ⟨a, S0⟩
  · exact absurd h (by simp)
  · simp only [lift_ok, Except.ok.injEq, Prod.mk.injEq] at h
    exact ⟨S0, by rw [h.1], h.2.symm⟩

/-- A statement only appends to the list of syntax errors. -/
theorem parseStmt_errors_grow (fuel : Nat) (S S' : SyntaxAnalyzer) (r : Option ParseNode)
    (h : parseStmt fuel S = .ok (r, S')) :
    ∃ new, S'.syntaxErrors = S.syntaxErrors ++ new := by
  rw [← prepend_clear S, parseStmt_frame] at h
  obtain ⟨S0, _, h2⟩ := lift_eq_ok h
  exact ⟨S0.syntaxErrors, by rw [h2]; rfl⟩

/-- The top-level loop only appends to the list of syntax errors. -/
theorem parseProgramLoop_errors_grow (stmtFuel fuel : Nat) (children r : List ParseNode)
    (S S' : SyntaxAnalyzer) (h : parseProgramLoop stmtFuel fuel children S = .ok (r, S')) :
    ∃ new, S'.syntaxErrors = S.syntaxErrors ++ new := by
  rw [← prepend_clear S, parseProgramLoop_frame] at h
  obtain ⟨S0, _, h2⟩ := lift_eq_ok h
  exact ⟨S0.syntaxErrors, by rw [h2]; rfl⟩

end SyntaxAnalyzer
end PyAnalyzer

namespace PyAnalyzer
namespace SyntaxAnalyzer

/-! ## An assignment sign after the condition of an `if` -/

/-- A skipping loop does not move at a token that fails its test. -/
theorem skipWhile_of_current (S : SyntaxAnalyzer) (p : Token → Bool)
    (h : p S.currentToken = false) : S.skipWhile p = S := by
  unfold skipWhile
  by_cases hlt : S.pos < S.tokens.length
  · have hdrop : S.tokens.drop S.pos = S.tokens[S.pos] :: S.tokens.drop (S.pos + 1) :=
      List.drop_eq_getElem_cons hlt
    have hcur : S.currentToken = S.tokens[S.pos] := by
      simp [currentToken, List.getD_eq_getElem?_getD, List.getElem?_eq_getElem hlt]
    rw [hcur] at h
    rw [hdrop]
    simp only [List.takeWhile_cons, h, Bool.and_false, Bool.false_eq_true, if_false,
      List.length_nil, Nat.add_zero]
  · have hdrop : S.tokens.drop S.pos = [] := List.drop_eq_nil_of_le (by omega)
    rw [hdrop]
    rfl

theorem matchLexeme_of_ne (S : SyntaxAnalyzer) (l : String)
    (h : S.currentToken.lexeme ≠ l.toList) : S.matchLexeme l = (false, S) := by
  unfold matchLexeme
  have : (S.currentToken.lexeme == l.toList) = false := by simpa using h
  rw [this, Bool.and_false]
  rfl

@[simp] theorem currentToken_errorHere (S : SyntaxAnalyzer) (msg : String) :
    (S.errorHere msg).currentToken = S.currentToken := rfl

@[simp] theorem syntaxErrors_errorHere (S : SyntaxAnalyzer) (msg : String) :
    (S.errorHere msg).syntaxErrors =
      S.syntaxErrors ++ [⟨msg.toList, S.currentToken.line, S.currentToken.column⟩] := rfl

/-- `parseIfChain` on the null node at a token that is no NEWLINE, no
WHITESPACE, no DEDENT, no `elif` and no `else` returns the null node and
leaves the state as it is. -/
theorem parseIfChain_none_stay (fuel : Nat) (S : SyntaxAnalyzer)
    (h1 : S.currentToken.type ≠ TokenType.NEWLINE)
    (h2 : S.currentToken.type ≠ TokenType.WHITESPACE)
    (h3 : S.currentToken.type ≠ TokenType.DEDENT)
    (h4 : S.currentToken.lexeme ≠ "elif".toList) (h5 : S.currentToken.lexeme ≠ "else".toList) :
    parseIfChain (fuel + 1) none S = .ok (none, S) := by
  have s1 : S.skipWhile isNewline = S :=
    skipWhile_of_current S _ (by simpa [isNewline] using h1)
  have s2 : S.skipWhile isWsOrDedent = S :=
    skipWhile_of_current S _ (by simp [isWsOrDedent, h2, h3])
  rw [parseIfChain]
  simp only [s1, s2, matchLexeme_of_ne S "elif" h4, matchLexeme_of_ne S "else" h5,
    Bool.false_eq_true, if_false, bind, Except.bind, pure, Except.pure]

/-- `parseIfCore` when the condition is followed by the token `=`. -/
theorem parseIfCore_assign (fuel : Nat) (S S1 : SyntaxAnalyzer) (cond : ParseNode)
    (hcond : parseComparison fuel S = .ok (some cond, S1))
    (hlex : S1.currentToken.lexeme = "=".toList) :
    parseIfCore (fuel + 1) S =
      .ok (none, S1.errorHere "Invalid '=' in condition; did you mean '=='?") := by
  rw [parseIfCore, hcond]
  simp only [bind, Except.bind, matchLexeme_of_ne S1 ":" (by rw [hlex]; decide), hlex,
    Bool.not_false, if_true]
  rfl

/-- C14: when the statement at the parser position is an `if` whose
condition parses and is followed by the token `=` where `:` is expected,
`parseStmt` appends the error "Invalid '=' in condition; did you mean '=='?"
and returns the null pointer (no IfStmt node); whatever the top-level loop
parses from there on, the list of syntax errors it ends with still begins
with the errors recorded so far, so it is not empty and the caller, which
shows the tree only when there is no syntax error, shows none. -/
theorem assign_in_condition_rejected (fuel : Nat) (S0 S S1 : SyntaxAnalyzer) (cond : ParseNode)
    (hded : S0.currentToken.type ≠ TokenType.DEDENT)
    (hif : ((((S0.skipWhile (fun t => t.type == TokenType.NEWLINE ||
        t.type == TokenType.COMMENT)).skipWhile (fun t => t.type == TokenType.WHITESPACE ||
        t.type == TokenType.INDENT || t.type == TokenType.DEDENT)).skipWhile
        (fun t => t.type == TokenType.COMMENT)).skipWhile
        (fun t => t.lexeme == ":".toList)).matchLexeme "if" = (true, S))
    (hcond : parseComparison fuel S = .ok (some cond, S1))
    (hty : S1.currentToken.type = TokenType.EQUALOPERATOR)
    (hlex : S1.currentToken.lexeme = "=".toList) :
    parseStmt (fuel + 2) S0 =
      .ok (none, S1.errorHere "Invalid '=' in condition; did you mean '=='?") ∧
    (S1.errorHere "Invalid '=' in condition; did you mean '=='?").syntaxErrors =
      S1.syntaxErrors ++ [⟨"Invalid '=' in condition; did you mean '=='?".toList,
        S1.currentToken.line, S1.currentToken.column⟩] ∧
    ∀ (stmtFuel n : Nat) (children r : List ParseNode) (S2 Sf : SyntaxAnalyzer),
      (∃ more, S2.syntaxErrors =
        (S1.errorHere "Invalid '=' in condition; did you mean '=='?").syntaxErrors ++ more) →
      parseProgramLoop stmtFuel n children S2 = .ok (r, Sf) →
      Sf.syntaxErrors ≠ [] ∧ Sf.syntaxErrors.isEmpty = false := by
  refine ⟨?_, rfl, ?_⟩
  · rw [parseStmt]
    simp only [hded, if_false, hif, if_true, bind, Except.bind,
      parseIfCore_assign fuel S S1 cond hcond hlex]
    exact parseIfChain_none_stay fuel _ (by simp [hty]) (by simp [hty]) (by simp [hty])
      (by simp [hlex]) (by simp [hlex])
  · intro stmtFuel n children r S2 Sf ⟨more, hmore⟩ hloop
    obtain ⟨new, hnew⟩ := parseProgramLoop_errors_grow stmtFuel n children r S2 Sf hloop
    have hne : Sf.syntaxErrors ≠ [] := by
      rw [hnew, hmore, syntaxErrors_errorHere]
      simp
    exact ⟨hne, by simpa using hne⟩

end SyntaxAnalyzer
end PyAnalyzer

namespace PyAnalyzer
namespace SyntaxAnalyzer

/-! ## An `elif` with no `if` before it -/

theorem prepend_prepend (a b : List SyntaxError) (S : SyntaxAnalyzer) :
    (S.prepend a).prepend b = S.prepend (b ++ a) := by
  simp [prepend, List.append_assoc]

/-- `parseStmt` at an `elif` that starts a statement. -/
theorem parseStmt_orphan_elif (fuel : Nat) {ts : List Token} {i : Nat} {t : Token}
    (h : ts.get? i = some t) (hty : t.type = TokenType.KEYWORD)
    (hl : t.lexeme = "elif".toList) :
    parseStmt (fuel + 1) (atPos ts i) =
      .ok (none, (atPos ts (i + 1)).errorHere "'elif' without matching 'if'") := by
  have hne : t.type ≠ TokenType.ENDOFFILE := by rw [hty]; exact TokenType.noConfusion
  have hd : t.type ≠ TokenType.DEDENT := by rw [hty]; exact TokenType.noConfusion
  have hf : ∀ s : String, t.lexeme ≠ s.toList → (atPos ts i).matchLexeme s = (false, atPos ts i) :=
    fun s hs => matchLexeme_atPos_false h s hs
  obtain ⟨s1, s2, s3, s4⟩ := parseStmt_skips h (by rw [hty]; exact TokenType.noConfusion)
    (by rw [hty]; exact TokenType.noConfusion) (by rw [hty]; exact TokenType.noConfusion)
    (by rw [hty]; exact TokenType.noConfusion) hd (by rw [hl]; decide)
  rw [parseStmt]
  simp only [currentToken_atPos h, hd, if_false, s1, s2, s3, s4,
    hf "if" (by rw [hl]; decide), hf "for" (by rw [hl]; decide),
    hf "while" (by rw [hl]; decide), hf "def" (by rw [hl]; decide),
    hf "return" (by rw [hl]; decide), hf "pass" (by rw [hl]; decide),
    hf "else" (by rw [hl]; decide), matchLexeme_atPos_true h hne "elif" hl,
    Bool.false_eq_true, if_true]
  rfl

/-- `parseStmt` at a name that a colon follows. -/
theorem parseStmt_name_colon (fuel : Nat) {ts : List Token} {i : Nat} {t n : Token}
    (h : ts.get? i = some t) (hn : ts.get? (i + 1) = some n) (w : List Char)
    (hw : SimpleStmt.headName w = true) (hl : t.lexeme = w) (hty : t.type = TokenType.IDENTIFIER)
    (hnl : n.lexeme = ":".toList) (hnt : n.type = TokenType.DELIMITER) :
    parseStmt (fuel + 5) (atPos ts i) =
      .ok (some (ParseNode.node "ExprStmt".toList [] [ParseNode.leaf "Identifier" w]),
        atPos ts (i + 1)) := by
  obtain ⟨ho, h1, h2⟩ := headName_facts hw
  have hexpr := parseExpression_operand fuel h hn (Operand.ident w) ho hl hty
    (stopsOperand_of_kind hnl hnt (by decide))
  have hstmt : parseExprStmt (fuel + 4) (atPos ts i) =
      .ok (some (ParseNode.node "ExprStmt".toList [] [(Operand.ident w).node]),
        atPos ts (i + 1)) := by
    rw [parseExprStmt, hexpr]
    rfl
  have h3 := operand_not_reserved (Operand.ident w) ho "print" (by simp)
  rw [parseStmt_operand_head (fuel + 4) h (Operand.ident w) ho hl hty, hstmt,
    if_pos hty, if_neg (by
      rw [hl]
      rintro (e | e | e)
      · exact h3 e
      · exact h1 e
      · exact h2 e), nextIsAssignOp_atPos hn, hnl, if_neg (by decide)]
  rfl

/-- `parseStmt` at a colon that ends a line: the colon is skipped and the
NEWLINE is no expression. -/
theorem parseStmt_colon_newline (fuel : Nat) {ts : List Token} {i : Nat} {c n : Token}
    (h : ts.get? i = some c) (hn : ts.get? (i + 1) = some n)
    (hcl : c.lexeme = ":".toList) (hct : c.type = TokenType.DELIMITER)
    (hnl : n.lexeme = "\n".toList) (hnt : n.type = TokenType.NEWLINE) :
    parseStmt (fuel + 3) (atPos ts i) =
      .ok (none, (atPos ts (i + 1)).errorHere "Invalid expression or unknown statement") := by
  have hd : c.type ≠ TokenType.DEDENT := by rw [hct]; exact TokenType.noConfusion
  have s1 : (atPos ts i).skipWhile
      (fun t => t.type == TokenType.NEWLINE || t.type == TokenType.COMMENT) = atPos ts i :=
    skipWhile_atPos_stop h _ (by simp [hct])
  have s2 : (atPos ts i).skipWhile (fun t => t.type == TokenType.WHITESPACE ||
      t.type == TokenType.INDENT || t.type == TokenType.DEDENT) = atPos ts i :=
    skipWhile_atPos_stop h _ (by simp [hct])
  have s3 : (atPos ts i).skipWhile (fun t => t.type == TokenType.COMMENT) = atPos ts i :=
    skipWhile_atPos_stop h _ (by simp [hct])
  have s4 : (atPos ts i).skipWhile (fun t => t.lexeme == ":".toList) = atPos ts (i + 1) := by
    rw [skipWhile_atPos_step h _ (by simp [hct, hcl]),
      skipWhile_atPos_stop hn _ (by
        have : (n.lexeme == ":".toList) = false := by rw [hnl]; decide
        rw [this, Bool.and_false])]
  have hf : ∀ s : String, n.lexeme ≠ s.toList →
      (atPos ts (i + 1)).matchLexeme s = (false, atPos ts (i + 1)) :=
    fun s hs => matchLexeme_atPos_false hn s hs
  have hexpr : parseExprStmt (fuel + 2) (atPos ts (i + 1)) = .ok (none, atPos ts (i + 1)) := by
    rw [parseExprStmt, parseExpression,
      skipWhile_wsOrComment_stop hn (by rw [hnt]; exact TokenType.noConfusion)
        (by rw [hnt]; exact TokenType.noConfusion), currentToken_atPos hn]
    simp [isBlockEnd, hnt, bind, Except.bind, pure, Except.pure]
  rw [parseStmt]
  simp only [currentToken_atPos h, hd, if_false, s1, s2, s3, s4,
    hf "if" (by rw [hnl]; decide), hf "for" (by rw [hnl]; decide),
    hf "while" (by rw [hnl]; decide), hf "def" (by rw [hnl]; decide),
    hf "return" (by rw [hnl]; decide), hf "pass" (by rw [hnl]; decide),
    hf "else" (by rw [hnl]; decide), hf "elif" (by rw [hnl]; decide),
    hf "break" (by rw [hnl]; decide), hf "continue" (by rw [hnl]; decide),
    currentToken_atPos hn, hnt, Bool.false_eq_true, hexpr, bind, Except.bind]
  rfl

/-- `parseStmt` at an INDENT that `pass` follows. -/
theorem parseStmt_indent_pass (fuel : Nat) {ts : List Token} {i : Nat} {d p : Token}
    (h : ts.get? i = some d) (hp : ts.get? (i + 1) = some p)
    (hdt : d.type = TokenType.INDENT) (hpl : p.lexeme = "pass".toList)
    (hpt : p.type = TokenType.KEYWORD) :
    parseStmt (fuel + 1) (atPos ts i) =
      .ok (some (ParseNode.leaf "PassStmt"), atPos ts (i + 2)) := by
  have hd : d.type ≠ TokenType.DEDENT := by rw [hdt]; exact TokenType.noConfusion
  have hne : p.type ≠ TokenType.ENDOFFILE := by rw [hpt]; exact TokenType.noConfusion
  have s1 : (atPos ts i).skipWhile
      (fun t => t.type == TokenType.NEWLINE || t.type == TokenType.COMMENT) = atPos ts i :=
    skipWhile_atPos_stop h _ (by simp [hdt])
  have s2 : (atPos ts i).skipWhile (fun t => t.type == TokenType.WHITESPACE ||
      t.type == TokenType.INDENT || t.type == TokenType.DEDENT) = atPos ts (i + 1) := by
    rw [skipWhile_atPos_step h _ (by simp [hdt]), skipWhile_atPos_stop hp _ (by simp [hpt])]
  have s3 : (atPos ts (i + 1)).skipWhile (fun t => t.type == TokenType.COMMENT) =
      atPos ts (i + 1) :=
    skipWhile_atPos_stop hp _ (by simp [hpt])
  have s4 : (atPos ts (i + 1)).skipWhile (fun t => t.lexeme == ":".toList) =
      atPos ts (i + 1) :=
    skipWhile_atPos_stop hp _ (by
      have : (p.lexeme == ":".toList) = false := by rw [hpl]; decide
      rw [this, Bool.and_false])
  have hf : ∀ s : String, p.lexeme ≠ s.toList →
      (atPos ts (i + 1)).matchLexeme s = (false, atPos ts (i + 1)) :=
    fun s hs => matchLexeme_atPos_false hp s hs
  rw [parseStmt]
  simp only [currentToken_atPos h, hd, if_false, s1, s2, s3, s4,
    hf "if" (by rw [hpl]; decide), hf "for" (by rw [hpl]; decide),
    hf "while" (by rw [hpl]; decide), hf "def" (by rw [hpl]; decide),
    hf "return" (by rw [hpl]; decide), matchLexeme_atPos_true hp hne "pass" hpl,
    Bool.false_eq_true, if_true]
  rfl

/-- `parseStmt` at a DEDENT. -/
theorem parseStmt_dedent (fuel : Nat) {ts : List Token} {i : Nat} {d : Token}
    (h : ts.get? i = some d) (hdt : d.type = TokenType.DEDENT) :
    parseStmt (fuel + 1) (atPos ts i) = .ok (none, atPos ts (i + 1)) := by
  rw [parseStmt]
  simp only [currentToken_atPos h, hdt, if_true,
    advance_atPos h (by rw [hdt]; exact TokenType.noConfusion)]
  rfl

/-- One round of the top-level loop at a statement that moves the position. -/
theorem parseProgramLoop_stmt (stmtFuel fuel : Nat) (children : List ParseNode)
    (es new : List SyntaxError) {ts : List Token} {i j : Nat} {t : Token}
    (stmt : Option ParseNode) (h : ts.get? i = some t)
    (h1 : t.type ≠ TokenType.ENDOFFILE) (h2 : t.type ≠ TokenType.NEWLINE)
    (hstmt : parseStmt stmtFuel (atPos ts i) = .ok (stmt, (atPos ts j).prepend new))
    (hij : j ≠ i) :
    parseProgramLoop stmtFuel (fuel + 1) children ((atPos ts i).prepend es) =
      parseProgramLoop stmtFuel fuel (children ++ stmt.toList)
        ((atPos ts j).prepend (es ++ new)) := by
  have hend : (atPos ts i).isAtEnd = false := by
    rw [isAtEnd_atPos h]
    simpa using h1
  rw [parseProgramLoop]
  simp only [isAtEnd_prepend, hend, Bool.false_eq_true, if_false, currentToken_prepend,
    currentToken_atPos h, h2, parseStmt_frame, hstmt, lift_ok, pos_prepend, prepend_prepend]
  rw [if_neg (by simpa [atPos] using hij)]

/-- One round of the top-level loop at a blank line. -/
theorem parseProgramLoop_newline (stmtFuel fuel : Nat) (children : List ParseNode)
    (es : List SyntaxError) {ts : List Token} {i : Nat} {t : Token}
    (h : ts.get? i = some t) (h2 : t.type = TokenType.NEWLINE) :
    parseProgramLoop stmtFuel (fuel + 1) children ((atPos ts i).prepend es) =
      parseProgramLoop stmtFuel fuel children ((atPos ts (i + 1)).prepend es) := by
  have h1 : t.type ≠ TokenType.ENDOFFILE := by rw [h2]; exact TokenType.noConfusion
  have hend : (atPos ts i).isAtEnd = false := by
    rw [isAtEnd_atPos h]
    simpa using h1
  rw [parseProgramLoop]
  simp only [isAtEnd_prepend, hend, Bool.false_eq_true, if_false, currentToken_prepend,
    currentToken_atPos h, h2, if_true, advance_prepend, advance_atPos h h1]

/-- The top-level loop ends at the end-of-file token. -/
theorem parseProgramLoop_eof (stmtFuel fuel : Nat) (children : List ParseNode)
    (es : List SyntaxError) {ts : List Token} {i : Nat} {t : Token}
    (h : ts.get? i = some t) (h1 : t.type = TokenType.ENDOFFILE) :
    parseProgramLoop stmtFuel (fuel + 1) children ((atPos ts i).prepend es) =
      .ok (children, (atPos ts i).prepend es) := by
  have hend : (atPos ts i).isAtEnd = true := by
    rw [isAtEnd_atPos h]
    simp [h1]
  rw [parseProgramLoop]
  simp only [isAtEnd_prepend, hend, if_true]

end SyntaxAnalyzer
end PyAnalyzer

namespace PyAnalyzer
namespace PythonLexer

/-! ## The main loop on a source of C13 -/

/-- The main loop on a source of C13, from the indentation stack `{0}`: the
tokens are those of `OrphanElif.kinds` and no error is recorded. -/
theorem tokenizeLoop_orphanElif (s : OrphanElif) (hs : SimpleStmt.headName s.name = true) :
    ∃ Lf, tokenizeLoop s.render.length (create s.render [0]) = some Lf ∧
      Lf.tokenKinds = s.kinds ∧ Lf.errors = [] := by
  obtain ⟨hname, _, _⟩ := SyntaxAnalyzer.headName_facts hs
  have hrest0 : (create s.render [0]).rest =
      "elif".toList ++ (List.replicate (s.afterElif + 1) ' ' ++ (s.name ++
        (List.replicate s.beforeColon ' ' ++ (':' :: (List.replicate s.afterColon ' ' ++
        ('\n' :: (List.replicate (s.indent + 1) ' ' ++ ("pass".toList ++
        (List.replicate s.afterPass ' ' ++ ['\n']))))))))) := rfl
  obtain ⟨L1, t1, r1, _⟩ := scans_keyword "elif".toList (by decide) (by decide) _ _ hrest0
    (by rw [headD_succ_spaces]; decide) (Or.inl (by decide))
  obtain ⟨L2, t2, r2, _⟩ := scans_spaces (s.afterElif + 1) L1 _ r1
  obtain ⟨L3, t3, r3, _⟩ := scans_operand (Operand.ident s.name) hname L2 s.beforeColon ':' _
    (by decide) r2
  obtain ⟨L4, t4, r4, _⟩ := scans_spaces s.beforeColon L3 _ r3
  obtain ⟨L5, t5, r5, _⟩ := scans_delimiter ':' (by decide) (by decide) L4 _ r4
  obtain ⟨L6, t6, r6, _⟩ := scans_spaces s.afterColon L5 _ r5
  obtain ⟨a1, a2, a3, a4⟩ := ((((t1.append t2).append t3).append t4).append t5).append t6
  have hcur6 : L6.current ≠ NUL := by
    rw [current_of_rest_cons r6]
    decide
  obtain ⟨r7, k7, e7, i7⟩ := tokenizeStep_newline_indent L6 s.indent 'p'
    ("ass".toList ++ (List.replicate s.afterPass ' ' ++ ['\n'])) (by rw [r6]; rfl)
    (by decide) (by decide) (by rw [a4]; rfl)
  have hloop6 := tokenizeLoop_of_step L6 hcur6
  obtain ⟨L8, t8, r8, _⟩ := scans_simple SimpleStmt.passStmt (by decide) (tokenizeStep L6)
    s.afterPass (by rw [r7]; rfl)
  obtain ⟨L9, t9, r9, _⟩ := scans_spaces s.afterPass L8 _ r8
  obtain ⟨b1, b2, b3, b4⟩ := t8.append t9
  obtain ⟨r10, k10, e10, _⟩ := tokenizeStep_newline_dedent L9 s.indent r9 (by rw [b4, i7])
  have hcur9 : L9.current ≠ NUL := by
    rw [current_of_rest_cons r9]
    decide
  have hloop9 : tokenizeLoop L9.rest.length L9 = some (tokenizeStep L9) := by
    rw [r9]
    show tokenizeLoop (0 + 1) L9 = _
    rw [tokenizeLoop_step _ _ hcur9, tokenizeLoop_done _ _ (current_of_rest_nil r10)]
  refine ⟨tokenizeStep L9, ?_, ?_, ?_⟩
  · have : (create s.render [0]).rest.length = s.render.length := rfl
    rw [← this, a1, hloop6, b1, hloop9]
  · rw [k10, b2, k7, a2]
    simp [tokenKinds, create, OrphanElif.kinds, SimpleStmt.kinds, Operand.text, Operand.type]
  · rw [e10, b3, e7, a3]
    rfl

/-- On a source of C13, `tokenize` from the indentation stack `{0}` returns
the tokens of `OrphanElif.kinds` and the end-of-file token, with no lexical
error. -/
theorem tokenize_orphanElif (F : DoubleArith) (s : OrphanElif)
    (hs : SimpleStmt.headName s.name = true) :
    ∃ L', tokenize F (create s.render [0]) = some L' ∧
      L'.tokens.map (fun t => (t.lexeme, t.type)) = s.kinds ++ [([], TokenType.ENDOFFILE)] ∧
      L'.errors = [] := by
  obtain ⟨Lf, hloop, hkinds, herr⟩ := tokenizeLoop_orphanElif s hs
  obtain ⟨L', hpost, htok⟩ := processAssignments_some F (Lf.addToken [] TokenType.ENDOFFILE)
  have htokenize : tokenize F (create s.render [0]) = some L' := by
    unfold tokenize
    rw [show (create s.render [0]).rest.length = s.render.length from rfl, hloop]
    exact hpost
  have hk : (Lf.addToken [] TokenType.ENDOFFILE).tokens.map (fun t => (t.lexeme, t.type)) =
      s.kinds ++ [([], TokenType.ENDOFFILE)] := by
    have := tokenKinds_addToken Lf [] TokenType.ENDOFFILE
    rw [hkinds] at this
    exact this
  have hty : ∀ j, ((Lf.addToken [] TokenType.ENDOFFILE).tokens.get? j).map Token.type ≠
      some TokenType.EQUALOPERATOR ∧
      ((Lf.addToken [] TokenType.ENDOFFILE).tokens.get? j).map Token.type ≠
        some TokenType.MINUSOPERATOR ∧
      ((Lf.addToken [] TokenType.ENDOFFILE).tokens.get? j).map Token.type ≠
        some TokenType.ADDOPERATOR := by
    intro j
    rw [type_of_kinds hk]
    rcases j with _ | _ | _ | _ | _ | _ | _ | _ | _ | j <;>
      simp [OrphanElif.kinds]
  refine ⟨L', htokenize, by rw [htok]; exact hk, ?_⟩
  refine processAssignmentsLoop_quiet F (fun _ => False)
    (Lf.addToken [] TokenType.ENDOFFILE).tokens ?_ (fun i hi => absurd hi (hty (i + 1)).1) _ 0
    (Lf.addToken [] TokenType.ENDOFFILE) rfl (by simpa using herr) (fun _ h => h.elim) L' hpost
  intro t ht
  obtain ⟨j, hj⟩ := List.get?_of_mem ht
  have h := hty j
  rw [hj] at h
  exact ⟨fun e => h.2.1 (by rw [Option.map_some', e]), fun e => h.2.2 (by rw [Option.map_some', e])⟩

end PythonLexer
end PyAnalyzer

namespace PyAnalyzer
namespace SyntaxAnalyzer

/-! ## C13 -/

theorem errorHere_atPos {ts : List Token} {i : Nat} {t : Token} (h : ts.get? i = some t)
    (msg : String) :
    (atPos ts i).errorHere msg = (atPos ts i).prepend [⟨msg.toList, t.line, t.column⟩] := by
  unfold errorHere
  rw [currentToken_atPos h]
  rfl

theorem orphanElif_no_comment (s : OrphanElif) :
    ∀ k ∈ s.kinds ++ [([], TokenType.ENDOFFILE)], k.2 ≠ TokenType.COMMENT := by
  intro k hk
  simp only [OrphanElif.kinds, List.cons_append, List.nil_append, List.mem_cons,
    List.mem_singleton, List.not_mem_nil, or_false] at hk
  rcases hk with rfl | rfl | rfl | rfl | rfl | rfl | rfl | rfl | rfl <;>
    exact TokenType.noConfusion

/-- `parseProgram` on the tokens of a source of C13: the orphaned `elif` is
reported at the name, the name becomes an expression statement, the colon is
skipped and the NEWLINE after it is reported as no statement. -/
theorem parseProgram_orphanElif (s : OrphanElif) (hs : SimpleStmt.headName s.name = true)
    (ts : List Token)
    (hk : ts.map (fun t => (t.lexeme, t.type)) = s.kinds ++ [([], TokenType.ENDOFFILE)]) :
    ∃ name newline, ts.get? 1 = some name ∧ ts.get? 3 = some newline ∧
      parseProgram ts = .ok (s.tree, (atPos ts 8).prepend
        [⟨"'elif' without matching 'if'".toList, name.line, name.column⟩,
          ⟨"Invalid expression or unknown statement".toList, newline.line, newline.column⟩]) := by
  obtain ⟨t0, g0, l0, y0⟩ := token_of_kinds hk (i := 0) rfl
  obtain ⟨t1, g1, l1, y1⟩ := token_of_kinds hk (i := 1) rfl
  obtain ⟨t2, g2, l2, y2⟩ := token_of_kinds hk (i := 2) rfl
  obtain ⟨t3, g3, l3, y3⟩ := token_of_kinds hk (i := 3) rfl
  obtain ⟨t4, g4, l4, y4⟩ := token_of_kinds hk (i := 4) rfl
  obtain ⟨t5, g5, l5, y5⟩ := token_of_kinds hk (i := 5) rfl
  obtain ⟨t6, g6, l6, y6⟩ := token_of_kinds hk (i := 6) rfl
  obtain ⟨t7, g7, l7, y7⟩ := token_of_kinds hk (i := 7) rfl
  obtain ⟨t8, g8, l8, y8⟩ := token_of_kinds hk (i := 8) rfl
  have hlen : ts.length = 9 := by
    have := congrArg List.length hk
    simpa [OrphanElif.kinds] using this
  have hfuel : parseFuel ts = 315 + 5 := by
    rw [parseFuel, hlen]
  refine ⟨t1, t3, g1, g3, ?_⟩
  have hstart : ({ tokens := ts } : SyntaxAnalyzer) = (atPos ts 0).prepend [] := rfl
  have e0 := parseStmt_orphan_elif 319 g0 y0 l0
  rw [errorHere_atPos g1] at e0
  have e1 : parseStmt (315 + 5) (atPos ts 1) = .ok (_, (atPos ts 2).prepend []) :=
    parseStmt_name_colon 315 g1 g2 s.name hs l1 y1 l2 y2
  have e2 := parseStmt_colon_newline 317 g2 g3 l2 y2 l3 y3
  rw [errorHere_atPos g3] at e2
  have e4 : parseStmt (319 + 1) (atPos ts 4) = .ok (_, (atPos ts 6).prepend []) :=
    parseStmt_indent_pass 319 g4 g5 y4 l5 y5
  have e7 : parseStmt (319 + 1) (atPos ts 7) = .ok (_, (atPos ts 8).prepend []) :=
    parseStmt_dedent 319 g7 y7
  unfold parseProgram
  rw [hfuel, hlen, hstart,
    parseProgramLoop_stmt _ 9 _ _ _ _ g0 (by rw [y0]; exact TokenType.noConfusion)
      (by rw [y0]; exact TokenType.noConfusion) e0 (by decide),
    parseProgramLoop_stmt _ 8 _ _ _ _ g1 (by rw [y1]; exact TokenType.noConfusion)
      (by rw [y1]; exact TokenType.noConfusion) e1 (by decide),
    parseProgramLoop_stmt _ 7 _ _ _ _ g2 (by rw [y2]; exact TokenType.noConfusion)
      (by rw [y2]; exact TokenType.noConfusion) e2 (by decide),
    parseProgramLoop_newline _ 6 _ _ g3 y3,
    parseProgramLoop_stmt _ 5 _ _ _ _ g4 (by rw [y4]; exact TokenType.noConfusion)
      (by rw [y4]; exact TokenType.noConfusion) e4 (by decide),
    parseProgramLoop_newline _ 4 _ _ g6 y6,
    parseProgramLoop_stmt _ 3 _ _ _ _ g7 (by rw [y7]; exact TokenType.noConfusion)
      (by rw [y7]; exact TokenType.noConfusion) e7 (by decide),
    parseProgramLoop_eof _ 2 _ _ g8 y8]
  rfl

/-- C13 (amended): for every source `elif name:`, newline, an indented line
`pass`, newline (the name an ordinary identifier other than `len` and
`input`, with at least one space after `elif`, any number of spaces before
and after the colon and after `pass`, and any indentation of at least one
space), `tokenize` from the indentation stack `{0}` returns with no lexical
error, and `parseProgram` on its tokens with the comments filtered out
records exactly two syntax errors, "'elif' without matching 'if'" at the name
and then "Invalid expression or unknown statement" at the NEWLINE token of
the header line; the tree returned is the root `Program` with the two
children `ExprStmt(Identifier name)` and `PassStmt`, and no node of it is
named `Elif`. -/
theorem orphan_elif_two_errors (F : DoubleArith) (s : OrphanElif)
    (hs : SimpleStmt.headName s.name = true) :
    ∃ L' S name newline, PythonLexer.tokenize F (PythonLexer.create s.render [0]) = some L' ∧
      L'.errors = [] ∧
      L'.tokens.get? 1 = some name ∧ L'.tokens.get? 3 = some newline ∧
      parseProgram (filterComments L'.tokens) = .ok (s.tree, S) ∧
      S.syntaxErrors =
        [⟨"'elif' without matching 'if'".toList, name.line, name.column⟩,
          ⟨"Invalid expression or unknown statement".toList, newline.line, newline.column⟩] ∧
      "Elif".toList ∉ s.tree.names := by
  obtain ⟨L', htokenize, hk, herr⟩ := PythonLexer.tokenize_orphanElif F s hs
  obtain ⟨name, newline, h1, h3, hparse⟩ := parseProgram_orphanElif s hs _ hk
  refine ⟨L', (atPos (filterComments L'.tokens) 8).prepend
    [⟨"'elif' without matching 'if'".toList, name.line, name.column⟩,
      ⟨"Invalid expression or unknown statement".toList, newline.line, newline.column⟩],
    name, newline, htokenize, herr, h1, h3, ?_, rfl, ?_⟩
  · rw [filterComments_of_kinds _ _ hk (orphanElif_no_comment s)]
    exact hparse
  · simp [OrphanElif.tree, ParseNode.names, ParseNode.namesOfList, ParseNode.leaf]

/-- C13 (amended) at `elif x:` with `pass` indented by one space. -/
theorem orphan_elif_two_errors_witness :
    SimpleStmt.headName "x".toList = true ∧
      ∃ L' S name newline, PythonLexer.tokenize exactArith
          (PythonLexer.create "elif x:\n pass\n".toList [0]) = some L' ∧
        L'.errors = [] ∧
        L'.tokens.get? 1 = some name ∧ L'.tokens.get? 3 = some newline ∧
        parseProgram (filterComments L'.tokens) =
          .ok (ParseNode.node "Program".toList []
            [ParseNode.node "ExprStmt".toList [] [ParseNode.leaf "Identifier" "x".toList],
              ParseNode.leaf "PassStmt"], S) ∧
        S.syntaxErrors =
          [⟨"'elif' without matching 'if'".toList, name.line, name.column⟩,
            ⟨"Invalid expression or unknown statement".toList, newline.line,
              newline.column⟩] ∧
        "Elif".toList ∉ (ParseNode.node "Program".toList []
            [ParseNode.node "ExprStmt".toList [] [ParseNode.leaf "Identifier" "x".toList],
              ParseNode.leaf "PassStmt"]).names :=
  ⟨by decide, orphan_elif_two_errors exactArith
    { name := "x".toList, afterElif := 0, beforeColon := 0, afterColon := 0, indent := 0,
      afterPass := 0 } (by decide)⟩

/-- On the source "elif x:\n pass\n", analysed from the indentation stack
`{0}`, there is no lexical error and `parseProgram` records two syntax
errors, not one: "'elif' without matching 'if'" at line 1, column 6, and
"Invalid expression or unknown statement" at line 1, column 7. -/
theorem orphan_elif_second_error :
    ∃ L' S, PythonLexer.tokenize exactArith
        (PythonLexer.create "elif x:\n pass\n".toList [0]) = some L' ∧
      L'.errors = [] ∧
      parseProgram (filterComments L'.tokens) =
        .ok (ParseNode.node "Program".toList []
          [ParseNode.node "ExprStmt".toList [] [ParseNode.leaf "Identifier" "x".toList],
            ParseNode.leaf "PassStmt"], S) ∧
      S.syntaxErrors = [⟨"'elif' without matching 'if'".toList, 1, 6⟩,
        ⟨"Invalid expression or unknown statement".toList, 1, 7⟩] ∧
      S.syntaxErrors.length ≠ 1 :=
  ⟨_, _, rfl, rfl, rfl, rfl, by decide⟩

end SyntaxAnalyzer
end PyAnalyzer

namespace PyAnalyzer
namespace SyntaxAnalyzer

set_option maxHeartbeats 4000000 in
/-- The statement of `assign_in_condition_rejected` on the tokens of the
source "if x = 1:\n pass\n": the error is recorded at the `=` (line 1,
column 5), `parseStmt` returns no node, and `parseProgram` on these tokens
ends with four syntax errors and a tree with no `IfStmt` node. -/
theorem assign_in_condition_rejected_witness :
    ∃ L', PythonLexer.tokenize exactArith
        (PythonLexer.create "if x = 1:\n pass\n".toList [0]) = some L' ∧
      L'.errors = [] ∧
      (atPos L'.tokens 2).currentToken = ⟨"=".toList, TokenType.EQUALOPERATOR, 1, 5⟩ ∧
      parseStmt (10 + 2) (atPos L'.tokens 0) =
        .ok (none, (atPos L'.tokens 2).errorHere "Invalid '=' in condition; did you mean '=='?") ∧
      ((atPos L'.tokens 2).errorHere "Invalid '=' in condition; did you mean '=='?").syntaxErrors =
        [⟨"Invalid '=' in condition; did you mean '=='?".toList, 1, 5⟩] ∧
      ∃ Sf, parseProgram (filterComments L'.tokens) =
          .ok (ParseNode.node "Program".toList []
            [ParseNode.node "ExprStmt".toList [] [ParseNode.leaf "Number" "1".toList],
              ParseNode.leaf "PassStmt"], Sf) ∧
        Sf.syntaxErrors =
          [⟨"Invalid '=' in condition; did you mean '=='?".toList, 1, 5⟩,
            ⟨"Expected an identifier, number, or expression".toList, 1, 5⟩,
            ⟨"Invalid expression or unknown statement".toList, 1, 5⟩,
            ⟨"Invalid expression or unknown statement".toList, 1, 9⟩] :=
  ⟨_, rfl, rfl, rfl,
    And.left (assign_in_condition_rejected 10 (atPos _ 0) (atPos _ 1) (atPos _ 2)
      (ParseNode.leaf "Identifier" "x".toList) (by decide) rfl rfl rfl rfl),
    rfl, _, rfl, rfl⟩

end SyntaxAnalyzer
end PyAnalyzer

namespace PyAnalyzer
namespace PythonLexer

/-! ## C24: the two-character operators -/

theorem peek_of_rest_cons {L : PythonLexer} {c d : Char} {r : List Char}
    (h : L.rest = c :: d :: r) : L.peek = d := by
  unfold peek
  rw [h]
  rfl

theorem compound_cases {op : List Char} {ty : TokenType} (h : (op, ty) ∈ compoundOperators) :
    ∃ c d, op = [c, d] ∧ isOperatorChar c = true ∧
      ∀ (L : PythonLexer) (r : List Char), L.rest = c :: d :: r →
        processOperator L = (L.addToken [c, d] ty).advance.advance := by
  simp only [compoundOperators, List.mem_cons, Prod.mk.injEq, List.mem_singleton,
    List.not_mem_nil, or_false] at h
  rcases h with h | h | h | h | h | h | h | h | h | h
  all_goals
    obtain ⟨hop, hty⟩ := h
    subst hop hty
    refine ⟨_, _, rfl, by decide, fun L r hrest => ?_⟩
    have hc := current_of_rest_cons hrest
    have hp := peek_of_rest_cons hrest
    unfold processOperator
    simp only [hc, hp]
    simp

/-- C24: each of the two-character operators `== != <= >= << >> ** += -= *=`
is read as one token.  At the head of any text, one round of the main loop
consumes the two characters and adds one token whose lexeme is the compound,
with no error; the source that is exactly the compound gives, from any
indentation stack, that token and the end-of-file token, with no lexical
error. -/
theorem compound_operator_is_one_token (F : DoubleArith) (stack : List Nat) (op : List Char)
    (ty : TokenType) (h : (op, ty) ∈ compoundOperators) :
    (∀ (L : PythonLexer) (r : List Char), L.rest = op ++ r →
      (tokenizeStep L).tokenKinds = L.tokenKinds ++ [(op, ty)] ∧ (tokenizeStep L).rest = r ∧
        (tokenizeStep L).errors = L.errors) ∧
    ∃ L', tokenize F (create op stack) = some L' ∧
      L'.tokenKinds = [(op, ty), ([], TokenType.ENDOFFILE)] ∧ L'.errors = [] := by
  obtain ⟨c, d, rfl, hop, hproc⟩ := compound_cases h
  have hstep : ∀ (L : PythonLexer) (r : List Char), L.rest = [c, d] ++ r →
      tokenizeStep L = (L.addToken [c, d] ty).advance.advance := by
    intro L r hrest
    rw [tokenizeStep_operator L (by rw [current_of_rest_cons hrest]; exact hop)]
    exact hproc L r hrest
  have hty : ty ≠ TokenType.IDENTIFIER := by
    simp only [compoundOperators, List.mem_cons, Prod.mk.injEq, List.mem_singleton,
      List.not_mem_nil, or_false] at h
    rcases h with ⟨_, rfl⟩ | ⟨_, rfl⟩ | ⟨_, rfl⟩ | ⟨_, rfl⟩ | ⟨_, rfl⟩ | ⟨_, rfl⟩ |
      ⟨_, rfl⟩ | ⟨_, rfl⟩ | ⟨_, rfl⟩ | ⟨_, rfl⟩ <;> exact TokenType.noConfusion
  refine ⟨fun L r hrest => ?_, ?_⟩
  · rw [hstep L r hrest]
    refine ⟨by rw [tokenKinds_advance, tokenKinds_advance, tokenKinds_addToken], ?_, by simp⟩
    simp [hrest]
  · have h0 : (create [c, d] stack).rest = [c, d] ++ [] := rfl
    have hs := hstep (create [c, d] stack) [] h0
    have hcur : (create [c, d] stack).current ≠ NUL := by
      rw [current_of_rest_cons h0]
      rintro rfl
      exact absurd hop (by decide)
    refine ⟨_, tokenize_one_step F _ hcur (by rw [hs]; simp [create]) ?_, ?_, ?_⟩
    · intro t ht
      rw [hs] at ht
      simp only [tokens_advance, tokens_addToken, create, List.nil_append,
        List.mem_singleton] at ht
      rw [ht]
      exact hty
    · rw [hs]
      simp [tokenKinds, create]
    · rw [hs]
      simp [create]

/-- The statement of `compound_operator_is_one_token` at `**`. -/
theorem compound_operator_is_one_token_witness :
    ("**".toList, TokenType.POWEROPERATOR) ∈ compoundOperators ∧
      ∃ L', tokenize exactArith (create "**".toList [0]) = some L' ∧
        L'.tokenKinds = [("**".toList, TokenType.POWEROPERATOR), ([], TokenType.ENDOFFILE)] ∧
        L'.errors = [] :=
  ⟨by decide, (compound_operator_is_one_token exactArith [0] _ _ (by decide)).2⟩

end PythonLexer
end PyAnalyzer

namespace PyAnalyzer
namespace PythonLexer

/-! ## Sources with no assignment -/

theorem hasAssignment_false {ts : List Token} (h : hasAssignment ts = false) (k : Nat) :
    ¬ ((ts.get? k).map Token.type = some TokenType.IDENTIFIER ∧
      (ts.get? (k + 1)).map Token.type = some TokenType.EQUALOPERATOR) := by
  induction ts generalizing k with
  | nil => simp
  | cons a ts ih =>
    cases ts with
    | nil => simp
    | cons b ts =>
      simp only [hasAssignment, Bool.or_eq_false_iff, Bool.and_eq_false_iff, beq_eq_false_iff_ne,
        ne_eq] at h
      cases k with
      | zero =>
        simp only [List.get?_cons_zero, Option.map_some', Option.some.injEq, zero_add,
          List.get?_cons_succ, not_and]
        intro ha hb
        rcases h.1 with h1 | h1
        · exact h1 ha
        · exact h1 hb
      | succ k => simpa using ih h.2 k

/-- The post-pass does nothing when no IDENTIFIER token is directly followed
by an EQUALOPERATOR token. -/
theorem processAssignmentsLoop_no_assignment (F : DoubleArith) (fuel i : Nat) (L : PythonLexer)
    (h : hasAssignment L.tokens = false) (hf : L.tokens.length ≤ fuel + i) :
    processAssignmentsLoop F fuel i L = some L := by
  induction fuel generalizing i with
  | zero =>
    have : ¬ i < L.tokens.length := by omega
    simp [processAssignmentsLoop, this]
  | succ fuel ih =>
    by_cases hi : i < L.tokens.length
    · have hstep : processAssignmentsStep F i L = (i + 1, L) := by
        unfold processAssignmentsStep
        dsimp only
        rw [if_neg (fun hc => hasAssignment_false h (i + 1) hc.2),
          if_neg (fun hc => hasAssignment_false h i hc)]
      simp only [processAssignmentsLoop, hi, if_true, hstep]
      exact ih (i + 1) (by omega)
    · simp [processAssignmentsLoop, hi]

/-- A run whose tokens hold no assignment: the result of the main loop with
the end-of-file token. -/
theorem tokenize_no_assignment (F : DoubleArith) (L Lf : PythonLexer)
    (hloop : tokenizeLoop L.rest.length L = some Lf)
    (h : hasAssignment (Lf.addToken [] TokenType.ENDOFFILE).tokens = false) :
    tokenize F L = some (Lf.addToken [] TokenType.ENDOFFILE) := by
  unfold tokenize
  rw [hloop]
  exact processAssignmentsLoop_no_assignment F _ 0 _ h (by omega)

/-! ## C25: the text `:=` -/

/-- C25 (evaluation at the failing input): the main loop sends a `:` to the
delimiter case, since `:` is no operator character, so `processOperator` is
never entered at a `:` and its test for `:=` is never reached.  The source
"a := 3" gives the tokens `a`, `:`, `=`, `3` and the end-of-file token, and
no lexical error. -/
theorem colon_equals_is_two_tokens (F : DoubleArith) :
    isOperatorChar ':' = false ∧
    (∀ L : PythonLexer, L.current = ':' →
      tokenizeStep L = (L.addToken [':'] TokenType.DELIMITER).advance) ∧
    ∃ L', tokenize F (create "a := 3".toList [0]) = some L' ∧
      L'.tokenKinds = [("a".toList, TokenType.IDENTIFIER), (":".toList, TokenType.DELIMITER),
        ("=".toList, TokenType.EQUALOPERATOR), ("3".toList, TokenType.NUMBER),
        ([], TokenType.ENDOFFILE)] ∧
      L'.errors = [] :=
  ⟨rfl, fun L h => by
    rw [tokenizeStep_delimiter L (by rw [h]; rfl) (by rw [h]; decide), h],
    ⟨_, tokenize_no_assignment F _ _ rfl rfl, rfl, rfl⟩⟩

end PythonLexer
end PyAnalyzer

namespace PyAnalyzer
namespace PythonLexer

/-! ## C26: a `#` followed by a triple quote -/

theorem headD_drop_takeWhile (p : Char → Bool) (l : List Char) :
    l.drop (l.takeWhile p).length = [] ∨
      ∃ c r, l.drop (l.takeWhile p).length = c :: r ∧ p c = false := by
  induction l with
  | nil => exact Or.inl rfl
  | cons a l ih =>
    by_cases ha : p a = true
    · simpa [List.takeWhile_cons, ha] using ih
    · refine Or.inr ⟨a, l, ?_, by simpa using ha⟩
      simp [List.takeWhile_cons, ha]

/-- At a `#`, `processComment` reads the rest of the line as one COMMENT
token and stops: the character it stops at is a newline or the end of the
input, so its second part (the docstring scan) is not entered. -/
theorem processComment_line (L : PythonLexer) (h : L.current = '#') :
    processComment L =
      (L.advance.advanceN (L.advance.rest.takeWhile (fun c => c != '\n' && c != NUL)).length).addToken
        (L.advance.rest.takeWhile (fun c => c != '\n' && c != NUL)) TokenType.COMMENT := by
  unfold processComment
  simp only [h, if_true]
  rw [if_neg]
  unfold current
  rw [rest_addToken, rest_advanceN]
  rcases headD_drop_takeWhile (fun c => c != '\n' && c != NUL) L.advance.rest with e | ⟨c, r, e, hc⟩
  · rw [e]
    decide
  · rw [e]
    simp only [Bool.and_eq_false_iff, bne_eq_false_iff_eq] at hc
    rcases hc with rfl | rfl <;> simp [NUL]

/-- C26 (evaluation at the failing input): `processComment` is called at a
`#` only, reads the rest of the line as one COMMENT token and never enters
its docstring scan.  In the source `#`, three double quotes, `a`, newline,
`b`, three double quotes, the comment is the first line only; `b` is an
IDENTIFIER token, and the closing quotes open a triple-quoted string that is
reported as unterminated. -/
theorem hash_docstring_is_line_comment (F : DoubleArith) :
    (∀ L : PythonLexer, L.current = '#' →
      tokenizeStep L =
        (L.advance.advanceN
          (L.advance.rest.takeWhile (fun c => c != '\n' && c != NUL)).length).addToken
          (L.advance.rest.takeWhile (fun c => c != '\n' && c != NUL)) TokenType.COMMENT) ∧
    ∃ L', tokenize F (create "#\"\"\"a\nb\"\"\"".toList [0]) = some L' ∧
      L'.tokenKinds = [("\"\"\"a".toList, TokenType.COMMENT), ("\n".toList, TokenType.NEWLINE),
        ("b".toList, TokenType.IDENTIFIER), ([], TokenType.ENDOFFILE)] ∧
      L'.errorMessages =
        ["Unterminated triple-quoted string starting at line 2 column 2".toList] :=
  ⟨fun L h => by
    rw [← processComment_line L h]
    unfold tokenizeStep
    simp only [h]
    rw [if_neg (by decide), if_neg (by decide)]
    rfl,
    ⟨_, tokenize_no_assignment F _ _ rfl rfl, rfl, rfl⟩⟩

end PythonLexer
end PyAnalyzer

namespace PyAnalyzer
namespace PythonLexer

/-! ## C27: an underscore followed by a digit after a type name -/

/-- C27 (evaluation at the failing input): `processTypeAnnotation` reads the
name after a type hint with the loop of `processIdentifier` but without its
test for an underscore followed by a digit.  The source "int _1" gives the
IDENTIFIER token `_1` and the end-of-file token, registers `_1` in the symbol
table and records no lexical error. -/
theorem annotated_underscore_digit_accepted (F : DoubleArith) :
    ∃ L', tokenize F (create "int _1".toList [0]) = some L' ∧
      L'.tokenKinds = [("_1".toList, TokenType.IDENTIFIER), ([], TokenType.ENDOFFILE)] ∧
      L'.symbolTable.count "_1".toList = true ∧
      L'.errors = [] :=
  ⟨_, tokenize_no_assignment F _ _ rfl rfl, rfl, rfl, rfl⟩

end PythonLexer
end PyAnalyzer

namespace PyAnalyzer
namespace PythonLexer

/-! ## A source that is one assignment with a right side of several tokens -/

/-- The run on a source whose tokens are `name`, `=`, a right side of two or
more tokens and a NEWLINE, with no lexical error: the post-pass is
`foldAssignment` on the right side. -/
theorem tokenize_one_fold (F : DoubleArith) (L Lf : PythonLexer) (tn te tz : Token)
    (expr : List Token) (hloop : tokenizeLoop L.rest.length L = some Lf)
    (htok : Lf.tokens = tn :: te :: (expr ++ [tz]))
    (hn : tn.type = TokenType.IDENTIFIER) (he : te.type = TokenType.EQUALOPERATOR)
    (hexpr : ∀ t ∈ expr, endsAssignment t = false) (hz : tz.type = TokenType.NEWLINE)
    (herr : Lf.errors = []) (hmulti : 2 ≤ expr.length) :
    tokenize F L = some (foldAssignment F (Lf.addToken [] TokenType.ENDOFFILE) tn.lexeme expr) := by
  have ht0 : (Lf.addToken [] TokenType.ENDOFFILE).tokens =
      tn :: te :: (expr ++ tz :: [⟨[], TokenType.ENDOFFILE, Lf.line, Lf.column - 0⟩]) := by
    simp [addToken, htok]
  have hstep := processAssignmentsStep_infer F (Lf.addToken [] TokenType.ENDOFFILE) 0 tn te tz
    expr [⟨[], TokenType.ENDOFFILE, Lf.line, Lf.column - 0⟩] (by rw [ht0]; rfl) hn
    (by rw [ht0]; rfl) he (by rw [ht0]; rfl) hexpr (by simp [endsAssignment, hz])
    (by simp [herr])
  rw [inferAssignment_of_length F _ _ expr hmulti] at hstep
  have hlen : (Lf.addToken [] TokenType.ENDOFFILE).tokens.length = expr.length + 4 := by
    rw [ht0]
    simp
  unfold tokenize
  rw [hloop]
  show processAssignmentsLoop F _ 0 _ = _
  rw [hlen, show expr.length + 4 = (expr.length + 3) + 1 from rfl, processAssignmentsLoop,
    if_pos (by omega), hstep]
  refine processAssignmentsLoop_noop_from F _ _ _ ?_ ?_
  · intro k hk
    rw [foldAssignment_tokens, ht0]
    have hk2 : k = (expr.length + 2) + (k - (expr.length + 2)) := by omega
    rw [hk2, show tn :: te :: (expr ++ tz :: [⟨[], TokenType.ENDOFFILE, Lf.line, Lf.column - 0⟩]) =
      (tn :: te :: expr) ++ tz :: [⟨[], TokenType.ENDOFFILE, Lf.line, Lf.column - 0⟩] from rfl,
      List.get?_eq_getElem?, List.getElem?_append_right (by simp)]
    simp only [List.length_cons, add_tsub_cancel_left]
    rcases (k - (expr.length + 2)) with _ | _ | j <;> simp [hz]
  · rw [foldAssignment_tokens, hlen]
    omega

end PythonLexer
end PyAnalyzer

namespace PyAnalyzer
namespace PythonLexer

/-! ## C29: a minus sign after an operator -/

/-- C29 (evaluation at the failing inputs): `toRPN` computes the flag `unary`
and then assigns to the operator the kind it already has, so a unary minus
goes through the stack as a binary one, and `evalRPN` negates only when
exactly one value is on its stack.  The right side `2 - -3` becomes the
postfix form `2 - 3 -` and is evaluated as (-2) - 3: the source "x = 2 - -3"
records `x` as int "-5".  The right side `2 * -3` becomes `2 * 3 -`, whose
`*` finds one value only: the source "x = 2 * -3" records the error "Invalid
expression" and `x` as unknown. -/
theorem unary_minus_not_honoured :
    toRPN [⟨"2".toList, TokenType.NUMBER, 1, 5⟩, ⟨"-".toList, TokenType.MINUSOPERATOR, 1, 6⟩,
        ⟨"-".toList, TokenType.MINUSOPERATOR, 1, 8⟩, ⟨"3".toList, TokenType.NUMBER, 1, 10⟩] =
      .ok [⟨"2".toList, TokenType.NUMBER, 1, 5⟩, ⟨"-".toList, TokenType.MINUSOPERATOR, 1, 6⟩,
        ⟨"3".toList, TokenType.NUMBER, 1, 10⟩, ⟨"-".toList, TokenType.MINUSOPERATOR, 1, 8⟩] ∧
    toRPN [⟨"2".toList, TokenType.NUMBER, 1, 5⟩, ⟨"*".toList, TokenType.MULTIPLYOPERATOR, 1, 6⟩,
        ⟨"-".toList, TokenType.MINUSOPERATOR, 1, 8⟩, ⟨"3".toList, TokenType.NUMBER, 1, 10⟩] =
      .ok [⟨"2".toList, TokenType.NUMBER, 1, 5⟩, ⟨"*".toList, TokenType.MULTIPLYOPERATOR, 1, 6⟩,
        ⟨"3".toList, TokenType.NUMBER, 1, 10⟩, ⟨"-".toList, TokenType.MINUSOPERATOR, 1, 8⟩] ∧
    (∃ L', tokenize exactArith (create "x = 2 - -3\n".toList [0]) = some L' ∧
      (L'.tokens.drop 2).take 4 =
        [⟨"2".toList, TokenType.NUMBER, 1, 5⟩, ⟨"-".toList, TokenType.MINUSOPERATOR, 1, 6⟩,
          ⟨"-".toList, TokenType.MINUSOPERATOR, 1, 8⟩, ⟨"3".toList, TokenType.NUMBER, 1, 10⟩] ∧
      L'.errors = [] ∧
      L'.symbolTable.getDataType "x".toList = "int".toList ∧
      L'.symbolTable.getValue "x".toList = "-5".toList) ∧
    ∃ L', tokenize exactArith (create "x = 2 * -3\n".toList [0]) = some L' ∧
      (L'.tokens.drop 2).take 4 =
        [⟨"2".toList, TokenType.NUMBER, 1, 5⟩, ⟨"*".toList, TokenType.MULTIPLYOPERATOR, 1, 6⟩,
          ⟨"-".toList, TokenType.MINUSOPERATOR, 1, 8⟩, ⟨"3".toList, TokenType.NUMBER, 1, 10⟩] ∧
      L'.errorMessages = ["Invalid expression".toList] ∧
      L'.symbolTable.getDataType "x".toList = "unknown".toList ∧
      L'.symbolTable.getValue "x".toList = "N/A".toList := by
  refine ⟨rfl, rfl, ?_, ?_⟩
  · obtain ⟨Lf, hloop, htok, herr, hsym⟩ :
        ∃ Lf, tokenizeLoop 11 (create "x = 2 - -3\n".toList [0]) = some Lf ∧
          Lf.tokens = ⟨"x".toList, TokenType.IDENTIFIER, 1, 1⟩ ::
            ⟨"=".toList, TokenType.EQUALOPERATOR, 1, 2⟩ ::
            [⟨"2".toList, TokenType.NUMBER, 1, 5⟩, ⟨"-".toList, TokenType.MINUSOPERATOR, 1, 6⟩,
              ⟨"-".toList, TokenType.MINUSOPERATOR, 1, 8⟩, ⟨"3".toList, TokenType.NUMBER, 1, 10⟩,
              ⟨"\n".toList, TokenType.NEWLINE, 1, 10⟩] ∧
          Lf.errors = [] ∧ Lf.symbolTable.count "x".toList = true :=
      ⟨_, rfl, rfl, rfl, rfl⟩
    have hrun := tokenize_one_fold exactArith (create "x = 2 - -3\n".toList [0]) Lf
      ⟨"x".toList, TokenType.IDENTIFIER, 1, 1⟩ ⟨"=".toList, TokenType.EQUALOPERATOR, 1, 2⟩
      ⟨"\n".toList, TokenType.NEWLINE, 1, 10⟩
      [⟨"2".toList, TokenType.NUMBER, 1, 5⟩, ⟨"-".toList, TokenType.MINUSOPERATOR, 1, 6⟩,
        ⟨"-".toList, TokenType.MINUSOPERATOR, 1, 8⟩, ⟨"3".toList, TokenType.NUMBER, 1, 10⟩]
      hloop htok rfl rfl (by decide) rfl herr (by decide)
    have hfold : foldAssignment exactArith (Lf.addToken [] TokenType.ENDOFFILE) "x".toList
        [⟨"2".toList, TokenType.NUMBER, 1, 5⟩, ⟨"-".toList, TokenType.MINUSOPERATOR, 1, 6⟩,
          ⟨"-".toList, TokenType.MINUSOPERATOR, 1, 8⟩, ⟨"3".toList, TokenType.NUMBER, 1, 10⟩] =
        { Lf.addToken [] TokenType.ENDOFFILE with
          symbolTable := (Lf.addToken [] TokenType.ENDOFFILE).symbolTable.setIdentifierInfo
            "x".toList "int".toList "-5".toList } := by
      have hv : (toRPN [⟨"2".toList, TokenType.NUMBER, 1, 5⟩,
          ⟨"-".toList, TokenType.MINUSOPERATOR, 1, 6⟩, ⟨"-".toList, TokenType.MINUSOPERATOR, 1, 8⟩,
          ⟨"3".toList, TokenType.NUMBER, 1, 10⟩]).bind
            (evalRPN exactArith (Lf.addToken [] TokenType.ENDOFFILE).symbolTable) =
          .ok (-5 : ℚ) := by
        rw [show toRPN [⟨"2".toList, TokenType.NUMBER, 1, 5⟩,
          ⟨"-".toList, TokenType.MINUSOPERATOR, 1, 6⟩, ⟨"-".toList, TokenType.MINUSOPERATOR, 1, 8⟩,
          ⟨"3".toList, TokenType.NUMBER, 1, 10⟩] = .ok [⟨"2".toList, TokenType.NUMBER, 1, 5⟩,
          ⟨"-".toList, TokenType.MINUSOPERATOR, 1, 6⟩, ⟨"3".toList, TokenType.NUMBER, 1, 10⟩,
          ⟨"-".toList, TokenType.MINUSOPERATOR, 1, 8⟩] from rfl]
        simp [Except.bind, evalRPN, evalRPNLoop, operandValue, applyOperator, exactArith,
          exactStod, decimalValue, isdigit]
        norm_num
      unfold foldAssignment
      rw [hv]
      rfl
    refine ⟨_, hrun, ?_, ?_, ?_⟩
    · rw [foldAssignment_tokens]
      simp [addToken, htok]
    · rw [hfold]
      simpa using herr
    · rw [hfold]
      exact getDataType_setIdentifierInfo _ _ _ _ hsym
  · obtain ⟨Lf, hloop, htok, herr, hsym⟩ :
        ∃ Lf, tokenizeLoop 11 (create "x = 2 * -3\n".toList [0]) = some Lf ∧
          Lf.tokens = ⟨"x".toList, TokenType.IDENTIFIER, 1, 1⟩ ::
            ⟨"=".toList, TokenType.EQUALOPERATOR, 1, 2⟩ ::
            [⟨"2".toList, TokenType.NUMBER, 1, 5⟩, ⟨"*".toList, TokenType.MULTIPLYOPERATOR, 1, 6⟩,
              ⟨"-".toList, TokenType.MINUSOPERATOR, 1, 8⟩, ⟨"3".toList, TokenType.NUMBER, 1, 10⟩,
              ⟨"\n".toList, TokenType.NEWLINE, 1, 10⟩] ∧
          Lf.errors = [] ∧ Lf.symbolTable.count "x".toList = true :=
      ⟨_, rfl, rfl, rfl, rfl⟩
    have hrun := tokenize_one_fold exactArith (create "x = 2 * -3\n".toList [0]) Lf
      ⟨"x".toList, TokenType.IDENTIFIER, 1, 1⟩ ⟨"=".toList, TokenType.EQUALOPERATOR, 1, 2⟩
      ⟨"\n".toList, TokenType.NEWLINE, 1, 10⟩
      [⟨"2".toList, TokenType.NUMBER, 1, 5⟩, ⟨"*".toList, TokenType.MULTIPLYOPERATOR, 1, 6⟩,
        ⟨"-".toList, TokenType.MINUSOPERATOR, 1, 8⟩, ⟨"3".toList, TokenType.NUMBER, 1, 10⟩]
      hloop htok rfl rfl (by decide) rfl herr (by decide)
    have hfold : foldAssignment exactArith (Lf.addToken [] TokenType.ENDOFFILE) "x".toList
        [⟨"2".toList, TokenType.NUMBER, 1, 5⟩, ⟨"*".toList, TokenType.MULTIPLYOPERATOR, 1, 6⟩,
          ⟨"-".toList, TokenType.MINUSOPERATOR, 1, 8⟩, ⟨"3".toList, TokenType.NUMBER, 1, 10⟩] =
        { (Lf.addToken [] TokenType.ENDOFFILE).addError "Invalid expression".toList with
          symbolTable := (Lf.addToken [] TokenType.ENDOFFILE).symbolTable.setIdentifierInfo
            "x".toList "unknown".toList "N/A".toList } := by
      have hv : (toRPN [⟨"2".toList, TokenType.NUMBER, 1, 5⟩,
          ⟨"*".toList, TokenType.MULTIPLYOPERATOR, 1, 6⟩,
          ⟨"-".toList, TokenType.MINUSOPERATOR, 1, 8⟩,
          ⟨"3".toList, TokenType.NUMBER, 1, 10⟩]).bind
            (evalRPN exactArith (Lf.addToken [] TokenType.ENDOFFILE).symbolTable) =
          .error "Invalid expression".toList := by
        rw [show toRPN [⟨"2".toList, TokenType.NUMBER, 1, 5⟩,
          ⟨"*".toList, TokenType.MULTIPLYOPERATOR, 1, 6⟩,
          ⟨"-".toList, TokenType.MINUSOPERATOR, 1, 8⟩,
          ⟨"3".toList, TokenType.NUMBER, 1, 10⟩] = .ok [⟨"2".toList, TokenType.NUMBER, 1, 5⟩,
          ⟨"*".toList, TokenType.MULTIPLYOPERATOR, 1, 6⟩, ⟨"3".toList, TokenType.NUMBER, 1, 10⟩,
          ⟨"-".toList, TokenType.MINUSOPERATOR, 1, 8⟩] from rfl]
        simp [Except.bind, evalRPN, evalRPNLoop, operandValue, applyOperator, exactArith,
          exactStod, decimalValue, isdigit]
      unfold foldAssignment
      rw [hv]
      rfl
    refine ⟨_, hrun, ?_, ?_, ?_⟩
    · rw [foldAssignment_tokens]
      simp [addToken, htok]
    · rw [hfold]
      simp [errorMessages, addError, addToken, herr]
    · rw [hfold]
      exact getDataType_setIdentifierInfo _ _ _ _ hsym

end PythonLexer
end PyAnalyzer

namespace PyAnalyzer
namespace PythonLexer

/-! ## C23: the column of a token -/

/-- C23 (evaluation at the failing inputs): `addToken` stores `column` minus
the length of the lexeme, which is the column of the first character only
when the lexeme has just been consumed.  The delimiter and newline cases of
`tokenize` and `processOperator` call it before `advance()`, so the token of
a delimiter or of a newline whose character stands in column `c` carries the
column `c - 1`.  In the source `(a) "hi"` with a newline, the `(` of column 1
carries column 0, the `)` of column 3 column 2, the string whose first
character `h` stands in column 6 column 7, and the newline of column 9 column
8; in the source "a + b" with a newline the `+` of column 3 carries column 2.
The identifiers carry their columns. -/
theorem token_columns_off (F : DoubleArith) :
    (∀ L : PythonLexer, isDelimiter L.current = true → L.current ≠ '@' →
      (tokenizeStep L).tokens =
        L.tokens ++ [⟨[L.current], TokenType.DELIMITER, L.line, L.column - 1⟩]) ∧
    (∀ L : PythonLexer, L.current = '\n' →
      ∃ more, (tokenizeStep L).tokens =
        L.tokens ++ ⟨['\n'], TokenType.NEWLINE, L.line, L.column - 1⟩ :: more) ∧
    (∃ L', tokenize F (create "(a) \"hi\"\n".toList [0]) = some L' ∧
      L'.tokens = [⟨"(".toList, TokenType.DELIMITER, 1, 0⟩,
        ⟨"a".toList, TokenType.IDENTIFIER, 1, 2⟩, ⟨")".toList, TokenType.DELIMITER, 1, 2⟩,
        ⟨"hi".toList, TokenType.STRING, 1, 7⟩, ⟨"\n".toList, TokenType.NEWLINE, 1, 8⟩,
        ⟨[], TokenType.ENDOFFILE, 2, 1⟩] ∧
      L'.errors = []) ∧
    ∃ L', tokenize F (create "a + b\n".toList [0]) = some L' ∧
      L'.tokens = [⟨"a".toList, TokenType.IDENTIFIER, 1, 1⟩,
        ⟨"+".toList, TokenType.ADDOPERATOR, 1, 2⟩, ⟨"b".toList, TokenType.IDENTIFIER, 1, 5⟩,
        ⟨"\n".toList, TokenType.NEWLINE, 1, 5⟩, ⟨[], TokenType.ENDOFFILE, 2, 1⟩] ∧
      L'.errors = [] := by
  refine ⟨fun L h hat => ?_, fun L h => ?_, ⟨_, tokenize_no_assignment F _ _ rfl rfl, rfl, rfl⟩,
    ⟨_, tokenize_no_assignment F _ _ rfl rfl, rfl, rfl⟩⟩
  · rw [tokenizeStep_delimiter L h hat]
    simp [addToken]
  · have hstep : tokenizeStep L =
        handleIndentation ((L.addToken ['\n'] TokenType.NEWLINE).advance) := by
      unfold tokenizeStep
      simp only [h, if_true]
    obtain ⟨_, new, hnew, _⟩ := handleIndentation_ext
      (Ext.refl ((L.addToken ['\n'] TokenType.NEWLINE).advance))
    refine ⟨new, ?_⟩
    rw [hstep, hnew]
    simp [addToken]

end PythonLexer
end PyAnalyzer

namespace PyAnalyzer
namespace PythonLexer

/-! ## C22: the lexeme of a string literal -/

theorem stringLoop_quote (quote : Char) (r : List Char) :
    stringLoop quote (quote :: r) = ([], 0, false) := by
  rw [stringLoop.eq_def]
  dsimp only
  rw [if_pos (Or.inl rfl)]

theorem stringLoop_plain (quote c : Char) (cs : List Char) (h1 : c ≠ quote) (h2 : c ≠ '\\')
    (h3 : c ≠ '\n') (h4 : c ≠ NUL) :
    stringLoop quote (c :: cs) =
      (c :: (stringLoop quote cs).1, (stringLoop quote cs).2.1 + 1, (stringLoop quote cs).2.2) := by
  rw [stringLoop.eq_def]
  dsimp only
  rw [if_neg (by
    rintro (h | h)
    · exact h1 h
    · exact h4 h), if_neg h3, if_neg h2]

theorem stringLoop_escape (quote d : Char) (ds : List Char) (hq : '\\' ≠ quote) (h4 : d ≠ NUL) :
    stringLoop quote ('\\' :: d :: ds) =
      (d :: (stringLoop quote ds).1, (stringLoop quote ds).2.1 + 2, (stringLoop quote ds).2.2) := by
  rw [stringLoop.eq_def]
  dsimp only
  rw [if_neg (by
    rintro (h | h)
    · exact hq h
    · exact absurd h (by decide)), if_neg (by decide), if_pos rfl, if_neg h4]

theorem stringLoop_pieces (quote : Char) (hq : quote = '"' ∨ quote = '\'') (r : List Char)
    (ps : List StringPiece) (hfit : ∀ p ∈ ps, p.fits quote = true) :
    stringLoop quote (stringBody ps ++ quote :: r) =
      (ps.map StringPiece.kept, (stringBody ps).length, false) := by
  have hqb : '\\' ≠ quote := by rcases hq with rfl | rfl <;> decide
  induction ps with
  | nil => exact stringLoop_quote quote r
  | cons p ps ih =>
    have hp := hfit p (List.mem_cons_self _ _)
    have ih' := ih (fun q hq' => hfit q (List.mem_cons_of_mem _ hq'))
    cases p with
    | plain c =>
      simp only [StringPiece.fits, Bool.and_eq_true, bne_iff_ne, ne_eq] at hp
      obtain ⟨⟨⟨h1, h2⟩, h3⟩, h4⟩ := hp
      show stringLoop quote (c :: (stringBody ps ++ quote :: r)) = _
      rw [stringLoop_plain quote c _ h1 h2 h3 h4, ih']
      rfl
    | escape c =>
      simp only [StringPiece.fits, Bool.and_eq_true, bne_iff_ne, ne_eq] at hp
      obtain ⟨h3, h4⟩ := hp
      show stringLoop quote ('\\' :: c :: (stringBody ps ++ quote :: r)) = _
      rw [stringLoop_escape quote c _ hqb h4, ih']
      rfl

theorem tokenizeStep_quote (L : PythonLexer) (quote : Char) (hq : quote = '"' ∨ quote = '\'')
    (h : L.current = quote) : tokenizeStep L = processString L quote := by
  unfold tokenizeStep
  simp only [h]
  rcases hq with rfl | rfl
  · rw [if_neg (by decide), if_neg (by decide), if_neg (by decide), if_neg (by decide),
      if_pos (by decide)]
  · rw [if_neg (by decide), if_neg (by decide), if_neg (by decide), if_neg (by decide),
      if_pos (by decide)]

/-- The state of `processString` before its loop, when the literal is not
triple-quoted: past the opening quote and past a backslash that follows it. -/
theorem processString_single (L : PythonLexer) (quote : Char) (lex : List Char) (n : Nat)
    (r : List Char)
    (hnt : ¬ (L.advance.current = quote ∧ L.advance.peek = quote))
    (M : PythonLexer)
    (hM : M = if L.advance.current = '\\' then
        (if L.advance.advance.current ≠ 'n' ∧ L.advance.advance.current ≠ 't' ∧
            L.advance.advance.current ≠ '\\' ∧ L.advance.advance.current ≠ '"' ∧
            L.advance.advance.current ≠ '\'' then
          L.advance.advance.addError
            ("Invalid escape sequence: \\".toList ++ [L.advance.advance.current])
        else L.advance.advance)
      else L.advance)
    (hloop : stringLoop quote M.rest = (lex, n, false))
    (hrest : M.rest.drop n = quote :: r) :
    processString L quote = ((M.advanceN n).advance).addToken lex TokenType.STRING := by
  have hcur : (M.advanceN n).current = quote := by
    unfold current
    rw [rest_advanceN, hrest]
    rfl
  unfold processString
  simp only [hnt, decide_False, Bool.false_eq_true, if_false, ← hM, hloop, hcur, ne_eq,
    not_true_eq_false]


theorem kept_of_plain (ps : List StringPiece) (h : ∀ p ∈ ps, p.isPlain = true) :
    ps.map StringPiece.kept = stringBody ps := by
  induction ps with
  | nil => rfl
  | cons p ps ih =>
    cases p with
    | plain c =>
      simp only [List.map_cons, StringPiece.kept, stringBody, StringPiece.source,
        List.singleton_append, List.cons.injEq, true_and]
      exact ih (fun q hq => h q (List.mem_cons_of_mem _ hq))
    | escape c => exact absurd (h _ (List.mem_cons_self _ _)) (by simp [StringPiece.isPlain])

theorem errorMessages_addToken (L : PythonLexer) (l : List Char) (ty : TokenType) :
    (L.addToken l ty).errorMessages = L.errorMessages := rfl

theorem errorMessages_advance (L : PythonLexer) : L.advance.errorMessages = L.errorMessages := by
  simp [errorMessages]

theorem errorMessages_advanceN (n : Nat) (L : PythonLexer) :
    (L.advanceN n).errorMessages = L.errorMessages := by
  simp [errorMessages]

theorem errorMessages_addError (L : PythonLexer) (m : List Char) :
    (L.addError m).errorMessages = L.errorMessages ++ [m] := by
  simp [errorMessages, addError]

/-- The state in which `processString` leaves its loop on a literal closed on
its line, and the token it adds. -/
theorem processString_pieces (L : PythonLexer) (quote : Char)
    (ps : List StringPiece) (r : List Char) (hq : quote = '"' ∨ quote = '\'')
    (hrest : L.rest = quote :: (stringBody ps ++ quote :: r))
    (hfit : ∀ p ∈ ps, p.fits quote = true) (hfirst : firstPieceFits quote ps = true)
    (hempty : ps = [] → r.headD NUL ≠ quote) :
    ∃ (M : PythonLexer) (n : Nat),
      processString L quote =
        ((M.advanceN n).advance).addToken (ps.map StringPiece.kept) TokenType.STRING ∧
      M.tokenKinds = L.tokenKinds ∧ M.rest.drop n = quote :: r ∧
      M.errorMessages = L.errorMessages ++
        (if firstEscapeReported ps then
          ["Invalid escape sequence: \\".toList ++ [(ps.map StringPiece.kept).headD NUL]]
        else []) := by
  have hqb : '\\' ≠ quote := by rcases hq with rfl | rfl <;> decide
  have h1 : L.advance.rest = stringBody ps ++ quote :: r := by
    rw [rest_advance, hrest]
    rfl
  cases ps with
  | nil =>
    have hc : L.advance.current = quote := current_of_rest_cons h1
    have hp : L.advance.peek ≠ quote := by
      unfold peek
      rw [h1]
      exact hempty rfl
    refine ⟨L.advance, 0, processString_single L quote [] 0 r (fun h => hp h.2) L.advance
      (by rw [if_neg (by rw [hc]; exact fun h => hqb h.symm)])
      (by rw [h1]; exact stringLoop_quote quote r) (by rw [h1]; rfl),
      tokenKinds_advance L, by rw [h1]; rfl, ?_⟩
    rw [errorMessages_advance]
    simp [firstEscapeReported]
  | cons p ps =>
    cases p with
    | plain c =>
      have hp := hfit _ (List.mem_cons_self _ _)
      simp only [StringPiece.fits, Bool.and_eq_true, bne_iff_ne, ne_eq] at hp
      have h1' : L.advance.rest = c :: (stringBody ps ++ quote :: r) := h1
      have hc : L.advance.current = c := current_of_rest_cons h1'
      refine ⟨L.advance, (stringBody (StringPiece.plain c :: ps)).length,
        processString_single L quote _ _ r (fun h => hp.1.1.1 (hc ▸ h.1)) L.advance
          (by rw [if_neg (by rw [hc]; exact hp.1.1.2)])
          (by rw [h1]; exact stringLoop_pieces quote hq r _ hfit)
          (by rw [h1]; exact List.drop_left _ _),
        tokenKinds_advance L, by rw [h1]; exact List.drop_left _ _, ?_⟩
      rw [errorMessages_advance]
      simp [firstEscapeReported]
    | escape c =>
      have hp := hfit _ (List.mem_cons_self _ _)
      simp only [StringPiece.fits, Bool.and_eq_true, bne_iff_ne, ne_eq] at hp
      simp only [firstPieceFits, Bool.and_eq_true, bne_iff_ne, ne_eq] at hfirst
      have h1' : L.advance.rest = '\\' :: c :: (stringBody ps ++ quote :: r) := h1
      have hc : L.advance.current = '\\' := current_of_rest_cons h1'
      have h2 : L.advance.advance.rest =
          stringBody (StringPiece.plain c :: ps) ++ quote :: r := by
        rw [rest_advance, h1']
        rfl
      have hc2 : L.advance.advance.current = c :=
        current_of_rest_cons (show L.advance.advance.rest = c :: (stringBody ps ++ quote :: r)
          from h2)
      have hfit2 : ∀ q ∈ StringPiece.plain c :: ps, q.fits quote = true := by
        intro q hq'
        rcases List.mem_cons.mp hq' with rfl | hq'
        · simp [StringPiece.fits, hfirst.1, hfirst.2, hp.1, hp.2]
        · exact hfit q (List.mem_cons_of_mem _ hq')
      have hloop := stringLoop_pieces quote hq r (StringPiece.plain c :: ps) hfit2
      by_cases hrep : c ≠ 'n' ∧ c ≠ 't' ∧ c ≠ '\\' ∧ c ≠ '"' ∧ c ≠ '\''
      · refine ⟨L.advance.advance.addError ("Invalid escape sequence: \\".toList ++ [c]),
          (stringBody (StringPiece.plain c :: ps)).length,
          processString_single L quote _ _ r (fun h => hqb (hc ▸ h.1)) _
            (by rw [if_pos hc, hc2, if_pos hrep])
            (by rw [rest_addError, h2]; exact hloop)
            (by rw [rest_addError, h2]; exact List.drop_left _ _),
          by rw [tokenKinds_addError, tokenKinds_advance, tokenKinds_advance],
          by rw [rest_addError, h2]; exact List.drop_left _ _, ?_⟩
        rw [errorMessages_addError, errorMessages_advance, errorMessages_advance]
        have : firstEscapeReported (StringPiece.escape c :: ps) = true := by
          simp [firstEscapeReported, hrep]
        rw [this]
        rfl
      · refine ⟨L.advance.advance, (stringBody (StringPiece.plain c :: ps)).length,
          processString_single L quote _ _ r (fun h => hqb (hc ▸ h.1)) _
            (by rw [if_pos hc, hc2, if_neg hrep])
            (by rw [h2]; exact hloop)
            (by rw [h2]; exact List.drop_left _ _),
          by rw [tokenKinds_advance, tokenKinds_advance],
          by rw [h2]; exact List.drop_left _ _, ?_⟩
        rw [errorMessages_advance, errorMessages_advance]
        have : firstEscapeReported (StringPiece.escape c :: ps) = false := by
          simp only [firstEscapeReported, Bool.and_eq_false_iff, bne_eq_false_iff_eq]
          by_contra hcon
          simp only [not_or] at hcon
          exact hrep ⟨hcon.1.1.1.1, hcon.1.1.1.2, hcon.1.1.2, hcon.1.2, hcon.2⟩
        rw [this]
        simp

/-- C22 (amended): a single- or double-quoted literal closed on its line, at
the head of the text.  One round of the main loop consumes it and adds one
STRING token, whose lexeme is the text between the quotes with the backslash
of every escape left out and the character after it kept as written; when no
backslash occurs the lexeme is that text itself.  The only error recorded is
the one for an unknown escape right after the opening quote. -/
theorem string_lexeme_drops_backslashes (L : PythonLexer) (quote : Char)
    (ps : List StringPiece) (r : List Char) (hq : quote = '"' ∨ quote = '\'')
    (hrest : L.rest = quote :: (stringBody ps ++ quote :: r))
    (hfit : ∀ p ∈ ps, p.fits quote = true) (hfirst : firstPieceFits quote ps = true)
    (hempty : ps = [] → r.headD NUL ≠ quote) :
    (tokenizeStep L).tokenKinds = L.tokenKinds ++ [(ps.map StringPiece.kept, TokenType.STRING)] ∧
    (tokenizeStep L).rest = r ∧
    (tokenizeStep L).errorMessages = L.errorMessages ++
      (if firstEscapeReported ps then
        ["Invalid escape sequence: \\".toList ++ [(ps.map StringPiece.kept).headD NUL]]
      else []) ∧
    ((∀ p ∈ ps, p.isPlain = true) → ps.map StringPiece.kept = stringBody ps) := by
  obtain ⟨M, n, hres, hk, hr, he⟩ := processString_pieces L quote ps r hq hrest hfit hfirst hempty
  rw [tokenizeStep_quote L quote hq (current_of_rest_cons hrest), hres]
  refine ⟨?_, ?_, ?_, kept_of_plain ps⟩
  · rw [tokenKinds_addToken, tokenKinds_advance, tokenKinds_advanceN, hk]
  · rw [rest_addToken, rest_advance, rest_advanceN, hr]
    rfl
  · rw [errorMessages_addToken, errorMessages_advance, errorMessages_advanceN, he]

end PythonLexer
end PyAnalyzer

namespace PyAnalyzer
namespace PythonLexer

/-- The statement of `string_lexeme_drops_backslashes` on the source
`'it\'s'`: the lexeme is `it's`, without the backslash. -/
theorem string_lexeme_drops_backslashes_witness :
    (create "'it\\'s'".toList [0]).rest =
      '\'' :: (stringBody [StringPiece.plain 'i', StringPiece.plain 't', StringPiece.escape '\'',
        StringPiece.plain 's'] ++ '\'' :: []) ∧
    (tokenizeStep (create "'it\\'s'".toList [0])).tokenKinds =
      [("it's".toList, TokenType.STRING)] ∧
    (tokenizeStep (create "'it\\'s'".toList [0])).rest = [] ∧
    (tokenizeStep (create "'it\\'s'".toList [0])).errorMessages = [] :=
  ⟨rfl,
    (string_lexeme_drops_backslashes (create "'it\\'s'".toList [0]) '\''
      [StringPiece.plain 'i', StringPiece.plain 't', StringPiece.escape '\'',
        StringPiece.plain 's'] [] (Or.inr rfl) rfl (by decide) rfl (fun h => by cases h)).1,
    rfl, rfl⟩

/-- C22 (counterexample): the source is the double-quoted literal whose text
is `a`, backslash, `n`, `b`.  Its STRING token has the lexeme `anb`: the
backslash is not kept. -/
theorem escape_backslash_not_kept :
    ∃ L', tokenize exactArith (create "\"a\\nb\"".toList [0]) = some L' ∧
      "\"a\\nb\"".toList = ['"', 'a', '\\', 'n', 'b', '"'] ∧
      L'.tokenKinds = [(['a', 'n', 'b'], TokenType.STRING), ([], TokenType.ENDOFFILE)] ∧
      L'.errors = [] :=
  ⟨_, tokenize_no_assignment exactArith _ _ rfl rfl, rfl, rfl, rfl⟩

end PythonLexer
end PyAnalyzer

namespace PyAnalyzer
namespace PythonLexer

/-! ## C28: `toRPN` on an infix expression -/

theorem precedence_le (t : Token) : precedence t ≤ 4 := by
  unfold precedence
  split <;> omega

theorem precedence_eq_four (t : Token) : precedence t = 4 ↔ isLeftAssoc t = false := by
  unfold precedence isLeftAssoc
  cases t.type <;> simp

theorem popsFrom_le_iff (op top : Token) :
    ((isLeftAssoc op && decide (precedence op ≤ precedence top)) ||
      (!isLeftAssoc op && decide (precedence op < precedence top))) = true ↔
    popsFrom op ≤ precedence top := by
  unfold popsFrom
  cases h : isLeftAssoc op <;> simp [Nat.succ_le_iff]

theorem popOperators_split (op : Token) (xs ops : List Token)
    (hxs : ∀ t ∈ xs, popsFrom op ≤ precedence t) (hops : Low (popsFrom op) ops) :
    popOperators op (xs ++ ops) = (xs, ops) := by
  induction xs with
  | nil =>
    cases ops with
    | nil => rfl
    | cons top ops =>
      have := hops top rfl
      rw [List.nil_append, popOperators, if_neg (by rw [popsFrom_le_iff]; omega)]
  | cons x xs ih =>
    have hx := hxs x (List.mem_cons_self _ _)
    rw [List.cons_append, popOperators, if_pos ((popsFrom_le_iff op x).mpr hx),
      ih (fun t ht => hxs t (List.mem_cons_of_mem _ ht))]

theorem toRPNLoop_operandToken (prev : Option Token) (t : Token) (h : isOperandType t.type = true)
    (input output ops : List Token) :
    toRPNLoop prev (t :: input) output ops = toRPNLoop none input (output ++ [t]) ops := by
  rw [toRPNLoop_cons, if_pos h]
  exact toRPNLoop_prev _ _ _ _ _

theorem toRPNLoop_lp (prev : Option Token) (lp : Token) (h1 : isOperandType lp.type = false)
    (h2 : isArithOperatorType lp.type = false) (h3 : lp.lexeme = "(".toList)
    (input output ops : List Token) :
    toRPNLoop prev (lp :: input) output ops = toRPNLoop none input output (lp :: ops) := by
  rw [toRPNLoop_cons, if_neg (by simp [h1]), if_neg (by simp [h2]), if_pos h3]
  exact toRPNLoop_prev _ _ _ _ _

theorem toRPNLoop_rp (prev : Option Token) (lp rp : Token) (h1 : isOperandType rp.type = false)
    (h2 : isArithOperatorType rp.type = false) (h3 : rp.lexeme = ")".toList)
    (hlp : lp.lexeme = "(".toList) (input output xs ops : List Token)
    (hxs : ∀ t ∈ xs, t.lexeme ≠ "(".toList) :
    toRPNLoop prev (rp :: input) output (xs ++ lp :: ops) =
      toRPNLoop none input (output ++ xs) ops := by
  rw [toRPNLoop_cons, if_neg (by simp [h1]), if_neg (by simp [h2]),
    if_neg (by rw [h3]; decide), if_pos h3, popToOpenParen_append xs lp ops hxs hlp]
  exact toRPNLoop_prev _ _ _ _ _

theorem toRPNLoop_op (prev : Option Token) (op : Token) (h1 : isOperandType op.type = false)
    (h2 : isArithOperatorType op.type = true) (input output xs ops : List Token)
    (hxs : ∀ t ∈ xs, popsFrom op ≤ precedence t) (hops : Low (popsFrom op) ops) :
    toRPNLoop prev (op :: input) output (xs ++ ops) =
      toRPNLoop none input (output ++ xs) (op :: ops) := by
  rw [toRPNLoop_cons_operator prev _ _ _ _ h1 h2, popOperators_split op xs ops hxs hops]
  exact toRPNLoop_prev _ _ _ _ _

theorem arith_not_operand {ty : TokenType} (h : isArithOperatorType ty = true) :
    isOperandType ty = false := by
  cases ty <;> simp_all [isArithOperatorType, isOperandType]

end PythonLexer

namespace Infix

open PythonLexer

theorem stackOrdered_bin {op : Token} {l r : Infix} (h : (bin op l r).stackOrdered = true) :
    isArithOperatorType op.type = true ∧ op.lexeme ≠ "(".toList ∧ op.lexeme ≠ ")".toList ∧
      l.stackOrdered = true ∧ r.stackOrdered = true ∧ popsFrom op ≤ l.stackStrength ∧
      precedence op ≤ r.stackStrength ∧ precedence op < r.guard := by
  simp only [stackOrdered, Bool.and_eq_true, bne_iff_ne, ne_eq] at h
  obtain ⟨⟨⟨⟨⟨h1, h2⟩, h3⟩, h4⟩, h5⟩, h6⟩ := h
  have hg : r.stackStrength ≤ r.guard := by
    cases r with
    | operand t => exact Nat.le_refl _
    | paren lp rp e => exact Nat.le_refl _
    | bin op' l' r' =>
      simp only [stackStrength, guard, popsFrom]
      split <;> omega
  refine ⟨h1, h2, h3, h4, h5, ?_⟩
  by_cases hl : isLeftAssoc op = true
  · simp only [hl, if_true, Bool.and_eq_true, decide_eq_true_eq] at h6
    refine ⟨by simp only [popsFrom, hl, if_true]; exact h6.1, by omega, by omega⟩
  · simp only [hl, Bool.false_eq_true, if_false, Bool.and_eq_true, decide_eq_true_eq] at h6
    refine ⟨by simp only [popsFrom, hl, Bool.false_eq_true, if_false]; omega, h6.2, ?_⟩
    have hp : precedence op = 4 := (precedence_eq_four op).mpr (by simpa using hl)
    cases r with
    | operand t => simp only [guard]; omega
    | paren lp rp e => simp only [guard]; omega
    | bin op' l' r' =>
      have h4' : precedence op' = 4 := by
        have := precedence_le op'
        simp only [stackStrength] at h6
        omega
      have : isLeftAssoc op' = false := (precedence_eq_four op').mp h4'
      simp only [guard, popsFrom, this, Bool.false_eq_true, if_false]
      omega

theorem pending_strength (e : Infix) (he : e.stackOrdered = true) :
    ∀ t ∈ e.pending, e.stackStrength ≤ precedence t := by
  induction e with
  | operand t => simp [pending]
  | paren lp rp e _ => simp [pending]
  | bin op l r _ ihr =>
    obtain ⟨_, _, _, _, hr, _, hs, _⟩ := stackOrdered_bin he
    intro t ht
    simp only [pending, List.mem_append, List.mem_singleton] at ht
    rcases ht with ht | rfl
    · have := ihr hr t ht
      simp only [stackStrength]
      omega
    · exact Nat.le_refl _

theorem pending_lexeme (e : Infix) (he : e.stackOrdered = true) :
    ∀ t ∈ e.pending, t.lexeme ≠ "(".toList ∧ t.lexeme ≠ ")".toList := by
  induction e with
  | operand t => simp [pending]
  | paren lp rp e _ => simp [pending]
  | bin op l r _ ihr =>
    obtain ⟨_, h2, h3, _, hr, _, _, _⟩ := stackOrdered_bin he
    intro t ht
    simp only [pending, List.mem_append, List.mem_singleton] at ht
    rcases ht with ht | rfl
    · exact ihr hr t ht
    · exact ⟨h2, h3⟩

theorem written_pending_rpn (e : Infix) : e.written ++ e.pending = e.rpn := by
  induction e with
  | operand t => rfl
  | paren lp rp e _ => simp [written, pending, rpn]
  | bin op l r _ ihr =>
    simp only [written, pending, rpn, List.append_assoc]
    rw [← ihr, List.append_assoc]

theorem guard_le_five (e : Infix) : e.guard ≤ 5 := by
  cases e with
  | operand t => exact Nat.le_refl _
  | paren lp rp e => exact Nat.le_refl _
  | bin op l r =>
    have := precedence_le op
    simp only [guard, popsFrom]
    split
    · omega
    · omega

theorem guard_of_strength (e : Infix) : e.stackStrength ≤ e.guard := by
  cases e with
  | operand t => exact Nat.le_refl _
  | paren lp rp e => exact Nat.le_refl _
  | bin op l r =>
    simp only [stackStrength, guard, popsFrom]
    split <;> omega

theorem guard_of_strength_five (e : Infix) (h : 5 ≤ e.stackStrength) : e.guard = 5 := by
  have h1 := guard_of_strength e
  have h2 := guard_le_five e
  omega

/-- The loop of `toRPN` over the tokens of a well-formed expression: it
writes `written` and leaves `pending` on the operator stack. -/
theorem toRPNLoop_tokens (e : Infix) (he : e.stackOrdered = true) :
    ∀ (prev : Option Token) (rest output ops : List Token), Low e.guard ops →
      toRPNLoop prev (e.tokens ++ rest) output ops =
        toRPNLoop none rest (output ++ e.written) (e.pending ++ ops) := by
  induction e with
  | operand t =>
    intro prev rest output ops _
    exact toRPNLoop_operandToken prev t he rest output ops
  | paren lp rp e ih =>
    intro prev rest output ops _
    simp only [stackOrdered, Bool.and_eq_true, beq_iff_eq, Bool.not_eq_true'] at he
    obtain ⟨⟨⟨⟨⟨⟨h1, h2⟩, h3⟩, h4⟩, h5⟩, h6⟩, h7⟩ := he
    have hlow : Low e.guard (lp :: ops) := by
      refine Low.cons _ _ _ ?_
      have h0 : precedence lp = 0 := by
        unfold precedence
        cases hty : lp.type <;> simp_all [isArithOperatorType]
      have hg : 1 ≤ e.guard := by
        cases e with
        | operand t => simp [guard]
        | paren _ _ _ => simp [guard]
        | bin op l r =>
          have := (stackOrdered_bin h7).1
          simp only [guard, popsFrom]
          have hp : 2 ≤ precedence op := by
            unfold precedence
            cases hty : op.type <;> simp_all [isArithOperatorType]
          split <;> omega
      omega
    show toRPNLoop prev (lp :: ((e.tokens ++ [rp]) ++ rest)) output ops = _
    rw [toRPNLoop_lp prev lp h2 h3 h1, List.append_assoc, ih h7 none _ _ _ hlow,
      List.singleton_append,
      toRPNLoop_rp none lp rp h5 h6 h4 h1 _ _ _ _ (fun t ht => (pending_lexeme e h7 t ht).1)]
    simp only [written, pending, List.nil_append, List.append_assoc, written_pending_rpn]
  | bin op l r ihl ihr =>
    intro prev rest output ops hlow
    obtain ⟨h1, h2, h3, hl, hr, hls, hrs, hrg⟩ := stackOrdered_bin he
    have hlowl : Low l.guard ops := by
      refine hlow.mono ?_
      have := guard_of_strength l
      show popsFrom op ≤ l.guard
      omega
    have hpl : ∀ t ∈ l.pending, popsFrom op ≤ precedence t := by
      intro t ht
      have := pending_strength l hl t ht
      omega
    have hlowr : Low r.guard (op :: ops) := Low.cons _ _ _ hrg
    show toRPNLoop prev ((l.tokens ++ (op :: r.tokens)) ++ rest) output ops = _
    rw [List.append_assoc, List.cons_append, ihl hl prev _ _ _ hlowl,
      toRPNLoop_op none op (arith_not_operand h1) h1 _ _ _ _ hpl hlow,
      ihr hr none _ _ _ hlowr]
    simp only [written, pending, List.append_assoc, List.singleton_append,
      ← written_pending_rpn l]

end Infix
end PyAnalyzer

namespace PyAnalyzer
namespace Infix

open PythonLexer

theorem rpn_operands (e : Infix) (he : e.stackOrdered = true) :
    e.rpn.filter (fun t => isOperandType t.type) =
      e.tokens.filter (fun t => isOperandType t.type) := by
  induction e with
  | operand t => rfl
  | paren lp rp e ih =>
    simp only [stackOrdered, Bool.and_eq_true, beq_iff_eq, Bool.not_eq_true'] at he
    obtain ⟨⟨⟨⟨⟨⟨h1, h2⟩, h3⟩, h4⟩, h5⟩, h6⟩, h7⟩ := he
    simp [rpn, tokens, List.filter_cons, h2, h5, ih h7]
  | bin op l r ihl ihr =>
    obtain ⟨h1, _, _, hl, hr, _, _, _⟩ := stackOrdered_bin he
    simp [rpn, tokens, List.filter_cons, arith_not_operand h1, ihl hl, ihr hr]

theorem rpn_kinds (e : Infix) (he : e.stackOrdered = true) :
    ∀ t ∈ e.rpn, isOperandType t.type = true ∨ isArithOperatorType t.type = true := by
  induction e with
  | operand t =>
    intro x hx
    simp only [rpn, List.mem_singleton] at hx
    exact Or.inl (hx ▸ he)
  | paren lp rp e ih =>
    simp only [stackOrdered, Bool.and_eq_true] at he
    exact ih he.2
  | bin op l r ihl ihr =>
    obtain ⟨h1, _, _, hl, hr, _, _, _⟩ := stackOrdered_bin he
    intro x hx
    simp only [rpn, List.mem_append, List.mem_singleton] at hx
    rcases hx with hx | hx | rfl
    · exact ihl hl x hx
    · exact ihr hr x hx
    · exact Or.inr h1

theorem isOperandType_eq_spec (ty : TokenType) :
    isOperandType ty = specOperandKinds.contains ty := by
  cases ty <;> rfl

/-- An operator of the specification is an operator for `toRPN`, with the
precedence of the lambda `precedence` one above its level and the
associativity of the lambda `isLeftAssoc`. -/
theorem specEntry_code (op : Token) (n : Nat) (rightAssoc : Bool)
    (h : specEntry op = some (n, rightAssoc)) :
    precedence op = n + 1 ∧ isLeftAssoc op = !rightAssoc ∧
      isArithOperatorType op.type = true ∧ op.lexeme ≠ "(".toList ∧ op.lexeme ≠ ")".toList ∧
      op.type ≠ TokenType.DELIMITER := by
  obtain ⟨lexeme, ty, line, column⟩ := op
  unfold specEntry specOperators at h
  simp only [List.find?_cons, List.find?_nil] at h
  repeat' split at h
  all_goals
    first
      | (rename_i hc
         simp only [Bool.and_eq_true, beq_iff_eq] at hc
         obtain ⟨h1, h2⟩ := hc
         simp only [Option.map_some', Option.some.injEq, Prod.mk.injEq] at h
         obtain ⟨h3, h4⟩ := h
         subst h1 h2 h3 h4
         refine ⟨rfl, rfl, rfl, ?_, ?_, ?_⟩ <;> simp)
      | simp at h

/-- The strength of a well-formed tree for the loop of `toRPN` is one above
its level in the specification. -/
theorem stackStrength_of_wellFormed (e : Infix) (he : e.wellFormed = true) :
    e.stackStrength = e.level + 1 := by
  cases e with
  | operand t => rfl
  | paren lp rp e => rfl
  | bin op l r =>
    unfold wellFormed at he
    split at he
    · exact absurd he (by simp)
    · rename_i n ra hs
      simp only [stackStrength, level, hs, Option.map_some', Option.getD_some]
      exact (specEntry_code op n ra hs).1

/-- A tree that is well formed by the specification satisfies the condition
under which the loop of `toRPN` writes its postfix form. -/
theorem stackOrdered_of_wellFormed (e : Infix) (he : e.wellFormed = true) :
    e.stackOrdered = true := by
  induction e with
  | operand t =>
    unfold wellFormed at he
    unfold stackOrdered
    rw [isOperandType_eq_spec]
    exact he
  | paren lp rp e ih =>
    simp only [wellFormed, Bool.and_eq_true, beq_iff_eq] at he
    obtain ⟨⟨⟨⟨h1, h2⟩, h3⟩, h4⟩, h5⟩ := he
    simp only [stackOrdered, h1, h2, h3, h4, ih h5, beq_self_eq_true, Bool.and_true,
      Bool.true_and]
    decide
  | bin op l r ihl ihr =>
    unfold wellFormed at he
    split at he
    · exact absurd he (by simp)
    · rename_i n ra hs
      obtain ⟨c1, c2, c3, c4, c5, _⟩ := specEntry_code op n ra hs
      simp only [Bool.and_eq_true] at he
      obtain ⟨⟨hl, hr⟩, ho⟩ := he
      have sl := stackStrength_of_wellFormed l hl
      have sr := stackStrength_of_wellFormed r hr
      simp only [stackOrdered, c3, ihl hl, ihr hr, Bool.and_true, Bool.true_and, c1, c2, sl, sr,
        bne_iff_ne, ne_eq, c4, c5, not_false_eq_true, decide_True]
      cases ra with
      | true =>
        simp only [if_true, Bool.and_eq_true, decide_eq_true_eq] at ho
        simp only [Bool.not_true, Bool.false_eq_true, if_false, Bool.and_eq_true,
          decide_eq_true_eq]
        exact ⟨⟨by simpa using c4, by simpa using c5⟩, by omega, by omega⟩
      | false =>
        simp only [Bool.false_eq_true, if_false, Bool.and_eq_true, decide_eq_true_eq] at ho
        simp only [Bool.not_false, if_true, Bool.and_eq_true, decide_eq_true_eq]
        exact ⟨⟨by simpa using c4, by simpa using c5⟩, by omega, by omega⟩

/-- The tokens of the postfix form of a well-formed tree are operands and
operators of the specification, none of them a delimiter. -/
theorem rpn_spec_kinds (e : Infix) (he : e.wellFormed = true) :
    ∀ t ∈ e.rpn, (specOperandKinds.contains t.type = true ∨ (specEntry t).isSome = true) ∧
      t.type ≠ TokenType.DELIMITER := by
  induction e with
  | operand t =>
    intro x hx
    simp only [rpn, List.mem_singleton] at hx
    subst hx
    unfold wellFormed at he
    refine ⟨Or.inl he, fun h => ?_⟩
    rw [h] at he
    exact absurd he (by decide)
  | paren lp rp e ih =>
    simp only [wellFormed, Bool.and_eq_true] at he
    exact ih he.2
  | bin op l r ihl ihr =>
    unfold wellFormed at he
    split at he
    · exact absurd he (by simp)
    · rename_i n ra hs
      simp only [Bool.and_eq_true] at he
      obtain ⟨⟨hl, hr⟩, _⟩ := he
      intro x hx
      simp only [rpn, List.mem_append, List.mem_singleton] at hx
      rcases hx with hx | hx | rfl
      · exact ihl hl x hx
      · exact ihr hr x hx
      · exact ⟨Or.inr (by rw [hs]; rfl), (specEntry_code x n ra hs).2.2.2.2.2⟩

/-- C28: for every expression tree over tokens that is the reading of its
token sequence by the specification (`wellFormed`: operands, parentheses and
the binary operators `+ - * / % **` with the precedence `**` > `* / %` >
`+ -`, `**` right-associative and the others left-associative), `toRPN`
returns the postfix form of the tree: each operator after its two operands.
The operands keep the order of the input, every token of the output is an
operand or one of the operators, and none is a parenthesis. -/
theorem toRPN_wellFormed (e : Infix) (he : e.wellFormed = true) :
    toRPN e.tokens = .ok e.rpn ∧
    e.rpn.filter (fun t => specOperandKinds.contains t.type) =
      e.tokens.filter (fun t => specOperandKinds.contains t.type) ∧
    (∀ t ∈ e.rpn, specOperandKinds.contains t.type = true ∨ (specEntry t).isSome = true) ∧
    (∀ t ∈ e.rpn, t.type ≠ TokenType.DELIMITER) := by
  have hs := stackOrdered_of_wellFormed e he
  refine ⟨?_, ?_, fun t ht => (rpn_spec_kinds e he t ht).1,
    fun t ht => (rpn_spec_kinds e he t ht).2⟩
  · have h := toRPNLoop_tokens e hs none [] [] [] (fun top ht => by simp at ht)
    rw [List.append_nil] at h
    rw [toRPN, h, toRPNLoop_nil, List.append_nil, List.nil_append,
      drainOperators_ok _ _ (pending_lexeme e hs), written_pending_rpn]
  · have h := rpn_operands e hs
    simp only [isOperandType_eq_spec] at h
    exact h

/-- The statement of `toRPN_wellFormed` on the examples of the claim:
`2 ** 3 ** 2`, read as `2 ** (3 ** 2)`, has the postfix form `2 3 2 ** **`,
and `2 - 3 - 4`, read as `(2 - 3) - 4`, the postfix form `2 3 - 4 -`; the
other readings of these token sequences, `(2 ** 3) ** 2` and `2 - (3 - 4)`
without the parentheses, are not well formed. -/
theorem toRPN_wellFormed_witness :
    toRPN [⟨"2".toList, TokenType.NUMBER, 1, 1⟩, ⟨"**".toList, TokenType.POWEROPERATOR, 1, 2⟩,
        ⟨"3".toList, TokenType.NUMBER, 1, 6⟩, ⟨"**".toList, TokenType.POWEROPERATOR, 1, 7⟩,
        ⟨"2".toList, TokenType.NUMBER, 1, 11⟩] =
      .ok [⟨"2".toList, TokenType.NUMBER, 1, 1⟩, ⟨"3".toList, TokenType.NUMBER, 1, 6⟩,
        ⟨"2".toList, TokenType.NUMBER, 1, 11⟩, ⟨"**".toList, TokenType.POWEROPERATOR, 1, 7⟩,
        ⟨"**".toList, TokenType.POWEROPERATOR, 1, 2⟩] ∧
    toRPN [⟨"2".toList, TokenType.NUMBER, 1, 1⟩, ⟨"-".toList, TokenType.MINUSOPERATOR, 1, 2⟩,
        ⟨"3".toList, TokenType.NUMBER, 1, 5⟩, ⟨"-".toList, TokenType.MINUSOPERATOR, 1, 6⟩,
        ⟨"4".toList, TokenType.NUMBER, 1, 9⟩] =
      .ok [⟨"2".toList, TokenType.NUMBER, 1, 1⟩, ⟨"3".toList, TokenType.NUMBER, 1, 5⟩,
        ⟨"-".toList, TokenType.MINUSOPERATOR, 1, 2⟩, ⟨"4".toList, TokenType.NUMBER, 1, 9⟩,
        ⟨"-".toList, TokenType.MINUSOPERATOR, 1, 6⟩] ∧
    (bin ⟨"**".toList, TokenType.POWEROPERATOR, 1, 7⟩
      (bin ⟨"**".toList, TokenType.POWEROPERATOR, 1, 2⟩
        (operand ⟨"2".toList, TokenType.NUMBER, 1, 1⟩)
        (operand ⟨"3".toList, TokenType.NUMBER, 1, 6⟩))
      (operand ⟨"2".toList, TokenType.NUMBER, 1, 11⟩)).wellFormed = false ∧
    (bin ⟨"-".toList, TokenType.MINUSOPERATOR, 1, 2⟩
      (operand ⟨"2".toList, TokenType.NUMBER, 1, 1⟩)
      (bin ⟨"-".toList, TokenType.MINUSOPERATOR, 1, 6⟩
        (operand ⟨"3".toList, TokenType.NUMBER, 1, 5⟩)
        (operand ⟨"4".toList, TokenType.NUMBER, 1, 9⟩))).wellFormed = false :=
  ⟨(toRPN_wellFormed
      (bin ⟨"**".toList, TokenType.POWEROPERATOR, 1, 2⟩
        (operand ⟨"2".toList, TokenType.NUMBER, 1, 1⟩)
        (bin ⟨"**".toList, TokenType.POWEROPERATOR, 1, 7⟩
          (operand ⟨"3".toList, TokenType.NUMBER, 1, 6⟩)
          (operand ⟨"2".toList, TokenType.NUMBER, 1, 11⟩))) (by decide)).1,
    (toRPN_wellFormed
      (bin ⟨"-".toList, TokenType.MINUSOPERATOR, 1, 6⟩
        (bin ⟨"-".toList, TokenType.MINUSOPERATOR, 1, 2⟩
          (operand ⟨"2".toList, TokenType.NUMBER, 1, 1⟩)
          (operand ⟨"3".toList, TokenType.NUMBER, 1, 5⟩))
        (operand ⟨"4".toList, TokenType.NUMBER, 1, 9⟩)) (by decide)).1,
    by decide, by decide⟩

end Infix
end PyAnalyzer
namespace PyAnalyzer
namespace SyntaxAnalyzer

/-! ## Expressions: the trees of `parseTerm`, `parseExpression`, `parseComparison` -/

theorem holdsAt_left {ts : List Token} {i : Nat} {A B : List (List Char × TokenType)}
    (h : holdsAt ts i (A ++ B)) : holdsAt ts i A := by
  intro j k hj
  have hlt : j < A.length := by
    rw [List.get?_eq_getElem?] at hj
    exact (List.getElem?_eq_some_iff.mp hj).1
  apply h j k
  rw [List.get?_eq_getElem?, List.getElem?_append_left hlt, ← List.get?_eq_getElem?]
  exact hj

theorem holdsAt_right {ts : List Token} {i : Nat} {A B : List (List Char × TokenType)}
    (h : holdsAt ts i (A ++ B)) : holdsAt ts (i + A.length) B := by
  intro j k hj
  have := h (A.length + j) k (by
    rw [List.get?_eq_getElem?, List.getElem?_append_right (by omega)]
    rw [List.get?_eq_getElem?] at hj
    simpa using hj)
  rwa [← Nat.add_assoc] at this

theorem holdsAt_head {ts : List Token} {i : Nat} {k : List Char × TokenType}
    {K : List (List Char × TokenType)} (h : holdsAt ts i (k :: K)) :
    ∃ t, ts.get? i = some t ∧ t.lexeme = k.1 ∧ t.type = k.2 :=
  h 0 k rfl

theorem holdsAt_tail {ts : List Token} {i : Nat} {k : List Char × TokenType}
    {K : List (List Char × TokenType)} (h : holdsAt ts i (k :: K)) : holdsAt ts (i + 1) K := by
  intro j k' hj
  have := h (j + 1) k' (by simpa using hj)
  rwa [Nat.add_comm j 1, ← Nat.add_assoc] at this

theorem holdsAt_of_drop {ts : List Token} {i : Nat} {K R : List (List Char × TokenType)}
    (h : (ts.drop i).map (fun t => (t.lexeme, t.type)) = K ++ R) : holdsAt ts i K := by
  intro j k hj
  have hlt : j < K.length := by
    rw [List.get?_eq_getElem?] at hj
    exact (List.getElem?_eq_some_iff.mp hj).1
  have h2 : (K ++ R).get? j = some k := by
    rw [List.get?_eq_getElem?, List.getElem?_append_left hlt, ← List.get?_eq_getElem?]
    exact hj
  rw [← h, List.get?_map, List.get?_drop] at h2
  cases hg : ts.get? (i + j) with
  | none =>
    rw [hg] at h2
    cases h2
  | some t =>
    rw [hg] at h2
    simp only [Option.map_some', Option.some.injEq] at h2
    exact ⟨t, rfl, by rw [← h2], by rw [← h2]⟩

theorem stopsTerm_facts {n : Token} (h : stopsTerm n = true) :
    n.type ≠ TokenType.WHITESPACE ∧ n.type ≠ TokenType.COMMENT ∧
      n.lexeme ≠ "(".toList ∧ (∀ s ∈ ["*", "/", "%"], n.lexeme ≠ String.toList s) := by
  simp only [stopsTerm, Bool.and_eq_true, bne_iff_ne, ne_eq, Bool.not_eq_true',
    List.contains_eq_any_beq, List.any_eq_false, List.map_cons, List.map_nil, List.mem_cons,
    List.mem_singleton, List.not_mem_nil, or_false, beq_iff_eq, forall_eq_or_imp, forall_eq] at h
  obtain ⟨⟨h1, h2⟩, h3, h4, h5, h6⟩ := h
  refine ⟨h1, h2, h3, ?_⟩
  intro s hs
  simp only [List.mem_cons, List.mem_singleton, List.not_mem_nil, or_false] at hs
  rcases hs with rfl | rfl | rfl
  · exact h4
  · exact h5
  · exact h6

theorem stopsTerm_of_stopsOperand {n : Token} (h : stopsOperand n = true) :
    stopsTerm n = true := by
  obtain ⟨h1, h2, h3, h4, _⟩ := stopsOperand_facts h
  have a := h4 "*" (by simp)
  have b := h4 "/" (by simp)
  have c := h4 "%" (by simp)
  simp only [stopsTerm, Bool.and_eq_true, bne_iff_ne, ne_eq, Bool.not_eq_true',
    List.contains_eq_any_beq, List.any_eq_false, List.map_cons, List.map_nil, List.mem_cons,
    List.mem_singleton, List.not_mem_nil, or_false, beq_iff_eq, forall_eq_or_imp, forall_eq]
  exact ⟨⟨h1, h2⟩, h3, a, b, c⟩

theorem stopsTerm_of_kind {t : Token} {lx : List Char} {ty : TokenType}
    (hl : t.lexeme = lx) (hty : t.type = ty) (h : stopsTerm ⟨lx, ty, 0, 0⟩ = true) :
    stopsTerm t = true := by
  unfold stopsTerm at h ⊢
  rw [hl, hty]
  exact h

/-- `parseFactor` on an operand that neither white space nor `(` follows. -/
theorem parseFactor_atom (fuel : Nat) {ts : List Token} {i : Nat} {t n : Token}
    (h : ts.get? i = some t) (hn : ts.get? (i + 1) = some n) (o : Operand)
    (ho : o.valid = true) (hl : t.lexeme = o.text) (hty : t.type = o.type)
    (hn1 : n.type ≠ TokenType.WHITESPACE) (hn3 : n.lexeme ≠ "(".toList) :
    parseFactor (fuel + 1) (atPos ts i) = .ok (some o.node, atPos ts (i + 1)) := by
  obtain ⟨ho1, ho2⟩ := operand_text_facts o ho
  have hne : t.type ≠ TokenType.ENDOFFILE := by
    rw [hty]
    rcases ho2 with e | e <;> rw [e] <;> exact TokenType.noConfusion
  have hws : (atPos ts (i + 1)).skipWhile isWs = atPos ts (i + 1) :=
    skipWhile_atPos_stop hn isWs (by
      have : isWs n = false := by simpa [isWs] using hn1
      rw [this, Bool.and_false])
  rw [parseFactor]
  rw [skipWhile_atPos_stop h isWs (by
    unfold isWs
    rw [hty]
    rcases ho2 with e | e <;> rw [e] <;> rfl)]
  rw [matchLexeme_atPos_false h "(" (by rw [hl]; exact ho1)]
  simp only [Bool.false_eq_true, if_false, currentToken_atPos h, advance_atPos h hne, hws,
    matchLexeme_atPos_false hn "(" hn3, hl, hty]
  cases o with
  | ident w => rfl
  | number ds => rfl

/-- The loop of `parseTerm` ends at a token that is none of `* / %`. -/
theorem parseTermLoop_stop (fuel : Nat) (left : ParseNode) {ts : List Token} {i : Nat} {n : Token}
    (hn : ts.get? i = some n) (hstop : stopsTerm n = true) :
    parseTermLoop (fuel + 1) left (atPos ts i) = .ok (some left, atPos ts i) := by
  obtain ⟨hn1, hn2, _, hn4⟩ := stopsTerm_facts hstop
  rw [parseTermLoop, skipWhile_wsOrComment_stop hn hn1 hn2, matchAny_atPos_none hn _ hn4]
  rfl

/-- The loop of `parseExpression` ends at a token that is none of `+ -`. -/
theorem parseExpressionLoop_stop (fuel : Nat) (left : ParseNode) {ts : List Token} {i : Nat}
    {n : Token} (hn : ts.get? i = some n) (hn1 : n.type ≠ TokenType.WHITESPACE)
    (hn2 : n.type ≠ TokenType.COMMENT) (hn5 : ∀ s ∈ ["+", "-"], n.lexeme ≠ String.toList s) :
    parseExpressionLoop (fuel + 1) left (atPos ts i) = .ok (some left, atPos ts i) := by
  rw [parseExpressionLoop]
  by_cases hend : (atPos ts i).isAtEnd = true
  · simp only [hend, if_true]
    rfl
  · simp only [hend, if_false, skipWhile_wsOrComment_stop hn hn1 hn2, currentToken_atPos hn,
      matchAny_atPos_none hn _ hn5, ite_self]
    rfl

theorem mulOp_cases {op : String} (h : Arith.isMulOp op = true) :
    op = "*" ∨ op = "/" ∨ op = "%" := by
  simpa [Arith.isMulOp, or_assoc] using h

theorem addOp_cases {op : String} (h : Arith.isAddOp op = true) : op = "+" ∨ op = "-" := by
  simpa [Arith.isAddOp] using h

theorem matchAny_mulOp {ts : List Token} {i : Nat} {t : Token} (h : ts.get? i = some t)
    {op : String} (hop : Arith.isMulOp op = true) (hl : t.lexeme = op.toList)
    (hty : t.type = Arith.opType op) :
    (atPos ts i).matchAny ["*", "/", "%"] = (some op, atPos ts (i + 1)) := by
  have hne : t.type ≠ TokenType.ENDOFFILE := by
    rw [hty]
    rcases mulOp_cases hop with rfl | rfl | rfl <;> exact (by decide)
  have hf : ∀ s : String, op.toList ≠ s.toList → (atPos ts i).matchLexeme s = (false, atPos ts i) :=
    fun s hs => matchLexeme_atPos_false h s (by rw [hl]; exact hs)
  have ht : (atPos ts i).matchLexeme op = (true, atPos ts (i + 1)) :=
    matchLexeme_atPos_true h hne op hl
  rcases mulOp_cases hop with rfl | rfl | rfl
  · simp only [matchAny, ht, if_true]
  · simp only [matchAny, ht, if_true, hf "*" (by decide), Bool.false_eq_true, if_false]
  · simp only [matchAny, ht, if_true, hf "*" (by decide), hf "/" (by decide),
      Bool.false_eq_true, if_false]

theorem matchAny_addOp {ts : List Token} {i : Nat} {t : Token} (h : ts.get? i = some t)
    {op : String} (hop : Arith.isAddOp op = true) (hl : t.lexeme = op.toList)
    (hty : t.type = Arith.opType op) :
    (atPos ts i).matchAny ["+", "-"] = (some op, atPos ts (i + 1)) := by
  have hne : t.type ≠ TokenType.ENDOFFILE := by
    rw [hty]
    rcases addOp_cases hop with rfl | rfl <;> exact (by decide)
  have hf : ∀ s : String, op.toList ≠ s.toList → (atPos ts i).matchLexeme s = (false, atPos ts i) :=
    fun s hs => matchLexeme_atPos_false h s (by rw [hl]; exact hs)
  have ht : (atPos ts i).matchLexeme op = (true, atPos ts (i + 1)) :=
    matchLexeme_atPos_true h hne op hl
  rcases addOp_cases hop with rfl | rfl
  · simp only [matchAny, ht, if_true]
  · simp only [matchAny, ht, if_true, hf "+" (by decide), Bool.false_eq_true, if_false]

end SyntaxAnalyzer

namespace Arith

open SyntaxAnalyzer

theorem kinds_length_pos (e : Arith) : 1 ≤ e.kinds.length := by
  cases e with
  | atom o => simp [kinds]
  | paren e => simp [kinds]
  | bin op l r =>
    simp only [kinds, List.length_append, List.length_cons]
    omega

theorem termRounds_lt_cost (e : Arith) : e.termRounds < e.cost := by
  induction e with
  | atom o => simp [termRounds, cost]
  | paren e _ => simp [termRounds, cost]
  | bin op l r ihl _ =>
    simp only [termRounds, cost]
    split <;> omega

theorem exprRounds_lt_cost (e : Arith) : e.exprRounds < e.cost := by
  induction e with
  | atom o => simp [exprRounds, cost]
  | paren e _ => simp [exprRounds, cost]
  | bin op l r ihl _ =>
    simp only [exprRounds, cost]
    split <;> omega

/-- The first token of an expression is an operand or `(`. -/
theorem first_token (e : Arith) (he : e.standard = true) {ts : List Token} {i : Nat}
    (hk : holdsAt ts i e.kinds) :
    ∃ t, ts.get? i = some t ∧ t.type ≠ TokenType.WHITESPACE ∧ t.type ≠ TokenType.COMMENT ∧
      isBlockEnd t = false := by
  induction e with
  | atom o =>
    obtain ⟨t, ht, _, hty⟩ := holdsAt_head hk
    refine ⟨t, ht, ?_, ?_, ?_⟩ <;>
      rcases PythonLexer.operand_type_cases o with e | e <;>
      simp only [isBlockEnd, hty, e] <;> decide
  | paren e _ =>
    obtain ⟨t, ht, _, hty⟩ := holdsAt_head hk
    refine ⟨t, ht, ?_, ?_, ?_⟩ <;> simp only [isBlockEnd, hty] <;> decide
  | bin op l r ihl _ =>
    have hl : l.standard = true := by
      simp only [standard] at he
      split at he
      · simp only [Bool.and_eq_true] at he
        exact he.1.1.1
      · split at he
        · simp only [Bool.and_eq_true] at he
          exact he.1.1
        · cases he
    exact ihl hl (holdsAt_left hk)

end Arith
end PyAnalyzer
namespace PyAnalyzer
namespace Arith

open SyntaxAnalyzer

theorem standard_mul {op : String} {l r : Arith} (h : (bin op l r).standard = true)
    (hop : isMulOp op = true) :
    l.standard = true ∧ r.standard = true ∧ l.level ≤ 1 ∧ r.level = 0 := by
  simp only [standard, hop, if_true, Bool.and_eq_true, decide_eq_true_eq] at h
  exact ⟨h.1.1.1, h.1.1.2, h.1.2, h.2⟩

theorem standard_add {op : String} {l r : Arith} (h : (bin op l r).standard = true)
    (hop : isMulOp op = false) :
    isAddOp op = true ∧ l.standard = true ∧ r.standard = true ∧ r.level ≤ 1 := by
  simp only [standard, hop, Bool.false_eq_true, if_false] at h
  split at h
  · rename_i ha
    simp only [Bool.and_eq_true, decide_eq_true_eq] at h
    exact ⟨ha, h.1.1, h.1.2, h.2⟩
  · cases h

/-- `parseTerm` on a factor enters its loop with the node of the factor. -/
theorem term_of_factor (f : Nat) {ts : List Token} {i j : Nat} {t : Token} (node : ParseNode)
    (ht : ts.get? i = some t) (h1 : t.type ≠ TokenType.WHITESPACE)
    (h2 : t.type ≠ TokenType.COMMENT)
    (hF : parseFactor f (atPos ts i) = .ok (some node, atPos ts j)) :
    parseTerm (f + 1) (atPos ts i) = parseTermLoop f node (atPos ts j) := by
  rw [parseTerm, skipWhile_wsOrComment_stop ht h1 h2, hF]
  rfl

/-- `parseExpression` on a term enters its loop with the node of the term. -/
theorem expr_of_term (f : Nat) {ts : List Token} {i j : Nat} {t : Token} (node : ParseNode)
    (ht : ts.get? i = some t) (h1 : t.type ≠ TokenType.WHITESPACE)
    (h2 : t.type ≠ TokenType.COMMENT) (h3 : isBlockEnd t = false)
    (hT : parseTerm f (atPos ts i) = .ok (some node, atPos ts j)) :
    parseExpression (f + 1) (atPos ts i) = parseExpressionLoop f node (atPos ts j) := by
  rw [parseExpression, skipWhile_wsOrComment_stop ht h1 h2, currentToken_atPos ht, h3]
  simp only [Bool.false_eq_true, if_false, hT]
  rfl

end Arith
end PyAnalyzer
namespace PyAnalyzer
namespace Arith

open SyntaxAnalyzer

/-- The three parsing functions on an expression in standard form: a factor
is read by `parseFactor`, a term brings `parseTerm` into its loop with the
tree of the term, and an expression brings `parseExpression` into its loop
with the tree of the expression. -/
theorem parses (e : Arith) : e.standard = true →
    ∀ (ts : List Token) (i fuel : Nat) (n : Token),
    holdsAt ts i e.kinds → ts.get? (i + e.kinds.length) = some n →
    n.type ≠ TokenType.WHITESPACE → n.lexeme ≠ "(".toList →
    (e.level = 0 → e.cost ≤ fuel →
      parseFactor (fuel + 1) (atPos ts i) = .ok (some e.tree, atPos ts (i + e.kinds.length))) ∧
    (e.level ≤ 1 → e.cost + 1 ≤ fuel →
      parseTerm (fuel + 1) (atPos ts i) =
        parseTermLoop (fuel - e.termRounds) e.tree (atPos ts (i + e.kinds.length))) ∧
    (stopsTerm n = true → e.cost + 2 ≤ fuel →
      parseExpression (fuel + 1) (atPos ts i) =
        parseExpressionLoop (fuel - e.exprRounds) e.tree (atPos ts (i + e.kinds.length))) := by
  induction e with
  | atom o =>
    intro he ts i fuel n hk hn hn1 hn3
    obtain ⟨t, ht, hl, hty⟩ := holdsAt_head hk
    obtain ⟨t', ht', ht1, ht2, ht3⟩ := first_token (atom o) he hk
    obtain rfl : t = t' := Option.some.inj (ht.symm.trans ht')
    have hF : ∀ f, parseFactor (f + 1) (atPos ts i) =
        .ok (some (atom o).tree, atPos ts (i + (atom o).kinds.length)) :=
      fun f => parseFactor_atom f ht hn o he hl hty hn1 hn3
    have hT : ∀ f, parseTerm (f + 2) (atPos ts i) =
        parseTermLoop (f + 1) (atom o).tree (atPos ts (i + (atom o).kinds.length)) :=
      fun f => term_of_factor (f + 1) _ ht ht1 ht2 (hF f)
    refine ⟨fun _ _ => hF fuel, ?_, ?_⟩
    · intro _ hc
      obtain ⟨f, rfl⟩ : ∃ f, fuel = f + 1 := ⟨fuel - 1, by simp only [cost] at hc; omega⟩
      exact hT f
    · intro hstop hc
      obtain ⟨f, rfl⟩ : ∃ f, fuel = f + 2 := ⟨fuel - 2, by simp only [cost] at hc; omega⟩
      refine expr_of_term (f + 2) _ ht ht1 ht2 ht3 ?_
      rw [hT f]
      exact parseTermLoop_stop f _ hn hstop
  | paren e ih =>
    intro he ts i fuel n hk hn hn1 hn3
    have he' : e.standard = true := he
    obtain ⟨t, ht, hl, hty⟩ := holdsAt_head hk
    obtain ⟨t', ht', ht1, ht2, ht3⟩ := first_token (paren e) he hk
    obtain rfl : t = t' := Option.some.inj (ht.symm.trans ht')
    have hk1 : holdsAt ts (i + 1) e.kinds := holdsAt_left (holdsAt_tail hk)
    obtain ⟨c, hc, hcl, hcty⟩ := holdsAt_head (holdsAt_right (holdsAt_tail hk))
    have hlen : i + (paren e).kinds.length = i + 1 + e.kinds.length + 1 := by
      simp only [kinds, List.length_cons, List.length_append, List.length_nil]
      omega
    have hcstop : stopsTerm c = true := stopsTerm_of_kind hcl hcty (by decide)
    have hne : t.type ≠ TokenType.ENDOFFILE := by
      rw [hty]
      exact TokenType.noConfusion
    have hcne : c.type ≠ TokenType.ENDOFFILE := by
      rw [hcty]
      exact TokenType.noConfusion
    have hF : ∀ f, e.cost + 2 ≤ f → parseFactor (f + 2) (atPos ts i) =
        .ok (some (paren e).tree, atPos ts (i + (paren e).kinds.length)) := by
      intro f hf
      have hE := (ih he' ts (i + 1) f c hk1 hc (by rw [hcty]; exact TokenType.noConfusion)
        (by rw [hcl]; decide)).2.2 hcstop hf
      obtain ⟨g, hg⟩ : ∃ g, f - e.exprRounds = g + 1 :=
        ⟨f - e.exprRounds - 1, by have := exprRounds_lt_cost e; omega⟩
      rw [hg, parseExpressionLoop_stop g _ hc (by rw [hcty]; exact TokenType.noConfusion)
        (by rw [hcty]; exact TokenType.noConfusion) (by
          intro s hs
          simp only [List.mem_cons, List.mem_singleton, List.not_mem_nil, or_false] at hs
          rw [hcl]
          rcases hs with rfl | rfl <;> decide)] at hE
      rw [parseFactor, skipWhile_atPos_stop ht isWs (by
        have : isWs t = false := by simpa [isWs] using ht1
        rw [this, Bool.and_false])]
      rw [matchLexeme_atPos_true ht hne "(" hl]
      simp only [if_true, hE, bind, Except.bind, matchLexeme_atPos_true hc hcne ")" hcl,
        Bool.not_true, Bool.false_eq_true, if_false, hlen]
      rfl
    have hT : ∀ f, e.cost + 2 ≤ f → parseTerm (f + 3) (atPos ts i) =
        parseTermLoop (f + 2) (paren e).tree (atPos ts (i + (paren e).kinds.length)) :=
      fun f hf => term_of_factor (f + 2) _ ht ht1 ht2 (hF f hf)
    refine ⟨?_, ?_, ?_⟩
    · intro _ hc
      obtain ⟨f, rfl⟩ : ∃ f, fuel = f + 1 := ⟨fuel - 1, by simp only [cost] at hc; omega⟩
      exact hF f (by simp only [cost] at hc; omega)
    · intro _ hc
      obtain ⟨f, rfl⟩ : ∃ f, fuel = f + 2 := ⟨fuel - 2, by simp only [cost] at hc; omega⟩
      exact hT f (by simp only [cost] at hc; omega)
    · intro hstop hc
      obtain ⟨f, rfl⟩ : ∃ f, fuel = f + 3 := ⟨fuel - 3, by simp only [cost] at hc; omega⟩
      refine expr_of_term (f + 3) _ ht ht1 ht2 ht3 ?_
      rw [hT f (by simp only [cost] at hc; omega)]
      exact parseTermLoop_stop (f + 1) _ hn hstop
  | bin op l r ihl ihr =>
    intro he ts i fuel n hk hn hn1 hn3
    obtain ⟨t, ht, ht1, ht2, ht3⟩ := first_token (bin op l r) he hk
    have hkl : holdsAt ts i l.kinds := holdsAt_left hk
    obtain ⟨c, hc, hcl, hcty⟩ := holdsAt_head (holdsAt_right hk)
    have hkr : holdsAt ts (i + l.kinds.length + 1) r.kinds := holdsAt_tail (holdsAt_right hk)
    have hlen : i + (bin op l r).kinds.length = i + l.kinds.length + 1 + r.kinds.length := by
      simp only [kinds, List.length_cons, List.length_append]
      omega
    rw [hlen] at hn ⊢
    by_cases hop : isMulOp op = true
    · obtain ⟨hl, hr, hll, hrl⟩ := standard_mul he hop
      have hc1 : c.type ≠ TokenType.WHITESPACE := by
        rw [hcty]
        rcases mulOp_cases hop with rfl | rfl | rfl <;> decide
      have hc2 : c.type ≠ TokenType.COMMENT := by
        rw [hcty]
        rcases mulOp_cases hop with rfl | rfl | rfl <;> decide
      have hc3 : c.lexeme ≠ "(".toList := by
        rw [hcl]
        rcases mulOp_cases hop with rfl | rfl | rfl <;> decide
      obtain ⟨u, hu, hu1, hu2, _⟩ := first_token r hr hkr
      have hT : ∀ f, (bin op l r).cost + 1 ≤ f → parseTerm (f + 1) (atPos ts i) =
          parseTermLoop (f - (bin op l r).termRounds) (bin op l r).tree
            (atPos ts (i + l.kinds.length + 1 + r.kinds.length)) := by
        intro f hf
        simp only [cost] at hf
        have hrounds := termRounds_lt_cost l
        rw [(ihl hl ts i f c hkl hc hc1 hc3).2.1 hll (by omega)]
        obtain ⟨g, hg⟩ : ∃ g, f - l.termRounds = g + 2 := ⟨f - l.termRounds - 2, by omega⟩
        have hFr := (ihr hr ts (i + l.kinds.length + 1) g n hkr hn hn1 hn3).1 hrl (by omega)
        have e1 : f - (bin op l r).termRounds = g + 1 := by
          simp only [termRounds, hop, if_true]
          omega
        rw [hg, e1, parseTermLoop, skipWhile_wsOrComment_stop hc hc1 hc2,
          matchAny_mulOp hc hop hcl hcty]
        simp only [skipWhile_wsOrComment_stop hu hu1 hu2, hFr, bind, Except.bind]
        rfl
      refine ⟨?_, fun _ hf => hT fuel hf, ?_⟩
      · intro h0
        simp [level, hop] at h0
      · intro hstop hf
        obtain ⟨f, rfl⟩ : ∃ f, fuel = f + 1 := ⟨fuel - 1, by omega⟩
        have hx : (bin op l r).exprRounds = 0 := by simp only [exprRounds, hop, if_true]
        rw [hx]
        refine expr_of_term (f + 1) _ ht ht1 ht2 ht3 ?_
        rw [hT f (by omega)]
        obtain ⟨g, hg⟩ : ∃ g, f - (bin op l r).termRounds = g + 1 :=
          ⟨f - (bin op l r).termRounds - 1, by
            have := termRounds_lt_cost (bin op l r)
            omega⟩
        rw [hg]
        exact parseTermLoop_stop g _ hn hstop
    · have hop' : isMulOp op = false := by simpa using hop
      obtain ⟨ha, hl, hr, hrl⟩ := standard_add he hop'
      have hc1 : c.type ≠ TokenType.WHITESPACE := by
        rw [hcty]
        rcases addOp_cases ha with rfl | rfl <;> decide
      have hc2 : c.type ≠ TokenType.COMMENT := by
        rw [hcty]
        rcases addOp_cases ha with rfl | rfl <;> decide
      have hc3 : c.lexeme ≠ "(".toList := by
        rw [hcl]
        rcases addOp_cases ha with rfl | rfl <;> decide
      have hc4 : isBlockEnd c = false := by
        unfold isBlockEnd
        rw [hcty]
        rcases addOp_cases ha with rfl | rfl <;> decide
      have hc5 : (c.lexeme == ":".toList) = false := by
        rw [hcl]
        rcases addOp_cases ha with rfl | rfl <;> decide
      have hc6 : (c.type == TokenType.ENDOFFILE) = false := by
        rw [hcty]
        rcases addOp_cases ha with rfl | rfl <;> decide
      have hcstop : stopsTerm c = true := by
        rcases addOp_cases ha with rfl | rfl <;> exact stopsTerm_of_kind hcl hcty (by decide)
      obtain ⟨u, hu, hu1, hu2, _⟩ := first_token r hr hkr
      refine ⟨?_, ?_, ?_⟩
      · intro h0
        simp [level, hop'] at h0
      · intro h0
        simp [level, hop'] at h0
      · intro hstop hf
        simp only [cost] at hf
        have hrounds := exprRounds_lt_cost l
        have hrounds' := termRounds_lt_cost r
        rw [(ihl hl ts i fuel c hkl hc hc1 hc3).2.2 hcstop (by omega)]
        obtain ⟨g, hg⟩ : ∃ g, fuel - l.exprRounds = g + 2 := ⟨fuel - l.exprRounds - 2, by omega⟩
        have hTr := (ihr hr ts (i + l.kinds.length + 1) g n hkr hn hn1 hn3).2.1 hrl (by omega)
        obtain ⟨g', hg'⟩ : ∃ g', g - r.termRounds = g' + 1 := ⟨g - r.termRounds - 1, by omega⟩
        rw [hg', parseTermLoop_stop g' _ hn hstop] at hTr
        have e1 : fuel - (bin op l r).exprRounds = g + 1 := by
          simp only [exprRounds, hop', Bool.false_eq_true, if_false]
          omega
        rw [hg, e1, parseExpressionLoop, isAtEnd_atPos hc, hc6]
        simp only [Bool.false_eq_true, if_false, skipWhile_wsOrComment_stop hc hc1 hc2,
          currentToken_atPos hc, hc4, hc5, Bool.or_self, matchAny_addOp hc ha hcl hcty,
          skipWhile_wsOrComment_stop hu hu1 hu2, hTr, bind, Except.bind]
        rfl

end Arith
end PyAnalyzer
namespace PyAnalyzer
namespace Arith

open SyntaxAnalyzer

/-- `parseExpression` on an expression in standard form that a token other
than white space, a comment, `(` and an arithmetic operator follows. -/
theorem parseExpression_arith (e : Arith) (he : e.standard = true) {ts : List Token} {i : Nat}
    (fuel : Nat) {n : Token} (hk : holdsAt ts i e.kinds)
    (hn : ts.get? (i + e.kinds.length) = some n) (hstop : stopsOperand n = true)
    (hf : e.cost + 3 ≤ fuel) :
    parseExpression fuel (atPos ts i) = .ok (some e.tree, atPos ts (i + e.kinds.length)) := by
  obtain ⟨hn1, hn2, hn3, _, hn5⟩ := stopsOperand_facts hstop
  obtain ⟨f, rfl⟩ : ∃ f, fuel = f + 1 := ⟨fuel - 1, by omega⟩
  rw [(parses e he ts i f n hk hn hn1 hn3).2.2 (stopsTerm_of_stopsOperand hstop) (by omega)]
  obtain ⟨g, hg⟩ : ∃ g, f - e.exprRounds = g + 1 :=
    ⟨f - e.exprRounds - 1, by have := exprRounds_lt_cost e; omega⟩
  rw [hg]
  exact parseExpressionLoop_stop g _ hn hn1 hn2 hn5

/-- `parseTerm` on a term in standard form that a token other than white
space, a comment, `(` and `* / %` follows. -/
theorem parseTerm_arith (e : Arith) (he : e.standard = true) (hlev : e.level ≤ 1)
    {ts : List Token} {i : Nat} (fuel : Nat) {n : Token} (hk : holdsAt ts i e.kinds)
    (hn : ts.get? (i + e.kinds.length) = some n) (hstop : stopsTerm n = true)
    (hf : e.cost + 2 ≤ fuel) :
    parseTerm fuel (atPos ts i) = .ok (some e.tree, atPos ts (i + e.kinds.length)) := by
  obtain ⟨hn1, _, hn3, _⟩ := stopsTerm_facts hstop
  obtain ⟨f, rfl⟩ : ∃ f, fuel = f + 1 := ⟨fuel - 1, by omega⟩
  rw [(parses e he ts i f n hk hn hn1 hn3).2.1 hlev (by omega)]
  obtain ⟨g, hg⟩ : ∃ g, f - e.termRounds = g + 1 :=
    ⟨f - e.termRounds - 1, by have := termRounds_lt_cost e; omega⟩
  rw [hg]
  exact parseTermLoop_stop g _ hn hstop

end Arith

namespace CmpChain

open SyntaxAnalyzer

theorem stopsComparison_facts {n : Token} (h : stopsComparison n = true) :
    stopsOperand n = true ∧
      ∀ s ∈ ["==", "!=", "<=", ">=", "<", ">"], n.lexeme ≠ String.toList s := by
  simp only [stopsComparison, Bool.and_eq_true, Bool.not_eq_true', List.contains_eq_any_beq,
    List.any_eq_false, List.mem_map, beq_iff_eq, forall_exists_index, and_imp] at h
  refine ⟨h.1, fun s hs heq => h.2 _ s hs rfl heq⟩

/-- The token after an expression of a chain ends the expression. -/
theorem next_stops (rest : List (String × Arith))
    (hv : rest.all (fun p => comparators.contains p.1 && p.2.standard) = true)
    {ts : List Token} {j : Nat} {n : Token} (hk : holdsAt ts j (restKinds rest))
    (hn : ts.get? (j + (restKinds rest).length) = some n) (hstop : stopsComparison n = true) :
    ∃ m, ts.get? j = some m ∧ stopsOperand m = true := by
  cases rest with
  | nil => exact ⟨n, hn, (stopsComparison_facts hstop).1⟩
  | cons p rest =>
    obtain ⟨c, e⟩ := p
    obtain ⟨m, hm, hml, hmt⟩ := holdsAt_head hk
    simp only [List.all_cons, Bool.and_eq_true] at hv
    exact ⟨m, hm, stopsOperand_comparator hv.1.1 hml hmt⟩

/-- The loop of `parseComparison` over the comparisons of a chain. -/
theorem parseComparisonLoop_chain (rest : List (String × Arith)) :
    ∀ (left : ParseNode) (ts : List Token) (i fuel : Nat) (n : Token),
    rest.all (fun p => comparators.contains p.1 && p.2.standard) = true →
    holdsAt ts i (restKinds rest) → ts.get? (i + (restKinds rest).length) = some n →
    stopsComparison n = true → (rest.map (fun p => p.2.cost + 4)).sum + 1 ≤ fuel →
    parseComparisonLoop fuel left (atPos ts i) =
      .ok (some (fold left rest), atPos ts (i + (restKinds rest).length)) := by
  induction rest with
  | nil =>
    intro left ts i fuel n _ _ hn hstop hf
    obtain ⟨f, rfl⟩ : ∃ f, fuel = f + 1 := ⟨fuel - 1, by omega⟩
    have hn : ts.get? i = some n := hn
    rw [parseComparisonLoop, matchAny_atPos_none hn _ (stopsComparison_facts hstop).2]
    rfl
  | cons p rest ih =>
    obtain ⟨c, e⟩ := p
    intro left ts i fuel n hv hk hn hstop hf
    simp only [List.all_cons, Bool.and_eq_true] at hv
    obtain ⟨⟨hc, he⟩, hrest⟩ := hv
    obtain ⟨m, hm, hml, hmt⟩ := holdsAt_head hk
    have hke : holdsAt ts (i + 1) e.kinds := holdsAt_left (holdsAt_tail hk)
    have hkr : holdsAt ts (i + 1 + e.kinds.length) (restKinds rest) :=
      holdsAt_right (holdsAt_tail hk)
    have hlen : i + (restKinds ((c, e) :: rest)).length =
        i + 1 + e.kinds.length + (restKinds rest).length := by
      simp only [restKinds, List.length_cons, List.length_append]
      omega
    rw [hlen] at hn ⊢
    obtain ⟨u, hu, hustop⟩ := next_stops rest hrest hkr hn hstop
    simp only [List.map_cons, List.sum_cons] at hf
    obtain ⟨f, rfl⟩ : ∃ f, fuel = f + 1 := ⟨fuel - 1, by omega⟩
    rw [parseComparisonLoop, matchAny_comparator hm hc hml hmt]
    simp only [Arith.parseExpression_arith e he f hke hu hustop (by omega), bind, Except.bind]
    exact ih _ ts _ f n hrest hkr hn hstop (by omega)

end CmpChain
end PyAnalyzer
namespace PyAnalyzer
namespace CmpChain

open SyntaxAnalyzer

/-- C30: for a chain of comparisons over arithmetic expressions in standard
form (operands, parentheses, `+ - * / %`, read by the grammar
`expression := term {(+|-) term}`, `term := factor {(*|/|%) factor}`) that a
token other than white space, a comment, `(`, an arithmetic operator and a
comparison operator follows, with enough fuel: `parseComparison` returns the
left fold of `CompareOp` nodes over the trees of the expressions,
`parseExpression` returns the tree of the first expression, and `parseTerm`
returns that tree when the first expression is a term.  The tree of an
expression has an `Operator` node for each operator, with the tree of the
left operand first, and the tree of a parenthesis is the tree of the
expression inside. -/
theorem expression_trees (ch : CmpChain) (hv : ch.valid = true) (ts : List Token)
    (i fuel : Nat) (n : Token) (hk : holdsAt ts i ch.kinds)
    (hn : ts.get? (i + ch.kinds.length) = some n) (hstop : stopsComparison n = true)
    (hf : ch.cost ≤ fuel) :
    parseComparison fuel (atPos ts i) = .ok (some ch.tree, atPos ts (i + ch.kinds.length)) ∧
    parseExpression fuel (atPos ts i) =
      .ok (some ch.first.tree, atPos ts (i + ch.first.kinds.length)) ∧
    (ch.first.level ≤ 1 → parseTerm fuel (atPos ts i) =
      .ok (some ch.first.tree, atPos ts (i + ch.first.kinds.length))) ∧
    (∀ e : Arith, (Arith.paren e).tree = e.tree) ∧
    (∀ (op : String) (l r : Arith), (Arith.bin op l r).tree =
      ParseNode.node "Operator".toList op.toList [l.tree, r.tree]) := by
  obtain ⟨first, rest⟩ := ch
  simp only [valid, Bool.and_eq_true] at hv
  obtain ⟨hfirst, hrest⟩ := hv
  simp only [cost] at hf
  have hk1 : holdsAt ts i first.kinds := holdsAt_left hk
  have hk2 : holdsAt ts (i + first.kinds.length) (restKinds rest) := holdsAt_right hk
  have hlen : i + (kinds ⟨first, rest⟩).length =
      i + first.kinds.length + (restKinds rest).length := by
    simp only [kinds, List.length_append]
    omega
  rw [hlen] at hn ⊢
  obtain ⟨u, hu, hustop⟩ := next_stops rest hrest hk2 hn hstop
  have hE := Arith.parseExpression_arith first hfirst fuel hk1 hu hustop (by omega)
  refine ⟨?_, hE, ?_, fun _ => rfl, fun _ _ _ => rfl⟩
  · obtain ⟨f, rfl⟩ : ∃ f, fuel = f + 1 := ⟨fuel - 1, by omega⟩
    rw [parseComparison,
      Arith.parseExpression_arith first hfirst f hk1 hu hustop (by omega)]
    simp only [bind, Except.bind]
    exact parseComparisonLoop_chain rest _ ts _ f n hrest hk2 hn hstop (by omega)
  · intro hlev
    exact Arith.parseTerm_arith first hfirst hlev fuel hk1 hu (stopsTerm_of_stopsOperand hustop)
      (by omega)

end CmpChain
end PyAnalyzer
namespace PyAnalyzer
namespace CmpChain

open SyntaxAnalyzer

/-- C30 at `a - b - c`, `a + b * c`, `a < b < c` and `( a + b ) * c`, each
followed by a NEWLINE token. -/
theorem expression_trees_witness :
    parseExpression 12 (atPos (tokensOfKinds
        [("a".toList, TokenType.IDENTIFIER), ("-".toList, TokenType.MINUSOPERATOR),
          ("b".toList, TokenType.IDENTIFIER), ("-".toList, TokenType.MINUSOPERATOR),
          ("c".toList, TokenType.IDENTIFIER), ("\n".toList, TokenType.NEWLINE)]) 0) =
      .ok (some (ParseNode.node "Operator".toList "-".toList
        [ParseNode.node "Operator".toList "-".toList
          [ParseNode.leaf "Identifier" "a".toList, ParseNode.leaf "Identifier" "b".toList],
         ParseNode.leaf "Identifier" "c".toList]),
        atPos (tokensOfKinds
        [("a".toList, TokenType.IDENTIFIER), ("-".toList, TokenType.MINUSOPERATOR),
          ("b".toList, TokenType.IDENTIFIER), ("-".toList, TokenType.MINUSOPERATOR),
          ("c".toList, TokenType.IDENTIFIER), ("\n".toList, TokenType.NEWLINE)]) 5) ∧
    parseExpression 12 (atPos (tokensOfKinds
        [("a".toList, TokenType.IDENTIFIER), ("+".toList, TokenType.ADDOPERATOR),
          ("b".toList, TokenType.IDENTIFIER), ("*".toList, TokenType.MULTIPLYOPERATOR),
          ("c".toList, TokenType.IDENTIFIER), ("\n".toList, TokenType.NEWLINE)]) 0) =
      .ok (some (ParseNode.node "Operator".toList "+".toList
        [ParseNode.leaf "Identifier" "a".toList,
         ParseNode.node "Operator".toList "*".toList
          [ParseNode.leaf "Identifier" "b".toList, ParseNode.leaf "Identifier" "c".toList]]),
        atPos (tokensOfKinds
        [("a".toList, TokenType.IDENTIFIER), ("+".toList, TokenType.ADDOPERATOR),
          ("b".toList, TokenType.IDENTIFIER), ("*".toList, TokenType.MULTIPLYOPERATOR),
          ("c".toList, TokenType.IDENTIFIER), ("\n".toList, TokenType.NEWLINE)]) 5) ∧
    parseComparison 20 (atPos (tokensOfKinds
        [("a".toList, TokenType.IDENTIFIER), ("<".toList, TokenType.COMPAREOPERATOR),
          ("b".toList, TokenType.IDENTIFIER), ("<".toList, TokenType.COMPAREOPERATOR),
          ("c".toList, TokenType.IDENTIFIER), ("\n".toList, TokenType.NEWLINE)]) 0) =
      .ok (some (ParseNode.node "CompareOp".toList "<".toList
        [ParseNode.node "CompareOp".toList "<".toList
          [ParseNode.leaf "Identifier" "a".toList, ParseNode.leaf "Identifier" "b".toList],
         ParseNode.leaf "Identifier" "c".toList]),
        atPos (tokensOfKinds
        [("a".toList, TokenType.IDENTIFIER), ("<".toList, TokenType.COMPAREOPERATOR),
          ("b".toList, TokenType.IDENTIFIER), ("<".toList, TokenType.COMPAREOPERATOR),
          ("c".toList, TokenType.IDENTIFIER), ("\n".toList, TokenType.NEWLINE)]) 5) ∧
    parseTerm 16 (atPos (tokensOfKinds
        [("(".toList, TokenType.DELIMITER), ("a".toList, TokenType.IDENTIFIER),
          ("+".toList, TokenType.ADDOPERATOR), ("b".toList, TokenType.IDENTIFIER),
          (")".toList, TokenType.DELIMITER), ("*".toList, TokenType.MULTIPLYOPERATOR),
          ("2".toList, TokenType.NUMBER), ("\n".toList, TokenType.NEWLINE)]) 0) =
      .ok (some (ParseNode.node "Operator".toList "*".toList
        [ParseNode.node "Operator".toList "+".toList
          [ParseNode.leaf "Identifier" "a".toList, ParseNode.leaf "Identifier" "b".toList],
         ParseNode.leaf "Number" "2".toList]),
        atPos (tokensOfKinds
        [("(".toList, TokenType.DELIMITER), ("a".toList, TokenType.IDENTIFIER),
          ("+".toList, TokenType.ADDOPERATOR), ("b".toList, TokenType.IDENTIFIER),
          (")".toList, TokenType.DELIMITER), ("*".toList, TokenType.MULTIPLYOPERATOR),
          ("2".toList, TokenType.NUMBER), ("\n".toList, TokenType.NEWLINE)]) 7) :=
  ⟨(expression_trees
      ⟨Arith.bin "-" (Arith.bin "-" (Arith.atom (Operand.ident "a".toList))
        (Arith.atom (Operand.ident "b".toList))) (Arith.atom (Operand.ident "c".toList)), []⟩
      (by decide)
      (tokensOfKinds
        [("a".toList, TokenType.IDENTIFIER), ("-".toList, TokenType.MINUSOPERATOR),
          ("b".toList, TokenType.IDENTIFIER), ("-".toList, TokenType.MINUSOPERATOR),
          ("c".toList, TokenType.IDENTIFIER), ("\n".toList, TokenType.NEWLINE)]) 0 12 ⟨"\n".toList, TokenType.NEWLINE, 1, 1⟩
      (holdsAt_of_drop (R := [("\n".toList, TokenType.NEWLINE)]) rfl) rfl (by decide)
      (by decide)).2.1,
   (expression_trees
      ⟨Arith.bin "+" (Arith.atom (Operand.ident "a".toList))
        (Arith.bin "*" (Arith.atom (Operand.ident "b".toList))
          (Arith.atom (Operand.ident "c".toList))), []⟩
      (by decide)
      (tokensOfKinds
        [("a".toList, TokenType.IDENTIFIER), ("+".toList, TokenType.ADDOPERATOR),
          ("b".toList, TokenType.IDENTIFIER), ("*".toList, TokenType.MULTIPLYOPERATOR),
          ("c".toList, TokenType.IDENTIFIER), ("\n".toList, TokenType.NEWLINE)]) 0 12 ⟨"\n".toList, TokenType.NEWLINE, 1, 1⟩
      (holdsAt_of_drop (R := [("\n".toList, TokenType.NEWLINE)]) rfl) rfl (by decide)
      (by decide)).2.1,
   (expression_trees
      ⟨Arith.atom (Operand.ident "a".toList),
        [("<", Arith.atom (Operand.ident "b".toList)),
         ("<", Arith.atom (Operand.ident "c".toList))]⟩
      (by decide)
      (tokensOfKinds
        [("a".toList, TokenType.IDENTIFIER), ("<".toList, TokenType.COMPAREOPERATOR),
          ("b".toList, TokenType.IDENTIFIER), ("<".toList, TokenType.COMPAREOPERATOR),
          ("c".toList, TokenType.IDENTIFIER), ("\n".toList, TokenType.NEWLINE)]) 0 20 ⟨"\n".toList, TokenType.NEWLINE, 1, 1⟩
      (holdsAt_of_drop (R := [("\n".toList, TokenType.NEWLINE)]) rfl) rfl (by decide)
      (by decide)).1,
   (expression_trees
      ⟨Arith.bin "*" (Arith.paren (Arith.bin "+" (Arith.atom (Operand.ident "a".toList))
        (Arith.atom (Operand.ident "b".toList)))) (Arith.atom (Operand.number "2".toList)), []⟩
      (by decide)
      (tokensOfKinds
        [("(".toList, TokenType.DELIMITER), ("a".toList, TokenType.IDENTIFIER),
          ("+".toList, TokenType.ADDOPERATOR), ("b".toList, TokenType.IDENTIFIER),
          (")".toList, TokenType.DELIMITER), ("*".toList, TokenType.MULTIPLYOPERATOR),
          ("2".toList, TokenType.NUMBER), ("\n".toList, TokenType.NEWLINE)]) 0 16 ⟨"\n".toList, TokenType.NEWLINE, 1, 1⟩
      (holdsAt_of_drop (R := [("\n".toList, TokenType.NEWLINE)]) rfl) rfl (by decide)
      (by decide)).2.2.1 (by decide)⟩

end CmpChain
end PyAnalyzer
namespace PyAnalyzer
namespace SyntaxAnalyzer

/-! ## Termination of the parser: the tokens ahead bound the fuel -/

theorem within_mono {ts : List Token} {m n : Nat} {S : SyntaxAnalyzer} (h : Within ts m S)
    (hmn : m ≤ n) : Within ts n S :=
  ⟨h.1, le_trans h.2 hmn⟩

theorem within_of_pos {ts : List Token} {n : Nat} {S T : SyntaxAnalyzer} (h : Within ts n S)
    (ht : T.tokens = S.tokens) (hp : S.pos ≤ T.pos) : Within ts n T := by
  refine ⟨ht.trans h.1, ?_⟩
  have := h.2
  omega

theorem within_advance {ts : List Token} {n : Nat} {S : SyntaxAnalyzer} (h : Within ts n S) :
    Within ts n S.advance := by
  unfold advance
  split
  · exact within_of_pos h rfl (Nat.le_succ _)
  · exact h

theorem within_skipWhile {ts : List Token} {n : Nat} {S : SyntaxAnalyzer} {p : Token → Bool}
    (h : Within ts n S) : Within ts n (S.skipWhile p) :=
  within_of_pos h rfl (Nat.le_add_right _ _)

theorem within_addSyntaxError {ts : List Token} {n : Nat} {S : SyntaxAnalyzer} {msg : List Char}
    {line column : Int} (h : Within ts n S) : Within ts n (S.addSyntaxError msg line column) :=
  h

theorem within_errorHere {ts : List Token} {n : Nat} {S : SyntaxAnalyzer} {msg : String}
    (h : Within ts n S) : Within ts n (S.errorHere msg) :=
  h

theorem within_matchLexeme {ts : List Token} {n : Nat} {S : SyntaxAnalyzer} {l : String}
    (h : Within ts n S) : Within ts n (S.matchLexeme l).2 := by
  unfold matchLexeme
  split
  · exact within_advance h
  · exact h

theorem within_matchAny {ts : List Token} {n : Nat} {S : SyntaxAnalyzer} {ls : List String}
    (h : Within ts n S) : Within ts n (S.matchAny ls).2 := by
  induction ls with
  | nil => exact h
  | cons l ls ih =>
    unfold matchAny
    split
    · exact within_matchLexeme h
    · exact ih

theorem within_checkIndentation {ts : List Token} {n : Nat} {S : SyntaxAnalyzer}
    {stmtType : String} (h : Within ts n S) : Within ts n (S.checkIndentation stmtType).2 := by
  unfold checkIndentation
  dsimp only
  split
  · exact within_errorHere (within_skipWhile (within_skipWhile h))
  · exact within_advance (within_skipWhile (within_skipWhile h))

theorem within_skipToColonOrNewline {ts : List Token} {n : Nat} {S : SyntaxAnalyzer}
    (h : Within ts n S) : Within ts n S.skipToColonOrNewline :=
  within_skipWhile h

theorem within_skipToNewline {ts : List Token} {n : Nat} {S : SyntaxAnalyzer}
    (h : Within ts n S) : Within ts n S.skipToNewline :=
  within_skipWhile h

theorem within_ite {ts : List Token} {n : Nat} {c : Prop} [Decidable c] {A B : SyntaxAnalyzer}
    (hA : Within ts n A) (hB : Within ts n B) : Within ts n (if c then A else B) := by
  split
  · exact hA
  · exact hB

/-- A token that `match` accepts is consumed. -/
theorem past_matchLexeme {ts : List Token} {n : Nat} {S : SyntaxAnalyzer} {l : String}
    (hm : (S.matchLexeme l).1 = true) (h : Within ts n S) : Past ts n (S.matchLexeme l).2 := by
  unfold matchLexeme at hm ⊢
  split at hm
  · rename_i hc
    rw [if_pos hc]
    have hend : S.isAtEnd = false := by
      simp only [Bool.and_eq_true, Bool.not_eq_true'] at hc
      exact hc.1
    have hlt : S.pos < S.tokens.length := by
      unfold isAtEnd at hend
      simp only [Bool.or_eq_false_iff, decide_eq_false_iff_not] at hend
      omega
    have hadv : S.advance = { S with pos := S.pos + 1 } := by
      unfold advance
      rw [hend]
      rfl
    obtain ⟨h1, h2⟩ := h
    rw [← h1] at h2 ⊢
    refine ⟨by omega, ?_, ?_⟩
    · rw [hadv]
    · rw [hadv]
      show S.tokens.length - (S.pos + 1) ≤ n - 1
      omega
  · cases hm

theorem past_matchLexeme_not {ts : List Token} {n : Nat} {S : SyntaxAnalyzer} {l : String}
    (hm : ¬ (!(S.matchLexeme l).1) = true) (h : Within ts n S) :
    Past ts n (S.matchLexeme l).2 :=
  past_matchLexeme (by simpa using hm) h

theorem past_matchAny {ts : List Token} {n : Nat} {S S1 : SyntaxAnalyzer} {ls : List String}
    {op : String} (hm : S.matchAny ls = (some op, S1)) (h : Within ts n S) : Past ts n S1 := by
  induction ls with
  | nil => cases hm
  | cons l ls ih =>
    unfold matchAny at hm
    split at hm
    · rename_i hc
      have := past_matchLexeme hc h
      rw [← (Prod.mk.inj hm).2]
      exact this
    · exact ih hm

theorem within_of_matchAny {ts : List Token} {n : Nat} {S S1 : SyntaxAnalyzer} {ls : List String}
    {op : Option String} (hm : S.matchAny ls = (op, S1)) (h : Within ts n S) :
    Within ts n S1 := by
  have := @within_matchAny ts n S ls h
  rw [hm] at this
  exact this

theorem past_advance {ts : List Token} {n : Nat} {S : SyntaxAnalyzer} (h : Past ts n S) :
    Past ts n S.advance :=
  ⟨h.1, within_advance h.2⟩

theorem past_skipWhile {ts : List Token} {n : Nat} {S : SyntaxAnalyzer} {p : Token → Bool}
    (h : Past ts n S) : Past ts n (S.skipWhile p) :=
  ⟨h.1, within_skipWhile h.2⟩

theorem past_addSyntaxError {ts : List Token} {n : Nat} {S : SyntaxAnalyzer} {msg : List Char}
    {line column : Int} (h : Past ts n S) : Past ts n (S.addSyntaxError msg line column) :=
  h

theorem past_errorHere {ts : List Token} {n : Nat} {S : SyntaxAnalyzer} {msg : String}
    (h : Past ts n S) : Past ts n (S.errorHere msg) :=
  h

theorem past_matchLexeme_snd {ts : List Token} {n : Nat} {S : SyntaxAnalyzer} {l : String}
    (h : Past ts n S) : Past ts n (S.matchLexeme l).2 :=
  ⟨h.1, within_matchLexeme h.2⟩

theorem past_checkIndentation {ts : List Token} {n : Nat} {S : SyntaxAnalyzer}
    {stmtType : String} (h : Past ts n S) : Past ts n (S.checkIndentation stmtType).2 :=
  ⟨h.1, within_checkIndentation h.2⟩

theorem past_skipToColonOrNewline {ts : List Token} {n : Nat} {S : SyntaxAnalyzer}
    (h : Past ts n S) : Past ts n S.skipToColonOrNewline :=
  ⟨h.1, within_skipWhile h.2⟩

theorem past_skipToNewline {ts : List Token} {n : Nat} {S : SyntaxAnalyzer}
    (h : Past ts n S) : Past ts n S.skipToNewline :=
  ⟨h.1, within_skipWhile h.2⟩

theorem past_ite {ts : List Token} {n : Nat} {c : Prop} [Decidable c] {A B : SyntaxAnalyzer}
    (hA : Past ts n A) (hB : Past ts n B) : Past ts n (if c then A else B) := by
  split
  · exact hA
  · exact hB

theorem within_of_past {ts : List Token} {n : Nat} {S : SyntaxAnalyzer} (h : Past ts n S) :
    Within ts n S :=
  within_mono h.2 (Nat.sub_le _ _)

theorem safe_ok {α : Type} {ts : List Token} {n : Nat} {r : α} {T : SyntaxAnalyzer}
    (h : Within ts n T) : Safe ts n (.ok (r, T)) :=
  h

theorem safe_pure {α : Type} {ts : List Token} {n : Nat} {r : α} {T : SyntaxAnalyzer}
    (h : Within ts n T) : Safe ts n (pure (r, T) : Except Fault (α × SyntaxAnalyzer)) :=
  h

theorem safe_mono {α : Type} {ts : List Token} {m n : Nat}
    {x : Except Fault (α × SyntaxAnalyzer)} (h : Safe ts m x) (hmn : m ≤ n) : Safe ts n x := by
  rcases x with f | ⟨r, T⟩
  · exact h
  · exact within_mono h hmn

theorem safe_bind {α β : Type} {ts : List Token} {n : Nat}
    {x : Except Fault (α × SyntaxAnalyzer)}
    {k : α × SyntaxAnalyzer → Except Fault (β × SyntaxAnalyzer)} (hx : Safe ts n x)
    (hk : ∀ r T, Within ts n T → Safe ts n (k (r, T))) : Safe ts n (x >>= k) := by
  rcases x with f | ⟨r, T⟩
  · exact hx
  · exact hk r T hx

theorem safe_bind_val {α β : Type} {ts : List Token} {n : Nat} {x : Except Fault α}
    {k : α → Except Fault (β × SyntaxAnalyzer)} (hx : Fuelled x)
    (hk : ∀ a, Safe ts n (k a)) : Safe ts n (x >>= k) := by
  rcases x with f | a
  · exact hx
  · exact hk a

/-- A call entered after a token was consumed. -/
theorem safe_past {α : Type} {ts : List Token} {n : Nat} {T : SyntaxAnalyzer}
    {x : Except Fault (α × SyntaxAnalyzer)} (h : Past ts n T)
    (hx : 1 ≤ n → Within ts (n - 1) T → Safe ts (n - 1) x) : Safe ts n x :=
  safe_mono (hx h.1 h.2) (Nat.sub_le _ _)

theorem fuelled_pushChild (node : Option ParseNode) (child : ParseNode) :
    Fuelled (pushChild node child) := by
  cases node with
  | none => exact Fault.noConfusion
  | some n => trivial

end SyntaxAnalyzer
end PyAnalyzer
namespace PyAnalyzer
namespace SyntaxAnalyzer

set_option maxHeartbeats 4000000 in
/-- The expression parsers do not run out of fuel: with `n` tokens ahead,
fuel `32 * n` and a few units more is enough, and the tokens ahead do not
grow. -/
theorem expression_safe (ts : List Token) (fuel : Nat) :
    (∀ n S, Within ts n S → 32 * n + 1 ≤ fuel → Safe ts n (parseFactor fuel S)) ∧
    (∀ n skipWs args S, Within ts n S → 32 * n + 4 ≤ fuel →
      Safe ts n (parseArgs fuel skipWs args S)) ∧
    (∀ n left S, Within ts n S → 32 * n + 1 ≤ fuel → Safe ts n (parseTermLoop fuel left S)) ∧
    (∀ n S, Within ts n S → 32 * n + 2 ≤ fuel → Safe ts n (parseTerm fuel S)) ∧
    (∀ n left S, Within ts n S → 32 * n + 1 ≤ fuel →
      Safe ts n (parseExpressionLoop fuel left S)) ∧
    (∀ n S, Within ts n S → 32 * n + 3 ≤ fuel → Safe ts n (parseExpression fuel S)) := by
  induction fuel with
  | zero =>
    refine ⟨?_, ?_, ?_, ?_, ?_, ?_⟩ <;> intros <;> omega
  | succ fuel ih =>
    obtain ⟨ih1, ih2, ih3, ih4, ih5, ih6⟩ := ih
    refine ⟨?_, ?_, ?_, ?_, ?_, ?_⟩
    · intro n S hS hfuel
      simp only [parseFactor]
      repeat' first
        | assumption
        | exact within_of_past (by assumption)
        | with_reducible refine within_advance ?_
        | with_reducible refine within_skipWhile ?_
        | with_reducible refine within_errorHere ?_
        | with_reducible refine within_addSyntaxError ?_
        | with_reducible refine within_matchLexeme ?_
        | with_reducible refine within_matchAny ?_
        | with_reducible refine within_checkIndentation ?_
        | with_reducible refine within_skipToColonOrNewline ?_
        | with_reducible refine within_skipToNewline ?_
        | with_reducible refine within_ite ?_ ?_
        | with_reducible refine past_matchLexeme (by assumption) ?_
        | with_reducible refine past_matchLexeme_not (by assumption) ?_
        | with_reducible refine past_advance ?_
        | with_reducible refine past_skipWhile ?_
        | with_reducible refine past_errorHere ?_
        | with_reducible refine past_addSyntaxError ?_
        | with_reducible refine past_matchLexeme_snd ?_
        | with_reducible refine past_checkIndentation ?_
        | with_reducible refine past_skipToColonOrNewline ?_
        | with_reducible refine past_skipToNewline ?_
        | with_reducible refine past_ite ?_ ?_
        | with_reducible refine safe_ok ?_
        | with_reducible refine safe_pure ?_
        | with_reducible refine ih1 n _ ?_ (by omega)
        | with_reducible refine ih2 n _ _ _ ?_ (by omega)
        | with_reducible refine ih3 n _ _ ?_ (by omega)
        | with_reducible refine ih4 n _ ?_ (by omega)
        | with_reducible refine ih5 n _ _ ?_ (by omega)
        | with_reducible refine ih6 n _ ?_ (by omega)
        | with_reducible refine safe_past ?_ (fun hn hT => ih2 (n - 1) _ _ _ hT (by omega))
        | with_reducible refine safe_past ?_ (fun hn hT => ih6 (n - 1) _ hT (by omega))
        | with_reducible refine safe_bind ?_ (fun r T hT => ?_)
        | dsimp only
        | split
    · intro n skipWs args S hS hfuel
      simp only [parseArgs]
      repeat' first
        | assumption
        | exact within_of_past (by assumption)
        | with_reducible refine within_advance ?_
        | with_reducible refine within_skipWhile ?_
        | with_reducible refine within_errorHere ?_
        | with_reducible refine within_addSyntaxError ?_
        | with_reducible refine within_matchLexeme ?_
        | with_reducible refine within_matchAny ?_
        | with_reducible refine within_checkIndentation ?_
        | with_reducible refine within_skipToColonOrNewline ?_
        | with_reducible refine within_skipToNewline ?_
        | with_reducible refine within_ite ?_ ?_
        | with_reducible refine past_matchLexeme (by assumption) ?_
        | with_reducible refine past_matchLexeme_not (by assumption) ?_
        | with_reducible refine past_advance ?_
        | with_reducible refine past_skipWhile ?_
        | with_reducible refine past_errorHere ?_
        | with_reducible refine past_addSyntaxError ?_
        | with_reducible refine past_matchLexeme_snd ?_
        | with_reducible refine past_checkIndentation ?_
        | with_reducible refine past_skipToColonOrNewline ?_
        | with_reducible refine past_skipToNewline ?_
        | with_reducible refine past_ite ?_ ?_
        | with_reducible refine safe_ok ?_
        | with_reducible refine safe_pure ?_
        | with_reducible refine ih1 n _ ?_ (by omega)
        | with_reducible refine ih2 n _ _ _ ?_ (by omega)
        | with_reducible refine ih3 n _ _ ?_ (by omega)
        | with_reducible refine ih4 n _ ?_ (by omega)
        | with_reducible refine ih5 n _ _ ?_ (by omega)
        | with_reducible refine ih6 n _ ?_ (by omega)
        | with_reducible refine safe_past ?_ (fun hn hT => ih2 (n - 1) _ _ _ hT (by omega))
        | with_reducible refine safe_bind ?_ (fun r T hT => ?_)
        | dsimp only
        | split
    · intro n left S hS hfuel
      simp only [parseTermLoop]
      rcases hm : (S.skipWhile isWsOrComment).matchAny ["*", "/", "%"] with ⟨_ | op, S1⟩
      · exact safe_pure (within_of_matchAny hm (within_skipWhile hS))
      · refine safe_past (past_matchAny hm (within_skipWhile hS)) (fun hn hS1 => ?_)
        dsimp only
        repeat' first
          | assumption
          | exact within_of_past (by assumption)
          | with_reducible refine within_advance ?_
          | with_reducible refine within_skipWhile ?_
          | with_reducible refine within_errorHere ?_
          | with_reducible refine within_addSyntaxError ?_
          | with_reducible refine within_matchLexeme ?_
          | with_reducible refine within_matchAny ?_
          | with_reducible refine within_checkIndentation ?_
          | with_reducible refine within_skipToColonOrNewline ?_
          | with_reducible refine within_skipToNewline ?_
          | with_reducible refine within_ite ?_ ?_
          | with_reducible refine safe_ok ?_
          | with_reducible refine safe_pure ?_
          | with_reducible refine ih1 (n - 1) _ ?_ (by omega)
          | with_reducible refine ih2 (n - 1) _ _ _ ?_ (by omega)
          | with_reducible refine ih3 (n - 1) _ _ ?_ (by omega)
          | with_reducible refine ih4 (n - 1) _ ?_ (by omega)
          | with_reducible refine ih5 (n - 1) _ _ ?_ (by omega)
          | with_reducible refine ih6 (n - 1) _ ?_ (by omega)
          | with_reducible refine safe_bind ?_ (fun r T hT => ?_)
          | dsimp only
          | split
    · intro n S hS hfuel
      simp only [parseTerm]
      repeat' first
        | assumption
        | exact within_of_past (by assumption)
        | with_reducible refine within_advance ?_
        | with_reducible refine within_skipWhile ?_
        | with_reducible refine within_errorHere ?_
        | with_reducible refine within_addSyntaxError ?_
        | with_reducible refine within_matchLexeme ?_
        | with_reducible refine within_matchAny ?_
        | with_reducible refine within_checkIndentation ?_
        | with_reducible refine within_skipToColonOrNewline ?_
        | with_reducible refine within_skipToNewline ?_
        | with_reducible refine within_ite ?_ ?_
        | with_reducible refine past_matchLexeme (by assumption) ?_
        | with_reducible refine past_matchLexeme_not (by assumption) ?_
        | with_reducible refine past_advance ?_
        | with_reducible refine past_skipWhile ?_
        | with_reducible refine past_errorHere ?_
        | with_reducible refine past_addSyntaxError ?_
        | with_reducible refine past_matchLexeme_snd ?_
        | with_reducible refine past_checkIndentation ?_
        | with_reducible refine past_skipToColonOrNewline ?_
        | with_reducible refine past_skipToNewline ?_
        | with_reducible refine past_ite ?_ ?_
        | with_reducible refine safe_ok ?_
        | with_reducible refine safe_pure ?_
        | with_reducible refine ih1 n _ ?_ (by omega)
        | with_reducible refine ih2 n _ _ _ ?_ (by omega)
        | with_reducible refine ih3 n _ _ ?_ (by omega)
        | with_reducible refine ih4 n _ ?_ (by omega)
        | with_reducible refine ih5 n _ _ ?_ (by omega)
        | with_reducible refine ih6 n _ ?_ (by omega)
        | with_reducible refine safe_bind ?_ (fun r T hT => ?_)
        | dsimp only
        | split
    · intro n left S hS hfuel
      simp only [parseExpressionLoop]
      split
      · exact safe_pure hS
      · split
        · exact safe_pure (within_skipWhile hS)
        · rcases hm : (S.skipWhile isWsOrComment).matchAny ["+", "-"] with ⟨_ | op, S1⟩
          · exact safe_pure (within_of_matchAny hm (within_skipWhile hS))
          · refine safe_past (past_matchAny hm (within_skipWhile hS)) (fun hn hS1 => ?_)
            dsimp only
            repeat' first
              | assumption
              | exact within_of_past (by assumption)
              | with_reducible refine within_advance ?_
              | with_reducible refine within_skipWhile ?_
              | with_reducible refine within_errorHere ?_
              | with_reducible refine within_addSyntaxError ?_
              | with_reducible refine within_matchLexeme ?_
              | with_reducible refine within_matchAny ?_
              | with_reducible refine within_checkIndentation ?_
              | with_reducible refine within_skipToColonOrNewline ?_
              | with_reducible refine within_skipToNewline ?_
              | with_reducible refine within_ite ?_ ?_
              | with_reducible refine safe_ok ?_
              | with_reducible refine safe_pure ?_
              | with_reducible refine ih1 (n - 1) _ ?_ (by omega)
              | with_reducible refine ih2 (n - 1) _ _ _ ?_ (by omega)
              | with_reducible refine ih3 (n - 1) _ _ ?_ (by omega)
              | with_reducible refine ih4 (n - 1) _ ?_ (by omega)
              | with_reducible refine ih5 (n - 1) _ _ ?_ (by omega)
              | with_reducible refine ih6 (n - 1) _ ?_ (by omega)
              | with_reducible refine safe_bind ?_ (fun r T hT => ?_)
              | dsimp only
              | split
    · intro n S hS hfuel
      simp only [parseExpression]
      repeat' first
        | assumption
        | exact within_of_past (by assumption)
        | with_reducible refine within_advance ?_
        | with_reducible refine within_skipWhile ?_
        | with_reducible refine within_errorHere ?_
        | with_reducible refine within_addSyntaxError ?_
        | with_reducible refine within_matchLexeme ?_
        | with_reducible refine within_matchAny ?_
        | with_reducible refine within_checkIndentation ?_
        | with_reducible refine within_skipToColonOrNewline ?_
        | with_reducible refine within_skipToNewline ?_
        | with_reducible refine within_ite ?_ ?_
        | with_reducible refine past_matchLexeme (by assumption) ?_
        | with_reducible refine past_matchLexeme_not (by assumption) ?_
        | with_reducible refine past_advance ?_
        | with_reducible refine past_skipWhile ?_
        | with_reducible refine past_errorHere ?_
        | with_reducible refine past_addSyntaxError ?_
        | with_reducible refine past_matchLexeme_snd ?_
        | with_reducible refine past_checkIndentation ?_
        | with_reducible refine past_skipToColonOrNewline ?_
        | with_reducible refine past_skipToNewline ?_
        | with_reducible refine past_ite ?_ ?_
        | with_reducible refine safe_ok ?_
        | with_reducible refine safe_pure ?_
        | with_reducible refine ih1 n _ ?_ (by omega)
        | with_reducible refine ih2 n _ _ _ ?_ (by omega)
        | with_reducible refine ih3 n _ _ ?_ (by omega)
        | with_reducible refine ih4 n _ ?_ (by omega)
        | with_reducible refine ih5 n _ _ ?_ (by omega)
        | with_reducible refine ih6 n _ ?_ (by omega)
        | with_reducible refine safe_bind ?_ (fun r T hT => ?_)
        | dsimp only
        | split

end SyntaxAnalyzer
end PyAnalyzer
namespace PyAnalyzer
namespace SyntaxAnalyzer

theorem parseExpression_safe (ts : List Token) (fuel : Nat) :
    ∀ n S, Within ts n S → 32 * n + 3 ≤ fuel → Safe ts n (parseExpression fuel S) :=
  (expression_safe ts fuel).2.2.2.2.2

theorem parseArgs_safe (ts : List Token) (fuel : Nat) :
    ∀ n skipWs args S, Within ts n S → 32 * n + 4 ≤ fuel →
      Safe ts n (parseArgs fuel skipWs args S) :=
  (expression_safe ts fuel).2.1

theorem parseComparisonLoop_safe (ts : List Token) (fuel : Nat) :
    ∀ n left S, Within ts n S → 32 * n + 1 ≤ fuel →
      Safe ts n (parseComparisonLoop fuel left S) := by
  induction fuel with
  | zero =>
    intros
    omega
  | succ fuel ih =>
    intro n left S hS hfuel
    simp only [parseComparisonLoop]
    rcases hm : S.matchAny ["==", "!=", "<=", ">=", "<", ">"] with ⟨_ | op, S1⟩
    · exact safe_pure (within_of_matchAny hm hS)
    · refine safe_past (past_matchAny hm hS) (fun hn hS1 => ?_)
      dsimp only
      repeat' first
        | assumption
        | exact within_of_past (by assumption)
        | with_reducible refine within_advance ?_
        | with_reducible refine within_skipWhile ?_
        | with_reducible refine within_errorHere ?_
        | with_reducible refine within_addSyntaxError ?_
        | with_reducible refine within_matchLexeme ?_
        | with_reducible refine within_matchAny ?_
        | with_reducible refine within_checkIndentation ?_
        | with_reducible refine within_skipToColonOrNewline ?_
        | with_reducible refine within_skipToNewline ?_
        | with_reducible refine within_ite ?_ ?_
        | with_reducible refine safe_ok ?_
        | with_reducible refine safe_pure ?_
        | with_reducible refine (parseExpression_safe ts fuel) (n - 1) _ ?_ (by omega)
        | with_reducible refine ih (n - 1) _ _ ?_ (by omega)
        | with_reducible refine safe_bind ?_ (fun r T hT => ?_)
        | dsimp only
        | split

theorem parseComparison_safe (ts : List Token) (fuel : Nat) :
    ∀ n S, Within ts n S → 32 * n + 4 ≤ fuel → Safe ts n (parseComparison fuel S) := by
  cases fuel with
  | zero =>
    intros
    omega
  | succ fuel =>
    intro n S hS hfuel
    simp only [parseComparison]
    repeat' first
      | assumption
      | exact within_of_past (by assumption)
      | with_reducible refine within_advance ?_
      | with_reducible refine within_skipWhile ?_
      | with_reducible refine within_errorHere ?_
      | with_reducible refine within_addSyntaxError ?_
      | with_reducible refine within_matchLexeme ?_
      | with_reducible refine within_matchAny ?_
      | with_reducible refine within_checkIndentation ?_
      | with_reducible refine within_skipToColonOrNewline ?_
      | with_reducible refine within_skipToNewline ?_
      | with_reducible refine within_ite ?_ ?_
      | with_reducible refine safe_ok ?_
      | with_reducible refine safe_pure ?_
      | with_reducible refine (parseExpression_safe ts fuel) n _ ?_ (by omega)
      | with_reducible refine (parseComparisonLoop_safe ts fuel) n _ _ ?_ (by omega)
      | with_reducible refine safe_bind ?_ (fun r T hT => ?_)
      | dsimp only
      | split

theorem parseReturnStmt_safe (ts : List Token) (fuel : Nat) :
    ∀ n S, Within ts n S → 32 * n + 4 ≤ fuel → Safe ts n (parseReturnStmt fuel S) := by
  cases fuel with
  | zero =>
    intros
    omega
  | succ fuel =>
    intro n S hS hfuel
    simp only [parseReturnStmt]
    repeat' first
      | assumption
      | exact within_of_past (by assumption)
      | with_reducible refine within_advance ?_
      | with_reducible refine within_skipWhile ?_
      | with_reducible refine within_errorHere ?_
      | with_reducible refine within_addSyntaxError ?_
      | with_reducible refine within_matchLexeme ?_
      | with_reducible refine within_matchAny ?_
      | with_reducible refine within_checkIndentation ?_
      | with_reducible refine within_skipToColonOrNewline ?_
      | with_reducible refine within_skipToNewline ?_
      | with_reducible refine within_ite ?_ ?_
      | with_reducible refine safe_ok ?_
      | with_reducible refine safe_pure ?_
      | with_reducible refine (parseExpression_safe ts fuel) n _ ?_ (by omega)
      | with_reducible refine safe_bind ?_ (fun r T hT => ?_)
      | dsimp only
      | split

theorem parseAssignment_safe (ts : List Token) (fuel : Nat) :
    ∀ n S, Within ts n S → 32 * n + 4 ≤ fuel → Safe ts n (parseAssignment fuel S) := by
  cases fuel with
  | zero =>
    intros
    omega
  | succ fuel =>
    intro n S hS hfuel
    simp only [parseAssignment]
    rcases hm : S.advance.matchAny ["=", "+=", "-=", "*=", "/="] with ⟨_ | op, S1⟩
    all_goals
      have hS1 : Within ts n S1 := within_of_matchAny hm (within_advance hS)
      dsimp only
      repeat' first
        | assumption
        | exact within_of_past (by assumption)
        | with_reducible refine within_advance ?_
        | with_reducible refine within_skipWhile ?_
        | with_reducible refine within_errorHere ?_
        | with_reducible refine within_addSyntaxError ?_
        | with_reducible refine within_matchLexeme ?_
        | with_reducible refine within_matchAny ?_
        | with_reducible refine within_checkIndentation ?_
        | with_reducible refine within_skipToColonOrNewline ?_
        | with_reducible refine within_skipToNewline ?_
        | with_reducible refine within_ite ?_ ?_
        | with_reducible refine safe_ok ?_
        | with_reducible refine safe_pure ?_
        | with_reducible refine (parseExpression_safe ts fuel) n _ ?_ (by omega)
        | with_reducible refine safe_bind ?_ (fun r T hT => ?_)
        | dsimp only
        | split

theorem parseExprStmt_safe (ts : List Token) (fuel : Nat) :
    ∀ n S, Within ts n S → 32 * n + 4 ≤ fuel → Safe ts n (parseExprStmt fuel S) := by
  cases fuel with
  | zero =>
    intros
    omega
  | succ fuel =>
    intro n S hS hfuel
    simp only [parseExprStmt]
    repeat' first
      | assumption
      | exact within_of_past (by assumption)
      | with_reducible refine within_advance ?_
      | with_reducible refine within_skipWhile ?_
      | with_reducible refine within_errorHere ?_
      | with_reducible refine within_addSyntaxError ?_
      | with_reducible refine within_matchLexeme ?_
      | with_reducible refine within_matchAny ?_
      | with_reducible refine within_checkIndentation ?_
      | with_reducible refine within_skipToColonOrNewline ?_
      | with_reducible refine within_skipToNewline ?_
      | with_reducible refine within_ite ?_ ?_
      | with_reducible refine safe_ok ?_
      | with_reducible refine safe_pure ?_
      | with_reducible refine (parseExpression_safe ts fuel) n _ ?_ (by omega)
      | with_reducible refine safe_bind ?_ (fun r T hT => ?_)
      | dsimp only
      | split

theorem parseBuiltinCall_safe (ts : List Token) (fuel : Nat) :
    ∀ n S, Within ts n S → 32 * n + 4 ≤ fuel → Safe ts n (parseBuiltinCall fuel S) := by
  intro n S hS hfuel
  simp only [parseBuiltinCall]
  repeat' first
    | assumption
    | exact within_of_past (by assumption)
    | with_reducible refine within_advance ?_
    | with_reducible refine within_skipWhile ?_
    | with_reducible refine within_errorHere ?_
    | with_reducible refine within_addSyntaxError ?_
    | with_reducible refine within_matchLexeme ?_
    | with_reducible refine within_matchAny ?_
    | with_reducible refine within_checkIndentation ?_
    | with_reducible refine within_skipToColonOrNewline ?_
    | with_reducible refine within_skipToNewline ?_
    | with_reducible refine within_ite ?_ ?_
    | with_reducible refine safe_ok ?_
    | with_reducible refine safe_pure ?_
    | with_reducible refine (parseExpression_safe ts fuel) n _ ?_ (by omega)
    | with_reducible refine (parseArgs_safe ts fuel) n _ _ _ ?_ (by omega)
    | with_reducible refine safe_bind ?_ (fun r T hT => ?_)
    | dsimp only
    | split

theorem parseParamListLoop_safe (ts : List Token) (fuel : Nat) :
    ∀ n params S, Within ts n S → 32 * n + 1 ≤ fuel →
      Safe ts n (parseParamListLoop fuel params S) := by
  induction fuel with
  | zero =>
    intros
    omega
  | succ fuel ih =>
    intro n params S hS hfuel
    simp only [parseParamListLoop]
    repeat' first
      | assumption
      | exact within_of_past (by assumption)
      | with_reducible refine within_advance ?_
      | with_reducible refine within_skipWhile ?_
      | with_reducible refine within_errorHere ?_
      | with_reducible refine within_addSyntaxError ?_
      | with_reducible refine within_matchLexeme ?_
      | with_reducible refine within_matchAny ?_
      | with_reducible refine within_checkIndentation ?_
      | with_reducible refine within_skipToColonOrNewline ?_
      | with_reducible refine within_skipToNewline ?_
      | with_reducible refine within_ite ?_ ?_
      | with_reducible refine past_matchLexeme (by assumption) ?_
      | with_reducible refine past_matchLexeme_not (by assumption) ?_
      | with_reducible refine past_advance ?_
      | with_reducible refine past_skipWhile ?_
      | with_reducible refine past_errorHere ?_
      | with_reducible refine past_addSyntaxError ?_
      | with_reducible refine past_matchLexeme_snd ?_
      | with_reducible refine past_checkIndentation ?_
      | with_reducible refine past_skipToColonOrNewline ?_
      | with_reducible refine past_skipToNewline ?_
      | with_reducible refine past_ite ?_ ?_
      | with_reducible refine safe_ok ?_
      | with_reducible refine safe_pure ?_
      | with_reducible refine ih n _ _ ?_ (by omega)
      | with_reducible refine safe_past ?_ (fun hn hT => ih (n - 1) _ _ hT (by omega))
      | with_reducible refine safe_bind ?_ (fun r T hT => ?_)
      | dsimp only
      | split

theorem parseParamList_safe (ts : List Token) (fuel : Nat) :
    ∀ n S, Within ts n S → 32 * n + 1 ≤ fuel → Safe ts n (parseParamList fuel S) := by
  intro n S hS hfuel
  have h := parseParamListLoop_safe ts fuel n [] S hS hfuel
  unfold parseParamList
  rcases hx : parseParamListLoop fuel [] S with f | ⟨_ | params, T⟩
  all_goals
    rw [hx] at h
    exact h

theorem parseForTargets_safe (ts : List Token) (fuel : Nat) :
    ∀ n targets S, Within ts n S → 32 * n + 1 ≤ fuel →
      Safe ts n (parseForTargets fuel targets S) := by
  induction fuel with
  | zero =>
    intros
    omega
  | succ fuel ih =>
    intro n targets S hS hfuel
    simp only [parseForTargets]
    repeat' first
      | assumption
      | exact within_of_past (by assumption)
      | with_reducible refine within_advance ?_
      | with_reducible refine within_skipWhile ?_
      | with_reducible refine within_errorHere ?_
      | with_reducible refine within_addSyntaxError ?_
      | with_reducible refine within_matchLexeme ?_
      | with_reducible refine within_matchAny ?_
      | with_reducible refine within_checkIndentation ?_
      | with_reducible refine within_skipToColonOrNewline ?_
      | with_reducible refine within_skipToNewline ?_
      | with_reducible refine within_ite ?_ ?_
      | with_reducible refine past_matchLexeme (by assumption) ?_
      | with_reducible refine past_matchLexeme_not (by assumption) ?_
      | with_reducible refine past_advance ?_
      | with_reducible refine past_skipWhile ?_
      | with_reducible refine past_errorHere ?_
      | with_reducible refine past_addSyntaxError ?_
      | with_reducible refine past_matchLexeme_snd ?_
      | with_reducible refine past_checkIndentation ?_
      | with_reducible refine past_skipToColonOrNewline ?_
      | with_reducible refine past_skipToNewline ?_
      | with_reducible refine past_ite ?_ ?_
      | with_reducible refine safe_ok ?_
      | with_reducible refine safe_pure ?_
      | with_reducible refine ih n _ _ ?_ (by omega)
      | with_reducible refine safe_past ?_ (fun hn hT => ih (n - 1) _ _ hT (by omega))
      | with_reducible refine safe_bind ?_ (fun r T hT => ?_)
      | dsimp only
      | split

end SyntaxAnalyzer
end PyAnalyzer
namespace PyAnalyzer
namespace SyntaxAnalyzer

theorem fuelled_pure {α : Type} (a : α) : Fuelled (pure a : Except Fault α) :=
  trivial

theorem fuelled_map {α β : Type} {x : Except Fault α} {f : α → β} (h : Fuelled x) :
    Fuelled (x.map f) := by
  rcases x with e | a
  · exact h
  · trivial

set_option maxHeartbeats 4000000 in
theorem parseStmt_step (ts : List Token) (fuel : Nat) (ih : StatementsSafe ts fuel) :
    ∀ n S, Within ts n S → 32 * n + 5 ≤ fuel + 1 → Safe ts n (parseStmt (fuel + 1) S) := by
  obtain ⟨ih1, ih2, ih3, ih4, ih5, ih6, ih7⟩ := ih
  intro n S hS hfuel
  simp only [parseStmt, parsePassStmt, parseBreakStmt, parseContinueStmt]
  by_cases hD : S.currentToken.type = TokenType.DEDENT
  · rw [if_pos hD]
    exact safe_pure (within_advance hS)
  rw [if_neg hD]
  have hT0 := within_skipWhile (p := fun t => t.lexeme == ":".toList)
    (within_skipWhile (p := fun t => t.type == TokenType.COMMENT)
      (within_skipWhile (p := fun t => t.type == TokenType.WHITESPACE ||
        t.type == TokenType.INDENT || t.type == TokenType.DEDENT)
        (within_skipWhile (p := fun t => t.type == TokenType.NEWLINE ||
          t.type == TokenType.COMMENT) hS)))
  generalize (((S.skipWhile _).skipWhile _).skipWhile _).skipWhile _ = T0 at hT0 ⊢
  by_cases c0 : (T0.matchLexeme "if").1 = true
  · rw [if_pos c0]
    repeat' first
      | assumption
      | exact within_of_past (by assumption)
      | with_reducible refine within_advance ?_
      | with_reducible refine within_skipWhile ?_
      | with_reducible refine within_errorHere ?_
      | with_reducible refine within_addSyntaxError ?_
      | with_reducible refine within_matchLexeme ?_
      | with_reducible refine within_matchAny ?_
      | with_reducible refine within_checkIndentation ?_
      | with_reducible refine within_skipToColonOrNewline ?_
      | with_reducible refine within_skipToNewline ?_
      | with_reducible refine within_ite ?_ ?_
      | with_reducible refine past_matchLexeme (by assumption) ?_
      | with_reducible refine past_matchLexeme_not (by assumption) ?_
      | with_reducible refine past_advance ?_
      | with_reducible refine past_skipWhile ?_
      | with_reducible refine past_errorHere ?_
      | with_reducible refine past_addSyntaxError ?_
      | with_reducible refine past_matchLexeme_snd ?_
      | with_reducible refine past_checkIndentation ?_
      | with_reducible refine past_skipToColonOrNewline ?_
      | with_reducible refine past_skipToNewline ?_
      | with_reducible refine past_ite ?_ ?_
      | with_reducible refine safe_ok ?_
      | with_reducible refine safe_pure ?_
      | with_reducible refine ih4 n _ _ ?_ (by omega)
      | with_reducible refine (parseReturnStmt_safe ts fuel) n _ ?_ (by omega)
      | with_reducible refine (parseAssignment_safe ts fuel) n _ ?_ (by omega)
      | with_reducible refine (parseExprStmt_safe ts fuel) n _ ?_ (by omega)
      | with_reducible refine (parseBuiltinCall_safe ts fuel) n _ ?_ (by omega)
      | with_reducible refine safe_past ?_ (fun hn hT => ih2 (n - 1) _ hT (by omega))
      | with_reducible refine safe_bind ?_ (fun r T hT => ?_)
  rw [if_neg c0]
  by_cases c1 : (T0.matchLexeme "for").1 = true
  · rw [if_pos c1]
    repeat' first
      | assumption
      | exact within_of_past (by assumption)
      | with_reducible refine within_advance ?_
      | with_reducible refine within_skipWhile ?_
      | with_reducible refine within_errorHere ?_
      | with_reducible refine within_addSyntaxError ?_
      | with_reducible refine within_matchLexeme ?_
      | with_reducible refine within_matchAny ?_
      | with_reducible refine within_checkIndentation ?_
      | with_reducible refine within_skipToColonOrNewline ?_
      | with_reducible refine within_skipToNewline ?_
      | with_reducible refine within_ite ?_ ?_
      | with_reducible refine past_matchLexeme (by assumption) ?_
      | with_reducible refine past_matchLexeme_not (by assumption) ?_
      | with_reducible refine past_advance ?_
      | with_reducible refine past_skipWhile ?_
      | with_reducible refine past_errorHere ?_
      | with_reducible refine past_addSyntaxError ?_
      | with_reducible refine past_matchLexeme_snd ?_
      | with_reducible refine past_checkIndentation ?_
      | with_reducible refine past_skipToColonOrNewline ?_
      | with_reducible refine past_skipToNewline ?_
      | with_reducible refine past_ite ?_ ?_
      | with_reducible refine safe_ok ?_
      | with_reducible refine safe_pure ?_
      | with_reducible refine ih4 n _ _ ?_ (by omega)
      | with_reducible refine (parseReturnStmt_safe ts fuel) n _ ?_ (by omega)
      | with_reducible refine (parseAssignment_safe ts fuel) n _ ?_ (by omega)
      | with_reducible refine (parseExprStmt_safe ts fuel) n _ ?_ (by omega)
      | with_reducible refine (parseBuiltinCall_safe ts fuel) n _ ?_ (by omega)
      | with_reducible refine safe_past ?_ (fun hn hT => ih5 (n - 1) _ hT (by omega))
  rw [if_neg c1]
  by_cases c2 : (T0.matchLexeme "while").1 = true
  · rw [if_pos c2]
    repeat' first
      | assumption
      | exact within_of_past (by assumption)
      | with_reducible refine within_advance ?_
      | with_reducible refine within_skipWhile ?_
      | with_reducible refine within_errorHere ?_
      | with_reducible refine within_addSyntaxError ?_
      | with_reducible refine within_matchLexeme ?_
      | with_reducible refine within_matchAny ?_
      | with_reducible refine within_checkIndentation ?_
      | with_reducible refine within_skipToColonOrNewline ?_
      | with_reducible refine within_skipToNewline ?_
      | with_reducible refine within_ite ?_ ?_
      | with_reducible refine past_matchLexeme (by assumption) ?_
      | with_reducible refine past_matchLexeme_not (by assumption) ?_
      | with_reducible refine past_advance ?_
      | with_reducible refine past_skipWhile ?_
      | with_reducible refine past_errorHere ?_
      | with_reducible refine past_addSyntaxError ?_
      | with_reducible refine past_matchLexeme_snd ?_
      | with_reducible refine past_checkIndentation ?_
      | with_reducible refine past_skipToColonOrNewline ?_
      | with_reducible refine past_skipToNewline ?_
      | with_reducible refine past_ite ?_ ?_
      | with_reducible refine safe_ok ?_
      | with_reducible refine safe_pure ?_
      | with_reducible refine ih4 n _ _ ?_ (by omega)
      | with_reducible refine (parseReturnStmt_safe ts fuel) n _ ?_ (by omega)
      | with_reducible refine (parseAssignment_safe ts fuel) n _ ?_ (by omega)
      | with_reducible refine (parseExprStmt_safe ts fuel) n _ ?_ (by omega)
      | with_reducible refine (parseBuiltinCall_safe ts fuel) n _ ?_ (by omega)
      | with_reducible refine safe_past ?_ (fun hn hT => ih6 (n - 1) _ hT (by omega))
  rw [if_neg c2]
  by_cases c3 : (T0.matchLexeme "def").1 = true
  · rw [if_pos c3]
    repeat' first
      | assumption
      | exact within_of_past (by assumption)
      | with_reducible refine within_advance ?_
      | with_reducible refine within_skipWhile ?_
      | with_reducible refine within_errorHere ?_
      | with_reducible refine within_addSyntaxError ?_
      | with_reducible refine within_matchLexeme ?_
      | with_reducible refine within_matchAny ?_
      | with_reducible refine within_checkIndentation ?_
      | with_reducible refine within_skipToColonOrNewline ?_
      | with_reducible refine within_skipToNewline ?_
      | with_reducible refine within_ite ?_ ?_
      | with_reducible refine past_matchLexeme (by assumption) ?_
      | with_reducible refine past_matchLexeme_not (by assumption) ?_
      | with_reducible refine past_advance ?_
      | with_reducible refine past_skipWhile ?_
      | with_reducible refine past_errorHere ?_
      | with_reducible refine past_addSyntaxError ?_
      | with_reducible refine past_matchLexeme_snd ?_
      | with_reducible refine past_checkIndentation ?_
      | with_reducible refine past_skipToColonOrNewline ?_
      | with_reducible refine past_skipToNewline ?_
      | with_reducible refine past_ite ?_ ?_
      | with_reducible refine safe_ok ?_
      | with_reducible refine safe_pure ?_
      | with_reducible refine ih4 n _ _ ?_ (by omega)
      | with_reducible refine (parseReturnStmt_safe ts fuel) n _ ?_ (by omega)
      | with_reducible refine (parseAssignment_safe ts fuel) n _ ?_ (by omega)
      | with_reducible refine (parseExprStmt_safe ts fuel) n _ ?_ (by omega)
      | with_reducible refine (parseBuiltinCall_safe ts fuel) n _ ?_ (by omega)
      | with_reducible refine safe_past ?_ (fun hn hT => ih7 (n - 1) _ hT (by omega))
  rw [if_neg c3]
  by_cases c4 : (T0.matchLexeme "return").1 = true
  · rw [if_pos c4]
    repeat' first
      | assumption
      | exact within_of_past (by assumption)
      | with_reducible refine within_advance ?_
      | with_reducible refine within_skipWhile ?_
      | with_reducible refine within_errorHere ?_
      | with_reducible refine within_addSyntaxError ?_
      | with_reducible refine within_matchLexeme ?_
      | with_reducible refine within_matchAny ?_
      | with_reducible refine within_checkIndentation ?_
      | with_reducible refine within_skipToColonOrNewline ?_
      | with_reducible refine within_skipToNewline ?_
      | with_reducible refine within_ite ?_ ?_
      | with_reducible refine past_matchLexeme (by assumption) ?_
      | with_reducible refine past_matchLexeme_not (by assumption) ?_
      | with_reducible refine past_advance ?_
      | with_reducible refine past_skipWhile ?_
      | with_reducible refine past_errorHere ?_
      | with_reducible refine past_addSyntaxError ?_
      | with_reducible refine past_matchLexeme_snd ?_
      | with_reducible refine past_checkIndentation ?_
      | with_reducible refine past_skipToColonOrNewline ?_
      | with_reducible refine past_skipToNewline ?_
      | with_reducible refine past_ite ?_ ?_
      | with_reducible refine safe_ok ?_
      | with_reducible refine safe_pure ?_
      | with_reducible refine ih4 n _ _ ?_ (by omega)
      | with_reducible refine (parseReturnStmt_safe ts fuel) n _ ?_ (by omega)
  rw [if_neg c4]
  by_cases c5 : (T0.matchLexeme "pass").1 = true
  · rw [if_pos c5]
    repeat' first
      | assumption
      | exact within_of_past (by assumption)
      | with_reducible refine within_advance ?_
      | with_reducible refine within_skipWhile ?_
      | with_reducible refine within_errorHere ?_
      | with_reducible refine within_addSyntaxError ?_
      | with_reducible refine within_matchLexeme ?_
      | with_reducible refine within_matchAny ?_
      | with_reducible refine within_checkIndentation ?_
      | with_reducible refine within_skipToColonOrNewline ?_
      | with_reducible refine within_skipToNewline ?_
      | with_reducible refine within_ite ?_ ?_
      | with_reducible refine past_matchLexeme (by assumption) ?_
      | with_reducible refine past_matchLexeme_not (by assumption) ?_
      | with_reducible refine past_advance ?_
      | with_reducible refine past_skipWhile ?_
      | with_reducible refine past_errorHere ?_
      | with_reducible refine past_addSyntaxError ?_
      | with_reducible refine past_matchLexeme_snd ?_
      | with_reducible refine past_checkIndentation ?_
      | with_reducible refine past_skipToColonOrNewline ?_
      | with_reducible refine past_skipToNewline ?_
      | with_reducible refine past_ite ?_ ?_
      | with_reducible refine safe_ok ?_
  rw [if_neg c5]
  by_cases c6 : (T0.matchLexeme "else").1 = true
  · rw [if_pos c6]
    repeat' first
      | assumption
      | exact within_of_past (by assumption)
      | with_reducible refine within_advance ?_
      | with_reducible refine within_skipWhile ?_
      | with_reducible refine within_errorHere ?_
      | with_reducible refine within_addSyntaxError ?_
      | with_reducible refine within_matchLexeme ?_
      | with_reducible refine within_matchAny ?_
      | with_reducible refine within_checkIndentation ?_
      | with_reducible refine within_skipToColonOrNewline ?_
      | with_reducible refine within_skipToNewline ?_
      | with_reducible refine within_ite ?_ ?_
      | with_reducible refine past_matchLexeme (by assumption) ?_
      | with_reducible refine past_matchLexeme_not (by assumption) ?_
      | with_reducible refine past_advance ?_
      | with_reducible refine past_skipWhile ?_
      | with_reducible refine past_errorHere ?_
      | with_reducible refine past_addSyntaxError ?_
      | with_reducible refine past_matchLexeme_snd ?_
      | with_reducible refine past_checkIndentation ?_
      | with_reducible refine past_skipToColonOrNewline ?_
      | with_reducible refine past_skipToNewline ?_
      | with_reducible refine past_ite ?_ ?_
      | with_reducible refine safe_ok ?_
      | with_reducible refine safe_pure ?_
  rw [if_neg c6]
  by_cases c7 : (T0.matchLexeme "elif").1 = true
  · rw [if_pos c7]
    repeat' first
      | assumption
      | exact within_of_past (by assumption)
      | with_reducible refine within_advance ?_
      | with_reducible refine within_skipWhile ?_
      | with_reducible refine within_errorHere ?_
      | with_reducible refine within_addSyntaxError ?_
      | with_reducible refine within_matchLexeme ?_
      | with_reducible refine within_matchAny ?_
      | with_reducible refine within_checkIndentation ?_
      | with_reducible refine within_skipToColonOrNewline ?_
      | with_reducible refine within_skipToNewline ?_
      | with_reducible refine within_ite ?_ ?_
      | with_reducible refine past_matchLexeme (by assumption) ?_
      | with_reducible refine past_matchLexeme_not (by assumption) ?_
      | with_reducible refine past_advance ?_
      | with_reducible refine past_skipWhile ?_
      | with_reducible refine past_errorHere ?_
      | with_reducible refine past_addSyntaxError ?_
      | with_reducible refine past_matchLexeme_snd ?_
      | with_reducible refine past_checkIndentation ?_
      | with_reducible refine past_skipToColonOrNewline ?_
      | with_reducible refine past_skipToNewline ?_
      | with_reducible refine past_ite ?_ ?_
      | with_reducible refine safe_ok ?_
      | with_reducible refine safe_pure ?_
  rw [if_neg c7]
  by_cases c8 : (T0.matchLexeme "break").1 = true
  · rw [if_pos c8]
    repeat' first
      | assumption
      | exact within_of_past (by assumption)
      | with_reducible refine within_advance ?_
      | with_reducible refine within_skipWhile ?_
      | with_reducible refine within_errorHere ?_
      | with_reducible refine within_addSyntaxError ?_
      | with_reducible refine within_matchLexeme ?_
      | with_reducible refine within_matchAny ?_
      | with_reducible refine within_checkIndentation ?_
      | with_reducible refine within_skipToColonOrNewline ?_
      | with_reducible refine within_skipToNewline ?_
      | with_reducible refine within_ite ?_ ?_
      | with_reducible refine past_matchLexeme (by assumption) ?_
      | with_reducible refine past_matchLexeme_not (by assumption) ?_
      | with_reducible refine past_advance ?_
      | with_reducible refine past_skipWhile ?_
      | with_reducible refine past_errorHere ?_
      | with_reducible refine past_addSyntaxError ?_
      | with_reducible refine past_matchLexeme_snd ?_
      | with_reducible refine past_checkIndentation ?_
      | with_reducible refine past_skipToColonOrNewline ?_
      | with_reducible refine past_skipToNewline ?_
      | with_reducible refine past_ite ?_ ?_
      | with_reducible refine safe_ok ?_
  rw [if_neg c8]
  by_cases c9 : (T0.matchLexeme "continue").1 = true
  · rw [if_pos c9]
    repeat' first
      | assumption
      | exact within_of_past (by assumption)
      | with_reducible refine within_advance ?_
      | with_reducible refine within_skipWhile ?_
      | with_reducible refine within_errorHere ?_
      | with_reducible refine within_addSyntaxError ?_
      | with_reducible refine within_matchLexeme ?_
      | with_reducible refine within_matchAny ?_
      | with_reducible refine within_checkIndentation ?_
      | with_reducible refine within_skipToColonOrNewline ?_
      | with_reducible refine within_skipToNewline ?_
      | with_reducible refine within_ite ?_ ?_
      | with_reducible refine past_matchLexeme (by assumption) ?_
      | with_reducible refine past_matchLexeme_not (by assumption) ?_
      | with_reducible refine past_advance ?_
      | with_reducible refine past_skipWhile ?_
      | with_reducible refine past_errorHere ?_
      | with_reducible refine past_addSyntaxError ?_
      | with_reducible refine past_matchLexeme_snd ?_
      | with_reducible refine past_checkIndentation ?_
      | with_reducible refine past_skipToColonOrNewline ?_
      | with_reducible refine past_skipToNewline ?_
      | with_reducible refine past_ite ?_ ?_
      | with_reducible refine safe_ok ?_
  rw [if_neg c9]
  repeat' first
    | assumption
    | exact within_of_past (by assumption)
    | with_reducible refine within_advance ?_
    | with_reducible refine within_skipWhile ?_
    | with_reducible refine within_errorHere ?_
    | with_reducible refine within_addSyntaxError ?_
    | with_reducible refine within_matchLexeme ?_
    | with_reducible refine within_matchAny ?_
    | with_reducible refine within_checkIndentation ?_
    | with_reducible refine within_skipToColonOrNewline ?_
    | with_reducible refine within_skipToNewline ?_
    | with_reducible refine within_ite ?_ ?_
    | with_reducible refine past_matchLexeme (by assumption) ?_
    | with_reducible refine past_matchLexeme_not (by assumption) ?_
    | with_reducible refine past_advance ?_
    | with_reducible refine past_skipWhile ?_
    | with_reducible refine past_errorHere ?_
    | with_reducible refine past_addSyntaxError ?_
    | with_reducible refine past_matchLexeme_snd ?_
    | with_reducible refine past_checkIndentation ?_
    | with_reducible refine past_skipToColonOrNewline ?_
    | with_reducible refine past_skipToNewline ?_
    | with_reducible refine past_ite ?_ ?_
    | with_reducible refine safe_ok ?_
    | with_reducible refine safe_pure ?_
    | with_reducible refine ih4 n _ _ ?_ (by omega)
    | with_reducible refine (parseReturnStmt_safe ts fuel) n _ ?_ (by omega)
    | with_reducible refine (parseAssignment_safe ts fuel) n _ ?_ (by omega)
    | with_reducible refine (parseExprStmt_safe ts fuel) n _ ?_ (by omega)
    | with_reducible refine (parseBuiltinCall_safe ts fuel) n _ ?_ (by omega)
    | with_reducible refine safe_bind ?_ (fun r T hT => ?_)
    | with_reducible refine safe_bind_val ?_ (fun a => ?_)
    | exact fuelled_pushChild _ _
    | exact fuelled_map (fuelled_pushChild _ _)
    | exact fuelled_pure _
    | dsimp only
    | split

set_option maxHeartbeats 4000000 in
theorem parseIfCore_step (ts : List Token) (fuel : Nat) (ih : StatementsSafe ts fuel) :
    ∀ n S, Within ts n S → 32 * n + 5 ≤ fuel + 1 → Safe ts n (parseIfCore (fuel + 1) S) := by
  obtain ⟨ih1, ih2, ih3, ih4, ih5, ih6, ih7⟩ := ih
  intro n S hS hfuel
  simp only [parseIfCore, parsePassStmt, parseBreakStmt, parseContinueStmt]
  repeat' first
    | assumption
    | exact within_of_past (by assumption)
    | with_reducible refine within_advance ?_
    | with_reducible refine within_skipWhile ?_
    | with_reducible refine within_errorHere ?_
    | with_reducible refine within_addSyntaxError ?_
    | with_reducible refine within_matchLexeme ?_
    | with_reducible refine within_matchAny ?_
    | with_reducible refine within_checkIndentation ?_
    | with_reducible refine within_skipToColonOrNewline ?_
    | with_reducible refine within_skipToNewline ?_
    | with_reducible refine within_ite ?_ ?_
    | with_reducible refine past_matchLexeme (by assumption) ?_
    | with_reducible refine past_matchLexeme_not (by assumption) ?_
    | with_reducible refine past_advance ?_
    | with_reducible refine past_skipWhile ?_
    | with_reducible refine past_errorHere ?_
    | with_reducible refine past_addSyntaxError ?_
    | with_reducible refine past_matchLexeme_snd ?_
    | with_reducible refine past_checkIndentation ?_
    | with_reducible refine past_skipToColonOrNewline ?_
    | with_reducible refine past_skipToNewline ?_
    | with_reducible refine past_ite ?_ ?_
    | with_reducible refine safe_ok ?_
    | with_reducible refine safe_pure ?_
    | with_reducible refine (parseComparison_safe ts fuel) n _ ?_ (by omega)
    | with_reducible refine safe_past ?_ (fun hn hT => ih1 (n - 1) _ hT (by omega))
    | with_reducible refine safe_bind ?_ (fun r T hT => ?_)
    | with_reducible refine safe_bind_val ?_ (fun a => ?_)
    | exact fuelled_pushChild _ _
    | exact fuelled_map (fuelled_pushChild _ _)
    | exact fuelled_pure _
    | dsimp only
    | split

/-- A second `delete` of a node is no lack of fuel. -/
theorem safe_doubleDelete {α : Type} {ts : List Token} {n : Nat} :
    Safe ts n (.error Fault.doubleDelete : Except Fault (α × SyntaxAnalyzer)) := by
  intro h
  cases h

set_option maxHeartbeats 4000000 in
theorem parseElifs_step (ts : List Token) (fuel : Nat) (ih : StatementsSafe ts fuel) :
    ∀ n node S, Within ts n S → 32 * n + 6 ≤ fuel + 1 → Safe ts n (parseElifs (fuel + 1) node S) := by
  obtain ⟨ih1, ih2, ih3, ih4, ih5, ih6, ih7⟩ := ih
  intro n node S hS hfuel
  simp only [parseElifs, parsePassStmt, parseBreakStmt, parseContinueStmt]
  refine safe_bind (parseComparison_safe ts fuel n _ hS (by omega))
    (fun cond T hT => ?_)
  dsimp only
  generalize hS1 : (if cond.isNone = true then
    T.errorHere "Invalid expression in elif condition" else T) = S1
  have h1 : Within ts n S1 := by
    rw [← hS1]
    exact within_ite (within_errorHere hT) hT
  clear hS1
  generalize hS2 : (if (!(S1.matchLexeme ":").1) = true then
    if S1.currentToken.lexeme = "=".toList then
      S1.errorHere "Invalid '=' in condition; did you mean '=='?"
    else S1.errorHere "Expected ':' after elif condition"
    else (S1.matchLexeme ":").2) = S2
  have h2 : Within ts n S2 := by
    rw [← hS2]
    exact within_ite (within_ite (within_errorHere h1) (within_errorHere h1))
      (within_matchLexeme h1)
  clear hS2
  generalize (S1.matchLexeme ":").1 = colon
  have h3 : Within ts n (S2.checkIndentation "elif").2 := within_checkIndentation h2
  generalize (S2.checkIndentation "elif").2 = S3 at h3 ⊢
  generalize (S2.checkIndentation "elif").1 = indented
  split
  · exact safe_doubleDelete
  split
  · exact safe_doubleDelete
  refine safe_bind (ih1 n _ h3 (by omega)) (fun body T2 hT2 => ?_)
  dsimp only
  split
  · exact safe_doubleDelete
  generalize (cond.isSome && colon && indented && body.isSome) = valid
  generalize hS4 : (if (!valid) = true then
    ((T2.skipWhile isNewline).skipWhile isWsOrDedent).skipWhile _
    else (T2.skipWhile isNewline).skipWhile isWsOrDedent) = S4
  have h4 : Within ts n S4 := by
    rw [← hS4]
    exact within_ite (within_skipWhile (within_skipWhile (within_skipWhile hT2)))
      (within_skipWhile (within_skipWhile hT2))
  clear hS4
  repeat' first
    | assumption
    | exact within_of_past (by assumption)
    | with_reducible refine within_advance ?_
    | with_reducible refine within_skipWhile ?_
    | with_reducible refine within_errorHere ?_
    | with_reducible refine within_addSyntaxError ?_
    | with_reducible refine within_matchLexeme ?_
    | with_reducible refine within_matchAny ?_
    | with_reducible refine within_checkIndentation ?_
    | with_reducible refine within_skipToColonOrNewline ?_
    | with_reducible refine within_skipToNewline ?_
    | with_reducible refine within_ite ?_ ?_
    | with_reducible refine past_matchLexeme (by assumption) ?_
    | with_reducible refine past_matchLexeme_not (by assumption) ?_
    | with_reducible refine past_advance ?_
    | with_reducible refine past_skipWhile ?_
    | with_reducible refine past_errorHere ?_
    | with_reducible refine past_addSyntaxError ?_
    | with_reducible refine past_matchLexeme_snd ?_
    | with_reducible refine past_checkIndentation ?_
    | with_reducible refine past_skipToColonOrNewline ?_
    | with_reducible refine past_skipToNewline ?_
    | with_reducible refine past_ite ?_ ?_
    | with_reducible refine safe_ok ?_
    | with_reducible refine safe_pure ?_
    | with_reducible refine safe_past ?_ (fun hn hT => ih3 (n - 1) _ _ hT (by omega))
    | with_reducible refine safe_bind ?_ (fun r T hT => ?_)
    | with_reducible refine safe_bind_val ?_ (fun a => ?_)
    | exact fuelled_pushChild _ _
    | exact fuelled_map (fuelled_pushChild _ _)
    | exact fuelled_pure _
    | dsimp only
    | split

set_option maxHeartbeats 4000000 in
theorem parseIfChain_step (ts : List Token) (fuel : Nat) (ih : StatementsSafe ts fuel) :
    ∀ n node S, Within ts n S → 32 * n + 1 ≤ fuel + 1 → Safe ts n (parseIfChain (fuel + 1) node S) := by
  obtain ⟨ih1, ih2, ih3, ih4, ih5, ih6, ih7⟩ := ih
  intro n node S hS hfuel
  simp only [parseIfChain, parsePassStmt, parseBreakStmt, parseContinueStmt]
  repeat' first
    | assumption
    | exact within_of_past (by assumption)
    | with_reducible refine within_advance ?_
    | with_reducible refine within_skipWhile ?_
    | with_reducible refine within_errorHere ?_
    | with_reducible refine within_addSyntaxError ?_
    | with_reducible refine within_matchLexeme ?_
    | with_reducible refine within_matchAny ?_
    | with_reducible refine within_checkIndentation ?_
    | with_reducible refine within_skipToColonOrNewline ?_
    | with_reducible refine within_skipToNewline ?_
    | with_reducible refine within_ite ?_ ?_
    | with_reducible refine past_matchLexeme (by assumption) ?_
    | with_reducible refine past_matchLexeme_not (by assumption) ?_
    | with_reducible refine past_advance ?_
    | with_reducible refine past_skipWhile ?_
    | with_reducible refine past_errorHere ?_
    | with_reducible refine past_addSyntaxError ?_
    | with_reducible refine past_matchLexeme_snd ?_
    | with_reducible refine past_checkIndentation ?_
    | with_reducible refine past_skipToColonOrNewline ?_
    | with_reducible refine past_skipToNewline ?_
    | with_reducible refine past_ite ?_ ?_
    | with_reducible refine safe_ok ?_
    | with_reducible refine safe_pure ?_
    | with_reducible refine safe_past ?_ (fun hn hT => ih3 (n - 1) _ _ hT (by omega))
    | with_reducible refine safe_past ?_ (fun hn hT => ih1 (n - 1) _ hT (by omega))
    | with_reducible refine safe_bind ?_ (fun r T hT => ?_)
    | with_reducible refine safe_bind_val ?_ (fun a => ?_)
    | exact fuelled_pushChild _ _
    | exact fuelled_map (fuelled_pushChild _ _)
    | exact fuelled_pure _
    | dsimp only
    | split

set_option maxHeartbeats 4000000 in
theorem parseForStmt_step (ts : List Token) (fuel : Nat) (ih : StatementsSafe ts fuel) :
    ∀ n S, Within ts n S → 32 * n + 5 ≤ fuel + 1 → Safe ts n (parseForStmt (fuel + 1) S) := by
  obtain ⟨ih1, ih2, ih3, ih4, ih5, ih6, ih7⟩ := ih
  intro n S hS hfuel
  simp only [parseForStmt, parsePassStmt, parseBreakStmt, parseContinueStmt]
  repeat' first
    | assumption
    | exact within_of_past (by assumption)
    | with_reducible refine within_advance ?_
    | with_reducible refine within_skipWhile ?_
    | with_reducible refine within_errorHere ?_
    | with_reducible refine within_addSyntaxError ?_
    | with_reducible refine within_matchLexeme ?_
    | with_reducible refine within_matchAny ?_
    | with_reducible refine within_checkIndentation ?_
    | with_reducible refine within_skipToColonOrNewline ?_
    | with_reducible refine within_skipToNewline ?_
    | with_reducible refine within_ite ?_ ?_
    | with_reducible refine past_matchLexeme (by assumption) ?_
    | with_reducible refine past_matchLexeme_not (by assumption) ?_
    | with_reducible refine past_advance ?_
    | with_reducible refine past_skipWhile ?_
    | with_reducible refine past_errorHere ?_
    | with_reducible refine past_addSyntaxError ?_
    | with_reducible refine past_matchLexeme_snd ?_
    | with_reducible refine past_checkIndentation ?_
    | with_reducible refine past_skipToColonOrNewline ?_
    | with_reducible refine past_skipToNewline ?_
    | with_reducible refine past_ite ?_ ?_
    | with_reducible refine safe_ok ?_
    | with_reducible refine safe_pure ?_
    | with_reducible refine (parseForTargets_safe ts fuel) n _ _ ?_ (by omega)
    | with_reducible refine (parseComparison_safe ts fuel) n _ ?_ (by omega)
    | with_reducible refine safe_past ?_ (fun hn hT => ih1 (n - 1) _ hT (by omega))
    | with_reducible refine safe_bind ?_ (fun r T hT => ?_)
    | with_reducible refine safe_bind_val ?_ (fun a => ?_)
    | exact fuelled_pushChild _ _
    | exact fuelled_map (fuelled_pushChild _ _)
    | exact fuelled_pure _
    | dsimp only
    | split

set_option maxHeartbeats 4000000 in
theorem parseWhileStmt_step (ts : List Token) (fuel : Nat) (ih : StatementsSafe ts fuel) :
    ∀ n S, Within ts n S → 32 * n + 5 ≤ fuel + 1 → Safe ts n (parseWhileStmt (fuel + 1) S) := by
  obtain ⟨ih1, ih2, ih3, ih4, ih5, ih6, ih7⟩ := ih
  intro n S hS hfuel
  simp only [parseWhileStmt, parsePassStmt, parseBreakStmt, parseContinueStmt]
  refine safe_bind (parseComparison_safe ts fuel n _ (within_matchLexeme hS) (by omega))
    (fun cond T hT => ?_)
  dsimp only
  generalize (S.matchLexeme "(").1 = sawParen
  generalize hS1 : (if cond.isNone = true then
    (T.errorHere "Invalid expression in while condition").skipToColonOrNewline else T) = S1
  have h1 : Within ts n S1 := by
    rw [← hS1]
    exact within_ite (within_skipToColonOrNewline (within_errorHere hT)) hT
  clear hS1
  generalize hS2 : (if sawParen = true then
    if (!(S1.matchLexeme ")").1) = true then S1.errorHere "Expected ')' after while condition"
    else (S1.matchLexeme ")").2 else S1) = S2
  have h2 : Within ts n S2 := by
    rw [← hS2]
    exact within_ite (within_ite (within_errorHere h1) (within_matchLexeme h1)) h1
  clear hS2
  generalize hS3 : (if S2.currentToken.lexeme = "=".toList then
    ((S2.errorHere "Invalid '=' in condition; did you mean '=='?").advance).skipToColonOrNewline
    else S2) = S3
  have h3 : Within ts n S3 := by
    rw [← hS3]
    exact within_ite (within_skipToColonOrNewline (within_advance (within_errorHere h2))) h2
  clear hS3
  repeat' first
    | assumption
    | exact within_of_past (by assumption)
    | with_reducible refine within_advance ?_
    | with_reducible refine within_skipWhile ?_
    | with_reducible refine within_errorHere ?_
    | with_reducible refine within_addSyntaxError ?_
    | with_reducible refine within_matchLexeme ?_
    | with_reducible refine within_matchAny ?_
    | with_reducible refine within_checkIndentation ?_
    | with_reducible refine within_skipToColonOrNewline ?_
    | with_reducible refine within_skipToNewline ?_
    | with_reducible refine within_ite ?_ ?_
    | with_reducible refine past_matchLexeme (by assumption) ?_
    | with_reducible refine past_matchLexeme_not (by assumption) ?_
    | with_reducible refine past_advance ?_
    | with_reducible refine past_skipWhile ?_
    | with_reducible refine past_errorHere ?_
    | with_reducible refine past_addSyntaxError ?_
    | with_reducible refine past_matchLexeme_snd ?_
    | with_reducible refine past_checkIndentation ?_
    | with_reducible refine past_skipToColonOrNewline ?_
    | with_reducible refine past_skipToNewline ?_
    | with_reducible refine past_ite ?_ ?_
    | with_reducible refine safe_ok ?_
    | with_reducible refine safe_pure ?_
    | with_reducible refine safe_past ?_ (fun hn hT => ih1 (n - 1) _ hT (by omega))
    | with_reducible refine safe_bind ?_ (fun r T hT => ?_)
    | with_reducible refine safe_bind_val ?_ (fun a => ?_)
    | exact fuelled_pushChild _ _
    | exact fuelled_map (fuelled_pushChild _ _)
    | exact fuelled_pure _
    | dsimp only
    | split

set_option maxHeartbeats 4000000 in
theorem parseFuncDef_step (ts : List Token) (fuel : Nat) (ih : StatementsSafe ts fuel) :
    ∀ n S, Within ts n S → 32 * n + 5 ≤ fuel + 1 → Safe ts n (parseFuncDef (fuel + 1) S) := by
  obtain ⟨ih1, ih2, ih3, ih4, ih5, ih6, ih7⟩ := ih
  intro n S hS hfuel
  simp only [parseFuncDef, parsePassStmt, parseBreakStmt, parseContinueStmt]
  repeat' first
    | assumption
    | exact within_of_past (by assumption)
    | with_reducible refine within_advance ?_
    | with_reducible refine within_skipWhile ?_
    | with_reducible refine within_errorHere ?_
    | with_reducible refine within_addSyntaxError ?_
    | with_reducible refine within_matchLexeme ?_
    | with_reducible refine within_matchAny ?_
    | with_reducible refine within_checkIndentation ?_
    | with_reducible refine within_skipToColonOrNewline ?_
    | with_reducible refine within_skipToNewline ?_
    | with_reducible refine within_ite ?_ ?_
    | with_reducible refine past_matchLexeme (by assumption) ?_
    | with_reducible refine past_matchLexeme_not (by assumption) ?_
    | with_reducible refine past_advance ?_
    | with_reducible refine past_skipWhile ?_
    | with_reducible refine past_errorHere ?_
    | with_reducible refine past_addSyntaxError ?_
    | with_reducible refine past_matchLexeme_snd ?_
    | with_reducible refine past_checkIndentation ?_
    | with_reducible refine past_skipToColonOrNewline ?_
    | with_reducible refine past_skipToNewline ?_
    | with_reducible refine past_ite ?_ ?_
    | with_reducible refine safe_ok ?_
    | with_reducible refine safe_pure ?_
    | with_reducible refine (parseParamList_safe ts fuel) n _ ?_ (by omega)
    | with_reducible refine safe_past ?_ (fun hn hT => ih1 (n - 1) _ hT (by omega))
    | with_reducible refine safe_bind ?_ (fun r T hT => ?_)
    | with_reducible refine safe_bind_val ?_ (fun a => ?_)
    | exact fuelled_pushChild _ _
    | exact fuelled_map (fuelled_pushChild _ _)
    | exact fuelled_pure _
    | dsimp only
    | split

end SyntaxAnalyzer
end PyAnalyzer
namespace PyAnalyzer
namespace SyntaxAnalyzer

/-- The statement parsers do not run out of fuel: with `n` tokens ahead,
fuel `32 * n` and a few units more is enough, and the tokens ahead do not
grow. -/
theorem statement_safe (ts : List Token) (fuel : Nat) : StatementsSafe ts fuel := by
  induction fuel with
  | zero =>
    refine ⟨?_, ?_, ?_, ?_, ?_, ?_, ?_⟩ <;> intros <;> omega
  | succ fuel ih =>
    exact ⟨parseStmt_step ts fuel ih, parseIfCore_step ts fuel ih, parseElifs_step ts fuel ih,
      parseIfChain_step ts fuel ih, parseForStmt_step ts fuel ih, parseWhileStmt_step ts fuel ih,
      parseFuncDef_step ts fuel ih⟩

theorem parseStmt_safe (ts : List Token) (fuel : Nat) :
    ∀ n S, Within ts n S → 32 * n + 5 ≤ fuel → Safe ts n (parseStmt fuel S) :=
  (statement_safe ts fuel).1

theorem pos_lt_of_not_atEnd {S : SyntaxAnalyzer} (h : S.isAtEnd = false) :
    S.pos < S.tokens.length := by
  unfold isAtEnd at h
  simp only [Bool.or_eq_false_iff, decide_eq_false_iff_not] at h
  omega

theorem advance_of_not_atEnd {S : SyntaxAnalyzer} (h : S.isAtEnd = false) :
    S.advance = { S with pos := S.pos + 1 } := by
  unfold advance
  rw [h]
  rfl

theorem isAtEnd_congr {S T : SyntaxAnalyzer} (ht : T.tokens = S.tokens) (hp : T.pos = S.pos) :
    T.isAtEnd = S.isAtEnd := by
  unfold isAtEnd currentToken
  rw [ht, hp]

/-- After a statement the loop of `parseProgram` goes on strictly further
in the same tokens. -/
theorem afterStmt_progress {S S1 : SyntaxAnalyzer} (hend : S.isAtEnd = false)
    (h : Within S.tokens (S.tokens.length - S.pos) S1) :
    (afterStmt S S1).tokens = S.tokens ∧ S.pos < (afterStmt S S1).pos := by
  have hlt := pos_lt_of_not_atEnd hend
  obtain ⟨h1, h2⟩ := h
  unfold afterStmt
  split
  · rename_i hp
    have hend1 : S1.isAtEnd = false := (isAtEnd_congr h1 hp).trans hend
    rw [advance_of_not_atEnd hend1]
    exact ⟨h1, by show S.pos < S1.pos + 1; omega⟩
  · rename_i hp
    exact ⟨h1, by omega⟩

theorem parseStmt_progress (fuel : Nat) {S S1 : SyntaxAnalyzer} {stmt : Option ParseNode}
    (hfuel : 32 * S.tokens.length + 5 ≤ fuel) (hend : S.isAtEnd = false)
    (h : parseStmt fuel S = .ok (stmt, S1)) :
    (afterStmt S S1).tokens = S.tokens ∧ S.pos < (afterStmt S S1).pos := by
  have hs := parseStmt_safe S.tokens fuel (S.tokens.length - S.pos) S ⟨rfl, le_refl _⟩ (by
    have : S.tokens.length - S.pos ≤ S.tokens.length := Nat.sub_le _ _
    omega)
  rw [h] at hs
  exact afterStmt_progress hend hs

/-- The loop of `parseProgram` does not run out of fuel when its fuel
exceeds the number of tokens ahead. -/
theorem parseProgramLoop_fuelled (ts : List Token) (stmtFuel : Nat)
    (hstmt : 32 * ts.length + 5 ≤ stmtFuel) :
    ∀ (fuel : Nat) (children : List ParseNode) (S : SyntaxAnalyzer), S.tokens = ts →
      ts.length - S.pos + 1 ≤ fuel → Fuelled (parseProgramLoop stmtFuel fuel children S) := by
  intro fuel
  induction fuel with
  | zero =>
    intros
    omega
  | succ fuel ih =>
    intro children S hS hfuel
    subst hS
    unfold parseProgramLoop
    by_cases hend : S.isAtEnd = true
    · rw [if_pos hend]
      trivial
    rw [if_neg hend]
    have hend' : S.isAtEnd = false := by simpa using hend
    have hlt := pos_lt_of_not_atEnd hend'
    by_cases hnl : S.currentToken.type = TokenType.NEWLINE
    · rw [if_pos hnl]
      refine ih _ _ ?_ ?_
      · rw [advance_of_not_atEnd hend']
      · rw [advance_of_not_atEnd hend']
        show S.tokens.length - (S.pos + 1) + 1 ≤ fuel
        omega
    rw [if_neg hnl]
    have hs := parseStmt_safe S.tokens stmtFuel (S.tokens.length - S.pos) S ⟨rfl, le_refl _⟩ (by
      have : S.tokens.length - S.pos ≤ S.tokens.length := Nat.sub_le _ _
      omega)
    rcases hx : parseStmt stmtFuel S with f | ⟨stmt, S1⟩
    · rw [hx] at hs
      exact hs
    · rw [hx] at hs
      obtain ⟨h1, h2⟩ := afterStmt_progress hend' hs
      refine ih _ (afterStmt S S1) h1 ?_
      omega

theorem parseProgram_fuelled (tokens : List Token) : Fuelled (parseProgram tokens) := by
  have h := parseProgramLoop_fuelled tokens (parseFuel tokens) (by unfold parseFuel; omega)
    (tokens.length + 1) [] { tokens := tokens } rfl (by
      show tokens.length - 0 + 1 ≤ tokens.length + 1
      omega)
  unfold parseProgram
  rcases hx : parseProgramLoop (parseFuel tokens) (tokens.length + 1) [] { tokens := tokens }
    with f | ⟨children, S⟩
  · rw [hx] at h
    exact h
  · trivial

end SyntaxAnalyzer
end PyAnalyzer
namespace PyAnalyzer
namespace SyntaxAnalyzer

theorem ne_outOfFuel_of_fuelled {α : Type} {x : Except Fault α} (h : Fuelled x) :
    x ≠ .error Fault.outOfFuel := by
  intro hx
  rw [hx] at h
  exact h rfl

theorem ne_outOfFuel_of_safe {α : Type} {ts : List Token} {n : Nat}
    {x : Except Fault (α × SyntaxAnalyzer)} (h : Safe ts n x) : x ≠ .error Fault.outOfFuel := by
  intro hx
  rw [hx] at h
  exact h rfl

theorem returns_or_faults {α : Type} {x : Except Fault α} (h : Fuelled x) :
    (∃ r, x = .ok r) ∨ x = .error Fault.nullDereference ∨ x = .error Fault.doubleDelete := by
  rcases x with f | r
  · cases f
    · exact absurd rfl h
    · exact Or.inr (Or.inl rfl)
    · exact Or.inr (Or.inr rfl)
  · exact Or.inl ⟨r, rfl⟩

set_option maxHeartbeats 4000000 in
/-- C21: on every token list the run of `parseProgram` comes to an end: no
loop and no chain of nested calls goes on without bound (the fuel, linear in
the number of tokens, never runs out).  Each round of the top-level loop
goes on strictly further in the same tokens: past a NEWLINE by one token,
and past a statement to the position where the statement ended, or one token
further when the statement consumed nothing; for every parsing function fuel
`32 * n + 6` is enough with `n` tokens ahead, the tokens ahead never
growing: every loop and every recursive call consumes a token before it
repeats.  But the end of the run is a return only when the code does not
stop at a fault of memory: on the tokens of the source "if x:", an indented
"pass" and "elif y:" with nothing after it, the `elif` loop of
`parseIfChain` deletes the condition and the `Elif` node a second time, and
`parseProgram` does not return. -/
theorem parseProgram_returns_or_faults :
    (∀ tokens : List Token,
      ((∃ r, parseProgram tokens = .ok r) ∨
        parseProgram tokens = .error Fault.nullDereference ∨
        parseProgram tokens = .error Fault.doubleDelete) ∧
      (∀ S : SyntaxAnalyzer, S.tokens = tokens → S.isAtEnd = false →
        S.advance.tokens = tokens ∧ S.advance.pos = S.pos + 1) ∧
      (∀ (S S1 : SyntaxAnalyzer) (stmt : Option ParseNode), S.tokens = tokens →
        S.isAtEnd = false → parseStmt (parseFuel tokens) S = .ok (stmt, S1) →
        (afterStmt S S1).tokens = tokens ∧ S.pos < (afterStmt S S1).pos) ∧
      (∀ S : SyntaxAnalyzer, S.tokens = tokens →
        (∃ r, parseStmt (parseFuel tokens) S = .ok r) ∨
          parseStmt (parseFuel tokens) S = .error Fault.nullDereference ∨
          parseStmt (parseFuel tokens) S = .error Fault.doubleDelete) ∧
      (∀ fuel, StatementsSafe tokens fuel) ∧
      (∀ fuel n S, Within tokens n S → 32 * n + 4 ≤ fuel →
        Safe tokens n (parseComparison fuel S))) ∧
    (∃ L', PythonLexer.tokenize exactArith
        (PythonLexer.create "if x:\n    pass\nelif y:\n".toList [0]) = some L' ∧
      L'.tokenKinds = [("if".toList, TokenType.KEYWORD), ("x".toList, TokenType.IDENTIFIER),
        (":".toList, TokenType.DELIMITER), ("\n".toList, TokenType.NEWLINE),
        ([], TokenType.INDENT), ("pass".toList, TokenType.KEYWORD),
        ("\n".toList, TokenType.NEWLINE), ([], TokenType.DEDENT),
        ("elif".toList, TokenType.KEYWORD), ("y".toList, TokenType.IDENTIFIER),
        (":".toList, TokenType.DELIMITER), ("\n".toList, TokenType.NEWLINE),
        ([], TokenType.ENDOFFILE)] ∧
      parseProgram (filterComments L'.tokens) = .error Fault.doubleDelete) ∧
    ∃ L', PythonLexer.tokenize exactArith
        (PythonLexer.create "if x:\n    pass\nelif y\n".toList [0]) = some L' ∧
      parseProgram (filterComments L'.tokens) = .error Fault.doubleDelete := by
  refine ⟨fun tokens => ⟨returns_or_faults (parseProgram_fuelled tokens), ?_, ?_, ?_,
    statement_safe tokens, parseComparison_safe tokens⟩, ⟨_, rfl, rfl, rfl⟩, ⟨_, rfl, rfl⟩⟩
  · intro S hS hend
    rw [advance_of_not_atEnd hend]
    exact ⟨hS, rfl⟩
  · intro S S1 stmt hS hend h
    subst hS
    exact parseStmt_progress (parseFuel S.tokens) (by unfold parseFuel; omega) hend h
  · intro S hS
    subst hS
    have h := parseStmt_safe S.tokens (parseFuel S.tokens) S.tokens.length S
      ⟨rfl, Nat.sub_le _ _⟩ (by unfold parseFuel; omega)
    rcases hx : parseStmt (parseFuel S.tokens) S with f | r
    · rw [hx] at h
      cases f
      · exact absurd rfl h
      · exact Or.inr (Or.inl rfl)
      · exact Or.inr (Or.inr rfl)
    · exact Or.inl ⟨r, rfl⟩

/-- C21 at the tokens `)` and end of file: the statement at `)` consumes
nothing and records two errors, and the loop goes on one token further. -/
theorem parseProgram_returns_or_faults_witness :
    parseStmt (parseFuel [⟨")".toList, TokenType.DELIMITER, 1, 1⟩, ⟨[], TokenType.ENDOFFILE, 1, 2⟩])
        (atPos [⟨")".toList, TokenType.DELIMITER, 1, 1⟩, ⟨[], TokenType.ENDOFFILE, 1, 2⟩] 0) =
      .ok (none,
        { tokens := [⟨")".toList, TokenType.DELIMITER, 1, 1⟩, ⟨[], TokenType.ENDOFFILE, 1, 2⟩],
          pos := 0,
          syntaxErrors :=
            [⟨"Expected an identifier, number, or expression".toList, 1, 1⟩,
             ⟨"Invalid expression or unknown statement".toList, 1, 1⟩] }) ∧
    0 < (afterStmt
      (atPos [⟨")".toList, TokenType.DELIMITER, 1, 1⟩, ⟨[], TokenType.ENDOFFILE, 1, 2⟩] 0)
      { tokens := [⟨")".toList, TokenType.DELIMITER, 1, 1⟩, ⟨[], TokenType.ENDOFFILE, 1, 2⟩],
        pos := 0,
        syntaxErrors :=
          [⟨"Expected an identifier, number, or expression".toList, 1, 1⟩,
           ⟨"Invalid expression or unknown statement".toList, 1, 1⟩] }).pos :=
  ⟨rfl, (((parseProgram_returns_or_faults).1
    [⟨")".toList, TokenType.DELIMITER, 1, 1⟩, ⟨[], TokenType.ENDOFFILE, 1, 2⟩]).2.2.1
    (atPos [⟨")".toList, TokenType.DELIMITER, 1, 1⟩, ⟨[], TokenType.ENDOFFILE, 1, 2⟩] 0)
    { tokens := [⟨")".toList, TokenType.DELIMITER, 1, 1⟩, ⟨[], TokenType.ENDOFFILE, 1, 2⟩],
      pos := 0,
      syntaxErrors :=
        [⟨"Expected an identifier, number, or expression".toList, 1, 1⟩,
         ⟨"Invalid expression or unknown statement".toList, 1, 1⟩] }
    none rfl rfl rfl).2⟩

end SyntaxAnalyzer
end PyAnalyzer
namespace PyAnalyzer
namespace PythonLexer

/-! ## A source that is one assignment on one line -/

/-- The run on a source whose tokens are `name`, `=`, a right side and a
NEWLINE, with no lexical error: the post-pass is `inferAssignment` on the
right side. -/
theorem tokenize_one_infer (F : DoubleArith) (L Lf : PythonLexer) (tn te tz : Token)
    (expr : List Token) (hloop : tokenizeLoop L.rest.length L = some Lf)
    (htok : Lf.tokens = tn :: te :: (expr ++ [tz]))
    (hn : tn.type = TokenType.IDENTIFIER) (he : te.type = TokenType.EQUALOPERATOR)
    (hexpr : ∀ t ∈ expr, endsAssignment t = false) (hz : tz.type = TokenType.NEWLINE)
    (herr : Lf.errors = []) :
    tokenize F L =
      some (inferAssignment F (Lf.addToken [] TokenType.ENDOFFILE) tn.lexeme expr) := by
  have ht0 : (Lf.addToken [] TokenType.ENDOFFILE).tokens =
      tn :: te :: (expr ++ tz :: [⟨[], TokenType.ENDOFFILE, Lf.line, Lf.column - 0⟩]) := by
    simp [addToken, htok]
  have hstep := processAssignmentsStep_infer F (Lf.addToken [] TokenType.ENDOFFILE) 0 tn te tz
    expr [⟨[], TokenType.ENDOFFILE, Lf.line, Lf.column - 0⟩] (by rw [ht0]; rfl) hn
    (by rw [ht0]; rfl) he (by rw [ht0]; rfl) hexpr (by simp [endsAssignment, hz])
    (by simp [herr])
  have hlen : (Lf.addToken [] TokenType.ENDOFFILE).tokens.length = expr.length + 4 := by
    rw [ht0]
    simp
  unfold tokenize
  rw [hloop]
  show processAssignmentsLoop F _ 0 _ = _
  rw [hlen, show expr.length + 4 = (expr.length + 3) + 1 from rfl, processAssignmentsLoop,
    if_pos (by omega), hstep]
  refine processAssignmentsLoop_noop_from F _ _ _ ?_ ?_
  · intro k hk
    rw [inferAssignment_tokens, ht0]
    have hk2 : k = (expr.length + 2) + (k - (expr.length + 2)) := by omega
    rw [hk2, show tn :: te :: (expr ++ tz :: [⟨[], TokenType.ENDOFFILE, Lf.line, Lf.column - 0⟩]) =
      (tn :: te :: expr) ++ tz :: [⟨[], TokenType.ENDOFFILE, Lf.line, Lf.column - 0⟩] from rfl,
      List.get?_eq_getElem?, List.getElem?_append_right (by simp)]
    simp only [List.length_cons, add_tsub_cancel_left]
    rcases (k - (expr.length + 2)) with _ | _ | j <;> simp [hz]
  · rw [inferAssignment_tokens, hlen]
    omega

/-! ## C39: a right side that leaves no single value -/

theorem evalRPN_of_loop (F : DoubleArith) (st : SymbolTable) (rpn : List Token)
    (vals : List F.D) (h : evalRPNLoop F st rpn [] = .ok vals) (hlen : vals.length ≠ 1) :
    evalRPN F st rpn = .ok (F.ofInt 0) := by
  unfold evalRPN
  rw [h]
  match vals, hlen with
  | [], _ => rfl
  | _ :: _ :: _, _ => rfl

theorem foldAssignment_zero (F : DoubleArith) (hF : F.ExactOnIntegers) (L : PythonLexer)
    (lhs : List Char) (expr rpn : List Token) (vals : List F.D) (hrpn : toRPN expr = .ok rpn)
    (h : evalRPNLoop F L.symbolTable rpn [] = .ok vals) (hlen : vals.length ≠ 1) :
    foldAssignment F L lhs expr =
      { L with symbolTable := L.symbolTable.setIdentifierInfo lhs "int".toList "0".toList } := by
  unfold foldAssignment
  rw [hrpn]
  show (match evalRPN F L.symbolTable rpn with
    | .ok result => _
    | .error what => _) = _
  rw [evalRPN_of_loop F _ rpn vals h hlen]
  simp only [hF.isIntegral_int 0 (by simp), hF.toLongLong_int 0 (by simp), if_true]
  rfl

/-- C39: `evalRPN` returns 0, and raises nothing, whenever its loop ends with
a number of values other than one on the stack.  So an assignment whose right
side has a postfix form of that kind and is not a single token records the
name as `int` with the value "0" and adds no error (for a `double` that is
exact on the integers).  The sources "x =" and "x = 1 2", each with a
newline, are of that kind: the stack ends with no value and with two. -/
theorem evalRPN_zero_unless_one_value (F : DoubleArith) (hF : F.ExactOnIntegers) :
    (∀ (st : SymbolTable) (rpn : List Token) (vals : List F.D),
      evalRPNLoop F st rpn [] = .ok vals → vals.length ≠ 1 →
        evalRPN F st rpn = .ok (F.ofInt 0)) ∧
    (∀ (L : PythonLexer) (lhs : List Char) (expr rpn : List Token) (vals : List F.D),
      expr.length ≠ 1 → toRPN expr = .ok rpn →
      evalRPNLoop F L.symbolTable rpn [] = .ok vals → vals.length ≠ 1 →
        inferAssignment F L lhs expr =
          { L with
            symbolTable := L.symbolTable.setIdentifierInfo lhs "int".toList "0".toList }) ∧
    (∃ L', tokenize F (create "x =\n".toList [0]) = some L' ∧
      L'.tokenKinds = [("x".toList, TokenType.IDENTIFIER), ("=".toList, TokenType.EQUALOPERATOR),
        ("\n".toList, TokenType.NEWLINE), ([], TokenType.ENDOFFILE)] ∧
      L'.errors = [] ∧
      L'.symbolTable.getDataType "x".toList = "int".toList ∧
      L'.symbolTable.getValue "x".toList = "0".toList) ∧
    ∃ L', tokenize F (create "x = 1 2\n".toList [0]) = some L' ∧
      L'.tokenKinds = [("x".toList, TokenType.IDENTIFIER), ("=".toList, TokenType.EQUALOPERATOR),
        ("1".toList, TokenType.NUMBER), ("2".toList, TokenType.NUMBER),
        ("\n".toList, TokenType.NEWLINE), ([], TokenType.ENDOFFILE)] ∧
      L'.errors = [] ∧
      L'.symbolTable.getDataType "x".toList = "int".toList ∧
      L'.symbolTable.getValue "x".toList = "0".toList := by
  refine ⟨evalRPN_of_loop F, ?_, ?_, ?_⟩
  · intro L lhs expr rpn vals hexpr hrpn h hlen
    have : inferAssignment F L lhs expr = foldAssignment F L lhs expr := by
      match expr, hexpr with
      | [], _ => rfl
      | _ :: _ :: _, _ => rfl
    rw [this]
    exact foldAssignment_zero F hF L lhs expr rpn vals hrpn h hlen
  · obtain ⟨Lf, hloop, htok, herr, hst⟩ : ∃ Lf,
        tokenizeLoop (create "x =\n".toList [0]).rest.length (create "x =\n".toList [0]) =
          some Lf ∧
        Lf.tokens = [⟨"x".toList, TokenType.IDENTIFIER, 1, 1⟩,
          ⟨"=".toList, TokenType.EQUALOPERATOR, 1, 2⟩, ⟨"\n".toList, TokenType.NEWLINE, 1, 3⟩] ∧
        Lf.errors = [] ∧
        Lf.symbolTable = ⟨[("x".toList, ⟨1, "unknown".toList, "N/A".toList⟩)], 2⟩ :=
      ⟨_, rfl, rfl, rfl, rfl⟩
    have hrun := tokenize_one_infer F _ Lf _ _ _ [] hloop htok rfl rfl (by simp) rfl herr
    have hfold := foldAssignment_zero F hF (Lf.addToken [] TokenType.ENDOFFILE) "x".toList
      [] [] [] rfl rfl (by simp)
    refine ⟨_, hrun, ?_, ?_, ?_, ?_⟩
    · show (foldAssignment F _ _ _).tokenKinds = _
      rw [hfold]
      simp [tokenKinds, addToken, htok]
    · show (foldAssignment F _ _ _).errors = _
      rw [hfold]
      exact herr
    · show (foldAssignment F _ _ _).symbolTable.getDataType _ = _
      rw [hfold]
      show (Lf.symbolTable.setIdentifierInfo _ _ _).getDataType _ = _
      rw [hst]
      rfl
    · show (foldAssignment F _ _ _).symbolTable.getValue _ = _
      rw [hfold]
      show (Lf.symbolTable.setIdentifierInfo _ _ _).getValue _ = _
      rw [hst]
      rfl
  · obtain ⟨Lf, hloop, htok, herr, hst⟩ : ∃ Lf,
        tokenizeLoop (create "x = 1 2\n".toList [0]).rest.length
          (create "x = 1 2\n".toList [0]) = some Lf ∧
        Lf.tokens = [⟨"x".toList, TokenType.IDENTIFIER, 1, 1⟩,
          ⟨"=".toList, TokenType.EQUALOPERATOR, 1, 2⟩, ⟨"1".toList, TokenType.NUMBER, 1, 5⟩,
          ⟨"2".toList, TokenType.NUMBER, 1, 7⟩, ⟨"\n".toList, TokenType.NEWLINE, 1, 7⟩] ∧
        Lf.errors = [] ∧
        Lf.symbolTable = ⟨[("x".toList, ⟨1, "unknown".toList, "N/A".toList⟩)], 2⟩ :=
      ⟨_, rfl, rfl, rfl, rfl⟩
    have hrun := tokenize_one_infer F _ Lf _ _ _
      [⟨"1".toList, TokenType.NUMBER, 1, 5⟩, ⟨"2".toList, TokenType.NUMBER, 1, 7⟩]
      hloop htok rfl rfl (by simp [endsAssignment]) rfl herr
    have h1 := hF.stod_digits "1".toList (by simp) (by decide) (by decide)
    have h2 := hF.stod_digits "2".toList (by simp) (by decide) (by decide)
    have hfold := foldAssignment_zero F hF (Lf.addToken [] TokenType.ENDOFFILE) "x".toList
      [⟨"1".toList, TokenType.NUMBER, 1, 5⟩, ⟨"2".toList, TokenType.NUMBER, 1, 7⟩]
      [⟨"1".toList, TokenType.NUMBER, 1, 5⟩, ⟨"2".toList, TokenType.NUMBER, 1, 7⟩]
      [F.ofInt (decimalValue "2".toList), F.ofInt (decimalValue "1".toList)] rfl (by
        simp only [evalRPNLoop, operandValue, h1, h2]) (by simp)
    refine ⟨_, hrun, ?_, ?_, ?_, ?_⟩
    · show (foldAssignment F _ _ _).tokenKinds = _
      rw [hfold]
      simp [tokenKinds, addToken, htok]
    · show (foldAssignment F _ _ _).errors = _
      rw [hfold]
      exact herr
    · show (foldAssignment F _ _ _).symbolTable.getDataType _ = _
      rw [hfold]
      show (Lf.symbolTable.setIdentifierInfo _ _ _).getDataType _ = _
      rw [hst]
      rfl
    · show (foldAssignment F _ _ _).symbolTable.getValue _ = _
      rw [hfold]
      show (Lf.symbolTable.setIdentifierInfo _ _ _).getValue _ = _
      rw [hst]
      rfl

/-- C39 with exact arithmetic. -/
theorem evalRPN_zero_unless_one_value_witness :
    (∃ L', tokenize exactArith (create "x =\n".toList [0]) = some L' ∧
      L'.tokenKinds = [("x".toList, TokenType.IDENTIFIER), ("=".toList, TokenType.EQUALOPERATOR),
        ("\n".toList, TokenType.NEWLINE), ([], TokenType.ENDOFFILE)] ∧
      L'.errors = [] ∧
      L'.symbolTable.getDataType "x".toList = "int".toList ∧
      L'.symbolTable.getValue "x".toList = "0".toList) ∧
    ∃ L', tokenize exactArith (create "x = 1 2\n".toList [0]) = some L' ∧
      L'.tokenKinds = [("x".toList, TokenType.IDENTIFIER), ("=".toList, TokenType.EQUALOPERATOR),
        ("1".toList, TokenType.NUMBER), ("2".toList, TokenType.NUMBER),
        ("\n".toList, TokenType.NEWLINE), ([], TokenType.ENDOFFILE)] ∧
      L'.errors = [] ∧
      L'.symbolTable.getDataType "x".toList = "int".toList ∧
      L'.symbolTable.getValue "x".toList = "0".toList :=
  (evalRPN_zero_unless_one_value exactArith exactArith_exactOnIntegers).2.2

end PythonLexer
end PyAnalyzer
namespace PyAnalyzer
namespace PythonLexer

/-! ## C35: an assignment with a lexical error on its lines -/

/-- A round of the post-pass at an assignment one of whose lines carries an
error: the target is set to unknown and the loop goes on at the token that
ends the right side. -/
theorem processAssignmentsStep_bad (F : DoubleArith) (L : PythonLexer) (i : Nat)
    (tn te tz : Token) (expr tail : List Token)
    (h0 : L.tokens.get? i = some tn) (hn : tn.type = TokenType.IDENTIFIER)
    (h1 : L.tokens.get? (i + 1) = some te) (he : te.type = TokenType.EQUALOPERATOR)
    (hdrop : L.tokens.drop (i + 2) = expr ++ tz :: tail)
    (hexpr : ∀ t ∈ expr, endsAssignment t = false) (hz : endsAssignment tz = true)
    (hbad : ∃ err ∈ L.errors, tn.line ≤ err.line ∧ err.line ≤ tz.line) :
    processAssignmentsStep F i L =
      (i + 2 + expr.length,
        { L with
          symbolTable :=
            L.symbolTable.setIdentifierInfo tn.lexeme "unknown".toList "N/A".toList }) ∧
    L.tokens.get? (i + 2 + expr.length) = some tz := by
  have hx : (L.tokens.drop (i + 2)).takeWhile (fun t => !endsAssignment t) = expr := by
    rw [hdrop]
    exact takeWhile_append_cons_stop _ expr tz tail (fun t ht => by simp [hexpr t ht])
      (by simp [hz])
  have hlen : i + 2 + expr.length < L.tokens.length := by
    have := congrArg List.length hdrop
    simp only [List.length_drop, List.length_append, List.length_cons] at this
    omega
  have hj : L.tokens.get? (i + 2 + expr.length) = some tz := by
    have h := congrArg (fun l => l.get? expr.length) hdrop
    simp only [List.get?_eq_getElem?, List.getElem?_drop] at h
    rw [List.get?_eq_getElem?, h, List.getElem?_append_right (le_refl _)]
    simp
  have hany : (L.errors.any fun err =>
      decide (err.line ≥ tn.line) && decide (err.line ≤ tz.line)) = true := by
    rw [List.any_eq_true]
    obtain ⟨err, herr, ha, hb⟩ := hbad
    exact ⟨err, herr, by simp [ha, hb]⟩
  have hstep : processAssignmentsStep F i L =
      (i + 2 + expr.length,
        { L with
          symbolTable :=
            L.symbolTable.setIdentifierInfo tn.lexeme "unknown".toList "N/A".toList }) := by
    unfold processAssignmentsStep
    dsimp only
    rw [hx, h0, h1, hj]
    simp only [Option.map_some', hn, he, Option.some.injEq, Option.getD_some]
    rw [if_neg (by simp), if_pos (by simp), if_pos hlen]
    simp only [hany, if_true]
  exact ⟨hstep, hj⟩

end PythonLexer
end PyAnalyzer
namespace PyAnalyzer
namespace PythonLexer

/-! ## C40: the position carried by the errors of the post-pass -/

theorem stamped_refl (L : PythonLexer) : Stamped L L :=
  ⟨rfl, rfl, rfl, [], by simp, fun _ h => absurd h (List.not_mem_nil _)⟩

theorem stamped_trans {L L' L'' : PythonLexer} (h : Stamped L L') (h' : Stamped L' L'') :
    Stamped L L'' := by
  obtain ⟨h1, h2, h3, n, h4, h5⟩ := h
  obtain ⟨k1, k2, k3, m, k4, k5⟩ := h'
  refine ⟨k1.trans h1, k2.trans h2, k3.trans h3, n ++ m, by rw [k4, h4, List.append_assoc], ?_⟩
  intro e he
  rcases List.mem_append.mp he with he | he
  · exact h5 e he
  · rw [← h1, ← h2]
    exact k5 e he

theorem stamped_addError (L : PythonLexer) (m : List Char) : Stamped L (L.addError m) :=
  ⟨rfl, rfl, rfl, [⟨m, L.line, L.column⟩], rfl, fun e he => by
    rw [List.mem_singleton] at he
    subst he
    exact ⟨rfl, rfl⟩⟩

theorem stamped_symbolTable {L L' : PythonLexer} (h : Stamped L L') (t : SymbolTable) :
    Stamped L { L' with symbolTable := t } := h

theorem singleTokenShortcut_stamped (L : PythonLexer) (lhs : List Char) (t : Token)
    (L' : PythonLexer) (h : singleTokenShortcut L lhs t = some L') : Stamped L L' := by
  unfold singleTokenShortcut at h
  split at h
  all_goals first
    | (obtain rfl := Option.some.inj h; exact stamped_refl L)
    | (split_ifs at h
       all_goals first
         | (obtain rfl := Option.some.inj h; exact stamped_refl L)
         | (obtain rfl := Option.some.inj h; exact stamped_addError L _))
    | exact absurd h (by simp)

theorem foldAssignment_stamped (F : DoubleArith) (L : PythonLexer) (lhs : List Char)
    (expr : List Token) : Stamped L (foldAssignment F L lhs expr) := by
  unfold foldAssignment
  split
  · exact stamped_refl L
  · exact stamped_addError L _

theorem inferAssignment_stamped (F : DoubleArith) (L : PythonLexer) (lhs : List Char)
    (expr : List Token) : Stamped L (inferAssignment F L lhs expr) := by
  unfold inferAssignment
  split
  · split
    · exact singleTokenShortcut_stamped _ _ _ _ (by assumption)
    · exact foldAssignment_stamped _ _ _ _
  · exact foldAssignment_stamped _ _ _ _

theorem processAssignmentsStep_stamped (F : DoubleArith) (i : Nat) (L : PythonLexer) :
    Stamped L (processAssignmentsStep F i L).2 := by
  unfold processAssignmentsStep
  dsimp only
  split_ifs
  all_goals first
    | exact stamped_addError L _
    | exact stamped_refl L
    | exact inferAssignment_stamped _ _ _ _

theorem processAssignmentsLoop_stamped (F : DoubleArith) (fuel i : Nat) (L L' : PythonLexer)
    (h : processAssignmentsLoop F fuel i L = some L') : Stamped L L' := by
  induction fuel generalizing i L with
  | zero =>
    unfold processAssignmentsLoop at h
    split_ifs at h
    obtain rfl := Option.some.inj h
    exact stamped_refl L
  | succ fuel ih =>
    unfold processAssignmentsLoop at h
    split_ifs at h
    · exact stamped_trans (processAssignmentsStep_stamped F i L) (ih _ _ h)
    · obtain rfl := Option.some.inj h
      exact stamped_refl L

theorem processAssignmentsLoop_step (F : DoubleArith) (fuel i : Nat) (L : PythonLexer)
    (hi : i < L.tokens.length) :
    processAssignmentsLoop F (fuel + 1) i L =
      processAssignmentsLoop F fuel (processAssignmentsStep F i L).1
        (processAssignmentsStep F i L).2 := by
  rw [processAssignmentsLoop, if_pos hi]

/-- A round of the post-pass at a token that is no identifier and no sign
moves to the next token. -/
theorem processAssignmentsStep_other (F : DoubleArith) (i : Nat) (L : PythonLexer) (t : Token)
    (h0 : L.tokens.get? i = some t) (h1 : t.type ≠ TokenType.IDENTIFIER)
    (h2 : t.type ≠ TokenType.MINUSOPERATOR) (h3 : t.type ≠ TokenType.ADDOPERATOR) :
    processAssignmentsStep F i L = (i + 1, L) := by
  unfold processAssignmentsStep
  dsimp only
  rw [h0]
  simp only [Option.map_some', Option.some.injEq]
  rw [if_neg (by simp [h2, h3]), if_neg (by simp [h1])]

end PythonLexer
end PyAnalyzer
namespace PyAnalyzer
namespace PythonLexer

/-- The run of `tokenize` in two parts: the state `Lf` at the end of the scan
and the state returned, whose tokens are those of `Lf` followed by the
end-of-file token at the position of `Lf`, and whose errors are those of
`Lf` followed by errors at that same position. -/
theorem tokenize_stamped (F : DoubleArith) (L : PythonLexer) :
    ∃ Lf L' new, tokenizeLoop L.rest.length L = some Lf ∧ tokenize F L = some L' ∧
      L'.tokens = Lf.tokens ++ [⟨[], TokenType.ENDOFFILE, Lf.line, Lf.column⟩] ∧
      L'.line = Lf.line ∧ L'.column = Lf.column ∧
      L'.errors = Lf.errors ++ new ∧ ∀ e ∈ new, e.line = Lf.line ∧ e.column = Lf.column := by
  obtain ⟨Lf, h1, _⟩ := tokenizeLoop_some L.rest.length L (le_refl _)
  obtain ⟨L', h2, _⟩ := processAssignments_some F (Lf.addToken [] TokenType.ENDOFFILE)
  obtain ⟨k1, k2, k3, new, k4, k5⟩ := processAssignmentsLoop_stamped F _ _ _ _ h2
  refine ⟨Lf, L', new, h1, by simp [tokenize, h1, h2], ?_, k1, k2, k4, k5⟩
  rw [k3]
  simp [addToken]

/-- The post-pass on the tokens of "a = 1 / 0", newline, "b = 5": the round
at `a` appends "Division by zero", and the round at `b` finds that error on
its line. -/
theorem processAssignments_division_then_assignment (L : PythonLexer)
    (htok : L.tokens = [⟨"a".toList, TokenType.IDENTIFIER, 1, 1⟩,
      ⟨"=".toList, TokenType.EQUALOPERATOR, 1, 2⟩, ⟨"1".toList, TokenType.NUMBER, 1, 5⟩,
      ⟨"/".toList, TokenType.DIVIDEOPERATOR, 1, 6⟩, ⟨"0".toList, TokenType.NUMBER, 1, 9⟩,
      ⟨"\n".toList, TokenType.NEWLINE, 1, 9⟩, ⟨"b".toList, TokenType.IDENTIFIER, 2, 1⟩,
      ⟨"=".toList, TokenType.EQUALOPERATOR, 2, 2⟩, ⟨"5".toList, TokenType.NUMBER, 2, 5⟩,
      ⟨[], TokenType.ENDOFFILE, 2, 6⟩])
    (herr : L.errors = []) (hline : L.line = 2) :
    processAssignments exactArith L =
      some { L.addError "Division by zero".toList with
        symbolTable := (L.symbolTable.setIdentifierInfo "a".toList "unknown".toList
          "N/A".toList).setIdentifierInfo "b".toList "unknown".toList "N/A".toList } := by
  have hfold : foldAssignment exactArith L "a".toList
      [⟨"1".toList, TokenType.NUMBER, 1, 5⟩, ⟨"/".toList, TokenType.DIVIDEOPERATOR, 1, 6⟩,
        ⟨"0".toList, TokenType.NUMBER, 1, 9⟩] =
      { L.addError "Division by zero".toList with
        symbolTable := L.symbolTable.setIdentifierInfo "a".toList "unknown".toList
          "N/A".toList } := by
    unfold foldAssignment
    rw [show toRPN [⟨"1".toList, TokenType.NUMBER, 1, 5⟩,
        ⟨"/".toList, TokenType.DIVIDEOPERATOR, 1, 6⟩, ⟨"0".toList, TokenType.NUMBER, 1, 9⟩] =
      .ok ([⟨"1".toList, TokenType.NUMBER, 1, 5⟩, ⟨"0".toList, TokenType.NUMBER, 1, 9⟩] ++
        ⟨"/".toList, TokenType.DIVIDEOPERATOR, 1, 6⟩ :: []) from rfl]
    simp only [Except.bind, evalRPN_zero_division exactArith _
      [⟨"1".toList, TokenType.NUMBER, 1, 5⟩, ⟨"0".toList, TokenType.NUMBER, 1, 9⟩] []
      ⟨"/".toList, TokenType.DIVIDEOPERATOR, 1, 6⟩ (1 : ℚ) (0 : ℚ) []
      (by simp [evalRPNLoop, operandValue, exactArith, exactStod, decimalValue, isdigit])
      (Or.inl rfl) (by simp [exactArith])]
    rfl
  have h0 : processAssignmentsStep exactArith 0 L =
      (5, { L.addError "Division by zero".toList with
        symbolTable := L.symbolTable.setIdentifierInfo "a".toList "unknown".toList
          "N/A".toList }) := by
    rw [processAssignmentsStep_infer exactArith L 0 ⟨"a".toList, TokenType.IDENTIFIER, 1, 1⟩
      ⟨"=".toList, TokenType.EQUALOPERATOR, 1, 2⟩ ⟨"\n".toList, TokenType.NEWLINE, 1, 9⟩
      [⟨"1".toList, TokenType.NUMBER, 1, 5⟩, ⟨"/".toList, TokenType.DIVIDEOPERATOR, 1, 6⟩,
        ⟨"0".toList, TokenType.NUMBER, 1, 9⟩]
      [⟨"b".toList, TokenType.IDENTIFIER, 2, 1⟩, ⟨"=".toList, TokenType.EQUALOPERATOR, 2, 2⟩,
        ⟨"5".toList, TokenType.NUMBER, 2, 5⟩, ⟨[], TokenType.ENDOFFILE, 2, 6⟩]
      (by rw [htok]; rfl) rfl (by rw [htok]; rfl) rfl (by rw [htok]; rfl) (by decide) rfl
      (by rw [herr]; exact fun err h => absurd h (List.not_mem_nil err)),
      inferAssignment_of_length _ _ _ _ (by decide)]
    exact congrArg (Prod.mk 5) hfold
  generalize h1 : ({ L.addError "Division by zero".toList with
      symbolTable := L.symbolTable.setIdentifierInfo "a".toList "unknown".toList
        "N/A".toList } : PythonLexer) = L1 at h0
  have htok1 : L1.tokens = L.tokens := by rw [← h1]; rfl
  have herr1 : L1.errors = [⟨"Division by zero".toList, 2, L.column⟩] := by
    rw [← h1]
    simp [addError, herr, hline]
  have h5 : processAssignmentsStep exactArith 5 L1 = (6, L1) :=
    processAssignmentsStep_other exactArith 5 L1 ⟨"\n".toList, TokenType.NEWLINE, 1, 9⟩
      (by rw [htok1, htok]; rfl) (by decide) (by decide) (by decide)
  have h6 : processAssignmentsStep exactArith 6 L1 =
      (9, { L1 with
        symbolTable :=
          L1.symbolTable.setIdentifierInfo "b".toList "unknown".toList "N/A".toList }) :=
    (processAssignmentsStep_bad exactArith L1 6 ⟨"b".toList, TokenType.IDENTIFIER, 2, 1⟩
      ⟨"=".toList, TokenType.EQUALOPERATOR, 2, 2⟩ ⟨[], TokenType.ENDOFFILE, 2, 6⟩
      [⟨"5".toList, TokenType.NUMBER, 2, 5⟩] [] (by rw [htok1, htok]; rfl) rfl
      (by rw [htok1, htok]; rfl) rfl (by rw [htok1, htok]; rfl) (by decide) rfl
      ⟨⟨"Division by zero".toList, 2, L.column⟩, by rw [herr1]; exact List.mem_singleton.mpr rfl,
        ⟨le_refl _, le_refl _⟩⟩).1
  generalize h2 : ({ L1 with
    symbolTable :=
      L1.symbolTable.setIdentifierInfo "b".toList "unknown".toList "N/A".toList } :
    PythonLexer) = L2 at h6
  have htok2 : L2.tokens = L.tokens := by rw [← h2]; exact htok1
  have h9 : processAssignmentsStep exactArith 9 L2 = (10, L2) :=
    processAssignmentsStep_other exactArith 9 L2 ⟨[], TokenType.ENDOFFILE, 2, 6⟩
      (by rw [htok2, htok]; rfl) (by decide) (by decide) (by decide)
  have hlen : L.tokens.length = 10 := by rw [htok]; rfl
  unfold processAssignments
  rw [hlen, processAssignmentsLoop_step _ _ _ _ (by rw [hlen]; decide), h0]
  dsimp only
  rw [processAssignmentsLoop_step _ _ _ _ (by rw [htok1, hlen]; decide), h5]
  dsimp only
  rw [processAssignmentsLoop_step _ _ _ _ (by rw [htok1, hlen]; decide), h6]
  dsimp only
  rw [processAssignmentsLoop_step _ _ _ _ (by rw [htok2, hlen]; decide), h9]
  dsimp only
  rw [processAssignmentsLoop, if_neg (by rw [htok2, hlen]; decide), ← h2, ← h1]

/-- The run of `tokenize` on "a = 1 / 0" and, on a second line that no
newline ends, "b = 5". -/
theorem tokenize_division_then_assignment :
    ∃ L', tokenize exactArith (create "a = 1 / 0\nb = 5".toList [0]) = some L' ∧
      L'.errors = [⟨"Division by zero".toList, 2, 6⟩] ∧
      L'.tokens.getLast? = some ⟨[], TokenType.ENDOFFILE, 2, 6⟩ ∧
      L'.symbolTable.find "a".toList = some ⟨1, "unknown".toList, "N/A".toList⟩ ∧
      L'.symbolTable.find "b".toList = some ⟨2, "unknown".toList, "N/A".toList⟩ := by
  obtain ⟨Lf, hloop, htok, herr, hline, hcol, hsym⟩ : ∃ Lf,
      tokenizeLoop 15 (create "a = 1 / 0\nb = 5".toList [0]) = some Lf ∧
      Lf.tokens = [⟨"a".toList, TokenType.IDENTIFIER, 1, 1⟩,
        ⟨"=".toList, TokenType.EQUALOPERATOR, 1, 2⟩, ⟨"1".toList, TokenType.NUMBER, 1, 5⟩,
        ⟨"/".toList, TokenType.DIVIDEOPERATOR, 1, 6⟩, ⟨"0".toList, TokenType.NUMBER, 1, 9⟩,
        ⟨"\n".toList, TokenType.NEWLINE, 1, 9⟩, ⟨"b".toList, TokenType.IDENTIFIER, 2, 1⟩,
        ⟨"=".toList, TokenType.EQUALOPERATOR, 2, 2⟩, ⟨"5".toList, TokenType.NUMBER, 2, 5⟩] ∧
      Lf.errors = [] ∧ Lf.line = 2 ∧ Lf.column = 6 ∧
      Lf.symbolTable = ⟨[("a".toList, ⟨1, "unknown".toList, "N/A".toList⟩),
        ("b".toList, ⟨2, "unknown".toList, "N/A".toList⟩)], 3⟩ :=
    ⟨_, rfl, rfl, rfl, rfl, rfl, rfl⟩
  have hlen : (create "a = 1 / 0\nb = 5".toList [0]).rest.length = 15 := rfl
  have h := processAssignments_division_then_assignment (Lf.addToken [] TokenType.ENDOFFILE)
    (by simp [addToken, htok, hline, hcol]) herr hline
  have ht : tokenize exactArith (create "a = 1 / 0\nb = 5".toList [0]) =
      processAssignments exactArith (Lf.addToken [] TokenType.ENDOFFILE) := by
    unfold tokenize
    rw [hlen, hloop, Option.some_bind]
  rw [h] at ht
  refine ⟨_, ht, ?_, ?_, ?_, ?_⟩
  · simp [addError, addToken, herr, hline, hcol]
  · simp [addError, addToken, htok, hline, hcol]
  · show (SymbolTable.setIdentifierInfo (SymbolTable.setIdentifierInfo Lf.symbolTable _ _ _)
      _ _ _).find _ = _
    rw [hsym]
    rfl
  · show (SymbolTable.setIdentifierInfo (SymbolTable.setIdentifierInfo Lf.symbolTable _ _ _)
      _ _ _).find _ = _
    rw [hsym]
    rfl

/-- The run of `tokenize` on "b = 5" alone, with no newline. -/
theorem tokenize_assignment_alone (F : DoubleArith) :
    ∃ L', tokenize F (create "b = 5".toList [0]) = some L' ∧ L'.errors = [] ∧
      L'.symbolTable.find "b".toList = some ⟨1, "int".toList, "5".toList⟩ :=
  ⟨_, rfl, rfl, rfl⟩

/-- C40: in every run of `tokenize`, the errors that the post-pass appends
to those of the scan all carry the line and the column at which the scan
ended, which are the line and the column of the end-of-file token; and on
the source "a = 1 / 0", newline, "b = 5" (no newline at the end) the error
"Division by zero" of the first assignment is of line 2, the line of the
second assignment, whose target `b` is left "unknown" with the value "N/A",
while "b = 5" alone gives `b` the type "int" and the value "5". -/
theorem postpass_errors_at_end_of_scan (F : DoubleArith) :
    (∀ L : PythonLexer, ∃ Lf L' new,
      tokenizeLoop L.rest.length L = some Lf ∧ tokenize F L = some L' ∧
      L'.tokens = Lf.tokens ++ [⟨[], TokenType.ENDOFFILE, Lf.line, Lf.column⟩] ∧
      L'.errors = Lf.errors ++ new ∧ ∀ e ∈ new, e.line = Lf.line ∧ e.column = Lf.column) ∧
    (∀ (i : Nat) (L : PythonLexer), ∃ new,
      (processAssignmentsStep F i L).2.errors = L.errors ++ new ∧
      (processAssignmentsStep F i L).2.line = L.line ∧
      (processAssignmentsStep F i L).2.column = L.column ∧
      ∀ e ∈ new, e.line = L.line ∧ e.column = L.column) ∧
    (∃ L', tokenize exactArith (create "a = 1 / 0\nb = 5".toList [0]) = some L' ∧
      L'.errors = [⟨"Division by zero".toList, 2, 6⟩] ∧
      L'.tokens.getLast? = some ⟨[], TokenType.ENDOFFILE, 2, 6⟩ ∧
      L'.symbolTable.find "a".toList = some ⟨1, "unknown".toList, "N/A".toList⟩ ∧
      L'.symbolTable.find "b".toList = some ⟨2, "unknown".toList, "N/A".toList⟩) ∧
    ∃ L', tokenize F (create "b = 5".toList [0]) = some L' ∧ L'.errors = [] ∧
      L'.symbolTable.find "b".toList = some ⟨1, "int".toList, "5".toList⟩ := by
  refine ⟨fun L => ?_, fun i L => ?_, tokenize_division_then_assignment,
    tokenize_assignment_alone F⟩
  · obtain ⟨Lf, L', new, h1, h2, h3, _, _, h4, h5⟩ := tokenize_stamped F L
    exact ⟨Lf, L', new, h1, h2, h3, h4, h5⟩
  · obtain ⟨k1, k2, _, new, k4, k5⟩ := processAssignmentsStep_stamped F i L
    exact ⟨new, k4, k1, k2, k5⟩

end PythonLexer
end PyAnalyzer
namespace PyAnalyzer
namespace PythonLexer

/-! ## C36: an assignment whose right side is one identifier -/

/-- The shortcut for a right side of one identifier. -/
theorem singleTokenShortcut_identifier (L : PythonLexer) (lhs : List Char) (t : Token)
    (ht : t.type = TokenType.IDENTIFIER) :
    singleTokenShortcut L lhs t =
      if L.symbolTable.count t.lexeme then
        some { L with
          symbolTable := L.symbolTable.setIdentifierInfo lhs
            (L.symbolTable.getDataType t.lexeme) (L.symbolTable.getValue t.lexeme) }
      else some (L.addError ("Undefined identifier in assignment: ".toList ++ t.lexeme)) := by
  unfold singleTokenShortcut
  rw [ht]

/-- A round of the post-pass at `name = t` with `t` an identifier and no
error on its lines. -/
theorem processAssignmentsStep_identifier (F : DoubleArith) (L : PythonLexer) (i : Nat)
    (tn te t tz : Token) (tail : List Token)
    (h0 : L.tokens.get? i = some tn) (hn : tn.type = TokenType.IDENTIFIER)
    (h1 : L.tokens.get? (i + 1) = some te) (he : te.type = TokenType.EQUALOPERATOR)
    (hdrop : L.tokens.drop (i + 2) = t :: tz :: tail)
    (ht : t.type = TokenType.IDENTIFIER) (hz : endsAssignment tz = true)
    (hclean : ∀ err ∈ L.errors, err.line < tn.line ∨ tz.line < err.line) :
    processAssignmentsStep F i L =
      (i + 3,
        if L.symbolTable.count t.lexeme then
          { L with
            symbolTable := L.symbolTable.setIdentifierInfo tn.lexeme
              (L.symbolTable.getDataType t.lexeme) (L.symbolTable.getValue t.lexeme) }
        else L.addError ("Undefined identifier in assignment: ".toList ++ t.lexeme)) := by
  have hexpr : ∀ u ∈ [t], endsAssignment u = false := by
    intro u hu
    rw [List.mem_singleton] at hu
    subst hu
    simp [endsAssignment, ht]
  rw [processAssignmentsStep_infer F L i tn te tz [t] tail h0 hn h1 he hdrop hexpr hz hclean]
  unfold inferAssignment
  simp only [singleTokenShortcut_identifier L tn.lexeme t ht, List.length_singleton]
  split_ifs <;> rfl

/-- In a state whose symbol table is `Ordered` with its tokens (every state
of the post-pass of `tokenize` is), an identifier token followed by the end
of a line is a name of the table. -/
theorem count_of_ordered (L : PythonLexer) (i : Nat) (t tz : Token) (tail : List Token)
    (ho : Ordered L.tokenKinds L.symbolTable)
    (hdrop : L.tokens.drop i = t :: tz :: tail)
    (ht : t.type = TokenType.IDENTIFIER) (hz : endsAssignment tz = true) :
    L.symbolTable.count t.lexeme = true := by
  have hi : L.tokens[i]? = some t := by
    have h := congrArg (fun l => l[0]?) hdrop
    simpa [List.getElem?_drop] using h
  have hi1 : L.tokens[i + 1]? = some tz := by
    have h := congrArg (fun l => l[1]?) hdrop
    simpa [List.getElem?_drop] using h
  refine (ho.2 i t.lexeme ?_ ?_).1
  · simp [tokenKinds, List.getElem?_map, hi, ht]
  · simp only [tokenKinds, List.getElem?_map, hi1, Option.map_some', ne_eq, Option.some.injEq,
      openParen, Prod.mk.injEq, not_and]
    intro _ hty
    simp [endsAssignment, hty] at hz

/-- The state that the post-pass of `tokenize` starts from is `Ordered`. -/
theorem ordered_after_scan (source : List Char) (stack : List Nat) :
    ∃ Lf, tokenizeLoop source.length (create source stack) = some Lf ∧
      Ordered (Lf.addToken [] TokenType.ENDOFFILE).tokenKinds
        (Lf.addToken [] TokenType.ENDOFFILE).symbolTable := by
  obtain ⟨Lf, h1, _⟩ := tokenizeLoop_some source.length (create source stack) (le_refl _)
  obtain ⟨ht, hc⟩ := tokenizeLoop_tracked _ _ Lf h1 (tracked_create source stack)
  obtain ⟨_, ho⟩ := ordered_of_tracked_end Lf ht hc
  refine ⟨Lf, h1, ?_⟩
  rw [tokenKinds_addToken]
  exact ordered_append_plain ho _ (by simp)

/-- C36, as the code runs: (1) a round of the post-pass at `name = t`, `t` an
identifier and no error on the lines, copies the type and the value of `t`
to `name` when `t` is in the symbol table, and otherwise appends the error
"Undefined identifier in assignment: t"; (2) the state that the post-pass
starts from in a run of `tokenize` has every identifier token that is
followed by the end of the line in its symbol table, and every round keeps
it so, hence the round at `name = t` always copies and the error is never
appended; (3) on the source "x = y" with a newline, `y` is in the table from
the scan with the type "unknown" and the value "N/A", and `x` gets these: no
error is recorded. -/
theorem single_identifier_is_copied (F : DoubleArith) :
    (∀ (L : PythonLexer) (i : Nat) (tn te t tz : Token) (tail : List Token),
      L.tokens.get? i = some tn → tn.type = TokenType.IDENTIFIER →
      L.tokens.get? (i + 1) = some te → te.type = TokenType.EQUALOPERATOR →
      L.tokens.drop (i + 2) = t :: tz :: tail →
      t.type = TokenType.IDENTIFIER → endsAssignment tz = true →
      (∀ err ∈ L.errors, err.line < tn.line ∨ tz.line < err.line) →
      processAssignmentsStep F i L =
        (i + 3,
          if L.symbolTable.count t.lexeme then
            { L with
              symbolTable := L.symbolTable.setIdentifierInfo tn.lexeme
                (L.symbolTable.getDataType t.lexeme) (L.symbolTable.getValue t.lexeme) }
          else L.addError ("Undefined identifier in assignment: ".toList ++ t.lexeme))) ∧
    (∀ (source : List Char) (stack : List Nat),
      ∃ Lf, tokenizeLoop source.length (create source stack) = some Lf ∧
        Ordered (Lf.addToken [] TokenType.ENDOFFILE).tokenKinds
          (Lf.addToken [] TokenType.ENDOFFILE).symbolTable) ∧
    (∀ (L : PythonLexer) (i : Nat), Ordered L.tokenKinds L.symbolTable →
      Ordered (processAssignmentsStep F i L).2.tokenKinds
        (processAssignmentsStep F i L).2.symbolTable) ∧
    (∀ (L : PythonLexer) (i : Nat) (tn te t tz : Token) (tail : List Token),
      Ordered L.tokenKinds L.symbolTable →
      L.tokens.get? i = some tn → tn.type = TokenType.IDENTIFIER →
      L.tokens.get? (i + 1) = some te → te.type = TokenType.EQUALOPERATOR →
      L.tokens.drop (i + 2) = t :: tz :: tail →
      t.type = TokenType.IDENTIFIER → endsAssignment tz = true →
      (∀ err ∈ L.errors, err.line < tn.line ∨ tz.line < err.line) →
      processAssignmentsStep F i L =
        (i + 3,
          { L with
            symbolTable := L.symbolTable.setIdentifierInfo tn.lexeme
              (L.symbolTable.getDataType t.lexeme) (L.symbolTable.getValue t.lexeme) })) ∧
    ∃ L', tokenize F (create "x = y\n".toList [0]) = some L' ∧
      L'.tokenKinds = [("x".toList, TokenType.IDENTIFIER), ("=".toList, TokenType.EQUALOPERATOR),
        ("y".toList, TokenType.IDENTIFIER), ("\n".toList, TokenType.NEWLINE),
        ([], TokenType.ENDOFFILE)] ∧
      L'.errors = [] ∧
      L'.symbolTable.symbols = [("x".toList, ⟨1, "unknown".toList, "N/A".toList⟩),
        ("y".toList, ⟨2, "unknown".toList, "N/A".toList⟩)] := by
  refine ⟨?_, ordered_after_scan, ?_, ?_, ?_⟩
  · intro L i tn te t tz tail h0 hn h1 he hdrop ht hz hclean
    exact processAssignmentsStep_identifier F L i tn te t tz tail h0 hn h1 he hdrop ht hz hclean
  · intro L i ho
    have htok : (processAssignmentsStep F i L).2.tokenKinds = L.tokenKinds := by
      unfold tokenKinds
      rw [processAssignmentsStep_tokens]
    rw [htok]
    exact processAssignmentsStep_ordered F _ i L ho
  · intro L i tn te t tz tail ho h0 hn h1 he hdrop ht hz hclean
    rw [processAssignmentsStep_identifier F L i tn te t tz tail h0 hn h1 he hdrop ht hz hclean,
      if_pos (count_of_ordered L (i + 2) t tz tail ho hdrop ht hz)]
  · obtain ⟨Lf, hloop, htok, herr, hsym⟩ : ∃ Lf,
        tokenizeLoop 6 (create "x = y\n".toList [0]) = some Lf ∧
        Lf.tokens = [⟨"x".toList, TokenType.IDENTIFIER, 1, 1⟩,
          ⟨"=".toList, TokenType.EQUALOPERATOR, 1, 2⟩, ⟨"y".toList, TokenType.IDENTIFIER, 1, 5⟩,
          ⟨"\n".toList, TokenType.NEWLINE, 1, 5⟩] ∧
        Lf.errors = [] ∧
        Lf.symbolTable = ⟨[("x".toList, ⟨1, "unknown".toList, "N/A".toList⟩),
          ("y".toList, ⟨2, "unknown".toList, "N/A".toList⟩)], 3⟩ := ⟨_, rfl, rfl, rfl, rfl⟩
    have h := tokenize_one_infer F (create "x = y\n".toList [0]) Lf
      ⟨"x".toList, TokenType.IDENTIFIER, 1, 1⟩ ⟨"=".toList, TokenType.EQUALOPERATOR, 1, 2⟩
      ⟨"\n".toList, TokenType.NEWLINE, 1, 5⟩ [⟨"y".toList, TokenType.IDENTIFIER, 1, 5⟩]
      hloop htok rfl rfl (by decide) rfl herr
    refine ⟨_, h, ?_, ?_, ?_⟩
    · simp [inferAssignment, singleTokenShortcut, SymbolTable.count, SymbolTable.find, hsym,
        addToken, tokenKinds, htok]
    · simp [inferAssignment, singleTokenShortcut, SymbolTable.count, SymbolTable.find, hsym,
        addToken, herr]
    · simp [inferAssignment, singleTokenShortcut, SymbolTable.count, SymbolTable.find, hsym,
        addToken, SymbolTable.setIdentifierInfo, SymbolTable.getDataType, SymbolTable.getValue]

end PythonLexer
end PyAnalyzer
namespace PyAnalyzer
namespace PythonLexer

/-! ## C34: mismatched parentheses -/

theorem opens_cons_open (t : Token) (ops : List Token) (h : t.lexeme = "(".toList) :
    opens (t :: ops) = opens ops + 1 := by
  simp [opens, List.countP_cons, h]

theorem opens_cons_other (t : Token) (ops : List Token) (h : t.lexeme ≠ "(".toList) :
    opens (t :: ops) = opens ops := by
  unfold opens
  rw [List.countP_cons_of_neg]
  simpa using h

theorem balancedFrom_cons (depth : Nat) (t : Token) (input : List Token) :
    balancedFrom depth (t :: input) =
      if t.lexeme = "(".toList then balancedFrom (depth + 1) input
      else if t.lexeme = ")".toList then
        match depth with
        | 0 => false
        | depth + 1 => balancedFrom depth input
      else balancedFrom depth input := by
  cases depth <;> rfl

theorem opsOk_cons {t : Token} {ops : List Token} (h1 : t.lexeme ≠ ")".toList)
    (h2 : t.lexeme = "(".toList → precedence t = 0) (h : OpsOk ops) : OpsOk (t :: ops) := by
  intro u hu
  rcases List.mem_cons.mp hu with rfl | hu
  · exact ⟨h1, h2⟩
  · exact h u hu

theorem opsOk_tail {t : Token} {ops : List Token} (h : OpsOk (t :: ops)) : OpsOk ops :=
  fun u hu => h u (List.mem_cons_of_mem _ hu)

theorem precedence_of_operator (t : Token) (h : isArithOperatorType t.type = true) :
    2 ≤ precedence t := by
  unfold precedence
  cases ht : t.type <;> simp [isArithOperatorType, ht] at h ⊢

theorem precedence_of_other (t : Token) (h : isArithOperatorType t.type = false) :
    precedence t = 0 := by
  unfold precedence
  cases ht : t.type <;> simp [isArithOperatorType, ht] at h ⊢

/-- The operators popped for an operator `op` leave every "(" on the stack. -/
theorem popOperators_opens (op : Token) (hop : 2 ≤ precedence op) (ops : List Token)
    (h : OpsOk ops) :
    opens (popOperators op ops).2 = opens ops ∧ OpsOk (popOperators op ops).2 := by
  induction ops with
  | nil => exact ⟨rfl, h⟩
  | cons top ops ih =>
    unfold popOperators
    split_ifs with hc
    · have hne : top.lexeme ≠ "(".toList := by
        intro hl
        have h0 := (h top (List.mem_cons_self _ _)).2 hl
        rw [h0] at hc
        simp at hc
        omega
      obtain ⟨ih1, ih2⟩ := ih (opsOk_tail h)
      exact ⟨by rw [opens_cons_other top ops hne]; exact ih1, ih2⟩
    · exact ⟨rfl, h⟩

/-- The stack left by the pops for a ")": empty when no "(" was on it, and
else the nearest "(" with what was below it. -/
theorem popToOpenParen_opens (ops : List Token) (h : OpsOk ops) :
    (opens ops = 0 → (popToOpenParen ops).2 = []) ∧
    (∀ d, opens ops = d + 1 →
      ∃ top ops', (popToOpenParen ops).2 = top :: ops' ∧ opens ops' = d ∧ OpsOk ops') := by
  induction ops with
  | nil => exact ⟨fun _ => rfl, fun d hd => absurd hd (by simp [opens])⟩
  | cons top ops ih =>
    unfold popToOpenParen
    by_cases hl : top.lexeme = "(".toList
    · rw [if_neg (not_not.mpr hl)]
      refine ⟨fun h0 => ?_, fun d hd => ⟨top, ops, rfl, ?_, opsOk_tail h⟩⟩
      · rw [opens_cons_open top ops hl] at h0
        omega
      · rw [opens_cons_open top ops hl] at hd
        omega
    · rw [if_pos hl]
      rw [opens_cons_other top ops hl]
      exact ih (opsOk_tail h)

/-- The final loop of `toRPN` fails exactly when a "(" is left on the
stack. -/
theorem drainOperators_opens (ops : List Token) (h : OpsOk ops) (output : List Token) :
    (opens ops = 0 → ∃ rpn, drainOperators ops output = .ok rpn) ∧
    (opens ops ≠ 0 → drainOperators ops output = .error "Mismatched parentheses".toList) := by
  induction ops generalizing output with
  | nil => exact ⟨fun _ => ⟨output, rfl⟩, fun hd => absurd rfl hd⟩
  | cons top ops ih =>
    unfold drainOperators
    by_cases hl : top.lexeme = "(".toList
    · rw [if_pos (Or.inl hl)]
      refine ⟨fun h0 => ?_, fun _ => rfl⟩
      rw [opens_cons_open top ops hl] at h0
      omega
    · rw [if_neg (by
        intro hor
        rcases hor with h1 | h1
        · exact hl h1
        · exact (h top (List.mem_cons_self _ _)).1 h1)]
      rw [opens_cons_other top ops hl]
      exact ih (opsOk_tail h) _

theorem plainOperands_tail {t : Token} {input : List Token} (h : PlainOperands (t :: input)) :
    PlainOperands input :=
  fun u hu => h u (List.mem_cons_of_mem _ hu)

/-- The loop of `toRPN` ends well exactly when the parentheses of the rest
of the input are balanced with those open on the stack, and fails with
"Mismatched parentheses" when they are not. -/
theorem toRPNLoop_balanced (input : List Token) :
    ∀ (prev : Option Token) (output ops : List Token), PlainOperands input → OpsOk ops →
      (balancedFrom (opens ops) input = true → ∃ rpn, toRPNLoop prev input output ops = .ok rpn) ∧
      (balancedFrom (opens ops) input = false →
        toRPNLoop prev input output ops = .error "Mismatched parentheses".toList) := by
  induction input with
  | nil =>
    intro prev output ops _ hops
    obtain ⟨h1, h2⟩ := drainOperators_opens ops hops output
    rw [toRPNLoop_nil]
    refine ⟨fun hb => h1 ?_, fun hb => h2 ?_⟩
    · simpa [balancedFrom] using hb
    · simpa [balancedFrom] using hb
  | cons t input ih =>
    intro prev output ops hin hops
    have hin' := plainOperands_tail hin
    have ht := hin t (List.mem_cons_self _ _)
    by_cases h1 : isOperandType t.type = true
    · obtain ⟨hl, hr⟩ := ht (by simp [h1])
      have hb : balancedFrom (opens ops) (t :: input) = balancedFrom (opens ops) input := by
        rw [balancedFrom_cons, if_neg hl, if_neg hr]
      rw [hb, toRPNLoop_cons, if_pos h1]
      exact ih _ _ _ hin' hops
    · by_cases h2 : isArithOperatorType t.type = true
      · obtain ⟨hl, hr⟩ := ht (by simp [h2])
        have hb : balancedFrom (opens ops) (t :: input) = balancedFrom (opens ops) input := by
          rw [balancedFrom_cons, if_neg hl, if_neg hr]
        rw [hb, toRPNLoop_cons, if_neg h1, if_pos h2]
        obtain ⟨op, hop⟩ : ∃ op : Token, op = (if (t.type == TokenType.MINUSOPERATOR &&
            (match prev with
             | none => true
             | some p => p.lexeme == "(".toList || isArithOperatorType p.type)) = true
          then { t with type := TokenType.MINUSOPERATOR } else t) := ⟨_, rfl⟩
        have hlex : op.lexeme = t.lexeme := by
          rw [hop]
          split_ifs <;> rfl
        have hprec : 2 ≤ precedence op := by
          rw [hop]
          split_ifs
          · exact precedence_of_operator _ rfl
          · exact precedence_of_operator _ h2
        obtain ⟨k1, k2⟩ := popOperators_opens op hprec ops hops
        have hops' : OpsOk (op :: (popOperators op ops).2) :=
          opsOk_cons (by rw [hlex]; exact hr) (fun h => absurd (hlex ▸ h) hl) k2
        have := ih (some t) (output ++ (popOperators op ops).1) (op :: (popOperators op ops).2)
          hin' hops'
        rw [opens_cons_other op _ (by rw [hlex]; exact hl), k1] at this
        subst hop
        exact this
      · rw [toRPNLoop_cons, if_neg h1, if_neg h2]
        have hprec : precedence t = 0 := precedence_of_other t (by simpa using h2)
        by_cases hl : t.lexeme = "(".toList
        · have hb : balancedFrom (opens ops) (t :: input) =
              balancedFrom (opens ops + 1) input := by
            rw [balancedFrom_cons, if_pos hl]
          have hops' : OpsOk (t :: ops) :=
            opsOk_cons (by rw [hl]; decide) (fun _ => hprec) hops
          have := ih (some t) output (t :: ops) hin' hops'
          rw [opens_cons_open t ops hl] at this
          rw [hb, if_pos hl]
          exact this
        · rw [if_neg hl]
          by_cases hr : t.lexeme = ")".toList
          · rw [if_pos hr]
            obtain ⟨p1, p2⟩ := popToOpenParen_opens ops hops
            cases hd : opens ops with
            | zero =>
              have hb : balancedFrom 0 (t :: input) = false := by
                rw [balancedFrom_cons, if_neg hl, if_pos hr]
              rw [hb, p1 hd]
              exact ⟨fun h => absurd h (by simp), fun _ => rfl⟩
            | succ d =>
              obtain ⟨top, ops', q1, q2, q3⟩ := p2 d hd
              have hb : balancedFrom (d + 1) (t :: input) = balancedFrom d input := by
                rw [balancedFrom_cons, if_neg hl, if_pos hr]
              rw [hb, q1]
              have := ih (some t) (output ++ (popToOpenParen ops).1) ops' hin' q3
              rw [q2] at this
              exact this
          · have hb : balancedFrom (opens ops) (t :: input) =
                balancedFrom (opens ops) input := by
              rw [balancedFrom_cons, if_neg hl, if_neg hr]
            rw [hb, if_neg hr]
            exact ih _ _ _ hin' hops

/-- `toRPN` and the balance of the parentheses. -/
theorem toRPN_balanced (input : List Token) (hin : PlainOperands input) :
    (parenthesesBalanced input = true → ∃ rpn, toRPN input = .ok rpn) ∧
    (parenthesesBalanced input = false →
      toRPN input = .error "Mismatched parentheses".toList) :=
  toRPNLoop_balanced input none [] [] hin (fun u hu => absurd hu (List.not_mem_nil u))

end PythonLexer
end PyAnalyzer
namespace PyAnalyzer
namespace PythonLexer

/-- The general case of the inference when `toRPN` fails. -/
theorem foldAssignment_toRPN_error (F : DoubleArith) (L : PythonLexer) (lhs : List Char)
    (expr : List Token) (what : List Char) (h : toRPN expr = .error what) :
    foldAssignment F L lhs expr =
      { L.addError what with
        symbolTable := L.symbolTable.setIdentifierInfo lhs "unknown".toList "N/A".toList } := by
  unfold foldAssignment
  rw [h]
  rfl

/-- The inference is the general case when no shortcut applies. -/
theorem inferAssignment_no_shortcut (F : DoubleArith) (L : PythonLexer) (lhs : List Char)
    (expr : List Token) (h : ∀ t, expr = [t] → singleTokenShortcut L lhs t = none) :
    inferAssignment F L lhs expr = foldAssignment F L lhs expr := by
  unfold inferAssignment
  split
  · rename_i t
    rw [h t rfl]
  · rfl

end PythonLexer
end PyAnalyzer
namespace PyAnalyzer
namespace SyntaxAnalyzer

/-! ## C37: a string literal as a statement -/

/-- `parseExpression` on a STRING token whose lexeme is not "(" and that a
stopping token follows. -/
theorem parseExpression_string (fuel : Nat) {ts : List Token} {i : Nat} {t n : Token}
    (h : ts.get? i = some t) (hn : ts.get? (i + 1) = some n)
    (hty : t.type = TokenType.STRING) (hl : t.lexeme ≠ "(".toList)
    (hstop : stopsOperand n = true) :
    parseExpression (fuel + 3) (atPos ts i) =
      .ok (some (ParseNode.leaf "String" t.lexeme), atPos ts (i + 1)) := by
  obtain ⟨hn1, hn2, hn3, hn4, hn5⟩ := stopsOperand_facts hstop
  have hne : t.type ≠ TokenType.ENDOFFILE := by rw [hty]; exact TokenType.noConfusion
  have ht1 : t.type ≠ TokenType.WHITESPACE := by rw [hty]; exact TokenType.noConfusion
  have ht2 : t.type ≠ TokenType.COMMENT := by rw [hty]; exact TokenType.noConfusion
  have ht3 : isBlockEnd t = false := by
    unfold isBlockEnd
    rw [hty]
    rfl
  have hfactor : parseFactor (fuel + 1) (atPos ts i) =
      .ok (some (ParseNode.leaf "String" t.lexeme), atPos ts (i + 1)) := by
    rw [parseFactor]
    rw [skipWhile_atPos_stop h isWs (by
      unfold isWs
      rw [hty]
      rfl)]
    rw [matchLexeme_atPos_false h "(" hl]
    simp only [Bool.false_eq_true, if_false, currentToken_atPos h, advance_atPos h hne, hty,
      if_true]
    rfl
  have hterm : parseTerm (fuel + 2) (atPos ts i) =
      .ok (some (ParseNode.leaf "String" t.lexeme), atPos ts (i + 1)) := by
    rw [parseTerm, skipWhile_wsOrComment_stop h ht1 ht2, hfactor]
    simp only [bind, Except.bind]
    rw [parseTermLoop, skipWhile_wsOrComment_stop hn hn1 hn2, matchAny_atPos_none hn _ hn4]
    rfl
  rw [parseExpression, skipWhile_wsOrComment_stop h ht1 ht2, currentToken_atPos h, ht3]
  simp only [Bool.false_eq_true, if_false, hterm, bind, Except.bind]
  rw [parseExpressionLoop]
  by_cases hend : (atPos ts (i + 1)).isAtEnd = true
  · simp only [hend, if_true]
    rfl
  · simp only [hend, if_false, skipWhile_wsOrComment_stop hn hn1 hn2, currentToken_atPos hn,
      matchAny_atPos_none hn _ hn5, ite_self]
    rfl

/-- `parseStmt` on a STRING token whose lexeme is none of `matchedLexemes`
and that a stopping token follows. -/
theorem parseStmt_string (fuel : Nat) {ts : List Token} {i : Nat} {t n : Token}
    (h : ts.get? i = some t) (hn : ts.get? (i + 1) = some n)
    (hty : t.type = TokenType.STRING)
    (hr : ∀ s ∈ matchedLexemes, t.lexeme ≠ String.toList s)
    (hstop : stopsOperand n = true) :
    parseStmt (fuel + 5) (atPos ts i) =
      .ok (some (ParseNode.node "ExprStmt".toList [] [ParseNode.leaf "String" t.lexeme]),
        atPos ts (i + 1)) := by
  have hf : ∀ s ∈ matchedLexemes, (atPos ts i).matchLexeme s = (false, atPos ts i) :=
    fun s hs => matchLexeme_atPos_false h s (hr s hs)
  obtain ⟨s1, s2, s3, s4⟩ := parseStmt_skips h (by rw [hty]; exact TokenType.noConfusion)
    (by rw [hty]; exact TokenType.noConfusion) (by rw [hty]; exact TokenType.noConfusion)
    (by rw [hty]; exact TokenType.noConfusion) (by rw [hty]; exact TokenType.noConfusion)
    (hr ":" (by simp [matchedLexemes]))
  have hexpr := parseExpression_string fuel h hn hty (hr "(" (by simp [matchedLexemes])) hstop
  rw [parseStmt]
  simp only [currentToken_atPos h, show t.type ≠ TokenType.DEDENT by
      rw [hty]; exact TokenType.noConfusion,
    if_false, s1, s2, s3, s4,
    hf "if" (by simp [matchedLexemes]), hf "for" (by simp [matchedLexemes]),
    hf "while" (by simp [matchedLexemes]), hf "def" (by simp [matchedLexemes]),
    hf "return" (by simp [matchedLexemes]), hf "pass" (by simp [matchedLexemes]),
    hf "else" (by simp [matchedLexemes]), hf "elif" (by simp [matchedLexemes]),
    hf "break" (by simp [matchedLexemes]), hf "continue" (by simp [matchedLexemes]),
    Bool.false_eq_true, hty]
  rw [if_neg (by exact TokenType.noConfusion), parseExprStmt]
  simp only [bind, Except.bind, hexpr]
  rfl

/-- The tokens of a string literal alone on its line, when its content is
none of `matchedLexemes`, parse to `Program(ExprStmt(String(content)))` with
no syntax error. -/
theorem parseProgram_string (content : List Char) (l1 c1 l2 c2 l3 c3 : Int)
    (hr : ∀ s ∈ matchedLexemes, content ≠ String.toList s) :
    ∃ S, parseProgram [⟨content, TokenType.STRING, l1, c1⟩,
        ⟨"\n".toList, TokenType.NEWLINE, l2, c2⟩, ⟨[], TokenType.ENDOFFILE, l3, c3⟩] =
      .ok (ParseNode.node "Program".toList []
        [ParseNode.node "ExprStmt".toList [] [ParseNode.leaf "String" content]], S) ∧
      S.syntaxErrors = [] ∧ S.pos = 2 := by
  obtain ⟨ts, hts⟩ : ∃ ts : List Token, ts = [⟨content, TokenType.STRING, l1, c1⟩,
    ⟨"\n".toList, TokenType.NEWLINE, l2, c2⟩, ⟨[], TokenType.ENDOFFILE, l3, c3⟩] := ⟨_, rfl⟩
  have g0 : ts.get? 0 = some ⟨content, TokenType.STRING, l1, c1⟩ := by rw [hts]; rfl
  have g1 : ts.get? 1 = some ⟨"\n".toList, TokenType.NEWLINE, l2, c2⟩ := by rw [hts]; rfl
  have g2 : ts.get? 2 = some ⟨[], TokenType.ENDOFFILE, l3, c3⟩ := by rw [hts]; rfl
  have hstmt := parseStmt_string 123 g0 g1 rfl hr rfl
  have hfuel : parseFuel ts = 123 + 5 := by rw [hts]; rfl
  have hlen : ts.length + 1 = 3 + 1 := by rw [hts]; rfl
  have hstart : ({ tokens := ts } : SyntaxAnalyzer) = (atPos ts 0).prepend [] := rfl
  rw [← hts]
  refine ⟨(atPos ts 2).prepend [], ?_, rfl, rfl⟩
  unfold parseProgram
  rw [hfuel, hlen, hstart,
    parseProgramLoop_stmt (123 + 5) 3 [] [] [] _ g0 (by exact TokenType.noConfusion)
      (by exact TokenType.noConfusion) hstmt (by decide),
    parseProgramLoop_newline (123 + 5) 2 _ _ g1 rfl,
    parseProgramLoop_eof (123 + 5) 1 _ _ g2 rfl]
  rfl

end SyntaxAnalyzer
end PyAnalyzer
namespace PyAnalyzer
namespace SyntaxAnalyzer

set_option maxHeartbeats 4000000 in
/-- C37, as the code runs: `match` compares the lexeme of the current token
and not its kind, and the lexeme of a STRING token is the content of the
literal.  (1) A string literal alone on its line whose content is none of
the lexemes that `parseStmt` and `parseFactor` test with `match` parses to
`Program(ExprStmt(String(content)))` with no syntax error.  (2) The source
`"pass"` with a newline parses to `Program(PassStmt)`; (3) the source `"if"`
parses to an empty `Program` with the error "Invalid expression in if
condition"; (4) the source `"("` parses to an empty `Program` with the
errors "Expected ')' after expression" and "Invalid expression or unknown
statement". -/
theorem string_statement_read_by_lexeme :
    (∀ (content : List Char) (l1 c1 l2 c2 l3 c3 : Int),
      (∀ s ∈ matchedLexemes, content ≠ String.toList s) →
      ∃ S, parseProgram [⟨content, TokenType.STRING, l1, c1⟩,
          ⟨"\n".toList, TokenType.NEWLINE, l2, c2⟩, ⟨[], TokenType.ENDOFFILE, l3, c3⟩] =
        .ok (ParseNode.node "Program".toList []
          [ParseNode.node "ExprStmt".toList [] [ParseNode.leaf "String" content]], S) ∧
        S.syntaxErrors = []) ∧
    (∃ L' S, PythonLexer.tokenize exactArith
        (PythonLexer.create "\"pass\"\n".toList [0]) = some L' ∧
      L'.errors = [] ∧
      L'.tokenKinds = [("pass".toList, TokenType.STRING), ("\n".toList, TokenType.NEWLINE),
        ([], TokenType.ENDOFFILE)] ∧
      parseProgram (filterComments L'.tokens) =
        .ok (ParseNode.node "Program".toList [] [ParseNode.leaf "PassStmt"], S) ∧
      S.syntaxErrors = []) ∧
    (∃ L' S, PythonLexer.tokenize exactArith
        (PythonLexer.create "\"if\"\n".toList [0]) = some L' ∧
      L'.errors = [] ∧
      L'.tokenKinds = [("if".toList, TokenType.STRING), ("\n".toList, TokenType.NEWLINE),
        ([], TokenType.ENDOFFILE)] ∧
      parseProgram (filterComments L'.tokens) =
        .ok (ParseNode.node "Program".toList [] [], S) ∧
      S.syntaxErrors.map SyntaxError.message =
        ["Invalid expression in if condition".toList]) ∧
    ∃ L' S, PythonLexer.tokenize exactArith
        (PythonLexer.create "\"(\"\n".toList [0]) = some L' ∧
      L'.errors = [] ∧
      L'.tokenKinds = [("(".toList, TokenType.STRING), ("\n".toList, TokenType.NEWLINE),
        ([], TokenType.ENDOFFILE)] ∧
      parseProgram (filterComments L'.tokens) =
        .ok (ParseNode.node "Program".toList [] [], S) ∧
      S.syntaxErrors.map SyntaxError.message =
        ["Expected ')' after expression".toList,
          "Invalid expression or unknown statement".toList] := by
  refine ⟨?_, ⟨_, _, rfl, rfl, rfl, rfl, rfl⟩, ⟨_, _, rfl, rfl, rfl, rfl, rfl⟩,
    ⟨_, _, rfl, rfl, rfl, rfl, rfl⟩⟩
  intro content l1 c1 l2 c2 l3 c3 hr
  obtain ⟨S, h1, h2, _⟩ := parseProgram_string content l1 c1 l2 c2 l3 c3 hr
  exact ⟨S, h1, h2⟩

/-- Part (1) of `string_statement_read_by_lexeme` on the content "hello". -/
theorem string_statement_read_by_lexeme_witness :
    ∃ S, parseProgram [⟨"hello".toList, TokenType.STRING, 1, 3⟩,
        ⟨"\n".toList, TokenType.NEWLINE, 1, 7⟩, ⟨[], TokenType.ENDOFFILE, 2, 1⟩] =
      .ok (ParseNode.node "Program".toList []
        [ParseNode.node "ExprStmt".toList [] [ParseNode.leaf "String" "hello".toList]], S) ∧
      S.syntaxErrors = [] :=
  string_statement_read_by_lexeme.1 "hello".toList 1 3 1 7 2 1 (by decide)

end SyntaxAnalyzer
end PyAnalyzer
namespace PyAnalyzer
namespace SyntaxAnalyzer

/-! ## C33: a null `IfStmt` handed to `parseIfChain` -/

set_option maxHeartbeats 4000000 in
/-- C33, as the code runs: `parseStmt` hands the result of `parseIfCore` to
`parseIfChain` without a test, and `parseIfChain` attaches a valid `elif` or
`else` clause to the node it was given.  On the tokens of "if x:", "elif y:"
and an indented "pass", `parseIfCore` records "Expected indented block after
'if'" and returns null at the `elif`, `parseIfChain` then reads the whole
`elif` clause and pushes it to the children of the null node, and so does
`parseProgram`; the same happens with `else:` in the place of `elif y:`. -/
theorem null_if_node_is_dereferenced :
    (∃ L', PythonLexer.tokenize exactArith
        (PythonLexer.create "if x:\nelif y:\n    pass\n".toList [0]) = some L' ∧
      L'.errors = [] ∧
      L'.tokenKinds = [("if".toList, TokenType.KEYWORD), ("x".toList, TokenType.IDENTIFIER),
        (":".toList, TokenType.DELIMITER), ("\n".toList, TokenType.NEWLINE),
        ("elif".toList, TokenType.KEYWORD), ("y".toList, TokenType.IDENTIFIER),
        (":".toList, TokenType.DELIMITER), ("\n".toList, TokenType.NEWLINE),
        ([], TokenType.INDENT), ("pass".toList, TokenType.KEYWORD),
        ("\n".toList, TokenType.NEWLINE), ([], TokenType.DEDENT), ([], TokenType.ENDOFFILE)] ∧
      (∃ S1, parseIfCore 447 (atPos (filterComments L'.tokens) 1) = .ok (none, S1) ∧
        S1.syntaxErrors.map SyntaxError.message =
          ["Expected indented block after 'if'".toList] ∧
        S1.pos = 4 ∧ S1.tokens = filterComments L'.tokens ∧
        parseIfChain 447 none S1 = .error Fault.nullDereference) ∧
      parseProgram (filterComments L'.tokens) = .error Fault.nullDereference) ∧
    ∃ L', PythonLexer.tokenize exactArith
        (PythonLexer.create "if x:\nelse:\n    pass\n".toList [0]) = some L' ∧
      L'.errors = [] ∧
      L'.tokenKinds = [("if".toList, TokenType.KEYWORD), ("x".toList, TokenType.IDENTIFIER),
        (":".toList, TokenType.DELIMITER), ("\n".toList, TokenType.NEWLINE),
        ("else".toList, TokenType.KEYWORD), (":".toList, TokenType.DELIMITER),
        ("\n".toList, TokenType.NEWLINE), ([], TokenType.INDENT),
        ("pass".toList, TokenType.KEYWORD), ("\n".toList, TokenType.NEWLINE),
        ([], TokenType.DEDENT), ([], TokenType.ENDOFFILE)] ∧
      parseProgram (filterComments L'.tokens) = .error Fault.nullDereference :=
  ⟨⟨_, rfl, rfl, rfl, ⟨_, rfl, rfl, rfl, rfl, rfl⟩, rfl⟩, ⟨_, rfl, rfl, rfl, rfl⟩⟩

end SyntaxAnalyzer
end PyAnalyzer
namespace PyAnalyzer
namespace SyntaxAnalyzer

/-! ## C32: a header that no indented block follows -/

/-- `checkIndentation` fails exactly when the token reached after the
newlines (and white space) is no INDENT; it then adds its error at that
token and stays there. -/
theorem checkIndentation_fails (S : SyntaxAnalyzer) (stmtType : String) :
    ((S.checkIndentation stmtType).1 = false ↔
      ((S.skipWhile isNewline).skipWhile isWs).currentToken.type ≠ TokenType.INDENT) ∧
    ((S.checkIndentation stmtType).1 = false →
      (S.checkIndentation stmtType).2 =
        ((S.skipWhile isNewline).skipWhile isWs).errorHere
          ("Expected indented block after '" ++ stmtType ++ "'")) := by
  unfold checkIndentation
  dsimp only
  split_ifs with h
  · exact ⟨⟨fun _ => h, fun _ => rfl⟩, fun _ => rfl⟩
  · exact ⟨⟨fun h' => absurd h' (by simp), fun h' => absurd h' h⟩, fun h' => absurd h' (by simp)⟩

/-- `parseIfCore` returns no node when the indentation check fails. -/
theorem parseIfCore_unindented (fuel : Nat) (S S1 : SyntaxAnalyzer) (cond : ParseNode)
    (hcond : parseComparison fuel S = .ok (some cond, S1))
    (hcolon : (S1.matchLexeme ":").1 = true)
    (hind : ((S1.matchLexeme ":").2.checkIndentation "if").1 = false) :
    parseIfCore (fuel + 1) S = .ok (none, ((S1.matchLexeme ":").2.checkIndentation "if").2) := by
  rw [parseIfCore]
  simp only [bind, Except.bind, hcond, hcolon, hind, Bool.not_true, Bool.false_eq_true, if_false,
    Bool.not_false, if_true]
  rfl

/-- `parseForStmt` returns its node, without a body, when the indentation
check fails. -/
theorem parseForStmt_unindented (fuel : Nat) (S S1 S2 : SyntaxAnalyzer)
    (targets : List ParseNode) (iterable : ParseNode)
    (htargets : parseForTargets fuel [] S = .ok (some targets, S1))
    (hin : (S1.matchLexeme "in").1 = true)
    (hiter : parseComparison fuel (S1.matchLexeme "in").2 = .ok (some iterable, S2))
    (hcolon : (S2.matchLexeme ":").1 = true)
    (hind : ((S2.matchLexeme ":").2.checkIndentation "for").1 = false) :
    parseForStmt (fuel + 1) S =
      .ok (some (ParseNode.node "ForStmt".toList []
          [ParseNode.node "TargetList".toList [] targets, iterable]),
        ((S2.matchLexeme ":").2.checkIndentation "for").2) := by
  rw [parseForStmt]
  simp only [bind, Except.bind, htargets, hin, hiter, hcolon, hind, Bool.not_true,
    Bool.false_eq_true, if_false, Bool.not_false, if_true]
  rfl

/-- `parseWhileStmt` returns a node whenever it returns. -/
theorem parseWhileStmt_node (fuel : Nat) (S : SyntaxAnalyzer)
    (r : Option ParseNode × SyntaxAnalyzer) (h : parseWhileStmt fuel S = .ok r) :
    ∃ children, r.1 = some (ParseNode.node "WhileStmt".toList [] children) := by
  cases fuel with
  | zero =>
    rw [parseWhileStmt] at h
    exact absurd h (by simp)
  | succ fuel =>
    rw [parseWhileStmt] at h
    simp only [bind, Except.bind] at h
    split at h
    · exact absurd h (by simp)
    · split_ifs at h
      all_goals first
        | (simp only [pure, Except.pure, Except.ok.injEq] at h
           exact ⟨_, by rw [← h]⟩)
        | (split at h
           · exact absurd h (by simp)
           · simp only [pure, Except.pure, Except.ok.injEq] at h
             exact ⟨_, by rw [← h]⟩)

/-- `parseWhileStmt` on a header without parentheses returns its node with
the condition alone when the indentation check fails. -/
theorem parseWhileStmt_unindented (fuel : Nat) (S S1 : SyntaxAnalyzer) (cond : ParseNode)
    (hparen : (S.matchLexeme "(").1 = false)
    (hcond : parseComparison fuel (S.matchLexeme "(").2 = .ok (some cond, S1))
    (heq : S1.currentToken.lexeme ≠ "=".toList)
    (hcolon : (S1.matchLexeme ":").1 = true)
    (hind : ((S1.matchLexeme ":").2.checkIndentation "while").1 = false) :
    parseWhileStmt (fuel + 1) S =
      .ok (some (ParseNode.node "WhileStmt".toList [] [cond]),
        ((S1.matchLexeme ":").2.checkIndentation "while").2) := by
  rw [parseWhileStmt]
  simp only [bind, Except.bind, hparen, hcond, heq, hcolon, hind, Bool.not_true,
    Bool.false_eq_true, if_false, Bool.not_false, if_true, Option.isNone_some, Option.toList_some]
  rfl

/-- `parseFuncDef` returns no node when the indentation check fails. -/
theorem parseFuncDef_unindented (fuel : Nat) (S S1 : SyntaxAnalyzer) (params : Option ParseNode)
    (hname : S.currentToken.type = TokenType.IDENTIFIER)
    (hopen : (S.advance.matchLexeme "(").1 = true)
    (hparams : (if (S.advance.matchLexeme "(").2.currentToken.type = TokenType.IDENTIFIER then
        parseParamList fuel (S.advance.matchLexeme "(").2
      else pure (none, (S.advance.matchLexeme "(").2)) = .ok (params, S1))
    (hclose : (S1.matchLexeme ")").1 = true)
    (hcolon : ((S1.matchLexeme ")").2.matchLexeme ":").1 = true)
    (hind : (((S1.matchLexeme ")").2.matchLexeme ":").2.checkIndentation "def").1 = false) :
    parseFuncDef (fuel + 1) S =
      .ok (none, (((S1.matchLexeme ")").2.matchLexeme ":").2.checkIndentation "def").2) := by
  rw [parseFuncDef]
  by_cases hid : (S.advance.matchLexeme "(").2.currentToken.type = TokenType.IDENTIFIER
  · rw [if_pos hid] at hparams
    simp only [bind, Except.bind, hname, hopen, hid, hparams, hclose, hcolon, hind, Bool.not_true,
      Bool.false_eq_true, if_false, Bool.not_false, if_true, ne_eq, not_true_eq_false]
    rfl
  · rw [if_neg hid] at hparams
    obtain ⟨rfl, rfl⟩ : params = none ∧ S1 = (S.advance.matchLexeme "(").2 := by
      simp only [pure, Except.pure, Except.ok.injEq, Prod.mk.injEq] at hparams
      exact ⟨hparams.1.symm, hparams.2.symm⟩
    simp only [bind, Except.bind, hname, hopen, hid, hclose, hcolon, hind, Bool.not_true,
      Bool.false_eq_true, if_false, Bool.not_false, if_true, ne_eq, not_true_eq_false, pure,
      Except.pure]

/-- `parseIfChain` at an `else:` that no indented block follows returns the
node it was given. -/
theorem parseIfChain_else_unindented (fuel : Nat) (node : Option ParseNode)
    (S S1 : SyntaxAnalyzer)
    (hS1 : S1 = (((S.skipWhile isNewline).skipWhile isWsOrDedent).skipWhile isWsOrDedent))
    (helif : (((S.skipWhile isNewline).skipWhile isWsOrDedent).matchLexeme "elif").1 = false)
    (helse : (S1.matchLexeme "else").1 = true)
    (hcolon : ((S1.matchLexeme "else").2.matchLexeme ":").1 = true)
    (hind : (((S1.matchLexeme "else").2.matchLexeme ":").2.checkIndentation "else").1 = false) :
    parseIfChain (fuel + 1) node S =
      .ok (node, (((S1.matchLexeme "else").2.matchLexeme ":").2.checkIndentation "else").2) := by
  subst hS1
  rw [parseIfChain]
  simp only [bind, Except.bind, helif, helse, hcolon, hind, Bool.not_true, pure, Except.pure,
    Bool.false_eq_true, if_false, Bool.not_false, if_true]

/-- `parseElifs` at an `elif` clause that no indented block follows, when the
statement read in the place of the body is parsed, attaches nothing: after
that statement and the recovery, the loop goes on, or ends, with the node it
was given. -/
theorem parseElifs_unindented (fuel : Nat) (node : Option ParseNode) (S S1 S3 : SyntaxAnalyzer)
    (cond body : ParseNode)
    (hcond : parseComparison fuel S = .ok (some cond, S1))
    (hcolon : (S1.matchLexeme ":").1 = true)
    (hind : ((S1.matchLexeme ":").2.checkIndentation "elif").1 = false)
    (hbody : parseStmt fuel ((S1.matchLexeme ":").2.checkIndentation "elif").2 =
      .ok (some body, S3)) :
    parseElifs (fuel + 1) node S =
      if ((((S3.skipWhile isNewline).skipWhile isWsOrDedent).skipWhile
          (fun t => t.type != TokenType.DEDENT && t.lexeme != "elif".toList &&
            t.lexeme != "else".toList)).matchLexeme "elif").1 then
        parseElifs fuel node ((((S3.skipWhile isNewline).skipWhile isWsOrDedent).skipWhile
          (fun t => t.type != TokenType.DEDENT && t.lexeme != "elif".toList &&
            t.lexeme != "else".toList)).matchLexeme "elif").2
      else
        .ok (node, ((S3.skipWhile isNewline).skipWhile isWsOrDedent).skipWhile
          (fun t => t.type != TokenType.DEDENT && t.lexeme != "elif".toList &&
            t.lexeme != "else".toList)) := by
  rw [parseElifs]
  simp only [bind, Except.bind, hcond, Option.isNone_some, Bool.false_eq_true, if_false, hcolon,
    Bool.not_true, hind, hbody, Bool.and_false, Bool.false_and, Bool.not_false, if_true,
    Option.isSome_some, Bool.true_and, Bool.false_or, Bool.or_false, Bool.or_true,
    Bool.and_self, Bool.and_true, Bool.true_or]
  rfl

/-- `parseElifs` at an `elif` clause that no indented block follows, when no
statement is parsed in the place of the body, deletes the condition and the
`Elif` node a second time. -/
theorem parseElifs_unindented_nobody (fuel : Nat) (node : Option ParseNode)
    (S S1 S3 : SyntaxAnalyzer) (cond : ParseNode)
    (hcond : parseComparison fuel S = .ok (some cond, S1))
    (hcolon : (S1.matchLexeme ":").1 = true)
    (hind : ((S1.matchLexeme ":").2.checkIndentation "elif").1 = false)
    (hbody : parseStmt fuel ((S1.matchLexeme ":").2.checkIndentation "elif").2 =
      .ok (none, S3)) :
    parseElifs (fuel + 1) node S = .error Fault.doubleDelete := by
  rw [parseElifs]
  simp only [bind, Except.bind, hcond, Option.isNone_some, Bool.false_eq_true, if_false, hcolon,
    Bool.not_true, hind, hbody, Bool.and_false, Bool.false_and, Bool.not_false, if_true,
    Option.isSome_some, Bool.true_and, Bool.false_or, Bool.or_false, Bool.or_true,
    Bool.and_self, Bool.and_true, Bool.true_or, Option.isNone_none]

end SyntaxAnalyzer
end PyAnalyzer
namespace PyAnalyzer
namespace SyntaxAnalyzer

set_option maxHeartbeats 4000000 in
/-- C32: when the token reached after the newlines that follow the ':' of a
header is no INDENT, `checkIndentation` records "Expected indented block
after '<keyword>'" at that token, and then: `parseIfCore` and `parseFuncDef`
return no node, as the claim says; `parseForStmt` returns the node `ForStmt`
with the target list and the iterable, and `parseWhileStmt` (which returns a
node whenever it returns) the node `WhileStmt` with the condition, both
without a body, against the claim; in `parseIfChain` an `elif` clause is not
attached (when the statement that follows is parsed it is dropped and the
loop goes on with the node it had; when none is parsed the clause is deleted
a second time) and an `else` clause is not attached (the node is returned as
it was).  On the sources "if x:" and "def f():" followed by an unindented
"pass" no node of the construct is in the tree, and after a complete `if`
statement an unindented `else:` or `elif y:` leaves the `IfStmt` with its
two children; on the sources "while x:" and "for i in x:" followed by an
unindented "pass" the node `WhileStmt(Identifier(x))` (or
`ForStmt(TargetList(Identifier(i)), Identifier(x))`) is attached to
`Program`. -/
theorem unindented_block_results :
    (∀ (S : SyntaxAnalyzer) (stmtType : String),
      ((S.checkIndentation stmtType).1 = false ↔
        ((S.skipWhile isNewline).skipWhile isWs).currentToken.type ≠ TokenType.INDENT) ∧
      ((S.checkIndentation stmtType).1 = false →
        (S.checkIndentation stmtType).2 =
          ((S.skipWhile isNewline).skipWhile isWs).errorHere
            ("Expected indented block after '" ++ stmtType ++ "'"))) ∧
    (∀ (fuel : Nat) (S S1 : SyntaxAnalyzer) (cond : ParseNode),
      parseComparison fuel S = .ok (some cond, S1) → (S1.matchLexeme ":").1 = true →
      ((S1.matchLexeme ":").2.checkIndentation "if").1 = false →
      parseIfCore (fuel + 1) S =
        .ok (none, ((S1.matchLexeme ":").2.checkIndentation "if").2)) ∧
    (∀ (fuel : Nat) (S S1 : SyntaxAnalyzer) (params : Option ParseNode),
      S.currentToken.type = TokenType.IDENTIFIER → (S.advance.matchLexeme "(").1 = true →
      (if (S.advance.matchLexeme "(").2.currentToken.type = TokenType.IDENTIFIER then
          parseParamList fuel (S.advance.matchLexeme "(").2
        else pure (none, (S.advance.matchLexeme "(").2)) = .ok (params, S1) →
      (S1.matchLexeme ")").1 = true → ((S1.matchLexeme ")").2.matchLexeme ":").1 = true →
      (((S1.matchLexeme ")").2.matchLexeme ":").2.checkIndentation "def").1 = false →
      parseFuncDef (fuel + 1) S =
        .ok (none, (((S1.matchLexeme ")").2.matchLexeme ":").2.checkIndentation "def").2)) ∧
    (∀ (fuel : Nat) (S S1 S2 : SyntaxAnalyzer) (targets : List ParseNode)
      (iterable : ParseNode),
      parseForTargets fuel [] S = .ok (some targets, S1) → (S1.matchLexeme "in").1 = true →
      parseComparison fuel (S1.matchLexeme "in").2 = .ok (some iterable, S2) →
      (S2.matchLexeme ":").1 = true →
      ((S2.matchLexeme ":").2.checkIndentation "for").1 = false →
      parseForStmt (fuel + 1) S =
        .ok (some (ParseNode.node "ForStmt".toList []
            [ParseNode.node "TargetList".toList [] targets, iterable]),
          ((S2.matchLexeme ":").2.checkIndentation "for").2)) ∧
    (∀ (fuel : Nat) (S : SyntaxAnalyzer) (r : Option ParseNode × SyntaxAnalyzer),
      parseWhileStmt fuel S = .ok r →
      ∃ children, r.1 = some (ParseNode.node "WhileStmt".toList [] children)) ∧
    (∀ (fuel : Nat) (S S1 : SyntaxAnalyzer) (cond : ParseNode),
      (S.matchLexeme "(").1 = false →
      parseComparison fuel (S.matchLexeme "(").2 = .ok (some cond, S1) →
      S1.currentToken.lexeme ≠ "=".toList → (S1.matchLexeme ":").1 = true →
      ((S1.matchLexeme ":").2.checkIndentation "while").1 = false →
      parseWhileStmt (fuel + 1) S =
        .ok (some (ParseNode.node "WhileStmt".toList [] [cond]),
          ((S1.matchLexeme ":").2.checkIndentation "while").2)) ∧
    (∀ (fuel : Nat) (node : Option ParseNode) (S S1 S3 : SyntaxAnalyzer) (cond body : ParseNode),
      parseComparison fuel S = .ok (some cond, S1) → (S1.matchLexeme ":").1 = true →
      ((S1.matchLexeme ":").2.checkIndentation "elif").1 = false →
      parseStmt fuel ((S1.matchLexeme ":").2.checkIndentation "elif").2 =
        .ok (some body, S3) →
      parseElifs (fuel + 1) node S =
        if ((((S3.skipWhile isNewline).skipWhile isWsOrDedent).skipWhile
            (fun t => t.type != TokenType.DEDENT && t.lexeme != "elif".toList &&
              t.lexeme != "else".toList)).matchLexeme "elif").1 then
          parseElifs fuel node ((((S3.skipWhile isNewline).skipWhile isWsOrDedent).skipWhile
            (fun t => t.type != TokenType.DEDENT && t.lexeme != "elif".toList &&
              t.lexeme != "else".toList)).matchLexeme "elif").2
        else
          .ok (node, ((S3.skipWhile isNewline).skipWhile isWsOrDedent).skipWhile
            (fun t => t.type != TokenType.DEDENT && t.lexeme != "elif".toList &&
              t.lexeme != "else".toList))) ∧
    (∀ (fuel : Nat) (node : Option ParseNode) (S S1 : SyntaxAnalyzer),
      S1 = (((S.skipWhile isNewline).skipWhile isWsOrDedent).skipWhile isWsOrDedent) →
      (((S.skipWhile isNewline).skipWhile isWsOrDedent).matchLexeme "elif").1 = false →
      (S1.matchLexeme "else").1 = true → ((S1.matchLexeme "else").2.matchLexeme ":").1 = true →
      (((S1.matchLexeme "else").2.matchLexeme ":").2.checkIndentation "else").1 = false →
      parseIfChain (fuel + 1) node S =
        .ok (node,
          (((S1.matchLexeme "else").2.matchLexeme ":").2.checkIndentation "else").2)) ∧
    (∃ L' S, PythonLexer.tokenize exactArith
        (PythonLexer.create "if x:\npass\n".toList [0]) = some L' ∧
      parseProgram (filterComments L'.tokens) =
        .ok (ParseNode.node "Program".toList [] [ParseNode.leaf "PassStmt"], S) ∧
      S.syntaxErrors = [⟨"Expected indented block after 'if'".toList, 2, 1⟩]) ∧
    (∃ L' S, PythonLexer.tokenize exactArith
        (PythonLexer.create "def f():\npass\n".toList [0]) = some L' ∧
      parseProgram (filterComments L'.tokens) =
        .ok (ParseNode.node "Program".toList [] [ParseNode.leaf "PassStmt"], S) ∧
      S.syntaxErrors = [⟨"Expected indented block after 'def'".toList, 2, 1⟩]) ∧
    (∃ L' S, PythonLexer.tokenize exactArith
        (PythonLexer.create "if x:\n    pass\nelse:\npass\n".toList [0]) = some L' ∧
      parseProgram (filterComments L'.tokens) =
        .ok (ParseNode.node "Program".toList []
          [ParseNode.node "IfStmt".toList []
            [ParseNode.leaf "Identifier" "x".toList, ParseNode.leaf "PassStmt"],
            ParseNode.leaf "PassStmt"], S) ∧
      S.syntaxErrors = [⟨"Expected indented block after 'else'".toList, 4, 1⟩]) ∧
    (∃ L' S, PythonLexer.tokenize exactArith
        (PythonLexer.create "if x:\n    pass\nelif y:\npass\n".toList [0]) = some L' ∧
      parseProgram (filterComments L'.tokens) =
        .ok (ParseNode.node "Program".toList []
          [ParseNode.node "IfStmt".toList []
            [ParseNode.leaf "Identifier" "x".toList, ParseNode.leaf "PassStmt"]], S) ∧
      S.syntaxErrors = [⟨"Expected indented block after 'elif'".toList, 4, 1⟩]) ∧
    (∀ (fuel : Nat) (node : Option ParseNode) (S S1 S3 : SyntaxAnalyzer) (cond : ParseNode),
      parseComparison fuel S = .ok (some cond, S1) → (S1.matchLexeme ":").1 = true →
      ((S1.matchLexeme ":").2.checkIndentation "elif").1 = false →
      parseStmt fuel ((S1.matchLexeme ":").2.checkIndentation "elif").2 = .ok (none, S3) →
      parseElifs (fuel + 1) node S = .error Fault.doubleDelete) ∧
    (∃ L' S, PythonLexer.tokenize exactArith
        (PythonLexer.create "while x:\npass\n".toList [0]) = some L' ∧
      L'.tokenKinds = [("while".toList, TokenType.KEYWORD), ("x".toList, TokenType.IDENTIFIER),
        (":".toList, TokenType.DELIMITER), ("\n".toList, TokenType.NEWLINE),
        ("pass".toList, TokenType.KEYWORD), ("\n".toList, TokenType.NEWLINE),
        ([], TokenType.ENDOFFILE)] ∧
      parseProgram (filterComments L'.tokens) =
        .ok (ParseNode.node "Program".toList []
          [ParseNode.node "WhileStmt".toList [] [ParseNode.leaf "Identifier" "x".toList],
            ParseNode.leaf "PassStmt"], S) ∧
      S.syntaxErrors = [⟨"Expected indented block after 'while'".toList, 2, 1⟩]) ∧
    ∃ L' S, PythonLexer.tokenize exactArith
        (PythonLexer.create "for i in x:\npass\n".toList [0]) = some L' ∧
      L'.tokenKinds = [("for".toList, TokenType.KEYWORD), ("i".toList, TokenType.IDENTIFIER),
        ("in".toList, TokenType.KEYWORD), ("x".toList, TokenType.IDENTIFIER),
        (":".toList, TokenType.DELIMITER), ("\n".toList, TokenType.NEWLINE),
        ("pass".toList, TokenType.KEYWORD), ("\n".toList, TokenType.NEWLINE),
        ([], TokenType.ENDOFFILE)] ∧
      parseProgram (filterComments L'.tokens) =
        .ok (ParseNode.node "Program".toList []
          [ParseNode.node "ForStmt".toList []
            [ParseNode.node "TargetList".toList [] [ParseNode.leaf "Identifier" "i".toList],
              ParseNode.leaf "Identifier" "x".toList],
            ParseNode.leaf "PassStmt"], S) ∧
      S.syntaxErrors = [⟨"Expected indented block after 'for'".toList, 2, 1⟩] :=
  ⟨checkIndentation_fails, parseIfCore_unindented, parseFuncDef_unindented,
    parseForStmt_unindented, parseWhileStmt_node, parseWhileStmt_unindented,
    parseElifs_unindented, parseIfChain_else_unindented,
    ⟨_, _, rfl, rfl, rfl⟩, ⟨_, _, rfl, rfl, rfl⟩, ⟨_, _, rfl, rfl, rfl⟩, ⟨_, _, rfl, rfl, rfl⟩,
    parseElifs_unindented_nobody, ⟨_, _, rfl, rfl, rfl, rfl⟩, ⟨_, _, rfl, rfl, rfl, rfl⟩⟩

end SyntaxAnalyzer
end PyAnalyzer
namespace PyAnalyzer
namespace SyntaxAnalyzer

set_option maxHeartbeats 4000000 in
/-- The parts of `unindented_block_results` on tokens: "if x:", "def f():",
"for i in x:" and "while x:" followed by an unindented "pass", read from
the token after the keyword, and an unindented `elif y:` and `else:` after a
complete `if` statement. -/
theorem unindented_block_results_witness :
    parseIfCore 20
        (atPos (tokensOfKinds [("if".toList, TokenType.KEYWORD),
          ("x".toList, TokenType.IDENTIFIER), (":".toList, TokenType.DELIMITER),
          ("\n".toList, TokenType.NEWLINE), ("pass".toList, TokenType.KEYWORD),
          ("\n".toList, TokenType.NEWLINE), ([], TokenType.ENDOFFILE)]) 1) =
      .ok (none,
        { tokens := tokensOfKinds [("if".toList, TokenType.KEYWORD),
            ("x".toList, TokenType.IDENTIFIER), (":".toList, TokenType.DELIMITER),
            ("\n".toList, TokenType.NEWLINE), ("pass".toList, TokenType.KEYWORD),
            ("\n".toList, TokenType.NEWLINE), ([], TokenType.ENDOFFILE)],
          pos := 4,
          syntaxErrors := [⟨"Expected indented block after 'if'".toList, 1, 1⟩] }) ∧
    parseFuncDef 20
        (atPos (tokensOfKinds [("def".toList, TokenType.KEYWORD),
          ("f".toList, TokenType.IDENTIFIER), ("(".toList, TokenType.DELIMITER),
          (")".toList, TokenType.DELIMITER), (":".toList, TokenType.DELIMITER),
          ("\n".toList, TokenType.NEWLINE), ("pass".toList, TokenType.KEYWORD),
          ("\n".toList, TokenType.NEWLINE), ([], TokenType.ENDOFFILE)]) 1) =
      .ok (none,
        { tokens := tokensOfKinds [("def".toList, TokenType.KEYWORD),
            ("f".toList, TokenType.IDENTIFIER), ("(".toList, TokenType.DELIMITER),
            (")".toList, TokenType.DELIMITER), (":".toList, TokenType.DELIMITER),
            ("\n".toList, TokenType.NEWLINE), ("pass".toList, TokenType.KEYWORD),
            ("\n".toList, TokenType.NEWLINE), ([], TokenType.ENDOFFILE)],
          pos := 6,
          syntaxErrors := [⟨"Expected indented block after 'def'".toList, 1, 1⟩] }) ∧
    parseForStmt 20
        (atPos (tokensOfKinds [("for".toList, TokenType.KEYWORD),
          ("i".toList, TokenType.IDENTIFIER), ("in".toList, TokenType.KEYWORD),
          ("x".toList, TokenType.IDENTIFIER), (":".toList, TokenType.DELIMITER),
          ("\n".toList, TokenType.NEWLINE), ("pass".toList, TokenType.KEYWORD),
          ("\n".toList, TokenType.NEWLINE), ([], TokenType.ENDOFFILE)]) 1) =
      .ok (some (ParseNode.node "ForStmt".toList []
          [ParseNode.node "TargetList".toList [] [ParseNode.leaf "Identifier" "i".toList],
            ParseNode.leaf "Identifier" "x".toList]),
        { tokens := tokensOfKinds [("for".toList, TokenType.KEYWORD),
            ("i".toList, TokenType.IDENTIFIER), ("in".toList, TokenType.KEYWORD),
            ("x".toList, TokenType.IDENTIFIER), (":".toList, TokenType.DELIMITER),
            ("\n".toList, TokenType.NEWLINE), ("pass".toList, TokenType.KEYWORD),
            ("\n".toList, TokenType.NEWLINE), ([], TokenType.ENDOFFILE)],
          pos := 6,
          syntaxErrors := [⟨"Expected indented block after 'for'".toList, 1, 1⟩] }) ∧
    parseWhileStmt 20
        (atPos (tokensOfKinds [("while".toList, TokenType.KEYWORD),
          ("x".toList, TokenType.IDENTIFIER), (":".toList, TokenType.DELIMITER),
          ("\n".toList, TokenType.NEWLINE), ("pass".toList, TokenType.KEYWORD),
          ("\n".toList, TokenType.NEWLINE), ([], TokenType.ENDOFFILE)]) 1) =
      .ok (some (ParseNode.node "WhileStmt".toList []
          [ParseNode.leaf "Identifier" "x".toList]),
        { tokens := tokensOfKinds [("while".toList, TokenType.KEYWORD),
            ("x".toList, TokenType.IDENTIFIER), (":".toList, TokenType.DELIMITER),
            ("\n".toList, TokenType.NEWLINE), ("pass".toList, TokenType.KEYWORD),
            ("\n".toList, TokenType.NEWLINE), ([], TokenType.ENDOFFILE)],
          pos := 4,
          syntaxErrors := [⟨"Expected indented block after 'while'".toList, 1, 1⟩] }) ∧
    parseElifs 20 (some (ParseNode.leaf "IfStmt"))
        (atPos (tokensOfKinds [("elif".toList, TokenType.KEYWORD),
          ("y".toList, TokenType.IDENTIFIER), (":".toList, TokenType.DELIMITER),
          ("\n".toList, TokenType.NEWLINE), ("pass".toList, TokenType.KEYWORD),
          ("\n".toList, TokenType.NEWLINE), ([], TokenType.ENDOFFILE)]) 1) =
      .ok (some (ParseNode.leaf "IfStmt"),
        { tokens := tokensOfKinds [("elif".toList, TokenType.KEYWORD),
            ("y".toList, TokenType.IDENTIFIER), (":".toList, TokenType.DELIMITER),
            ("\n".toList, TokenType.NEWLINE), ("pass".toList, TokenType.KEYWORD),
            ("\n".toList, TokenType.NEWLINE), ([], TokenType.ENDOFFILE)],
          pos := 6,
          syntaxErrors := [⟨"Expected indented block after 'elif'".toList, 1, 1⟩] }) ∧
    parseIfChain 20 (some (ParseNode.leaf "IfStmt"))
        (atPos (tokensOfKinds [("\n".toList, TokenType.NEWLINE), ([], TokenType.DEDENT),
          ("else".toList, TokenType.KEYWORD), (":".toList, TokenType.DELIMITER),
          ("\n".toList, TokenType.NEWLINE), ("pass".toList, TokenType.KEYWORD),
          ("\n".toList, TokenType.NEWLINE), ([], TokenType.ENDOFFILE)]) 0) =
      .ok (some (ParseNode.leaf "IfStmt"),
        { tokens := tokensOfKinds [("\n".toList, TokenType.NEWLINE), ([], TokenType.DEDENT),
            ("else".toList, TokenType.KEYWORD), (":".toList, TokenType.DELIMITER),
            ("\n".toList, TokenType.NEWLINE), ("pass".toList, TokenType.KEYWORD),
            ("\n".toList, TokenType.NEWLINE), ([], TokenType.ENDOFFILE)],
          pos := 5,
          syntaxErrors := [⟨"Expected indented block after 'else'".toList, 1, 1⟩] }) :=
  ⟨unindented_block_results.2.1 19
      (atPos (tokensOfKinds [("if".toList, TokenType.KEYWORD), ("x".toList, TokenType.IDENTIFIER),
        (":".toList, TokenType.DELIMITER), ("\n".toList, TokenType.NEWLINE),
        ("pass".toList, TokenType.KEYWORD), ("\n".toList, TokenType.NEWLINE),
        ([], TokenType.ENDOFFILE)]) 1)
      (atPos (tokensOfKinds [("if".toList, TokenType.KEYWORD), ("x".toList, TokenType.IDENTIFIER),
        (":".toList, TokenType.DELIMITER), ("\n".toList, TokenType.NEWLINE),
        ("pass".toList, TokenType.KEYWORD), ("\n".toList, TokenType.NEWLINE),
        ([], TokenType.ENDOFFILE)]) 2)
      (ParseNode.leaf "Identifier" "x".toList) rfl rfl rfl,
    unindented_block_results.2.2.1 19
      (atPos (tokensOfKinds [("def".toList, TokenType.KEYWORD), ("f".toList, TokenType.IDENTIFIER),
        ("(".toList, TokenType.DELIMITER), (")".toList, TokenType.DELIMITER),
        (":".toList, TokenType.DELIMITER), ("\n".toList, TokenType.NEWLINE),
        ("pass".toList, TokenType.KEYWORD), ("\n".toList, TokenType.NEWLINE),
        ([], TokenType.ENDOFFILE)]) 1)
      (atPos (tokensOfKinds [("def".toList, TokenType.KEYWORD), ("f".toList, TokenType.IDENTIFIER),
        ("(".toList, TokenType.DELIMITER), (")".toList, TokenType.DELIMITER),
        (":".toList, TokenType.DELIMITER), ("\n".toList, TokenType.NEWLINE),
        ("pass".toList, TokenType.KEYWORD), ("\n".toList, TokenType.NEWLINE),
        ([], TokenType.ENDOFFILE)]) 3)
      none rfl rfl rfl rfl rfl rfl,
    unindented_block_results.2.2.2.1 19
      (atPos (tokensOfKinds [("for".toList, TokenType.KEYWORD), ("i".toList, TokenType.IDENTIFIER),
        ("in".toList, TokenType.KEYWORD), ("x".toList, TokenType.IDENTIFIER),
        (":".toList, TokenType.DELIMITER), ("\n".toList, TokenType.NEWLINE),
        ("pass".toList, TokenType.KEYWORD), ("\n".toList, TokenType.NEWLINE),
        ([], TokenType.ENDOFFILE)]) 1)
      (atPos (tokensOfKinds [("for".toList, TokenType.KEYWORD), ("i".toList, TokenType.IDENTIFIER),
        ("in".toList, TokenType.KEYWORD), ("x".toList, TokenType.IDENTIFIER),
        (":".toList, TokenType.DELIMITER), ("\n".toList, TokenType.NEWLINE),
        ("pass".toList, TokenType.KEYWORD), ("\n".toList, TokenType.NEWLINE),
        ([], TokenType.ENDOFFILE)]) 2)
      (atPos (tokensOfKinds [("for".toList, TokenType.KEYWORD), ("i".toList, TokenType.IDENTIFIER),
        ("in".toList, TokenType.KEYWORD), ("x".toList, TokenType.IDENTIFIER),
        (":".toList, TokenType.DELIMITER), ("\n".toList, TokenType.NEWLINE),
        ("pass".toList, TokenType.KEYWORD), ("\n".toList, TokenType.NEWLINE),
        ([], TokenType.ENDOFFILE)]) 4)
      [ParseNode.leaf "Identifier" "i".toList] (ParseNode.leaf "Identifier" "x".toList)
      rfl rfl rfl rfl rfl,
    unindented_block_results.2.2.2.2.2.1 19
      (atPos (tokensOfKinds [("while".toList, TokenType.KEYWORD), ("x".toList, TokenType.IDENTIFIER),
        (":".toList, TokenType.DELIMITER), ("\n".toList, TokenType.NEWLINE),
        ("pass".toList, TokenType.KEYWORD), ("\n".toList, TokenType.NEWLINE),
        ([], TokenType.ENDOFFILE)]) 1)
      (atPos (tokensOfKinds [("while".toList, TokenType.KEYWORD), ("x".toList, TokenType.IDENTIFIER),
        (":".toList, TokenType.DELIMITER), ("\n".toList, TokenType.NEWLINE),
        ("pass".toList, TokenType.KEYWORD), ("\n".toList, TokenType.NEWLINE),
        ([], TokenType.ENDOFFILE)]) 2)
      (ParseNode.leaf "Identifier" "x".toList) rfl rfl (by decide) rfl rfl,
    unindented_block_results.2.2.2.2.2.2.1 19 (some (ParseNode.leaf "IfStmt"))
      (atPos (tokensOfKinds [("elif".toList, TokenType.KEYWORD), ("y".toList, TokenType.IDENTIFIER),
        (":".toList, TokenType.DELIMITER), ("\n".toList, TokenType.NEWLINE),
        ("pass".toList, TokenType.KEYWORD), ("\n".toList, TokenType.NEWLINE),
        ([], TokenType.ENDOFFILE)]) 1)
      (atPos (tokensOfKinds [("elif".toList, TokenType.KEYWORD), ("y".toList, TokenType.IDENTIFIER),
        (":".toList, TokenType.DELIMITER), ("\n".toList, TokenType.NEWLINE),
        ("pass".toList, TokenType.KEYWORD), ("\n".toList, TokenType.NEWLINE),
        ([], TokenType.ENDOFFILE)]) 2)
      { tokens := tokensOfKinds [("elif".toList, TokenType.KEYWORD), ("y".toList, TokenType.IDENTIFIER),
        (":".toList, TokenType.DELIMITER), ("\n".toList, TokenType.NEWLINE),
        ("pass".toList, TokenType.KEYWORD), ("\n".toList, TokenType.NEWLINE),
        ([], TokenType.ENDOFFILE)],
        pos := 5,
        syntaxErrors := [⟨"Expected indented block after 'elif'".toList, 1, 1⟩] }
      (ParseNode.leaf "Identifier" "y".toList) (ParseNode.leaf "PassStmt")
      rfl rfl rfl rfl,
    unindented_block_results.2.2.2.2.2.2.2.1 19 (some (ParseNode.leaf "IfStmt"))
      (atPos (tokensOfKinds [("\n".toList, TokenType.NEWLINE), ([], TokenType.DEDENT),
        ("else".toList, TokenType.KEYWORD), (":".toList, TokenType.DELIMITER),
        ("\n".toList, TokenType.NEWLINE), ("pass".toList, TokenType.KEYWORD),
        ("\n".toList, TokenType.NEWLINE), ([], TokenType.ENDOFFILE)]) 0)
      (atPos (tokensOfKinds [("\n".toList, TokenType.NEWLINE), ([], TokenType.DEDENT),
        ("else".toList, TokenType.KEYWORD), (":".toList, TokenType.DELIMITER),
        ("\n".toList, TokenType.NEWLINE), ("pass".toList, TokenType.KEYWORD),
        ("\n".toList, TokenType.NEWLINE), ([], TokenType.ENDOFFILE)]) 2)
      rfl rfl rfl rfl rfl⟩

end SyntaxAnalyzer
end PyAnalyzer
namespace PyAnalyzer

/-! ## C31: a block is one statement -/

theorem Arith.cost_le_kinds (e : Arith) : e.cost ≤ 3 * e.kinds.length := by
  induction e with
  | atom o => simp [Arith.cost, Arith.kinds]
  | paren e ih =>
    simp only [Arith.cost, Arith.kinds, List.length_cons, List.length_append, List.length_nil]
    omega
  | bin op l r ihl ihr =>
    simp only [Arith.cost, Arith.kinds, List.length_cons, List.length_append]
    omega

theorem CmpChain.restCost_le (rest : List (String × Arith)) :
    (rest.map (fun p => p.2.cost + 4)).sum ≤ 4 * (CmpChain.restKinds rest).length := by
  induction rest with
  | nil => simp [CmpChain.restKinds]
  | cons p rest ih =>
    obtain ⟨c, e⟩ := p
    have := Arith.cost_le_kinds e
    simp only [List.map_cons, List.sum_cons, CmpChain.restKinds, List.length_cons,
      List.length_append]
    omega

theorem CmpChain.chainCost_le_kinds (ch : CmpChain) : ch.cost ≤ 4 * ch.kinds.length + 4 := by
  have h1 := Arith.cost_le_kinds ch.first
  have h2 := CmpChain.restCost_le ch.rest
  simp only [CmpChain.cost, CmpChain.kinds, List.length_append]
  omega

namespace SyntaxAnalyzer

open CmpChain in
/-- `parseComparison` on a valid chain that a stopping token follows. -/
theorem parseComparison_chain (ch : CmpChain) (hv : ch.valid = true) (ts : List Token)
    (i fuel : Nat) (n : Token) (hk : holdsAt ts i ch.kinds)
    (hn : ts.get? (i + ch.kinds.length) = some n) (hstop : stopsComparison n = true)
    (hf : ch.cost ≤ fuel) :
    parseComparison fuel (atPos ts i) = .ok (some ch.tree, atPos ts (i + ch.kinds.length)) := by
  obtain ⟨first, rest⟩ := ch
  simp only [CmpChain.valid, Bool.and_eq_true] at hv
  obtain ⟨hfirst, hrest⟩ := hv
  simp only [CmpChain.cost] at hf
  have hk1 : holdsAt ts i first.kinds := holdsAt_left hk
  have hk2 : holdsAt ts (i + first.kinds.length) (restKinds rest) := holdsAt_right hk
  have hlen : i + (CmpChain.kinds ⟨first, rest⟩).length =
      i + first.kinds.length + (restKinds rest).length := by
    simp only [CmpChain.kinds, List.length_append]
    omega
  rw [hlen] at hn ⊢
  obtain ⟨u, hu, hustop⟩ := next_stops rest hrest hk2 hn hstop
  obtain ⟨f, rfl⟩ : ∃ f, fuel = f + 1 := ⟨fuel - 1, by omega⟩
  rw [parseComparison, Arith.parseExpression_arith first hfirst f hk1 hu hustop (by omega)]
  simp only [bind, Except.bind]
  exact parseComparisonLoop_chain rest _ ts _ f n hrest hk2 hn hstop (by omega)

theorem stopsComparison_of_kind {t : Token} {lx : List Char} {ty : TokenType}
    (hl : t.lexeme = lx) (hty : t.type = ty) (h : stopsComparison ⟨lx, ty, 0, 0⟩ = true) :
    stopsComparison t = true := by
  unfold stopsComparison stopsOperand at h ⊢
  rw [hl, hty]
  exact h

/-- The first token of a valid simple statement. -/
theorem simple_first_token (s : SimpleStmt) (hv : s.valid = true) {ts : List Token} {i : Nat}
    (post : List (List Char × TokenType))
    (hk : (ts.drop i).map (fun t => (t.lexeme, t.type)) = s.kinds ++ post) :
    ∃ t, ts.get? i = some t ∧ t.type ≠ TokenType.ENDOFFILE ∧ t.type ≠ TokenType.NEWLINE ∧
      t.type ≠ TokenType.WHITESPACE ∧ t.type ≠ TokenType.DEDENT ∧
      t.lexeme ≠ "elif".toList ∧ t.lexeme ≠ "else".toList := by
  have key : ∀ (lx : List Char) (ty : TokenType) (more : List (List Char × TokenType)),
      s.kinds = (lx, ty) :: more →
      (ty = TokenType.KEYWORD ∨ ty = TokenType.IDENTIFIER ∨ ty = TokenType.NUMBER) →
      lx ≠ "elif".toList → lx ≠ "else".toList →
      ∃ t, ts.get? i = some t ∧ t.type ≠ TokenType.ENDOFFILE ∧ t.type ≠ TokenType.NEWLINE ∧
        t.type ≠ TokenType.WHITESPACE ∧ t.type ≠ TokenType.DEDENT ∧
        t.lexeme ≠ "elif".toList ∧ t.lexeme ≠ "else".toList := by
    intro lx ty more hs hty h1 h2
    rw [hs] at hk
    obtain ⟨t, h, hl, hy⟩ := token_of_drop hk 0 rfl
    refine ⟨t, h, ?_, ?_, ?_, ?_, by rw [hl]; exact h1, by rw [hl]; exact h2⟩
    all_goals
      rw [hy]
      rcases hty with e | e | e <;> rw [e] <;> exact TokenType.noConfusion
  have hop : ∀ o : Operand, o.valid = true →
      (o.type = TokenType.KEYWORD ∨ o.type = TokenType.IDENTIFIER ∨ o.type = TokenType.NUMBER) ∧
      o.text ≠ "elif".toList ∧ o.text ≠ "else".toList := by
    intro o ho
    refine ⟨?_, operand_not_reserved o ho "elif" (by simp), operand_not_reserved o ho "else"
      (by simp)⟩
    cases o with
    | ident w => exact Or.inr (Or.inl rfl)
    | number ds => exact Or.inr (Or.inr rfl)
  cases s with
  | passStmt => exact key _ _ _ rfl (Or.inl rfl) (by decide) (by decide)
  | breakStmt => exact key _ _ _ rfl (Or.inl rfl) (by decide) (by decide)
  | continueStmt => exact key _ _ _ rfl (Or.inl rfl) (by decide) (by decide)
  | returnStmt => exact key _ _ _ rfl (Or.inl rfl) (by decide) (by decide)
  | returnValue gap value => exact key _ _ _ rfl (Or.inl rfl) (by decide) (by decide)
  | exprStmt value =>
    have ho : value.valid = true := by
      cases value with
      | ident w => exact (headName_facts hv).1
      | number ds => exact hv
    obtain ⟨a, b, c⟩ := hop value ho
    exact key _ _ _ rfl a b c
  | assignment target before after value =>
    have ht : (Operand.ident target).valid = true := by
      simp only [SimpleStmt.valid, Bool.and_eq_true] at hv
      exact (headName_facts hv.1).1
    obtain ⟨_, b, c⟩ := hop (Operand.ident target) ht
    exact key _ _ _ rfl (Or.inr (Or.inl rfl)) b c

/-- `parseIfChain` at the NEWLINE after the body, when the next line starts
with a token that is no DEDENT, `elif` or `else`: the node is returned as it
is and the position is that of this token. -/
theorem parseIfChain_next (fuel : Nat) (node : Option ParseNode) {ts : List Token} {i : Nat}
    {n u : Token} (hn : ts.get? i = some n) (hu : ts.get? (i + 1) = some u)
    (hnt : n.type = TokenType.NEWLINE) (h1 : u.type ≠ TokenType.NEWLINE)
    (h2 : u.type ≠ TokenType.WHITESPACE) (h3 : u.type ≠ TokenType.DEDENT)
    (h4 : u.lexeme ≠ "elif".toList) (h5 : u.lexeme ≠ "else".toList) :
    parseIfChain (fuel + 1) node (atPos ts i) = .ok (node, atPos ts (i + 1)) := by
  have s1 : (atPos ts i).skipWhile isNewline = atPos ts (i + 1) := by
    rw [skipWhile_atPos_step hn isNewline (by simp [isNewline, hnt]),
      skipWhile_atPos_stop hu isNewline (by simp [isNewline, h1])]
  have s2 : (atPos ts (i + 1)).skipWhile isWsOrDedent = atPos ts (i + 1) :=
    skipWhile_atPos_stop hu isWsOrDedent (by simp [isWsOrDedent, h2, h3])
  rw [parseIfChain]
  simp only [s1, s2, matchLexeme_atPos_false hu "elif" h4, matchLexeme_atPos_false hu "else" h5,
    Bool.false_eq_true, if_false, bind, Except.bind, pure, Except.pure]

theorem lineKinds_length (ss : List SimpleStmt) :
    2 * ss.length ≤ (IfBlock.lineKinds ss).length := by
  induction ss with
  | nil => simp [IfBlock.lineKinds]
  | cons s ss ih =>
    have := simple_kinds_length s
    simp only [IfBlock.lineKinds, List.length_cons, List.length_append]
    omega

/-- The top-level loop over the lines that remain of a block, the DEDENT and
the end-of-file token: each statement becomes a child of the root. -/
theorem parseProgramLoop_lines (stmtFuel : Nat) (ts : List Token) (ss : List SimpleStmt) :
    ∀ (fuel : Nat) (children : List ParseNode) (i : Nat),
      ss.all SimpleStmt.valid = true →
      (ts.drop i).map (fun t => (t.lexeme, t.type)) =
        IfBlock.lineKinds ss ++ [([], TokenType.DEDENT), ([], TokenType.ENDOFFILE)] →
      2 * ss.length + 2 ≤ fuel →
      parseProgramLoop (stmtFuel + 5) fuel children ((atPos ts i).prepend []) =
        .ok (children ++ ss.map SimpleStmt.node,
          (atPos ts (i + (IfBlock.lineKinds ss).length + 1)).prepend []) := by
  induction ss with
  | nil =>
    intro fuel children i _ hk hf
    obtain ⟨fuel, rfl⟩ : ∃ f, fuel = f + 2 := ⟨fuel - 2, by simp at hf; omega⟩
    simp only [IfBlock.lineKinds, List.nil_append] at hk
    obtain ⟨d, hd, _, hdt⟩ := token_of_drop hk 0 rfl
    obtain ⟨e, he, _, het⟩ := token_of_drop hk 1 rfl
    have hd' : ts.get? i = some d := hd
    have e1 := parseProgramLoop_stmt (stmtFuel + 5) (fuel + 1) children [] [] none hd'
      (by rw [hdt]; exact TokenType.noConfusion) (by rw [hdt]; exact TokenType.noConfusion)
      (parseStmt_dedent (stmtFuel + 4) hd' hdt) (by omega)
    rw [List.append_nil] at e1
    rw [e1, parseProgramLoop_eof (stmtFuel + 5) fuel _ _ he het]
    simp [IfBlock.lineKinds]
  | cons s ss ih =>
    intro fuel children i hv hk hf
    obtain ⟨fuel, rfl⟩ : ∃ f, fuel = f + 2 := ⟨fuel - 2, by omega⟩
    simp only [List.all_cons, Bool.and_eq_true] at hv
    simp only [IfBlock.lineKinds, List.append_assoc, List.cons_append] at hk
    obtain ⟨t, ht, t1, t2, _, _, _, _⟩ := simple_first_token s hv.1 _ hk
    have hlen := simple_kinds_length s
    obtain ⟨n, hn, _, hnt⟩ := token_of_drop hk (s.kinds.length + 0) (get?_append_add _ _ 0)
    have hn' : ts.get? (i + s.kinds.length) = some n := hn
    have hrest : (ts.drop (i + s.kinds.length + 1)).map (fun t => (t.lexeme, t.type)) =
        IfBlock.lineKinds ss ++ [([], TokenType.DEDENT), ([], TokenType.ENDOFFILE)] := by
      have := congrArg (List.drop (s.kinds.length + 1)) hk
      rw [← List.map_drop, List.drop_drop] at this
      rw [show i + s.kinds.length + 1 = i + (s.kinds.length + 1) by omega, this,
        List.drop_append_eq_append_drop]
      simp
    have e1 := parseProgramLoop_stmt (stmtFuel + 5) (fuel + 1) children [] [] (some s.node) ht
      t1 t2 (parseStmt_simple stmtFuel s hv.1 _ hk) (by omega)
    rw [List.append_nil] at e1
    rw [e1, parseProgramLoop_newline (stmtFuel + 5) fuel _ _ hn' hnt,
      ih fuel _ _ hv.2 hrest (by simp only [List.length_cons] at hf; omega)]
    simp only [List.map_cons, List.append_assoc, List.singleton_append, Option.toList_some,
      IfBlock.lineKinds, List.length_append, List.length_cons, List.cons_append, List.nil_append]
    rw [show i + s.kinds.length + 1 + (IfBlock.lineKinds ss).length + 1 =
      i + (s.kinds.length + ((IfBlock.lineKinds ss).length + 1)) + 1 by omega]

end SyntaxAnalyzer
end PyAnalyzer
namespace PyAnalyzer
namespace SyntaxAnalyzer

/-- `parseProgram` on the tokens of an `if` header with a block of two or
more simple statements. -/
theorem parseProgram_ifBlock (b : IfBlock) (hv : b.valid = true) (ts : List Token)
    (hk : ts.map (fun t => (t.lexeme, t.type)) = b.kinds ++ [([], TokenType.ENDOFFILE)]) :
    parseProgram ts = .ok (b.tree, atPos ts (ts.length - 1)) := by
  simp only [IfBlock.valid, Bool.and_eq_true] at hv
  obtain ⟨⟨⟨hcond, hfirst⟩, hsecond⟩, hothers⟩ := hv
  obtain ⟨t0, g0, l0, y0⟩ := token_of_kinds hk (i := 0) rfl
  have hdrop1 : (ts.drop 1).map (fun t => (t.lexeme, t.type)) = b.cond.kinds ++
      ((":".toList, TokenType.DELIMITER) :: ("\n".toList, TokenType.NEWLINE) ::
        ([], TokenType.INDENT) ::
        (b.first.kinds ++ (("\n".toList, TokenType.NEWLINE) ::
          (IfBlock.lineKinds (b.second :: b.others) ++
            [([], TokenType.DEDENT), ([], TokenType.ENDOFFILE)])))) := by
    rw [List.map_drop, hk]
    simp [IfBlock.kinds, IfBlock.lineKinds]
  obtain ⟨c, hc⟩ : ∃ c, c = b.cond.kinds.length := ⟨_, rfl⟩
  obtain ⟨tc, gc, lc, yc⟩ := token_of_drop hdrop1 (b.cond.kinds.length + 0)
    (get?_append_add _ _ 0)
  obtain ⟨tn, gn, ln, yn⟩ := token_of_drop hdrop1 (b.cond.kinds.length + 1)
    (get?_append_add _ _ 1)
  obtain ⟨ti, gi, li, yi⟩ := token_of_drop hdrop1 (b.cond.kinds.length + 2)
    (get?_append_add _ _ 2)
  rw [← hc] at gc gn gi
  have gc : ts.get? (1 + c) = some tc := gc
  have gn : ts.get? (1 + c + 1) = some tn := gn
  have gi : ts.get? (1 + c + 1 + 1) = some ti := gi
  have hdropp : (ts.drop (1 + c + 3)).map (fun t => (t.lexeme, t.type)) =
      b.first.kinds ++ (("\n".toList, TokenType.NEWLINE) ::
        (IfBlock.lineKinds (b.second :: b.others) ++
          [([], TokenType.DEDENT), ([], TokenType.ENDOFFILE)])) := by
    have := congrArg (List.drop (c + 3)) hdrop1
    rw [← List.map_drop, List.drop_drop] at this
    rw [show 1 + c + 3 = 1 + (c + 3) by omega, this, hc, List.drop_append_eq_append_drop]
    simp
  obtain ⟨f, hf⟩ : ∃ f, f = b.first.kinds.length := ⟨_, rfl⟩
  have hflen := simple_kinds_length b.first
  obtain ⟨tz, gz, lz, yz⟩ := token_of_drop hdropp (b.first.kinds.length + 0)
    (get?_append_add _ _ 0)
  rw [← hf] at gz
  have gz : ts.get? (1 + c + 3 + f) = some tz := gz
  have hdrop2 : (ts.drop (1 + c + 3 + f + 1)).map (fun t => (t.lexeme, t.type)) =
      IfBlock.lineKinds (b.second :: b.others) ++
        [([], TokenType.DEDENT), ([], TokenType.ENDOFFILE)] := by
    have := congrArg (List.drop (f + 1)) hdropp
    rw [← List.map_drop, List.drop_drop] at this
    rw [show 1 + c + 3 + f + 1 = 1 + c + 3 + (f + 1) by omega, this, hf,
      List.drop_append_eq_append_drop]
    simp
  have hdrop2' : (ts.drop (1 + c + 3 + f + 1)).map (fun t => (t.lexeme, t.type)) =
      b.second.kinds ++ (("\n".toList, TokenType.NEWLINE) ::
        (IfBlock.lineKinds b.others ++ [([], TokenType.DEDENT), ([], TokenType.ENDOFFILE)])) := by
    rw [hdrop2]
    simp [IfBlock.lineKinds]
  obtain ⟨u, gu, _, u2, u3, u4, u5, u6⟩ := simple_first_token b.second hsecond _ hdrop2'
  have hlen : ts.length = 1 + c + 3 + f + 1 +
      (IfBlock.lineKinds (b.second :: b.others)).length + 2 := by
    have := congrArg List.length hk
    simp only [List.length_map, IfBlock.kinds, IfBlock.lineKinds, List.length_append,
      List.length_cons, List.length_nil] at this
    simp only [IfBlock.lineKinds, List.length_append, List.length_cons]
    omega
  have hlines := lineKinds_length (b.second :: b.others)
  have hcost := CmpChain.chainCost_le_kinds b.cond
  obtain ⟨fuel, hfuel⟩ : ∃ fuel, parseFuel ts = fuel + 7 := ⟨parseFuel ts - 7, by
    unfold parseFuel
    omega⟩
  have hfuelc : b.cond.cost ≤ fuel + 5 := by
    have : parseFuel ts = 32 * (ts.length + 1) := rfl
    omega
  -- the statement
  have hcmp := parseComparison_chain b.cond hcond ts 1 (fuel + 5) tc (holdsAt_of_drop hdrop1)
    (by rw [← hc]; exact gc) (stopsComparison_of_kind lc yc (by decide)) hfuelc
  rw [← hc] at hcmp
  have hbody := parseStmt_simple (i := 1 + c + 3) fuel b.first hfirst _ hdropp
  rw [← hf] at hbody
  have hcore : parseIfCore (fuel + 6) (atPos ts 1) =
      .ok (some (ParseNode.node "IfStmt".toList [] [b.cond.tree, b.first.node]),
        atPos ts (1 + c + 3 + f)) := by
    rw [parseIfCore]
    simp only [bind, Except.bind]
    rw [hcmp]
    simp only [matchLexeme_atPos_true gc (by rw [yc]; exact TokenType.noConfusion) ":" lc,
      Bool.not_true, Bool.false_eq_true, if_false,
      checkIndentation_atPos gn gi yn yi "if", hbody]
    rfl
  have hchain := parseIfChain_next (fuel + 5)
    (some (ParseNode.node "IfStmt".toList [] [b.cond.tree, b.first.node]))
    gz gu yz u2 u3 u4 u5 u6
  obtain ⟨s1, s2, s3, s4⟩ := parseStmt_skips g0 (by rw [y0]; exact TokenType.noConfusion)
    (by rw [y0]; exact TokenType.noConfusion) (by rw [y0]; exact TokenType.noConfusion)
    (by rw [y0]; exact TokenType.noConfusion) (by rw [y0]; exact TokenType.noConfusion)
    (by rw [l0]; decide)
  have hstmt : parseStmt (fuel + 7) (atPos ts 0) =
      .ok (some (ParseNode.node "IfStmt".toList [] [b.cond.tree, b.first.node]),
        (atPos ts (1 + c + 3 + f + 1)).prepend []) := by
    rw [parseStmt]
    simp only [currentToken_atPos g0, y0, reduceCtorEq, if_false, s1, s2, s3, s4,
      matchLexeme_atPos_true g0 (by rw [y0]; exact TokenType.noConfusion) "if" l0, if_true,
      bind, Except.bind, hcore]
    exact hchain
  -- the program
  have hloop := parseProgramLoop_stmt (fuel + 7) ts.length [] [] [] _ g0
    (by rw [y0]; exact TokenType.noConfusion) (by rw [y0]; exact TokenType.noConfusion) hstmt
    (by omega)
  rw [List.append_nil] at hloop
  have hrest := parseProgramLoop_lines (fuel + 2) ts (b.second :: b.others) ts.length
    ([] ++ (some (ParseNode.node "IfStmt".toList [] [b.cond.tree, b.first.node])).toList)
    (1 + c + 3 + f + 1) (by simp [hsecond, hothers]) hdrop2
    (by simp only [List.length_cons] at hlines ⊢; omega)
  unfold parseProgram
  rw [hfuel, show ({ tokens := ts } : SyntaxAnalyzer) = (atPos ts 0).prepend [] from rfl, hloop,
    hrest]
  have hpos : 1 + c + 3 + f + 1 + (IfBlock.lineKinds (b.second :: b.others)).length + 1 =
      ts.length - 1 := by omega
  rw [hpos]
  rfl

end SyntaxAnalyzer
end PyAnalyzer
namespace PyAnalyzer
namespace SyntaxAnalyzer

/-- C31: for the tokens of an `if` header (its condition a chain of
comparisons of arithmetic expressions) followed by a NEWLINE, an INDENT, two
or more simple statements with a NEWLINE each, a DEDENT and the end-of-file
token, `parseProgram` returns a `Program` whose first child is the `IfStmt`
with exactly two children, the condition and the first statement of the
block, and whose next children are the other statements of the block, in
order; no syntax error is recorded. -/
theorem if_block_is_one_statement (b : IfBlock) (hv : b.valid = true) (ts : List Token)
    (hk : ts.map (fun t => (t.lexeme, t.type)) = b.kinds ++ [([], TokenType.ENDOFFILE)]) :
    ∃ S, parseProgram ts =
        .ok (ParseNode.node "Program".toList []
          (ParseNode.node "IfStmt".toList [] [b.cond.tree, b.first.node] ::
            b.second.node :: b.others.map SimpleStmt.node), S) ∧
      S.syntaxErrors = [] ∧ S.pos = ts.length - 1 :=
  ⟨atPos ts (ts.length - 1), parseProgram_ifBlock b hv ts hk, rfl, rfl⟩

/-- C31 on the source "if x:" with the block "a = 1", "b = 2" indented by
four spaces. -/
theorem if_block_is_one_statement_witness :
    ∃ L' S, PythonLexer.tokenize exactArith
        (PythonLexer.create "if x:\n    a = 1\n    b = 2\n".toList [0]) = some L' ∧
      L'.errors = [] ∧
      parseProgram (filterComments L'.tokens) =
        .ok (ParseNode.node "Program".toList []
          [ParseNode.node "IfStmt".toList []
            [ParseNode.leaf "Identifier" "x".toList,
              ParseNode.node "Assignment".toList "=".toList
                [ParseNode.leaf "Identifier" "a".toList, ParseNode.leaf "Number" "1".toList]],
            ParseNode.node "Assignment".toList "=".toList
              [ParseNode.leaf "Identifier" "b".toList, ParseNode.leaf "Number" "2".toList]],
          S) ∧
      S.syntaxErrors = [] := by
  obtain ⟨L', h1, h2, h3, h4⟩ : ∃ L', PythonLexer.tokenize exactArith
        (PythonLexer.create "if x:\n    a = 1\n    b = 2\n".toList [0]) = some L' ∧
      L'.errors = [] ∧ filterComments L'.tokens = L'.tokens ∧
      L'.tokens.map (fun t => (t.lexeme, t.type)) =
        IfBlock.kinds ⟨⟨Arith.atom (Operand.ident "x".toList), []⟩,
          SimpleStmt.assignment "a".toList 1 1 (Operand.number "1".toList),
          SimpleStmt.assignment "b".toList 1 1 (Operand.number "2".toList), []⟩ ++
          [([], TokenType.ENDOFFILE)] := ⟨_, rfl, rfl, rfl, rfl⟩
  obtain ⟨S, k1, k2, _⟩ := if_block_is_one_statement
    ⟨⟨Arith.atom (Operand.ident "x".toList), []⟩,
      SimpleStmt.assignment "a".toList 1 1 (Operand.number "1".toList),
      SimpleStmt.assignment "b".toList 1 1 (Operand.number "2".toList), []⟩ (by decide)
    L'.tokens h4
  exact ⟨L', S, h1, h2, by rw [h3]; exact k1, k2⟩

end SyntaxAnalyzer
end PyAnalyzer
namespace PyAnalyzer
namespace SyntaxAnalyzer

/-! ## C38: the position never passes the first end-of-file token -/

theorem eofIndex_le_length (ts : List Token) : eofIndex ts ≤ ts.length := by
  induction ts with
  | nil => exact Nat.le_refl _
  | cons t ts ih =>
    unfold eofIndex
    split_ifs
    · exact Nat.zero_le _
    · simp only [List.length_cons]
      omega

/-- When the list has an ENDOFFILE token, `eofIndex` is the index of one. -/
theorem eofIndex_spec (ts : List Token) (h : ∃ t ∈ ts, t.type = TokenType.ENDOFFILE) :
    ∃ t, ts.get? (eofIndex ts) = some t ∧ t.type = TokenType.ENDOFFILE := by
  induction ts with
  | nil =>
    obtain ⟨t, ht, _⟩ := h
    exact absurd ht (List.not_mem_nil t)
  | cons t ts ih =>
    unfold eofIndex
    split_ifs with hc
    · exact ⟨t, rfl, hc⟩
    · obtain ⟨u, hu, hut⟩ := h
      rcases List.mem_cons.mp hu with rfl | hu
      · exact absurd hut hc
      · exact ih ⟨u, hu, hut⟩

/-- No token before `eofIndex` is an ENDOFFILE token. -/
theorem eofIndex_first (ts : List Token) (i : Nat) (t : Token) (hi : i < eofIndex ts)
    (ht : ts.get? i = some t) : t.type ≠ TokenType.ENDOFFILE := by
  induction ts generalizing i with
  | nil => exact absurd ht (by simp)
  | cons u ts ih =>
    unfold eofIndex at hi
    split_ifs at hi with hc
    · omega
    · cases i with
      | zero =>
        simp only [List.get?_cons_zero, Option.some.injEq] at ht
        rw [← ht]
        exact hc
      | succ i => exact ih i (by omega) (by simpa using ht)

theorem eofIndex_step (ts : List Token) (pos : Nat) (h : pos ≤ eofIndex ts)
    (hlt : pos < ts.length)
    (hne : (ts.getD pos ⟨[], TokenType.ENDOFFILE, 0, 0⟩).type ≠ TokenType.ENDOFFILE) :
    pos + 1 ≤ eofIndex ts := by
  induction ts generalizing pos with
  | nil => exact absurd hlt (by simp)
  | cons t ts ih =>
    unfold eofIndex at h ⊢
    split_ifs at h ⊢ with hc
    · have : pos = 0 := by omega
      subst this
      exact absurd hc hne
    · cases pos with
      | zero => omega
      | succ p =>
        have := ih p (by omega) (by simpa using hlt) (by simpa using hne)
        omega

theorem eofIndex_takeWhile (q : Token → Bool) (hq : ∀ t, q t = true → t.type ≠ TokenType.ENDOFFILE)
    (ts : List Token) (pos : Nat) (h : pos ≤ eofIndex ts) :
    pos + ((ts.drop pos).takeWhile q).length ≤ eofIndex ts := by
  induction ts generalizing pos with
  | nil => simpa using h
  | cons t ts ih =>
    cases pos with
    | zero =>
      simp only [List.drop_zero, List.takeWhile_cons]
      split_ifs with hc
      · have hne := hq t hc
        have := ih 0 (Nat.zero_le _)
        simp only [List.drop_zero] at this
        unfold eofIndex
        rw [if_neg hne]
        simp only [List.length_cons]
        omega
      · simp
    | succ p =>
      unfold eofIndex at h ⊢
      split_ifs at h ⊢ with hc
      · omega
      · have := ih p (by omega)
        simp only [List.drop_succ_cons]
        omega

theorem bounded_advance {ts : List Token} {S : SyntaxAnalyzer} (h : Bounded ts S) :
    Bounded ts S.advance := by
  obtain ⟨h1, h2⟩ := h
  unfold advance
  split_ifs with hc
  · refine ⟨h1, ?_⟩
    simp only [isAtEnd, Bool.not_eq_true', Bool.or_eq_false_iff, decide_eq_false_iff_not,
      ge_iff_le, not_le, beq_eq_false_iff_ne, ne_eq] at hc
    subst h1
    exact eofIndex_step S.tokens S.pos h2 hc.1 hc.2
  · exact ⟨h1, h2⟩

theorem bounded_skipWhile {ts : List Token} {S : SyntaxAnalyzer} {p : Token → Bool}
    (h : Bounded ts S) : Bounded ts (S.skipWhile p) := by
  obtain ⟨h1, h2⟩ := h
  refine ⟨h1, ?_⟩
  subst h1
  exact eofIndex_takeWhile _ (fun t ht => by
    simp only [Bool.and_eq_true, bne_iff_ne, ne_eq] at ht
    exact ht.1) S.tokens S.pos h2

theorem bounded_addSyntaxError {ts : List Token} {S : SyntaxAnalyzer} {msg : List Char}
    {line column : Int} (h : Bounded ts S) : Bounded ts (S.addSyntaxError msg line column) := h

theorem bounded_errorHere {ts : List Token} {S : SyntaxAnalyzer} {msg : String}
    (h : Bounded ts S) : Bounded ts (S.errorHere msg) := h

theorem bounded_matchLexeme {ts : List Token} {S : SyntaxAnalyzer} {l : String}
    (h : Bounded ts S) : Bounded ts (S.matchLexeme l).2 := by
  unfold matchLexeme
  split_ifs
  · exact bounded_advance h
  · exact h

theorem bounded_matchAny {ts : List Token} {S : SyntaxAnalyzer} {ls : List String}
    (h : Bounded ts S) : Bounded ts (S.matchAny ls).2 := by
  induction ls with
  | nil => exact h
  | cons l ls ih =>
    unfold matchAny
    split_ifs
    · exact bounded_matchLexeme h
    · exact ih

theorem bounded_of_matchAny {ts : List Token} {S S1 : SyntaxAnalyzer} {ls : List String}
    {r : Option String} (hm : S.matchAny ls = (r, S1)) (h : Bounded ts S) : Bounded ts S1 := by
  have := @bounded_matchAny ts S ls h
  rw [hm] at this
  exact this

theorem bounded_checkIndentation {ts : List Token} {S : SyntaxAnalyzer} {stmtType : String}
    (h : Bounded ts S) : Bounded ts (S.checkIndentation stmtType).2 := by
  unfold checkIndentation
  dsimp only
  split_ifs
  · exact bounded_errorHere (bounded_skipWhile (bounded_skipWhile h))
  · exact bounded_advance (bounded_skipWhile (bounded_skipWhile h))

theorem bounded_skipToColonOrNewline {ts : List Token} {S : SyntaxAnalyzer}
    (h : Bounded ts S) : Bounded ts S.skipToColonOrNewline :=
  bounded_skipWhile h

theorem bounded_skipToNewline {ts : List Token} {S : SyntaxAnalyzer} (h : Bounded ts S) :
    Bounded ts S.skipToNewline :=
  bounded_skipWhile h

theorem bounded_ite {ts : List Token} {c : Prop} [Decidable c] {A B : SyntaxAnalyzer}
    (hA : Bounded ts A) (hB : Bounded ts B) : Bounded ts (if c then A else B) := by
  split_ifs
  · exact hA
  · exact hB

theorem bounded_afterStmt {ts : List Token} {S S1 : SyntaxAnalyzer} (h : Bounded ts S1) :
    Bounded ts (afterStmt S S1) :=
  bounded_ite (bounded_advance h) h

theorem keeps_error {α : Type} {ts : List Token} (f : Fault) :
    Keeps ts (.error f : Except Fault (α × SyntaxAnalyzer)) :=
  trivial

theorem keeps_ok {α : Type} {ts : List Token} {r : α} {T : SyntaxAnalyzer} (h : Bounded ts T) :
    Keeps ts (.ok (r, T) : Except Fault (α × SyntaxAnalyzer)) :=
  h

theorem keeps_pure {α : Type} {ts : List Token} {r : α} {T : SyntaxAnalyzer}
    (h : Bounded ts T) : Keeps ts (pure (r, T) : Except Fault (α × SyntaxAnalyzer)) :=
  h

theorem keeps_bind {α β : Type} {ts : List Token} {x : Except Fault (α × SyntaxAnalyzer)}
    {g : α × SyntaxAnalyzer → Except Fault (β × SyntaxAnalyzer)} (hx : Keeps ts x)
    (hg : ∀ r T, Bounded ts T → Keeps ts (g (r, T))) : Keeps ts (x >>= g) := by
  rcases x with f | ⟨r, T⟩
  · exact trivial
  · exact hg r T hx

theorem keeps_bind_val {α β : Type} {ts : List Token} {x : Except Fault α}
    {g : α → Except Fault (β × SyntaxAnalyzer)} (hg : ∀ a, Keeps ts (g a)) :
    Keeps ts (x >>= g) := by
  rcases x with f | a
  · exact trivial
  · exact hg a

/-- In a `Bounded` state over a token list that has an ENDOFFILE token, the
position is an index of the list: `currentToken` reads a token of the list,
and so does the guarded read of `tokens[pos + 1]` when its guard holds. -/
theorem bounded_reads {ts : List Token} {S : SyntaxAnalyzer} (h : Bounded ts S)
    (he : ∃ t ∈ ts, t.type = TokenType.ENDOFFILE) :
    S.pos < S.tokens.length ∧ S.tokens.get? S.pos = some S.currentToken := by
  obtain ⟨h1, h2⟩ := h
  obtain ⟨t, ht, _⟩ := eofIndex_spec ts he
  have hlt : eofIndex ts < ts.length := by
    rw [List.get?_eq_getElem?] at ht
    exact (List.getElem?_eq_some_iff.mp ht).1
  subst h1
  have hpos : S.pos < S.tokens.length := by omega
  refine ⟨hpos, ?_⟩
  unfold currentToken
  rw [List.get?_eq_getElem?, List.getD_eq_getElem?_getD, List.getElem?_eq_getElem hpos]
  rfl

end SyntaxAnalyzer
end PyAnalyzer
namespace PyAnalyzer
namespace SyntaxAnalyzer

set_option maxHeartbeats 4000000 in
/-- The expression parsers return a `Bounded` state when they are entered in
one. -/
theorem expression_keeps (ts : List Token) (fuel : Nat) :
    (∀ S, Bounded ts S → Keeps ts (parseFactor fuel S)) ∧
    (∀ skipWs args S, Bounded ts S → Keeps ts (parseArgs fuel skipWs args S)) ∧
    (∀ left S, Bounded ts S → Keeps ts (parseTermLoop fuel left S)) ∧
    (∀ S, Bounded ts S → Keeps ts (parseTerm fuel S)) ∧
    (∀ left S, Bounded ts S → Keeps ts (parseExpressionLoop fuel left S)) ∧
    (∀ S, Bounded ts S → Keeps ts (parseExpression fuel S)) := by
  induction fuel with
  | zero =>
    refine ⟨?_, ?_, ?_, ?_, ?_, ?_⟩
    · intros
      simp only [parseFactor]
      exact keeps_error _
    · intros
      simp only [parseArgs]
      exact keeps_error _
    · intros
      simp only [parseTermLoop]
      exact keeps_error _
    · intros
      simp only [parseTerm]
      exact keeps_error _
    · intros
      simp only [parseExpressionLoop]
      exact keeps_error _
    · intros
      simp only [parseExpression]
      exact keeps_error _
  | succ fuel ih =>
    obtain ⟨ih1, ih2, ih3, ih4, ih5, ih6⟩ := ih
    refine ⟨?_, ?_, ?_, ?_, ?_, ?_⟩
    · intro S hS
      simp only [parseFactor]
      repeat' first
        | assumption
        | with_reducible refine bounded_advance ?_
        | with_reducible refine bounded_skipWhile ?_
        | with_reducible refine bounded_errorHere ?_
        | with_reducible refine bounded_addSyntaxError ?_
        | with_reducible refine bounded_matchLexeme ?_
        | with_reducible refine bounded_matchAny ?_
        | with_reducible refine bounded_checkIndentation ?_
        | with_reducible refine bounded_skipToColonOrNewline ?_
        | with_reducible refine bounded_skipToNewline ?_
        | with_reducible refine bounded_ite ?_ ?_
        | with_reducible refine keeps_ok ?_
        | with_reducible refine keeps_pure ?_
        | exact keeps_error _
        | with_reducible refine ih1 _ ?_
        | with_reducible refine ih2 _ _ _ ?_
        | with_reducible refine ih3 _ _ ?_
        | with_reducible refine ih4 _ ?_
        | with_reducible refine ih5 _ _ ?_
        | with_reducible refine ih6 _ ?_
        | with_reducible refine keeps_bind ?_ (fun r T hT => ?_)
        | dsimp only
        | split
    · intro skipWs args S hS
      simp only [parseArgs]
      repeat' first
        | assumption
        | with_reducible refine bounded_advance ?_
        | with_reducible refine bounded_skipWhile ?_
        | with_reducible refine bounded_errorHere ?_
        | with_reducible refine bounded_addSyntaxError ?_
        | with_reducible refine bounded_matchLexeme ?_
        | with_reducible refine bounded_matchAny ?_
        | with_reducible refine bounded_checkIndentation ?_
        | with_reducible refine bounded_skipToColonOrNewline ?_
        | with_reducible refine bounded_skipToNewline ?_
        | with_reducible refine bounded_ite ?_ ?_
        | with_reducible refine keeps_ok ?_
        | with_reducible refine keeps_pure ?_
        | exact keeps_error _
        | with_reducible refine ih1 _ ?_
        | with_reducible refine ih2 _ _ _ ?_
        | with_reducible refine ih3 _ _ ?_
        | with_reducible refine ih4 _ ?_
        | with_reducible refine ih5 _ _ ?_
        | with_reducible refine ih6 _ ?_
        | with_reducible refine keeps_bind ?_ (fun r T hT => ?_)
        | dsimp only
        | split
    · intro left S hS
      simp only [parseTermLoop]
      rcases hm : (S.skipWhile isWsOrComment).matchAny ["*", "/", "%"] with ⟨_ | op, S1⟩
      all_goals
        have hS1 : Bounded ts S1 := bounded_of_matchAny hm (bounded_skipWhile hS)
        dsimp only
        repeat' first
          | assumption
          | with_reducible refine bounded_advance ?_
          | with_reducible refine bounded_skipWhile ?_
          | with_reducible refine bounded_errorHere ?_
          | with_reducible refine bounded_addSyntaxError ?_
          | with_reducible refine bounded_matchLexeme ?_
          | with_reducible refine bounded_matchAny ?_
          | with_reducible refine bounded_checkIndentation ?_
          | with_reducible refine bounded_skipToColonOrNewline ?_
          | with_reducible refine bounded_skipToNewline ?_
          | with_reducible refine bounded_ite ?_ ?_
          | with_reducible refine keeps_ok ?_
          | with_reducible refine keeps_pure ?_
          | exact keeps_error _
          | with_reducible refine ih1 _ ?_
          | with_reducible refine ih2 _ _ _ ?_
          | with_reducible refine ih3 _ _ ?_
          | with_reducible refine ih4 _ ?_
          | with_reducible refine ih5 _ _ ?_
          | with_reducible refine ih6 _ ?_
          | with_reducible refine keeps_bind ?_ (fun r T hT => ?_)
          | dsimp only
          | split
    · intro S hS
      simp only [parseTerm]
      repeat' first
        | assumption
        | with_reducible refine bounded_advance ?_
        | with_reducible refine bounded_skipWhile ?_
        | with_reducible refine bounded_errorHere ?_
        | with_reducible refine bounded_addSyntaxError ?_
        | with_reducible refine bounded_matchLexeme ?_
        | with_reducible refine bounded_matchAny ?_
        | with_reducible refine bounded_checkIndentation ?_
        | with_reducible refine bounded_skipToColonOrNewline ?_
        | with_reducible refine bounded_skipToNewline ?_
        | with_reducible refine bounded_ite ?_ ?_
        | with_reducible refine keeps_ok ?_
        | with_reducible refine keeps_pure ?_
        | exact keeps_error _
        | with_reducible refine ih1 _ ?_
        | with_reducible refine ih2 _ _ _ ?_
        | with_reducible refine ih3 _ _ ?_
        | with_reducible refine ih4 _ ?_
        | with_reducible refine ih5 _ _ ?_
        | with_reducible refine ih6 _ ?_
        | with_reducible refine keeps_bind ?_ (fun r T hT => ?_)
        | dsimp only
        | split
    · intro left S hS
      simp only [parseExpressionLoop]
      split
      · exact keeps_pure hS
      · split
        · exact keeps_pure (bounded_skipWhile hS)
        · rcases hm : (S.skipWhile isWsOrComment).matchAny ["+", "-"] with ⟨_ | op, S1⟩
          all_goals
            have hS1 : Bounded ts S1 := bounded_of_matchAny hm (bounded_skipWhile hS)
            dsimp only
            repeat' first
              | assumption
              | with_reducible refine bounded_advance ?_
              | with_reducible refine bounded_skipWhile ?_
              | with_reducible refine bounded_errorHere ?_
              | with_reducible refine bounded_addSyntaxError ?_
              | with_reducible refine bounded_matchLexeme ?_
              | with_reducible refine bounded_matchAny ?_
              | with_reducible refine bounded_checkIndentation ?_
              | with_reducible refine bounded_skipToColonOrNewline ?_
              | with_reducible refine bounded_skipToNewline ?_
              | with_reducible refine bounded_ite ?_ ?_
              | with_reducible refine keeps_ok ?_
              | with_reducible refine keeps_pure ?_
              | exact keeps_error _
              | with_reducible refine ih1 _ ?_
              | with_reducible refine ih2 _ _ _ ?_
              | with_reducible refine ih3 _ _ ?_
              | with_reducible refine ih4 _ ?_
              | with_reducible refine ih5 _ _ ?_
              | with_reducible refine ih6 _ ?_
              | with_reducible refine keeps_bind ?_ (fun r T hT => ?_)
              | dsimp only
              | split
    · intro S hS
      simp only [parseExpression]
      repeat' first
        | assumption
        | with_reducible refine bounded_advance ?_
        | with_reducible refine bounded_skipWhile ?_
        | with_reducible refine bounded_errorHere ?_
        | with_reducible refine bounded_addSyntaxError ?_
        | with_reducible refine bounded_matchLexeme ?_
        | with_reducible refine bounded_matchAny ?_
        | with_reducible refine bounded_checkIndentation ?_
        | with_reducible refine bounded_skipToColonOrNewline ?_
        | with_reducible refine bounded_skipToNewline ?_
        | with_reducible refine bounded_ite ?_ ?_
        | with_reducible refine keeps_ok ?_
        | with_reducible refine keeps_pure ?_
        | exact keeps_error _
        | with_reducible refine ih1 _ ?_
        | with_reducible refine ih2 _ _ _ ?_
        | with_reducible refine ih3 _ _ ?_
        | with_reducible refine ih4 _ ?_
        | with_reducible refine ih5 _ _ ?_
        | with_reducible refine ih6 _ ?_
        | with_reducible refine keeps_bind ?_ (fun r T hT => ?_)
        | dsimp only
        | split

end SyntaxAnalyzer
end PyAnalyzer
namespace PyAnalyzer
namespace SyntaxAnalyzer

theorem parseExpression_keeps (ts : List Token) (fuel : Nat) :
    ∀ S, Bounded ts S → Keeps ts (parseExpression fuel S) :=
  (expression_keeps ts fuel).2.2.2.2.2

theorem parseArgs_keeps (ts : List Token) (fuel : Nat) :
    ∀ skipWs args S, Bounded ts S → Keeps ts (parseArgs fuel skipWs args S) :=
  (expression_keeps ts fuel).2.1

theorem parseComparisonLoop_keeps (ts : List Token) (fuel : Nat) :
    ∀ left S, Bounded ts S → Keeps ts (parseComparisonLoop fuel left S) := by
  induction fuel with
  | zero =>
    intros
    simp only [parseComparisonLoop]
    exact keeps_error _
  | succ fuel ih =>
    intro left S hS
    simp only [parseComparisonLoop]
    rcases hm : S.matchAny ["==", "!=", "<=", ">=", "<", ">"] with ⟨_ | op, S1⟩
    all_goals
      have hS1 : Bounded ts S1 := bounded_of_matchAny hm hS
      dsimp only
      repeat' first
        | assumption
        | with_reducible refine bounded_advance ?_
        | with_reducible refine bounded_skipWhile ?_
        | with_reducible refine bounded_errorHere ?_
        | with_reducible refine bounded_addSyntaxError ?_
        | with_reducible refine bounded_matchLexeme ?_
        | with_reducible refine bounded_matchAny ?_
        | with_reducible refine bounded_checkIndentation ?_
        | with_reducible refine bounded_skipToColonOrNewline ?_
        | with_reducible refine bounded_skipToNewline ?_
        | with_reducible refine bounded_ite ?_ ?_
        | with_reducible refine keeps_ok ?_
        | with_reducible refine keeps_pure ?_
        | exact keeps_error _
        | with_reducible refine (parseExpression_keeps ts fuel) _ ?_
        | with_reducible refine ih _ _ ?_
        | with_reducible refine keeps_bind ?_ (fun r T hT => ?_)
        | dsimp only
        | split

theorem parseComparison_keeps (ts : List Token) (fuel : Nat) :
    ∀ S, Bounded ts S → Keeps ts (parseComparison fuel S) := by
  cases fuel with
  | zero =>
    intros
    simp only [parseComparison]
    exact keeps_error _
  | succ fuel =>
    intro S hS
    simp only [parseComparison]
    repeat' first
      | assumption
      | with_reducible refine bounded_advance ?_
      | with_reducible refine bounded_skipWhile ?_
      | with_reducible refine bounded_errorHere ?_
      | with_reducible refine bounded_addSyntaxError ?_
      | with_reducible refine bounded_matchLexeme ?_
      | with_reducible refine bounded_matchAny ?_
      | with_reducible refine bounded_checkIndentation ?_
      | with_reducible refine bounded_skipToColonOrNewline ?_
      | with_reducible refine bounded_skipToNewline ?_
      | with_reducible refine bounded_ite ?_ ?_
      | with_reducible refine keeps_ok ?_
      | with_reducible refine keeps_pure ?_
      | exact keeps_error _
      | with_reducible refine (parseExpression_keeps ts fuel) _ ?_
      | with_reducible refine (parseComparisonLoop_keeps ts fuel) _ _ ?_
      | with_reducible refine keeps_bind ?_ (fun r T hT => ?_)
      | dsimp only
      | split

theorem parseReturnStmt_keeps (ts : List Token) (fuel : Nat) :
    ∀ S, Bounded ts S → Keeps ts (parseReturnStmt fuel S) := by
  cases fuel with
  | zero =>
    intros
    simp only [parseReturnStmt]
    exact keeps_error _
  | succ fuel =>
    intro S hS
    simp only [parseReturnStmt]
    repeat' first
      | assumption
      | with_reducible refine bounded_advance ?_
      | with_reducible refine bounded_skipWhile ?_
      | with_reducible refine bounded_errorHere ?_
      | with_reducible refine bounded_addSyntaxError ?_
      | with_reducible refine bounded_matchLexeme ?_
      | with_reducible refine bounded_matchAny ?_
      | with_reducible refine bounded_checkIndentation ?_
      | with_reducible refine bounded_skipToColonOrNewline ?_
      | with_reducible refine bounded_skipToNewline ?_
      | with_reducible refine bounded_ite ?_ ?_
      | with_reducible refine keeps_ok ?_
      | with_reducible refine keeps_pure ?_
      | exact keeps_error _
      | with_reducible refine (parseExpression_keeps ts fuel) _ ?_
      | with_reducible refine keeps_bind ?_ (fun r T hT => ?_)
      | dsimp only
      | split

theorem parseAssignment_keeps (ts : List Token) (fuel : Nat) :
    ∀ S, Bounded ts S → Keeps ts (parseAssignment fuel S) := by
  cases fuel with
  | zero =>
    intros
    simp only [parseAssignment]
    exact keeps_error _
  | succ fuel =>
    intro S hS
    simp only [parseAssignment]
    rcases hm : S.advance.matchAny ["=", "+=", "-=", "*=", "/="] with ⟨_ | op, S1⟩
    all_goals
      have hS1 : Bounded ts S1 := bounded_of_matchAny hm (bounded_advance hS)
      dsimp only
      repeat' first
        | assumption
        | with_reducible refine bounded_advance ?_
        | with_reducible refine bounded_skipWhile ?_
        | with_reducible refine bounded_errorHere ?_
        | with_reducible refine bounded_addSyntaxError ?_
        | with_reducible refine bounded_matchLexeme ?_
        | with_reducible refine bounded_matchAny ?_
        | with_reducible refine bounded_checkIndentation ?_
        | with_reducible refine bounded_skipToColonOrNewline ?_
        | with_reducible refine bounded_skipToNewline ?_
        | with_reducible refine bounded_ite ?_ ?_
        | with_reducible refine keeps_ok ?_
        | with_reducible refine keeps_pure ?_
        | exact keeps_error _
        | with_reducible refine (parseExpression_keeps ts fuel) _ ?_
        | with_reducible refine keeps_bind ?_ (fun r T hT => ?_)
        | dsimp only
        | split

theorem parseExprStmt_keeps (ts : List Token) (fuel : Nat) :
    ∀ S, Bounded ts S → Keeps ts (parseExprStmt fuel S) := by
  cases fuel with
  | zero =>
    intros
    simp only [parseExprStmt]
    exact keeps_error _
  | succ fuel =>
    intro S hS
    simp only [parseExprStmt]
    repeat' first
      | assumption
      | with_reducible refine bounded_advance ?_
      | with_reducible refine bounded_skipWhile ?_
      | with_reducible refine bounded_errorHere ?_
      | with_reducible refine bounded_addSyntaxError ?_
      | with_reducible refine bounded_matchLexeme ?_
      | with_reducible refine bounded_matchAny ?_
      | with_reducible refine bounded_checkIndentation ?_
      | with_reducible refine bounded_skipToColonOrNewline ?_
      | with_reducible refine bounded_skipToNewline ?_
      | with_reducible refine bounded_ite ?_ ?_
      | with_reducible refine keeps_ok ?_
      | with_reducible refine keeps_pure ?_
      | exact keeps_error _
      | with_reducible refine (parseExpression_keeps ts fuel) _ ?_
      | with_reducible refine keeps_bind ?_ (fun r T hT => ?_)
      | dsimp only
      | split

theorem parseBuiltinCall_keeps (ts : List Token) (fuel : Nat) :
    ∀ S, Bounded ts S → Keeps ts (parseBuiltinCall fuel S) := by
  intro S hS
  simp only [parseBuiltinCall]
  repeat' first
    | assumption
    | with_reducible refine bounded_advance ?_
    | with_reducible refine bounded_skipWhile ?_
    | with_reducible refine bounded_errorHere ?_
    | with_reducible refine bounded_addSyntaxError ?_
    | with_reducible refine bounded_matchLexeme ?_
    | with_reducible refine bounded_matchAny ?_
    | with_reducible refine bounded_checkIndentation ?_
    | with_reducible refine bounded_skipToColonOrNewline ?_
    | with_reducible refine bounded_skipToNewline ?_
    | with_reducible refine bounded_ite ?_ ?_
    | with_reducible refine keeps_ok ?_
    | with_reducible refine keeps_pure ?_
    | exact keeps_error _
    | with_reducible refine (parseExpression_keeps ts fuel) _ ?_
    | with_reducible refine (parseArgs_keeps ts fuel) _ _ _ ?_
    | with_reducible refine keeps_bind ?_ (fun r T hT => ?_)
    | dsimp only
    | split

theorem parseParamListLoop_keeps (ts : List Token) (fuel : Nat) :
    ∀ params S, Bounded ts S → Keeps ts (parseParamListLoop fuel params S) := by
  induction fuel with
  | zero =>
    intros
    simp only [parseParamListLoop]
    exact keeps_error _
  | succ fuel ih =>
    intro params S hS
    simp only [parseParamListLoop]
    repeat' first
      | assumption
      | with_reducible refine bounded_advance ?_
      | with_reducible refine bounded_skipWhile ?_
      | with_reducible refine bounded_errorHere ?_
      | with_reducible refine bounded_addSyntaxError ?_
      | with_reducible refine bounded_matchLexeme ?_
      | with_reducible refine bounded_matchAny ?_
      | with_reducible refine bounded_checkIndentation ?_
      | with_reducible refine bounded_skipToColonOrNewline ?_
      | with_reducible refine bounded_skipToNewline ?_
      | with_reducible refine bounded_ite ?_ ?_
      | with_reducible refine keeps_ok ?_
      | with_reducible refine keeps_pure ?_
      | exact keeps_error _
      | with_reducible refine ih _ _ ?_
      | with_reducible refine keeps_bind ?_ (fun r T hT => ?_)
      | dsimp only
      | split

theorem parseParamList_keeps (ts : List Token) (fuel : Nat) :
    ∀ S, Bounded ts S → Keeps ts (parseParamList fuel S) := by
  intro S hS
  have h := parseParamListLoop_keeps ts fuel [] S hS
  unfold parseParamList
  rcases hx : parseParamListLoop fuel [] S with f | ⟨_ | params, T⟩
  all_goals
    rw [hx] at h
    exact h

theorem parseForTargets_keeps (ts : List Token) (fuel : Nat) :
    ∀ targets S, Bounded ts S → Keeps ts (parseForTargets fuel targets S) := by
  induction fuel with
  | zero =>
    intros
    simp only [parseForTargets]
    exact keeps_error _
  | succ fuel ih =>
    intro targets S hS
    simp only [parseForTargets]
    repeat' first
      | assumption
      | with_reducible refine bounded_advance ?_
      | with_reducible refine bounded_skipWhile ?_
      | with_reducible refine bounded_errorHere ?_
      | with_reducible refine bounded_addSyntaxError ?_
      | with_reducible refine bounded_matchLexeme ?_
      | with_reducible refine bounded_matchAny ?_
      | with_reducible refine bounded_checkIndentation ?_
      | with_reducible refine bounded_skipToColonOrNewline ?_
      | with_reducible refine bounded_skipToNewline ?_
      | with_reducible refine bounded_ite ?_ ?_
      | with_reducible refine keeps_ok ?_
      | with_reducible refine keeps_pure ?_
      | exact keeps_error _
      | with_reducible refine ih _ _ ?_
      | with_reducible refine keeps_bind ?_ (fun r T hT => ?_)
      | dsimp only
      | split

end SyntaxAnalyzer
end PyAnalyzer
namespace PyAnalyzer
namespace SyntaxAnalyzer

set_option maxHeartbeats 4000000 in
theorem parseStmt_keeps_step (ts : List Token) (fuel : Nat) (ih : StatementsKeep ts fuel) :
    ∀ S, Bounded ts S → Keeps ts (parseStmt (fuel + 1) S) := by
  obtain ⟨ih1, ih2, ih3, ih4, ih5, ih6, ih7⟩ := ih
  intro S hS
  simp only [parseStmt, parsePassStmt, parseBreakStmt, parseContinueStmt]
  by_cases hD : S.currentToken.type = TokenType.DEDENT
  · rw [if_pos hD]
    exact keeps_pure (bounded_advance hS)
  rw [if_neg hD]
  have hT0 := bounded_skipWhile (p := fun t => t.lexeme == ":".toList)
    (bounded_skipWhile (p := fun t => t.type == TokenType.COMMENT)
      (bounded_skipWhile (p := fun t => t.type == TokenType.WHITESPACE ||
        t.type == TokenType.INDENT || t.type == TokenType.DEDENT)
        (bounded_skipWhile (p := fun t => t.type == TokenType.NEWLINE ||
          t.type == TokenType.COMMENT) hS)))
  generalize (((S.skipWhile _).skipWhile _).skipWhile _).skipWhile _ = T0 at hT0 ⊢
  by_cases c0 : (T0.matchLexeme "if").1 = true
  · rw [if_pos c0]
    repeat' first
      | assumption
      | with_reducible refine bounded_advance ?_
      | with_reducible refine bounded_skipWhile ?_
      | with_reducible refine bounded_errorHere ?_
      | with_reducible refine bounded_addSyntaxError ?_
      | with_reducible refine bounded_matchLexeme ?_
      | with_reducible refine bounded_matchAny ?_
      | with_reducible refine bounded_checkIndentation ?_
      | with_reducible refine bounded_skipToColonOrNewline ?_
      | with_reducible refine bounded_skipToNewline ?_
      | with_reducible refine bounded_ite ?_ ?_
      | with_reducible refine keeps_ok ?_
      | with_reducible refine keeps_pure ?_
      | exact keeps_error _
      | with_reducible refine (parseReturnStmt_keeps ts fuel) _ ?_
      | with_reducible refine (parseAssignment_keeps ts fuel) _ ?_
      | with_reducible refine (parseExprStmt_keeps ts fuel) _ ?_
      | with_reducible refine (parseBuiltinCall_keeps ts fuel) _ ?_
      | with_reducible refine ih1 _ ?_
      | with_reducible refine ih2 _ ?_
      | with_reducible refine ih3 _ _ ?_
      | with_reducible refine ih4 _ _ ?_
      | with_reducible refine ih5 _ ?_
      | with_reducible refine ih6 _ ?_
      | with_reducible refine ih7 _ ?_
      | with_reducible refine keeps_bind ?_ (fun r T hT => ?_)
  rw [if_neg c0]
  by_cases c1 : (T0.matchLexeme "for").1 = true
  · rw [if_pos c1]
    repeat' first
      | assumption
      | with_reducible refine bounded_advance ?_
      | with_reducible refine bounded_skipWhile ?_
      | with_reducible refine bounded_errorHere ?_
      | with_reducible refine bounded_addSyntaxError ?_
      | with_reducible refine bounded_matchLexeme ?_
      | with_reducible refine bounded_matchAny ?_
      | with_reducible refine bounded_checkIndentation ?_
      | with_reducible refine bounded_skipToColonOrNewline ?_
      | with_reducible refine bounded_skipToNewline ?_
      | with_reducible refine bounded_ite ?_ ?_
      | with_reducible refine keeps_ok ?_
      | with_reducible refine keeps_pure ?_
      | exact keeps_error _
      | with_reducible refine (parseReturnStmt_keeps ts fuel) _ ?_
      | with_reducible refine (parseAssignment_keeps ts fuel) _ ?_
      | with_reducible refine (parseExprStmt_keeps ts fuel) _ ?_
      | with_reducible refine (parseBuiltinCall_keeps ts fuel) _ ?_
      | with_reducible refine ih1 _ ?_
      | with_reducible refine ih2 _ ?_
      | with_reducible refine ih3 _ _ ?_
      | with_reducible refine ih4 _ _ ?_
      | with_reducible refine ih5 _ ?_
  rw [if_neg c1]
  by_cases c2 : (T0.matchLexeme "while").1 = true
  · rw [if_pos c2]
    repeat' first
      | assumption
      | with_reducible refine bounded_advance ?_
      | with_reducible refine bounded_skipWhile ?_
      | with_reducible refine bounded_errorHere ?_
      | with_reducible refine bounded_addSyntaxError ?_
      | with_reducible refine bounded_matchLexeme ?_
      | with_reducible refine bounded_matchAny ?_
      | with_reducible refine bounded_checkIndentation ?_
      | with_reducible refine bounded_skipToColonOrNewline ?_
      | with_reducible refine bounded_skipToNewline ?_
      | with_reducible refine bounded_ite ?_ ?_
      | with_reducible refine keeps_ok ?_
      | with_reducible refine keeps_pure ?_
      | exact keeps_error _
      | with_reducible refine (parseReturnStmt_keeps ts fuel) _ ?_
      | with_reducible refine (parseAssignment_keeps ts fuel) _ ?_
      | with_reducible refine (parseExprStmt_keeps ts fuel) _ ?_
      | with_reducible refine (parseBuiltinCall_keeps ts fuel) _ ?_
      | with_reducible refine ih1 _ ?_
      | with_reducible refine ih2 _ ?_
      | with_reducible refine ih3 _ _ ?_
      | with_reducible refine ih4 _ _ ?_
      | with_reducible refine ih5 _ ?_
      | with_reducible refine ih6 _ ?_
  rw [if_neg c2]
  by_cases c3 : (T0.matchLexeme "def").1 = true
  · rw [if_pos c3]
    repeat' first
      | assumption
      | with_reducible refine bounded_advance ?_
      | with_reducible refine bounded_skipWhile ?_
      | with_reducible refine bounded_errorHere ?_
      | with_reducible refine bounded_addSyntaxError ?_
      | with_reducible refine bounded_matchLexeme ?_
      | with_reducible refine bounded_matchAny ?_
      | with_reducible refine bounded_checkIndentation ?_
      | with_reducible refine bounded_skipToColonOrNewline ?_
      | with_reducible refine bounded_skipToNewline ?_
      | with_reducible refine bounded_ite ?_ ?_
      | with_reducible refine keeps_ok ?_
      | with_reducible refine keeps_pure ?_
      | exact keeps_error _
      | with_reducible refine (parseReturnStmt_keeps ts fuel) _ ?_
      | with_reducible refine (parseAssignment_keeps ts fuel) _ ?_
      | with_reducible refine (parseExprStmt_keeps ts fuel) _ ?_
      | with_reducible refine (parseBuiltinCall_keeps ts fuel) _ ?_
      | with_reducible refine ih1 _ ?_
      | with_reducible refine ih2 _ ?_
      | with_reducible refine ih3 _ _ ?_
      | with_reducible refine ih4 _ _ ?_
      | with_reducible refine ih5 _ ?_
      | with_reducible refine ih6 _ ?_
      | with_reducible refine ih7 _ ?_
  rw [if_neg c3]
  by_cases c4 : (T0.matchLexeme "return").1 = true
  · rw [if_pos c4]
    repeat' first
      | assumption
      | with_reducible refine bounded_advance ?_
      | with_reducible refine bounded_skipWhile ?_
      | with_reducible refine bounded_errorHere ?_
      | with_reducible refine bounded_addSyntaxError ?_
      | with_reducible refine bounded_matchLexeme ?_
      | with_reducible refine bounded_matchAny ?_
      | with_reducible refine bounded_checkIndentation ?_
      | with_reducible refine bounded_skipToColonOrNewline ?_
      | with_reducible refine bounded_skipToNewline ?_
      | with_reducible refine bounded_ite ?_ ?_
      | with_reducible refine keeps_ok ?_
      | with_reducible refine keeps_pure ?_
      | exact keeps_error _
      | with_reducible refine (parseReturnStmt_keeps ts fuel) _ ?_
  rw [if_neg c4]
  by_cases c5 : (T0.matchLexeme "pass").1 = true
  · rw [if_pos c5]
    repeat' first
      | assumption
      | with_reducible refine bounded_advance ?_
      | with_reducible refine bounded_skipWhile ?_
      | with_reducible refine bounded_errorHere ?_
      | with_reducible refine bounded_addSyntaxError ?_
      | with_reducible refine bounded_matchLexeme ?_
      | with_reducible refine bounded_matchAny ?_
      | with_reducible refine bounded_checkIndentation ?_
      | with_reducible refine bounded_skipToColonOrNewline ?_
      | with_reducible refine bounded_skipToNewline ?_
      | with_reducible refine bounded_ite ?_ ?_
      | with_reducible refine keeps_ok ?_
  rw [if_neg c5]
  by_cases c6 : (T0.matchLexeme "else").1 = true
  · rw [if_pos c6]
    repeat' first
      | assumption
      | with_reducible refine bounded_advance ?_
      | with_reducible refine bounded_skipWhile ?_
      | with_reducible refine bounded_errorHere ?_
      | with_reducible refine bounded_addSyntaxError ?_
      | with_reducible refine bounded_matchLexeme ?_
      | with_reducible refine bounded_matchAny ?_
      | with_reducible refine bounded_checkIndentation ?_
      | with_reducible refine bounded_skipToColonOrNewline ?_
      | with_reducible refine bounded_skipToNewline ?_
      | with_reducible refine bounded_ite ?_ ?_
      | with_reducible refine keeps_ok ?_
      | with_reducible refine keeps_pure ?_
  rw [if_neg c6]
  by_cases c7 : (T0.matchLexeme "elif").1 = true
  · rw [if_pos c7]
    repeat' first
      | assumption
      | with_reducible refine bounded_advance ?_
      | with_reducible refine bounded_skipWhile ?_
      | with_reducible refine bounded_errorHere ?_
      | with_reducible refine bounded_addSyntaxError ?_
      | with_reducible refine bounded_matchLexeme ?_
      | with_reducible refine bounded_matchAny ?_
      | with_reducible refine bounded_checkIndentation ?_
      | with_reducible refine bounded_skipToColonOrNewline ?_
      | with_reducible refine bounded_skipToNewline ?_
      | with_reducible refine bounded_ite ?_ ?_
      | with_reducible refine keeps_ok ?_
      | with_reducible refine keeps_pure ?_
  rw [if_neg c7]
  by_cases c8 : (T0.matchLexeme "break").1 = true
  · rw [if_pos c8]
    repeat' first
      | assumption
      | with_reducible refine bounded_advance ?_
      | with_reducible refine bounded_skipWhile ?_
      | with_reducible refine bounded_errorHere ?_
      | with_reducible refine bounded_addSyntaxError ?_
      | with_reducible refine bounded_matchLexeme ?_
      | with_reducible refine bounded_matchAny ?_
      | with_reducible refine bounded_checkIndentation ?_
      | with_reducible refine bounded_skipToColonOrNewline ?_
      | with_reducible refine bounded_skipToNewline ?_
      | with_reducible refine bounded_ite ?_ ?_
      | with_reducible refine keeps_ok ?_
  rw [if_neg c8]
  by_cases c9 : (T0.matchLexeme "continue").1 = true
  · rw [if_pos c9]
    repeat' first
      | assumption
      | with_reducible refine bounded_advance ?_
      | with_reducible refine bounded_skipWhile ?_
      | with_reducible refine bounded_errorHere ?_
      | with_reducible refine bounded_addSyntaxError ?_
      | with_reducible refine bounded_matchLexeme ?_
      | with_reducible refine bounded_matchAny ?_
      | with_reducible refine bounded_checkIndentation ?_
      | with_reducible refine bounded_skipToColonOrNewline ?_
      | with_reducible refine bounded_skipToNewline ?_
      | with_reducible refine bounded_ite ?_ ?_
      | with_reducible refine keeps_ok ?_
  rw [if_neg c9]
  repeat' first
    | assumption
    | with_reducible refine bounded_advance ?_
    | with_reducible refine bounded_skipWhile ?_
    | with_reducible refine bounded_errorHere ?_
    | with_reducible refine bounded_addSyntaxError ?_
    | with_reducible refine bounded_matchLexeme ?_
    | with_reducible refine bounded_matchAny ?_
    | with_reducible refine bounded_checkIndentation ?_
    | with_reducible refine bounded_skipToColonOrNewline ?_
    | with_reducible refine bounded_skipToNewline ?_
    | with_reducible refine bounded_ite ?_ ?_
    | with_reducible refine keeps_ok ?_
    | with_reducible refine keeps_pure ?_
    | exact keeps_error _
    | with_reducible refine (parseReturnStmt_keeps ts fuel) _ ?_
    | with_reducible refine (parseAssignment_keeps ts fuel) _ ?_
    | with_reducible refine (parseExprStmt_keeps ts fuel) _ ?_
    | with_reducible refine (parseBuiltinCall_keeps ts fuel) _ ?_
    | with_reducible refine ih1 _ ?_
    | with_reducible refine ih2 _ ?_
    | with_reducible refine ih3 _ _ ?_
    | with_reducible refine ih4 _ _ ?_
    | with_reducible refine ih5 _ ?_
    | with_reducible refine ih6 _ ?_
    | with_reducible refine ih7 _ ?_
    | with_reducible refine keeps_bind ?_ (fun r T hT => ?_)
    | with_reducible refine keeps_bind_val (fun a => ?_)
    | dsimp only
    | split

set_option maxHeartbeats 4000000 in
theorem parseIfCore_keeps_step (ts : List Token) (fuel : Nat) (ih : StatementsKeep ts fuel) :
    ∀ S, Bounded ts S → Keeps ts (parseIfCore (fuel + 1) S) := by
  obtain ⟨ih1, ih2, ih3, ih4, ih5, ih6, ih7⟩ := ih
  intro S hS
  simp only [parseIfCore, parsePassStmt, parseBreakStmt, parseContinueStmt]
  repeat' first
    | assumption
    | with_reducible refine bounded_advance ?_
    | with_reducible refine bounded_skipWhile ?_
    | with_reducible refine bounded_errorHere ?_
    | with_reducible refine bounded_addSyntaxError ?_
    | with_reducible refine bounded_matchLexeme ?_
    | with_reducible refine bounded_matchAny ?_
    | with_reducible refine bounded_checkIndentation ?_
    | with_reducible refine bounded_skipToColonOrNewline ?_
    | with_reducible refine bounded_skipToNewline ?_
    | with_reducible refine bounded_ite ?_ ?_
    | with_reducible refine keeps_ok ?_
    | with_reducible refine keeps_pure ?_
    | exact keeps_error _
    | with_reducible refine (parseComparison_keeps ts fuel) _ ?_
    | with_reducible refine ih1 _ ?_
    | with_reducible refine ih2 _ ?_
    | with_reducible refine ih3 _ _ ?_
    | with_reducible refine ih4 _ _ ?_
    | with_reducible refine ih5 _ ?_
    | with_reducible refine ih6 _ ?_
    | with_reducible refine ih7 _ ?_
    | with_reducible refine keeps_bind ?_ (fun r T hT => ?_)
    | with_reducible refine keeps_bind_val (fun a => ?_)
    | dsimp only
    | split

set_option maxHeartbeats 4000000 in
theorem parseElifs_keeps_step (ts : List Token) (fuel : Nat) (ih : StatementsKeep ts fuel) :
    ∀ node S, Bounded ts S → Keeps ts (parseElifs (fuel + 1) node S) := by
  obtain ⟨ih1, ih2, ih3, ih4, ih5, ih6, ih7⟩ := ih
  intro node S hS
  simp only [parseElifs, parsePassStmt, parseBreakStmt, parseContinueStmt]
  refine keeps_bind (parseComparison_keeps ts fuel _ hS)
    (fun cond T hT => ?_)
  dsimp only
  generalize hS1 : (if cond.isNone = true then
    T.errorHere "Invalid expression in elif condition" else T) = S1
  have h1 : Bounded ts S1 := by
    rw [← hS1]
    exact bounded_ite (bounded_errorHere hT) hT
  clear hS1
  generalize hS2 : (if (!(S1.matchLexeme ":").1) = true then
    if S1.currentToken.lexeme = "=".toList then
      S1.errorHere "Invalid '=' in condition; did you mean '=='?"
    else S1.errorHere "Expected ':' after elif condition"
    else (S1.matchLexeme ":").2) = S2
  have h2 : Bounded ts S2 := by
    rw [← hS2]
    exact bounded_ite (bounded_ite (bounded_errorHere h1) (bounded_errorHere h1))
      (bounded_matchLexeme h1)
  clear hS2
  generalize (S1.matchLexeme ":").1 = colon
  have h3 : Bounded ts (S2.checkIndentation "elif").2 := bounded_checkIndentation h2
  generalize (S2.checkIndentation "elif").2 = S3 at h3 ⊢
  generalize (S2.checkIndentation "elif").1 = indented
  split
  · exact keeps_error _
  split
  · exact keeps_error _
  refine keeps_bind (ih1 _ h3) (fun body T2 hT2 => ?_)
  dsimp only
  split
  · exact keeps_error _
  generalize (cond.isSome && colon && indented && body.isSome) = valid
  generalize hS4 : (if (!valid) = true then
    ((T2.skipWhile isNewline).skipWhile isWsOrDedent).skipWhile _
    else (T2.skipWhile isNewline).skipWhile isWsOrDedent) = S4
  have h4 : Bounded ts S4 := by
    rw [← hS4]
    exact bounded_ite (bounded_skipWhile (bounded_skipWhile (bounded_skipWhile hT2)))
      (bounded_skipWhile (bounded_skipWhile hT2))
  clear hS4
  repeat' first
    | assumption
    | with_reducible refine bounded_advance ?_
    | with_reducible refine bounded_skipWhile ?_
    | with_reducible refine bounded_errorHere ?_
    | with_reducible refine bounded_addSyntaxError ?_
    | with_reducible refine bounded_matchLexeme ?_
    | with_reducible refine bounded_matchAny ?_
    | with_reducible refine bounded_checkIndentation ?_
    | with_reducible refine bounded_skipToColonOrNewline ?_
    | with_reducible refine bounded_skipToNewline ?_
    | with_reducible refine bounded_ite ?_ ?_
    | with_reducible refine keeps_ok ?_
    | with_reducible refine keeps_pure ?_
    | exact keeps_error _
    | with_reducible refine ih1 _ ?_
    | with_reducible refine ih2 _ ?_
    | with_reducible refine ih3 _ _ ?_
    | with_reducible refine ih4 _ _ ?_
    | with_reducible refine ih5 _ ?_
    | with_reducible refine ih6 _ ?_
    | with_reducible refine ih7 _ ?_
    | with_reducible refine keeps_bind ?_ (fun r T hT => ?_)
    | with_reducible refine keeps_bind_val (fun a => ?_)
    | dsimp only
    | split

set_option maxHeartbeats 4000000 in
theorem parseIfChain_keeps_step (ts : List Token) (fuel : Nat) (ih : StatementsKeep ts fuel) :
    ∀ node S, Bounded ts S → Keeps ts (parseIfChain (fuel + 1) node S) := by
  obtain ⟨ih1, ih2, ih3, ih4, ih5, ih6, ih7⟩ := ih
  intro node S hS
  simp only [parseIfChain, parsePassStmt, parseBreakStmt, parseContinueStmt]
  repeat' first
    | assumption
    | with_reducible refine bounded_advance ?_
    | with_reducible refine bounded_skipWhile ?_
    | with_reducible refine bounded_errorHere ?_
    | with_reducible refine bounded_addSyntaxError ?_
    | with_reducible refine bounded_matchLexeme ?_
    | with_reducible refine bounded_matchAny ?_
    | with_reducible refine bounded_checkIndentation ?_
    | with_reducible refine bounded_skipToColonOrNewline ?_
    | with_reducible refine bounded_skipToNewline ?_
    | with_reducible refine bounded_ite ?_ ?_
    | with_reducible refine keeps_ok ?_
    | with_reducible refine keeps_pure ?_
    | exact keeps_error _
    | with_reducible refine ih1 _ ?_
    | with_reducible refine ih2 _ ?_
    | with_reducible refine ih3 _ _ ?_
    | with_reducible refine ih4 _ _ ?_
    | with_reducible refine ih5 _ ?_
    | with_reducible refine ih6 _ ?_
    | with_reducible refine ih7 _ ?_
    | with_reducible refine keeps_bind ?_ (fun r T hT => ?_)
    | with_reducible refine keeps_bind_val (fun a => ?_)
    | dsimp only
    | split

set_option maxHeartbeats 4000000 in
theorem parseForStmt_keeps_step (ts : List Token) (fuel : Nat) (ih : StatementsKeep ts fuel) :
    ∀ S, Bounded ts S → Keeps ts (parseForStmt (fuel + 1) S) := by
  obtain ⟨ih1, ih2, ih3, ih4, ih5, ih6, ih7⟩ := ih
  intro S hS
  simp only [parseForStmt, parsePassStmt, parseBreakStmt, parseContinueStmt]
  repeat' first
    | assumption
    | with_reducible refine bounded_advance ?_
    | with_reducible refine bounded_skipWhile ?_
    | with_reducible refine bounded_errorHere ?_
    | with_reducible refine bounded_addSyntaxError ?_
    | with_reducible refine bounded_matchLexeme ?_
    | with_reducible refine bounded_matchAny ?_
    | with_reducible refine bounded_checkIndentation ?_
    | with_reducible refine bounded_skipToColonOrNewline ?_
    | with_reducible refine bounded_skipToNewline ?_
    | with_reducible refine bounded_ite ?_ ?_
    | with_reducible refine keeps_ok ?_
    | with_reducible refine keeps_pure ?_
    | exact keeps_error _
    | with_reducible refine (parseForTargets_keeps ts fuel) _ _ ?_
    | with_reducible refine (parseComparison_keeps ts fuel) _ ?_
    | with_reducible refine ih1 _ ?_
    | with_reducible refine ih2 _ ?_
    | with_reducible refine ih3 _ _ ?_
    | with_reducible refine ih4 _ _ ?_
    | with_reducible refine ih5 _ ?_
    | with_reducible refine ih6 _ ?_
    | with_reducible refine ih7 _ ?_
    | with_reducible refine keeps_bind ?_ (fun r T hT => ?_)
    | with_reducible refine keeps_bind_val (fun a => ?_)
    | dsimp only
    | split

set_option maxHeartbeats 4000000 in
theorem parseWhileStmt_keeps_step (ts : List Token) (fuel : Nat) (ih : StatementsKeep ts fuel) :
    ∀ S, Bounded ts S → Keeps ts (parseWhileStmt (fuel + 1) S) := by
  obtain ⟨ih1, ih2, ih3, ih4, ih5, ih6, ih7⟩ := ih
  intro S hS
  simp only [parseWhileStmt, parsePassStmt, parseBreakStmt, parseContinueStmt]
  refine keeps_bind (parseComparison_keeps ts fuel _ (bounded_matchLexeme hS))
    (fun cond T hT => ?_)
  dsimp only
  generalize (S.matchLexeme "(").1 = sawParen
  generalize hS1 : (if cond.isNone = true then
    (T.errorHere "Invalid expression in while condition").skipToColonOrNewline else T) = S1
  have h1 : Bounded ts S1 := by
    rw [← hS1]
    exact bounded_ite (bounded_skipToColonOrNewline (bounded_errorHere hT)) hT
  clear hS1
  generalize hS2 : (if sawParen = true then
    if (!(S1.matchLexeme ")").1) = true then S1.errorHere "Expected ')' after while condition"
    else (S1.matchLexeme ")").2 else S1) = S2
  have h2 : Bounded ts S2 := by
    rw [← hS2]
    exact bounded_ite (bounded_ite (bounded_errorHere h1) (bounded_matchLexeme h1)) h1
  clear hS2
  generalize hS3 : (if S2.currentToken.lexeme = "=".toList then
    ((S2.errorHere "Invalid '=' in condition; did you mean '=='?").advance).skipToColonOrNewline
    else S2) = S3
  have h3 : Bounded ts S3 := by
    rw [← hS3]
    exact bounded_ite (bounded_skipToColonOrNewline (bounded_advance (bounded_errorHere h2))) h2
  clear hS3
  repeat' first
    | assumption
    | with_reducible refine bounded_advance ?_
    | with_reducible refine bounded_skipWhile ?_
    | with_reducible refine bounded_errorHere ?_
    | with_reducible refine bounded_addSyntaxError ?_
    | with_reducible refine bounded_matchLexeme ?_
    | with_reducible refine bounded_matchAny ?_
    | with_reducible refine bounded_checkIndentation ?_
    | with_reducible refine bounded_skipToColonOrNewline ?_
    | with_reducible refine bounded_skipToNewline ?_
    | with_reducible refine bounded_ite ?_ ?_
    | with_reducible refine keeps_ok ?_
    | with_reducible refine keeps_pure ?_
    | exact keeps_error _
    | with_reducible refine ih1 _ ?_
    | with_reducible refine ih2 _ ?_
    | with_reducible refine ih3 _ _ ?_
    | with_reducible refine ih4 _ _ ?_
    | with_reducible refine ih5 _ ?_
    | with_reducible refine ih6 _ ?_
    | with_reducible refine ih7 _ ?_
    | with_reducible refine keeps_bind ?_ (fun r T hT => ?_)
    | with_reducible refine keeps_bind_val (fun a => ?_)
    | dsimp only
    | split

set_option maxHeartbeats 4000000 in
theorem parseFuncDef_keeps_step (ts : List Token) (fuel : Nat) (ih : StatementsKeep ts fuel) :
    ∀ S, Bounded ts S → Keeps ts (parseFuncDef (fuel + 1) S) := by
  obtain ⟨ih1, ih2, ih3, ih4, ih5, ih6, ih7⟩ := ih
  intro S hS
  simp only [parseFuncDef, parsePassStmt, parseBreakStmt, parseContinueStmt]
  repeat' first
    | assumption
    | with_reducible refine bounded_advance ?_
    | with_reducible refine bounded_skipWhile ?_
    | with_reducible refine bounded_errorHere ?_
    | with_reducible refine bounded_addSyntaxError ?_
    | with_reducible refine bounded_matchLexeme ?_
    | with_reducible refine bounded_matchAny ?_
    | with_reducible refine bounded_checkIndentation ?_
    | with_reducible refine bounded_skipToColonOrNewline ?_
    | with_reducible refine bounded_skipToNewline ?_
    | with_reducible refine bounded_ite ?_ ?_
    | with_reducible refine keeps_ok ?_
    | with_reducible refine keeps_pure ?_
    | exact keeps_error _
    | with_reducible refine (parseParamList_keeps ts fuel) _ ?_
    | with_reducible refine ih1 _ ?_
    | with_reducible refine ih2 _ ?_
    | with_reducible refine ih3 _ _ ?_
    | with_reducible refine ih4 _ _ ?_
    | with_reducible refine ih5 _ ?_
    | with_reducible refine ih6 _ ?_
    | with_reducible refine ih7 _ ?_
    | with_reducible refine keeps_bind ?_ (fun r T hT => ?_)
    | with_reducible refine keeps_bind_val (fun a => ?_)
    | dsimp only
    | split

end SyntaxAnalyzer
end PyAnalyzer
namespace PyAnalyzer
namespace SyntaxAnalyzer

/-- The statement parsers return a `Bounded` state when they are entered in
one. -/
theorem statement_keeps (ts : List Token) (fuel : Nat) : StatementsKeep ts fuel := by
  induction fuel with
  | zero =>
    refine ⟨?_, ?_, ?_, ?_, ?_, ?_, ?_⟩
    · intros
      simp only [parseStmt]
      exact keeps_error _
    · intros
      simp only [parseIfCore]
      exact keeps_error _
    · intros
      simp only [parseElifs]
      exact keeps_error _
    · intros
      simp only [parseIfChain]
      exact keeps_error _
    · intros
      simp only [parseForStmt]
      exact keeps_error _
    · intros
      simp only [parseWhileStmt]
      exact keeps_error _
    · intros
      simp only [parseFuncDef]
      exact keeps_error _
  | succ fuel ih =>
    exact ⟨parseStmt_keeps_step ts fuel ih, parseIfCore_keeps_step ts fuel ih,
      parseElifs_keeps_step ts fuel ih, parseIfChain_keeps_step ts fuel ih,
      parseForStmt_keeps_step ts fuel ih, parseWhileStmt_keeps_step ts fuel ih,
      parseFuncDef_keeps_step ts fuel ih⟩

/-- The loop of `parseProgram` returns a `Bounded` state when it is entered
in one. -/
theorem parseProgramLoop_keeps (ts : List Token) (stmtFuel : Nat) :
    ∀ (fuel : Nat) (children : List ParseNode) (S : SyntaxAnalyzer), Bounded ts S →
      Keeps ts (parseProgramLoop stmtFuel fuel children S) := by
  intro fuel
  induction fuel with
  | zero =>
    intros
    simp only [parseProgramLoop]
    exact keeps_error _
  | succ fuel ih =>
    intro children S hS
    unfold parseProgramLoop
    split_ifs
    · exact keeps_ok hS
    · exact ih _ _ (bounded_advance hS)
    · have hs := (statement_keeps ts stmtFuel).1 S hS
      rcases hx : parseStmt stmtFuel S with f | ⟨stmt, S1⟩
      · exact keeps_error _
      · rw [hx] at hs
        exact ih _ _ (bounded_ite (bounded_advance hs) hs)

/-- The state that `parseProgram` returns is `Bounded`. -/
theorem parseProgram_bounded (ts : List Token) (root : ParseNode) (T : SyntaxAnalyzer)
    (h : parseProgram ts = .ok (root, T)) : Bounded ts T := by
  have hk := parseProgramLoop_keeps ts (parseFuel ts) (ts.length + 1) [] { tokens := ts }
    ⟨rfl, Nat.zero_le _⟩
  unfold parseProgram at h
  rcases hx : parseProgramLoop (parseFuel ts) (ts.length + 1) [] { tokens := ts }
    with f | ⟨children, S⟩
  · rw [hx] at h
    exact absurd h (by simp)
  · rw [hx] at h hk
    simp only [Except.ok.injEq, Prod.mk.injEq] at h
    rw [← h.2]
    exact hk

theorem nextIsAssignOp_guard (S : SyntaxAnalyzer) (h : nextIsAssignOp S = true) :
    S.pos + 1 < S.tokens.length := by
  unfold nextIsAssignOp at h
  cases hg : S.tokens.get? (S.pos + 1) with
  | none =>
    rw [hg] at h
    exact absurd h (by simp)
  | some t =>
    rw [List.get?_eq_getElem?] at hg
    exact (List.getElem?_eq_some_iff.mp hg).1

end SyntaxAnalyzer
end PyAnalyzer
namespace PyAnalyzer
namespace SyntaxAnalyzer

/-- C38: for a token list `ts` that has an ENDOFFILE token, with `eofIndex
ts` the index of the first one and `Bounded ts S` for "the parser `S` reads
`ts` at a position not after `eofIndex ts`": the parser starts `Bounded`;
every operation that moves the position (`advance`, the skipping loops,
`match`, `checkIndentation`, the step after a statement in `parseProgram`)
and every parsing function returns a `Bounded` state when entered in one, so
does the loop of `parseProgram`, and the state that `parseProgram` returns
is `Bounded`; and in every `Bounded` state the position is an index of the
list, so that `currentToken` reads a token of the list there, and the read
of `tokens[pos + 1]` in the test for an assignment operator happens only
when `pos + 1` is an index. -/
theorem position_within_first_eof (ts : List Token)
    (he : ∃ t ∈ ts, t.type = TokenType.ENDOFFILE) :
    (∃ t, ts.get? (eofIndex ts) = some t ∧ t.type = TokenType.ENDOFFILE) ∧
    (∀ i t, i < eofIndex ts → ts.get? i = some t → t.type ≠ TokenType.ENDOFFILE) ∧
    Bounded ts { tokens := ts } ∧
    (∀ S, Bounded ts S →
      Bounded ts S.advance ∧ (∀ p, Bounded ts (S.skipWhile p)) ∧
      (∀ l, Bounded ts (S.matchLexeme l).2) ∧ (∀ ls, Bounded ts (S.matchAny ls).2) ∧
      (∀ stmtType, Bounded ts (S.checkIndentation stmtType).2) ∧
      (∀ S0, Bounded ts (afterStmt S0 S)) ∧ (∀ msg, Bounded ts (S.errorHere msg))) ∧
    (∀ fuel S, Bounded ts S →
      Keeps ts (parseFactor fuel S) ∧ (∀ skipWs args, Keeps ts (parseArgs fuel skipWs args S)) ∧
      (∀ left, Keeps ts (parseTermLoop fuel left S)) ∧ Keeps ts (parseTerm fuel S) ∧
      (∀ left, Keeps ts (parseExpressionLoop fuel left S)) ∧
      Keeps ts (parseExpression fuel S) ∧
      (∀ left, Keeps ts (parseComparisonLoop fuel left S)) ∧
      Keeps ts (parseComparison fuel S) ∧ Keeps ts (parseReturnStmt fuel S) ∧
      Keeps ts (parseAssignment fuel S) ∧ Keeps ts (parseExprStmt fuel S) ∧
      Keeps ts (parseBuiltinCall fuel S) ∧ Keeps ts (parseParamList fuel S) ∧
      (∀ targets, Keeps ts (parseForTargets fuel targets S))) ∧
    (∀ fuel S, Bounded ts S →
      Keeps ts (parseStmt fuel S) ∧ Keeps ts (parseIfCore fuel S) ∧
      (∀ node, Keeps ts (parseElifs fuel node S)) ∧
      (∀ node, Keeps ts (parseIfChain fuel node S)) ∧ Keeps ts (parseForStmt fuel S) ∧
      Keeps ts (parseWhileStmt fuel S) ∧ Keeps ts (parseFuncDef fuel S)) ∧
    (∀ stmtFuel fuel children S, Bounded ts S →
      Keeps ts (parseProgramLoop stmtFuel fuel children S)) ∧
    (∀ root T, parseProgram ts = .ok (root, T) → Bounded ts T) ∧
    (∀ S, Bounded ts S →
      S.pos < S.tokens.length ∧ S.tokens.get? S.pos = some S.currentToken) ∧
    (∀ S, nextIsAssignOp S = true → S.pos + 1 < S.tokens.length) := by
  refine ⟨eofIndex_spec ts he, fun i t hi ht => eofIndex_first ts i t hi ht,
    ⟨rfl, Nat.zero_le _⟩, ?_, ?_, ?_, fun stmtFuel fuel children S hS =>
      parseProgramLoop_keeps ts stmtFuel fuel children S hS,
    parseProgram_bounded ts, fun S hS => bounded_reads hS he, nextIsAssignOp_guard⟩
  · intro S hS
    exact ⟨bounded_advance hS, fun _ => bounded_skipWhile hS, fun _ => bounded_matchLexeme hS,
      fun _ => bounded_matchAny hS, fun _ => bounded_checkIndentation hS,
      fun _ => bounded_afterStmt hS, fun _ => bounded_errorHere hS⟩
  · intro fuel S hS
    obtain ⟨e1, e2, e3, e4, e5, e6⟩ := expression_keeps ts fuel
    exact ⟨e1 S hS, fun _ _ => e2 _ _ S hS, fun _ => e3 _ S hS, e4 S hS, fun _ => e5 _ S hS,
      e6 S hS, fun _ => parseComparisonLoop_keeps ts fuel _ S hS,
      parseComparison_keeps ts fuel S hS, parseReturnStmt_keeps ts fuel S hS,
      parseAssignment_keeps ts fuel S hS, parseExprStmt_keeps ts fuel S hS,
      parseBuiltinCall_keeps ts fuel S hS, parseParamList_keeps ts fuel S hS,
      fun _ => parseForTargets_keeps ts fuel _ S hS⟩
  · intro fuel S hS
    obtain ⟨s1, s2, s3, s4, s5, s6, s7⟩ := statement_keeps ts fuel
    exact ⟨s1 S hS, s2 S hS, fun _ => s3 _ S hS, fun _ => s4 _ S hS, s5 S hS, s6 S hS, s7 S hS⟩

set_option maxHeartbeats 4000000 in
/-- C38 on the tokens of "if x:", an unindented "pass" and a second
end-of-file token after the first: the first ENDOFFILE token is at index 6,
`parseProgram` returns at position 6, and `currentToken` there is that
token. -/
theorem position_within_first_eof_witness :
    eofIndex (tokensOfKinds [("if".toList, TokenType.KEYWORD), ("x".toList, TokenType.IDENTIFIER),
      (":".toList, TokenType.DELIMITER), ("\n".toList, TokenType.NEWLINE),
      ("pass".toList, TokenType.KEYWORD), ("\n".toList, TokenType.NEWLINE),
      ([], TokenType.ENDOFFILE), ("y".toList, TokenType.IDENTIFIER),
      ([], TokenType.ENDOFFILE)]) = 6 ∧
    ∃ root T, parseProgram (tokensOfKinds [("if".toList, TokenType.KEYWORD),
        ("x".toList, TokenType.IDENTIFIER), (":".toList, TokenType.DELIMITER),
        ("\n".toList, TokenType.NEWLINE), ("pass".toList, TokenType.KEYWORD),
        ("\n".toList, TokenType.NEWLINE), ([], TokenType.ENDOFFILE),
        ("y".toList, TokenType.IDENTIFIER), ([], TokenType.ENDOFFILE)]) = .ok (root, T) ∧
      T.pos = 6 ∧ T.pos < T.tokens.length ∧
      T.tokens.get? T.pos = some T.currentToken := by
  have h := position_within_first_eof
    (tokensOfKinds [("if".toList, TokenType.KEYWORD), ("x".toList, TokenType.IDENTIFIER),
      (":".toList, TokenType.DELIMITER), ("\n".toList, TokenType.NEWLINE),
      ("pass".toList, TokenType.KEYWORD), ("\n".toList, TokenType.NEWLINE),
      ([], TokenType.ENDOFFILE), ("y".toList, TokenType.IDENTIFIER),
      ([], TokenType.ENDOFFILE)])
    ⟨⟨[], TokenType.ENDOFFILE, 1, 1⟩, by simp [tokensOfKinds], rfl⟩
  obtain ⟨root, T, hp, hpos⟩ : ∃ root T,
      parseProgram (tokensOfKinds [("if".toList, TokenType.KEYWORD),
        ("x".toList, TokenType.IDENTIFIER), (":".toList, TokenType.DELIMITER),
        ("\n".toList, TokenType.NEWLINE), ("pass".toList, TokenType.KEYWORD),
        ("\n".toList, TokenType.NEWLINE), ([], TokenType.ENDOFFILE),
        ("y".toList, TokenType.IDENTIFIER), ([], TokenType.ENDOFFILE)]) = .ok (root, T) ∧
      T.pos = 6 := ⟨_, _, rfl, rfl⟩
  have hb := h.2.2.2.2.2.2.2.1 root T hp
  obtain ⟨r1, r2⟩ := h.2.2.2.2.2.2.2.2.1 T hb
  exact ⟨rfl, root, T, hp, hpos, r1, r2⟩

end SyntaxAnalyzer
end PyAnalyzer
namespace PyAnalyzer
namespace PythonLexer

/-! ## The tokens of `tokenize` are plain operands and operators for `toRPN` -/

theorem plainKind_of_type {l : List Char} {ty : TokenType}
    (h : (isOperandType ty || isArithOperatorType ty) = false) : plainKind l ty := by
  intro h'
  rw [h] at h'
  exact absurd h' (by decide)

theorem plainKind_of_headOk {l : List Char} {ty : TokenType} (h : headOk l = true) :
    plainKind l ty := by
  intro _
  constructor
  · rintro rfl
    exact absurd h (by decide)
  · rintro rfl
    exact absurd h (by decide)

theorem plainKind_of_noParen {l : List Char} {ty : TokenType} (h : noParen l = true) :
    plainKind l ty := by
  intro _
  constructor
  · rintro rfl
    exact absurd h (by decide)
  · rintro rfl
    exact absurd h (by decide)

theorem headOk_append {a : List Char} (h : headOk a = true) (b : List Char) :
    headOk (a ++ b) = true := by
  cases a with
  | nil => exact absurd h (by decide)
  | cons c cs => exact h

theorem headOk_takeWhile (p : Char → Bool) (h1 : p '(' = false) (h2 : p ')' = false)
    (l : List Char) (hne : l.takeWhile p ≠ []) : headOk (l.takeWhile p) = true := by
  cases l with
  | nil => exact absurd rfl hne
  | cons c cs =>
    rw [List.takeWhile_cons] at hne ⊢
    split_ifs at hne ⊢ with hc
    · simp only [headOk, Bool.and_eq_true, bne_iff_ne, ne_eq]
      constructor
      · rintro rfl
        rw [h1] at hc
        exact absurd hc (by decide)
      · rintro rfl
        rw [h2] at hc
        exact absurd hc (by decide)
    · exact absurd rfl hne

theorem noParen_takeWhile (p : Char → Bool) (h1 : p '(' = false) (h2 : p ')' = false)
    (l : List Char) : noParen (l.takeWhile p) = true := by
  unfold noParen
  rw [List.all_eq_true]
  intro c hc
  have hp := List.mem_takeWhile_imp hc
  simp only [Bool.and_eq_true, bne_iff_ne, ne_eq]
  constructor
  · rintro rfl
    rw [h1] at hp
    exact absurd hp (by decide)
  · rintro rfl
    rw [h2] at hp
    exact absurd hp (by decide)

theorem noParen_append {a b : List Char} (ha : noParen a = true) (hb : noParen b = true) :
    noParen (a ++ b) = true := by
  unfold noParen at ha hb ⊢
  rw [List.all_append, ha, hb]
  rfl

theorem allPlain_of_tokens {L L' : PythonLexer} (h : AllPlain L) (ht : L'.tokens = L.tokens) :
    AllPlain L' := by
  intro t hm
  rw [ht] at hm
  exact h t hm

theorem allPlain_addError {L : PythonLexer} (h : AllPlain L) (m : List Char) :
    AllPlain (L.addError m) := h

theorem allPlain_addToken {L : PythonLexer} (h : AllPlain L) (l : List Char) (ty : TokenType)
    (hk : plainKind l ty) : AllPlain (L.addToken l ty) := by
  intro t hm
  rw [tokens_addToken] at hm
  rcases List.mem_append.mp hm with hm | hm
  · exact h t hm
  · rw [List.mem_singleton.mp hm]
    exact hk

theorem allPlain_advance {L : PythonLexer} (h : AllPlain L) : AllPlain L.advance :=
  allPlain_of_tokens h (by simp)

theorem allPlain_advanceN {L : PythonLexer} (h : AllPlain L) (n : Nat) :
    AllPlain (L.advanceN n) :=
  allPlain_of_tokens h (by simp)

theorem allPlain_takeWord {L : PythonLexer} (h : AllPlain L) : AllPlain (takeWord L).2 :=
  allPlain_advanceN h _

theorem allPlain_ite {A B : PythonLexer} {c : Prop} [Decidable c]
    (ha : AllPlain A) (hb : AllPlain B) : AllPlain (if c then A else B) := by
  split
  · exact ha
  · exact hb

theorem processOperator_allPlain (L : PythonLexer) (h : AllPlain L) :
    AllPlain (processOperator L) := by
  unfold processOperator
  dsimp only
  repeat' with_reducible first
    | exact h
    | refine allPlain_ite ?_ ?_
    | refine allPlain_addError ?_ _
    | refine allPlain_addToken ?_ _ _ (plainKind_of_type (by decide))
    | refine allPlain_addToken ?_ _ _ (plainKind_of_headOk (by decide))
    | refine allPlain_advance ?_

theorem numberTail_allPlain {L : PythonLexer} (h : AllPlain L) (num : List Char)
    (hn : headOk num = true) (a b : Bool) : AllPlain (numberTail L num a b) := by
  unfold numberTail
  dsimp only
  repeat' with_reducible first
    | exact h
    | refine allPlain_ite ?_ ?_
    | refine allPlain_addError ?_ _
    | refine allPlain_addToken ?_ _ _ (plainKind_of_headOk hn)
    | refine allPlain_takeWord ?_
    | refine allPlain_advanceN ?_ _
    | refine allPlain_advance ?_

theorem numberExponent_allPlain {L : PythonLexer} (h : AllPlain L) (num : List Char)
    (hn : headOk num = true) (b : Bool) : AllPlain (numberExponent L num b) := by
  unfold numberExponent
  dsimp only
  repeat' with_reducible first
    | exact h
    | exact hn
    | refine allPlain_ite ?_ ?_
    | split
    | refine numberTail_allPlain ?_ _ ?_ _ _
    | refine headOk_append ?_ _
    | refine allPlain_addError ?_ _
    | refine allPlain_takeWord ?_
    | refine allPlain_advanceN ?_ _
    | refine allPlain_advance ?_

theorem numberFraction_allPlain {L : PythonLexer} (h : AllPlain L) (num : List Char)
    (b : Bool) (hn : b = true → headOk num = true) : AllPlain (numberFraction L num b) := by
  unfold numberFraction
  dsimp only
  by_cases hb : b = true
  · have hn' := hn hb
    repeat' with_reducible first
      | exact h
      | exact hn'
      | refine allPlain_ite ?_ ?_
      | refine numberExponent_allPlain ?_ _ ?_ _
      | refine headOk_append ?_ _
      | refine allPlain_addError ?_ _
      | refine allPlain_advanceN ?_ _
      | refine allPlain_advance ?_
  · rw [if_pos (by simpa using hb)]
    exact allPlain_addError h _

theorem numberDecimal_allPlain {L : PythonLexer} (h : AllPlain L) (num : List Char)
    (hn : num = [] ∨ headOk num = true) : AllPlain (numberDecimal L num) := by
  unfold numberDecimal
  dsimp only
  refine numberFraction_allPlain (allPlain_advanceN h _) _ _ (fun hd => ?_)
  rcases hn with rfl | hn
  · rw [List.nil_append]
    refine headOk_takeWhile _ (by decide) (by decide) _ ?_
    intro he
    rw [he] at hd
    exact absurd hd (by decide)
  · exact headOk_append hn _

theorem numberRadix_allPlain {L : PythonLexer} (h : AllPlain L) (num : List Char)
    (hn : headOk num = true) (isDig : Char → Bool) (what pfx : List Char) (ty : TokenType) :
    AllPlain (numberRadix L num isDig what pfx ty) := by
  unfold numberRadix
  dsimp only
  repeat' with_reducible first
    | exact h
    | refine allPlain_ite ?_ ?_
    | refine allPlain_addError ?_ _
    | refine allPlain_addToken ?_ _ _ (plainKind_of_headOk (headOk_append (headOk_append hn _) _))
    | refine allPlain_takeWord ?_
    | refine allPlain_advanceN ?_ _
    | refine allPlain_advance ?_

theorem processNumber_allPlain (L : PythonLexer) (h : AllPlain L) :
    AllPlain (processNumber L) := by
  unfold processNumber
  dsimp only
  by_cases h0 : L.current = '0' ∧ 1 < L.rest.length
  · rw [if_pos h0]
    have hn : headOk [L.current] = true := by
      rw [h0.1]
      rfl
    repeat' with_reducible first
      | exact h
      | exact Or.inr hn
      | refine allPlain_ite ?_ ?_
      | refine numberRadix_allPlain ?_ _ hn _ _ _ _
      | refine numberDecimal_allPlain ?_ _ ?_
      | refine allPlain_addError ?_ _
      | refine allPlain_addToken ?_ _ _ (plainKind_of_headOk hn)
      | refine allPlain_advanceN ?_ _
      | refine allPlain_advance ?_
  · rw [if_neg h0]
    exact numberDecimal_allPlain h _ (Or.inl rfl)

theorem processString_allPlain (L : PythonLexer) (h : AllPlain L) (quote : Char) :
    AllPlain (processString L quote) := by
  unfold processString
  dsimp only
  repeat' with_reducible first
    | exact h
    | refine allPlain_ite ?_ ?_
    | refine allPlain_addError ?_ _
    | refine allPlain_addToken ?_ _ _ (plainKind_of_type (by decide))
    | refine allPlain_advanceN ?_ _
    | refine allPlain_advance ?_

theorem processComment_allPlain (L : PythonLexer) (h : AllPlain L) :
    AllPlain (processComment L) := by
  unfold processComment
  dsimp only
  repeat' with_reducible first
    | exact h
    | refine allPlain_ite ?_ ?_
    | refine allPlain_addError ?_ _
    | refine allPlain_addToken ?_ _ _ (plainKind_of_type (by decide))
    | refine allPlain_advanceN ?_ _
    | refine allPlain_advance ?_

theorem identifierToken_allPlain {L : PythonLexer} (h : AllPlain L) (ident : List Char)
    (hi : noParen ident = true) : AllPlain (identifierToken L ident) := by
  unfold identifierToken
  dsimp only
  split
  · exact allPlain_addToken h _ _ (plainKind_of_noParen hi)
  · split
    · split
      · exact allPlain_of_tokens (allPlain_addToken h _ _ (plainKind_of_noParen hi)) rfl
      · exact allPlain_addToken h _ _ (plainKind_of_noParen hi)
    · refine allPlain_addToken ?_ _ _ (plainKind_of_noParen hi)
      split
      · exact allPlain_of_tokens h rfl
      · exact allPlain_of_tokens h rfl

theorem identifierWord_allPlain {L : PythonLexer} (h : AllPlain L) (ident : List Char)
    (hi : noParen ident = true) : AllPlain (identifierWord L ident) :=
  identifierToken_allPlain (allPlain_takeWord h) _
    (noParen_append hi (noParen_takeWhile _ (by decide) (by decide) _))

theorem processIdentifier_allPlain (L : PythonLexer) (h : AllPlain L) :
    AllPlain (processIdentifier L) := by
  unfold processIdentifier
  dsimp only
  split
  · exact allPlain_addError (allPlain_takeWord h) _
  · split
    · rename_i hu
      split
      · exact allPlain_addError (allPlain_takeWord (allPlain_advance (allPlain_advance h))) _
      · refine identifierWord_allPlain (allPlain_advance h) _ ?_
        rw [hu]
        rfl
    · exact identifierWord_allPlain h _ rfl

theorem processTypeAnnotation_allPlain (L : PythonLexer) (h : AllPlain L) :
    AllPlain ( processTypeAnnotation L).2 := by
  unfold processTypeAnnotation
  dsimp only
  split
  · split
    · split
      · refine allPlain_of_tokens (allPlain_addToken (allPlain_of_tokens
          (allPlain_advanceN (allPlain_advanceN (allPlain_advanceN h _) _) _) rfl) _
          TokenType.IDENTIFIER
          (plainKind_of_noParen (noParen_takeWhile _ (by decide) (by decide) _))) rfl
      · exact h
    · exact h
  · exact h

theorem handleIndentation_allPlain (L : PythonLexer) (h : AllPlain L) :
    AllPlain (handleIndentation L) := by
  have key : ∀ n : Nat, ∀ X : PythonLexer, AllPlain X → AllPlain (addDedents n X) := by
    intro n
    induction n with
    | zero => exact fun X hX => hX
    | succ n ih =>
      exact fun X hX => ih _ (allPlain_addToken hX _ _ (plainKind_of_type (by decide)))
  have base := allPlain_advanceN h (L.rest.takeWhile (fun c => c == ' ' || c == '\t')).length
  unfold handleIndentation
  dsimp only
  generalize L.advanceN _ = M at base ⊢
  generalize indentWidth _ = w
  split
  · exact allPlain_addToken (allPlain_of_tokens base rfl) _ _ (plainKind_of_type (by decide))
  · split
    · have hd := key (popIndents w M.indentStack).1
        { M with indentStack := (popIndents w M.indentStack).2 } (allPlain_of_tokens base rfl)
      split
      · exact hd
      · exact hd
    · exact base

theorem tokenizeStep_allPlain (L : PythonLexer) (h : AllPlain L) :
    AllPlain (tokenizeStep L) := by
  unfold tokenizeStep
  dsimp only
  split
  · exact handleIndentation_allPlain _
      (allPlain_advance (allPlain_addToken h _ _ (plainKind_of_type (by decide))))
  split
  · exact allPlain_advance h
  split
  · exact processComment_allPlain L h
  split
  · exact processNumber_allPlain L h
  split
  · exact processString_allPlain L h _
  split
  · split
    · exact processIdentifier_allPlain _ (processTypeAnnotation_allPlain L h)
    · exact processTypeAnnotation_allPlain L h
  split
  · exact allPlain_addError (allPlain_takeWord (allPlain_advance h)) _
  split
  · exact processOperator_allPlain L h
  split
  · exact allPlain_advance (allPlain_addToken h _ _ (plainKind_of_type (by decide)))
  · exact allPlain_addError (allPlain_takeWord (allPlain_advance h)) _

theorem tokenizeLoop_allPlain (fuel : Nat) (L L' : PythonLexer)
    (hl : tokenizeLoop fuel L = some L') (h : AllPlain L) : AllPlain L' := by
  induction fuel generalizing L with
  | zero =>
    unfold tokenizeLoop at hl
    split at hl
    · obtain rfl := Option.some.inj hl
      exact h
    · exact absurd hl (by simp)
  | succ fuel ih =>
    unfold tokenizeLoop at hl
    split at hl
    · obtain rfl := Option.some.inj hl
      exact h
    · exact ih _ hl (tokenizeStep_allPlain L h)

/-- In the token list that `tokenize` returns, no token that `toRPN` takes
for an operand or an operator by its kind has the lexeme "(" or ")". -/
theorem tokenize_plainOperands (F : DoubleArith) (source : List Char) (stack : List Nat) :
    ∃ L', tokenize F (create source stack) = some L' ∧ PlainOperands L'.tokens := by
  obtain ⟨Lf, L', new, h1, h2, h3, _, _, _, _⟩ := tokenize_stamped F (create source stack)
  refine ⟨L', h2, ?_⟩
  have hf : AllPlain Lf := tokenizeLoop_allPlain _ _ _ h1 (fun t ht => by
    exact absurd ht (by simp [create]))
  intro t ht
  rw [h3] at ht
  rcases List.mem_append.mp ht with ht | ht
  · exact hf t ht
  · rw [List.mem_singleton.mp ht]
    exact plainKind_of_type rfl

theorem plainOperands_of_subset {a b : List Token} (h : PlainOperands b)
    (hs : ∀ t ∈ a, t ∈ b) : PlainOperands a :=
  fun t ht => h t (hs t ht)

end PythonLexer
end PyAnalyzer
namespace PyAnalyzer
namespace SymbolTable

/-! ## The entry of the target after a round of the post-pass -/

/-- After `setIdentifierInfo name "unknown" "N/A"` the getters answer
"unknown" and "N/A" for the name, whether it is registered or not. -/
theorem getters_setIdentifierInfo_unknown (t : SymbolTable) (a : List Char) :
    (t.setIdentifierInfo a "unknown".toList "N/A".toList).getDataType a = "unknown".toList ∧
    (t.setIdentifierInfo a "unknown".toList "N/A".toList).getValue a = "N/A".toList := by
  unfold getDataType getValue
  rw [find_setIdentifierInfo_self]
  cases t.find a <;> exact ⟨rfl, rfl⟩

/-- The entry of a registered name after `setIdentifierInfo`. -/
theorem find_setIdentifierInfo_of_find (t : SymbolTable) (a dataType value : List Char)
    (e : SymbolEntry) (h : t.find a = some e) :
    (t.setIdentifierInfo a dataType value).find a = some ⟨e.id, dataType, value⟩ := by
  rw [find_setIdentifierInfo_self, h]
  rfl

/-- The getters at a registered name after `setIdentifierInfo`. -/
theorem getters_setIdentifierInfo_of_find (t : SymbolTable) (a dataType value : List Char)
    (e : SymbolEntry) (h : t.find a = some e) :
    (t.setIdentifierInfo a dataType value).getDataType a = dataType ∧
    (t.setIdentifierInfo a dataType value).getValue a = value := by
  unfold getDataType getValue
  rw [find_setIdentifierInfo_of_find t a dataType value e h]
  exact ⟨rfl, rfl⟩

end SymbolTable

namespace PythonLexer

/-- In a state whose symbol table is `Ordered` with its tokens, the target
of an assignment is registered. -/
theorem target_registered (L : PythonLexer) (i : Nat) (tn te : Token)
    (ho : Ordered L.tokenKinds L.symbolTable)
    (h0 : L.tokens.get? i = some tn) (hn : tn.type = TokenType.IDENTIFIER)
    (h1 : L.tokens.get? (i + 1) = some te) (he : te.type = TokenType.EQUALOPERATOR) :
    ∃ e, L.symbolTable.find tn.lexeme = some e := by
  rw [List.get?_eq_getElem?] at h0 h1
  have hc : L.symbolTable.count tn.lexeme = true := by
    refine (ho.2 i tn.lexeme ?_ ?_).1
    · simp [tokenKinds, List.getElem?_map, h0, hn]
    · simp only [tokenKinds, List.getElem?_map, h1, Option.map_some', ne_eq, Option.some.injEq,
        openParen, Prod.mk.injEq, not_and]
      intro _ hty
      rw [he] at hty
      exact absurd hty (by decide)
  exact Option.isSome_iff_exists.mp hc

/-- A literal token of the specification does not end a right side. -/
theorem endsAssignment_of_literal (t : Token) (d v : List Char)
    (hlit : specLiteralEntry t = some (d, v)) : endsAssignment t = false := by
  unfold specLiteralEntry at hlit
  unfold endsAssignment
  split_ifs at hlit with c1 c2 c3 c4
  · simp [c1]
  · simp [c2.1]
  · rcases c3 with c | c | c <;> simp [c]
  · simp [c4]
  · simp [c4]

/-- A round of the post-pass at `name = t`, `t` a literal token of the
specification and no error on the lines: the entry of the name is set to the
type and the value of the literal and the loop goes on at the token that
ends the line. -/
theorem processAssignmentsStep_literal (F : DoubleArith) (L : PythonLexer) (i : Nat)
    (tn te t tz : Token) (tail : List Token) (d v : List Char)
    (h0 : L.tokens.get? i = some tn) (hn : tn.type = TokenType.IDENTIFIER)
    (h1 : L.tokens.get? (i + 1) = some te) (he : te.type = TokenType.EQUALOPERATOR)
    (hdrop : L.tokens.drop (i + 2) = t :: tz :: tail) (hz : endsAssignment tz = true)
    (hclean : ∀ err ∈ L.errors, err.line < tn.line ∨ tz.line < err.line)
    (hlit : specLiteralEntry t = some (d, v)) :
    processAssignmentsStep F i L =
      (i + 3, { L with symbolTable := L.symbolTable.setIdentifierInfo tn.lexeme d v }) ∧
    L.tokens.get? (i + 3) = some tz := by
  have hstep := processAssignmentsStep_infer F L i tn te tz [t] tail h0 hn h1 he hdrop
    (fun x hx => by rw [List.mem_singleton.mp hx]; exact endsAssignment_of_literal t d v hlit)
    hz hclean
  have hj : L.tokens.get? (i + 3) = some tz := by
    have h := congrArg (fun l => l.get? 1) hdrop
    simp only [List.get?_eq_getElem?, List.getElem?_drop] at h
    rw [List.get?_eq_getElem?, show i + 3 = i + 2 + 1 from rfl, h]
    simp
  rw [hstep, inferAssignment_literal F L _ t d v hlit]
  exact ⟨rfl, hj⟩


/-- The loop of the post-pass over tokens that are no identifier and no
sign leaves the state as it is. -/
theorem processAssignmentsLoop_rest (F : DoubleArith) :
    ∀ (fuel i : Nat) (L : PythonLexer),
      (∀ j t, i ≤ j → L.tokens.get? j = some t →
        t.type ≠ TokenType.IDENTIFIER ∧ t.type ≠ TokenType.MINUSOPERATOR ∧
          t.type ≠ TokenType.ADDOPERATOR) →
      L.tokens.length ≤ i + fuel → processAssignmentsLoop F fuel i L = some L := by
  intro fuel
  induction fuel with
  | zero =>
    intro i L _ hlen
    rw [processAssignmentsLoop, if_neg (by omega)]
  | succ fuel ih =>
    intro i L hrest hlen
    by_cases hi : i < L.tokens.length
    · obtain ⟨t, ht⟩ : ∃ t, L.tokens.get? i = some t :=
        ⟨L.tokens[i], by rw [List.get?_eq_getElem?]; exact List.getElem?_eq_getElem hi⟩
      obtain ⟨a1, a2, a3⟩ := hrest i t (le_refl _) ht
      rw [processAssignmentsLoop_step F fuel i L hi,
        processAssignmentsStep_other F i L t ht a1 a2 a3]
      exact ih (i + 1) L (fun j t hj h => hrest j t (by omega) h) (by omega)
    · rw [processAssignmentsLoop, if_neg hi]

end PythonLexer
end PyAnalyzer
namespace PyAnalyzer
namespace PythonLexer

/-- C35: one round of the post-pass at an assignment `name = expr` (the
tokens `name`, `=`, the right side `expr` and the NEWLINE or ENDOFFILE token
`tz` that ends it), when some recorded error has its line between the line
of `name` and the line of `tz`, both included: the entry of `name` gets the
type "unknown" and the value "N/A" (the getters answer so afterwards, and a
registered name keeps its ID), the entries of the other names and everything
else of the state are as before (no error is added, the right side is not
evaluated) and the loop goes on at `tz`. -/
theorem assignment_with_error_is_unknown (F : DoubleArith) (L : PythonLexer) (i : Nat)
    (tn te tz : Token) (expr tail : List Token)
    (h0 : L.tokens.get? i = some tn) (hn : tn.type = TokenType.IDENTIFIER)
    (h1 : L.tokens.get? (i + 1) = some te) (he : te.type = TokenType.EQUALOPERATOR)
    (hdrop : L.tokens.drop (i + 2) = expr ++ tz :: tail)
    (hexpr : ∀ t ∈ expr, endsAssignment t = false) (hz : endsAssignment tz = true)
    (hbad : ∃ err ∈ L.errors, tn.line ≤ err.line ∧ err.line ≤ tz.line) :
    processAssignmentsStep F i L =
      (i + 2 + expr.length,
        { L with
          symbolTable :=
            L.symbolTable.setIdentifierInfo tn.lexeme "unknown".toList "N/A".toList }) ∧
    (processAssignmentsStep F i L).2.errors = L.errors ∧
    (processAssignmentsStep F i L).2.tokens = L.tokens ∧
    L.tokens.get? (processAssignmentsStep F i L).1 = some tz ∧
    (processAssignmentsStep F i L).2.symbolTable.getDataType tn.lexeme = "unknown".toList ∧
    (processAssignmentsStep F i L).2.symbolTable.getValue tn.lexeme = "N/A".toList ∧
    (∀ e, L.symbolTable.find tn.lexeme = some e →
      (processAssignmentsStep F i L).2.symbolTable.find tn.lexeme =
        some ⟨e.id, "unknown".toList, "N/A".toList⟩) ∧
    (∀ other, other ≠ tn.lexeme →
      (processAssignmentsStep F i L).2.symbolTable.find other = L.symbolTable.find other) := by
  obtain ⟨hstep, hj⟩ := processAssignmentsStep_bad F L i tn te tz expr tail h0 hn h1 he hdrop hexpr
    hz hbad
  rw [hstep]
  exact ⟨rfl, rfl, rfl, hj, (SymbolTable.getters_setIdentifierInfo_unknown _ _).1,
    (SymbolTable.getters_setIdentifierInfo_unknown _ _).2,
    fun e h => SymbolTable.find_setIdentifierInfo_of_find _ _ _ _ e h,
    fun other ho => SymbolTable.find_setIdentifierInfo_ne _ _ _ _ _ ho⟩

set_option maxHeartbeats 4000000 in
/-- C35 on the source "x = 5", newline, "x = 5 $", newline: the `$` is a
lexical error of line 2.  The round of the post-pass at the first line gives
`x` the type "int" and the value "5"; the round at the second line, applied
to that state, sets the entry of `x` back to "unknown" and "N/A", adds no
error and goes on at the newline (index 7).  The whole of `tokenize` leaves
`x` unknown with the one error of the scan, where the source without the
`$` leaves `x` with "int" and "5". -/
theorem assignment_with_error_is_unknown_witness :
    ∃ L L1, tokenizeLoop 14 (create "x = 5\nx = 5 $\n".toList [0]) = some L ∧
      L.errors = [⟨"Invalid identifier at line 2 column 7: '$' (identifiers must start with a letter or underscore)".toList, 2, 8⟩] ∧
      L1 = (processAssignmentsStep exactArith 0 (L.addToken [] TokenType.ENDOFFILE)).2 ∧
      L1.symbolTable.find "x".toList = some ⟨1, "int".toList, "5".toList⟩ ∧
      (processAssignmentsStep exactArith 4 L1).2.symbolTable.find "x".toList =
        some ⟨1, "unknown".toList, "N/A".toList⟩ ∧
      (processAssignmentsStep exactArith 4 L1).2.symbolTable.getDataType "x".toList =
        "unknown".toList ∧
      (processAssignmentsStep exactArith 4 L1).2.symbolTable.getValue "x".toList =
        "N/A".toList ∧
      (processAssignmentsStep exactArith 4 L1).2.errors = L.errors ∧
      (processAssignmentsStep exactArith 4 L1).1 = 7 ∧
      (∃ L', tokenize exactArith (create "x = 5\nx = 5 $\n".toList [0]) = some L' ∧
        L'.symbolTable.getDataType "x".toList = "unknown".toList ∧
        L'.symbolTable.getValue "x".toList = "N/A".toList ∧
        L'.errors = [⟨"Invalid identifier at line 2 column 7: '$' (identifiers must start with a letter or underscore)".toList, 2, 8⟩]) ∧
      ∃ L', tokenize exactArith (create "x = 5\nx = 5\n".toList [0]) = some L' ∧
        L'.symbolTable.getDataType "x".toList = "int".toList ∧
        L'.symbolTable.getValue "x".toList = "5".toList ∧ L'.errors = [] := by
  obtain ⟨L, hloop, htok, herr, hsym⟩ : ∃ L,
      tokenizeLoop 14 (create "x = 5\nx = 5 $\n".toList [0]) = some L ∧
      L.tokens = [⟨"x".toList, TokenType.IDENTIFIER, 1, 1⟩,
        ⟨"=".toList, TokenType.EQUALOPERATOR, 1, 2⟩, ⟨"5".toList, TokenType.NUMBER, 1, 5⟩,
        ⟨"\n".toList, TokenType.NEWLINE, 1, 5⟩,
        ⟨"x".toList, TokenType.IDENTIFIER, 2, 1⟩,
        ⟨"=".toList, TokenType.EQUALOPERATOR, 2, 2⟩, ⟨"5".toList, TokenType.NUMBER, 2, 5⟩,
        ⟨"\n".toList, TokenType.NEWLINE, 2, 7⟩] ∧
      L.errors = [⟨"Invalid identifier at line 2 column 7: '$' (identifiers must start with a letter or underscore)".toList, 2, 8⟩] ∧
      L.symbolTable = ⟨[("x".toList, ⟨1, "unknown".toList, "N/A".toList⟩)], 2⟩ :=
    ⟨_, rfl, rfl, rfl, rfl⟩
  have hs0 : processAssignmentsStep exactArith 0 (L.addToken [] TokenType.ENDOFFILE) =
      (3, { L.addToken [] TokenType.ENDOFFILE with
        symbolTable := (L.addToken [] TokenType.ENDOFFILE).symbolTable.setIdentifierInfo
          "x".toList "int".toList "5".toList }) := by
    rw [processAssignmentsStep_infer exactArith (L.addToken [] TokenType.ENDOFFILE) 0
      ⟨"x".toList, TokenType.IDENTIFIER, 1, 1⟩ ⟨"=".toList, TokenType.EQUALOPERATOR, 1, 2⟩
      ⟨"\n".toList, TokenType.NEWLINE, 1, 5⟩ [⟨"5".toList, TokenType.NUMBER, 1, 5⟩]
      [⟨"x".toList, TokenType.IDENTIFIER, 2, 1⟩,
        ⟨"=".toList, TokenType.EQUALOPERATOR, 2, 2⟩, ⟨"5".toList, TokenType.NUMBER, 2, 5⟩,
        ⟨"\n".toList, TokenType.NEWLINE, 2, 7⟩,
        ⟨[], TokenType.ENDOFFILE, L.line, L.column - 0⟩]
      (by simp [addToken, htok]) rfl (by simp [addToken, htok]) rfl (by simp [addToken, htok])
      (by simp [endsAssignment]) rfl (by simp [addToken, herr]),
      inferAssignment_literal exactArith (L.addToken [] TokenType.ENDOFFILE) "x".toList
        ⟨"5".toList, TokenType.NUMBER, 1, 5⟩ "int".toList "5".toList rfl]
    rfl
  obtain ⟨L1, hL1, h1tok, h1err, h1sym⟩ : ∃ L1,
      L1 = (processAssignmentsStep exactArith 0 (L.addToken [] TokenType.ENDOFFILE)).2 ∧
      L1.tokens = (L.addToken [] TokenType.ENDOFFILE).tokens ∧ L1.errors = L.errors ∧
      L1.symbolTable = ⟨[("x".toList, ⟨1, "int".toList, "5".toList⟩)], 2⟩ := by
    refine ⟨_, rfl, ?_, ?_, ?_⟩
    · rw [hs0]
    · rw [hs0]
      rfl
    · rw [hs0]
      show (L.symbolTable.setIdentifierInfo _ _ _) = _
      rw [hsym]
      rfl
  have h := assignment_with_error_is_unknown exactArith L1 4
    ⟨"x".toList, TokenType.IDENTIFIER, 2, 1⟩ ⟨"=".toList, TokenType.EQUALOPERATOR, 2, 2⟩
    ⟨"\n".toList, TokenType.NEWLINE, 2, 7⟩ [⟨"5".toList, TokenType.NUMBER, 2, 5⟩]
    [⟨[], TokenType.ENDOFFILE, L.line, L.column - 0⟩]
    (by simp [h1tok, addToken, htok]) rfl (by simp [h1tok, addToken, htok]) rfl
    (by simp [h1tok, addToken, htok]) (by simp [endsAssignment]) rfl
    ⟨_, by rw [h1err, herr]; exact List.mem_singleton.mpr rfl, by decide⟩
  have hx : L1.symbolTable.find "x".toList = some ⟨1, "int".toList, "5".toList⟩ := by
    rw [h1sym]
    rfl
  refine ⟨L, L1, hloop, herr, hL1, hx, h.2.2.2.2.2.2.1 _ hx, h.2.2.2.2.1, h.2.2.2.2.2.1,
    h.2.1.trans h1err, by rw [h.1]; rfl, ⟨_, rfl, rfl, rfl, rfl⟩, ⟨_, rfl, rfl, rfl, rfl⟩⟩

end PythonLexer
end PyAnalyzer
namespace PyAnalyzer
namespace PythonLexer

/-- C34: in the token list that `tokenize` returns no operand or operator
(by kind) has the lexeme "(" or ")"; for such a list `toRPN` fails with
"Mismatched parentheses" exactly when the tokens whose lexeme is "(" or ")"
are not balanced, and returns a result when they are; and a round of the
post-pass at an assignment whose right side has unbalanced parentheses (no
error on its lines, no shortcut for a single token) appends the one error
"Mismatched parentheses", sets the entry of the target to "unknown" and
"N/A" (the getters answer so afterwards, and a registered target keeps its
ID), leaves every other entry of the symbol table as it is, and goes on at
the token that ends the right side. -/
theorem mismatched_parentheses (F : DoubleArith) :
    (∀ source stack, ∃ L', tokenize F (create source stack) = some L' ∧
      PlainOperands L'.tokens) ∧
    (∀ expr, PlainOperands expr →
      (toRPN expr = .error "Mismatched parentheses".toList ↔
        parenthesesBalanced expr = false) ∧
      (parenthesesBalanced expr = true → ∃ rpn, toRPN expr = .ok rpn)) ∧
    ∀ (L : PythonLexer) (i : Nat) (tn te tz : Token) (expr tail : List Token),
      PlainOperands L.tokens →
      L.tokens.get? i = some tn → tn.type = TokenType.IDENTIFIER →
      L.tokens.get? (i + 1) = some te → te.type = TokenType.EQUALOPERATOR →
      L.tokens.drop (i + 2) = expr ++ tz :: tail →
      (∀ t ∈ expr, endsAssignment t = false) → endsAssignment tz = true →
      (∀ err ∈ L.errors, err.line < tn.line ∨ tz.line < err.line) →
      (∀ t, expr = [t] → singleTokenShortcut L tn.lexeme t = none) →
      parenthesesBalanced expr = false →
      processAssignmentsStep F i L =
        (i + 2 + expr.length,
          { L.addError "Mismatched parentheses".toList with
            symbolTable :=
              L.symbolTable.setIdentifierInfo tn.lexeme "unknown".toList "N/A".toList }) ∧
      (processAssignmentsStep F i L).2.errors =
        L.errors ++ [⟨"Mismatched parentheses".toList, L.line, L.column⟩] ∧
      (∀ other, other ≠ tn.lexeme →
        (processAssignmentsStep F i L).2.symbolTable.find other = L.symbolTable.find other) ∧
      L.tokens.get? (processAssignmentsStep F i L).1 = some tz ∧
      (processAssignmentsStep F i L).2.symbolTable.getDataType tn.lexeme = "unknown".toList ∧
      (processAssignmentsStep F i L).2.symbolTable.getValue tn.lexeme = "N/A".toList ∧
      ∀ e, L.symbolTable.find tn.lexeme = some e →
        (processAssignmentsStep F i L).2.symbolTable.find tn.lexeme =
          some ⟨e.id, "unknown".toList, "N/A".toList⟩ := by
  have key : ∀ expr, PlainOperands expr →
      (toRPN expr = .error "Mismatched parentheses".toList ↔
        parenthesesBalanced expr = false) ∧
      (parenthesesBalanced expr = true → ∃ rpn, toRPN expr = .ok rpn) := by
    intro expr hplain
    obtain ⟨hok, hbad⟩ := toRPN_balanced expr hplain
    refine ⟨⟨fun h => ?_, hbad⟩, hok⟩
    cases hb : parenthesesBalanced expr with
    | false => rfl
    | true =>
      obtain ⟨rpn, hr⟩ := hok hb
      rw [hr] at h
      exact absurd h (by simp)
  refine ⟨tokenize_plainOperands F, key, ?_⟩
  · intro L i tn te tz expr tail hall h0 hn h1 he hdrop hexpr hz hclean hshort hb
    have hplain : PlainOperands expr := plainOperands_of_subset hall (fun t ht =>
      List.mem_of_mem_drop (by rw [hdrop]; exact List.mem_append_left _ ht))
    have hbad := (key expr hplain).1.mpr
    have hstep : processAssignmentsStep F i L =
        (i + 2 + expr.length,
          { L.addError "Mismatched parentheses".toList with
            symbolTable :=
              L.symbolTable.setIdentifierInfo tn.lexeme "unknown".toList "N/A".toList }) := by
      rw [processAssignmentsStep_infer F L i tn te tz expr tail h0 hn h1 he hdrop hexpr hz hclean,
        inferAssignment_no_shortcut F L tn.lexeme expr hshort,
        foldAssignment_toRPN_error F L tn.lexeme expr _ (hbad hb)]
    have hj : L.tokens.get? (i + 2 + expr.length) = some tz := by
      have h := congrArg (fun l => l.get? expr.length) hdrop
      simp only [List.get?_eq_getElem?, List.getElem?_drop] at h
      rw [List.get?_eq_getElem?, h, List.getElem?_append_right (le_refl _)]
      simp
    rw [hstep]
    exact ⟨rfl, rfl, fun other ho => SymbolTable.find_setIdentifierInfo_ne _ _ _ _ _ ho, hj,
      (SymbolTable.getters_setIdentifierInfo_unknown _ _).1,
      (SymbolTable.getters_setIdentifierInfo_unknown _ _).2,
      fun e h => SymbolTable.find_setIdentifierInfo_of_find _ _ _ _ e h⟩

set_option maxHeartbeats 4000000 in
/-- C34 on the source "x = 5", newline, "x = (1 + 2", newline: the round
of the post-pass at the first line gives `x` the type "int" and the value
"5"; the parentheses of the second right side are not balanced, `toRPN`
fails on it, and the round at the second line, applied to that state,
appends "Mismatched parentheses" (with the position of the end of the scan),
sets the entry of `x` back to "unknown" and "N/A" and goes on at the newline
(index 10).  The whole of `tokenize` leaves `x` unknown with that one
error. -/
theorem mismatched_parentheses_witness :
    ∃ L L1, tokenizeLoop 17 (create "x = 5\nx = (1 + 2\n".toList [0]) = some L ∧
      L1 = (processAssignmentsStep exactArith 0 (L.addToken [] TokenType.ENDOFFILE)).2 ∧
      L1.symbolTable.find "x".toList = some ⟨1, "int".toList, "5".toList⟩ ∧
      toRPN [⟨"(".toList, TokenType.DELIMITER, 2, 4⟩, ⟨"1".toList, TokenType.NUMBER, 2, 6⟩,
        ⟨"+".toList, TokenType.ADDOPERATOR, 2, 7⟩, ⟨"2".toList, TokenType.NUMBER, 2, 10⟩] =
        .error "Mismatched parentheses".toList ∧
      (processAssignmentsStep exactArith 4 L1).1 = 10 ∧
      (processAssignmentsStep exactArith 4 L1).2.errors =
        [⟨"Mismatched parentheses".toList, 3, 1⟩] ∧
      (processAssignmentsStep exactArith 4 L1).2.symbolTable.find "x".toList =
        some ⟨1, "unknown".toList, "N/A".toList⟩ ∧
      (processAssignmentsStep exactArith 4 L1).2.symbolTable.getDataType "x".toList =
        "unknown".toList ∧
      (processAssignmentsStep exactArith 4 L1).2.symbolTable.getValue "x".toList =
        "N/A".toList ∧
      (∃ L', tokenize exactArith (create "x = 5\nx = (1 + 2\n".toList [0]) = some L' ∧
        L'.symbolTable.getDataType "x".toList = "unknown".toList ∧
        L'.symbolTable.getValue "x".toList = "N/A".toList ∧
        L'.errors = [⟨"Mismatched parentheses".toList, 3, 1⟩]) := by
  obtain ⟨L, hloop, htok, herr, hline, hcol, hsym⟩ : ∃ L,
      tokenizeLoop 17 (create "x = 5\nx = (1 + 2\n".toList [0]) = some L ∧
      L.tokens = [⟨"x".toList, TokenType.IDENTIFIER, 1, 1⟩,
        ⟨"=".toList, TokenType.EQUALOPERATOR, 1, 2⟩, ⟨"5".toList, TokenType.NUMBER, 1, 5⟩,
        ⟨"\n".toList, TokenType.NEWLINE, 1, 5⟩,
        ⟨"x".toList, TokenType.IDENTIFIER, 2, 1⟩,
        ⟨"=".toList, TokenType.EQUALOPERATOR, 2, 2⟩, ⟨"(".toList, TokenType.DELIMITER, 2, 4⟩,
        ⟨"1".toList, TokenType.NUMBER, 2, 6⟩, ⟨"+".toList, TokenType.ADDOPERATOR, 2, 7⟩,
        ⟨"2".toList, TokenType.NUMBER, 2, 10⟩, ⟨"\n".toList, TokenType.NEWLINE, 2, 10⟩] ∧
      L.errors = [] ∧ L.line = 3 ∧ L.column = 1 ∧
      L.symbolTable = ⟨[("x".toList, ⟨1, "unknown".toList, "N/A".toList⟩)], 2⟩ :=
    ⟨_, rfl, rfl, rfl, rfl, rfl, rfl⟩
  have hs0 := (processAssignmentsStep_literal exactArith (L.addToken [] TokenType.ENDOFFILE) 0
    ⟨"x".toList, TokenType.IDENTIFIER, 1, 1⟩ ⟨"=".toList, TokenType.EQUALOPERATOR, 1, 2⟩
    ⟨"5".toList, TokenType.NUMBER, 1, 5⟩ ⟨"\n".toList, TokenType.NEWLINE, 1, 5⟩
    [⟨"x".toList, TokenType.IDENTIFIER, 2, 1⟩,
      ⟨"=".toList, TokenType.EQUALOPERATOR, 2, 2⟩, ⟨"(".toList, TokenType.DELIMITER, 2, 4⟩,
      ⟨"1".toList, TokenType.NUMBER, 2, 6⟩, ⟨"+".toList, TokenType.ADDOPERATOR, 2, 7⟩,
      ⟨"2".toList, TokenType.NUMBER, 2, 10⟩, ⟨"\n".toList, TokenType.NEWLINE, 2, 10⟩,
      ⟨[], TokenType.ENDOFFILE, L.line, L.column - 0⟩]
    "int".toList "5".toList
    (by simp [addToken, htok]) rfl (by simp [addToken, htok]) rfl (by simp [addToken, htok])
    rfl (by simp [addToken, herr]) rfl).1
  obtain ⟨L1, hL1, h1tok, h1err, h1line, h1col, h1sym⟩ : ∃ L1,
      L1 = (processAssignmentsStep exactArith 0 (L.addToken [] TokenType.ENDOFFILE)).2 ∧
      L1.tokens = (L.addToken [] TokenType.ENDOFFILE).tokens ∧ L1.errors = [] ∧
      L1.line = 3 ∧ L1.column = 1 ∧
      L1.symbolTable = ⟨[("x".toList, ⟨1, "int".toList, "5".toList⟩)], 2⟩ := by
    refine ⟨_, rfl, ?_, ?_, ?_, ?_, ?_⟩
    · rw [hs0]
    · rw [hs0]
      exact herr
    · rw [hs0]
      exact hline
    · rw [hs0]
      exact hcol
    · rw [hs0]
      show (L.symbolTable.setIdentifierInfo _ _ _) = _
      rw [hsym]
      rfl
  have h := mismatched_parentheses exactArith
  have hp : PlainOperands
      [⟨"(".toList, TokenType.DELIMITER, 2, 4⟩, ⟨"1".toList, TokenType.NUMBER, 2, 6⟩,
        ⟨"+".toList, TokenType.ADDOPERATOR, 2, 7⟩, ⟨"2".toList, TokenType.NUMBER, 2, 10⟩] := by
    intro t ht
    simp only [List.mem_cons, List.mem_singleton, List.not_mem_nil, or_false] at ht
    rcases ht with rfl | rfl | rfl | rfl <;> decide
  have hall : PlainOperands L1.tokens := by
    intro t ht
    simp only [h1tok, addToken, htok, List.cons_append, List.nil_append, List.mem_cons,
      List.mem_singleton, List.not_mem_nil, or_false] at ht
    rcases ht with ha | ha | ha | ha | ha | ha | ha | ha | ha | ha | ha | ha
    all_goals
      rw [ha]
      intro hk
      first
        | exact ⟨by decide, by decide⟩
        | exact absurd hk (by simp [isOperandType, isArithOperatorType])
  have hx : L1.symbolTable.find "x".toList = some ⟨1, "int".toList, "5".toList⟩ := by
    rw [h1sym]
    rfl
  obtain ⟨k1, k2, _, _, k5, k6, k7⟩ := h.2.2 L1 4
    ⟨"x".toList, TokenType.IDENTIFIER, 2, 1⟩ ⟨"=".toList, TokenType.EQUALOPERATOR, 2, 2⟩
    ⟨"\n".toList, TokenType.NEWLINE, 2, 10⟩
    [⟨"(".toList, TokenType.DELIMITER, 2, 4⟩, ⟨"1".toList, TokenType.NUMBER, 2, 6⟩,
      ⟨"+".toList, TokenType.ADDOPERATOR, 2, 7⟩, ⟨"2".toList, TokenType.NUMBER, 2, 10⟩]
    [⟨[], TokenType.ENDOFFILE, L.line, L.column - 0⟩]
    hall
    (by simp [h1tok, addToken, htok]) rfl (by simp [h1tok, addToken, htok]) rfl
    (by simp [h1tok, addToken, htok])
    (by decide) rfl (by simp [h1err])
    (fun t ht => absurd (congrArg List.length ht) (by simp)) rfl
  refine ⟨L, L1, hloop, hL1, hx, (h.2.1 _ hp).1.mpr rfl, by rw [k1]; rfl, ?_, k7 _ hx, k5, k6,
    ⟨_, rfl, rfl, rfl, rfl⟩⟩
  rw [k2, h1err, h1line, h1col]
  rfl

end PythonLexer
end PyAnalyzer
namespace PyAnalyzer
namespace PythonLexer

/-- C11: one round of the post-pass at an assignment `name = expr` whose
right side has more than one token and whose lines have no lexical error,
when the evaluation of the postfix form of the right side reaches `/` (or
`%`) with a zero right operand: the round appends the one error "Division by
zero" (or "Modulo by zero"), the entry of `name` gets the type "unknown" and
the value "N/A" (the getters answer so afterwards, and a registered name
keeps its ID), the entries of the other names are as before, and the loop
goes on at the token that ends the right side. -/
theorem zero_division_entry (F : DoubleArith) (L : PythonLexer) (i : Nat)
    (tn te tz : Token) (expr tail pre post : List Token) (op : Token) (a b : F.D)
    (stack : List F.D)
    (h0 : L.tokens.get? i = some tn) (hn : tn.type = TokenType.IDENTIFIER)
    (h1 : L.tokens.get? (i + 1) = some te) (he : te.type = TokenType.EQUALOPERATOR)
    (hdrop : L.tokens.drop (i + 2) = expr ++ tz :: tail)
    (hexpr : ∀ t ∈ expr, endsAssignment t = false) (hz : endsAssignment tz = true)
    (hclean : ∀ err ∈ L.errors, err.line < tn.line ∨ tz.line < err.line)
    (hmulti : 2 ≤ expr.length)
    (hrpn : toRPN expr = .ok (pre ++ op :: post))
    (hpre : evalRPNLoop F L.symbolTable pre [] = .ok (b :: a :: stack))
    (hop : op.type = TokenType.DIVIDEOPERATOR ∨ op.type = TokenType.PERCENTAGEOPERATOR)
    (hb : F.isZero b = true) :
    processAssignmentsStep F i L =
      (i + 2 + expr.length,
        { L.addError (zeroDivisionMessage op.type) with
          symbolTable :=
            L.symbolTable.setIdentifierInfo tn.lexeme "unknown".toList "N/A".toList }) ∧
    (processAssignmentsStep F i L).2.errors =
      L.errors ++ [⟨zeroDivisionMessage op.type, L.line, L.column⟩] ∧
    (op.type = TokenType.DIVIDEOPERATOR →
      zeroDivisionMessage op.type = "Division by zero".toList) ∧
    (op.type = TokenType.PERCENTAGEOPERATOR →
      zeroDivisionMessage op.type = "Modulo by zero".toList) ∧
    (processAssignmentsStep F i L).2.symbolTable.getDataType tn.lexeme = "unknown".toList ∧
    (processAssignmentsStep F i L).2.symbolTable.getValue tn.lexeme = "N/A".toList ∧
    (∀ e, L.symbolTable.find tn.lexeme = some e →
      (processAssignmentsStep F i L).2.symbolTable.find tn.lexeme =
        some ⟨e.id, "unknown".toList, "N/A".toList⟩) ∧
    (∀ other, other ≠ tn.lexeme →
      (processAssignmentsStep F i L).2.symbolTable.find other = L.symbolTable.find other) ∧
    L.tokens.get? (processAssignmentsStep F i L).1 = some tz := by
  have hstep := processAssignmentsStep_infer F L i tn te tz expr tail h0 hn h1 he hdrop
    hexpr hz hclean
  have hfold : foldAssignment F L tn.lexeme expr =
      { L.addError (zeroDivisionMessage op.type) with
        symbolTable :=
          L.symbolTable.setIdentifierInfo tn.lexeme "unknown".toList "N/A".toList } := by
    unfold foldAssignment
    rw [hrpn]
    simp only [Except.bind, evalRPN_zero_division F _ pre post op a b stack hpre hop hb]
    rfl
  have hj : L.tokens.get? (i + 2 + expr.length) = some tz := by
    have h := congrArg (fun l => l.get? expr.length) hdrop
    simp only [List.get?_eq_getElem?, List.getElem?_drop] at h
    rw [List.get?_eq_getElem?, h, List.getElem?_append_right (le_refl _)]
    simp
  rw [hstep, inferAssignment_of_length F L _ expr hmulti, hfold]
  refine ⟨rfl, rfl, fun h => ?_, fun h => ?_,
    (SymbolTable.getters_setIdentifierInfo_unknown _ _).1,
    (SymbolTable.getters_setIdentifierInfo_unknown _ _).2,
    fun e h => SymbolTable.find_setIdentifierInfo_of_find _ _ _ _ e h,
    fun other ho => SymbolTable.find_setIdentifierInfo_ne _ _ _ _ _ ho, hj⟩
  · rw [h]
    rfl
  · rw [h]
    rfl

set_option maxHeartbeats 4000000 in
/-- C11 on the source "x = 5", newline, "x = 1 / 0", newline: the round of
the post-pass at the first line gives `x` the type "int" and the value "5";
the round at the second line, applied to that state, appends "Division by
zero" (with the position of the end of the scan), sets the entry of `x` back
to "unknown" and "N/A" and goes on at the newline (index 9).  The state
that this round leaves is the state that the whole of `tokenize` returns. -/
theorem zero_division_entry_witness :
    ∃ L L1, tokenizeLoop 16 (create "x = 5\nx = 1 / 0\n".toList [0]) = some L ∧
      L1 = (processAssignmentsStep exactArith 0 (L.addToken [] TokenType.ENDOFFILE)).2 ∧
      L1.symbolTable.find "x".toList = some ⟨1, "int".toList, "5".toList⟩ ∧
      (processAssignmentsStep exactArith 4 L1).1 = 9 ∧
      (processAssignmentsStep exactArith 4 L1).2.errors =
        [⟨"Division by zero".toList, 3, 1⟩] ∧
      (processAssignmentsStep exactArith 4 L1).2.symbolTable.find "x".toList =
        some ⟨1, "unknown".toList, "N/A".toList⟩ ∧
      (processAssignmentsStep exactArith 4 L1).2.symbolTable.getDataType "x".toList =
        "unknown".toList ∧
      (processAssignmentsStep exactArith 4 L1).2.symbolTable.getValue "x".toList =
        "N/A".toList ∧
      tokenize exactArith (create "x = 5\nx = 1 / 0\n".toList [0]) =
        some (processAssignmentsStep exactArith 4 L1).2 := by
  obtain ⟨L, hloop, htok, herr, hline, hcol, hsym⟩ : ∃ L,
      tokenizeLoop 16 (create "x = 5\nx = 1 / 0\n".toList [0]) = some L ∧
      L.tokens = [⟨"x".toList, TokenType.IDENTIFIER, 1, 1⟩,
        ⟨"=".toList, TokenType.EQUALOPERATOR, 1, 2⟩, ⟨"5".toList, TokenType.NUMBER, 1, 5⟩,
        ⟨"\n".toList, TokenType.NEWLINE, 1, 5⟩,
        ⟨"x".toList, TokenType.IDENTIFIER, 2, 1⟩,
        ⟨"=".toList, TokenType.EQUALOPERATOR, 2, 2⟩, ⟨"1".toList, TokenType.NUMBER, 2, 5⟩,
        ⟨"/".toList, TokenType.DIVIDEOPERATOR, 2, 6⟩, ⟨"0".toList, TokenType.NUMBER, 2, 9⟩,
        ⟨"\n".toList, TokenType.NEWLINE, 2, 9⟩] ∧
      L.errors = [] ∧ L.line = 3 ∧ L.column = 1 ∧
      L.symbolTable = ⟨[("x".toList, ⟨1, "unknown".toList, "N/A".toList⟩)], 2⟩ :=
    ⟨_, rfl, rfl, rfl, rfl, rfl, rfl⟩
  have hs0 := (processAssignmentsStep_literal exactArith (L.addToken [] TokenType.ENDOFFILE) 0
    ⟨"x".toList, TokenType.IDENTIFIER, 1, 1⟩ ⟨"=".toList, TokenType.EQUALOPERATOR, 1, 2⟩
    ⟨"5".toList, TokenType.NUMBER, 1, 5⟩ ⟨"\n".toList, TokenType.NEWLINE, 1, 5⟩
    [⟨"x".toList, TokenType.IDENTIFIER, 2, 1⟩,
      ⟨"=".toList, TokenType.EQUALOPERATOR, 2, 2⟩, ⟨"1".toList, TokenType.NUMBER, 2, 5⟩,
      ⟨"/".toList, TokenType.DIVIDEOPERATOR, 2, 6⟩, ⟨"0".toList, TokenType.NUMBER, 2, 9⟩,
      ⟨"\n".toList, TokenType.NEWLINE, 2, 9⟩,
      ⟨[], TokenType.ENDOFFILE, L.line, L.column - 0⟩]
    "int".toList "5".toList
    (by simp [addToken, htok]) rfl (by simp [addToken, htok]) rfl (by simp [addToken, htok])
    rfl (by simp [addToken, herr]) rfl).1
  obtain ⟨L1, hL1, h1tok, h1err, h1line, h1col, h1sym⟩ : ∃ L1,
      L1 = (processAssignmentsStep exactArith 0 (L.addToken [] TokenType.ENDOFFILE)).2 ∧
      L1.tokens = (L.addToken [] TokenType.ENDOFFILE).tokens ∧ L1.errors = [] ∧
      L1.line = 3 ∧ L1.column = 1 ∧
      L1.symbolTable = ⟨[("x".toList, ⟨1, "int".toList, "5".toList⟩)], 2⟩ := by
    refine ⟨_, rfl, ?_, ?_, ?_, ?_, ?_⟩
    · rw [hs0]
    · rw [hs0]
      exact herr
    · rw [hs0]
      exact hline
    · rw [hs0]
      exact hcol
    · rw [hs0]
      show (L.symbolTable.setIdentifierInfo _ _ _) = _
      rw [hsym]
      rfl
  have hx : L1.symbolTable.find "x".toList = some ⟨1, "int".toList, "5".toList⟩ := by
    rw [h1sym]
    rfl
  obtain ⟨k1, k2, k3, _, k5, k6, k7, _, _⟩ := zero_division_entry exactArith L1 4
    ⟨"x".toList, TokenType.IDENTIFIER, 2, 1⟩ ⟨"=".toList, TokenType.EQUALOPERATOR, 2, 2⟩
    ⟨"\n".toList, TokenType.NEWLINE, 2, 9⟩
    [⟨"1".toList, TokenType.NUMBER, 2, 5⟩, ⟨"/".toList, TokenType.DIVIDEOPERATOR, 2, 6⟩,
      ⟨"0".toList, TokenType.NUMBER, 2, 9⟩]
    [⟨[], TokenType.ENDOFFILE, L.line, L.column - 0⟩]
    [⟨"1".toList, TokenType.NUMBER, 2, 5⟩, ⟨"0".toList, TokenType.NUMBER, 2, 9⟩] []
    ⟨"/".toList, TokenType.DIVIDEOPERATOR, 2, 6⟩ (1 : ℚ) (0 : ℚ) []
    (by simp [h1tok, addToken, htok]) rfl (by simp [h1tok, addToken, htok]) rfl
    (by simp [h1tok, addToken, htok]) (by decide) rfl (by simp [h1err]) (by decide) rfl
    (by simp [evalRPNLoop, operandValue, exactArith, exactStod, decimalValue, isdigit])
    (Or.inl rfl) (by simp [exactArith])
  have hlen : (create "x = 5\nx = 1 / 0\n".toList [0]).rest.length = 16 := rfl
  have ht : tokenize exactArith (create "x = 5\nx = 1 / 0\n".toList [0]) =
      some (processAssignmentsStep exactArith 4 L1).2 := by
    unfold tokenize
    rw [hlen, hloop, Option.some_bind]
    unfold processAssignments
    have hn0 : (L.addToken [] TokenType.ENDOFFILE).tokens.length = 10 + 1 := by
      simp [addToken, htok]
    rw [hn0, processAssignmentsLoop_step _ 10 0 _ (by rw [hn0]; omega), ← hL1, hs0]
    have hn1 : L1.tokens.length = 11 := by rw [h1tok, hn0]
    rw [processAssignmentsLoop_step _ 9 3 L1 (by rw [hn1]; omega),
      processAssignmentsStep_other exactArith 3 L1 ⟨"\n".toList, TokenType.NEWLINE, 1, 5⟩
        (by simp [h1tok, addToken, htok]) (by decide) (by decide) (by decide)]
    rw [processAssignmentsLoop_step _ 8 4 L1 (by rw [hn1]; omega)]
    have k1' : (processAssignmentsStep exactArith 4 L1).1 = 9 := by rw [k1]; rfl
    have k4 : (processAssignmentsStep exactArith 4 L1).2.tokens = L1.tokens := by
      rw [k1]
      rfl
    rw [k1']
    refine processAssignmentsLoop_rest exactArith 8 9 _ (fun j t hj h => ?_)
      (by rw [k4, hn1]; omega)
    rw [k4, h1tok] at h
    have hj2 : j = 9 ∨ j = 10 ∨ 11 ≤ j := by omega
    rcases hj2 with rfl | rfl | hj2
    · simp only [addToken, htok, List.cons_append, List.nil_append, List.get?_eq_getElem?] at h
      obtain rfl := Option.some.inj h
      exact ⟨by simp, by simp, by simp⟩
    · simp only [addToken, htok, List.cons_append, List.nil_append, List.get?_eq_getElem?] at h
      obtain rfl := Option.some.inj h
      exact ⟨by simp, by simp, by simp⟩
    · rw [List.get?_eq_getElem?, List.getElem?_eq_none (by rw [hn0]; omega)] at h
      exact absurd h (by simp)
  refine ⟨L, L1, hloop, hL1, hx, by rw [k1]; rfl, ?_, k7 _ hx, k5, k6, ht⟩
  rw [k2, h1err, h1line, h1col, k3 rfl]
  rfl

end PythonLexer
end PyAnalyzer
namespace PyAnalyzer
namespace PythonLexer

/-- C12: one round of the post-pass at an assignment `name = t` whose right
side is one literal token of the specification (`specLiteralEntry`) and
whose lines have no lexical error: the entry of `name` gets the dataType and
the value that the specification gives to the literal, with the ID it had
(the name is registered in every state of the post-pass of a run of
`tokenize`, whose symbol table is `Ordered` with the tokens), the entries of
the other names, the errors and the tokens are as before, and the loop goes
on at the token that ends the line. -/
theorem literal_assignment_entry (F : DoubleArith) (L : PythonLexer) (i : Nat)
    (tn te t tz : Token) (tail : List Token) (d v : List Char)
    (h0 : L.tokens.get? i = some tn) (hn : tn.type = TokenType.IDENTIFIER)
    (h1 : L.tokens.get? (i + 1) = some te) (he : te.type = TokenType.EQUALOPERATOR)
    (hdrop : L.tokens.drop (i + 2) = t :: tz :: tail) (hz : endsAssignment tz = true)
    (hclean : ∀ err ∈ L.errors, err.line < tn.line ∨ tz.line < err.line)
    (hlit : specLiteralEntry t = some (d, v)) :
    processAssignmentsStep F i L =
      (i + 3, { L with symbolTable := L.symbolTable.setIdentifierInfo tn.lexeme d v }) ∧
    (processAssignmentsStep F i L).2.errors = L.errors ∧
    (processAssignmentsStep F i L).2.tokens = L.tokens ∧
    L.tokens.get? (processAssignmentsStep F i L).1 = some tz ∧
    (∀ e, L.symbolTable.find tn.lexeme = some e →
      (processAssignmentsStep F i L).2.symbolTable.find tn.lexeme = some ⟨e.id, d, v⟩) ∧
    (Ordered L.tokenKinds L.symbolTable →
      (processAssignmentsStep F i L).2.symbolTable.getDataType tn.lexeme = d ∧
      (processAssignmentsStep F i L).2.symbolTable.getValue tn.lexeme = v) ∧
    (∀ other, other ≠ tn.lexeme →
      (processAssignmentsStep F i L).2.symbolTable.find other = L.symbolTable.find other) := by
  obtain ⟨hstep, hj⟩ := processAssignmentsStep_literal F L i tn te t tz tail d v h0 hn h1 he
    hdrop hz hclean hlit
  rw [hstep]
  refine ⟨rfl, rfl, rfl, hj, fun e h => SymbolTable.find_setIdentifierInfo_of_find _ _ _ _ e h,
    fun ho => ?_, fun other ho => SymbolTable.find_setIdentifierInfo_ne _ _ _ _ _ ho⟩
  obtain ⟨e, hfind⟩ := target_registered L i tn te ho h0 hn h1 he
  exact SymbolTable.getters_setIdentifierInfo_of_find _ _ _ _ e hfind

set_option maxHeartbeats 4000000 in
/-- C12 on the source of the claim, `y = "hi"` with a newline: the scan
leaves `y` registered with "unknown" and "N/A", and the round of the
post-pass at `y` sets its entry to "string" and "hi" and goes on at the
newline (index 3); this is the state that `tokenize` returns.  On a source
with one assignment of each kind of literal `tokenize` leaves the entries of
the table of the claim. -/
theorem literal_assignment_entry_witness :
    ∃ L, tokenizeLoop 9 (create "y = \"hi\"\n".toList [0]) = some L ∧
      (L.addToken [] TokenType.ENDOFFILE).symbolTable.find "y".toList =
        some ⟨1, "unknown".toList, "N/A".toList⟩ ∧
      specLiteralEntry ⟨"hi".toList, TokenType.STRING, 1, 7⟩ =
        some ("string".toList, "hi".toList) ∧
      (processAssignmentsStep exactArith 0 (L.addToken [] TokenType.ENDOFFILE)).1 = 3 ∧
      (processAssignmentsStep exactArith 0
        (L.addToken [] TokenType.ENDOFFILE)).2.symbolTable.find "y".toList =
          some ⟨1, "string".toList, "hi".toList⟩ ∧
      (processAssignmentsStep exactArith 0
        (L.addToken [] TokenType.ENDOFFILE)).2.errors = [] ∧
      tokenize exactArith (create "y = \"hi\"\n".toList [0]) =
        some (processAssignmentsStep exactArith 0 (L.addToken [] TokenType.ENDOFFILE)).2 ∧
      ∃ L', tokenize exactArith (create
          "y = \"hi\"\nb = True\nh = 0x1A\nf = 1.5\nn = 7\nc = 0b11\no = 0o17\ng = 2e10\nk = FALSE\n".toList
          [0]) = some L' ∧
        L'.errors = [] ∧
        L'.symbolTable.symbols =
          [("y".toList, ⟨1, "string".toList, "hi".toList⟩),
           ("b".toList, ⟨2, "bool".toList, "true".toList⟩),
           ("h".toList, ⟨3, "int".toList, "0x1A".toList⟩),
           ("f".toList, ⟨4, "float".toList, "1.5".toList⟩),
           ("n".toList, ⟨5, "int".toList, "7".toList⟩),
           ("c".toList, ⟨6, "int".toList, "0b11".toList⟩),
           ("o".toList, ⟨7, "int".toList, "0o17".toList⟩),
           ("g".toList, ⟨8, "float".toList, "2e10".toList⟩),
           ("k".toList, ⟨9, "bool".toList, "false".toList⟩)] := by
  obtain ⟨L, hloop, htok, herr, hsym⟩ : ∃ L,
      tokenizeLoop 9 (create "y = \"hi\"\n".toList [0]) = some L ∧
      L.tokens = [⟨"y".toList, TokenType.IDENTIFIER, 1, 1⟩,
        ⟨"=".toList, TokenType.EQUALOPERATOR, 1, 2⟩, ⟨"hi".toList, TokenType.STRING, 1, 7⟩,
        ⟨"\n".toList, TokenType.NEWLINE, 1, 8⟩] ∧
      L.errors = [] ∧
      L.symbolTable = ⟨[("y".toList, ⟨1, "unknown".toList, "N/A".toList⟩)], 2⟩ :=
    ⟨_, rfl, rfl, rfl, rfl⟩
  have hy : (L.addToken [] TokenType.ENDOFFILE).symbolTable.find "y".toList =
      some ⟨1, "unknown".toList, "N/A".toList⟩ := by
    show L.symbolTable.find _ = _
    rw [hsym]
    rfl
  obtain ⟨k1, k2, _, _, k5, _, _⟩ := literal_assignment_entry exactArith
    (L.addToken [] TokenType.ENDOFFILE) 0
    ⟨"y".toList, TokenType.IDENTIFIER, 1, 1⟩ ⟨"=".toList, TokenType.EQUALOPERATOR, 1, 2⟩
    ⟨"hi".toList, TokenType.STRING, 1, 7⟩ ⟨"\n".toList, TokenType.NEWLINE, 1, 8⟩
    [⟨[], TokenType.ENDOFFILE, L.line, L.column - 0⟩] "string".toList "hi".toList
    (by simp [addToken, htok]) rfl (by simp [addToken, htok]) rfl (by simp [addToken, htok])
    rfl (by simp [addToken, herr]) rfl
  refine ⟨L, hloop, hy, rfl, by rw [k1], k5 _ hy, k2.trans herr, ?_, ⟨_, rfl, rfl, rfl⟩⟩
  have hlen : (create "y = \"hi\"\n".toList [0]).rest.length = 9 := rfl
  unfold tokenize
  rw [hlen, hloop, Option.some_bind]
  unfold processAssignments
  have hn0 : (L.addToken [] TokenType.ENDOFFILE).tokens.length = 4 + 1 := by
    simp [addToken, htok]
  have k4 : (processAssignmentsStep exactArith 0 (L.addToken [] TokenType.ENDOFFILE)).2.tokens =
      (L.addToken [] TokenType.ENDOFFILE).tokens := by
    rw [k1]
  have k1' : (processAssignmentsStep exactArith 0 (L.addToken [] TokenType.ENDOFFILE)).1 = 3 := by
    rw [k1]
  rw [hn0, processAssignmentsLoop_step _ 4 0 _ (by rw [hn0]; omega), k1']
  refine processAssignmentsLoop_rest exactArith 4 3 _ (fun j t hj h => ?_)
    (by rw [k4, hn0]; omega)
  rw [k4] at h
  have hj2 : j = 3 ∨ j = 4 ∨ 5 ≤ j := by omega
  rcases hj2 with rfl | rfl | hj2
  · simp only [addToken, htok, List.cons_append, List.nil_append, List.get?_eq_getElem?] at h
    obtain rfl := Option.some.inj h
    exact ⟨by simp, by simp, by simp⟩
  · simp only [addToken, htok, List.cons_append, List.nil_append, List.get?_eq_getElem?] at h
    obtain rfl := Option.some.inj h
    exact ⟨by simp, by simp, by simp⟩
  · rw [List.get?_eq_getElem?, List.getElem?_eq_none (by rw [hn0]; omega)] at h
    exact absurd h (by simp)

end PythonLexer
end PyAnalyzer
